import Mathlib

/-! libCellML generator: equation analysis and code generation.

A shallow embedding of `src/generator.cpp` (the analyser part of
`Generator::GeneratorImpl::processModel`, `GeneratorEquation::check`, the
unit-scaling pass and the code-generation back end) together with the
properties proved about it.

Conventions of the embedding

* `size_t` values are natural numbers below `2 ^ 64`; `MAX_SIZE_T` is the
  sentinel the source uses for "not set", and `++x` is `sizeIncr x`.
* Shared pointers to records of the variable registry and to equations are
  natural numbers: positions in `GeneratorImpl.variableStore` and
  `GeneratorImpl.equationStore`.  The lists `mInternalVariables` and
  `mEquations` hold such pointers, as the `std::list`s of the source do.
* A `VariablePtr` is an `Option Variable`; `none` is `nullptr`.
-/

namespace libcellml

/-! ## Machine integers -/

/-- The constant `MAX_SIZE_T` (`std::numeric_limits<size_t>::max()`), for a 64-bit `size_t`. -/
def MAX_SIZE_T : Nat := 18446744073709551615

/-- The pre-increment `++x` of a `size_t`: it wraps from `MAX_SIZE_T` to `0`. -/
def sizeIncr (x : Nat) : Nat := (x + 1) % 18446744073709551616

/-! ## The external model -/

/-- A `libcellml::Variable` as the generator sees it.  `ident` stands for the
identity of the object; `parent` is the name of the owning component. -/
structure Variable where
  ident : Nat
  name : String
  initialValue : String
  units : String
  parent : String
deriving DecidableEq, Repr, Inhabited

/-- A `libcellml::Component` as `GeneratorEquation::check` sees it: a name and
the ordered list of its variables. -/
structure Component where
  name : String
  variableList : List Variable
deriving DecidableEq, Repr, Inhabited

/-- The function `sameOrEquivalentVariable`: the two pointers are the same or
the variables are equivalent, directly or indirectly.  The equivalence query
`Variable::hasEquivalentVariable(_, true)` belongs to the external model and
is a parameter. -/
def sameOrEquivalentVariable (hasEquivalentVariable : Variable → Variable → Bool)
    (variable1 variable2 : Option Variable) : Bool :=
  decide (variable1 = variable2) ||
    (match variable1, variable2 with
     | some v1, some v2 => hasEquivalentVariable v1 v2
     | _, _ => false)

/-! ## The variable registry -/

/-- The enumeration `GeneratorInternalVariable::Type`. -/
inductive GeneratorInternalVariableType where
  | UNKNOWN
  | SHOULD_BE_STATE
  | VARIABLE_OF_INTEGRATION
  | STATE
  | CONSTANT
  | COMPUTED_TRUE_CONSTANT
  | COMPUTED_VARIABLE_BASED_CONSTANT
  | ALGEBRAIC
  | OVERCONSTRAINED
deriving DecidableEq, Repr, Inhabited

/-- The struct `GeneratorInternalVariable`.  `mEquation` is the weak pointer to
the equation that computes the variable.  `mInitialValueVariable` is set by
the constructor and never null; `mVariable` can be made null by `check`. -/
structure GeneratorInternalVariable where
  mIndex : Nat := MAX_SIZE_T
  mType : GeneratorInternalVariableType := GeneratorInternalVariableType.UNKNOWN
  mInitialValueVariable : Variable := default
  mVariable : Option Variable := none
  mEquation : Option Nat := none
deriving DecidableEq, Repr

/-- The record read through a pointer that points to no record: it has the
default values of the members. -/
instance : Inhabited GeneratorInternalVariable := ⟨{}⟩

/-- The method `GeneratorInternalVariable::setVariable`. -/
def GeneratorInternalVariable.setVariable (self : GeneratorInternalVariable)
    (var : Variable) : GeneratorInternalVariable :=
  let self := { self with mInitialValueVariable := var, mVariable := some var }
  if var.initialValue ≠ "" then
    { self with mType := GeneratorInternalVariableType.CONSTANT }
  else self

/-- The method `GeneratorInternalVariable::makeVoi`. -/
def GeneratorInternalVariable.makeVoi (self : GeneratorInternalVariable) :
    GeneratorInternalVariable :=
  { self with mType := GeneratorInternalVariableType.VARIABLE_OF_INTEGRATION }

/-- The method `GeneratorInternalVariable::makeState`. -/
def GeneratorInternalVariable.makeState (self : GeneratorInternalVariable) :
    GeneratorInternalVariable :=
  if self.mType = GeneratorInternalVariableType.UNKNOWN then
    { self with mType := GeneratorInternalVariableType.SHOULD_BE_STATE }
  else if self.mType = GeneratorInternalVariableType.CONSTANT then
    { self with mType := GeneratorInternalVariableType.STATE }
  else self

/-! ## Expression trees -/

/-- The enumeration `GeneratorEquationAst::Type`. -/
inductive GeneratorEquationAstType where
  | ASSIGNMENT
  | EQ | NEQ | LT | LEQ | GT | GEQ | AND | OR | XOR | NOT
  | PLUS | MINUS | TIMES | DIVIDE | POWER | ROOT | ABS | EXP | LN | LOG
  | CEILING | FLOOR | MIN | MAX | REM
  | DIFF
  | SIN | COS | TAN | SEC | CSC | COT | SINH | COSH | TANH | SECH | CSCH | COTH
  | ASIN | ACOS | ATAN | ASEC | ACSC | ACOT | ASINH | ACOSH | ATANH | ASECH | ACSCH | ACOTH
  | PIECEWISE | PIECE | OTHERWISE
  | CI | CN
  | DEGREE | LOGBASE | BVAR
  | TRUE | FALSE | E | PI | INF | NAN
deriving DecidableEq, Repr, Inhabited

/-- A `GeneratorEquationAstPtr` and the tree below it: `null` is `nullptr`, a
`node` carries `mType`, `mValue`, `mVariable`, `mLeft` and `mRight`.  The
parent link `mParent` of the source is not stored: the functions that read it
receive the ancestors of the node they visit. -/
inductive GeneratorEquationAst where
  | null : GeneratorEquationAst
  | node (mType : GeneratorEquationAstType) (mValue : String) (mVariable : Option Variable)
      (mLeft mRight : GeneratorEquationAst) : GeneratorEquationAst
deriving DecidableEq, Repr, Inhabited

namespace GeneratorEquationAst

/-- Whether the pointer is not `nullptr`. -/
def isNode : GeneratorEquationAst → Bool
  | null => false
  | node _ _ _ _ _ => true

/-- The field `mType`, when the pointer is not `nullptr`. -/
def mType? : GeneratorEquationAst → Option GeneratorEquationAstType
  | null => none
  | node t _ _ _ _ => some t

/-- The test `ast != nullptr && ast->mType == t`. -/
def hasType (ast : GeneratorEquationAst) (t : GeneratorEquationAstType) : Bool :=
  decide (ast.mType? = some t)

/-- The field `mValue` (the empty string behind `nullptr`). -/
def mValue : GeneratorEquationAst → String
  | null => ""
  | node _ v _ _ _ => v

/-- The field `mVariable`. -/
def mVariable : GeneratorEquationAst → Option Variable
  | null => none
  | node _ _ v _ _ => v

/-- The field `mLeft`. -/
def mLeft : GeneratorEquationAst → GeneratorEquationAst
  | null => null
  | node _ _ _ l _ => l

/-- The field `mRight`. -/
def mRight : GeneratorEquationAst → GeneratorEquationAst
  | null => null
  | node _ _ _ _ r => r

end GeneratorEquationAst

/-! ## Equations -/

/-- The enumeration `GeneratorEquation::Type`. -/
inductive GeneratorEquationType where
  | UNKNOWN
  | TRUE_CONSTANT
  | VARIABLE_BASED_CONSTANT
  | RATE
  | ALGEBRAIC
deriving DecidableEq, Repr, Inhabited

/-- The struct `GeneratorEquation`, with the default values of its members.
`mDependencies` holds pointers to equations, `mVariables`, `mOdeVariables` and
`mVariable` pointers to records of the variable registry. -/
structure GeneratorEquation where
  mOrder : Nat := MAX_SIZE_T
  mType : GeneratorEquationType := GeneratorEquationType.UNKNOWN
  mDependencies : List Nat := []
  mAst : GeneratorEquationAst :=
    GeneratorEquationAst.node GeneratorEquationAstType.ASSIGNMENT "" none
      GeneratorEquationAst.null GeneratorEquationAst.null
  mVariables : List Nat := []
  mOdeVariables : List Nat := []
  mVariable : Option Nat := none
  mComponent : Component := default
  mComputedTrueConstant : Bool := true
  mComputedVariableBasedConstant : Bool := true
  mIsStateRateBased : Bool := false
deriving DecidableEq, Repr

/-- The equation read through a pointer that points to no equation: it has the
default values of the members. -/
instance : Inhabited GeneratorEquation := ⟨{}⟩

/-! ## The profile -/

/-- The strings and flags of `GeneratorProfile` that the embedded functions
read, with the values of the default (C) profile. -/
structure GeneratorProfile where
  hasInterface : Bool := true
  assignmentString : String := " = "
  eqString : String := " == "
  neqString : String := " != "
  ltString : String := " < "
  leqString : String := " <= "
  gtString : String := " > "
  geqString : String := " >= "
  andString : String := " && "
  orString : String := " || "
  xorString : String := "xor"
  notString : String := "!"
  hasEqOperator : Bool := true
  hasNeqOperator : Bool := true
  hasLtOperator : Bool := true
  hasLeqOperator : Bool := true
  hasGtOperator : Bool := true
  hasGeqOperator : Bool := true
  hasAndOperator : Bool := true
  hasOrOperator : Bool := true
  hasXorOperator : Bool := false
  hasNotOperator : Bool := true
  plusString : String := "+"
  minusString : String := "-"
  timesString : String := "*"
  divideString : String := "/"
  powerString : String := "pow"
  squareRootString : String := "sqrt"
  squareString : String := ""
  absoluteValueString : String := "fabs"
  exponentialString : String := "exp"
  napierianLogarithmString : String := "log"
  commonLogarithmString : String := "log10"
  ceilingString : String := "ceil"
  floorString : String := "floor"
  minString : String := "min"
  maxString : String := "max"
  remString : String := "fmod"
  hasPowerOperator : Bool := false
  sinString : String := "sin"
  cosString : String := "cos"
  tanString : String := "tan"
  secString : String := "sec"
  cscString : String := "csc"
  cotString : String := "cot"
  sinhString : String := "sinh"
  coshString : String := "cosh"
  tanhString : String := "tanh"
  sechString : String := "sech"
  cschString : String := "csch"
  cothString : String := "coth"
  asinString : String := "asin"
  acosString : String := "acos"
  atanString : String := "atan"
  asecString : String := "asec"
  acscString : String := "acsc"
  acotString : String := "acot"
  asinhString : String := "asinh"
  acoshString : String := "acosh"
  atanhString : String := "atanh"
  asechString : String := "asech"
  acschString : String := "acsch"
  acothString : String := "acoth"
  conditionalOperatorIfString : String := "(<CONDITION>)?<IF_STATEMENT>"
  conditionalOperatorElseString : String := ":<ELSE_STATEMENT>"
  piecewiseIfString : String := ""
  piecewiseElseString : String := ""
  hasConditionalOperator : Bool := true
  trueString : String := "1.0"
  falseString : String := "0.0"
  eString : String := "2.71828182845905"
  piString : String := "3.14159265358979"
  infString : String := "1.0/0.0"
  nanString : String := "sqrt(-1.0)"
  voiString : String := "voi"
  statesArrayString : String := "states"
  ratesArrayString : String := "rates"
  variablesArrayString : String := "variables"
  openArrayString : String := "["
  closeArrayString : String := "]"
  indentString : String := "    "
  commandSeparatorString : String := ";"
  emptyMethodString : String := ""
  implementationInitializeStatesAndConstantsMethodString : String :=
    "void initializeStatesAndConstants(double *states, double *variables)\n\x7b\n<CODE>\x7d\n"
  implementationComputeComputedConstantsMethodString : String :=
    "void computeComputedConstants(double *variables)\n\x7b\n<CODE>\x7d\n"
  implementationComputeRatesMethodString : String :=
    "void computeRates(double voi, double *states, double *rates, double *variables)\n\x7b\n<CODE>\x7d\n"
  implementationComputeVariablesMethodString : String :=
    "void computeVariables(double voi, double *states, double *rates, double *variables)\n\x7b\n<CODE>\x7d\n"
  eqFunctionString : String := ""
  neqFunctionString : String := ""
  ltFunctionString : String := ""
  leqFunctionString : String := ""
  gtFunctionString : String := ""
  geqFunctionString : String := ""
  andFunctionString : String := ""
  orFunctionString : String := ""
  xorFunctionString : String :=
    "double xor(double x, double y)\n\x7b\n    return (x != 0.0) ^ (y != 0.0);\n\x7d\n"
  notFunctionString : String := ""
  minFunctionString : String :=
    "double min(double x, double y)\n\x7b\n    return (x < y)?x:y;\n\x7d\n"
  maxFunctionString : String :=
    "double max(double x, double y)\n\x7b\n    return (x > y)?x:y;\n\x7d\n"
deriving DecidableEq, Repr, Inhabited

/-! ## The generator -/

/-- The enumeration `Generator::ModelType`. -/
inductive ModelType where
  | UNKNOWN
  | ALGEBRAIC
  | ODE
  | INVALID
  | UNDERCONSTRAINED
  | OVERCONSTRAINED
  | UNSUITABLY_CONSTRAINED
deriving DecidableEq, Repr, Inhabited

/-- The enumeration `GeneratorVariable::Type`. -/
inductive GeneratorVariableType where
  | VARIABLE_OF_INTEGRATION
  | STATE
  | CONSTANT
  | COMPUTED_CONSTANT
  | ALGEBRAIC
deriving DecidableEq, Repr, Inhabited

/-- The class `GeneratorVariable` (its `GeneratorVariableImpl`). -/
structure GeneratorVariable where
  mInitialValueVariable : Option Variable := none
  mVariable : Option Variable := none
  mType : GeneratorVariableType := GeneratorVariableType.CONSTANT
deriving DecidableEq, Repr, Inhabited

/-- The struct `Generator::GeneratorImpl`.  `variableStore` and `equationStore`
hold the objects that the shared pointers of the source point to; `errors`
holds the descriptions of the errors added to `mGenerator`.  The functions
that render code take the profile as an argument: they are called with
`mProfile`. -/
structure GeneratorImpl where
  mModelType : ModelType := ModelType.UNKNOWN
  variableStore : List GeneratorInternalVariable := []
  equationStore : List GeneratorEquation := []
  mInternalVariables : List Nat := []
  mEquations : List Nat := []
  mVoi : Option GeneratorVariable := none
  mStates : List GeneratorVariable := []
  mVariables : List GeneratorVariable := []
  mProfile : GeneratorProfile := {}
  mNeedEq : Bool := false
  mNeedNeq : Bool := false
  mNeedLt : Bool := false
  mNeedLeq : Bool := false
  mNeedGt : Bool := false
  mNeedGeq : Bool := false
  mNeedAnd : Bool := false
  mNeedOr : Bool := false
  mNeedXor : Bool := false
  mNeedNot : Bool := false
  mNeedMin : Bool := false
  mNeedMax : Bool := false
  mNeedSec : Bool := false
  mNeedCsc : Bool := false
  mNeedCot : Bool := false
  mNeedSech : Bool := false
  mNeedCsch : Bool := false
  mNeedCoth : Bool := false
  mNeedAsec : Bool := false
  mNeedAcsc : Bool := false
  mNeedAcot : Bool := false
  mNeedAsech : Bool := false
  mNeedAcsch : Bool := false
  mNeedAcoth : Bool := false
  errors : List String := []
deriving DecidableEq, Repr, Inhabited

namespace GeneratorImpl

/-- Dereference of a `GeneratorInternalVariablePtr`. -/
def internalVariable (g : GeneratorImpl) (p : Nat) : GeneratorInternalVariable :=
  g.variableStore.getD p default

/-- Dereference of a `GeneratorEquationPtr`. -/
def equation (g : GeneratorImpl) (p : Nat) : GeneratorEquation :=
  g.equationStore.getD p default

/-- Assignment through a `GeneratorInternalVariablePtr`. -/
def setInternalVariable (g : GeneratorImpl) (p : Nat) (x : GeneratorInternalVariable) :
    GeneratorImpl :=
  { g with variableStore := g.variableStore.set p x }

/-- Assignment through a `GeneratorEquationPtr`. -/
def setEquation (g : GeneratorImpl) (p : Nat) (x : GeneratorEquation) : GeneratorImpl :=
  { g with equationStore := g.equationStore.set p x }

/-- The call `mGenerator->errorCount()`. -/
def errorCount (g : GeneratorImpl) : Nat := g.errors.length

end GeneratorImpl

/-! ## The model and the registry lookup -/

/-- A component of the model with the components it encapsulates
(`Component::component(i)`). -/
inductive ComponentEntity where
  | mk (component : Component) (components : List ComponentEntity) : ComponentEntity
deriving Repr, Inhabited

/-- An `XmlNode` as `processNode` sees it: `mathml` tells whether the node is an
element in the MathML namespace (`isMathmlElement()`), `name` is the name of
the element, `convertToString` is the text that `convertToString()` returns
and `children` are the nodes reached with `firstChild()` and `next()`. -/
inductive XmlNode where
  | mk (mathml : Bool) (name : String) (convertToString : String) (children : List XmlNode) :
      XmlNode
deriving Repr, Inhabited

namespace XmlNode

/-- The test `isMathmlElement()`: an element in the MathML namespace. -/
def mathml : XmlNode → Bool
  | mk b _ _ _ => b

/-- The name of the element. -/
def name : XmlNode → String
  | mk _ n _ _ => n

/-- The method `XmlNode::convertToString`. -/
def convertToString : XmlNode → String
  | mk _ _ s _ => s

/-- The children of the node, in the order of `firstChild()` and `next()`. -/
def children : XmlNode → List XmlNode
  | mk _ _ _ cs => cs

/-- The method `XmlNode::isMathmlElement(name)`. -/
def isMathmlElement (node : XmlNode) (name : String) : Bool :=
  node.mathml && decide (node.name = name)

end XmlNode

/-- What the analysis needs of its environment: the components of the model
(`model->component(i)`), the equivalence query of the external model
(`Variable::hasEquivalentVariable(_, true)`) and, for every component, the root
node of the document that `XmlDoc::parseMathML` makes of `component->math()`
(`none` when the string is empty). -/
structure Model where
  components : List ComponentEntity
  hasEquivalentVariable : Variable → Variable → Bool
  math : Component → Option XmlNode := fun _ => none

/-- The method `Generator::GeneratorImpl::generatorVariable`: the record
whose variable is the same as, or equivalent to, the given one; a new record is
created, tracked and returned when there is none. -/
def generatorVariable (m : Model) (g : GeneratorImpl) (var : Variable) : GeneratorImpl × Nat :=
  match g.mInternalVariables.find? fun p =>
      sameOrEquivalentVariable m.hasEquivalentVariable (some var)
        (g.internalVariable p).mVariable with
  | some p => (g, p)
  | none =>
    ({ g with
        variableStore := g.variableStore ++ [GeneratorInternalVariable.setVariable {} var],
        mInternalVariables := g.mInternalVariables ++ [g.variableStore.length] },
      g.variableStore.length)

mutual
/-- The method `Generator::GeneratorImpl::variableFirstOccurrence`. -/
def variableFirstOccurrence (m : Model) (var : Variable) :
    ComponentEntity → Option GeneratorVariable
  | ComponentEntity.mk component components =>
    match component.variableList.find? fun testVariable =>
        sameOrEquivalentVariable m.hasEquivalentVariable (some var) (some testVariable) with
    | some testVariable =>
      some { mInitialValueVariable := some testVariable, mVariable := some testVariable,
             mType := GeneratorVariableType.VARIABLE_OF_INTEGRATION }
    | none => variableFirstOccurrenceIn m var components
/-- The first occurrence of the variable in a list of components, taken in order. -/
def variableFirstOccurrenceIn (m : Model) (var : Variable) :
    List ComponentEntity → Option GeneratorVariable
  | [] => none
  | c :: rest =>
    match variableFirstOccurrence m var c with
    | some voi => some voi
    | none => variableFirstOccurrenceIn m var rest
end

/-! ## The pre-pass over the trees: `processEquationAst` -/

/-- The call `mGenerator->addError(err)` with the given description. -/
def GeneratorImpl.addError (g : GeneratorImpl) (description : String) : GeneratorImpl :=
  { g with errors := g.errors ++ [description] }

/-- The first block of `processEquationAst`, for a `CI` node that is the
bound variable of a derivative: the variable is made the variable of integration,
and is checked against the one already found. -/
def processVoi (m : Model) (g : GeneratorImpl) (var : Variable) : GeneratorImpl :=
  let r := generatorVariable m g var
  let g := r.1.setInternalVariable r.2 (r.1.internalVariable r.2).makeVoi
  match g.mVoi with
  | none =>
    if var.initialValue ≠ "" then
      g.addError ("Variable '" ++ var.name ++ "' in component '" ++ var.parent
        ++ "' cannot be both a variable of integration and initialised.")
    else
      match variableFirstOccurrenceIn m var m.components with
      | some voi => { g with mVoi := some voi }
      | none => g
  | some voi =>
    if !sameOrEquivalentVariable m.hasEquivalentVariable (some var) voi.mVariable then
      g.addError ("Variable '" ++ (voi.mVariable.getD default).name
        ++ "' in component '" ++ (voi.mVariable.getD default).parent
        ++ "' and variable '" ++ var.name ++ "' in component '" ++ var.parent
        ++ "' cannot both be a variable of integration.")
    else g

/-- The method `Generator::GeneratorImpl::processEquationAst`, called on `ast`
with its parent, grand-parent and great-grand-parent (`nullptr` when there is
none).  The string `mValue` of a `CN` node is compared with `1.0` by
`isOne` (the source uses `convertToDouble(ast->mValue) != 1.0`).  `none`
means that the source dereferences a null pointer. -/
def processEquationAst (m : Model) (isOne : String → Bool) :
    GeneratorEquationAst → GeneratorEquationAst → GeneratorEquationAst → GeneratorEquationAst →
    GeneratorImpl → Option GeneratorImpl
  | GeneratorEquationAst.null, _, _, _, _ => none
  | GeneratorEquationAst.node t value var l r, astParent, astGrandParent, astGreatGrandParent, g =>
    let ast := GeneratorEquationAst.node t value var l r
    -- Look for the definition of a variable of integration.
    (if t = GeneratorEquationAstType.CI
        ∧ astParent.hasType GeneratorEquationAstType.BVAR
        ∧ astGrandParent.hasType GeneratorEquationAstType.DIFF then
      var.map fun v => processVoi m g v
     else some g).bind fun g =>
    -- Make sure that we only use first-order ODEs.
    (if t = GeneratorEquationAstType.CN
        ∧ astParent.hasType GeneratorEquationAstType.DEGREE
        ∧ astGrandParent.hasType GeneratorEquationAstType.BVAR
        ∧ astGreatGrandParent.hasType GeneratorEquationAstType.DIFF then
      if !isOne value then
        astGreatGrandParent.mRight.mVariable.map fun v =>
          g.addError ("The differential equation for variable '" ++ v.name
            ++ "' in component '" ++ v.parent ++ "' must be of the first order.")
      else some g
     else some g).bind fun g =>
    -- Make a variable a state if it is used in an ODE.
    (if t = GeneratorEquationAstType.CI
        ∧ astParent.hasType GeneratorEquationAstType.DIFF then
      var.map fun v =>
        let r := generatorVariable m g v
        r.1.setInternalVariable r.2 (r.1.internalVariable r.2).makeState
     else some g).bind fun g =>
    -- Recursively check the given AST's children.
    (if l.isNode then processEquationAst m isOne l ast astParent astGrandParent g
     else some g).bind fun g =>
    if r.isNode then processEquationAst m isOne r ast astParent astGrandParent g
    else some g

/-- The loop `for (const auto &equation : mEquations) processEquationAst(equation->mAst)`
of `processModel`. -/
def processEquationAsts (m : Model) (isOne : String → Bool) :
    List Nat → GeneratorImpl → Option GeneratorImpl
  | [], g => some g
  | equation :: rest, g =>
    (processEquationAst m isOne (g.equation equation).mAst GeneratorEquationAst.null
      GeneratorEquationAst.null GeneratorEquationAst.null g).bind
      fun g => processEquationAsts m isOne rest g

/-! ## `GeneratorEquation::check` -/

/-- The static method `GeneratorEquation::containsNonUnknownVariables`. -/
def containsNonUnknownVariables (g : GeneratorImpl) (vars : List Nat) : Bool :=
  vars.any fun v => decide ((g.internalVariable v).mType ≠ GeneratorInternalVariableType.UNKNOWN)

/-- The static method `GeneratorEquation::containsNonConstantVariables`. -/
def containsNonConstantVariables (g : GeneratorImpl) (vars : List Nat) : Bool :=
  vars.any fun v =>
    decide ((g.internalVariable v).mType ≠ GeneratorInternalVariableType.UNKNOWN)
    && decide ((g.internalVariable v).mType ≠ GeneratorInternalVariableType.CONSTANT)
    && decide ((g.internalVariable v).mType ≠ GeneratorInternalVariableType.COMPUTED_TRUE_CONSTANT)
    && decide ((g.internalVariable v).mType
                ≠ GeneratorInternalVariableType.COMPUTED_VARIABLE_BASED_CONSTANT)

/-- The static method `GeneratorEquation::knownVariable`. -/
def knownVariable (g : GeneratorImpl) (v : Nat) : Bool :=
  decide ((g.internalVariable v).mIndex ≠ MAX_SIZE_T)
  || decide ((g.internalVariable v).mType = GeneratorInternalVariableType.VARIABLE_OF_INTEGRATION)
  || decide ((g.internalVariable v).mType = GeneratorInternalVariableType.STATE)
  || decide ((g.internalVariable v).mType = GeneratorInternalVariableType.CONSTANT)
  || decide ((g.internalVariable v).mType = GeneratorInternalVariableType.COMPUTED_TRUE_CONSTANT)
  || decide ((g.internalVariable v).mType
              = GeneratorInternalVariableType.COMPUTED_VARIABLE_BASED_CONSTANT)

/-- The static method `GeneratorEquation::knownOdeVariable`. -/
def knownOdeVariable (g : GeneratorImpl) (v : Nat) : Bool :=
  decide ((g.internalVariable v).mIndex ≠ MAX_SIZE_T)
  || decide ((g.internalVariable v).mType = GeneratorInternalVariableType.VARIABLE_OF_INTEGRATION)

/-- The variable `(mVariables.size() == 1) ? mVariables.front() : mOdeVariables.front()`
of `check`; it is only read when the two lists hold one element together. -/
def soleVariable (this : GeneratorEquation) : Nat :=
  if this.mVariables.length = 1 then this.mVariables.headD 0 else this.mOdeVariables.headD 0

/-- The loop of `check` over `mVariables` that determines whether the equation
is state/rate based and collects, as dependencies, the equations that compute
the known variables.  It returns the new `mIsStateRateBased` and
`mDependencies`. -/
def checkDependencies (g : GeneratorImpl) :
    List Nat → Bool → List Nat → Bool × List Nat
  | [], isStateRateBased, dependencies => (isStateRateBased, dependencies)
  | v :: rest, isStateRateBased, dependencies =>
    if knownVariable g v then
      let equation := (g.internalVariable v).mEquation
      let isStateRateBased :=
        if !isStateRateBased then
          match equation with
          | none => decide ((g.internalVariable v).mType = GeneratorInternalVariableType.STATE)
          | some e => (g.equation e).mIsStateRateBased
        else isStateRateBased
      let dependencies :=
        match equation with
        | none => dependencies
        | some e => dependencies ++ [e]
      checkDependencies g rest isStateRateBased dependencies
    else checkDependencies g rest isStateRateBased dependencies

/-- The counters that `processModel` hands to `check` by reference. -/
structure Counters where
  equationOrder : Nat := MAX_SIZE_T
  stateIndex : Nat := MAX_SIZE_T
  variableIndex : Nat := MAX_SIZE_T
deriving DecidableEq, Repr, Inhabited

/-- The type given by `check` to a variable whose type is still unknown. -/
def computedType (this : GeneratorEquation) : GeneratorInternalVariableType :=
  if this.mComputedTrueConstant then GeneratorInternalVariableType.COMPUTED_TRUE_CONSTANT
  else if this.mComputedVariableBasedConstant then
    GeneratorInternalVariableType.COMPUTED_VARIABLE_BASED_CONSTANT
  else GeneratorInternalVariableType.ALGEBRAIC

/-- The type of an equation, from the type of the variable it computes. -/
def equationTypeOf (t : GeneratorInternalVariableType) : GeneratorEquationType :=
  if t = GeneratorInternalVariableType.STATE then GeneratorEquationType.RATE
  else if t = GeneratorInternalVariableType.COMPUTED_TRUE_CONSTANT then
    GeneratorEquationType.TRUE_CONSTANT
  else if t = GeneratorInternalVariableType.COMPUTED_VARIABLE_BASED_CONSTANT then
    GeneratorEquationType.VARIABLE_BASED_CONSTANT
  else GeneratorEquationType.ALGEBRAIC

/-- The test made by `check` on an equation without order: one (ODE) variable
is left, it has an index and it is neither unknown nor a would-be state, so
that the equation is an overconstraint. -/
def isOverconstraint (g : GeneratorImpl) (this : GeneratorEquation) : Bool :=
  decide (this.mVariables.length + this.mOdeVariables.length = 1)
  && decide ((g.internalVariable (soleVariable this)).mIndex ≠ MAX_SIZE_T)
  && decide ((g.internalVariable (soleVariable this)).mType
              ≠ GeneratorInternalVariableType.UNKNOWN)
  && decide ((g.internalVariable (soleVariable this)).mType
              ≠ GeneratorInternalVariableType.SHOULD_BE_STATE)

/-- The middle part of `check`: the flags `mComputedTrueConstant` and
`mComputedVariableBasedConstant`, the flag `mIsStateRateBased` and the
dependencies are updated from the known variables, which are then removed
from `mVariables` and `mOdeVariables`. -/
def updateTracking (g : GeneratorImpl) (this : GeneratorEquation) : GeneratorEquation :=
  -- State/rate based, and dependencies.
  let isStateRateBased :=
    if !this.mIsStateRateBased then !this.mOdeVariables.isEmpty else this.mIsStateRateBased
  let sd := checkDependencies g this.mVariables isStateRateBased this.mDependencies
  { this with
    -- Truly constant or variable-based constant.
    mComputedTrueConstant := this.mComputedTrueConstant
      && !containsNonUnknownVariables g this.mVariables
      && !containsNonUnknownVariables g this.mOdeVariables,
    mComputedVariableBasedConstant := this.mComputedVariableBasedConstant
      && !containsNonConstantVariables g this.mVariables
      && !containsNonConstantVariables g this.mOdeVariables,
    mIsStateRateBased := sd.1,
    mDependencies := sd.2,
    -- Stop tracking (new) known (ODE) variables.
    mVariables := this.mVariables.filter fun v => !knownVariable g v,
    mOdeVariables := this.mOdeVariables.filter fun v => !knownOdeVariable g v }

/-- The update made by `check` to the one (ODE) variable that is left: its
`mVariable` becomes the variable of the component of the equation that is the
same or equivalent, and its type is computed when it is unknown. -/
def updateVariable (hasEquivalentVariable : Variable → Variable → Bool)
    (this : GeneratorEquation) (var : GeneratorInternalVariable) : GeneratorInternalVariable :=
  let realVariable := this.mComponent.variableList.find? fun testVariable =>
    sameOrEquivalentVariable hasEquivalentVariable var.mVariable (some testVariable)
  let var := { var with mVariable := realVariable }
  if var.mType = GeneratorInternalVariableType.UNKNOWN then
    { var with mType := computedType this }
  else var

/-- The types of variable for which `check` gives an index to the variable and
an order to the equation. -/
def isComputable (t : GeneratorInternalVariableType) : Bool :=
  decide (t = GeneratorInternalVariableType.STATE)
  || decide (t = GeneratorInternalVariableType.COMPUTED_TRUE_CONSTANT)
  || decide (t = GeneratorInternalVariableType.COMPUTED_VARIABLE_BASED_CONSTANT)
  || decide (t = GeneratorInternalVariableType.ALGEBRAIC)

/-- The counters after `++stateIndex` (for a state) or `++variableIndex` and
`++equationOrder`. -/
def nextCounters (t : GeneratorInternalVariableType) (c : Counters) : Counters :=
  if t = GeneratorInternalVariableType.STATE then
    { c with stateIndex := sizeIncr c.stateIndex, equationOrder := sizeIncr c.equationOrder }
  else
    { c with variableIndex := sizeIncr c.variableIndex,
             equationOrder := sizeIncr c.equationOrder }

/-- The index that `check` gives to a variable of type `t`, from the counters
that have just been incremented. -/
def assignedIndex (t : GeneratorInternalVariableType) (c : Counters) : Nat :=
  if t = GeneratorInternalVariableType.STATE then c.stateIndex else c.variableIndex

/-- The method `GeneratorEquation::check`, called on the equation `self` with
the three counters of `processModel`.  It returns the new state, the new
counters and the value returned by the source. -/
def check (hasEquivalentVariable : Variable → Variable → Bool)
    (g : GeneratorImpl) (self : Nat) (c : Counters) : GeneratorImpl × Counters × Bool :=
  -- Nothing to check if the equation has already been given an order.
  if (g.equation self).mOrder ≠ MAX_SIZE_T then (g, c, false)
  else if isOverconstraint g (g.equation self) then
    (g.setInternalVariable (soleVariable (g.equation self))
        { g.internalVariable (soleVariable (g.equation self)) with
          mType := GeneratorInternalVariableType.OVERCONSTRAINED }, c, false)
  else
    let this := updateTracking g (g.equation self)
    -- If there is one (ODE) variable left.
    if this.mVariables.length + this.mOdeVariables.length = 1 then
      let p := soleVariable this
      let var := updateVariable hasEquivalentVariable this (g.internalVariable p)
      if isComputable var.mType then
        let c := nextCounters var.mType c
        ((g.setInternalVariable p
            { var with mIndex := assignedIndex var.mType c, mEquation := some self }).setEquation
          self
            { this with
              mOrder := c.equationOrder, mType := equationTypeOf var.mType,
              mVariable := some p },
          c, true)
      else ((g.setInternalVariable p var).setEquation self this, c, false)
    else (g.setEquation self this, c, false)

/-- One pass of the loop `for (const auto &equation : mEquations)` of
`processModel`, with `relevantCheck` as accumulator. -/
def checkEquations (hasEquivalentVariable : Variable → Variable → Bool) :
    List Nat → GeneratorImpl → Counters → Bool → GeneratorImpl × Counters × Bool
  | [], g, c, relevantCheck => (g, c, relevantCheck)
  | equation :: rest, g, c, relevantCheck =>
    let r := check hasEquivalentVariable g equation c
    checkEquations hasEquivalentVariable rest r.1 r.2.1 (r.2.2 || relevantCheck)

/-- The loop `for (;;)` of `processModel`: full scans of the equations until
one of them has no relevant check.  Every scan uses one unit of `fuel`;
`none` means that the fuel ran out before the loop was left. -/
def resolveEquations (hasEquivalentVariable : Variable → Variable → Bool) :
    Nat → GeneratorImpl → Counters → Option (GeneratorImpl × Counters)
  | 0, _, _ => none
  | fuel + 1, g, c =>
    let r := checkEquations hasEquivalentVariable g.mEquations g c false
    if !r.2.2 then some (r.1, r.2.1)
    else resolveEquations hasEquivalentVariable fuel r.1 r.2.1

/-! ## Sorting -/

/-- The comparison `a < b` of two `std::string`s: lexicographic, character by
character. -/
def lexLess : List Char → List Char → Bool
  | _, [] => false
  | [], _ :: _ => true
  | a :: as, b :: bs => decide (a.toNat < b.toNat) || (decide (a.toNat = b.toNat) && lexLess as bs)

/-- The operator `<` on `std::string`. -/
def stringLess (a b : String) : Bool := lexLess a.data b.data

/-- Insertion of `a` in front of a sorted list: `a` is put before the first
element that is not strictly less than it. -/
def insertSorted {α : Type} (less : α → α → Bool) (a : α) : List α → List α
  | [] => [a]
  | b :: l => if less b a then b :: insertSorted less a l else a :: b :: l

/-- The method `std::list::sort(comp)`: a stable sort, so that its result is
fixed by the comparison `comp`. -/
def listSort {α : Type} (less : α → α → Bool) : List α → List α
  | [] => []
  | a :: l => insertSorted less a (listSort less l)

/-- The rank of a value of `GeneratorInternalVariable::Type` in the enumeration. -/
def GeneratorInternalVariableType.toNat : GeneratorInternalVariableType → Nat
  | UNKNOWN => 0
  | SHOULD_BE_STATE => 1
  | VARIABLE_OF_INTEGRATION => 2
  | STATE => 3
  | CONSTANT => 4
  | COMPUTED_TRUE_CONSTANT => 5
  | COMPUTED_VARIABLE_BASED_CONSTANT => 6
  | ALGEBRAIC => 7
  | OVERCONSTRAINED => 8

/-- The static method `compareVariablesByName`. -/
def compareVariablesByName (g : GeneratorImpl) (variable1 variable2 : Nat) : Bool :=
  let realVariable1 := (g.internalVariable variable1).mInitialValueVariable
  let realVariable2 := (g.internalVariable variable2).mInitialValueVariable
  if realVariable1.parent = realVariable2.parent then
    stringLess realVariable1.name realVariable2.name
  else stringLess realVariable1.parent realVariable2.parent

/-- The static method `compareVariablesByTypeAndIndex`. -/
def compareVariablesByTypeAndIndex (g : GeneratorImpl) (variable1 variable2 : Nat) : Bool :=
  if (g.internalVariable variable1).mType = (g.internalVariable variable2).mType then
    decide ((g.internalVariable variable1).mIndex < (g.internalVariable variable2).mIndex)
  else
    decide ((g.internalVariable variable1).mType.toNat < (g.internalVariable variable2).mType.toNat)

/-- The static method `compareEquationsByVariable`, for two equations whose
`mVariable` is not null. -/
def compareEquationsByVariable (g : GeneratorImpl) (equation1 equation2 : Nat) : Bool :=
  compareVariablesByTypeAndIndex g ((g.equation equation1).mVariable.getD 0)
    ((g.equation equation2).mVariable.getD 0)

/-! ## `processModel`: resolution and classification -/

/-- The loop of `processModel` that gives an index to the constants; it
returns the new value of `variableIndex`. -/
def indexConstants : List Nat → GeneratorImpl → Nat → GeneratorImpl × Nat
  | [], g, variableIndex => (g, variableIndex)
  | p :: rest, g, variableIndex =>
    if (g.internalVariable p).mType = GeneratorInternalVariableType.CONSTANT then
      indexConstants rest
        (g.setInternalVariable p { g.internalVariable p with mIndex := sizeIncr variableIndex })
        (sizeIncr variableIndex)
    else indexConstants rest g variableIndex

/-- The text `errorType` that `processModel` gives to a type of variable
(empty for a valid one). -/
def errorType : GeneratorInternalVariableType → String
  | GeneratorInternalVariableType.UNKNOWN => "is not computed"
  | GeneratorInternalVariableType.SHOULD_BE_STATE => "is used in an ODE, but it is not initialised"
  | GeneratorInternalVariableType.OVERCONSTRAINED => "is computed more than once"
  | _ => ""

/-- The loop of `processModel` that makes sure that the variables are valid:
one error for every record whose `errorType` is not empty.  (The record's
`mVariable` is dereferenced; it is not null when the equivalence of the
model is transitive.) -/
def reportInvalidVariables : List Nat → GeneratorImpl → GeneratorImpl
  | [], g => g
  | p :: rest, g =>
    if errorType (g.internalVariable p).mType ≠ "" then
      reportInvalidVariables rest
        (g.addError ("Variable '" ++ ((g.internalVariable p).mVariable.getD default).name
          ++ "' in component '" ++ ((g.internalVariable p).mVariable.getD default).parent
          ++ "' " ++ errorType (g.internalVariable p).mType ++ "."))
    else reportInvalidVariables rest g

/-- The flag `hasUnderconstrainedVariables` of `processModel`. -/
def hasUnderconstrainedVariables (g : GeneratorImpl) : Bool :=
  g.mInternalVariables.any fun p =>
    decide ((g.internalVariable p).mType = GeneratorInternalVariableType.UNKNOWN)
    || decide ((g.internalVariable p).mType = GeneratorInternalVariableType.SHOULD_BE_STATE)

/-- The flag `hasOverconstrainedVariables` of `processModel`. -/
def hasOverconstrainedVariables (g : GeneratorImpl) : Bool :=
  g.mInternalVariables.any fun p =>
    decide ((g.internalVariable p).mType = GeneratorInternalVariableType.OVERCONSTRAINED)

/-- The block of `processModel` that determines the type of the model. -/
def determineModelType (g : GeneratorImpl) : GeneratorImpl :=
  if hasUnderconstrainedVariables g then
    if hasOverconstrainedVariables g then
      { g with mModelType := ModelType.UNSUITABLY_CONSTRAINED }
    else { g with mModelType := ModelType.UNDERCONSTRAINED }
  else if hasOverconstrainedVariables g then
    { g with mModelType := ModelType.OVERCONSTRAINED }
  else if g.mVoi ≠ none then { g with mModelType := ModelType.ODE }
  else if !g.mInternalVariables.isEmpty then { g with mModelType := ModelType.ALGEBRAIC }
  else g

/-- The pre-pass of `processModel`: the trees of the equations are processed
when the components were processed without error. -/
def prePass (m : Model) (isOne : String → Bool) (g : GeneratorImpl) : Option GeneratorImpl :=
  if g.errorCount = 0 then processEquationAsts m isOne g.mEquations g else some g

/-- The state in which `processModel` enters its loop `for (;;)`: the records
are sorted by name and the constants are given their index. -/
def enterResolution (g : GeneratorImpl) : GeneratorImpl × Counters :=
  let g := { g with mInternalVariables := listSort (compareVariablesByName g) g.mInternalVariables }
  let r := indexConstants g.mInternalVariables g MAX_SIZE_T
  (r.1, { equationOrder := MAX_SIZE_T, stateIndex := MAX_SIZE_T, variableIndex := r.2 })

/-- The part of `processModel` that follows the pre-pass, up to and including
the determination of the type of the model.  The loop `for (;;)` is run with
one unit of fuel per equation plus one. -/
def classifyModel (m : Model) (g : GeneratorImpl) : Option GeneratorImpl :=
  if g.errorCount = 0 then
    let s := enterResolution g
    (resolveEquations m.hasEquivalentVariable (g.mEquations.length + 1) s.1 s.2).map fun r =>
      determineModelType (reportInvalidVariables r.1.mInternalVariables r.1)
  else some { g with mModelType := ModelType.INVALID }

/-- The members that `processModel` resets before it processes the components
and that the processing of the components does not write: the type of the
model, the variable of integration and the published states and variables. -/
def resetResults (g : GeneratorImpl) : GeneratorImpl :=
  { g with mModelType := ModelType.UNKNOWN, mVoi := none, mStates := [], mVariables := [] }

/-- The analysis made by `processModel`, from the point where the components
have been processed (`g` is the generator after the loop over the components
of the model) to the point where the type of the model is known. -/
def analyseModel (m : Model) (isOne : String → Bool) (g : GeneratorImpl) :
    Option GeneratorImpl :=
  (prePass m isOne (resetResults g)).bind (classifyModel m)

/-! ## The unit-scaling pass: `scaleEquationAst`

`scaleEquationAst` rewrites a tree in place through the links `mParent`,
`mLeft` and `mRight` of its nodes.  It is embedded on a memory of nodes, in
which a `GeneratorEquationAstPtr` is a position.  -/

/-- A `GeneratorEquationAst` object in memory, with its three links. -/
structure AstCell where
  mType : GeneratorEquationAstType := GeneratorEquationAstType.ASSIGNMENT
  mValue : String := ""
  mVariable : Option Variable := none
  mParent : Option Nat := none
  mLeft : Option Nat := none
  mRight : Option Nat := none
deriving DecidableEq, Repr

/-- The node read through a pointer that points to no node. -/
instance : Inhabited AstCell := ⟨{}⟩

/-- The memory that holds the nodes of a tree. -/
structure AstMemory where
  cells : List AstCell := []
deriving DecidableEq, Repr, Inhabited

namespace AstMemory

/-- Dereference of a `GeneratorEquationAstPtr`. -/
def cell (mem : AstMemory) (p : Nat) : AstCell := mem.cells.getD p default

/-- The number of objects in memory: the pointer that `std::make_shared`
returns next. -/
def length (mem : AstMemory) : Nat := mem.cells.length

/-- The call `std::make_shared<GeneratorEquationAst>(...)`: a new object. -/
def push (mem : AstMemory) (c : AstCell) : AstMemory := { cells := mem.cells ++ [c] }

/-- Assignment through a `GeneratorEquationAstPtr`. -/
def set (mem : AstMemory) (p : Nat) (c : AstCell) : AstMemory := { cells := mem.cells.set p c }

/-- The tree `ast` laid out in memory below the node `parent`, as
`processNode` builds it: every node records its parent.  The result is the
pointer to the root of the tree (`none` for `nullptr`) and the new memory. -/
def ofTree : GeneratorEquationAst → Option Nat → AstMemory → Option Nat × AstMemory
  | GeneratorEquationAst.null, _, mem => (none, mem)
  | GeneratorEquationAst.node t value var l r, parent, mem =>
    let self := mem.length
    let mem := mem.push ({ mType := t, mValue := value, mVariable := var, mParent := parent })
    let rl := ofTree l (some self) mem
    let rr := ofTree r (some self) rl.2
    (some self, rr.2.set self { rr.2.cell self with mLeft := rl.1, mRight := rr.1 })

/-- The tree found in memory below a pointer, following `mLeft` and `mRight`.
The depth of the tree read is bounded by `fuel`; `none` when it is deeper. -/
def toTree (mem : AstMemory) : Nat → Option Nat → Option GeneratorEquationAst
  | _, none => some GeneratorEquationAst.null
  | 0, some _ => none
  | fuel + 1, some p =>
    (toTree mem fuel (mem.cell p).mLeft).bind fun l =>
    (toTree mem fuel (mem.cell p).mRight).map fun r =>
      GeneratorEquationAst.node (mem.cell p).mType (mem.cell p).mValue (mem.cell p).mVariable l r

end AstMemory

/-- The numerical helpers of `utilities.cpp` and `units.cpp`, which are not
part of the sources at hand, over a type `F` that stands for `double`:
`unitsScalingFactor` is `Units::scalingFactor`, `areEqualToOne f` is
`areEqual(f, 1.0)`, `convertToString` is `convertToString`,
`convertInverseToString f` is `convertToString(1.0 / f)`, `isOne s` is
`convertToDouble(s) == 1.0` and `areEqualString s d` is
`areEqual(convertToDouble(s), d)` for the literal `d`. -/
structure Numerics (F : Type) where
  unitsScalingFactor : String → String → F
  areEqualToOne : F → Bool
  convertToString : F → String
  convertInverseToString : F → String
  isOne : String → Bool
  areEqualString : String → String → Bool

/-- The method `Generator::GeneratorImpl::scalingFactor`.  `none` means that
the source dereferences a null pointer. -/
def scalingFactor {F : Type} (m : Model) (num : Numerics F) (g : GeneratorImpl)
    (var : Option Variable) : Option (F × GeneratorImpl) :=
  var.bind fun v =>
    let r := generatorVariable m g v
    (r.1.internalVariable r.2).mVariable.map fun w =>
      (num.unitsScalingFactor v.units w.units, r.1)

/-- The rewrite made by `scaleEquationAst` when a rate is to be computed: the
right-hand side `rhsAst` of the assignment `astGrandParent` becomes the right
operand of a new `TIMES` node whose left operand is a new `CN` node with the
given value, and the new node becomes the right-hand side of the assignment.
(The source sets `rhsAst->mParent` to `astGrandParent`.) -/
def scaleComputedRate (mem : AstMemory) (astGrandParent rhsAst : Nat) (value : String) :
    AstMemory :=
  let scaledAst := mem.length
  let mem := mem.push
    ({ mType := GeneratorEquationAstType.TIMES, mParent := some astGrandParent })
  let cn := mem.length
  let mem := mem.push
    ({ mType := GeneratorEquationAstType.CN, mValue := value, mParent := some scaledAst })
  let mem := mem.set scaledAst { mem.cell scaledAst with mLeft := some cn }
  let mem := mem.set scaledAst { mem.cell scaledAst with mRight := some rhsAst }
  let mem := mem.set rhsAst { mem.cell rhsAst with mParent := some astGrandParent }
  mem.set astGrandParent { mem.cell astGrandParent with mRight := some scaledAst }

/-- The rewrite made by `scaleEquationAst` for a variable, or for a rate that is
used: the node `ast` becomes the right operand of a new `TIMES` node whose
left operand is a new `CN` node with the given value, and the new node takes
the place of `ast` below `astParent`. -/
def scaleReference (mem : AstMemory) (ast astParent : Nat) (value : String) : AstMemory :=
  let scaledAst := mem.length
  let mem := mem.push ({ mType := GeneratorEquationAstType.TIMES, mParent := some astParent })
  let cn := mem.length
  let mem := mem.push
    ({ mType := GeneratorEquationAstType.CN, mValue := value, mParent := some scaledAst })
  let mem := mem.set scaledAst { mem.cell scaledAst with mLeft := some cn }
  let mem := mem.set scaledAst { mem.cell scaledAst with mRight := some ast }
  let mem := mem.set ast { mem.cell ast with mParent := some scaledAst }
  if (mem.cell astParent).mLeft = some ast then
    mem.set astParent { mem.cell astParent with mLeft := some scaledAst }
  else mem.set astParent { mem.cell astParent with mRight := some scaledAst }

/-- The block of `scaleEquationAst` for a rate: `ast` is a `CI` node whose
parent `astParent` is a `DIFF` node. -/
def scaleRate {F : Type} (m : Model) (num : Numerics F) (astParent : Nat)
    (mem : AstMemory) (g : GeneratorImpl) : Option (AstMemory × GeneratorImpl) :=
  -- scalingFactor(astParent->mLeft->mLeft->mVariable)
  (mem.cell astParent).mLeft.bind fun bvar =>
  (mem.cell bvar).mLeft.bind fun voi =>
  (scalingFactor m num g (mem.cell voi).mVariable).bind fun fg =>
  if !num.areEqualToOne fg.1 then
    (mem.cell astParent).mParent.bind fun astGrandParent =>
    if (mem.cell astGrandParent).mType = GeneratorEquationAstType.ASSIGNMENT
        ∧ (mem.cell astGrandParent).mLeft = some astParent then
      -- The rate is to be computed: scale the RHS of the equation.
      (mem.cell astGrandParent).mRight.map fun rhsAst =>
        (scaleComputedRate mem astGrandParent rhsAst (num.convertToString fg.1), fg.2)
    else
      -- The rate is to be used: scale it using the inverse of the factor.
      some (scaleReference mem astParent astGrandParent (num.convertInverseToString fg.1), fg.2)
  else some (mem, fg.2)

/-- The block of `scaleEquationAst` for a variable that is neither a rate nor
a variable of integration: `ast` is a `CI` node with parent `astParent`. -/
def scaleVariable {F : Type} (m : Model) (num : Numerics F) (ast astParent : Nat)
    (mem : AstMemory) (g : GeneratorImpl) : Option (AstMemory × GeneratorImpl) :=
  (scalingFactor m num g (mem.cell ast).mVariable).map fun fg =>
  if !num.areEqualToOne fg.1 then
    (scaleReference mem ast astParent (num.convertToString fg.1), fg.2)
  else (mem, fg.2)

/-- The method `Generator::GeneratorImpl::scaleEquationAst`, on the node `ast`
of the memory.  The depth of the recursion is bounded by `fuel`; `none` means
that the fuel ran out or that the source dereferences a null pointer. -/
def scaleEquationAst {F : Type} (m : Model) (num : Numerics F) :
    Nat → Nat → AstMemory → GeneratorImpl → Option (AstMemory × GeneratorImpl)
  | 0, _, _, _ => none
  | fuel + 1, ast, mem, g =>
    -- Recursively scale the given AST's children.
    (match (mem.cell ast).mLeft with
     | some l => scaleEquationAst m num fuel l mem g
     | none => some (mem, g)).bind fun s =>
    (match (s.1.cell ast).mRight with
     | some r => scaleEquationAst m num fuel r s.1 s.2
     | none => some s).bind fun s =>
    if (s.1.cell ast).mType = GeneratorEquationAstType.CI then
      (s.1.cell ast).mParent.bind fun astParent =>
      if (s.1.cell astParent).mType = GeneratorEquationAstType.DIFF then
        scaleRate m num astParent s.1 s.2
      else if (s.1.cell astParent).mType ≠ GeneratorEquationAstType.BVAR then
        scaleVariable m num ast astParent s.1 s.2
      else some s
    else some s

/-- The call `scaleEquationAst(equation->mAst, ...)` of `processModel` on the
tree of an equation: the tree is laid out in memory, scaled in place and read
back from the root. -/
def scaleEquation {F : Type} (m : Model) (num : Numerics F) (ast : GeneratorEquationAst)
    (g : GeneratorImpl) : Option (GeneratorEquationAst × GeneratorImpl) :=
  let r := AstMemory.ofTree ast none {}
  r.1.bind fun root =>
  (scaleEquationAst m num (2 * r.2.length + 1) root r.2 g).bind fun s =>
  (AstMemory.toTree s.1 (s.1.length + 1) (some root)).map fun t => (t, s.2)

/-! ## `processModel`: the final post-processing of a valid model -/

/-- The method `Generator::GeneratorImpl::hasValidModel`. -/
def hasValidModel (g : GeneratorImpl) : Bool :=
  decide (g.mModelType = ModelType.ALGEBRAIC) || decide (g.mModelType = ModelType.ODE)

/-- The loop of `processModel` that scales the tree of every equation. -/
def scaleEquations {F : Type} (m : Model) (num : Numerics F) :
    List Nat → GeneratorImpl → Option GeneratorImpl
  | [], g => some g
  | equation :: rest, g =>
    (scaleEquation m num (g.equation equation).mAst g).bind fun r =>
      scaleEquations m num rest
        (r.2.setEquation equation { r.2.equation equation with mAst := r.1 })

/-- The call `mEquations.sort(compareEquationsByVariable)`.  The comparison
dereferences `mVariable` of the two equations it compares, and every
equation of a list of two or more is compared: `none` means that one of them
has a null `mVariable`. -/
def sortEquations (g : GeneratorImpl) : Option GeneratorImpl :=
  if 2 ≤ g.mEquations.length ∧ (g.mEquations.any fun e => (g.equation e).mVariable.isNone) then
    none
  else some { g with mEquations := listSort (compareEquationsByVariable g) g.mEquations }

/-- The loop of `processModel` that makes the internal variables available
through the API: it fills `mStates` and `mVariables`. -/
def publishVariables : List Nat → GeneratorImpl → GeneratorImpl
  | [], g => g
  | p :: rest, g =>
    let internalVariable := g.internalVariable p
    let type : Option GeneratorVariableType :=
      if internalVariable.mType = GeneratorInternalVariableType.STATE then
        some GeneratorVariableType.STATE
      else if internalVariable.mType = GeneratorInternalVariableType.CONSTANT then
        some GeneratorVariableType.CONSTANT
      else if internalVariable.mType = GeneratorInternalVariableType.COMPUTED_TRUE_CONSTANT
          ∨ internalVariable.mType
              = GeneratorInternalVariableType.COMPUTED_VARIABLE_BASED_CONSTANT then
        some GeneratorVariableType.COMPUTED_CONSTANT
      else if internalVariable.mType = GeneratorInternalVariableType.ALGEBRAIC then
        some GeneratorVariableType.ALGEBRAIC
      else none
    match type with
    | none => publishVariables rest g
    | some t =>
      let stateOrVariable : GeneratorVariable :=
        { mInitialValueVariable := some internalVariable.mInitialValueVariable,
          mVariable := internalVariable.mVariable, mType := t }
      if t = GeneratorVariableType.STATE then
        publishVariables rest { g with mStates := g.mStates ++ [stateOrVariable] }
      else publishVariables rest { g with mVariables := g.mVariables ++ [stateOrVariable] }

/-- The final post-processing of `processModel`, which is made when the model
is valid: the trees are scaled, the records and the equations are sorted and
the records are published. -/
def finaliseModel {F : Type} (m : Model) (num : Numerics F) (g : GeneratorImpl) :
    Option GeneratorImpl :=
  if g.mModelType = ModelType.ODE ∨ g.mModelType = ModelType.ALGEBRAIC then
    (scaleEquations m num g.mEquations g).bind fun g =>
    let g := { g with
      mInternalVariables := listSort (compareVariablesByTypeAndIndex g) g.mInternalVariables }
    (sortEquations g).map fun g => publishVariables g.mInternalVariables g
  else some g

/-- The method `Generator::GeneratorImpl::processModel`, from the point where
the components of the model have been processed: `g` is the generator after
the loop over the components.  `none` means that the source dereferences a
null pointer. -/
def processModel {F : Type} (m : Model) (num : Numerics F) (g : GeneratorImpl) :
    Option GeneratorImpl :=
  (analyseModel m num.isOne g).bind (finaliseModel m num)

/-! ## The construction of the trees: `processNode` and `processComponent` -/

mutual
/-- The number of levels of a node: one more than that of its deepest child. -/
def XmlNode.depth : XmlNode → Nat
  | XmlNode.mk _ _ _ cs => XmlNode.depthOf cs + 1
/-- The number of levels of the deepest node of a list. -/
def XmlNode.depthOf : List XmlNode → Nat
  | [] => 0
  | c :: cs => max (XmlNode.depth c) (XmlNode.depthOf cs)
end

/-- The method `Generator::GeneratorImpl::mathmlChildCount`.  `none` means
that the node has no child: the source dereferences the null pointer that
`firstChild()` returns. -/
def mathmlChildCount (node : XmlNode) : Option Nat :=
  match node.children with
  | [] => none
  | _ :: _ => some (node.children.countP XmlNode.mathml)

/-- The loop of `mathmlChildNode`: `res` is the current node, `childNodeIndex`
its index and the list holds the nodes that follow it. -/
def mathmlChildNodeFrom (index : Nat) : XmlNode → Nat → List XmlNode → Option XmlNode
  | res, childNodeIndex, [] => if childNodeIndex = index then some res else none
  | res, childNodeIndex, next :: rest =>
    if childNodeIndex = index then some res
    else
      mathmlChildNodeFrom index next
        (if next.mathml then sizeIncr childNodeIndex else childNodeIndex) rest

/-- The method `Generator::GeneratorImpl::mathmlChildNode`.  The outer `none`
means that the node has no child (the source dereferences a null pointer);
the inner `none` is the result `nullptr`. -/
def mathmlChildNode (node : XmlNode) (index : Nat) : Option (Option XmlNode) :=
  match node.children with
  | [] => none
  | res :: rest =>
    some (mathmlChildNodeFrom index res (if res.mathml then 0 else MAX_SIZE_T) rest)

/-- The method `Component::variable(name)`: the first variable of the component
that has the given name (`none` for `nullptr`). -/
def Component.variableByName (component : Component) (name : String) : Option Variable :=
  component.variableList.find? fun v => v.name = name

/-- The method `GeneratorEquation::addVariable`. -/
def GeneratorEquation.addVariable (self : GeneratorEquation) (v : Nat) : GeneratorEquation :=
  if v ∈ self.mVariables then self else { self with mVariables := self.mVariables ++ [v] }

/-- The method `GeneratorEquation::addOdeVariable`. -/
def GeneratorEquation.addOdeVariable (self : GeneratorEquation) (odeVariable : Nat) :
    GeneratorEquation :=
  if odeVariable ∈ self.mOdeVariables then self
  else { self with mOdeVariables := self.mOdeVariables ++ [odeVariable] }

/-- The elements for which `processNode` creates a node without operand and
does nothing else but set a flag, with the type of the node. -/
def operatorAstType : String → Option GeneratorEquationAstType
  | "neq" => some GeneratorEquationAstType.NEQ
  | "lt" => some GeneratorEquationAstType.LT
  | "leq" => some GeneratorEquationAstType.LEQ
  | "gt" => some GeneratorEquationAstType.GT
  | "geq" => some GeneratorEquationAstType.GEQ
  | "and" => some GeneratorEquationAstType.AND
  | "or" => some GeneratorEquationAstType.OR
  | "xor" => some GeneratorEquationAstType.XOR
  | "not" => some GeneratorEquationAstType.NOT
  | "plus" => some GeneratorEquationAstType.PLUS
  | "minus" => some GeneratorEquationAstType.MINUS
  | "times" => some GeneratorEquationAstType.TIMES
  | "divide" => some GeneratorEquationAstType.DIVIDE
  | "power" => some GeneratorEquationAstType.POWER
  | "root" => some GeneratorEquationAstType.ROOT
  | "abs" => some GeneratorEquationAstType.ABS
  | "exp" => some GeneratorEquationAstType.EXP
  | "ln" => some GeneratorEquationAstType.LN
  | "log" => some GeneratorEquationAstType.LOG
  | "ceiling" => some GeneratorEquationAstType.CEILING
  | "floor" => some GeneratorEquationAstType.FLOOR
  | "min" => some GeneratorEquationAstType.MIN
  | "max" => some GeneratorEquationAstType.MAX
  | "rem" => some GeneratorEquationAstType.REM
  | "diff" => some GeneratorEquationAstType.DIFF
  | "sin" => some GeneratorEquationAstType.SIN
  | "cos" => some GeneratorEquationAstType.COS
  | "tan" => some GeneratorEquationAstType.TAN
  | "sec" => some GeneratorEquationAstType.SEC
  | "csc" => some GeneratorEquationAstType.CSC
  | "cot" => some GeneratorEquationAstType.COT
  | "sinh" => some GeneratorEquationAstType.SINH
  | "cosh" => some GeneratorEquationAstType.COSH
  | "tanh" => some GeneratorEquationAstType.TANH
  | "sech" => some GeneratorEquationAstType.SECH
  | "csch" => some GeneratorEquationAstType.CSCH
  | "coth" => some GeneratorEquationAstType.COTH
  | "arcsin" => some GeneratorEquationAstType.ASIN
  | "arccos" => some GeneratorEquationAstType.ACOS
  | "arctan" => some GeneratorEquationAstType.ATAN
  | "arcsec" => some GeneratorEquationAstType.ASEC
  | "arccsc" => some GeneratorEquationAstType.ACSC
  | "arccot" => some GeneratorEquationAstType.ACOT
  | "arcsinh" => some GeneratorEquationAstType.ASINH
  | "arccosh" => some GeneratorEquationAstType.ACOSH
  | "arctanh" => some GeneratorEquationAstType.ATANH
  | "arcsech" => some GeneratorEquationAstType.ASECH
  | "arccsch" => some GeneratorEquationAstType.ACSCH
  | "arccoth" => some GeneratorEquationAstType.ACOTH
  | "true" => some GeneratorEquationAstType.TRUE
  | "false" => some GeneratorEquationAstType.FALSE
  | "exponentiale" => some GeneratorEquationAstType.E
  | "pi" => some GeneratorEquationAstType.PI
  | "infinity" => some GeneratorEquationAstType.INF
  | "notanumber" => some GeneratorEquationAstType.NAN
  | _ => none

/-- The flag `mNeed...` that `processNode` sets when it creates a node of the
given type. -/
def setNeedFlag (t : GeneratorEquationAstType) (g : GeneratorImpl) : GeneratorImpl :=
  match t with
  | GeneratorEquationAstType.EQ => { g with mNeedEq := true }
  | GeneratorEquationAstType.NEQ => { g with mNeedNeq := true }
  | GeneratorEquationAstType.LT => { g with mNeedLt := true }
  | GeneratorEquationAstType.LEQ => { g with mNeedLeq := true }
  | GeneratorEquationAstType.GT => { g with mNeedGt := true }
  | GeneratorEquationAstType.GEQ => { g with mNeedGeq := true }
  | GeneratorEquationAstType.AND => { g with mNeedAnd := true }
  | GeneratorEquationAstType.OR => { g with mNeedOr := true }
  | GeneratorEquationAstType.XOR => { g with mNeedXor := true }
  | GeneratorEquationAstType.NOT => { g with mNeedNot := true }
  | GeneratorEquationAstType.MIN => { g with mNeedMin := true }
  | GeneratorEquationAstType.MAX => { g with mNeedMax := true }
  | GeneratorEquationAstType.SEC => { g with mNeedSec := true }
  | GeneratorEquationAstType.CSC => { g with mNeedCsc := true }
  | GeneratorEquationAstType.COT => { g with mNeedCot := true }
  | GeneratorEquationAstType.SECH => { g with mNeedSech := true }
  | GeneratorEquationAstType.CSCH => { g with mNeedCsch := true }
  | GeneratorEquationAstType.COTH => { g with mNeedCoth := true }
  | GeneratorEquationAstType.ASEC => { g with mNeedAsec := true }
  | GeneratorEquationAstType.ACSC => { g with mNeedAcsc := true }
  | GeneratorEquationAstType.ACOT => { g with mNeedAcot := true }
  | GeneratorEquationAstType.ASECH => { g with mNeedAsech := true }
  | GeneratorEquationAstType.ACSCH => { g with mNeedAcsch := true }
  | GeneratorEquationAstType.ACOTH => { g with mNeedAcoth := true }
  | _ => g

/-- The result of `processNode`: the new value of the reference `ast` and the
new state. -/
abbrev ProcessResult := Option (GeneratorEquationAst × GeneratorImpl)

/-- The call `processNode(mathmlChildNode(node, index), ast, ...)`, where
`f` is `processNode` on a child of `node`: the child is dereferenced, so that
the result is `none` when it is `nullptr`. -/
def processChild (f : XmlNode → GeneratorEquationAst → GeneratorImpl → ProcessResult)
    (node : XmlNode) (index : Nat) (ast : GeneratorEquationAst) (g : GeneratorImpl) :
    ProcessResult :=
  (mathmlChildNode node index).bind fun child => child.bind fun c => f c ast g

/-- The loop `for (size_t i = childCount - 2; i > 1; --i)` of `processNode`
for an `apply` element: `child i` is `processNode` on the child `i` of the
element, and the two trees are the values of `tempAst` and `astRight`.  The
result is the final value of `astRight`. -/
def applyOperands (child : Nat → GeneratorEquationAst → GeneratorImpl → ProcessResult) :
    Nat → GeneratorEquationAst → GeneratorEquationAst → GeneratorImpl → ProcessResult
  | i + 2, tempAst, astRight, g =>
    (child 0 tempAst g).bind fun r0 =>
    match r0.1 with
    | GeneratorEquationAst.null => none
    | GeneratorEquationAst.node t value var l _ =>
      (child (i + 2) l r0.2).bind fun rl =>
      -- astRight->mParent = tempAst
      if astRight.isNode then
        applyOperands child (i + 1) (GeneratorEquationAst.node t value var rl.1 astRight)
          (GeneratorEquationAst.node t value var rl.1 astRight) rl.2
      else none
  | _, _, astRight, g => some (astRight, g)

/-- The loop `for (size_t i = childCount - 2; i > 0; --i)` of `processNode`
for a `piecewise` element; the tree is the value of `astRight`. -/
def piecewisePieces (child : Nat → GeneratorEquationAst → GeneratorImpl → ProcessResult) :
    Nat → GeneratorEquationAst → GeneratorImpl → ProcessResult
  | i + 1, astRight, g =>
    (child (i + 1) GeneratorEquationAst.null g).bind fun rl =>
    -- astRight->mParent = tempAst
    if astRight.isNode then
      piecewisePieces child i
        (GeneratorEquationAst.node GeneratorEquationAstType.PIECEWISE "" none rl.1 astRight) rl.2
    else none
  | 0, astRight, g => some (astRight, g)

/-- The block of `processNode` for a `ci` element that names the variable
`v` of the component: the record of the variable is tracked by the equation,
as a variable or as an ODE variable.  `ancestors` holds the parent of the
element, its grand-parent and so on. -/
def trackVariable (m : Model) (equation : Nat) (ancestors : List XmlNode) (v : Variable)
    (g : GeneratorImpl) : Option GeneratorImpl :=
  match ancestors with
  | [] => none
  | parent :: rest =>
    -- node->parent()->firstChild()->isMathmlElement("diff")
    (parent.children.head?).bind fun first =>
    if first.isMathmlElement "diff" then
      let r := generatorVariable m g v
      some (r.1.setEquation equation ((r.1.equation equation).addOdeVariable r.2))
    else
      (if parent.isMathmlElement "bvar" then
        -- node->parent()->parent()->firstChild()->isMathmlElement("diff")
        (rest.head?).bind fun grandParent =>
        (grandParent.children.head?).map fun first => first.isMathmlElement "diff"
       else some false).map fun boundVariable =>
      if !boundVariable then
        let r := generatorVariable m g v
        r.1.setEquation equation ((r.1.equation equation).addVariable r.2)
      else g

/-- The method `Generator::GeneratorImpl::processNode(node, ast, astParent,
component, equation)`.  The tree argument is the value of the reference `ast`
when the method is called, and the result holds its value when the method
returns; the links `mParent` are not stored.  `ancestors` holds the parent of
`node`, its grand-parent and so on, up to the document.  The depth of the
recursion is bounded by `fuel`; `none` means that the fuel ran out or that the
source dereferences a null pointer. -/
def processNode (m : Model) (component : Component) (equation : Nat) :
    Nat → XmlNode → List XmlNode → GeneratorEquationAst → GeneratorImpl → ProcessResult
  | 0, _, _, _, _ => none
  | fuel + 1, node, ancestors, ast, g =>
    let child : Nat → GeneratorEquationAst → GeneratorImpl → ProcessResult :=
      processChild
        (fun c a g => processNode m component equation fuel c (node :: ancestors) a g) node
    let oneOperand (t : GeneratorEquationAstType) : ProcessResult :=
      (child 0 GeneratorEquationAst.null g).map fun rl =>
        (GeneratorEquationAst.node t "" none rl.1 GeneratorEquationAst.null, rl.2)
    if node.isMathmlElement "apply" then
      (mathmlChildCount node).bind fun childCount =>
      (child 0 ast g).bind fun r0 =>
      match r0.1 with
      | GeneratorEquationAst.null => none
      | GeneratorEquationAst.node t value var l r =>
        (child 1 l r0.2).bind fun r1 =>
        if childCount ≥ 3 then
          (child (childCount - 1) GeneratorEquationAst.null r1.2).bind fun rr =>
          (applyOperands child (childCount - 2) GeneratorEquationAst.null rr.1 rr.2).map fun ro =>
            (GeneratorEquationAst.node t value var r1.1 ro.1, ro.2)
        else some (GeneratorEquationAst.node t value var r1.1 r, r1.2)
    else if node.isMathmlElement "eq" then
      -- node->parent()->parent()->isMathmlElement("math")
      (ancestors.tail.head?).map fun grandParent =>
        if !grandParent.isMathmlElement "math" then
          (GeneratorEquationAst.node GeneratorEquationAstType.EQ "" none
            GeneratorEquationAst.null GeneratorEquationAst.null,
            setNeedFlag GeneratorEquationAstType.EQ g)
        else (ast, g)
    else if node.isMathmlElement "piecewise" then
      (mathmlChildCount node).bind fun childCount =>
      (child 0 GeneratorEquationAst.null g).bind fun rl =>
      if childCount ≥ 2 then
        (child (childCount - 1) GeneratorEquationAst.null rl.2).bind fun rr =>
        (piecewisePieces child (childCount - 2) rr.1 rr.2).bind fun ro =>
        -- astRight->mParent = ast
        if ro.1.isNode then
          some (GeneratorEquationAst.node GeneratorEquationAstType.PIECEWISE "" none rl.1 ro.1,
            ro.2)
        else none
      else
        some (GeneratorEquationAst.node GeneratorEquationAstType.PIECEWISE "" none rl.1
          GeneratorEquationAst.null, rl.2)
    else if node.isMathmlElement "piece" then
      (child 0 GeneratorEquationAst.null g).bind fun rl =>
      (child 1 GeneratorEquationAst.null rl.2).map fun rr =>
        (GeneratorEquationAst.node GeneratorEquationAstType.PIECE "" none rl.1 rr.1, rr.2)
    else if node.isMathmlElement "otherwise" then
      oneOperand GeneratorEquationAstType.OTHERWISE
    else if node.isMathmlElement "ci" then
      (node.children.head?).bind fun first =>
      let variableName := first.convertToString
      match component.variableByName variableName with
      | some v =>
        (trackVariable m equation ancestors v g).map fun g =>
          (GeneratorEquationAst.node GeneratorEquationAstType.CI "" (some v)
            GeneratorEquationAst.null GeneratorEquationAst.null, g)
      | none =>
        some (ast,
          g.addError ("Variable '" ++ variableName ++ "' in component '" ++ component.name
            ++ "' is referenced in an equation, but it is not defined anywhere."))
    else if node.isMathmlElement "cn" then
      (mathmlChildCount node).bind fun childCount =>
      (node.children.head?).bind fun first =>
      if childCount = 1 then
        -- node->firstChild()->next()->next()
        (node.children.tail.tail.head?).map fun third =>
          (GeneratorEquationAst.node GeneratorEquationAstType.CN
            (first.convertToString ++ "e" ++ third.convertToString) none
            GeneratorEquationAst.null GeneratorEquationAst.null, g)
      else
        some (GeneratorEquationAst.node GeneratorEquationAstType.CN first.convertToString none
          GeneratorEquationAst.null GeneratorEquationAst.null, g)
    else if node.isMathmlElement "degree" then
      oneOperand GeneratorEquationAstType.DEGREE
    else if node.isMathmlElement "logbase" then
      oneOperand GeneratorEquationAstType.LOGBASE
    else if node.isMathmlElement "bvar" then
      (child 0 GeneratorEquationAst.null g).bind fun rl =>
      (mathmlChildNode node 1).bind fun rightNode =>
      match rightNode with
      | some rn =>
        (processNode m component equation fuel rn (node :: ancestors) GeneratorEquationAst.null
          rl.2).map fun rr =>
          (GeneratorEquationAst.node GeneratorEquationAstType.BVAR "" none rl.1 rr.1, rr.2)
      | none =>
        some (GeneratorEquationAst.node GeneratorEquationAstType.BVAR "" none rl.1
          GeneratorEquationAst.null, rl.2)
    else
      match (if node.mathml then operatorAstType node.name else none) with
      | some t =>
        some (GeneratorEquationAst.node t "" none GeneratorEquationAst.null
          GeneratorEquationAst.null, setNeedFlag t g)
      | none => some (ast, g)

/-- The method `Generator::GeneratorImpl::processNode(node, component)`: a new
equation is created and tracked, and its tree is built from `node`. -/
def processMathNode (m : Model) (component : Component) (node : XmlNode)
    (ancestors : List XmlNode) (g : GeneratorImpl) : Option GeneratorImpl :=
  let equation := g.equationStore.length
  let g := { g with
    equationStore := g.equationStore ++ [{ mComponent := component }],
    mEquations := g.mEquations ++ [equation] }
  (processNode m component equation node.depth node ancestors (g.equation equation).mAst g).map
    fun r => r.2.setEquation equation { r.2.equation equation with mAst := r.1 }

/-- The loop of `processComponent` over the children of the root node
`mathNode` of the document: `processNode` is called on those that are elements
in the MathML namespace. -/
def processMathNodes (m : Model) (component : Component) (mathNode : XmlNode) :
    List XmlNode → GeneratorImpl → Option GeneratorImpl
  | [], g => some g
  | node :: rest, g =>
    (if node.mathml then
      processMathNode m component node [mathNode, XmlNode.mk false "" "" [mathNode]] g
     else some g).bind fun g => processMathNodes m component mathNode rest g

/-- The body of the loop of `processComponent` over the variables of the
component: the record of the variable adopts the variable when the variable
is initialised and the variable of the record is not, and an error is added
when they are two variables that are both initialised.  `none` means that
the source dereferences a null pointer. -/
def processComponentVariable (m : Model) (component : Component) (g : GeneratorImpl)
    (v : Variable) : Option GeneratorImpl :=
  let r := generatorVariable m g v
  let generatorVariable := r.1.internalVariable r.2
  if v.initialValue ≠ "" then
    generatorVariable.mVariable.map fun tracked =>
      if tracked.initialValue = "" then
        r.1.setInternalVariable r.2 (generatorVariable.setVariable v)
      else if v ≠ tracked then
        r.1.addError ("Variable '" ++ v.name ++ "' in component '" ++ component.name
          ++ "' and variable '" ++ tracked.name ++ "' in component '" ++ tracked.parent
          ++ "' are equivalent and cannot therefore both be initialised.")
      else r.1
  else some r.1

/-- The loop of `processComponent` over the variables of the component. -/
def processComponentVariables (m : Model) (component : Component) :
    List Variable → GeneratorImpl → Option GeneratorImpl
  | [], g => some g
  | v :: rest, g =>
    (processComponentVariable m component g v).bind fun g =>
      processComponentVariables m component rest g

mutual
/-- The method `Generator::GeneratorImpl::processComponent`. -/
def processComponent (m : Model) : ComponentEntity → GeneratorImpl → Option GeneratorImpl
  | ComponentEntity.mk component components, g =>
    match
      (match m.math component with
       | some mathNode => processMathNodes m component mathNode mathNode.children g
       | none => some g) with
    | none => none
    | some g =>
      match processComponentVariables m component component.variableList g with
      | none => none
      | some g => processComponents m components g
/-- The loop over the components that a component encapsulates, or over the
components of the model. -/
def processComponents (m : Model) : List ComponentEntity → GeneratorImpl → Option GeneratorImpl
  | [], g => some g
  | c :: rest, g =>
    match processComponent m c g with
    | none => none
    | some g => processComponents m rest g
end

/-- The first part of `Generator::GeneratorImpl::processModel`: the members
are reset.  The lists are cleared, so that the records and the equations that
they own are destroyed.  The flags `mNeedEq` to `mNeedNot` are not reset. -/
def resetGenerator (g : GeneratorImpl) : GeneratorImpl :=
  { g with
    mModelType := ModelType.UNKNOWN,
    variableStore := [], equationStore := [], mInternalVariables := [], mEquations := [],
    mVoi := none, mStates := [], mVariables := [],
    mNeedMin := false, mNeedMax := false,
    mNeedSec := false, mNeedCsc := false, mNeedCot := false,
    mNeedSech := false, mNeedCsch := false, mNeedCoth := false,
    mNeedAsec := false, mNeedAcsc := false, mNeedAcot := false,
    mNeedAsech := false, mNeedAcsch := false, mNeedAcoth := false,
    errors := [] }

/-- The method `Generator::processModel`: the members are reset, the
components of the model are processed, and the model is analysed. -/
def Generator.processModel {F : Type} (m : Model) (num : Numerics F) (g : GeneratorImpl) :
    Option GeneratorImpl :=
  (processComponents m m.components (resetGenerator g)).bind (libcellml.processModel m num)

/-- The code that `addArithmeticFunctionsCode` adds for one function: nothing
when the function is not needed or its string is empty, else a line break
when `code` is not empty, followed by the string. -/
def addFunctionCode (need : Bool) (function code : String) : String :=
  if need && function ≠ "" then (if code ≠ "" then code ++ "\n" else code) ++ function
  else code

/-- The method `Generator::GeneratorImpl::addArithmeticFunctionsCode`. -/
def addArithmeticFunctionsCode (p : GeneratorProfile) (g : GeneratorImpl) (code : String) :
    String :=
  let code := addFunctionCode (g.mNeedEq && !p.hasEqOperator) p.eqFunctionString code
  let code := addFunctionCode (g.mNeedNeq && !p.hasNeqOperator) p.neqFunctionString code
  let code := addFunctionCode (g.mNeedLt && !p.hasLtOperator) p.ltFunctionString code
  let code := addFunctionCode (g.mNeedLeq && !p.hasLeqOperator) p.leqFunctionString code
  let code := addFunctionCode (g.mNeedGt && !p.hasGtOperator) p.gtFunctionString code
  let code := addFunctionCode (g.mNeedGeq && !p.hasGeqOperator) p.geqFunctionString code
  let code := addFunctionCode (g.mNeedAnd && !p.hasAndOperator) p.andFunctionString code
  let code := addFunctionCode (g.mNeedOr && !p.hasOrOperator) p.orFunctionString code
  let code := addFunctionCode (g.mNeedXor && !p.hasXorOperator) p.xorFunctionString code
  let code := addFunctionCode (g.mNeedNot && !p.hasNotOperator) p.notFunctionString code
  let code := addFunctionCode g.mNeedMin p.minFunctionString code
  addFunctionCode g.mNeedMax p.maxFunctionString code

/-- The method `Generator::setProfile`. -/
def Generator.setProfile (g : GeneratorImpl) (profile : GeneratorProfile) : GeneratorImpl :=
  { g with mProfile := profile }

/-! ## The queries of `Generator` -/

/-- The method `Generator::modelType`. -/
def Generator.modelType (g : GeneratorImpl) : ModelType := g.mModelType

/-- The method `Generator::stateCount`. -/
def Generator.stateCount (g : GeneratorImpl) : Nat :=
  if !hasValidModel g then 0 else g.mStates.length

/-- The method `Generator::variableCount`. -/
def Generator.variableCount (g : GeneratorImpl) : Nat :=
  if !hasValidModel g then 0 else g.mVariables.length

/-- The method `Generator::voi`. -/
def Generator.voi (g : GeneratorImpl) : Option GeneratorVariable :=
  if !hasValidModel g then none else g.mVoi

/-- The method `Generator::state`. -/
def Generator.state (g : GeneratorImpl) (index : Nat) : Option GeneratorVariable :=
  if !hasValidModel g || decide (index ≥ g.mStates.length) then none else g.mStates.get? index

/-- The method `Generator::variable`. -/
def Generator.variable (g : GeneratorImpl) (index : Nat) : Option GeneratorVariable :=
  if !hasValidModel g || decide (index ≥ g.mVariables.length) then none
  else g.mVariables.get? index

/-! ## Rendering of expressions -/

/-- The replacement of the first occurrence of `pattern` in a list of
characters. -/
def replaceChars (pattern replacement : List Char) : List Char → List Char
  | [] => if pattern = [] then replacement else []
  | c :: cs =>
    if pattern.isPrefixOf (c :: cs) then replacement ++ (c :: cs).drop pattern.length
    else c :: replaceChars pattern replacement cs

/-- The method `Generator::GeneratorImpl::replace`: the first occurrence of
`pattern` in `string` is replaced (`std::string::find` and `replace`). -/
def replace (string pattern replacement : String) : String :=
  String.mk (replaceChars pattern.data replacement.data string.data)

/-- The method `Generator::GeneratorImpl::generateDoubleCode`. -/
def generateDoubleCode (value : String) : String :=
  if value.data.contains '.' then value
  else if !value.data.contains 'e' then value ++ ".0"
  else String.mk (value.data.takeWhile fun c => c ≠ 'e') ++ ".0"
    ++ String.mk (value.data.dropWhile fun c => c ≠ 'e')

/-- The decimal digits of a `size_t`, as `std::ostringstream` writes them.
The number of digits is bounded by `fuel`. -/
def decimalDigits : Nat → Nat → List Char
  | 0, _ => []
  | fuel + 1, n =>
    if n < 10 then [Char.ofNat (48 + n)]
    else decimalDigits fuel (n / 10) ++ [Char.ofNat (48 + n % 10)]

/-- The text of a `size_t` (at most twenty digits). -/
def sizeToString (n : Nat) : String := String.mk (decimalDigits 20 n)

namespace GeneratorProfile

/-- The method `isRelationalOperator`. -/
def isRelationalOperator (p : GeneratorProfile) (ast : GeneratorEquationAst) : Bool :=
  (ast.hasType GeneratorEquationAstType.EQ && p.hasEqOperator)
  || (ast.hasType GeneratorEquationAstType.NEQ && p.hasNeqOperator)
  || (ast.hasType GeneratorEquationAstType.LT && p.hasLtOperator)
  || (ast.hasType GeneratorEquationAstType.LEQ && p.hasLeqOperator)
  || (ast.hasType GeneratorEquationAstType.GT && p.hasGtOperator)
  || (ast.hasType GeneratorEquationAstType.GEQ && p.hasGeqOperator)

/-- The method `isAndOperator`. -/
def isAndOperator (p : GeneratorProfile) (ast : GeneratorEquationAst) : Bool :=
  ast.hasType GeneratorEquationAstType.AND && p.hasAndOperator

/-- The method `isOrOperator`. -/
def isOrOperator (p : GeneratorProfile) (ast : GeneratorEquationAst) : Bool :=
  ast.hasType GeneratorEquationAstType.OR && p.hasOrOperator

/-- The method `isXorOperator`. -/
def isXorOperator (p : GeneratorProfile) (ast : GeneratorEquationAst) : Bool :=
  ast.hasType GeneratorEquationAstType.XOR && p.hasXorOperator

/-- The method `isLogicalOperator`. -/
def isLogicalOperator (p : GeneratorProfile) (ast : GeneratorEquationAst) : Bool :=
  p.isAndOperator ast || p.isOrOperator ast || p.isXorOperator ast

/-- The method `isPlusOperator`. -/
def isPlusOperator (_p : GeneratorProfile) (ast : GeneratorEquationAst) : Bool :=
  ast.hasType GeneratorEquationAstType.PLUS

/-- The method `isMinusOperator`. -/
def isMinusOperator (_p : GeneratorProfile) (ast : GeneratorEquationAst) : Bool :=
  ast.hasType GeneratorEquationAstType.MINUS

/-- The method `isTimesOperator`. -/
def isTimesOperator (_p : GeneratorProfile) (ast : GeneratorEquationAst) : Bool :=
  ast.hasType GeneratorEquationAstType.TIMES

/-- The method `isDivideOperator`. -/
def isDivideOperator (_p : GeneratorProfile) (ast : GeneratorEquationAst) : Bool :=
  ast.hasType GeneratorEquationAstType.DIVIDE

/-- The method `isPowerOperator`. -/
def isPowerOperator (p : GeneratorProfile) (ast : GeneratorEquationAst) : Bool :=
  ast.hasType GeneratorEquationAstType.POWER && p.hasPowerOperator

/-- The method `isRootOperator`. -/
def isRootOperator (p : GeneratorProfile) (ast : GeneratorEquationAst) : Bool :=
  ast.hasType GeneratorEquationAstType.ROOT && p.hasPowerOperator

/-- The method `isPiecewiseStatement`. -/
def isPiecewiseStatement (p : GeneratorProfile) (ast : GeneratorEquationAst) : Bool :=
  ast.hasType GeneratorEquationAstType.PIECEWISE && p.hasConditionalOperator

end GeneratorProfile

/-- The text `"(" + code + ")"` when `cond` holds, and `code` otherwise. -/
def parenthesiseIf (cond : Bool) (code : String) : String :=
  if cond then "(" ++ code ++ ")" else code

/-- The method `Generator::GeneratorImpl::generateOperatorCode`, once the code
`left` of `ast->mLeft` and the code `right` of `ast->mRight` have been
generated: the parentheses put around them and the final text. -/
def generateOperatorCode (p : GeneratorProfile) (op : String) (ast : GeneratorEquationAst)
    (left right : String) : String :=
  let l := ast.mLeft
  let r := ast.mRight
  let low (x : GeneratorEquationAst) : Bool :=
    p.isRelationalOperator x || p.isLogicalOperator x || p.isPiecewiseStatement x
  if p.isPlusOperator ast then
    parenthesiseIf (low l) left ++ op ++ parenthesiseIf (low r) right
  else if p.isMinusOperator ast then
    parenthesiseIf (low l) left ++ op
      ++ parenthesiseIf
          (p.isRelationalOperator r || p.isLogicalOperator r || p.isMinusOperator r
            || p.isPiecewiseStatement r || (p.isPlusOperator r && r.mRight.isNode)) right
  else if p.isTimesOperator ast then
    parenthesiseIf
        (low l || ((p.isPlusOperator l || p.isMinusOperator l) && l.mRight.isNode)) left
      ++ op
      ++ parenthesiseIf
          (low r || ((p.isPlusOperator r || p.isMinusOperator r) && r.mRight.isNode)) right
  else if p.isDivideOperator ast then
    parenthesiseIf
        (low l || ((p.isPlusOperator l || p.isMinusOperator l) && l.mRight.isNode)) left
      ++ op
      ++ parenthesiseIf
          (p.isRelationalOperator r || p.isLogicalOperator r || p.isTimesOperator r
            || p.isDivideOperator r || p.isPiecewiseStatement r
            || ((p.isPlusOperator r || p.isMinusOperator r) && r.mRight.isNode)) right
  else if p.isAndOperator ast then
    let paren (x : GeneratorEquationAst) : Bool :=
      p.isRelationalOperator x || p.isOrOperator x || p.isXorOperator x
        || p.isPiecewiseStatement x
        || ((p.isPlusOperator x || p.isMinusOperator x) && x.mRight.isNode)
        || (!(p.isPlusOperator x || p.isMinusOperator x)
            && (p.isPowerOperator x || p.isRootOperator x))
    parenthesiseIf (paren l) left ++ op ++ parenthesiseIf (paren r) right
  else if p.isOrOperator ast then
    let paren (x : GeneratorEquationAst) : Bool :=
      p.isRelationalOperator x || p.isAndOperator x || p.isXorOperator x
        || p.isPiecewiseStatement x
        || ((p.isPlusOperator x || p.isMinusOperator x) && x.mRight.isNode)
        || (!(p.isPlusOperator x || p.isMinusOperator x)
            && (p.isPowerOperator x || p.isRootOperator x))
    parenthesiseIf (paren l) left ++ op ++ parenthesiseIf (paren r) right
  else if p.isXorOperator ast then
    let paren (x : GeneratorEquationAst) : Bool :=
      p.isRelationalOperator x || p.isAndOperator x || p.isOrOperator x
        || p.isPiecewiseStatement x
        || ((p.isPlusOperator x || p.isMinusOperator x) && x.mRight.isNode)
        || (!(p.isPlusOperator x || p.isMinusOperator x)
            && (p.isPowerOperator x || p.isRootOperator x))
    parenthesiseIf (paren l) left ++ op ++ parenthesiseIf (paren r) right
  else if p.isPowerOperator ast then
    parenthesiseIf
        (p.isRelationalOperator l || p.isLogicalOperator l || p.isMinusOperator l
          || p.isTimesOperator l || p.isDivideOperator l || p.isPiecewiseStatement l
          || (p.isPlusOperator l && l.mRight.isNode)) left
      ++ op
      ++ parenthesiseIf
          (p.isRelationalOperator r || p.isLogicalOperator r || p.isMinusOperator l
            || p.isTimesOperator r || p.isDivideOperator r || p.isPowerOperator r
            || p.isRootOperator r || p.isPiecewiseStatement r
            || (p.isPlusOperator r && r.mRight.isNode)) right
  else if p.isRootOperator ast then
    parenthesiseIf
        (p.isRelationalOperator r || p.isLogicalOperator r || p.isMinusOperator r
          || p.isTimesOperator r || p.isDivideOperator r || p.isPiecewiseStatement r
          || (p.isPlusOperator r && r.mRight.isNode)) right
      ++ op ++ "(1.0/"
      ++ parenthesiseIf
          (p.isRelationalOperator l || p.isLogicalOperator l || p.isMinusOperator l
            || p.isTimesOperator l || p.isDivideOperator l || p.isPowerOperator l
            || p.isRootOperator l || p.isPiecewiseStatement l
            || (p.isPlusOperator l && l.mRight.isNode)) left
      ++ ")"
  else left ++ op ++ right

/-- The parentheses of `generateMinusUnaryCode`, once the code `left` of
`ast->mLeft` has been generated. -/
def generateMinusUnaryCode (p : GeneratorProfile) (ast : GeneratorEquationAst)
    (left : String) : String :=
  p.minusString
    ++ parenthesiseIf
        (p.isRelationalOperator ast.mLeft || p.isLogicalOperator ast.mLeft
          || p.isPlusOperator ast.mLeft || p.isMinusOperator ast.mLeft
          || p.isPiecewiseStatement ast.mLeft) left

/-- The method `generatePiecewiseIfCode`. -/
def generatePiecewiseIfCode (p : GeneratorProfile) (condition value : String) : String :=
  replace
    (replace (if p.hasConditionalOperator then p.conditionalOperatorIfString
              else p.piecewiseIfString) "<CONDITION>" condition)
    "<IF_STATEMENT>" value

/-- The method `generatePiecewiseElseCode`. -/
def generatePiecewiseElseCode (p : GeneratorProfile) (value : String) : String :=
  replace (if p.hasConditionalOperator then p.conditionalOperatorElseString
           else p.piecewiseElseString) "<ELSE_STATEMENT>" value

/-- The method `generateVariableNameCode(variable, ast)`.  `astParent` is
`none` when `ast` is `nullptr`, and `some t` when `ast` is a node whose parent
has type `t` (`some none` when it has no parent).  The result is `none` when
the source dereferences a null pointer.  For a null `variable`, the lookup
`generatorVariable(nullptr)` returns the first record when the variable of
that record is null too, and dereferences the null pointer otherwise. -/
def generateVariableNameCode (p : GeneratorProfile) (m : Model) (var : Option Variable)
    (astParent : Option (Option GeneratorEquationAstType)) :
    StateT GeneratorImpl Option String := fun g =>
  (match var with
   | some v => some (generatorVariable m g v)
   | none =>
     g.mInternalVariables.head?.bind fun q =>
       if (g.internalVariable q).mVariable = none then some (g, q) else none).bind fun r =>
    let generatorVariable := r.1.internalVariable r.2
    if generatorVariable.mType = GeneratorInternalVariableType.VARIABLE_OF_INTEGRATION then
      some (p.voiString, r.1)
    else
      let arrayName : Option String :=
        if generatorVariable.mType = GeneratorInternalVariableType.STATE then
          match astParent with
          | none => some p.statesArrayString
          | some none => none
          | some (some t) =>
            some (if t = GeneratorEquationAstType.DIFF then p.ratesArrayString
                  else p.statesArrayString)
        else some p.variablesArrayString
      arrayName.map fun a =>
        (a ++ p.openArrayString ++ sizeToString generatorVariable.mIndex ++ p.closeArrayString,
          r.1)

/-- The string of the profile for a function of one parameter that
`generateCode` renders with `generateOneParameterFunctionCode`. -/
def oneParameterFunctionString (p : GeneratorProfile) :
    GeneratorEquationAstType → Option String
  | GeneratorEquationAstType.ABS => some p.absoluteValueString
  | GeneratorEquationAstType.EXP => some p.exponentialString
  | GeneratorEquationAstType.LN => some p.napierianLogarithmString
  | GeneratorEquationAstType.CEILING => some p.ceilingString
  | GeneratorEquationAstType.FLOOR => some p.floorString
  | GeneratorEquationAstType.SIN => some p.sinString
  | GeneratorEquationAstType.COS => some p.cosString
  | GeneratorEquationAstType.TAN => some p.tanString
  | GeneratorEquationAstType.SEC => some p.secString
  | GeneratorEquationAstType.CSC => some p.cscString
  | GeneratorEquationAstType.COT => some p.cotString
  | GeneratorEquationAstType.SINH => some p.sinhString
  | GeneratorEquationAstType.COSH => some p.coshString
  | GeneratorEquationAstType.TANH => some p.tanhString
  | GeneratorEquationAstType.SECH => some p.sechString
  | GeneratorEquationAstType.CSCH => some p.cschString
  | GeneratorEquationAstType.COTH => some p.cothString
  | GeneratorEquationAstType.ASIN => some p.asinString
  | GeneratorEquationAstType.ACOS => some p.acosString
  | GeneratorEquationAstType.ATAN => some p.atanString
  | GeneratorEquationAstType.ASEC => some p.asecString
  | GeneratorEquationAstType.ACSC => some p.acscString
  | GeneratorEquationAstType.ACOT => some p.acotString
  | GeneratorEquationAstType.ASINH => some p.asinhString
  | GeneratorEquationAstType.ACOSH => some p.acoshString
  | GeneratorEquationAstType.ATANH => some p.atanhString
  | GeneratorEquationAstType.ASECH => some p.asechString
  | GeneratorEquationAstType.ACSCH => some p.acschString
  | GeneratorEquationAstType.ACOTH => some p.acothString
  | _ => none

/-- The string and the flag of the profile for a relational or logical
operator of two operands. -/
def twoOperandOperator (p : GeneratorProfile) :
    GeneratorEquationAstType → Option (String × Bool)
  | GeneratorEquationAstType.EQ => some (p.eqString, p.hasEqOperator)
  | GeneratorEquationAstType.NEQ => some (p.neqString, p.hasNeqOperator)
  | GeneratorEquationAstType.LT => some (p.ltString, p.hasLtOperator)
  | GeneratorEquationAstType.LEQ => some (p.leqString, p.hasLeqOperator)
  | GeneratorEquationAstType.GT => some (p.gtString, p.hasGtOperator)
  | GeneratorEquationAstType.GEQ => some (p.geqString, p.hasGeqOperator)
  | GeneratorEquationAstType.AND => some (p.andString, p.hasAndOperator)
  | GeneratorEquationAstType.OR => some (p.orString, p.hasOrOperator)
  | GeneratorEquationAstType.XOR => some (p.xorString, p.hasXorOperator)
  | _ => none

/-- The method `Generator::GeneratorImpl::generateCode`, on the node `ast`
whose parent has type `astParent` (`none` when it has no parent).  When
`copied` is set, `ast` stands for the copy that the `ROOT` case makes of a
node with the copy constructor of `GeneratorEquationAst`, which does not copy
`mValue`.  The calls of `generateOperatorCode`, `generateMinusUnaryCode`,
`generateOneParameterFunctionCode` and `generateTwoParameterFunctionCode` are
unfolded: the code of the operands is generated here, from left to right.
The result is `none` when the source dereferences a null pointer. -/
def generateCodeAux {F : Type} (p : GeneratorProfile) (m : Model) (num : Numerics F) :
    Bool → GeneratorEquationAst → Option GeneratorEquationAstType →
    StateT GeneratorImpl Option String
  | _, GeneratorEquationAst.null, _ => failure
  | copied, GeneratorEquationAst.node t value var l r, astParent =>
    let ast := GeneratorEquationAst.node t value var l r
    let operatorCode (op : String) : StateT GeneratorImpl Option String := do
      let left ← generateCodeAux p m num false l (some t)
      let right ← generateCodeAux p m num false r (some t)
      pure (generateOperatorCode p op ast left right)
    let oneParameterFunctionCode (function : String) : StateT GeneratorImpl Option String := do
      let left ← generateCodeAux p m num false l (some t)
      pure (function ++ "(" ++ left ++ ")")
    let twoParameterFunctionCode (function : String) : StateT GeneratorImpl Option String := do
      let left ← generateCodeAux p m num false l (some t)
      let right ← generateCodeAux p m num false r (some t)
      pure (function ++ "(" ++ left ++ ", " ++ right ++ ")")
    match t with
    | GeneratorEquationAstType.ASSIGNMENT => operatorCode p.assignmentString
    | GeneratorEquationAstType.EQ | GeneratorEquationAstType.NEQ
    | GeneratorEquationAstType.LT | GeneratorEquationAstType.LEQ
    | GeneratorEquationAstType.GT | GeneratorEquationAstType.GEQ
    | GeneratorEquationAstType.AND | GeneratorEquationAstType.OR
    | GeneratorEquationAstType.XOR =>
      match twoOperandOperator p t with
      | some (op, true) => operatorCode op
      | some (op, false) => twoParameterFunctionCode op
      | none => failure
    | GeneratorEquationAstType.NOT =>
      if p.hasNotOperator then do
        let left ← generateCodeAux p m num false l (some t)
        pure (p.notString ++ left)
      else oneParameterFunctionCode p.notString
    | GeneratorEquationAstType.PLUS =>
      if r.isNode then operatorCode p.plusString
      else generateCodeAux p m num false l (some t)
    | GeneratorEquationAstType.MINUS =>
      if r.isNode then operatorCode p.minusString
      else do
        let left ← generateCodeAux p m num false l (some t)
        pure (generateMinusUnaryCode p ast left)
    | GeneratorEquationAstType.TIMES => operatorCode p.timesString
    | GeneratorEquationAstType.DIVIDE => operatorCode p.divideString
    | GeneratorEquationAstType.POWER => do
      let stringValue ← generateCodeAux p m num false r (some t)
      if num.areEqualString stringValue "0.5" then
        oneParameterFunctionCode p.squareRootString
      else if num.areEqualString stringValue "2.0" && p.squareString ≠ "" then
        oneParameterFunctionCode p.squareString
      else if p.hasPowerOperator then operatorCode p.powerString
      else do
        let left ← generateCodeAux p m num false l (some t)
        pure (p.powerString ++ "(" ++ left ++ ", " ++ stringValue ++ ")")
    | GeneratorEquationAstType.ROOT =>
      if r.isNode then do
        let degree ← generateCodeAux p m num false l (some t)
        if num.areEqualString degree "2.0" then do
          let right ← generateCodeAux p m num false r (some t)
          pure (p.squareRootString ++ "(" ++ right ++ ")")
        else
          match l with
          | GeneratorEquationAst.null => failure
          | GeneratorEquationAst.node lt _ lvar ll lr =>
            let rootValueAst :=
              GeneratorEquationAst.node GeneratorEquationAstType.DIVIDE "" none
                (GeneratorEquationAst.node GeneratorEquationAstType.CN "1.0" none
                  GeneratorEquationAst.null GeneratorEquationAst.null)
                (GeneratorEquationAst.node lt "" lvar ll lr)
            if p.hasPowerOperator then operatorCode p.powerString
            else do
              let right ← generateCodeAux p m num false r (some t)
              let copy ← generateCodeAux p m num true l (some GeneratorEquationAstType.DIVIDE)
              pure (p.powerString ++ "(" ++ right ++ ", "
                ++ generateOperatorCode p p.divideString rootValueAst
                    (generateDoubleCode "1.0") copy ++ ")")
      else oneParameterFunctionCode p.squareRootString
    | GeneratorEquationAstType.LOG =>
      if r.isNode then do
        let stringValue ← generateCodeAux p m num false l (some t)
        let right ← generateCodeAux p m num false r (some t)
        if num.areEqualString stringValue "10.0" then
          pure (p.commonLogarithmString ++ "(" ++ right ++ ")")
        else
          pure (p.napierianLogarithmString ++ "(" ++ right ++ ")/"
            ++ p.napierianLogarithmString ++ "(" ++ stringValue ++ ")")
      else oneParameterFunctionCode p.commonLogarithmString
    | GeneratorEquationAstType.MIN => twoParameterFunctionCode p.minString
    | GeneratorEquationAstType.MAX => twoParameterFunctionCode p.maxString
    | GeneratorEquationAstType.REM => twoParameterFunctionCode p.remString
    | GeneratorEquationAstType.DIFF => generateCodeAux p m num false r (some t)
    | GeneratorEquationAstType.PIECEWISE =>
      if r.isNode then
        if r.hasType GeneratorEquationAstType.PIECE then do
          let left ← generateCodeAux p m num false l (some t)
          let right ← generateCodeAux p m num false r (some t)
          pure (left ++ generatePiecewiseElseCode p
            (right ++ generatePiecewiseElseCode p p.nanString))
        else do
          let left ← generateCodeAux p m num false l (some t)
          let right ← generateCodeAux p m num false r (some t)
          pure (left ++ generatePiecewiseElseCode p right)
      else do
        let left ← generateCodeAux p m num false l (some t)
        pure (left ++ generatePiecewiseElseCode p p.nanString)
    | GeneratorEquationAstType.PIECE => do
      let right ← generateCodeAux p m num false r (some t)
      let left ← generateCodeAux p m num false l (some t)
      pure (generatePiecewiseIfCode p right left)
    | GeneratorEquationAstType.OTHERWISE => generateCodeAux p m num false l (some t)
    | GeneratorEquationAstType.CI => generateVariableNameCode p m var (some astParent)
    | GeneratorEquationAstType.CN => pure (generateDoubleCode (if copied then "" else value))
    | GeneratorEquationAstType.DEGREE | GeneratorEquationAstType.LOGBASE
    | GeneratorEquationAstType.BVAR => generateCodeAux p m num false l (some t)
    | GeneratorEquationAstType.TRUE => pure p.trueString
    | GeneratorEquationAstType.FALSE => pure p.falseString
    | GeneratorEquationAstType.E => pure p.eString
    | GeneratorEquationAstType.PI => pure p.piString
    | GeneratorEquationAstType.INF => pure p.infString
    | GeneratorEquationAstType.NAN => pure p.nanString
    | _ =>
      match oneParameterFunctionString p t with
      | some function => oneParameterFunctionCode function
      | none => failure

/-- The method `Generator::GeneratorImpl::generateCode` on a node of a tree. -/
def generateCode {F : Type} (p : GeneratorProfile) (m : Model) (num : Numerics F)
    (ast : GeneratorEquationAst) (astParent : Option GeneratorEquationAstType) :
    StateT GeneratorImpl Option String :=
  generateCodeAux p m num false ast astParent

/-! ## Emission of the equations -/

/-- The loop of `generateEquationCode` over the dependencies of an equation:
`f` is the recursive call.  The accumulator `res` holds the equations emitted
so far and `remainingEquations` the equations that remain. -/
def forDependencies (f : Nat → List Nat → Option (List Nat × List Nat)) :
    List Nat → List Nat → List Nat → Option (List Nat × List Nat)
  | [], res, remainingEquations => some (res, remainingEquations)
  | dependency :: rest, res, remainingEquations =>
    match f dependency remainingEquations with
    | none => none
    | some r => forDependencies f rest (res ++ r.1) r.2

/-- The method `Generator::GeneratorImpl::generateEquationCode`.  The text
`res` of the source is the concatenation of one statement per emitted
equation; the embedding returns the list of the emitted equations, in the
order of their statements, with the new `remainingEquations`.  The depth of
the recursion over the dependencies is bounded by `fuel`; `none` means that
the fuel ran out. -/
def generateEquationCode (g : GeneratorImpl) (onlyStateRateBasedEquations : Bool) :
    Nat → Nat → List Nat → Option (List Nat × List Nat)
  | 0, _, _ => none
  | fuel + 1, equation, remainingEquations =>
    match forDependencies
        (fun dependency remaining =>
          if !onlyStateRateBasedEquations
              || (decide ((g.equation dependency).mType = GeneratorEquationType.ALGEBRAIC)
                  && (g.equation dependency).mIsStateRateBased) then
            generateEquationCode g onlyStateRateBasedEquations fuel dependency remaining
          else some ([], remaining))
        (g.equation equation).mDependencies [] remainingEquations with
    | none => none
    | some r =>
      if equation ∈ r.2 then some (r.1 ++ [equation], r.2.erase equation)
      else some (r.1, r.2)

/-- The loop `for (const auto &equation : mEquations)` of the four methods
that add the code of a procedure: the equations that satisfy `cond` are
emitted with `generateEquationCode`. -/
def generateEquationsCode (g : GeneratorImpl) (onlyStateRateBasedEquations : Bool)
    (cond : Nat → Bool) (fuel : Nat) :
    List Nat → List Nat → List Nat → Option (List Nat × List Nat)
  | [], methodBody, remainingEquations => some (methodBody, remainingEquations)
  | equation :: rest, methodBody, remainingEquations =>
    if cond equation then
      match generateEquationCode g onlyStateRateBasedEquations fuel equation
          remainingEquations with
      | none => none
      | some r =>
        generateEquationsCode g onlyStateRateBasedEquations cond fuel rest
          (methodBody ++ r.1) r.2
    else generateEquationsCode g onlyStateRateBasedEquations cond fuel rest methodBody
      remainingEquations

/-- The equations emitted by the four procedures of the implementation. -/
structure EmittedEquations where
  initializeStatesAndConstants : List Nat := []
  computeComputedConstants : List Nat := []
  computeRates : List Nat := []
  computeVariables : List Nat := []
  remainingEquations : List Nat := []
deriving DecidableEq, Repr, Inhabited

/-- The equations emitted by `implementationCode` in the bodies of its four
procedures (`addImplementationInitializeStatesAndConstantsMethodCode`,
`addImplementationComputeComputedConstantsMethodCode`,
`addImplementationComputeRatesMethodCode` and
`addImplementationComputeVariablesMethodCode`), each of which is skipped when
the string of the profile for its method is empty.  The recursion of
`generateEquationCode` is given one unit of fuel per equation plus one. -/
def emittedEquations (p : GeneratorProfile) (g : GeneratorImpl) : Option EmittedEquations :=
  let fuel := g.equationStore.length + 1
  let remainingEquations := g.mEquations
  (if p.implementationInitializeStatesAndConstantsMethodString ≠ "" then
    generateEquationsCode g false
      (fun e => decide ((g.equation e).mType = GeneratorEquationType.TRUE_CONSTANT))
      fuel g.mEquations [] remainingEquations
   else some ([], remainingEquations)).bind fun r1 =>
  (if p.implementationComputeComputedConstantsMethodString ≠ "" then
    generateEquationsCode g false
      (fun e => decide ((g.equation e).mType = GeneratorEquationType.VARIABLE_BASED_CONSTANT))
      fuel g.mEquations [] r1.2
   else some ([], r1.2)).bind fun r2 =>
  (if p.implementationComputeRatesMethodString ≠ "" then
    generateEquationsCode g false
      (fun e => decide ((g.equation e).mType = GeneratorEquationType.RATE))
      fuel g.mEquations [] r2.2
   else some ([], r2.2)).bind fun r3 =>
  (if p.implementationComputeVariablesMethodString ≠ "" then
    generateEquationsCode g true
      (fun e => decide (e ∈ r3.2)
        || (decide ((g.equation e).mType = GeneratorEquationType.ALGEBRAIC)
            && (g.equation e).mIsStateRateBased))
      fuel g.mEquations [] g.mEquations
   else some ([], g.mEquations)).map fun r4 =>
  { initializeStatesAndConstants := r1.1, computeComputedConstants := r2.1,
    computeRates := r3.1, computeVariables := r4.1, remainingEquations := r3.2 }

/-! ## The text of the implementation -/

/-- The statement that `generateEquationCode` appends for an equation. -/
def generateEquationStatement {F : Type} (p : GeneratorProfile) (m : Model) (num : Numerics F)
    (equation : Nat) : StateT GeneratorImpl Option String := do
  let g ← get
  let code ← generateCode p m num (g.equation equation).mAst none
  pure (p.indentString ++ code ++ p.commandSeparatorString ++ "\n")

/-- The statements of a list of equations, one after the other. -/
def generateEquationStatements {F : Type} (p : GeneratorProfile) (m : Model) (num : Numerics F) :
    List Nat → StateT GeneratorImpl Option String
  | [] => pure ""
  | equation :: rest => do
    let code ← generateEquationStatement p m num equation
    let codes ← generateEquationStatements p m num rest
    pure (code ++ codes)

/-- The method `Generator::GeneratorImpl::generateInitializationCode`. -/
def generateInitializationCode (p : GeneratorProfile) (m : Model) (internalVariable : Nat) :
    StateT GeneratorImpl Option String := do
  let g ← get
  let name ← generateVariableNameCode p m (g.internalVariable internalVariable).mVariable none
  pure (p.indentString ++ name ++ " = "
    ++ generateDoubleCode (g.internalVariable internalVariable).mInitialValueVariable.initialValue
    ++ p.commandSeparatorString ++ "\n")

/-- The loop of `addImplementationInitializeStatesAndConstantsMethodCode` over
the records: the initialisation of the states and of the constants. -/
def generateInitializationsCode (p : GeneratorProfile) (m : Model) :
    List Nat → StateT GeneratorImpl Option String
  | [] => pure ""
  | internalVariable :: rest => do
    let g ← get
    let code ←
      if (g.internalVariable internalVariable).mType = GeneratorInternalVariableType.STATE
          ∨ (g.internalVariable internalVariable).mType
              = GeneratorInternalVariableType.CONSTANT then
        generateInitializationCode p m internalVariable
      else pure ""
    let codes ← generateInitializationsCode p m rest
    pure (code ++ codes)

/-- The method `Generator::GeneratorImpl::generateMethodBodyCode`. -/
def generateMethodBodyCode (p : GeneratorProfile) (methodBody : String) : String :=
  if methodBody = "" then
    if p.emptyMethodString = "" then "" else p.indentString ++ p.emptyMethodString
  else methodBody

/-- The code that one of the four methods adds to `code`: nothing when the
string `method` of the profile is empty, else a line break when `code` is not
empty, followed by `method` with `<CODE>` replaced by the body. -/
def addMethodCode (p : GeneratorProfile) (method code methodBody : String) : String :=
  if method ≠ "" then
    (if code ≠ "" then code ++ "\n" else code)
      ++ replace method "<CODE>" (generateMethodBodyCode p methodBody)
  else code

/-- The method `Generator::implementationCode`.  `preamble` is the text that
the source has assembled when it reaches the four procedures (origin comment,
header, version, counts, information about the variables, helper functions
and array methods).  The result is `none` when the source dereferences a null
pointer. -/
def Generator.implementationCode {F : Type} (p : GeneratorProfile) (m : Model)
    (num : Numerics F) (preamble : String) : StateT GeneratorImpl Option String := do
  let g ← get
  if !hasValidModel g then pure ""
  else
    match emittedEquations p g with
    | none => failure
    | some e =>
      let res := preamble
      let inits ←
        if p.implementationInitializeStatesAndConstantsMethodString ≠ "" then
          generateInitializationsCode p m g.mInternalVariables
        else pure ""
      let body1 ← generateEquationStatements p m num e.initializeStatesAndConstants
      let res := addMethodCode p p.implementationInitializeStatesAndConstantsMethodString res
        (inits ++ body1)
      let body2 ← generateEquationStatements p m num e.computeComputedConstants
      let res := addMethodCode p p.implementationComputeComputedConstantsMethodString res body2
      let body3 ← generateEquationStatements p m num e.computeRates
      let res := addMethodCode p p.implementationComputeRatesMethodString res body3
      let body4 ← generateEquationStatements p m num e.computeVariables
      let res := addMethodCode p p.implementationComputeVariablesMethodString res body4
      pure res

/-- The method `Generator::interfaceCode`.  `body` is the text that the source
assembles from the profile when the model is valid and the profile has an
interface. -/
def Generator.interfaceCode (p : GeneratorProfile) (g : GeneratorImpl) (body : String) :
    String :=
  if !hasValidModel g || !p.hasInterface then "" else body


/-! ## The importer: `Importer::resolveImports` -/

/-- What an imported entity (`ImportedEntity`) knows of its import: the import
source it refers to, given by its rank among the import sources of the
document and by its `url()`, and its `importReference()`. -/
structure ImportReference where
  source : Nat
  url : String
  reference : String
deriving DecidableEq, Repr, Inhabited

/-- A `Units` as the importer sees it: its name and its import (`none` when
`isImport()` is false). -/
structure ImportedUnits where
  name : String
  importReference : Option ImportReference := none
deriving DecidableEq, Repr, Inhabited

/-- A `Component` as the importer sees it: its name, its import (`none` when
`isImport()` is false) and the components that it encapsulates. -/
inductive ImportedComponent where
  | mk (name : String) (importReference : Option ImportReference)
      (components : List ImportedComponent) : ImportedComponent
deriving Repr, Inhabited

/-- A `Model` as the importer sees it, as `Parser::parseModel` returns it:
no import source of a parsed model has a model. -/
structure ImportedModel where
  name : String
  units : List ImportedUnits := []
  components : List ImportedComponent := []
deriving Repr, Inhabited

/-- An entry of the `history` of `resolveImports`: the destination, the import
reference and the URL. -/
abbrev ImportStep := String × String × String

/-- The state that the functions of the importer share: the number of models
parsed so far (the model given to `resolveImports` is the document `0`, and
the models parsed are numbered from `1`), the import sources that have a model
(each given by its document and its rank in it), and the vectors `history` and
`issues`, which are passed by reference. -/
structure ImporterState where
  parsed : Nat := 0
  withModel : List (Nat × Nat) := []
  history : List ImportStep := []
  issues : List String := []
deriving DecidableEq, Repr, Inhabited

/-- The characters of `base.substr(0, base.find_last_of('/') + 1)`: the text
up to and including the last `/`, which is empty when there is none. -/
def directoryOf (base : List Char) : List Char :=
  (base.reverse.dropWhile fun c => c ≠ '/').reverse

/-- The function `resolvePath`. -/
def resolvePath (filename base : String) : String :=
  String.mk (directoryOf base.data) ++ filename

/-- The text that lists the entries of `history` in an issue; `kind` is
`units` or `component`. -/
def dependencyLoop (kind : String) : List ImportStep → String → String → String
  | [], _, msg => msg
  | h :: rest, spacer, msg =>
    dependencyLoop kind rest "',\n    "
      (msg ++ spacer ++ kind ++ " '" ++ h.1 ++ "' imports '" ++ h.2.1 ++ "' from '" ++ h.2.2)

/-- The function `resolveImport`, for an entity of the document `document`.
`resolve` is `doResolveImports` on a model that has just been parsed, and
`files` gives the model that the parser makes of the file at a path (`none`
when the file cannot be read).  The result is the value returned with the new
state; `none` means that the nesting of the files exceeds the fuel. -/
def resolveImport (files : String → Option ImportedModel)
    (resolve : Nat → ImportedModel → String → ImporterState → Option (Bool × ImporterState))
    (document : Nat) (importReference : Option ImportReference) (destination baseFile : String)
    (s : ImporterState) : Option (Bool × ImporterState) :=
  match importReference with
  | none => some (true, s)
  | some r =>
    let h : ImportStep := (destination, r.reference, r.url)
    if h ∈ s.history then some (false, { s with history := s.history ++ [h] })
    else
      let s := { s with history := s.history ++ [h] }
      if (document, r.source) ∉ s.withModel then
        let url := resolvePath r.url baseFile
        match files url with
        | some model =>
          -- importSource->setModel(model)
          resolve (s.parsed + 1) model url
            { s with parsed := s.parsed + 1, withModel := s.withModel ++ [(document, r.source)] }
        | none => some (true, s)
      else some (true, s)

mutual
/-- The body of the loop of `resolveComponentImports` for one component of
the model named `modelName` (the model that `owningModel` returns). -/
def resolveComponentImport (files : String → Option ImportedModel)
    (resolve : Nat → ImportedModel → String → ImporterState → Option (Bool × ImporterState))
    (document : Nat) (modelName baseFile : String) :
    ImportedComponent → Bool → ImporterState → Option (Bool × ImporterState)
  | ImportedComponent.mk name importReference components, noErrors, s =>
    match
      (match importReference with
       | some _ =>
         match resolveImport files resolve document importReference name baseFile s with
         | none => none
         | some (true, s) => some (noErrors, s)
         | some (false, s) =>
           if s.history ≠ [] then
             some (false,
               { s with
                 issues := s.issues ++
                   [dependencyLoop "component" s.history "    "
                     ("Cyclic dependencies were found when attempting to resolve components"
                       ++ " in model '" ++ modelName ++ "'" ++ ". The dependency loop is:\n")
                     ++ "'."],
                 history := [] })
           else some (false, s)
       | none => some (noErrors, s)) with
    | none => none
    | some (noErrors, s) =>
      match resolveComponentImports files resolve document modelName baseFile components true s
        with
      | none => none
      | some (true, s) => some (noErrors, s)
      | some (false, s) => some (false, s)
/-- The function `resolveComponentImports`, on the components that an entity
holds; `noErrors` is the value of the local variable of that name. -/
def resolveComponentImports (files : String → Option ImportedModel)
    (resolve : Nat → ImportedModel → String → ImporterState → Option (Bool × ImporterState))
    (document : Nat) (modelName baseFile : String) :
    List ImportedComponent → Bool → ImporterState → Option (Bool × ImporterState)
  | [], noErrors, s => some (noErrors, s)
  | component :: rest, noErrors, s =>
    match resolveComponentImport files resolve document modelName baseFile component noErrors s
      with
    | none => none
    | some (noErrors, s) =>
      resolveComponentImports files resolve document modelName baseFile rest noErrors s
end

/-- The loop of `doResolveImports` over the units of the model: `none` in the
second place means that the function goes on with the components, and a value
there is the value that it returns at once. -/
def resolveUnitsImports (files : String → Option ImportedModel)
    (resolve : Nat → ImportedModel → String → ImporterState → Option (Bool × ImporterState))
    (document : Nat) (modelName baseFile : String) :
    List ImportedUnits → ImporterState → Option (Option Bool × ImporterState)
  | [], s => some (none, s)
  | units :: rest, s =>
    match resolveImport files resolve document units.importReference units.name baseFile s with
    | none => none
    | some (ok, s) =>
      if !ok && decide (s.history ≠ []) then
        some (some false,
          { s with
            issues := s.issues ++
              [dependencyLoop "units" s.history "    "
                ("Cyclic dependencies were found when attempting to resolve units in model '"
                  ++ modelName ++ "'. The dependency loop is:\n")
                ++ "'."],
            history := [] })
      else resolveUnitsImports files resolve document modelName baseFile rest s

/-- The function `doResolveImports`, on the model `model` of the document
`document`.  One unit of fuel is used for every level of nesting of the
files. -/
def doResolveImports (files : String → Option ImportedModel) :
    Nat → Nat → ImportedModel → String → ImporterState → Option (Bool × ImporterState)
  | 0, _, _, _, _ => none
  | fuel + 1, document, model, baseFile, s =>
    let resolve := fun d mdl b st => doResolveImports files fuel d mdl b st
    match resolveUnitsImports files resolve document model.name baseFile model.units s with
    | none => none
    | some (some res, s) => some (res, s)
    | some (none, s) =>
      resolveComponentImports files resolve document model.name baseFile model.components true s

/-- The method `Importer::resolveImports`, on a model none of whose import
sources has a model yet: the descriptions of the issues that it adds. -/
def Importer.resolveImports (files : String → Option ImportedModel) (fuel : Nat)
    (model : ImportedModel) (baseFile : String) : Option (List String) :=
  (doResolveImports files fuel 0 model baseFile {}).map fun r => r.2.issues

/-! ## Auxiliary definitions for the statements and proofs -/

/-- The number of orders handed out so far, from the counter. -/
def handedOut (x : Nat) : Nat := if x = MAX_SIZE_T then 0 else x + 1

/-- The state, counters and result of `check` when it gives an order. -/
def checkResolved (hEq : Variable → Variable → Bool) (g : GeneratorImpl) (self : Nat)
    (c : Counters) : GeneratorImpl × Counters × Bool :=
  let this := updateTracking g (g.equation self)
  let p := soleVariable this
  let var := updateVariable hEq this (g.internalVariable p)
  let c := nextCounters var.mType c
  ((g.setInternalVariable p
      { var with mIndex := assignedIndex var.mType c, mEquation := some self }).setEquation
    self
      { this with
        mOrder := c.equationOrder, mType := equationTypeOf var.mType,
        mVariable := some p },
    c, true)

/-- The number of equations of the list `mEquations` that have no order. -/
def unorderedCount (g : GeneratorImpl) : Nat :=
  g.mEquations.countP fun e => decide ((g.equation e).mOrder = MAX_SIZE_T)

/-- The counter `equationOrder` and the equations without order: the orders
that remain to be handed out fit in a `size_t`. -/
def OrderRoom (g : GeneratorImpl) (c : Counters) : Prop :=
  c.equationOrder ≤ MAX_SIZE_T ∧ handedOut c.equationOrder + unorderedCount g ≤ MAX_SIZE_T

/-- The members of the generator that `check` and the pre-pass do not write
are the same in the two states. -/
def SameResults (g g' : GeneratorImpl) : Prop :=
  g'.mModelType = g.mModelType ∧ g'.mInternalVariables = g.mInternalVariables
  ∧ g'.mEquations = g.mEquations ∧ g'.mVoi = g.mVoi ∧ g'.mStates = g.mStates
  ∧ g'.mVariables = g.mVariables ∧ g'.errors = g.errors

/-- Some record of the registry is tagged `UNKNOWN` or `SHOULD_BE_STATE`. -/
def SomeUnderconstrained (g : GeneratorImpl) : Prop :=
  ∃ p ∈ g.mInternalVariables,
    (g.internalVariable p).mType = GeneratorInternalVariableType.UNKNOWN
    ∨ (g.internalVariable p).mType = GeneratorInternalVariableType.SHOULD_BE_STATE

/-- Some record of the registry is tagged `OVERCONSTRAINED`. -/
def SomeOverconstrained (g : GeneratorImpl) : Prop :=
  ∃ p ∈ g.mInternalVariables,
    (g.internalVariable p).mType = GeneratorInternalVariableType.OVERCONSTRAINED

/-- The type of model that the final tags call for. -/
def ModelTypeFromTags (g : GeneratorImpl) (t : ModelType) : Prop :=
  (SomeUnderconstrained g ∧ SomeOverconstrained g → t = ModelType.UNSUITABLY_CONSTRAINED)
  ∧ (SomeUnderconstrained g ∧ ¬ SomeOverconstrained g → t = ModelType.UNDERCONSTRAINED)
  ∧ (¬ SomeUnderconstrained g ∧ SomeOverconstrained g → t = ModelType.OVERCONSTRAINED)
  ∧ (¬ SomeUnderconstrained g ∧ ¬ SomeOverconstrained g ∧ g.mVoi ≠ none → t = ModelType.ODE)
  ∧ (¬ SomeUnderconstrained g ∧ ¬ SomeOverconstrained g ∧ g.mVoi = none
      ∧ g.mInternalVariables ≠ [] → t = ModelType.ALGEBRAIC)
  ∧ (¬ SomeUnderconstrained g ∧ ¬ SomeOverconstrained g ∧ g.mVoi = none
      ∧ g.mInternalVariables = [] → t = ModelType.UNKNOWN)

/-- What the pre-pass leaves unchanged: the equations, the type of the model
and, in every record, the index and the equation; the tag of a record is
unchanged or one of those that the declarations and the pre-pass give. -/
def PrePassFrame (g g' : GeneratorImpl) : Prop :=
  g'.mModelType = g.mModelType ∧ g'.mEquations = g.mEquations
  ∧ g'.equationStore = g.equationStore
  ∧ g'.mStates = g.mStates ∧ g'.mVariables = g.mVariables
  ∧ (∃ extra, g'.errors = g.errors ++ extra)
  ∧ ∀ p, (g'.internalVariable p).mIndex = (g.internalVariable p).mIndex
      ∧ (g'.internalVariable p).mEquation = (g.internalVariable p).mEquation
      ∧ ((g'.internalVariable p).mType = (g.internalVariable p).mType
        ∨ (g'.internalVariable p).mType = GeneratorInternalVariableType.VARIABLE_OF_INTEGRATION
        ∨ (g'.internalVariable p).mType = GeneratorInternalVariableType.SHOULD_BE_STATE
        ∨ (g'.internalVariable p).mType = GeneratorInternalVariableType.STATE
        ∨ (g'.internalVariable p).mType = GeneratorInternalVariableType.CONSTANT)

/-- What the scaling of the trees leaves unchanged: everything but the
registry, which a lookup can extend, and the trees of the equations. -/
def ScaleFrame (g g' : GeneratorImpl) : Prop :=
  g'.mModelType = g.mModelType ∧ g'.mEquations = g.mEquations ∧ g'.mVoi = g.mVoi
  ∧ g'.mStates = g.mStates ∧ g'.mVariables = g.mVariables ∧ g'.errors = g.errors
  ∧ g'.equationStore.length = g.equationStore.length
  ∧ ∀ e, { g'.equation e with mAst := (g.equation e).mAst } = g.equation e

/-- A variable reference (`ci`) in a tree. -/
def GeneratorEquationAst.ci (v : Variable) : GeneratorEquationAst :=
  GeneratorEquationAst.node GeneratorEquationAstType.CI "" (some v)
    GeneratorEquationAst.null GeneratorEquationAst.null

/-- A numeric literal (`cn`) in a tree. -/
def GeneratorEquationAst.cn (value : String) : GeneratorEquationAst :=
  GeneratorEquationAst.node GeneratorEquationAstType.CN value none
    GeneratorEquationAst.null GeneratorEquationAst.null

/-- The tree of `<apply><op/> l r</apply>`. -/
def GeneratorEquationAst.op (t : GeneratorEquationAstType) (l r : GeneratorEquationAst) :
    GeneratorEquationAst :=
  GeneratorEquationAst.node t "" none l r

/-- The tree of `<apply><diff/><bvar><ci>t</ci></bvar><ci>x</ci></apply>`. -/
def GeneratorEquationAst.diff (t x : Variable) : GeneratorEquationAst :=
  GeneratorEquationAst.op GeneratorEquationAstType.DIFF
    (GeneratorEquationAst.op GeneratorEquationAstType.BVAR (GeneratorEquationAst.ci t)
      GeneratorEquationAst.null)
    (GeneratorEquationAst.ci x)

/-- The tree of the equation `l = r`. -/
def GeneratorEquationAst.assignment (l r : GeneratorEquationAst) : GeneratorEquationAst :=
  GeneratorEquationAst.op GeneratorEquationAstType.ASSIGNMENT l r

namespace DependentEqns

/-- The variable `time` of the model of the test `dependentEqns`. -/
def time : Variable :=
  { ident := 0, name := "time", initialValue := "", units := "second", parent := "my_component" }

/-- The variable `x`, initialised to `0`. -/
def x : Variable :=
  { ident := 1, name := "x", initialValue := "0", units := "dimensionless",
    parent := "my_component" }

/-- The variable `a`. -/
def a : Variable :=
  { ident := 2, name := "a", initialValue := "", units := "second", parent := "my_component" }

/-- The variable `b`. -/
def b : Variable :=
  { ident := 3, name := "b", initialValue := "", units := "second", parent := "my_component" }

/-- The component `my_component`. -/
def component : Component := { name := "my_component", variableList := [time, x, a, b] }

/-- The model: one component, and no two variables are equivalent. -/
def model : Model :=
  { components := [ComponentEntity.mk component []], hasEquivalentVariable := fun _ _ => false }

/-- The generator once the component has been processed, for the equations
`dx/dtime = 1`, `a = 3*b` and `b = 2*time`, stored in this order.  The records
are those of `x`, `a`, `b` and `time`, in the order in which `processNode` and
`processComponent` create them. -/
def generator : GeneratorImpl :=
  { variableStore :=
      [ { mInitialValueVariable := x, mVariable := some x,
          mType := GeneratorInternalVariableType.CONSTANT },
        { mInitialValueVariable := a, mVariable := some a },
        { mInitialValueVariable := b, mVariable := some b },
        { mInitialValueVariable := time, mVariable := some time } ],
    mInternalVariables := [0, 1, 2, 3],
    equationStore :=
      [ { mAst := GeneratorEquationAst.assignment (GeneratorEquationAst.diff time x)
            (GeneratorEquationAst.cn "1"),
          mOdeVariables := [0], mComponent := component },
        { mAst := GeneratorEquationAst.assignment (GeneratorEquationAst.ci a)
            (GeneratorEquationAst.op GeneratorEquationAstType.TIMES (GeneratorEquationAst.cn "3")
              (GeneratorEquationAst.ci b)),
          mVariables := [1, 2], mComponent := component },
        { mAst := GeneratorEquationAst.assignment (GeneratorEquationAst.ci b)
            (GeneratorEquationAst.op GeneratorEquationAstType.TIMES (GeneratorEquationAst.cn "2")
              (GeneratorEquationAst.ci time)),
          mVariables := [2, 3], mComponent := component } ],
    mEquations := [0, 1, 2] }

/-- The numerical helpers used with the example: the units of the model scale
by one, and a literal is compared as a text. -/
def numerics : Numerics Nat :=
  { unitsScalingFactor := fun _ _ => 1
    areEqualToOne := fun f => decide (f = 1)
    convertToString := fun _ => "1"
    convertInverseToString := fun _ => "1"
    isOne := fun s => decide (s = "1")
    areEqualString := fun s d => decide (s = d) }

end DependentEqns

/-- The generator of the example after the pre-pass over its trees. -/
def DependentEqns.prePassed : GeneratorImpl :=
  (prePass DependentEqns.model DependentEqns.numerics.isOne
    (resetResults DependentEqns.generator)).getD default

namespace InitializedVoi

/-- The variable `time` of the model of the test
`initializedVariableOfIntegration`: it has an initial value. -/
def time : Variable :=
  { ident := 0, name := "time", initialValue := "0", units := "second", parent := "my_component" }

/-- The variable `x`, initialised to `0`. -/
def x : Variable :=
  { ident := 1, name := "x", initialValue := "0", units := "dimensionless",
    parent := "my_component" }

/-- The component `my_component`. -/
def component : Component := { name := "my_component", variableList := [time, x] }

/-- The model: one component, and no two variables are equivalent. -/
def model : Model :=
  { components := [ComponentEntity.mk component []], hasEquivalentVariable := fun _ _ => false }

/-- The generator once the component has been processed, for the equation
`dx/dtime = 1`. -/
def generator : GeneratorImpl :=
  { variableStore :=
      [ { mInitialValueVariable := x, mVariable := some x,
          mType := GeneratorInternalVariableType.CONSTANT },
        { mInitialValueVariable := time, mVariable := some time,
          mType := GeneratorInternalVariableType.CONSTANT } ],
    mInternalVariables := [0, 1],
    equationStore :=
      [ { mAst := GeneratorEquationAst.assignment (GeneratorEquationAst.diff time x)
            (GeneratorEquationAst.cn "1"),
          mOdeVariables := [0], mComponent := component } ],
    mEquations := [0] }

/-- The generator of the example after the pre-pass over its tree. -/
def prePassed : GeneratorImpl :=
  (prePass model DependentEqns.numerics.isOne (resetResults generator)).getD default

end InitializedVoi

/-- The rational number that a tree built from variable references, numeric
literals, binary plus, minus, times and divide and unary plus and minus
denotes, for given values of the variables and of the literals; `none` for
any other tree. -/
def GeneratorEquationAst.denotation (value : Variable → ℚ) (literal : String → ℚ) :
    GeneratorEquationAst → Option ℚ
  | GeneratorEquationAst.null => none
  | GeneratorEquationAst.node t s var l r =>
    match t with
    | GeneratorEquationAstType.CI => var.map value
    | GeneratorEquationAstType.CN => some (literal s)
    | GeneratorEquationAstType.PLUS =>
      if r.isNode then
        (GeneratorEquationAst.denotation value literal l).bind fun x =>
        (GeneratorEquationAst.denotation value literal r).map fun y => x + y
      else GeneratorEquationAst.denotation value literal l
    | GeneratorEquationAstType.MINUS =>
      if r.isNode then
        (GeneratorEquationAst.denotation value literal l).bind fun x =>
        (GeneratorEquationAst.denotation value literal r).map fun y => x - y
      else (GeneratorEquationAst.denotation value literal l).map fun x => -x
    | GeneratorEquationAstType.TIMES =>
      (GeneratorEquationAst.denotation value literal l).bind fun x =>
      (GeneratorEquationAst.denotation value literal r).map fun y => x * y
    | GeneratorEquationAstType.DIVIDE =>
      (GeneratorEquationAst.denotation value literal l).bind fun x =>
      (GeneratorEquationAst.denotation value literal r).map fun y => x / y
    | _ => none

/-- The variable `a` of the example of a unary plus. -/
def UnaryPlus.a : Variable :=
  { ident := 0, name := "a", initialValue := "1", units := "dimensionless", parent := "main" }

/-- The variable `b`. -/
def UnaryPlus.b : Variable :=
  { ident := 1, name := "b", initialValue := "2", units := "dimensionless", parent := "main" }

/-- The variable `c`. -/
def UnaryPlus.c : Variable :=
  { ident := 2, name := "c", initialValue := "3", units := "dimensionless", parent := "main" }

/-- The model: no two variables are equivalent. -/
def UnaryPlus.model : Model :=
  { components :=
      [ComponentEntity.mk { name := "main", variableList := [UnaryPlus.a, UnaryPlus.b, UnaryPlus.c] }
        []],
    hasEquivalentVariable := fun _ _ => false }

/-- A generator in which `a`, `b` and `c` are the constants of index 0, 1 and 2. -/
def UnaryPlus.generator : GeneratorImpl :=
  { mModelType := ModelType.ALGEBRAIC,
    variableStore :=
      [ { mInitialValueVariable := UnaryPlus.a, mVariable := some UnaryPlus.a, mIndex := 0,
          mType := GeneratorInternalVariableType.CONSTANT },
        { mInitialValueVariable := UnaryPlus.b, mVariable := some UnaryPlus.b, mIndex := 1,
          mType := GeneratorInternalVariableType.CONSTANT },
        { mInitialValueVariable := UnaryPlus.c, mVariable := some UnaryPlus.c, mIndex := 2,
          mType := GeneratorInternalVariableType.CONSTANT } ],
    mInternalVariables := [0, 1, 2] }

/-- The tree of `a - (+(b + c))`: a binary minus whose right operand is the
unary plus of a sum,
`<apply><minus/><ci>a</ci><apply><plus/><apply><plus/><ci>b</ci><ci>c</ci></apply></apply></apply>`. -/
def UnaryPlus.minusOfUnaryPlus : GeneratorEquationAst :=
  GeneratorEquationAst.op GeneratorEquationAstType.MINUS (GeneratorEquationAst.ci UnaryPlus.a)
    (GeneratorEquationAst.op GeneratorEquationAstType.PLUS
      (GeneratorEquationAst.op GeneratorEquationAstType.PLUS (GeneratorEquationAst.ci UnaryPlus.b)
        (GeneratorEquationAst.ci UnaryPlus.c))
      GeneratorEquationAst.null)

/-- The tree of `(a - b) + c`. -/
def UnaryPlus.sumOfDifference : GeneratorEquationAst :=
  GeneratorEquationAst.op GeneratorEquationAstType.PLUS
    (GeneratorEquationAst.op GeneratorEquationAstType.MINUS (GeneratorEquationAst.ci UnaryPlus.a)
      (GeneratorEquationAst.ci UnaryPlus.b))
    (GeneratorEquationAst.ci UnaryPlus.c)

/-- The values `a = 0`, `b = 0` and `c = 1`. -/
def UnaryPlus.values (v : Variable) : ℚ := if v.ident = 2 then 1 else 0

/-- The variable `t` of the component `main`, in seconds. -/
def ScaledRate.t : Variable :=
  { ident := 0, name := "t", initialValue := "", units := "second", parent := "main" }

/-- The variable `y` of the component `main`, in metres. -/
def ScaledRate.y : Variable :=
  { ident := 1, name := "y", initialValue := "", units := "metre", parent := "main" }

/-- The variable `t` of the component `sub`, in milliseconds. -/
def ScaledRate.t2 : Variable :=
  { ident := 2, name := "t", initialValue := "", units := "millisecond", parent := "sub" }

/-- The variable `y` of the component `sub`, in centimetres. -/
def ScaledRate.y2 : Variable :=
  { ident := 3, name := "y", initialValue := "", units := "centimetre", parent := "sub" }

/-- The variable `x` of the component `sub`, initialised to `0`. -/
def ScaledRate.x : Variable :=
  { ident := 4, name := "x", initialValue := "0", units := "dimensionless", parent := "sub" }

/-- The component `main`, with the equation `y = 2`. -/
def ScaledRate.main : Component :=
  { name := "main", variableList := [ScaledRate.t, ScaledRate.y] }

/-- The component `sub`, with the equation `dx/dt = y`. -/
def ScaledRate.sub : Component :=
  { name := "sub", variableList := [ScaledRate.t2, ScaledRate.y2, ScaledRate.x] }

/-- The model: the two variables `t` are equivalent, and so are the
two variables `y`. -/
def ScaledRate.model : Model :=
  { components := [ComponentEntity.mk ScaledRate.main [], ComponentEntity.mk ScaledRate.sub []],
    hasEquivalentVariable := fun v w =>
      decide (v.name = w.name) && decide (v.name ≠ "x") }

/-- The generator once the two components have been processed: the records
are those of `y` and `t` (created for the component `main`) and of `x`. -/
def ScaledRate.generator : GeneratorImpl :=
  { variableStore :=
      [ { mInitialValueVariable := ScaledRate.y, mVariable := some ScaledRate.y },
        { mInitialValueVariable := ScaledRate.t, mVariable := some ScaledRate.t },
        { mInitialValueVariable := ScaledRate.x, mVariable := some ScaledRate.x,
          mType := GeneratorInternalVariableType.CONSTANT } ],
    mInternalVariables := [0, 1, 2],
    equationStore :=
      [ { mAst := GeneratorEquationAst.assignment (GeneratorEquationAst.ci ScaledRate.y)
            (GeneratorEquationAst.cn "2"),
          mVariables := [0], mComponent := ScaledRate.main },
        { mAst := GeneratorEquationAst.assignment
            (GeneratorEquationAst.diff ScaledRate.t2 ScaledRate.x)
            (GeneratorEquationAst.ci ScaledRate.y2),
          mVariables := [0], mOdeVariables := [2], mComponent := ScaledRate.sub } ],
    mEquations := [0, 1] }

/-- The numerical helpers used with the example.  A factor is written as its
decimal text: a millisecond is `0.001` second and a centimetre `0.01` metre. -/
def ScaledRate.numerics : Numerics String :=
  { unitsScalingFactor := fun u v =>
      if u = v then "1"
      else if u = "millisecond" ∧ v = "second" then "0.001"
      else if u = "centimetre" ∧ v = "metre" then "0.01"
      else "1"
    areEqualToOne := fun f => decide (f = "1")
    convertToString := fun f => f
    convertInverseToString := fun f =>
      if f = "0.001" then "1000" else if f = "0.01" then "100" else "1"
    isOne := fun s => decide (s = "1")
    areEqualString := fun s d => decide (s = d) }

/-- The equations that compute the known variables of a list. -/
def knownEquations (g : GeneratorImpl) (vs : List Nat) : List Nat :=
  vs.filterMap fun v => if knownVariable g v then (g.internalVariable v).mEquation else none

/-- The number of equations of the store that have no order. -/
def unorderedStored (g : GeneratorImpl) : Nat :=
  (List.range g.equationStore.length).countP fun e =>
    decide ((g.equation e).mOrder = MAX_SIZE_T)

/-- The invariant of the resolution loop on the orders: the orders handed out
are below the counter, which is at most the number of equations; an equation
with an order belongs to `mEquations`; the equation that computes a variable
has an order; a dependency has an order, smaller than the order of the
equation that depends on it. -/
structure OrderInv (g : GeneratorImpl) (c : Counters) : Prop where
  len : g.equationStore.length ≤ MAX_SIZE_T
  counter : c.equationOrder ≤ MAX_SIZE_T
  room : handedOut c.equationOrder + unorderedStored g ≤ g.equationStore.length
  bound : ∀ e, (g.equation e).mOrder ≠ MAX_SIZE_T →
    (g.equation e).mOrder < handedOut c.equationOrder
  member : ∀ e, (g.equation e).mOrder ≠ MAX_SIZE_T → e ∈ g.mEquations
  computes : ∀ p e, (g.internalVariable p).mEquation = some e →
    (g.equation e).mOrder ≠ MAX_SIZE_T
  deps : ∀ e d, d ∈ (g.equation e).mDependencies →
    (g.equation d).mOrder ≠ MAX_SIZE_T
    ∧ ((g.equation e).mOrder ≠ MAX_SIZE_T → (g.equation d).mOrder < (g.equation e).mOrder)

/-- The test of `generateEquationCode` on a dependency: it is followed unless
only the state/rate-based equations are wanted and it is not an algebraic
state/rate-based equation. -/
def followsDependency (g : GeneratorImpl) (onlyStateRateBasedEquations : Bool) (d : Nat) : Bool :=
  !onlyStateRateBasedEquations
    || (decide ((g.equation d).mType = GeneratorEquationType.ALGEBRAIC)
        && (g.equation d).mIsStateRateBased)

/-- In the list `T` of emitted equations, every equation comes after those of
its dependencies that are followed and belong to `M`. -/
def AfterDependencies (g : GeneratorImpl) (only : Bool) (M T : List Nat) : Prop :=
  ∀ pre e post, T = pre ++ e :: post →
    ∀ d ∈ (g.equation e).mDependencies, followsDependency g only d = true → d ∈ M → d ∈ pre

/-- The relation between the equations `M` of the generator, the equations `T`
emitted so far and the equations `R` that remain. -/
structure Emission (g : GeneratorImpl) (only : Bool) (M T R : List Nat) : Prop where
  nodupR : R.Nodup
  nodupT : T.Nodup
  cover : ∀ x ∈ M, x ∈ T ∨ x ∈ R
  subR : ∀ x ∈ R, x ∈ M
  subT : ∀ x ∈ T, x ∈ M
  disjoint : ∀ x ∈ T, x ∉ R
  after : AfterDependencies g only M T

/-- What the emission of the equations needs of the generator: the equations
of `mEquations` are distinct; every dependency of an equation belongs to
`mEquations` and has an order, below the number of equations and below the
order of the equation when it has one. -/
structure Emittable (g : GeneratorImpl) : Prop where
  nodup : g.mEquations.Nodup
  member : ∀ e d, d ∈ (g.equation e).mDependencies → d ∈ g.mEquations
  rank : ∀ e d, d ∈ (g.equation e).mDependencies →
    (g.equation d).mOrder ≠ MAX_SIZE_T ∧ (g.equation d).mOrder < g.equationStore.length
    ∧ ((g.equation e).mOrder ≠ MAX_SIZE_T → (g.equation d).mOrder < (g.equation e).mOrder)

/-- The depth of an equation in the graph of the dependencies is at most its
order, or the number of equations when it has none. -/
def emissionRank (g : GeneratorImpl) (e : Nat) : Nat :=
  if (g.equation e).mOrder = MAX_SIZE_T then g.equationStore.length else (g.equation e).mOrder

/-- The generator as the processing of the components leaves it: the
equations of `mEquations` are distinct and their number fits in a `size_t`;
no equation has an order, a type, a dependency or a computed variable, and its
lists of variables have no duplicate; no record has an index or an equation,
and its tag is `UNKNOWN` or `CONSTANT`. -/
@[reducible]
def Built (g : GeneratorImpl) : Prop :=
  g.mEquations.Nodup ∧ g.equationStore.length ≤ MAX_SIZE_T
  ∧ (∀ x ∈ g.equationStore, x.mOrder = MAX_SIZE_T ∧ x.mDependencies = []
      ∧ x.mVariable = none ∧ x.mType = GeneratorEquationType.UNKNOWN
      ∧ x.mVariables.Nodup ∧ x.mOdeVariables.Nodup)
  ∧ (∀ x ∈ g.variableStore, x.mIndex = MAX_SIZE_T ∧ x.mEquation = none
      ∧ (x.mType = GeneratorInternalVariableType.UNKNOWN
        ∨ x.mType = GeneratorInternalVariableType.CONSTANT))

/-- What the emission needs of the generator. -/
def EmitFacts (g : GeneratorImpl) : Prop :=
  Emittable g ∧ ∀ e, (g.equation e).mOrder ≠ MAX_SIZE_T →
    (g.equation e).mOrder < g.equationStore.length

/-- The variable `time` of the example of a state-based model. -/
def StateBased.time : Variable :=
  { ident := 0, name := "time", initialValue := "", units := "second", parent := "main" }

/-- The variable `x`, initialised to `1`. -/
def StateBased.x : Variable :=
  { ident := 1, name := "x", initialValue := "1", units := "dimensionless", parent := "main" }

/-- The variable `a`. -/
def StateBased.a : Variable :=
  { ident := 2, name := "a", initialValue := "", units := "dimensionless", parent := "main" }

/-- The variable `k`. -/
def StateBased.k : Variable :=
  { ident := 3, name := "k", initialValue := "", units := "dimensionless", parent := "main" }

/-- The component `main`. -/
def StateBased.component : Component :=
  { name := "main", variableList := [StateBased.time, StateBased.x, StateBased.a, StateBased.k] }

/-- The model: one component, and no two variables are equivalent. -/
def StateBased.model : Model :=
  { components := [ComponentEntity.mk StateBased.component []],
    hasEquivalentVariable := fun _ _ => false }

/-- The generator once the component has been processed, for the equations
`dx/dtime = a`, `a = k*x` and `k = 2`, stored in this order.  The records are
those of `x`, `a`, `k` and `time`. -/
def StateBased.generator : GeneratorImpl :=
  { variableStore :=
      [ { mInitialValueVariable := StateBased.x, mVariable := some StateBased.x,
          mType := GeneratorInternalVariableType.CONSTANT },
        { mInitialValueVariable := StateBased.a, mVariable := some StateBased.a },
        { mInitialValueVariable := StateBased.k, mVariable := some StateBased.k },
        { mInitialValueVariable := StateBased.time, mVariable := some StateBased.time } ],
    mInternalVariables := [0, 1, 2, 3],
    equationStore :=
      [ { mAst := GeneratorEquationAst.assignment
            (GeneratorEquationAst.diff StateBased.time StateBased.x)
            (GeneratorEquationAst.ci StateBased.a),
          mVariables := [1], mOdeVariables := [0], mComponent := StateBased.component },
        { mAst := GeneratorEquationAst.assignment (GeneratorEquationAst.ci StateBased.a)
            (GeneratorEquationAst.op GeneratorEquationAstType.TIMES
              (GeneratorEquationAst.ci StateBased.k) (GeneratorEquationAst.ci StateBased.x)),
          mVariables := [1, 2, 0], mComponent := StateBased.component },
        { mAst := GeneratorEquationAst.assignment (GeneratorEquationAst.ci StateBased.k)
            (GeneratorEquationAst.cn "2"),
          mVariables := [2], mComponent := StateBased.component } ],
    mEquations := [0, 1, 2] }

/-- The generator of the example after the pre-pass over its trees. -/
def StateBased.prePassed : GeneratorImpl :=
  (prePass StateBased.model DependentEqns.numerics.isOne
    (resetResults StateBased.generator)).getD default

/-- The generator of the example once `processModel` has returned. -/
def StateBased.processed : GeneratorImpl :=
  (processModel StateBased.model DependentEqns.numerics StateBased.generator).getD default

/-- The type that `check` gives to the variable that is left in the equation
`self`. -/
def resolvedType (hEq : Variable → Variable → Bool) (g : GeneratorImpl) (self : Nat) :
    GeneratorInternalVariableType :=
  (updateVariable hEq (updateTracking g (g.equation self))
    (g.internalVariable (soleVariable (updateTracking g (g.equation self))))).mType

/-- A variable that an equation `e` references is known: it was tagged as
the variable of integration, a constant or a state when the resolution loop was
entered (in `g0`), or an equation that has an order, smaller than that of `e`
when `e` has one, computes it. -/
def KnownPlain (g0 g : GeneratorImpl) (e v : Nat) : Prop :=
  (g0.internalVariable v).mType = GeneratorInternalVariableType.VARIABLE_OF_INTEGRATION
  ∨ (g0.internalVariable v).mType = GeneratorInternalVariableType.CONSTANT
  ∨ (g0.internalVariable v).mType = GeneratorInternalVariableType.STATE
  ∨ ∃ d, (g.equation d).mVariable = some v ∧ (g.equation d).mOrder ≠ MAX_SIZE_T
      ∧ ((g.equation e).mOrder ≠ MAX_SIZE_T → (g.equation d).mOrder < (g.equation e).mOrder)

/-- A rate that an equation `e` references is known: it is the rate of
the variable of integration, or of a state whose rate is computed by an equation
of type `RATE` that has an order, smaller than that of `e` when `e` has
one. -/
def KnownRate (g0 g : GeneratorImpl) (e v : Nat) : Prop :=
  (g0.internalVariable v).mType = GeneratorInternalVariableType.VARIABLE_OF_INTEGRATION
  ∨ ((g0.internalVariable v).mType = GeneratorInternalVariableType.STATE
    ∧ ∃ d, (g.equation d).mVariable = some v
      ∧ (g.equation d).mType = GeneratorEquationType.RATE
      ∧ (g.equation d).mOrder ≠ MAX_SIZE_T
      ∧ ((g.equation e).mOrder ≠ MAX_SIZE_T → (g.equation d).mOrder < (g.equation e).mOrder))

/-- The state in which the resolution loop is entered: only a constant has an
index; a record is tagged `UNKNOWN`, `SHOULD_BE_STATE`,
`VARIABLE_OF_INTEGRATION`, `STATE` or `CONSTANT`; the variables of which an
equation references the rate have been through `makeState`. -/
structure EntryFacts (g0 : GeneratorImpl) : Prop where
  index : ∀ p, (g0.internalVariable p).mIndex ≠ MAX_SIZE_T →
    (g0.internalVariable p).mType = GeneratorInternalVariableType.CONSTANT
  types : ∀ p, (g0.internalVariable p).mType = GeneratorInternalVariableType.UNKNOWN
    ∨ (g0.internalVariable p).mType = GeneratorInternalVariableType.SHOULD_BE_STATE
    ∨ (g0.internalVariable p).mType = GeneratorInternalVariableType.VARIABLE_OF_INTEGRATION
    ∨ (g0.internalVariable p).mType = GeneratorInternalVariableType.STATE
    ∨ (g0.internalVariable p).mType = GeneratorInternalVariableType.CONSTANT
  ode : ∀ e, ∀ v ∈ (g0.equation e).mOdeVariables,
    (g0.internalVariable v).mType = GeneratorInternalVariableType.VARIABLE_OF_INTEGRATION
    ∨ (g0.internalVariable v).mType = GeneratorInternalVariableType.STATE
    ∨ (g0.internalVariable v).mType = GeneratorInternalVariableType.SHOULD_BE_STATE

/-- The counters of the indices and the equations without order: the indices
that remain to be handed out fit in a `size_t`. -/
def IndexRoom (g : GeneratorImpl) (c : Counters) : Prop :=
  c.stateIndex ≤ MAX_SIZE_T ∧ c.variableIndex ≤ MAX_SIZE_T
  ∧ handedOut c.stateIndex + unorderedStored g ≤ MAX_SIZE_T
  ∧ handedOut c.variableIndex + unorderedStored g ≤ MAX_SIZE_T

/-- The invariant of the resolution loop on what is known, relative to the
state `g0` in which the loop is entered. -/
structure KnowInv (g0 g : GeneratorImpl) (c : Counters) : Prop where
  room : IndexRoom g c
  untouched : ∀ p, (g.internalVariable p).mEquation = none →
    (g.internalVariable p).mIndex = (g0.internalVariable p).mIndex
    ∧ ((g.internalVariable p).mType = (g0.internalVariable p).mType
      ∨ ((g.internalVariable p).mType = GeneratorInternalVariableType.OVERCONSTRAINED
        ∧ (g0.internalVariable p).mIndex ≠ MAX_SIZE_T))
  computed : ∀ p d, (g.internalVariable p).mEquation = some d →
    (g.equation d).mVariable = some p ∧ (g.internalVariable p).mIndex ≠ MAX_SIZE_T
    ∧ ((g0.internalVariable p).mType = GeneratorInternalVariableType.UNKNOWN
      ∨ ((g0.internalVariable p).mType = GeneratorInternalVariableType.STATE
        ∧ (g.equation d).mType = GeneratorEquationType.RATE))
  sole : ∀ e, (g.equation e).mOrder ≠ MAX_SIZE_T →
    ∃ p, (g.equation e).mVariable = some p
      ∧ (∀ v ∈ (g.equation e).mVariables, v = p)
      ∧ (∀ v ∈ (g.equation e).mOdeVariables, v = p)
  removed : ∀ e, ∀ v ∈ (g0.equation e).mVariables, v ∉ (g.equation e).mVariables →
    KnownPlain g0 g e v
  removedOde : ∀ e, ∀ v ∈ (g0.equation e).mOdeVariables, v ∉ (g.equation e).mOdeVariables →
    KnownRate g0 g e v

/-- The variable `t` of the example of the rate of the variable of
integration. -/
def VoiRate.t : Variable :=
  { ident := 0, name := "t", initialValue := "", units := "second", parent := "main" }

/-- The variable `x`, initialised to `0`. -/
def VoiRate.x : Variable :=
  { ident := 1, name := "x", initialValue := "0", units := "dimensionless", parent := "main" }

/-- The variable `y`. -/
def VoiRate.y : Variable :=
  { ident := 2, name := "y", initialValue := "", units := "dimensionless", parent := "main" }

/-- The component `main`. -/
def VoiRate.component : Component :=
  { name := "main", variableList := [VoiRate.t, VoiRate.x, VoiRate.y] }

/-- The model: one component, and no two variables are equivalent. -/
def VoiRate.model : Model :=
  { components := [ComponentEntity.mk VoiRate.component []],
    hasEquivalentVariable := fun _ _ => false }

/-- The generator once the component has been processed, for the equations
`dx/dt = 1` and `y = dt/dt`, stored in this order.  The records are those of
`x`, `y` and `t`; the second equation tracks `y` as a variable and `t` as
a variable whose rate it references. -/
def VoiRate.generator : GeneratorImpl :=
  { variableStore :=
      [ { mInitialValueVariable := VoiRate.x, mVariable := some VoiRate.x,
          mType := GeneratorInternalVariableType.CONSTANT },
        { mInitialValueVariable := VoiRate.y, mVariable := some VoiRate.y },
        { mInitialValueVariable := VoiRate.t, mVariable := some VoiRate.t } ],
    mInternalVariables := [0, 1, 2],
    equationStore :=
      [ { mAst := GeneratorEquationAst.assignment
            (GeneratorEquationAst.diff VoiRate.t VoiRate.x) (GeneratorEquationAst.cn "1"),
          mOdeVariables := [0], mComponent := VoiRate.component },
        { mAst := GeneratorEquationAst.assignment (GeneratorEquationAst.ci VoiRate.y)
            (GeneratorEquationAst.diff VoiRate.t VoiRate.t),
          mVariables := [1], mOdeVariables := [2], mComponent := VoiRate.component } ],
    mEquations := [0, 1] }

/-- The generator of the example after the pre-pass over its trees. -/
def VoiRate.prePassed : GeneratorImpl :=
  (prePass VoiRate.model DependentEqns.numerics.isOne (resetResults VoiRate.generator)).getD
    default

/-- The generator of the example once `processModel` has returned. -/
def VoiRate.processed : GeneratorImpl :=
  (processModel VoiRate.model DependentEqns.numerics VoiRate.generator).getD default

/-- The pre-pass has made a state, or the variable of integration, of
every variable of which an equation references the rate: the lists `mOdeVariables`
agree with the trees. -/
@[reducible]
def RatesTagged (g g1 : GeneratorImpl) : Prop :=
  ∀ x ∈ g.equationStore, ∀ v ∈ x.mOdeVariables,
    (g1.internalVariable v).mType = GeneratorInternalVariableType.VARIABLE_OF_INTEGRATION
    ∨ (g1.internalVariable v).mType = GeneratorInternalVariableType.STATE
    ∨ (g1.internalVariable v).mType = GeneratorInternalVariableType.SHOULD_BE_STATE

/-- The equation `e` can be solved for the variable `v` once the variables
`earlier` are known: `v` is a record, tagged by the pre-pass (in `g1`) as
`UNKNOWN`, in which case `e` references it, or as `STATE`, in which case `e`
references its rate; every other variable that `e` references is tagged as
the variable of integration, a constant or a state, or belongs to `earlier`;
every other rate belongs to the variable of integration or to `earlier`. -/
@[reducible]
def Solves (g g1 : GeneratorImpl) (earlier : List Nat) (e v : Nat) : Prop :=
  v < g1.variableStore.length
  ∧ (((g1.internalVariable v).mType = GeneratorInternalVariableType.UNKNOWN
      ∧ v ∈ (g.equation e).mVariables)
    ∨ ((g1.internalVariable v).mType = GeneratorInternalVariableType.STATE
      ∧ v ∈ (g.equation e).mOdeVariables))
  ∧ (∀ w ∈ (g.equation e).mVariables, w = v
      ∨ (g1.internalVariable w).mType = GeneratorInternalVariableType.VARIABLE_OF_INTEGRATION
      ∨ (g1.internalVariable w).mType = GeneratorInternalVariableType.CONSTANT
      ∨ (g1.internalVariable w).mType = GeneratorInternalVariableType.STATE
      ∨ w ∈ earlier)
  ∧ (∀ w ∈ (g.equation e).mOdeVariables,
      (w = v ∧ (g1.internalVariable v).mType = GeneratorInternalVariableType.STATE)
      ∨ (g1.internalVariable w).mType = GeneratorInternalVariableType.VARIABLE_OF_INTEGRATION
      ∨ w ∈ earlier)

/-- The equations of the generator listed with the variables they compute:
`L` holds the pairs `(e1, v1)`, ..., `(en, vn)`.  The equations listed are
those of `mEquations`, each once; the variables are distinct; every record of
the registry is tagged by the pre-pass as the variable of integration or a
constant, or is one of the variables; every equation of the list can be
solved for its variable once the variables before it are known. -/
@[reducible]
def Listed (g g1 : GeneratorImpl) (L : List (Nat × Nat)) : Prop :=
  (L.map Prod.fst).Nodup ∧ (L.map Prod.snd).Nodup
  ∧ (∀ e ∈ g.mEquations, e ∈ L.map Prod.fst)
  ∧ (∀ e ∈ L.map Prod.fst, e ∈ g.mEquations)
  ∧ (∀ p ∈ g1.mInternalVariables,
      (g1.internalVariable p).mType = GeneratorInternalVariableType.VARIABLE_OF_INTEGRATION
      ∨ (g1.internalVariable p).mType = GeneratorInternalVariableType.CONSTANT
      ∨ p ∈ L.map Prod.snd)
  ∧ (∀ i, i < L.length →
      Solves g g1 ((L.take i).map Prod.snd) (L.getD i (0, 0)).1 (L.getD i (0, 0)).2)

/-- The invariant of the resolution loop for a listed generator, relative to
the state `g0` in which the loop is entered: a record without equation has
the tag it had; a record with an equation is the variable listed with this
equation, and its tag is one of those of a computed variable; a listed
equation without order still tracks its variable, which has no equation; a
listed equation with an order is the equation of its variable. -/
structure ProperInv (g0 g : GeneratorImpl) (L : List (Nat × Nat)) : Prop where
  vlen : g.variableStore.length = g0.variableStore.length
  plain : ∀ p, (g.internalVariable p).mEquation = none →
    (g.internalVariable p).mType = (g0.internalVariable p).mType
  owned : ∀ p d, (g.internalVariable p).mEquation = some d →
    (d, p) ∈ L ∧ isComputable (g.internalVariable p).mType = true
  pending : ∀ e v, (e, v) ∈ L → (g.equation e).mOrder = MAX_SIZE_T →
    (g.internalVariable v).mEquation = none
    ∧ (g.equation e).mVariables.Nodup ∧ (g.equation e).mOdeVariables.Nodup
    ∧ (∀ w ∈ (g.equation e).mVariables, w ∈ (g0.equation e).mVariables)
    ∧ (∀ w ∈ (g.equation e).mOdeVariables, w ∈ (g0.equation e).mOdeVariables)
    ∧ (((g0.internalVariable v).mType = GeneratorInternalVariableType.UNKNOWN
        ∧ v ∈ (g.equation e).mVariables)
      ∨ ((g0.internalVariable v).mType = GeneratorInternalVariableType.STATE
        ∧ v ∈ (g.equation e).mOdeVariables))
  done : ∀ e v, (e, v) ∈ L → (g.equation e).mOrder ≠ MAX_SIZE_T →
    (g.internalVariable v).mEquation = some e

/-- The equations listed before position `i` have an order. -/
def Ready (g : GeneratorImpl) (L : List (Nat × Nat)) (i : Nat) : Prop :=
  ∀ x ∈ L.take i, (g.equation x.1).mOrder ≠ MAX_SIZE_T

/-- What the proofs need of the list: the equations and the variables are
distinct, the equations of `mEquations` are listed, and a listed variable is
a record tagged `UNKNOWN` or `STATE` when the loop is entered. -/
structure ListFacts (g0 : GeneratorImpl) (M : List Nat) (L : List (Nat × Nat)) : Prop where
  nodupFst : (L.map Prod.fst).Nodup
  nodupSnd : (L.map Prod.snd).Nodup
  listed : ∀ e ∈ M, ∃ v, (e, v) ∈ L
  record : ∀ e v, (e, v) ∈ L → v < g0.variableStore.length

/-- The invariants of the resolution loop for a listed generator. -/
def ListedInv (g0 : GeneratorImpl) (M : List Nat) (L : List (Nat × Nat)) (g : GeneratorImpl)
    (c : Counters) : Prop :=
  g.mEquations = M ∧ OrderInv g c ∧ KnowInv g0 g c ∧ ProperInv g0 g L

/-- The model without component. -/
def EmptyModel.model : Model :=
  { components := [], hasEquivalentVariable := fun _ _ => false }

/-- The generator of the model without component: it has no record and no
equation. -/
def EmptyModel.generator : GeneratorImpl := {}

/-- The empty list of equations and variables. -/
def EmptyModel.listing : List (Nat × Nat) := []

/-- The equations of the example `dx/dtime = a`, `a = k*x` and `k = 2`, listed
with the variables they compute: `k = 2` computes `k`, then `a = k*x`
computes `a`, then `dx/dtime = a` computes `x`. -/
def StateBased.listing : List (Nat × Nat) := [(2, 2), (1, 1), (0, 0)]

/-- A text node with the given content. -/
def XmlNode.text (content : String) : XmlNode := XmlNode.mk false "text" content []

/-- An element in the MathML namespace. -/
def XmlNode.element (name : String) (children : List XmlNode) : XmlNode :=
  XmlNode.mk true name "" children

/-- The element `<ci>name</ci>`. -/
def XmlNode.ci (name : String) : XmlNode := XmlNode.element "ci" [XmlNode.text name]

/-- The element `<cn>value</cn>`. -/
def XmlNode.cn (value : String) : XmlNode := XmlNode.element "cn" [XmlNode.text value]

/-- The element `<apply>` with the operator `op` and the given operands. -/
def XmlNode.apply (op : String) (operands : List XmlNode) : XmlNode :=
  XmlNode.element "apply" (XmlNode.element op [] :: operands)

/-- The derivative of `x` with respect to `t`:
`<apply><diff/><bvar><ci>t</ci></bvar><ci>x</ci></apply>`. -/
def XmlNode.diff (t x : String) : XmlNode :=
  XmlNode.apply "diff" [XmlNode.element "bvar" [XmlNode.ci t], XmlNode.ci x]

/-- The element `<math>` with the given children. -/
def XmlNode.math (children : List XmlNode) : XmlNode := XmlNode.element "math" children

/-- The variable `t` of the example of two rates in one equation. -/
def TwoRates.t : Variable :=
  { ident := 0, name := "t", initialValue := "", units := "second", parent := "main" }

/-- The variable `x`, initialised to `1`. -/
def TwoRates.x : Variable :=
  { ident := 1, name := "x", initialValue := "1", units := "dimensionless", parent := "main" }

/-- The variable `z`, initialised to `2`. -/
def TwoRates.z : Variable :=
  { ident := 2, name := "z", initialValue := "2", units := "dimensionless", parent := "main" }

/-- The component `main`. -/
def TwoRates.component : Component :=
  { name := "main", variableList := [TwoRates.t, TwoRates.x, TwoRates.z] }

/-- The model: one component with the equation `dx/dt + dz/dt = 1`, and no two
variables are equivalent. -/
def TwoRates.model : Model :=
  { components := [ComponentEntity.mk TwoRates.component []],
    hasEquivalentVariable := fun _ _ => false,
    math := fun _ => some (XmlNode.math
      [XmlNode.apply "eq"
        [XmlNode.apply "plus" [XmlNode.diff "t" "x", XmlNode.diff "t" "z"], XmlNode.cn "1"]]) }

/-- The generator of the example once `Generator::processModel` has returned. -/
def TwoRates.processed : GeneratorImpl :=
  (Generator.processModel TwoRates.model DependentEqns.numerics {}).getD default

/-- The variable `t` of the example of an algebraic variable that is computed
before a constant. -/
def TypeOrder.t : Variable :=
  { ident := 0, name := "t", initialValue := "", units := "second", parent := "main" }

/-- The variable `x`, initialised to `1`. -/
def TypeOrder.x : Variable :=
  { ident := 1, name := "x", initialValue := "1", units := "dimensionless", parent := "main" }

/-- The variable `a`. -/
def TypeOrder.a : Variable :=
  { ident := 2, name := "a", initialValue := "", units := "dimensionless", parent := "main" }

/-- The variable `k`. -/
def TypeOrder.k : Variable :=
  { ident := 3, name := "k", initialValue := "", units := "dimensionless", parent := "main" }

/-- The component `main`. -/
def TypeOrder.component : Component :=
  { name := "main", variableList := [TypeOrder.t, TypeOrder.x, TypeOrder.a, TypeOrder.k] }

/-- The model: one component with the equations `dx/dt = 1`, `a = x` and
`k = 2`, in this order, and no two variables are equivalent. -/
def TypeOrder.model : Model :=
  { components := [ComponentEntity.mk TypeOrder.component []],
    hasEquivalentVariable := fun _ _ => false,
    math := fun _ => some (XmlNode.math
      [XmlNode.apply "eq" [XmlNode.diff "t" "x", XmlNode.cn "1"],
       XmlNode.apply "eq" [XmlNode.ci "a", XmlNode.ci "x"],
       XmlNode.apply "eq" [XmlNode.ci "k", XmlNode.cn "2"]]) }

/-- The generator of the example once `Generator::processModel` has returned. -/
def TypeOrder.processed : GeneratorImpl :=
  (Generator.processModel TypeOrder.model DependentEqns.numerics {}).getD default

/-- The variable `x` of the example of two equations for one variable. -/
def Reordered.x : Variable :=
  { ident := 0, name := "x", initialValue := "", units := "dimensionless", parent := "main" }

/-- The variable `y`, initialised to `1`. -/
def Reordered.y : Variable :=
  { ident := 1, name := "y", initialValue := "1", units := "dimensionless", parent := "main" }

/-- The variable `u`, which no equation references. -/
def Reordered.u : Variable :=
  { ident := 2, name := "u", initialValue := "", units := "dimensionless", parent := "main" }

/-- The component `main`, with the variables `x`, `y` and `u`. -/
def Reordered.component : Component :=
  { name := "main", variableList := [Reordered.x, Reordered.y, Reordered.u] }

/-- The component `main`, with the variables `x` and `y` only. -/
def Reordered.small : Component :=
  { name := "main", variableList := [Reordered.x, Reordered.y] }

/-- The equation `x = y`. -/
def Reordered.byVariable : XmlNode := XmlNode.apply "eq" [XmlNode.ci "x", XmlNode.ci "y"]

/-- The equation `x = 2`. -/
def Reordered.byValue : XmlNode := XmlNode.apply "eq" [XmlNode.ci "x", XmlNode.cn "2"]

/-- The model made of the given component with the given equations, in the
order of the list; no two variables are equivalent. -/
def Reordered.model (c : Component) (equations : List XmlNode) : Model :=
  { components := [ComponentEntity.mk c []],
    hasEquivalentVariable := fun _ _ => false,
    math := fun _ => some (XmlNode.math equations) }

/-- The variable `a` of the example of two models processed by one generator. -/
def XorThenNone.a : Variable :=
  { ident := 0, name := "a", initialValue := "", units := "dimensionless", parent := "main" }

/-- The component `main`. -/
def XorThenNone.component : Component := { name := "main", variableList := [XorThenNone.a] }

/-- The first model: the equation `a = true xor false`. -/
def XorThenNone.withXor : Model :=
  { components := [ComponentEntity.mk XorThenNone.component []],
    hasEquivalentVariable := fun _ _ => false,
    math := fun _ => some (XmlNode.math
      [XmlNode.apply "eq" [XmlNode.ci "a",
        XmlNode.apply "xor" [XmlNode.element "true" [], XmlNode.element "false" []]]]) }

/-- The second model: the equation `a = 1`. -/
def XorThenNone.withoutXor : Model :=
  { components := [ComponentEntity.mk XorThenNone.component []],
    hasEquivalentVariable := fun _ _ => false,
    math := fun _ => some (XmlNode.math [XmlNode.apply "eq" [XmlNode.ci "a", XmlNode.cn "1"]]) }

/-- The generator once it has processed the first model. -/
def XorThenNone.afterFirst : GeneratorImpl :=
  (Generator.processModel XorThenNone.withXor DependentEqns.numerics {}).getD default

/-- The same generator once it has then processed the second model. -/
def XorThenNone.afterSecond : GeneratorImpl :=
  (Generator.processModel XorThenNone.withoutXor DependentEqns.numerics
    XorThenNone.afterFirst).getD default

/-- A new generator once it has processed the second model. -/
def XorThenNone.secondOnly : GeneratorImpl :=
  (Generator.processModel XorThenNone.withoutXor DependentEqns.numerics {}).getD default

/-- The variable `t` of the component `first` of the example of two equivalent
bound variables. -/
def EquivalentVoi.t : Variable :=
  { ident := 0, name := "t", initialValue := "", units := "second", parent := "first" }

/-- The variable `x` of the component `first`, initialised to `1`. -/
def EquivalentVoi.x : Variable :=
  { ident := 1, name := "x", initialValue := "1", units := "dimensionless", parent := "first" }

/-- The variable `t2` of the component `second`, initialised to `0`. -/
def EquivalentVoi.t2 : Variable :=
  { ident := 2, name := "t2", initialValue := "0", units := "second", parent := "second" }

/-- The variable `y` of the component `second`, initialised to `1`. -/
def EquivalentVoi.y : Variable :=
  { ident := 3, name := "y", initialValue := "1", units := "dimensionless", parent := "second" }

/-- The component `first`, with the equation `dx/dt = 1`. -/
def EquivalentVoi.first : Component :=
  { name := "first", variableList := [EquivalentVoi.t, EquivalentVoi.x] }

/-- The component `second`, with the equation `dy/dt2 = 1`. -/
def EquivalentVoi.second : Component :=
  { name := "second", variableList := [EquivalentVoi.t2, EquivalentVoi.y] }

/-- The model made of the two components in the given order; the variables
`t` and `t2` are equivalent, and no other two variables are. -/
def EquivalentVoi.model (components : List Component) : Model :=
  { components := components.map fun c => ComponentEntity.mk c [],
    hasEquivalentVariable := fun v w =>
      decide (v.ident = 0 ∧ w.ident = 2) || decide (v.ident = 2 ∧ w.ident = 0),
    math := fun c =>
      if c.name = "first" then
        some (XmlNode.math [XmlNode.apply "eq" [XmlNode.diff "t" "x", XmlNode.cn "1"]])
      else
        some (XmlNode.math [XmlNode.apply "eq" [XmlNode.diff "t2" "y", XmlNode.cn "1"]]) }

/-- The variable `t` of the example of a state without initial value in an
invalid model: it is initialised to `0`. -/
def UninitialisedState.t : Variable :=
  { ident := 0, name := "t", initialValue := "0", units := "second", parent := "main" }

/-- The variable `x`, which has no initial value. -/
def UninitialisedState.x : Variable :=
  { ident := 1, name := "x", initialValue := "", units := "dimensionless", parent := "main" }

/-- The component `main`. -/
def UninitialisedState.component : Component :=
  { name := "main", variableList := [UninitialisedState.t, UninitialisedState.x] }

/-- The model: one component with the equation `dx/dt = 1`, and no two
variables are equivalent. -/
def UninitialisedState.model : Model :=
  { components := [ComponentEntity.mk UninitialisedState.component []],
    hasEquivalentVariable := fun _ _ => false,
    math := fun _ => some (XmlNode.math
      [XmlNode.apply "eq" [XmlNode.diff "t" "x", XmlNode.cn "1"]]) }

/-- The generator of the example once `Generator::processModel` has returned. -/
def UninitialisedState.processed : GeneratorImpl :=
  (Generator.processModel UninitialisedState.model DependentEqns.numerics {}).getD default

/-- The variable `x` of the component `main` of the example of a variable that
is initialised twice: it is initialised to `0`. -/
def InitializedTwice.x : Variable :=
  { ident := 0, name := "x", initialValue := "0", units := "dimensionless", parent := "main" }

/-- The variable `x` of the component `sub`, initialised to `0`. -/
def InitializedTwice.x2 : Variable :=
  { ident := 1, name := "x", initialValue := "0", units := "dimensionless", parent := "sub" }

/-- The component `main`. -/
def InitializedTwice.main : Component :=
  { name := "main", variableList := [InitializedTwice.x] }

/-- The component `sub`. -/
def InitializedTwice.sub : Component :=
  { name := "sub", variableList := [InitializedTwice.x2] }

/-- The model: the two variables are equivalent, and there is no equation. -/
def InitializedTwice.model : Model :=
  { components := [ComponentEntity.mk InitializedTwice.main [],
      ComponentEntity.mk InitializedTwice.sub []],
    hasEquivalentVariable := fun v w => decide (v.ident ≠ w.ident) }

/-- The generator once the component `main` has been processed. -/
def InitializedTwice.generator : GeneratorImpl :=
  (processComponent InitializedTwice.model (ComponentEntity.mk InitializedTwice.main [])
    {}).getD default

/-- The generator of the example of two equivalent bound variables once the
component `first` has been processed. -/
def EquivalentVoi.generator : GeneratorImpl :=
  (processComponent (EquivalentVoi.model [EquivalentVoi.first, EquivalentVoi.second])
    (ComponentEntity.mk EquivalentVoi.first []) {}).getD default

/-- A call of `processEquationAst`: the node `ast` with its parent, its
grand-parent and its great-grand-parent (`nullptr` when there is none). -/
structure AstVisit where
  ast : GeneratorEquationAst
  astParent : GeneratorEquationAst
  astGrandParent : GeneratorEquationAst
  astGreatGrandParent : GeneratorEquationAst
deriving DecidableEq, Repr

/-- The calls of `processEquationAst` that a call on `ast` leads to, itself
included, in the order in which they are made. -/
def visits : GeneratorEquationAst → GeneratorEquationAst → GeneratorEquationAst →
    GeneratorEquationAst → List AstVisit
  | GeneratorEquationAst.null, _, _, _ => []
  | GeneratorEquationAst.node t value var l r, astParent, astGrandParent, astGreatGrandParent =>
    { ast := GeneratorEquationAst.node t value var l r, astParent := astParent,
      astGrandParent := astGrandParent, astGreatGrandParent := astGreatGrandParent }
      :: (visits l (GeneratorEquationAst.node t value var l r) astParent astGrandParent
          ++ visits r (GeneratorEquationAst.node t value var l r) astParent astGrandParent)

/-- What one call of `processEquationAst` does before it visits the children
of the node. -/
def visitNode (m : Model) (isOne : String → Bool) (g : GeneratorImpl) (x : AstVisit) :
    Option GeneratorImpl :=
  match x.ast with
  | GeneratorEquationAst.null => none
  | GeneratorEquationAst.node t value var _ _ =>
    (if t = GeneratorEquationAstType.CI
        ∧ x.astParent.hasType GeneratorEquationAstType.BVAR
        ∧ x.astGrandParent.hasType GeneratorEquationAstType.DIFF then
      var.map fun v => processVoi m g v
     else some g).bind fun g =>
    (if t = GeneratorEquationAstType.CN
        ∧ x.astParent.hasType GeneratorEquationAstType.DEGREE
        ∧ x.astGrandParent.hasType GeneratorEquationAstType.BVAR
        ∧ x.astGreatGrandParent.hasType GeneratorEquationAstType.DIFF then
      if !isOne value then
        x.astGreatGrandParent.mRight.mVariable.map fun v =>
          g.addError ("The differential equation for variable '" ++ v.name
            ++ "' in component '" ++ v.parent ++ "' must be of the first order.")
      else some g
     else some g).bind fun g =>
    if t = GeneratorEquationAstType.CI
        ∧ x.astParent.hasType GeneratorEquationAstType.DIFF then
      var.map fun v =>
        let r := generatorVariable m g v
        r.1.setInternalVariable r.2 (r.1.internalVariable r.2).makeState
    else some g

/-- The call dereferences no null pointer: a `CI` node that is a bound
variable or is differentiated has a variable, and the derivative of a degree
literal that is not one has a node with a variable as right operand. -/
def AstVisit.safe (isOne : String → Bool) (x : AstVisit) : Bool :=
  match x.ast with
  | GeneratorEquationAst.null => false
  | GeneratorEquationAst.node t value var _ _ =>
    (if t = GeneratorEquationAstType.CI
        ∧ ((x.astParent.hasType GeneratorEquationAstType.BVAR
            ∧ x.astGrandParent.hasType GeneratorEquationAstType.DIFF)
          ∨ x.astParent.hasType GeneratorEquationAstType.DIFF) then var.isSome else true)
    && (if t = GeneratorEquationAstType.CN
        ∧ x.astParent.hasType GeneratorEquationAstType.DEGREE
        ∧ x.astGrandParent.hasType GeneratorEquationAstType.BVAR
        ∧ x.astGreatGrandParent.hasType GeneratorEquationAstType.DIFF
        ∧ isOne value = false then x.astGreatGrandParent.mRight.mVariable.isSome else true)

/-- The calls of `processEquationAst` that the pre-pass makes for the
equations of a list. -/
def equationVisits (g : GeneratorImpl) (es : List Nat) : List AstVisit :=
  es.flatMap fun e =>
    visits (g.equation e).mAst GeneratorEquationAst.null GeneratorEquationAst.null
      GeneratorEquationAst.null

/-- The description of the issue that the pre-pass records for a derivative of
the variable `v` that is not of the first order. -/
def firstOrderIssue (v : Variable) : String :=
  "The differential equation for variable '" ++ v.name ++ "' in component '" ++ v.parent
    ++ "' must be of the first order."

/-- The variable `t` of the example of a derivative of the second order. -/
def SecondOrder.t : Variable :=
  { ident := 0, name := "t", initialValue := "", units := "second", parent := "main" }

/-- The variable `x`, initialised to `1`. -/
def SecondOrder.x : Variable :=
  { ident := 1, name := "x", initialValue := "1", units := "dimensionless", parent := "main" }

/-- The component `main`. -/
def SecondOrder.component : Component :=
  { name := "main", variableList := [SecondOrder.t, SecondOrder.x] }

/-- The model: one component with the equation `d2x/dt2 = 1`, whose bound
variable carries the degree literal `2`. -/
def SecondOrder.model : Model :=
  { components := [ComponentEntity.mk SecondOrder.component []],
    hasEquivalentVariable := fun _ _ => false,
    math := fun _ => some (XmlNode.math
      [XmlNode.apply "eq"
        [XmlNode.apply "diff"
          [XmlNode.element "bvar"
            [XmlNode.ci "t", XmlNode.element "degree" [XmlNode.cn "2"]],
           XmlNode.ci "x"],
         XmlNode.cn "1"]]) }

/-- The generator of the example once the component has been processed. -/
def SecondOrder.generator : GeneratorImpl :=
  (processComponents SecondOrder.model SecondOrder.model.components {}).getD default

/-- The node of the degree of the example. -/
def SecondOrder.degree : GeneratorEquationAst :=
  GeneratorEquationAst.node GeneratorEquationAstType.DEGREE "" none
    (GeneratorEquationAst.cn "2") GeneratorEquationAst.null

/-- The node of the bound variable of the example. -/
def SecondOrder.bvar : GeneratorEquationAst :=
  GeneratorEquationAst.node GeneratorEquationAstType.BVAR "" none
    (GeneratorEquationAst.ci SecondOrder.t) SecondOrder.degree

/-- The node of the derivative of the example. -/
def SecondOrder.diff : GeneratorEquationAst :=
  GeneratorEquationAst.node GeneratorEquationAstType.DIFF "" none
    SecondOrder.bvar (GeneratorEquationAst.ci SecondOrder.x)

/-- The call of `processEquationAst` on the degree literal of the example. -/
def SecondOrder.literal : AstVisit :=
  { ast := GeneratorEquationAst.cn "2", astParent := SecondOrder.degree,
    astGrandParent := SecondOrder.bvar, astGreatGrandParent := SecondOrder.diff }

/-- The call is that of a differentiated variable: a `CI` node whose parent is
a `DIFF` node. -/
def AstVisit.isDifferentiated (x : AstVisit) : Bool :=
  x.ast.hasType GeneratorEquationAstType.CI && x.astParent.hasType GeneratorEquationAstType.DIFF

/-- The call is that of a bound variable: a `CI` node whose parent is a `BVAR`
node and whose grand-parent is a `DIFF` node. -/
def AstVisit.isBound (x : AstVisit) : Bool :=
  x.ast.hasType GeneratorEquationAstType.CI && x.astParent.hasType GeneratorEquationAstType.BVAR
    && x.astGrandParent.hasType GeneratorEquationAstType.DIFF

/-- The tag that `makeState` gives to a record with the given tag. -/
def stateTag : GeneratorInternalVariableType → GeneratorInternalVariableType
  | GeneratorInternalVariableType.UNKNOWN => GeneratorInternalVariableType.SHOULD_BE_STATE
  | GeneratorInternalVariableType.CONSTANT => GeneratorInternalVariableType.STATE
  | t => t

/-- The two states have the same registry, up to the tags, the indices and the
equations of the records: the same list of records, and the same variable in
every record. -/
def SameRegistry (b g : GeneratorImpl) : Prop :=
  g.mInternalVariables = b.mInternalVariables
  ∧ g.variableStore.length = b.variableStore.length
  ∧ ∀ q, (g.internalVariable q).mVariable = (b.internalVariable q).mVariable

/-- The description of the issue that `processModel` records for the record
`p` when its tag is `SHOULD_BE_STATE`. -/
def notInitialisedIssue (g : GeneratorImpl) (p : Nat) : String :=
  "Variable '" ++ ((g.internalVariable p).mVariable.getD default).name
    ++ "' in component '" ++ ((g.internalVariable p).mVariable.getD default).parent
    ++ "' " ++ "is used in an ODE, but it is not initialised" ++ "."

/-- The description of the issue that `processModel` records for the record
`p` when its tag is not valid. -/
def invalidVariableIssue (g : GeneratorImpl) (p : Nat) : String :=
  "Variable '" ++ ((g.internalVariable p).mVariable.getD default).name
    ++ "' in component '" ++ ((g.internalVariable p).mVariable.getD default).parent
    ++ "' " ++ errorType (g.internalVariable p).mType ++ "."

/-- The variable `t` of the example of a state without initial value. -/
def NonInitializedState.t : Variable :=
  { ident := 0, name := "t", initialValue := "", units := "second", parent := "main" }

/-- The variable `x`, which has no initial value. -/
def NonInitializedState.x : Variable :=
  { ident := 1, name := "x", initialValue := "", units := "dimensionless", parent := "main" }

/-- The component `main`. -/
def NonInitializedState.component : Component :=
  { name := "main", variableList := [NonInitializedState.t, NonInitializedState.x] }

/-- The model: one component with the equation `dx/dt = 1`, and no two
variables are equivalent. -/
def NonInitializedState.model : Model :=
  { components := [ComponentEntity.mk NonInitializedState.component []],
    hasEquivalentVariable := fun _ _ => false,
    math := fun _ => some (XmlNode.math
      [XmlNode.apply "eq" [XmlNode.diff "t" "x", XmlNode.cn "1"]]) }

/-- The generator of the example once the component has been processed. -/
def NonInitializedState.generator : GeneratorImpl :=
  (processComponents NonInitializedState.model NonInitializedState.model.components
    {}).getD default

/-- The generator of the example once the model has been analysed. -/
def NonInitializedState.analysed : GeneratorImpl :=
  (analyseModel NonInitializedState.model DependentEqns.numerics.isOne
    NonInitializedState.generator).getD default

/-- The call of `processEquationAst` on the differentiated variable of the
example. -/
def NonInitializedState.differentiated : AstVisit :=
  { ast := GeneratorEquationAst.ci NonInitializedState.x,
    astParent := GeneratorEquationAst.diff NonInitializedState.t NonInitializedState.x,
    astGrandParent := GeneratorEquationAst.assignment
      (GeneratorEquationAst.diff NonInitializedState.t NonInitializedState.x)
      (GeneratorEquationAst.cn "1"),
    astGreatGrandParent := GeneratorEquationAst.null }

/-- Every variable of the trees of the equations has a record in the
registry. -/
@[reducible]
def Registered (m : Model) (g : GeneratorImpl) : Prop :=
  ∀ x ∈ equationVisits g g.mEquations, ∀ v ∈ x.ast.mVariable, (generatorVariable m g v).1 = g

/-- The record `p` is that of no bound variable of a derivative. -/
@[reducible]
def NotBound (m : Model) (g : GeneratorImpl) (p : Nat) : Prop :=
  ∀ x ∈ equationVisits g g.mEquations, x.isBound = true →
    ∀ v ∈ x.ast.mVariable, (generatorVariable m g v).2 ≠ p

/-- The variables of the nodes of a tree. -/
def treeVariables : GeneratorEquationAst → List Variable
  | GeneratorEquationAst.null => []
  | GeneratorEquationAst.node _ _ var l r => var.toList ++ (treeVariables l ++ treeVariables r)

/-- The variables that the rendering looks up in the registry: those of the
trees of the equations and those of the records. -/
def renderVariables (g : GeneratorImpl) : List Variable :=
  g.equationStore.flatMap (fun e => treeVariables e.mAst)
    ++ g.variableStore.filterMap GeneratorInternalVariable.mVariable

/-- Every variable that the rendering looks up has a record in the registry. -/
@[reducible]
def RenderRegistered (m : Model) (g : GeneratorImpl) : Prop :=
  ∀ v ∈ renderVariables g, (generatorVariable m g v).1 = g

/-- The state `a'` is the state `a` with new records at the end of the
registry: nothing else differs. -/
def Grow (a a' : GeneratorImpl) : Prop :=
  ∃ ext iext, a' = { a with variableStore := a.variableStore ++ ext,
                            mInternalVariables := a.mInternalVariables ++ iext }

/-- The computation `c`, run in a state `a` that the state `b` has grown
into, only adds records to the registry, and adds none when it is run in the
state `b` itself and every variable has a record there. -/
def GoodAt (m : Model) (b : GeneratorImpl) {α : Type} (c : StateT GeneratorImpl Option α)
    (a : GeneratorImpl) : Prop :=
  Grow b a → ∀ x a', c a = some (x, a') → Grow a a' ∧ (RenderRegistered m b → a = b → a' = b)

/-- The analysis results that the queries of `Generator` return, the
equations and the records of the registry are the same in the two states. -/
def AnalysisUnchanged (g g' : GeneratorImpl) : Prop :=
  Generator.modelType g' = Generator.modelType g
  ∧ Generator.stateCount g' = Generator.stateCount g
  ∧ Generator.variableCount g' = Generator.variableCount g
  ∧ Generator.voi g' = Generator.voi g
  ∧ (∀ i, Generator.state g' i = Generator.state g i)
  ∧ (∀ i, Generator.variable g' i = Generator.variable g i)
  ∧ g'.mEquations = g.mEquations
  ∧ (∀ e, g'.equation e = g.equation e)
  ∧ ∀ q, q < g.variableStore.length → g'.internalVariable q = g.internalVariable q

/-- The text and the generator that `Generator::implementationCode` returns
for the model with the equations `dx/dt = 1`, `a = x` and `k = 2`. -/
def TypeOrder.rendered : String × GeneratorImpl :=
  (Generator.implementationCode TypeOrder.processed.mProfile TypeOrder.model
    DependentEqns.numerics "" TypeOrder.processed).getD default

/-- The number of nodes of a tree. -/
def GeneratorEquationAst.size : GeneratorEquationAst → Nat
  | GeneratorEquationAst.null => 0
  | GeneratorEquationAst.node _ _ _ l r => 1 + l.size + r.size

/-- The pointer to the root of a tree laid out at the position `i`: `nullptr`
for the empty tree. -/
def GeneratorEquationAst.pointer (t : GeneratorEquationAst) (i : Nat) : Option Nat :=
  match t with
  | GeneratorEquationAst.null => none
  | GeneratorEquationAst.node _ _ _ _ _ => some i

/-- The memory holds the tree `t` at the position `a`, as `AstMemory.ofTree`
lays it out: the root first, then the left operand, then the right operand. -/
def AstMemory.Holds (mem : AstMemory) : Nat → GeneratorEquationAst → Option Nat → Prop
  | _, GeneratorEquationAst.null, _ => True
  | a, GeneratorEquationAst.node t value var l r, parent =>
    mem.cell a = { mType := t, mValue := value, mVariable := var, mParent := parent,
                   mLeft := l.pointer (a + 1), mRight := r.pointer (a + 1 + l.size) }
    ∧ AstMemory.Holds mem (a + 1) l (some a)
    ∧ AstMemory.Holds mem (a + 1 + l.size) r (some a)

/-- The links of a memory are those of a tree whose root is the first node:
an operand lies after its node and points back to it, a node is an operand of
its parent, the two operands of a node are distinct, and every node but the
first has a parent. -/
structure AstMemory.Shape (mem : AstMemory) : Prop where
  left : ∀ i l, (mem.cell i).mLeft = some l →
    i < l ∧ l < mem.length ∧ (mem.cell l).mParent = some i
  right : ∀ i r, (mem.cell i).mRight = some r →
    i < r ∧ r < mem.length ∧ (mem.cell r).mParent = some i
  parent : ∀ i p, (mem.cell i).mParent = some p →
    p < i ∧ ((mem.cell p).mLeft = some i ∨ (mem.cell p).mRight = some i)
  distinct : ∀ i l r, (mem.cell i).mLeft = some l → (mem.cell i).mRight = some r → l ≠ r
  rooted : ∀ i, 0 < i → i < mem.length → ∃ p, (mem.cell i).mParent = some p

/-- From the pointer `top`, the links `mRight` of nodes made by the pass
(the nodes from the position `n0` on) lead to the node `i`. -/
inductive AstMemory.Chain (n0 : Nat) (mem : AstMemory) : Nat → Nat → Prop
  | here (i : Nat) : AstMemory.Chain n0 mem i i
  | step {top next i : Nat} : n0 ≤ top → (mem.cell top).mRight = some next →
      AstMemory.Chain n0 mem next i → AstMemory.Chain n0 mem top i

/-- The link `current` holds what the link `original` held before the pass,
possibly below nodes made by the pass. -/
def AstMemory.SlotOk (n0 : Nat) (mem : AstMemory) (current original : Option Nat) : Prop :=
  match original with
  | none => current = none
  | some child => ∃ top, current = some top ∧ AstMemory.Chain n0 mem top child

/-- A literal made by the pass. -/
def AstMemory.IsLit (mem : AstMemory) (j : Nat) : Prop :=
  (mem.cell j).mType = GeneratorEquationAstType.CN
  ∧ (mem.cell j).mLeft = none ∧ (mem.cell j).mRight = none

/-- A multiplication made by the pass: its left operand is a literal. -/
def AstMemory.IsWrap (n0 : Nat) (mem : AstMemory) (j : Nat) : Prop :=
  (mem.cell j).mType = GeneratorEquationAstType.TIMES
  ∧ ∃ cn, (mem.cell j).mLeft = some cn ∧ n0 ≤ cn ∧ mem.IsLit cn

/-- The link of the node `p` that held the node `i` before the pass. -/
def slotOf (mem0 mem : AstMemory) (p i : Nat) : Option Nat :=
  if (mem0.cell p).mLeft = some i then (mem.cell p).mLeft else (mem.cell p).mRight

/-- The node `p` is an assignment whose left operand is a derivative, and `i`
is not that operand: the pass multiplies the right-hand side of `p` when it
scales the rate. -/
def RateTarget (mem0 : AstMemory) (p i : Nat) : Prop :=
  (mem0.cell p).mType = GeneratorEquationAstType.ASSIGNMENT
  ∧ (mem0.cell p).mLeft ≠ some i
  ∧ ∃ d, (mem0.cell p).mLeft = some d ∧ (mem0.cell d).mType = GeneratorEquationAstType.DIFF

/-- The reference `n`, an operand of `p` before the pass, is where it was:
it still points to `p`, and the link of `p` still holds it, unless `p` is an
assignment of a rate, whose right-hand side the pass multiplies. -/
def Untouched (mem0 mem : AstMemory) (n p : Nat) : Prop :=
  (mem.cell n).mParent = some p ∧ (slotOf mem0 mem p n = some n ∨ RateTarget mem0 p n)

/-- The reference `n`, an operand of `p` before the pass, has been replaced
in the link of `p` that held it by a multiplication made by the pass, whose
left operand is the literal `value` and whose right operand is `n`. -/
def Spliced (mem0 mem : AstMemory) (n p : Nat) (value : String) : Prop :=
  ∃ s cn, mem0.length ≤ s ∧ mem0.length ≤ cn
    ∧ slotOf mem0 mem p n = some s
    ∧ (mem.cell s).mType = GeneratorEquationAstType.TIMES
    ∧ (mem.cell s).mLeft = some cn ∧ (mem.cell s).mRight = some n
    ∧ (mem.cell cn).mType = GeneratorEquationAstType.CN ∧ (mem.cell cn).mValue = value
    ∧ (mem.cell cn).mLeft = none ∧ (mem.cell cn).mRight = none
    ∧ (mem.cell n).mParent = some s

/-- What the pass has done with the reference `n`, an operand of `p`: with
the factor `f` that `scalingFactor` returns for its variable, the reference is
where it was when `f` equals one, and has been replaced by the multiplication
of the literal `f` with it otherwise. -/
def ScaledResult {F : Type} (m : Model) (num : Numerics F) (g0 : GeneratorImpl)
    (mem0 mem : AstMemory) (n p : Nat) : Prop :=
  ∃ f g1 g2, Grow g0 g1 ∧ scalingFactor m num g1 (mem0.cell n).mVariable = some (f, g2)
    ∧ (num.areEqualToOne f = true → Untouched mem0 mem n p)
    ∧ (num.areEqualToOne f = false → Spliced mem0 mem n p (num.convertToString f))

/-- The invariant of the pass, between the memory `mem0` before the pass and
the memory `mem` when the nodes of `visited` have been dealt with. -/
structure ScaleInv {F : Type} (m : Model) (num : Numerics F) (g0 : GeneratorImpl)
    (mem0 mem : AstMemory) (visited : Set Nat) : Prop where
  len : mem0.length ≤ mem.length
  fixed : ∀ i, i < mem0.length →
    (mem.cell i).mType = (mem0.cell i).mType ∧ (mem.cell i).mValue = (mem0.cell i).mValue
    ∧ (mem.cell i).mVariable = (mem0.cell i).mVariable
  left : ∀ i, i < mem0.length →
    AstMemory.SlotOk mem0.length mem (mem.cell i).mLeft (mem0.cell i).mLeft
  right : ∀ i, i < mem0.length →
    AstMemory.SlotOk mem0.length mem (mem.cell i).mRight (mem0.cell i).mRight
  parent : ∀ i, i < mem0.length →
    (mem.cell i).mParent = (mem0.cell i).mParent
    ∨ ∃ s, mem0.length ≤ s ∧ (mem.cell i).mParent = some s ∧ (mem.cell s).mRight = some i
  unvisited : ∀ i, i < mem0.length → (mem0.cell i).mType ≠ GeneratorEquationAstType.DIFF →
    i ∉ visited → (mem.cell i).mParent = (mem0.cell i).mParent
  direct : ∀ i p, i < mem0.length → (mem0.cell i).mParent = some p →
    (mem.cell i).mParent = some p → slotOf mem0 mem p i = some i ∨ RateTarget mem0 p i
  fresh : ∀ j, mem0.length ≤ j → j < mem.length → mem.IsLit j ∨ mem.IsWrap mem0.length j
  result : ∀ n p, n ∈ visited → n < mem0.length →
    (mem0.cell n).mType = GeneratorEquationAstType.CI → (mem0.cell n).mParent = some p →
    (mem0.cell p).mType ≠ GeneratorEquationAstType.DIFF →
    (mem0.cell p).mType ≠ GeneratorEquationAstType.BVAR → ScaledResult m num g0 mem0 mem n p
  sibling : ∀ p l r, (mem0.cell p).mLeft = some l → (mem0.cell p).mRight = some r →
    r ∈ visited → l ∈ visited
  children : ∀ i p, (mem0.cell i).mParent = some p → p ∈ visited → i ∈ visited

/-- The node `i` is part of the tree below `root`: it is reached from `root`
through the links `mLeft` and `mRight`. -/
inductive AstMemory.Reach (mem : AstMemory) (root : Nat) : Nat → Prop
  | root : AstMemory.Reach mem root root
  | left {i j : Nat} : AstMemory.Reach mem root i → (mem.cell i).mLeft = some j →
      AstMemory.Reach mem root j
  | right {i j : Nat} : AstMemory.Reach mem root i → (mem.cell i).mRight = some j →
      AstMemory.Reach mem root j

/-- The tree of the equation `dx/dt = y` of the component `sub`. -/
def ScaledRate.tree : GeneratorEquationAst :=
  GeneratorEquationAst.assignment (GeneratorEquationAst.diff ScaledRate.t2 ScaledRate.x)
    (GeneratorEquationAst.ci ScaledRate.y2)

/-- The memory in which the tree of `dx/dt = y` is laid out: the reference to
`y` is the node `5`, an operand of the node `0`. -/
def ScaledRate.memory : AstMemory := (AstMemory.ofTree ScaledRate.tree none {}).2

/-- The memory and the generator that `scaleEquationAst` leaves behind for the
equation `dx/dt = y`. -/
def ScaledRate.scaled : AstMemory × GeneratorImpl :=
  (scaleEquationAst ScaledRate.model ScaledRate.numerics 13 0 ScaledRate.memory
    ScaledRate.generator).getD default

/-- A profile that has a native power operator, written `^^`; every other
field keeps its default. -/
def PowerOperator.profile : GeneratorProfile :=
  { hasPowerOperator := true, powerString := "^^" }

/-- The tree of `a` to the power `b - c`: a power node whose exponent is a
binary subtraction. -/
def PowerOperator.powerOfDifference : GeneratorEquationAst :=
  GeneratorEquationAst.op GeneratorEquationAstType.POWER (GeneratorEquationAst.ci UnaryPlus.a)
    (GeneratorEquationAst.op GeneratorEquationAstType.MINUS (GeneratorEquationAst.ci UnaryPlus.b)
      (GeneratorEquationAst.ci UnaryPlus.c))

/-- The tree of `(a` to the power `b) - c`: a binary subtraction whose left
operand is a power node. -/
def PowerOperator.differenceOfPower : GeneratorEquationAst :=
  GeneratorEquationAst.op GeneratorEquationAstType.MINUS
    (GeneratorEquationAst.op GeneratorEquationAstType.POWER (GeneratorEquationAst.ci UnaryPlus.a)
      (GeneratorEquationAst.ci UnaryPlus.b))
    (GeneratorEquationAst.ci UnaryPlus.c)

/-- The tree of `a` to the power `b * c`. -/
def PowerOperator.powerOfProduct : GeneratorEquationAst :=
  GeneratorEquationAst.op GeneratorEquationAstType.POWER (GeneratorEquationAst.ci UnaryPlus.a)
    (GeneratorEquationAst.op GeneratorEquationAstType.TIMES (GeneratorEquationAst.ci UnaryPlus.b)
      (GeneratorEquationAst.ci UnaryPlus.c))

/-- The tree of `a` to the power `b / c`. -/
def PowerOperator.powerOfQuotient : GeneratorEquationAst :=
  GeneratorEquationAst.op GeneratorEquationAstType.POWER (GeneratorEquationAst.ci UnaryPlus.a)
    (GeneratorEquationAst.op GeneratorEquationAstType.DIVIDE (GeneratorEquationAst.ci UnaryPlus.b)
      (GeneratorEquationAst.ci UnaryPlus.c))

/-- The variable `y` of the examples of an undeclared variable. -/
def Undeclared.y : Variable :=
  { ident := 0, name := "y", initialValue := "", units := "dimensionless", parent := "main" }

/-- The variable `a`, initialised to `1`. -/
def Undeclared.a : Variable :=
  { ident := 1, name := "a", initialValue := "1", units := "dimensionless", parent := "main" }

/-- The variable `b`, initialised to `2`. -/
def Undeclared.b : Variable :=
  { ident := 2, name := "b", initialValue := "2", units := "dimensionless", parent := "main" }

/-- The component `main`, which declares `y`, `a` and `b` but no `x`. -/
def Undeclared.component : Component :=
  { name := "main", variableList := [Undeclared.y, Undeclared.a, Undeclared.b] }

/-- The model whose single equation is `y = 2*x`. -/
def Undeclared.product : Model :=
  { components := [ComponentEntity.mk Undeclared.component []],
    hasEquivalentVariable := fun _ _ => false,
    math := fun _ => some (XmlNode.math
      [XmlNode.apply "eq"
        [XmlNode.ci "y", XmlNode.apply "times" [XmlNode.cn "2", XmlNode.ci "x"]]]) }

/-- The model whose single equation is `y = a + b + x`, the sum being one
`apply` element with three operands. -/
def Undeclared.sum : Model :=
  { components := [ComponentEntity.mk Undeclared.component []],
    hasEquivalentVariable := fun _ _ => false,
    math := fun _ => some (XmlNode.math
      [XmlNode.apply "eq"
        [XmlNode.ci "y",
         XmlNode.apply "plus" [XmlNode.ci "a", XmlNode.ci "b", XmlNode.ci "x"]]]) }

/-- The generator once `Generator::processModel` has returned for `y = 2*x`. -/
def Undeclared.processed : GeneratorImpl :=
  (Generator.processModel Undeclared.product DependentEqns.numerics {}).getD default

/-- The element `<apply><plus/><ci>a</ci><ci>b</ci><ci>x</ci></apply>`. -/
def Undeclared.sumNode : XmlNode :=
  XmlNode.apply "plus" [XmlNode.ci "a", XmlNode.ci "b", XmlNode.ci "x"]

/-- The variable `t` of the example of a single rate. -/
def SingleRate.t : Variable :=
  { ident := 0, name := "t", initialValue := "", units := "second", parent := "main" }

/-- The variable `x`, initialised to `0`. -/
def SingleRate.x : Variable :=
  { ident := 1, name := "x", initialValue := "0", units := "dimensionless", parent := "main" }

/-- The component `main`. -/
def SingleRate.component : Component :=
  { name := "main", variableList := [SingleRate.t, SingleRate.x] }

/-- The model: one component with the single equation `dx/dt = 1`, and no
two variables are equivalent. -/
def SingleRate.model : Model :=
  { components := [ComponentEntity.mk SingleRate.component []],
    hasEquivalentVariable := fun _ _ => false,
    math := fun _ => some (XmlNode.math
      [XmlNode.apply "eq" [XmlNode.diff "t" "x", XmlNode.cn "1"]]) }

/-- The generator of the example once `Generator::processModel` has returned. -/
def SingleRate.processed : GeneratorImpl :=
  (Generator.processModel SingleRate.model DependentEqns.numerics {}).getD default

/-- The tags for which `processModel` records an issue: `UNKNOWN`,
`SHOULD_BE_STATE` and `OVERCONSTRAINED`. -/
def isInvalidTag : GeneratorInternalVariableType → Bool
  | GeneratorInternalVariableType.UNKNOWN => true
  | GeneratorInternalVariableType.SHOULD_BE_STATE => true
  | GeneratorInternalVariableType.OVERCONSTRAINED => true
  | _ => false

/-- The variable `t` of the example of the three invalid tags. -/
def InvalidTags.t : Variable :=
  { ident := 0, name := "t", initialValue := "", units := "second", parent := "main" }

/-- The variable `x`, which has no initial value. -/
def InvalidTags.x : Variable :=
  { ident := 1, name := "x", initialValue := "", units := "dimensionless", parent := "main" }

/-- The variable `u`, which has no initial value. -/
def InvalidTags.u : Variable :=
  { ident := 2, name := "u", initialValue := "", units := "dimensionless", parent := "main" }

/-- The variable `z`, which has no initial value. -/
def InvalidTags.z : Variable :=
  { ident := 3, name := "z", initialValue := "", units := "dimensionless", parent := "main" }

/-- The variable `k`, initialised to `3`. -/
def InvalidTags.k : Variable :=
  { ident := 4, name := "k", initialValue := "3", units := "dimensionless", parent := "main" }

/-- The component `main`. -/
def InvalidTags.component : Component :=
  { name := "main",
    variableList := [InvalidTags.t, InvalidTags.x, InvalidTags.u, InvalidTags.z, InvalidTags.k] }

/-- The model: one component with the equations `dx/dt = k`, `z = 1` and
`z = 2`; no equation references `u`, and no two variables are equivalent. -/
def InvalidTags.model : Model :=
  { components := [ComponentEntity.mk InvalidTags.component []],
    hasEquivalentVariable := fun _ _ => false,
    math := fun _ => some (XmlNode.math
      [XmlNode.apply "eq" [XmlNode.diff "t" "x", XmlNode.ci "k"],
       XmlNode.apply "eq" [XmlNode.ci "z", XmlNode.cn "1"],
       XmlNode.apply "eq" [XmlNode.ci "z", XmlNode.cn "2"]]) }

/-- The generator of the example once the component has been processed. -/
def InvalidTags.generator : GeneratorImpl :=
  (processComponents InvalidTags.model InvalidTags.model.components {}).getD default

/-- The generator of the example after the pre-pass over its trees. -/
def InvalidTags.prePassed : GeneratorImpl :=
  (prePass InvalidTags.model DependentEqns.numerics.isOne
    (resetResults InvalidTags.generator)).getD default

/-- The generator of the example once the model has been analysed. -/
def InvalidTags.analysed : GeneratorImpl :=
  (analyseModel InvalidTags.model DependentEqns.numerics.isOne InvalidTags.generator).getD
    default

/-- The equation `self` has no order, the record `p` is its only reference
left, plain or differentiated, and `p` has an index and a tag that is neither
`UNKNOWN` nor `SHOULD_BE_STATE`: every `check` of `self` finds an
overconstraint. -/
def Overdetermined (g : GeneratorImpl) (self p : Nat) : Prop :=
  (g.equation self).mOrder = MAX_SIZE_T
  ∧ (g.equation self).mVariables ++ (g.equation self).mOdeVariables = [p]
  ∧ p < g.variableStore.length
  ∧ (g.internalVariable p).mIndex ≠ MAX_SIZE_T
  ∧ (g.internalVariable p).mType ≠ GeneratorInternalVariableType.UNKNOWN
  ∧ (g.internalVariable p).mType ≠ GeneratorInternalVariableType.SHOULD_BE_STATE

/-- The variable `x` of the example of a variable computed twice; it has no
initial value. -/
def ComputedTwice.x : Variable :=
  { ident := 0, name := "x", initialValue := "", units := "dimensionless", parent := "main" }

/-- The component `main`. -/
def ComputedTwice.component : Component :=
  { name := "main", variableList := [ComputedTwice.x] }

/-- The model: one component with the equations `x = 1` and `x = 2`. -/
def ComputedTwice.model : Model :=
  { components := [ComponentEntity.mk ComputedTwice.component []],
    hasEquivalentVariable := fun _ _ => false,
    math := fun _ => some (XmlNode.math
      [XmlNode.apply "eq" [XmlNode.ci "x", XmlNode.cn "1"],
       XmlNode.apply "eq" [XmlNode.ci "x", XmlNode.cn "2"]]) }

/-- The generator of the example once the component has been processed. -/
def ComputedTwice.generator : GeneratorImpl :=
  (processComponents ComputedTwice.model ComputedTwice.model.components {}).getD default

/-- The generator of the example after the pre-pass over its trees. -/
def ComputedTwice.prePassed : GeneratorImpl :=
  (prePass ComputedTwice.model DependentEqns.numerics.isOne
    (resetResults ComputedTwice.generator)).getD default

/-- The state and the counters of the example once `check` has been called
on the equation `x = 1`, the first of the first scan. -/
def ComputedTwice.afterFirst : GeneratorImpl × Counters × Bool :=
  check ComputedTwice.model.hasEquivalentVariable (enterResolution ComputedTwice.prePassed).1 0
    (enterResolution ComputedTwice.prePassed).2

/-- The equation `e` has no order and references, as plain variables, the
two records `p` and `q` and nothing else. -/
def Waiting (g : GeneratorImpl) (p q e : Nat) : Prop :=
  (g.equation e).mOrder = MAX_SIZE_T ∧ (g.equation e).mOdeVariables = []
  ∧ (g.equation e).mVariables.Perm [p, q]

/-- The variable `x` of the example of two equations in two unknowns. -/
def TwoUnknowns.x : Variable :=
  { ident := 0, name := "x", initialValue := "", units := "dimensionless", parent := "main" }

/-- The variable `y`. -/
def TwoUnknowns.y : Variable :=
  { ident := 1, name := "y", initialValue := "", units := "dimensionless", parent := "main" }

/-- The component `main`. -/
def TwoUnknowns.component : Component :=
  { name := "main", variableList := [TwoUnknowns.x, TwoUnknowns.y] }

/-- The model: one component with the equations `x + y = 3` and `x - y = 1`,
and no two variables are equivalent. -/
def TwoUnknowns.model : Model :=
  { components := [ComponentEntity.mk TwoUnknowns.component []],
    hasEquivalentVariable := fun _ _ => false,
    math := fun _ => some (XmlNode.math
      [XmlNode.apply "eq"
        [XmlNode.apply "plus" [XmlNode.ci "x", XmlNode.ci "y"], XmlNode.cn "3"],
       XmlNode.apply "eq"
        [XmlNode.apply "minus" [XmlNode.ci "x", XmlNode.ci "y"], XmlNode.cn "1"]]) }

/-- The generator of the example once the component has been processed. -/
def TwoUnknowns.generator : GeneratorImpl :=
  (processComponents TwoUnknowns.model TwoUnknowns.model.components {}).getD default

/-- The generator of the example after the pre-pass over its trees. -/
def TwoUnknowns.prePassed : GeneratorImpl :=
  (prePass TwoUnknowns.model DependentEqns.numerics.isOne
    (resetResults TwoUnknowns.generator)).getD default

/-- The generator of the example of a variable computed twice once the model
has been analysed. -/
def ComputedTwice.analysed : GeneratorImpl :=
  (analyseModel ComputedTwice.model DependentEqns.numerics.isOne
    ComputedTwice.generator).getD default

/-- The invariant of the resolution loop on the flag `mIsStateRateBased`,
relative to the state `g0` in which the loop is entered: an equation that
had a differentiated reference is flagged, or has no order and still tracks
such a reference; an equation is flagged when one of its dependencies is. -/
structure RateInv (g0 g : GeneratorImpl) : Prop where
  direct : ∀ e, (g0.equation e).mOdeVariables ≠ [] →
    (g.equation e).mIsStateRateBased = true
    ∨ ((g.equation e).mOrder = MAX_SIZE_T ∧ (g.equation e).mOdeVariables ≠ [])
  inherited : ∀ e d, d ∈ (g.equation e).mDependencies →
    (g.equation d).mIsStateRateBased = true → (g.equation e).mIsStateRateBased = true

/-- The records that the equation `e` references, plain references first. -/
def referenceList (g : GeneratorImpl) (e : Nat) : List Nat :=
  (g.equation e).mVariables ++ (g.equation e).mOdeVariables

/-- The tags of a constant: `CONSTANT`, `COMPUTED_TRUE_CONSTANT` and
`COMPUTED_VARIABLE_BASED_CONSTANT`. -/
def isConstantTag : GeneratorInternalVariableType → Bool
  | GeneratorInternalVariableType.CONSTANT => true
  | GeneratorInternalVariableType.COMPUTED_TRUE_CONSTANT => true
  | GeneratorInternalVariableType.COMPUTED_VARIABLE_BASED_CONSTANT => true
  | _ => false

/-- The tags that are neither `UNKNOWN` nor those of a constant. -/
def isNonConstantTag : GeneratorInternalVariableType → Bool
  | GeneratorInternalVariableType.UNKNOWN => false
  | t => !isConstantTag t

/-- The invariant of the resolution loop on the flags `mComputedTrueConstant`
and `mComputedVariableBasedConstant`, relative to the state `g0` in which the
loop is entered. -/
structure FlagInv (g0 g : GeneratorImpl) : Prop where
  indexed : ∀ p, (g.internalVariable p).mIndex ≠ MAX_SIZE_T →
    (g.internalVariable p).mType ≠ GeneratorInternalVariableType.UNKNOWN
    ∧ (g.internalVariable p).mType ≠ GeneratorInternalVariableType.SHOULD_BE_STATE
  ranged : ∀ e, ∀ v ∈ referenceList g e, v < g.variableStore.length
  subV : ∀ e, ∀ v ∈ (g.equation e).mVariables, v ∈ (g0.equation e).mVariables
  subO : ∀ e, ∀ v ∈ (g.equation e).mOdeVariables, v ∈ (g0.equation e).mOdeVariables
  trueKept : ∀ e, (g.equation e).mComputedTrueConstant = true →
    (g.equation e).mVariables = (g0.equation e).mVariables
    ∧ (g.equation e).mOdeVariables = (g0.equation e).mOdeVariables
  trueLost : ∀ e, (g.equation e).mComputedTrueConstant = false →
    ∃ q ∈ referenceList g0 e,
      (g.internalVariable q).mType ≠ GeneratorInternalVariableType.UNKNOWN
      ∧ ((g.equation e).mOrder ≠ MAX_SIZE_T → ∀ p, (g.equation e).mVariable = some p →
          (g0.internalVariable p).mType = GeneratorInternalVariableType.UNKNOWN → q ≠ p)
  basedKeptV : ∀ e, (g.equation e).mComputedVariableBasedConstant = true →
    ∀ q ∈ (g0.equation e).mVariables, q ∉ (g.equation e).mVariables →
      isConstantTag (g.internalVariable q).mType = true
      ∨ (g.internalVariable q).mType = GeneratorInternalVariableType.OVERCONSTRAINED
  basedKeptO : ∀ e, (g.equation e).mComputedVariableBasedConstant = true →
    ∀ q ∈ (g0.equation e).mOdeVariables, q ∉ (g.equation e).mOdeVariables →
      isConstantTag (g.internalVariable q).mType = true
      ∨ (g.internalVariable q).mType = GeneratorInternalVariableType.OVERCONSTRAINED
  basedLost : ∀ e, (g.equation e).mComputedVariableBasedConstant = false →
    ∃ q ∈ referenceList g0 e,
      isNonConstantTag (g.internalVariable q).mType = true
      ∧ ((g.internalVariable q).mType = GeneratorInternalVariableType.SHOULD_BE_STATE →
          q ∈ referenceList g e)
      ∧ ((g.equation e).mOrder ≠ MAX_SIZE_T → ∀ p, (g.equation e).mVariable = some p →
          (g0.internalVariable p).mType = GeneratorInternalVariableType.UNKNOWN → q ≠ p)
  solved : ∀ e p, (g.equation e).mOrder ≠ MAX_SIZE_T → (g.equation e).mVariable = some p →
    (g.internalVariable p).mType = GeneratorInternalVariableType.OVERCONSTRAINED
    ∨ ((g.equation e).mType = equationTypeOf (g.internalVariable p).mType
      ∧ isComputable (g.internalVariable p).mType = true
      ∧ ((g0.internalVariable p).mType = GeneratorInternalVariableType.UNKNOWN →
          (g.internalVariable p).mType = computedType (g.equation e)))

/-- The variable `x` of the example of a reference to an overconstrained
variable; it has no initial value. -/
def OverReference.x : Variable :=
  { ident := 0, name := "x", initialValue := "", units := "dimensionless", parent := "main" }

/-- The variable `y`, which has no initial value. -/
def OverReference.y : Variable :=
  { ident := 1, name := "y", initialValue := "", units := "dimensionless", parent := "main" }

/-- The component `main`. -/
def OverReference.component : Component :=
  { name := "main", variableList := [OverReference.x, OverReference.y] }

/-- The model: one component with the equations `x = 1`, `x = 2` and `y = x`,
in this order, and no two variables are equivalent. -/
def OverReference.model : Model :=
  { components := [ComponentEntity.mk OverReference.component []],
    hasEquivalentVariable := fun _ _ => false,
    math := fun _ => some (XmlNode.math
      [XmlNode.apply "eq" [XmlNode.ci "x", XmlNode.cn "1"],
       XmlNode.apply "eq" [XmlNode.ci "x", XmlNode.cn "2"],
       XmlNode.apply "eq" [XmlNode.ci "y", XmlNode.ci "x"]]) }

/-- The generator of the example once the component has been processed. -/
def OverReference.generator : GeneratorImpl :=
  (processComponents OverReference.model OverReference.model.components {}).getD default

/-- The generator of the example once `processModel` has returned. -/
def OverReference.processed : GeneratorImpl :=
  (processModel OverReference.model DependentEqns.numerics OverReference.generator).getD default

/-- The generator of the example of a state-based model once the model has
been analysed. -/
def StateBased.analysed : GeneratorImpl :=
  (analyseModel StateBased.model DependentEqns.numerics.isOne StateBased.generator).getD default

/-- The variable `u` of the example of a variable computed twice next to an
unused variable; it has no initial value. -/
def ComputedTwiceUnused.u : Variable :=
  { ident := 1, name := "u", initialValue := "", units := "dimensionless", parent := "main" }

/-- The component `main`, which declares `x` and `u`. -/
def ComputedTwiceUnused.component : Component :=
  { name := "main", variableList := [ComputedTwice.x, ComputedTwiceUnused.u] }

/-- The model: one component with the equations `x = 1` and `x = 2`; no
equation references `u`. -/
def ComputedTwiceUnused.model : Model :=
  { components := [ComponentEntity.mk ComputedTwiceUnused.component []],
    hasEquivalentVariable := fun _ _ => false,
    math := fun _ => some (XmlNode.math
      [XmlNode.apply "eq" [XmlNode.ci "x", XmlNode.cn "1"],
       XmlNode.apply "eq" [XmlNode.ci "x", XmlNode.cn "2"]]) }

/-- The generator of the example once `Generator::processModel` has returned. -/
def ComputedTwiceUnused.processed : GeneratorImpl :=
  (Generator.processModel ComputedTwiceUnused.model DependentEqns.numerics {}).getD default

/-- The registry holds at most one record per class of variables: its
pointers are distinct and point into the store, and no two records have
representatives (the variables `mVariable`, when they are not null) that are
the same variable or equivalent variables. -/
def DistinctClasses (m : Model) (g : GeneratorImpl) : Prop :=
  g.mInternalVariables.Nodup
  ∧ (∀ p ∈ g.mInternalVariables, p < g.variableStore.length)
  ∧ ∀ p ∈ g.mInternalVariables, ∀ q ∈ g.mInternalVariables, p ≠ q →
      ∀ v w, (g.internalVariable p).mVariable = some v →
        (g.internalVariable q).mVariable = some w →
        sameOrEquivalentVariable m.hasEquivalentVariable (some v) (some w) = false

/-- The variable `t` of the component `first` of the example of a shared
time. -/
def SharedTime.t : Variable :=
  { ident := 0, name := "t", initialValue := "", units := "second", parent := "first" }

/-- The variable `x` of the component `first`, initialised to `0`. -/
def SharedTime.x : Variable :=
  { ident := 1, name := "x", initialValue := "0", units := "dimensionless", parent := "first" }

/-- The variable `t2` of the component `second`. -/
def SharedTime.t2 : Variable :=
  { ident := 0, name := "t2", initialValue := "", units := "second", parent := "second" }

/-- The variable `y` of the component `second`. -/
def SharedTime.y : Variable :=
  { ident := 2, name := "y", initialValue := "", units := "second", parent := "second" }

/-- The component `first`, with the equation `dx/dt = 1`. -/
def SharedTime.first : Component :=
  { name := "first", variableList := [SharedTime.t, SharedTime.x] }

/-- The component `second`, with the equation `y = t2`. -/
def SharedTime.second : Component :=
  { name := "second", variableList := [SharedTime.t2, SharedTime.y] }

/-- The model made of the two components.  Two variables are equivalent when
they have the same `ident`: `t` and `t2` are, and the relation is symmetric
and transitive. -/
def SharedTime.model : Model :=
  { components :=
      [ComponentEntity.mk SharedTime.first [], ComponentEntity.mk SharedTime.second []],
    hasEquivalentVariable := fun v w => decide (v.ident = w.ident),
    math := fun c =>
      if c.name = "first" then
        some (XmlNode.math [XmlNode.apply "eq" [XmlNode.diff "t" "x", XmlNode.cn "1"]])
      else
        some (XmlNode.math [XmlNode.apply "eq" [XmlNode.ci "y", XmlNode.ci "t2"]]) }

/-- The generator of the example once `Generator::processModel` has returned. -/
def SharedTime.processed : GeneratorImpl :=
  (Generator.processModel SharedTime.model DependentEqns.numerics {}).getD default

/-- The tree of `not (a and b)`:
`<apply><not/><apply><and/><ci>a</ci><ci>b</ci></apply></apply>`. -/
def Unparenthesised.notOfAnd : GeneratorEquationAst :=
  GeneratorEquationAst.op GeneratorEquationAstType.NOT
    (GeneratorEquationAst.op GeneratorEquationAstType.AND (GeneratorEquationAst.ci UnaryPlus.a)
      (GeneratorEquationAst.ci UnaryPlus.b))
    GeneratorEquationAst.null

/-- The tree of `(not a) and b`. -/
def Unparenthesised.andOfNot : GeneratorEquationAst :=
  GeneratorEquationAst.op GeneratorEquationAstType.AND
    (GeneratorEquationAst.op GeneratorEquationAstType.NOT (GeneratorEquationAst.ci UnaryPlus.a)
      GeneratorEquationAst.null)
    (GeneratorEquationAst.ci UnaryPlus.b)

/-- The tree of `not (a + b)`. -/
def Unparenthesised.notOfSum : GeneratorEquationAst :=
  GeneratorEquationAst.op GeneratorEquationAstType.NOT
    (GeneratorEquationAst.op GeneratorEquationAstType.PLUS (GeneratorEquationAst.ci UnaryPlus.a)
      (GeneratorEquationAst.ci UnaryPlus.b))
    GeneratorEquationAst.null

/-- The tree of `a == (b and c)`:
`<apply><eq/><ci>a</ci><apply><and/><ci>b</ci><ci>c</ci></apply></apply>`. -/
def Unparenthesised.eqOfAnd : GeneratorEquationAst :=
  GeneratorEquationAst.op GeneratorEquationAstType.EQ (GeneratorEquationAst.ci UnaryPlus.a)
    (GeneratorEquationAst.op GeneratorEquationAstType.AND (GeneratorEquationAst.ci UnaryPlus.b)
      (GeneratorEquationAst.ci UnaryPlus.c))

/-- The tree of `(a or b) < c`. -/
def Unparenthesised.ltOfOr : GeneratorEquationAst :=
  GeneratorEquationAst.op GeneratorEquationAstType.LT
    (GeneratorEquationAst.op GeneratorEquationAstType.OR (GeneratorEquationAst.ci UnaryPlus.a)
      (GeneratorEquationAst.ci UnaryPlus.b))
    (GeneratorEquationAst.ci UnaryPlus.c)

/-- The tree of the comparison `(piecewise of a if b) < c`. -/
def Unparenthesised.ltOfPiecewise : GeneratorEquationAst :=
  GeneratorEquationAst.op GeneratorEquationAstType.LT
    (GeneratorEquationAst.op GeneratorEquationAstType.PIECEWISE
      (GeneratorEquationAst.op GeneratorEquationAstType.PIECE (GeneratorEquationAst.ci UnaryPlus.a)
        (GeneratorEquationAst.ci UnaryPlus.b))
      GeneratorEquationAst.null)
    (GeneratorEquationAst.ci UnaryPlus.c)

/-- The variable `k` of the example of an equation whose left-hand side is
not the variable it computes: `k` is initialised to `1`. -/
def WrongSide.k : Variable :=
  { ident := 0, name := "k", initialValue := "1", units := "dimensionless", parent := "main" }

/-- The variable `x`, which has no initial value. -/
def WrongSide.x : Variable :=
  { ident := 1, name := "x", initialValue := "", units := "dimensionless", parent := "main" }

/-- The component `main`. -/
def WrongSide.component : Component :=
  { name := "main", variableList := [WrongSide.k, WrongSide.x] }

/-- The model: one component with the single equation `k = x`, and no two
variables are equivalent. -/
def WrongSide.model : Model :=
  { components := [ComponentEntity.mk WrongSide.component []],
    hasEquivalentVariable := fun _ _ => false,
    math := fun _ => some (XmlNode.math
      [XmlNode.apply "eq" [XmlNode.ci "k", XmlNode.ci "x"]]) }

/-- The generator of the example once `Generator::processModel` has returned. -/
def WrongSide.processed : GeneratorImpl :=
  (Generator.processModel WrongSide.model DependentEqns.numerics {}).getD default

/-- The generator of the model with the equations `x = 2` and `x = y`, stored
in this order, at the end of the analysis of `processModel`. -/
def Reordered.analysed : GeneratorImpl :=
  ((processComponents
      (Reordered.model Reordered.small [Reordered.byValue, Reordered.byVariable])
      [ComponentEntity.mk Reordered.small []] {}).bind
    (analyseModel (Reordered.model Reordered.small [Reordered.byValue, Reordered.byVariable])
      DependentEqns.numerics.isOne)).getD default

/-- The variable of integration `t` of the example of a variable that the
body of compute-variables reads but does not assign. -/
def StaleRead.t : Variable :=
  { ident := 0, name := "t", initialValue := "", units := "second", parent := "main" }

/-- The variable `x`, initialised to `0`. -/
def StaleRead.x : Variable :=
  { ident := 1, name := "x", initialValue := "0", units := "dimensionless", parent := "main" }

/-- The variable `a`, which has no initial value. -/
def StaleRead.a : Variable :=
  { ident := 2, name := "a", initialValue := "", units := "dimensionless", parent := "main" }

/-- The variable `b`, which has no initial value. -/
def StaleRead.b : Variable :=
  { ident := 3, name := "b", initialValue := "", units := "dimensionless", parent := "main" }

/-- The component `main`. -/
def StaleRead.component : Component :=
  { name := "main", variableList := [StaleRead.t, StaleRead.x, StaleRead.a, StaleRead.b] }

/-- The model: one component with the equations `dx/dt = a`, `a = t` and
`b = a`, and no two variables are equivalent. -/
def StaleRead.model : Model :=
  { components := [ComponentEntity.mk StaleRead.component []],
    hasEquivalentVariable := fun _ _ => false,
    math := fun _ => some (XmlNode.math
      [XmlNode.apply "eq" [XmlNode.diff "t" "x", XmlNode.ci "a"],
       XmlNode.apply "eq" [XmlNode.ci "a", XmlNode.ci "t"],
       XmlNode.apply "eq" [XmlNode.ci "b", XmlNode.ci "a"]]) }

/-- The generator of the example once `Generator::processModel` has returned. -/
def StaleRead.processed : GeneratorImpl :=
  (Generator.processModel StaleRead.model DependentEqns.numerics {}).getD default

/-- No record whose tag is not `UNKNOWN` in the state `g` is tagged `UNKNOWN`
in the state `g'`. -/
def KeepsTags (g g' : GeneratorImpl) : Prop :=
  ∀ q, (g.internalVariable q).mType ≠ GeneratorInternalVariableType.UNKNOWN →
    (g'.internalVariable q).mType ≠ GeneratorInternalVariableType.UNKNOWN

/-- The equation `d` belongs to the dependency list of the equation `e`. -/
def DependsOn (g : GeneratorImpl) (e d : Nat) : Prop := d ∈ (g.equation e).mDependencies

/-- The generator of the model of the single rate `dx/dt = 1` once its
components have been processed. -/
def SingleRate.generator : GeneratorImpl :=
  (processComponents SingleRate.model SingleRate.model.components (resetGenerator {})).getD default

/-- The generator in which the tree of the single equation of a component is
built: the equation has just been created. -/
def SingleRate.started : GeneratorImpl :=
  { equationStore := [{ mComponent := SingleRate.component }], mEquations := [0] }

/-- The element `<bvar><ci>t</ci></bvar>` of the derivative. -/
def SingleRate.bvar : XmlNode := XmlNode.element "bvar" [XmlNode.ci "t"]

/-- The element `<apply><eq/>...</apply>` of the equation `dx/dt = 1`. -/
def SingleRate.equationNode : XmlNode :=
  XmlNode.apply "eq" [XmlNode.diff "t" "x", XmlNode.cn "1"]

/-- The test of the claim on one imported entity: its import is already on
the chain `chain` of the nested imports that lead to it, or the model that it
imports holds, at any depth, an import that is on the chain extended with it.
`follow` is the test on a model. -/
def importRepeats (files : String → Option ImportedModel)
    (follow : List ImportStep → ImportedModel → String → Option Bool)
    (chain : List ImportStep) (importReference : Option ImportReference)
    (destination baseFile : String) : Option Bool :=
  match importReference with
  | none => some false
  | some r =>
    if (destination, r.reference, r.url) ∈ chain then some true
    else
      match files (resolvePath r.url baseFile) with
      | some model =>
        follow (chain ++ [(destination, r.reference, r.url)]) model (resolvePath r.url baseFile)
      | none => some false

mutual

/-- The test of the claim on a component and on the components that it
encapsulates. -/
def componentRepeats (files : String → Option ImportedModel)
    (follow : List ImportStep → ImportedModel → String → Option Bool)
    (chain : List ImportStep) (baseFile : String) : ImportedComponent → Option Bool
  | ImportedComponent.mk name importReference components =>
    match importRepeats files follow chain importReference name baseFile with
    | none => none
    | some here =>
      match componentsRepeat files follow chain baseFile components with
      | none => none
      | some below => some (here || below)

/-- The test of the claim on the components of a list. -/
def componentsRepeat (files : String → Option ImportedModel)
    (follow : List ImportStep → ImportedModel → String → Option Bool)
    (chain : List ImportStep) (baseFile : String) : List ImportedComponent → Option Bool
  | [] => some false
  | component :: rest =>
    match componentRepeats files follow chain baseFile component with
    | none => none
    | some first =>
      match componentsRepeat files follow chain baseFile rest with
      | none => none
      | some others => some (first || others)
end

/-- The test of the claim on the units of a list. -/
def unitsRepeat (files : String → Option ImportedModel)
    (follow : List ImportStep → ImportedModel → String → Option Bool)
    (chain : List ImportStep) (baseFile : String) : List ImportedUnits → Option Bool
  | [] => some false
  | units :: rest =>
    match importRepeats files follow chain units.importReference units.name baseFile with
    | none => none
    | some first =>
      match unitsRepeat files follow chain baseFile rest with
      | none => none
      | some others => some (first || others)

/-- The condition of the claim, written from its words and not from the
source: following the imports from the model reaches an import
(destination, import reference, URL) that is already on the current chain of
nested imports.  One unit of fuel is used for every level of nesting; `none`
means that the fuel ran out. -/
def importChainRepeats (files : String → Option ImportedModel) :
    Nat → List ImportStep → ImportedModel → String → Option Bool
  | 0, _, _, _ => none
  | fuel + 1, chain, model, baseFile =>
    let follow := fun c mdl b => importChainRepeats files fuel c mdl b
    match unitsRepeat files follow chain baseFile model.units with
    | none => none
    | some first =>
      match componentsRepeat files follow chain baseFile model.components with
      | none => none
      | some others => some (first || others)

/-- The model of the file `main.cellml` of the example of two imports of one
file: the components `a` and `b` are imported from `lib.cellml`, each through
an import source of its own. -/
def TwiceImported.main : ImportedModel :=
  { name := "main",
    components :=
      [ImportedComponent.mk "a" (some { source := 0, url := "lib.cellml", reference := "x" }) [],
       ImportedComponent.mk "b" (some { source := 1, url := "lib.cellml", reference := "y" }) []] }

/-- The model of the file `lib.cellml`: the components `x` and `y`, and the
component `c` that is imported from `other.cellml`. -/
def TwiceImported.lib : ImportedModel :=
  { name := "lib",
    components :=
      [ImportedComponent.mk "x" none [], ImportedComponent.mk "y" none [],
       ImportedComponent.mk "c"
         (some { source := 0, url := "other.cellml", reference := "z" }) []] }

/-- The model of the file `other.cellml`: the component `z`, and no import. -/
def TwiceImported.other : ImportedModel :=
  { name := "other", components := [ImportedComponent.mk "z" none []] }

/-- The files of the example. -/
def TwiceImported.files (path : String) : Option ImportedModel :=
  if path = "lib.cellml" then some TwiceImported.lib
  else if path = "other.cellml" then some TwiceImported.other
  else none

/-- A model whose component `a` is imported from the file of the model
itself. -/
def SelfImported.main : ImportedModel :=
  { name := "main",
    components :=
      [ImportedComponent.mk "a" (some { source := 0, url := "main.cellml", reference := "a" })
        []] }

/-- The files of the example of a model that imports itself. -/
def SelfImported.files (path : String) : Option ImportedModel :=
  if path = "main.cellml" then some SelfImported.main else none

/-- The tree that the loop of `processNode` over the children of a
`piecewise` element leaves in `astRight`, from the trees of the children
after the first: the last tree, wrapped in one `PIECEWISE` node per earlier
child. -/
def piecewiseRight : List GeneratorEquationAst → GeneratorEquationAst
  | [] => GeneratorEquationAst.null
  | [t] => t
  | t :: u :: rest =>
    GeneratorEquationAst.node GeneratorEquationAstType.PIECEWISE "" none t
      (piecewiseRight (u :: rest))

/-- The tree of a `piecewise` element, from the trees of its children. -/
def piecewiseTree : List GeneratorEquationAst → GeneratorEquationAst
  | [] => GeneratorEquationAst.null
  | t :: rest =>
    GeneratorEquationAst.node GeneratorEquationAstType.PIECEWISE "" none t (piecewiseRight rest)

/-- The text of the claim, written from its words: `IF(c1, v1)` followed by
`ELSE` of the text of the pieces that follow, and the text `w` when no piece
is left.  `IF` and `ELSE` are `generatePiecewiseIfCode` and
`generatePiecewiseElseCode`; a piece is given by the text of its condition
and the text of its value. -/
def piecewiseText (p : GeneratorProfile) : List (String × String) → String → String
  | [], w => w
  | cv :: rest, w =>
    generatePiecewiseIfCode p cv.1 cv.2 ++ generatePiecewiseElseCode p (piecewiseText p rest w)

/-- The tree of a `piece` element, from the trees of its value and of its
condition. -/
def pieceTree (vc : GeneratorEquationAst × GeneratorEquationAst) : GeneratorEquationAst :=
  GeneratorEquationAst.node GeneratorEquationAstType.PIECE "" none vc.1 vc.2

/-- The tree of an `otherwise` element, from the tree of its value. -/
def otherwiseTree (w : GeneratorEquationAst) : GeneratorEquationAst :=
  GeneratorEquationAst.node GeneratorEquationAstType.OTHERWISE "" none w
    GeneratorEquationAst.null

/-- The rendering of the pieces, in the order of the document: for every
piece, `generateCode` on its condition and then on its value; the result
holds, for every piece, the text of the condition and the text of the
value. -/
def renderPieces {F : Type} (p : GeneratorProfile) (m : Model) (num : Numerics F) :
    List (GeneratorEquationAst × GeneratorEquationAst) →
    StateT GeneratorImpl Option (List (String × String))
  | [] => pure []
  | vc :: rest => do
    let condition ← generateCodeAux p m num false vc.2 (some GeneratorEquationAstType.PIECE)
    let value ← generateCodeAux p m num false vc.1 (some GeneratorEquationAstType.PIECE)
    let texts ← renderPieces p m num rest
    pure ((condition, value) :: texts)

/-- The rendering of the value of the `otherwise` element, or the string
not-a-number of the profile when there is none. -/
def renderOtherwise {F : Type} (p : GeneratorProfile) (m : Model) (num : Numerics F) :
    Option GeneratorEquationAst → StateT GeneratorImpl Option String
  | none => pure p.nanString
  | some w => generateCodeAux p m num false w (some GeneratorEquationAstType.OTHERWISE)

/-- The first `piece` element of the example of a piecewise element: the
value `1` under the condition `x`, with text around its two children. -/
def Conditional.pieceOne : XmlNode :=
  XmlNode.element "piece"
    [XmlNode.text " ", XmlNode.cn "1", XmlNode.text " ", XmlNode.ci "x", XmlNode.text " "]

/-- The second `piece` element of the example of a piecewise element: the
value `2` under the condition `t`. -/
def Conditional.pieceTwo : XmlNode :=
  XmlNode.element "piece" [XmlNode.cn "2", XmlNode.ci "t"]

/-- The `otherwise` element of the example of a piecewise element, of value
`3`. -/
def Conditional.other : XmlNode :=
  XmlNode.element "otherwise" [XmlNode.text " ", XmlNode.cn "3"]

/-- The example of a piecewise element: two pieces followed by an
`otherwise` element, with the text that stands between the elements of the
document. -/
def Conditional.node : XmlNode :=
  XmlNode.element "piecewise"
    [XmlNode.text " ", Conditional.pieceOne, XmlNode.text " ", Conditional.pieceTwo,
     XmlNode.text " ", Conditional.other, XmlNode.text " "]

/-- The pieces of the example of a piecewise element: each `piece` element
with its value and its condition. -/
def Conditional.pieces : List (XmlNode × XmlNode × XmlNode) :=
  [(Conditional.pieceOne, XmlNode.cn "1", XmlNode.ci "x"),
   (Conditional.pieceTwo, XmlNode.cn "2", XmlNode.ci "t")]

/-- The `otherwise` element of the example of a piecewise element with its
value. -/
def Conditional.otherwise : XmlNode × XmlNode :=
  (Conditional.other, XmlNode.cn "3")

/-- The result of `processNode` on the example of a piecewise element, in the
component of the model of the single rate. -/
def Conditional.result : GeneratorEquationAst × GeneratorImpl :=
  (processNode SingleRate.model SingleRate.component 0 3 Conditional.node []
    GeneratorEquationAst.null SingleRate.started).getD default

/-- The variable `v` has a record in the registry: the variable of some
record of the list is the same as, or equivalent to, `v`. -/
def HasRecord (m : Model) (g : GeneratorImpl) (v : Variable) : Prop :=
  ∃ p ∈ g.mInternalVariables,
    sameOrEquivalentVariable m.hasEquivalentVariable (some v)
      (g.internalVariable p).mVariable = true

/-- The records of the state `g` are records of the state `g'`, and the
variable of a record of `g` is, in `g'`, the same variable or an equivalent
one. -/
def Keeps (m : Model) (g g' : GeneratorImpl) : Prop :=
  (∀ p ∈ g.mInternalVariables, p ∈ g'.mInternalVariables)
  ∧ ∀ p w, (g.internalVariable p).mVariable = some w →
      ∃ w', (g'.internalVariable p).mVariable = some w'
        ∧ sameOrEquivalentVariable m.hasEquivalentVariable (some w) (some w') = true

/-- Every variable of a node of the memory has a record in the registry. -/
def MemoryRegistered (m : Model) (g : GeneratorImpl) (mem : AstMemory) : Prop :=
  ∀ c ∈ mem.cells, ∀ v ∈ c.mVariable, HasRecord m g v

/-- Every variable of the tree has a record in the registry. -/
def TreeRegistered (m : Model) (g : GeneratorImpl) (ast : GeneratorEquationAst) : Prop :=
  ∀ v ∈ treeVariables ast, HasRecord m g v

/-- The type of the entry that `processModel` adds to the list of the
variables for a record with the given tag; there is none for a state, for the
variable of integration and for the tags of a model that is not valid. -/
def publishedVariableType : GeneratorInternalVariableType → Option GeneratorVariableType
  | GeneratorInternalVariableType.CONSTANT => some GeneratorVariableType.CONSTANT
  | GeneratorInternalVariableType.COMPUTED_TRUE_CONSTANT =>
    some GeneratorVariableType.COMPUTED_CONSTANT
  | GeneratorInternalVariableType.COMPUTED_VARIABLE_BASED_CONSTANT =>
    some GeneratorVariableType.COMPUTED_CONSTANT
  | GeneratorInternalVariableType.ALGEBRAIC => some GeneratorVariableType.ALGEBRAIC
  | _ => none

/-- The entry of the list of the states or of the list of the variables that
is made from the record `p`, with the type `t`. -/
def publishedEntry (g : GeneratorImpl) (p : Nat) (t : GeneratorVariableType) :
    GeneratorVariable :=
  { mInitialValueVariable := some (g.internalVariable p).mInitialValueVariable,
    mVariable := (g.internalVariable p).mVariable, mType := t }

/-- The records of the list that are tagged as the variable of
integration. -/
def voiRecords (g : GeneratorImpl) (ps : List Nat) : List Nat :=
  ps.filter fun p =>
    decide ((g.internalVariable p).mType = GeneratorInternalVariableType.VARIABLE_OF_INTEGRATION)

/-- The records of the list that are tagged as states. -/
def stateRecords (g : GeneratorImpl) (ps : List Nat) : List Nat :=
  ps.filter fun p => decide ((g.internalVariable p).mType = GeneratorInternalVariableType.STATE)

/-- The records of the list that are tagged as constants, computed constants
or algebraic variables. -/
def variableRecords (g : GeneratorImpl) (ps : List Nat) : List Nat :=
  ps.filter fun p => (publishedVariableType (g.internalVariable p).mType).isSome

/-- The entries of the list of the states that are made from the records of
the list, in order. -/
def stateEntries (g : GeneratorImpl) (ps : List Nat) : List GeneratorVariable :=
  (stateRecords g ps).map fun p => publishedEntry g p GeneratorVariableType.STATE

/-- The entries of the list of the variables that are made from the records
of the list, in order. -/
def variableEntries (g : GeneratorImpl) (ps : List Nat) : List GeneratorVariable :=
  (variableRecords g ps).map fun p =>
    publishedEntry g p ((publishedVariableType (g.internalVariable p).mType).getD
      GeneratorVariableType.CONSTANT)

/-- The tags of a record in a model that is valid. -/
def validTag (t : GeneratorInternalVariableType) : Prop :=
  t ≠ GeneratorInternalVariableType.UNKNOWN ∧ t ≠ GeneratorInternalVariableType.SHOULD_BE_STATE
  ∧ t ≠ GeneratorInternalVariableType.OVERCONSTRAINED

/-- The tags `VARIABLE_OF_INTEGRATION` of the records in the states `g` and
`g'`: no record is newly tagged as the variable of integration, a record
that was tagged so still is unless it is now tagged `OVERCONSTRAINED`, and a
record tagged `OVERCONSTRAINED` still is. -/
def VoiTags (g g' : GeneratorImpl) : Prop :=
  ∀ q,
    ((g'.internalVariable q).mType = GeneratorInternalVariableType.VARIABLE_OF_INTEGRATION →
      (g.internalVariable q).mType = GeneratorInternalVariableType.VARIABLE_OF_INTEGRATION)
    ∧ ((g.internalVariable q).mType = GeneratorInternalVariableType.VARIABLE_OF_INTEGRATION →
      (g'.internalVariable q).mType = GeneratorInternalVariableType.VARIABLE_OF_INTEGRATION
      ∨ (g'.internalVariable q).mType = GeneratorInternalVariableType.OVERCONSTRAINED)
    ∧ ((g.internalVariable q).mType = GeneratorInternalVariableType.OVERCONSTRAINED →
      (g'.internalVariable q).mType = GeneratorInternalVariableType.OVERCONSTRAINED)

/-- The equations of the state `g'` track no record that those of the state
`g` do not track, and they have the same component and the same tree. -/
def Tracks (g g' : GeneratorImpl) : Prop :=
  ∀ e, (∀ p ∈ (g'.equation e).mVariables, p ∈ (g.equation e).mVariables)
    ∧ (∀ p ∈ (g'.equation e).mOdeVariables, p ∈ (g.equation e).mOdeVariables)
    ∧ (g'.equation e).mComponent = (g.equation e).mComponent
    ∧ (g'.equation e).mAst = (g.equation e).mAst

/-- Every record that an equation tracks has a variable, and this variable
is the same as, or equivalent to, a variable of the component of the
equation. -/
def Anchored (m : Model) (g : GeneratorImpl) : Prop :=
  ∀ e p, p ∈ (g.equation e).mVariables ∨ p ∈ (g.equation e).mOdeVariables →
    ∃ w u, (g.internalVariable p).mVariable = some w
      ∧ u ∈ (g.equation e).mComponent.variableList
      ∧ sameOrEquivalentVariable m.hasEquivalentVariable (some w) (some u) = true

/-- The variable occurs in a component of the model: `variableFirstOccurrence`
finds it, or an equivalent variable. -/
def Occurs (m : Model) (v : Variable) : Prop :=
  (variableFirstOccurrenceIn m v m.components).isSome = true

/-- The record of the variable of integration: no record is tagged as the
variable of integration while `mVoi` is null, and, once `mVoi` is set,
exactly one record is, whose variable is the same as, or equivalent to, the
variable of `mVoi`. -/
def VoiFacts (m : Model) (g : GeneratorImpl) : Prop :=
  match g.mVoi with
  | none => ∀ p ∈ g.mInternalVariables,
      (g.internalVariable p).mType ≠ GeneratorInternalVariableType.VARIABLE_OF_INTEGRATION
  | some voi => ∃ p ∈ g.mInternalVariables,
      (g.internalVariable p).mType = GeneratorInternalVariableType.VARIABLE_OF_INTEGRATION
      ∧ (∀ q ∈ g.mInternalVariables,
          (g.internalVariable q).mType = GeneratorInternalVariableType.VARIABLE_OF_INTEGRATION →
          q = p)
      ∧ ∃ w v0, (g.internalVariable p).mVariable = some w ∧ voi.mVariable = some v0
          ∧ sameOrEquivalentVariable m.hasEquivalentVariable (some v0) (some w) = true

/-- The invariant of the pre-pass on the record of the variable of
integration: the facts `VoiFacts` hold as long as no issue has been
recorded. -/
def VoiRecord (m : Model) (g : GeneratorImpl) : Prop :=
  g.errors = [] → VoiFacts m g

/-- The records tagged as the variable of integration are the same in the
two states, with the same variable, `mVoi` is the same, and `g'` has an issue
when `g` has one. -/
def VoiSame (g g' : GeneratorImpl) : Prop :=
  g'.mVoi = g.mVoi
  ∧ (g'.errors = [] → g.errors = [])
  ∧ (∀ q ∈ g.mInternalVariables, q ∈ g'.mInternalVariables)
  ∧ (∀ q ∈ g'.mInternalVariables,
      (g'.internalVariable q).mType = GeneratorInternalVariableType.VARIABLE_OF_INTEGRATION →
      q ∈ g.mInternalVariables
      ∧ (g.internalVariable q).mType = GeneratorInternalVariableType.VARIABLE_OF_INTEGRATION)
  ∧ ∀ q ∈ g.mInternalVariables,
      (g.internalVariable q).mType = GeneratorInternalVariableType.VARIABLE_OF_INTEGRATION →
      (g'.internalVariable q).mType = GeneratorInternalVariableType.VARIABLE_OF_INTEGRATION
      ∧ (g'.internalVariable q).mVariable = (g.internalVariable q).mVariable

/-- Every variable of the tree belongs to the list. -/
def TreeIn (D : List Variable) (ast : GeneratorEquationAst) : Prop :=
  ∀ v ∈ treeVariables ast, v ∈ D

mutual
/-- The variables declared in a component and in the components that it
encapsulates. -/
def declaredVariables : ComponentEntity → List Variable
  | ComponentEntity.mk component components =>
    component.variableList ++ declaredVariablesIn components
/-- The variables declared in the components of a list. -/
def declaredVariablesIn : List ComponentEntity → List Variable
  | [] => []
  | c :: rest => declaredVariables c ++ declaredVariablesIn rest
end

/-- The state of the generator while the components are processed: no record
is tagged as the variable of integration, the registry holds one record per
class of equivalent variables, the records that the equations track are
anchored in the component of their equation, and the variables of the trees
belong to the list `D`. -/
structure Prepared (m : Model) (D : List Variable) (g : GeneratorImpl) : Prop where
  noVoi : ∀ q, (g.internalVariable q).mType
    ≠ GeneratorInternalVariableType.VARIABLE_OF_INTEGRATION
  distinct : DistinctClasses m g
  anchored : Anchored m g
  trees : ∀ e, TreeIn D (g.equation e).mAst

/-- The variable `t` of the example of a state that an equation also
assigns. -/
def StateAssigned.t : Variable :=
  { ident := 0, name := "t", initialValue := "", units := "second", parent := "main" }

/-- The variable `x`, initialised to `0`. -/
def StateAssigned.x : Variable :=
  { ident := 1, name := "x", initialValue := "0", units := "dimensionless", parent := "main" }

/-- The component `main`. -/
def StateAssigned.component : Component :=
  { name := "main", variableList := [StateAssigned.t, StateAssigned.x] }

/-- The equation `x = 3`. -/
def StateAssigned.byValue : XmlNode :=
  XmlNode.apply "eq" [XmlNode.ci "x", XmlNode.cn "3"]

/-- The equation `dx/dt = 1`. -/
def StateAssigned.byRate : XmlNode :=
  XmlNode.apply "eq" [XmlNode.diff "t" "x", XmlNode.cn "1"]

/-- The model: one component with the given equations, stored in the given
order, and no two variables are equivalent. -/
def StateAssigned.model (equations : List XmlNode) : Model :=
  { components := [ComponentEntity.mk StateAssigned.component []],
    hasEquivalentVariable := fun _ _ => false,
    math := fun _ => some (XmlNode.math equations) }

/-- The generator of the example once the component has been processed. -/
def StateAssigned.generator (equations : List XmlNode) : GeneratorImpl :=
  (processComponents (StateAssigned.model equations) (StateAssigned.model equations).components
    (resetGenerator {})).getD default

/-- The state and the counters with which the resolution loop is entered. -/
def StateAssigned.entered (equations : List XmlNode) : GeneratorImpl × Counters :=
  enterResolution ((prePass (StateAssigned.model equations) DependentEqns.numerics.isOne
    (resetResults (StateAssigned.generator equations))).getD default)

/-- The result of the first call of `check` of the resolution loop, on the
equation stored first. -/
def StateAssigned.afterFirst (equations : List XmlNode) : GeneratorImpl × Counters × Bool :=
  check (StateAssigned.model equations).hasEquivalentVariable
    (StateAssigned.entered equations).1 0 (StateAssigned.entered equations).2

/-- The generator of the example once the model has been analysed. -/
def StateAssigned.analysed (equations : List XmlNode) : GeneratorImpl :=
  (analyseModel (StateAssigned.model equations) DependentEqns.numerics.isOne
    (StateAssigned.generator equations)).getD default

/-- A variable that an equation `e` references is known, and the equation
that computes it, when there is one, is a dependency of `e`: the variable was
tagged as the variable of integration, a constant or a state when the
resolution loop was entered (in `g0`), or an equation of the dependency list
of `e` computes it. -/
def KnownDependency (g0 g : GeneratorImpl) (e v : Nat) : Prop :=
  (g0.internalVariable v).mType = GeneratorInternalVariableType.VARIABLE_OF_INTEGRATION
  ∨ (g0.internalVariable v).mType = GeneratorInternalVariableType.CONSTANT
  ∨ (g0.internalVariable v).mType = GeneratorInternalVariableType.STATE
  ∨ ∃ d ∈ (g.equation e).mDependencies, (g.equation d).mVariable = some v

/-- The invariant of the resolution loop on the dependencies, relative to
the state `g0` in which the loop is entered: a variable that an equation no
longer tracks is known, and the equation that computes it, when there is
one, is a dependency of the equation. -/
def DepInv (g0 g : GeneratorImpl) : Prop :=
  ∀ e, ∀ v ∈ (g0.equation e).mVariables, v ∉ (g.equation e).mVariables →
    KnownDependency g0 g e v

/-- The generator of the example of an algebraic variable that compute-rates
alone assigns, once the component has been processed. -/
def StaleRead.generator : GeneratorImpl :=
  (processComponents StaleRead.model StaleRead.model.components (resetGenerator {})).getD
    default

/-- The generator of the example after the pre-pass over its trees. -/
def StaleRead.prePassed : GeneratorImpl :=
  (prePass StaleRead.model DependentEqns.numerics.isOne
    (resetResults StaleRead.generator)).getD default

/-- The element `d` stands before the element `e` in the list. -/
def Before (L : List Nat) (d e : Nat) : Prop := ∃ l1 l2, L = l1 ++ e :: l2 ∧ d ∈ l1

/-- The invariant of the resolution loop on the indices of the computed
variables: an equation without order computes no variable; the variable that
an equation computes is a record of the store; the index of a variable that
is computed by an equation of a type other than `RATE` is one of the indices
that `variableIndex` has handed out, and these indices grow with the orders
of the equations. -/
structure RankInv (g : GeneratorImpl) (c : Counters) : Prop where
  unordered : ∀ e, (g.equation e).mOrder = MAX_SIZE_T → (g.equation e).mVariable = none
  ranged : ∀ e p, (g.equation e).mVariable = some p → p < g.variableStore.length
  bound : ∀ e p, (g.equation e).mVariable = some p →
    (g.equation e).mType ≠ GeneratorEquationType.RATE →
    (g.internalVariable p).mIndex < handedOut c.variableIndex
  mono : ∀ e e' p p', (g.equation e).mVariable = some p → (g.equation e').mVariable = some p' →
    (g.equation e).mType ≠ GeneratorEquationType.RATE →
    (g.equation e').mType ≠ GeneratorEquationType.RATE →
    (g.equation e).mOrder < (g.equation e').mOrder →
    (g.internalVariable p).mIndex < (g.internalVariable p').mIndex

/-- The records of the state `g` are records of the state `g'`, with the
same fields. -/
def KeepsRecords (g g' : GeneratorImpl) : Prop :=
  g.variableStore.length ≤ g'.variableStore.length
  ∧ ∀ q, q < g.variableStore.length → g'.internalVariable q = g.internalVariable q

/-- The equation is of none of the three types of which the procedures that
come before compute-variables emit the equations. -/
def LeftToVariables (g : GeneratorImpl) (e : Nat) : Prop :=
  (g.equation e).mType ≠ GeneratorEquationType.TRUE_CONSTANT
  ∧ (g.equation e).mType ≠ GeneratorEquationType.VARIABLE_BASED_CONSTANT
  ∧ (g.equation e).mType ≠ GeneratorEquationType.RATE

/-! ## Basic facts about the stores -/


theorem getD_set_eq {α : Type} (l : List α) (i j : Nat) (x d : α) :
    (l.set i x).getD j d = if i = j ∧ i < l.length then x else l.getD j d := by
  simp only [List.getD_eq_getElem?_getD, List.getElem?_set]
  by_cases h : i = j
  · subst h
    by_cases h2 : i < l.length
    · simp [h2]
    · have h3 : l[i]? = none := List.getElem?_eq_none (by omega)
      simp [h2, h3]
  · simp [h]

namespace GeneratorImpl

theorem internalVariable_setInternalVariable (g : GeneratorImpl) (p q : Nat)
    (x : GeneratorInternalVariable) :
    (g.setInternalVariable p x).internalVariable q
      = if p = q ∧ p < g.variableStore.length then x else g.internalVariable q := by
  unfold internalVariable setInternalVariable; exact getD_set_eq _ _ _ _ _

theorem equation_setEquation (g : GeneratorImpl) (p q : Nat) (x : GeneratorEquation) :
    (g.setEquation p x).equation q
      = if p = q ∧ p < g.equationStore.length then x else g.equation q := by
  unfold equation setEquation; exact getD_set_eq _ _ _ _ _

@[simp] theorem equation_setInternalVariable (g : GeneratorImpl) (p q : Nat)
    (x : GeneratorInternalVariable) :
    (g.setInternalVariable p x).equation q = g.equation q := rfl

@[simp] theorem internalVariable_setEquation (g : GeneratorImpl) (p q : Nat)
    (x : GeneratorEquation) :
    (g.setEquation p x).internalVariable q = g.internalVariable q := rfl

end GeneratorImpl

theorem sizeIncr_eq_handedOut (x : Nat) (h : handedOut x < MAX_SIZE_T) (hx : x ≤ MAX_SIZE_T) :
    sizeIncr x = handedOut x := by
  unfold sizeIncr handedOut MAX_SIZE_T at *
  split_ifs at h ⊢ with h1
  · subst h1; rfl
  · omega

theorem check_elim (hEq : Variable → Variable → Bool) (g : GeneratorImpl) (self : Nat)
    (c : Counters) (motive : GeneratorImpl × Counters × Bool → Prop)
    (h1 : (g.equation self).mOrder ≠ MAX_SIZE_T → motive (g, c, false))
    (h2 : (g.equation self).mOrder = MAX_SIZE_T → isOverconstraint g (g.equation self) = true →
      motive (g.setInternalVariable (soleVariable (g.equation self))
        { g.internalVariable (soleVariable (g.equation self)) with
          mType := GeneratorInternalVariableType.OVERCONSTRAINED }, c, false))
    (h3 : (g.equation self).mOrder = MAX_SIZE_T → isOverconstraint g (g.equation self) = false →
      (updateTracking g (g.equation self)).mVariables.length
        + (updateTracking g (g.equation self)).mOdeVariables.length ≠ 1 →
      motive (g.setEquation self (updateTracking g (g.equation self)), c, false))
    (h4 : (g.equation self).mOrder = MAX_SIZE_T → isOverconstraint g (g.equation self) = false →
      (updateTracking g (g.equation self)).mVariables.length
        + (updateTracking g (g.equation self)).mOdeVariables.length = 1 →
      isComputable (updateVariable hEq (updateTracking g (g.equation self))
        (g.internalVariable (soleVariable (updateTracking g (g.equation self))))).mType = false →
      motive ((g.setInternalVariable (soleVariable (updateTracking g (g.equation self)))
        (updateVariable hEq (updateTracking g (g.equation self))
          (g.internalVariable (soleVariable (updateTracking g (g.equation self)))))).setEquation
        self (updateTracking g (g.equation self)), c, false))
    (h5 : (g.equation self).mOrder = MAX_SIZE_T → isOverconstraint g (g.equation self) = false →
      (updateTracking g (g.equation self)).mVariables.length
        + (updateTracking g (g.equation self)).mOdeVariables.length = 1 →
      isComputable (updateVariable hEq (updateTracking g (g.equation self))
        (g.internalVariable (soleVariable (updateTracking g (g.equation self))))).mType = true →
      motive (checkResolved hEq g self c)) :
    motive (check hEq g self c) := by
  unfold check
  by_cases c1 : (g.equation self).mOrder = MAX_SIZE_T
  · by_cases c2 : isOverconstraint g (g.equation self) = true
    · simp only [c1, ne_eq, not_true_eq_false, if_false, c2, if_true]
      exact h2 c1 c2
    · have c2f : isOverconstraint g (g.equation self) = false := by simpa using c2
      by_cases c3 : (updateTracking g (g.equation self)).mVariables.length
          + (updateTracking g (g.equation self)).mOdeVariables.length = 1
      · by_cases c4 : isComputable (updateVariable hEq (updateTracking g (g.equation self))
          (g.internalVariable (soleVariable (updateTracking g (g.equation self))))).mType = true
        · simp only [c1, ne_eq, not_true_eq_false, if_false, c2f, c3, c4, if_true,
            Bool.false_eq_true]
          exact h5 c1 c2f c3 c4
        · have c4f := c4
          simp only [Bool.not_eq_true] at c4f
          simp only [c1, ne_eq, not_true_eq_false, if_false, c2f, c3, c4f, if_true,
            Bool.false_eq_true]
          exact h4 c1 c2f c3 c4f
      · simp only [c1, ne_eq, not_true_eq_false, if_false, c2f, c3, Bool.false_eq_true]
        exact h3 c1 c2f c3
  · simp only [ne_eq, c1, not_false_eq_true, if_true]
    exact h1 c1

theorem updateTracking_mOrder (g : GeneratorImpl) (this : GeneratorEquation) :
    (updateTracking g this).mOrder = this.mOrder := by
  rfl

theorem check_mEquations (hEq : Variable → Variable → Bool) (g : GeneratorImpl) (self : Nat)
    (c : Counters) : (check hEq g self c).1.mEquations = g.mEquations := by
  apply check_elim hEq g self c (fun r => r.1.mEquations = g.mEquations) <;> intros <;> rfl

theorem check_true_unordered (hEq : Variable → Variable → Bool) (g : GeneratorImpl) (self : Nat)
    (c : Counters) (h : (check hEq g self c).2.2 = true) :
    (g.equation self).mOrder = MAX_SIZE_T := by
  revert h
  apply check_elim hEq g self c (fun r => r.2.2 = true → (g.equation self).mOrder = MAX_SIZE_T)
  all_goals intros
  all_goals first | assumption | simp_all

theorem equation_of_not_lt (g : GeneratorImpl) (e : Nat) (h : ¬ e < g.equationStore.length) :
    g.equation e = default := by
  unfold GeneratorImpl.equation
  rw [List.getD_eq_getElem?_getD, List.getElem?_eq_none (by omega)]
  rfl

theorem internalVariable_of_not_lt (g : GeneratorImpl) (p : Nat)
    (h : ¬ p < g.variableStore.length) : g.internalVariable p = default := by
  unfold GeneratorImpl.internalVariable
  rw [List.getD_eq_getElem?_getD, List.getElem?_eq_none (by omega)]
  rfl

theorem updateTracking_length_of_not_lt (g : GeneratorImpl) (e : Nat)
    (h : ¬ e < g.equationStore.length) :
    (updateTracking g (g.equation e)).mVariables.length
      + (updateTracking g (g.equation e)).mOdeVariables.length = 0 := by
  rw [equation_of_not_lt g e h]
  rfl

theorem check_true_inRange (hEq : Variable → Variable → Bool) (g : GeneratorImpl) (self : Nat)
    (c : Counters) (h : (check hEq g self c).2.2 = true) :
    self < g.equationStore.length := by
  revert h
  apply check_elim hEq g self c (fun r => r.2.2 = true → self < g.equationStore.length)
  · intro _ h; exact absurd h (by simp)
  · intro _ _ h; exact absurd h (by simp)
  · intro _ _ _ h; exact absurd h (by simp)
  · intro _ _ _ _ h; exact absurd h (by simp)
  · intro _ _ c3 _ _
    by_contra hlt
    rw [updateTracking_length_of_not_lt g self hlt] at c3
    exact absurd c3 (by decide)

theorem check_result_iff (hEq : Variable → Variable → Bool) (g : GeneratorImpl) (self : Nat)
    (c : Counters) :
    (check hEq g self c).2.2 = true → check hEq g self c = checkResolved hEq g self c := by
  apply check_elim hEq g self c (fun r => r.2.2 = true → r = checkResolved hEq g self c)
  · intro _ h; exact absurd h (by simp)
  · intro _ _ h; exact absurd h (by simp)
  · intro _ _ _ h; exact absurd h (by simp)
  · intro _ _ _ _ h; exact absurd h (by simp)
  · intro _ _ _ _ _; rfl

theorem check_mOrder (hEq : Variable → Variable → Bool) (g : GeneratorImpl) (self e : Nat)
    (c : Counters) :
    ((check hEq g self c).1.equation e).mOrder
      = if e = self ∧ (check hEq g self c).2.2 = true then sizeIncr c.equationOrder
        else (g.equation e).mOrder := by
  apply check_elim hEq g self c (fun r => (r.1.equation e).mOrder
      = if e = self ∧ r.2.2 = true then sizeIncr c.equationOrder else (g.equation e).mOrder)
  · intro _; simp
  · intro _ _; simp
  · intro _ _ _
    simp only [GeneratorImpl.equation_setEquation, Bool.false_eq_true, and_false, if_false]
    split_ifs with h
    · rw [updateTracking_mOrder, h.1]
    · rfl
  · intro _ _ _ _
    simp only [GeneratorImpl.equation_setEquation, Bool.false_eq_true, and_false, if_false]
    split_ifs with h
    · rw [updateTracking_mOrder, h.1]
    · rfl
  · intro _ _ c3 _
    have hlt : self < g.equationStore.length := by
      by_contra hlt
      rw [updateTracking_length_of_not_lt g self hlt] at c3
      exact absurd c3 (by decide)
    simp only [checkResolved, GeneratorImpl.equation_setEquation, and_true]
    by_cases h : e = self
    · subst h
      simp [nextCounters, GeneratorImpl.setInternalVariable, hlt]
      split_ifs <;> rfl
    · have h' : ¬ self = e := fun h2 => h h2.symm
      simp [h, h']

theorem check_equationOrder (hEq : Variable → Variable → Bool) (g : GeneratorImpl) (self : Nat)
    (c : Counters) :
    (check hEq g self c).2.1.equationOrder
      = if (check hEq g self c).2.2 = true then sizeIncr c.equationOrder
        else c.equationOrder := by
  apply check_elim hEq g self c (fun r => r.2.1.equationOrder
      = if r.2.2 = true then sizeIncr c.equationOrder else c.equationOrder)
  · intro _; simp
  · intro _ _; simp
  · intro _ _ _; simp
  · intro _ _ _ _; simp
  · intro _ _ _ _
    simp only [checkResolved, nextCounters, if_true]
    split_ifs <;> rfl

theorem countP_succ_le_of_imp {α : Type} (p q : α → Bool) :
    ∀ (l : List α), (∀ x ∈ l, q x = true → p x = true) →
      (∃ x ∈ l, p x = true ∧ q x = false) → l.countP q + 1 ≤ l.countP p
  | [], _, h => by obtain ⟨x, hx, _⟩ := h; simp at hx
  | a :: l, himp, h => by
    obtain ⟨x, hx, hpx, hqx⟩ := h
    have himp' : ∀ x ∈ l, q x = true → p x = true := fun y hy => himp y (List.mem_cons_of_mem _ hy)
    have hmono : l.countP q ≤ l.countP p := List.countP_mono_left himp'
    rw [List.countP_cons, List.countP_cons]
    rcases List.mem_cons.1 hx with rfl | hxl
    · simp only [hpx, hqx, if_true, Bool.false_eq_true, if_false]
      omega
    · have ih := countP_succ_le_of_imp p q l himp' ⟨x, hxl, hpx, hqx⟩
      by_cases hqa : q a = true
      · have hpa := himp a (List.mem_cons_self _ _) hqa
        simp only [hqa, hpa, if_true]
        omega
      · have hqa' : q a = false := by simpa using hqa
        simp only [hqa', Bool.false_eq_true, if_false]
        split_ifs <;> omega

theorem sizeIncr_le (x : Nat) : sizeIncr x ≤ MAX_SIZE_T := by
  unfold sizeIncr MAX_SIZE_T; omega

theorem check_orderRoom (hEq : Variable → Variable → Bool) (g : GeneratorImpl) (self : Nat)
    (c : Counters) (hself : self ∈ g.mEquations) (h : OrderRoom g c) :
    OrderRoom (check hEq g self c).1 (check hEq g self c).2.1
    ∧ unorderedCount (check hEq g self c).1 ≤ unorderedCount g
    ∧ ((check hEq g self c).2.2 = true →
        unorderedCount (check hEq g self c).1 < unorderedCount g) := by
  by_cases hr : (check hEq g self c).2.2 = true
  · have hun := check_true_unordered hEq g self c hr
    have hpos : 1 ≤ unorderedCount g := by
      unfold unorderedCount
      exact List.countP_pos_iff.2 ⟨self, hself, by simpa using hun⟩
    have hk : handedOut c.equationOrder < MAX_SIZE_T := by have := h.2; omega
    have hinc := sizeIncr_eq_handedOut c.equationOrder hk h.1
    have hlt : unorderedCount (check hEq g self c).1 + 1 ≤ unorderedCount g := by
      unfold unorderedCount
      rw [check_mEquations]
      apply countP_succ_le_of_imp
      · intro x _ hx
        simp only [decide_eq_true_eq] at hx ⊢
        rw [check_mOrder] at hx
        split_ifs at hx with h1
        · rw [hinc] at hx; omega
        · exact hx
      · refine ⟨self, hself, by simpa using hun, ?_⟩
        simp only [decide_eq_false_iff_not]
        rw [check_mOrder]
        simp only [hr, and_self, if_true]
        rw [hinc]; omega
    refine ⟨⟨?_, ?_⟩, by omega, fun _ => by omega⟩
    · rw [check_equationOrder]; simp only [hr, if_true]; exact sizeIncr_le _
    · rw [check_equationOrder]; simp only [hr, if_true]
      rw [hinc]
      have hh : handedOut (handedOut c.equationOrder) = handedOut c.equationOrder + 1 := by
        have hne : handedOut c.equationOrder ≠ MAX_SIZE_T := by omega
        generalize handedOut c.equationOrder = k at hne ⊢
        unfold handedOut
        rw [if_neg hne]
      have h2 := h.2
      omega
  · have heq : unorderedCount (check hEq g self c).1 = unorderedCount g := by
      unfold unorderedCount
      rw [check_mEquations]
      congr 1
      funext x
      rw [check_mOrder]
      simp [hr]
    refine ⟨⟨?_, ?_⟩, by omega, fun h' => absurd h' hr⟩
    · rw [check_equationOrder]; simp only [hr]; exact h.1
    · rw [check_equationOrder, heq]; simp only [hr]; exact h.2

theorem checkEquations_orderRoom (hEq : Variable → Variable → Bool) :
    ∀ (es : List Nat) (g : GeneratorImpl) (c : Counters) (r : Bool),
      (∀ e ∈ es, e ∈ g.mEquations) → OrderRoom g c →
      OrderRoom (checkEquations hEq es g c r).1 (checkEquations hEq es g c r).2.1
      ∧ (checkEquations hEq es g c r).1.mEquations = g.mEquations
      ∧ unorderedCount (checkEquations hEq es g c r).1 ≤ unorderedCount g
      ∧ ((checkEquations hEq es g c r).2.2 = true →
          r = true ∨ unorderedCount (checkEquations hEq es g c r).1 < unorderedCount g)
  | [], g, c, r, _, h => ⟨h, rfl, le_refl _, fun hr => Or.inl hr⟩
  | e :: es, g, c, r, hmem, h => by
    have h1 := check_orderRoom hEq g e c (hmem e (List.mem_cons_self _ _)) h
    have hmem' : ∀ x ∈ es, x ∈ (check hEq g e c).1.mEquations := by
      intro x hx; rw [check_mEquations]; exact hmem x (List.mem_cons_of_mem _ hx)
    have ih := checkEquations_orderRoom hEq es (check hEq g e c).1 (check hEq g e c).2.1
      ((check hEq g e c).2.2 || r) hmem' h1.1
    simp only [checkEquations]
    refine ⟨ih.1, ?_, ?_, ?_⟩
    · rw [ih.2.1, check_mEquations]
    · exact le_trans ih.2.2.1 h1.2.1
    · intro hr
      rcases ih.2.2.2 hr with h2 | h2
      · rcases (Bool.or_eq_true_iff.1 h2) with h3 | h3
        · right; exact lt_of_le_of_lt ih.2.2.1 (h1.2.2 h3)
        · left; exact h3
      · right; exact lt_of_lt_of_le h2 h1.2.1

theorem resolveEquations_terminates (hEq : Variable → Variable → Bool) :
    ∀ (fuel : Nat) (g : GeneratorImpl) (c : Counters),
      OrderRoom g c → unorderedCount g < fuel →
      ∃ r, resolveEquations hEq fuel g c = some r
  | 0, _, _, _, h => absurd h (Nat.not_lt_zero _)
  | fuel + 1, g, c, hroom, hfuel => by
    have hs := checkEquations_orderRoom hEq g.mEquations g c false (fun _ h => h) hroom
    unfold resolveEquations
    by_cases hr : (checkEquations hEq g.mEquations g c false).2.2 = true
    · simp only [hr, Bool.not_true, Bool.false_eq_true, if_false]
      apply resolveEquations_terminates hEq fuel _ _ hs.1
      rcases hs.2.2.2 hr with h | h
      · exact absurd h (by simp)
      · omega
    · simp only [Bool.not_eq_true] at hr
      simp [hr]

/-! ## Members that the resolution does not write, and the type of the model -/

theorem SameResults.reflSame (g : GeneratorImpl) : SameResults g g :=
  ⟨rfl, rfl, rfl, rfl, rfl, rfl, rfl⟩

theorem SameResults.transSame {g g' g'' : GeneratorImpl} (h1 : SameResults g g')
    (h2 : SameResults g' g'') : SameResults g g'' := by
  obtain ⟨a1, a2, a3, a4, a5, a6, a7⟩ := h1
  obtain ⟨b1, b2, b3, b4, b5, b6, b7⟩ := h2
  exact ⟨b1.trans a1, b2.trans a2, b3.trans a3, b4.trans a4, b5.trans a5, b6.trans a6,
    b7.trans a7⟩

theorem check_sameResults (hEq : Variable → Variable → Bool) (g : GeneratorImpl) (self : Nat)
    (c : Counters) : SameResults g (check hEq g self c).1 := by
  apply check_elim hEq g self c (fun r => SameResults g r.1)
  all_goals intros
  all_goals exact ⟨rfl, rfl, rfl, rfl, rfl, rfl, rfl⟩

theorem checkEquations_sameResults (hEq : Variable → Variable → Bool) :
    ∀ (es : List Nat) (g : GeneratorImpl) (c : Counters) (r : Bool),
      SameResults g (checkEquations hEq es g c r).1
  | [], g, _, _ => SameResults.reflSame g
  | e :: es, g, c, _ =>
    (check_sameResults hEq g e c).transSame
      (checkEquations_sameResults hEq es (check hEq g e c).1 (check hEq g e c).2.1 _)

theorem resolveEquations_sameResults (hEq : Variable → Variable → Bool) :
    ∀ (fuel : Nat) (g : GeneratorImpl) (c : Counters) (r : GeneratorImpl × Counters),
      resolveEquations hEq fuel g c = some r → SameResults g r.1
  | 0, _, _, _, h => by simp [resolveEquations] at h
  | fuel + 1, g, c, r, h => by
    unfold resolveEquations at h
    have hs := checkEquations_sameResults hEq g.mEquations g c false
    dsimp only at h
    split_ifs at h with hr
    · simp only [Option.some.injEq] at h
      subst h
      exact hs
    · exact hs.transSame (resolveEquations_sameResults hEq fuel _ _ r h)

theorem indexConstants_sameResults :
    ∀ (ps : List Nat) (g : GeneratorImpl) (vi : Nat),
      SameResults g (indexConstants ps g vi).1
      ∧ (indexConstants ps g vi).1.equationStore = g.equationStore
  | [], g, _ => ⟨SameResults.reflSame g, rfl⟩
  | p :: ps, g, vi => by
    unfold indexConstants
    split_ifs
    · have ih := indexConstants_sameResults ps
        (g.setInternalVariable p { g.internalVariable p with mIndex := sizeIncr vi }) (sizeIncr vi)
      exact ⟨SameResults.transSame ⟨rfl, rfl, rfl, rfl, rfl, rfl, rfl⟩ ih.1, ih.2⟩
    · exact indexConstants_sameResults ps g vi

theorem reportInvalidVariables_frame :
    ∀ (ps : List Nat) (g : GeneratorImpl),
      (reportInvalidVariables ps g).mModelType = g.mModelType
      ∧ (reportInvalidVariables ps g).mInternalVariables = g.mInternalVariables
      ∧ (reportInvalidVariables ps g).mEquations = g.mEquations
      ∧ (reportInvalidVariables ps g).mVoi = g.mVoi
      ∧ (reportInvalidVariables ps g).variableStore = g.variableStore
      ∧ (reportInvalidVariables ps g).equationStore = g.equationStore
  | [], _ => ⟨rfl, rfl, rfl, rfl, rfl, rfl⟩
  | p :: ps, g => by
    unfold reportInvalidVariables
    split_ifs
    · exact reportInvalidVariables_frame ps _
    · exact reportInvalidVariables_frame ps g

theorem determineModelType_frame (g : GeneratorImpl) :
    (determineModelType g).mInternalVariables = g.mInternalVariables
    ∧ (determineModelType g).mEquations = g.mEquations
    ∧ (determineModelType g).mVoi = g.mVoi
    ∧ (determineModelType g).variableStore = g.variableStore
    ∧ (determineModelType g).equationStore = g.equationStore := by
  unfold determineModelType
  split_ifs <;> exact ⟨rfl, rfl, rfl, rfl, rfl⟩

theorem hasUnderconstrainedVariables_iff (g : GeneratorImpl) :
    hasUnderconstrainedVariables g = true ↔ SomeUnderconstrained g := by
  simp [hasUnderconstrainedVariables, SomeUnderconstrained, List.any_eq_true]

theorem hasOverconstrainedVariables_iff (g : GeneratorImpl) :
    hasOverconstrainedVariables g = true ↔ SomeOverconstrained g := by
  simp [hasOverconstrainedVariables, SomeOverconstrained, List.any_eq_true]

theorem determineModelType_spec (g : GeneratorImpl) (h : g.mModelType = ModelType.UNKNOWN) :
    ModelTypeFromTags g (determineModelType g).mModelType := by
  unfold ModelTypeFromTags determineModelType
  rw [← hasUnderconstrainedVariables_iff, ← hasOverconstrainedVariables_iff]
  by_cases h1 : hasUnderconstrainedVariables g = true <;>
  by_cases h2 : hasOverconstrainedVariables g = true <;>
  by_cases h3 : g.mVoi = none <;>
  by_cases h4 : g.mInternalVariables = [] <;>
  simp [h1, h2, h3, h4, h]

/-! ## The pre-pass leaves the equations, the indices and the orders alone -/

theorem PrePassFrame.reflPre (g : GeneratorImpl) : PrePassFrame g g :=
  ⟨rfl, rfl, rfl, rfl, rfl, ⟨[], by simp⟩, fun _ => ⟨rfl, rfl, Or.inl rfl⟩⟩

theorem PrePassFrame.transPre {g g' g'' : GeneratorImpl} (h1 : PrePassFrame g g')
    (h2 : PrePassFrame g' g'') : PrePassFrame g g'' := by
  obtain ⟨a1, a2, a3, a4, a5, ⟨x, a6⟩, a7⟩ := h1
  obtain ⟨b1, b2, b3, b4, b5, ⟨y, b6⟩, b7⟩ := h2
  refine ⟨b1.trans a1, b2.trans a2, b3.trans a3, b4.trans a4, b5.trans a5,
    ⟨x ++ y, by rw [b6, a6, List.append_assoc]⟩, fun p => ?_⟩
  obtain ⟨c1, c2, c3⟩ := a7 p
  obtain ⟨d1, d2, d3⟩ := b7 p
  refine ⟨d1.trans c1, d2.trans c2, ?_⟩
  rcases d3 with d3 | d3
  · rw [d3]; exact c3
  · exact Or.inr d3

theorem getD_append_singleton {α : Type} (l : List α) (x d : α) (p : Nat) :
    (l ++ [x]).getD p d
      = if p < l.length then l.getD p d else if p = l.length then x else d := by
  simp only [List.getD_eq_getElem?_getD]
  split_ifs with h1 h2
  · rw [List.getElem?_append_left h1]
  · subst h2
    rw [List.getElem?_append_right (le_refl _)]
    simp
  · rw [List.getElem?_eq_none (by simp; omega)]
    rfl

theorem generatorVariable_frame (m : Model) (g : GeneratorImpl) (var : Variable) :
    PrePassFrame g (generatorVariable m g var).1
    ∧ (generatorVariable m g var).1.mVoi = g.mVoi := by
  unfold generatorVariable
  split
  · exact ⟨PrePassFrame.reflPre g, rfl⟩
  · refine ⟨⟨rfl, rfl, rfl, rfl, rfl, ⟨[], by simp⟩, fun p => ?_⟩, rfl⟩
    simp only [GeneratorImpl.internalVariable, getD_append_singleton]
    split_ifs with h1 h2
    · exact ⟨rfl, rfl, Or.inl rfl⟩
    · subst h2
      rw [List.getD_eq_getElem?_getD, List.getElem?_eq_none (le_refl _)]
      unfold GeneratorInternalVariable.setVariable
      split_ifs
      · exact ⟨rfl, rfl, Or.inr (Or.inr (Or.inr (Or.inr rfl)))⟩
      · exact ⟨rfl, rfl, Or.inl rfl⟩
    · rw [List.getD_eq_getElem?_getD, List.getElem?_eq_none (by omega)]
      exact ⟨rfl, rfl, Or.inl rfl⟩

theorem setType_frame (g : GeneratorImpl) (p : Nat) (x : GeneratorInternalVariable)
    (h1 : x.mIndex = (g.internalVariable p).mIndex)
    (h2 : x.mEquation = (g.internalVariable p).mEquation)
    (h3 : x.mType = (g.internalVariable p).mType
        ∨ x.mType = GeneratorInternalVariableType.VARIABLE_OF_INTEGRATION
        ∨ x.mType = GeneratorInternalVariableType.SHOULD_BE_STATE
        ∨ x.mType = GeneratorInternalVariableType.STATE
        ∨ x.mType = GeneratorInternalVariableType.CONSTANT) :
    PrePassFrame g (g.setInternalVariable p x) := by
  refine ⟨rfl, rfl, rfl, rfl, rfl, ⟨[], by simp [GeneratorImpl.setInternalVariable]⟩, fun q => ?_⟩
  rw [GeneratorImpl.internalVariable_setInternalVariable]
  split_ifs with h
  · obtain ⟨rfl, _⟩ := h
    exact ⟨h1, h2, h3⟩
  · exact ⟨rfl, rfl, Or.inl rfl⟩

theorem addError_frame (g : GeneratorImpl) (d : String) : PrePassFrame g (g.addError d) :=
  ⟨rfl, rfl, rfl, rfl, rfl, ⟨[d], rfl⟩, fun _ => ⟨rfl, rfl, Or.inl rfl⟩⟩

theorem setVoi_frame (g : GeneratorImpl) (v : Option GeneratorVariable) :
    PrePassFrame g { g with mVoi := v } :=
  ⟨rfl, rfl, rfl, rfl, rfl, ⟨[], by simp⟩, fun _ => ⟨rfl, rfl, Or.inl rfl⟩⟩

theorem processVoi_frame (m : Model) (g : GeneratorImpl) (var : Variable) :
    PrePassFrame g (processVoi m g var) := by
  unfold processVoi
  have h1 := (generatorVariable_frame m g var).1
  have h2 := setType_frame (generatorVariable m g var).1 (generatorVariable m g var).2
    ((generatorVariable m g var).1.internalVariable (generatorVariable m g var).2).makeVoi
    rfl rfl (Or.inr (Or.inl rfl))
  have h12 := h1.transPre h2
  dsimp only
  split
  · split_ifs
    · exact h12.transPre (addError_frame _ _)
    · split
      · exact h12.transPre (setVoi_frame _ _)
      · exact h12
  · split_ifs
    · exact h12.transPre (addError_frame _ _)
    · exact h12

theorem makeState_frame (m : Model) (g : GeneratorImpl) (var : Variable) :
    PrePassFrame g ((generatorVariable m g var).1.setInternalVariable (generatorVariable m g var).2
      ((generatorVariable m g var).1.internalVariable (generatorVariable m g var).2).makeState) := by
  refine (generatorVariable_frame m g var).1.transPre (setType_frame _ _ _ ?_ ?_ ?_)
  · unfold GeneratorInternalVariable.makeState; split_ifs <;> rfl
  · unfold GeneratorInternalVariable.makeState; split_ifs <;> rfl
  · unfold GeneratorInternalVariable.makeState
    split_ifs
    · exact Or.inr (Or.inr (Or.inl rfl))
    · exact Or.inr (Or.inr (Or.inr (Or.inl rfl)))
    · exact Or.inl rfl

theorem processEquationAst_frame (m : Model) (isOne : String → Bool) :
    ∀ (ast astParent astGrandParent astGreatGrandParent : GeneratorEquationAst)
      (g g' : GeneratorImpl),
      processEquationAst m isOne ast astParent astGrandParent astGreatGrandParent g = some g' →
      PrePassFrame g g'
  | GeneratorEquationAst.null, _, _, _, _, _, h => by simp [processEquationAst] at h
  | GeneratorEquationAst.node t value var l r, p, gp, ggp, g, g', h => by
    simp only [processEquationAst, Option.bind_eq_some] at h
    obtain ⟨ga, ha, gb, hb, gc, hc, gd, hd, he⟩ := h
    have fa : PrePassFrame g ga := by
      split_ifs at ha
      · simp only [Option.map_eq_some'] at ha
        obtain ⟨v, _, rfl⟩ := ha
        exact processVoi_frame m g v
      · simp only [Option.some.injEq] at ha; subst ha; exact PrePassFrame.reflPre _
    have fb : PrePassFrame ga gb := by
      split_ifs at hb
      · simp only [Option.map_eq_some'] at hb
        obtain ⟨v, _, rfl⟩ := hb
        exact addError_frame _ _
      · simp only [Option.some.injEq] at hb; subst hb; exact PrePassFrame.reflPre _
      · simp only [Option.some.injEq] at hb; subst hb; exact PrePassFrame.reflPre _
    have fc : PrePassFrame gb gc := by
      split_ifs at hc
      · simp only [Option.map_eq_some'] at hc
        obtain ⟨v, _, rfl⟩ := hc
        exact makeState_frame m gb v
      · simp only [Option.some.injEq] at hc; subst hc; exact PrePassFrame.reflPre _
    have fd : PrePassFrame gc gd := by
      split_ifs at hd
      · exact processEquationAst_frame m isOne l _ _ _ gc gd hd
      · simp only [Option.some.injEq] at hd; subst hd; exact PrePassFrame.reflPre _
    have fe : PrePassFrame gd g' := by
      split_ifs at he
      · exact processEquationAst_frame m isOne r _ _ _ gd g' he
      · simp only [Option.some.injEq] at he; subst he; exact PrePassFrame.reflPre _
    exact fa.transPre (fb.transPre (fc.transPre (fd.transPre fe)))

theorem processEquationAsts_frame (m : Model) (isOne : String → Bool) :
    ∀ (es : List Nat) (g g' : GeneratorImpl),
      processEquationAsts m isOne es g = some g' → PrePassFrame g g'
  | [], g, g', h => by
    simp only [processEquationAsts, Option.some.injEq] at h; subst h; exact PrePassFrame.reflPre _
  | e :: es, g, g', h => by
    simp only [processEquationAsts, Option.bind_eq_some] at h
    obtain ⟨ga, ha, hb⟩ := h
    exact (processEquationAst_frame m isOne _ _ _ _ g ga ha).transPre
      (processEquationAsts_frame m isOne es ga g' hb)

theorem prePass_frame (m : Model) (isOne : String → Bool) (g g' : GeneratorImpl)
    (h : prePass m isOne g = some g') : PrePassFrame g g' := by
  unfold prePass at h
  split_ifs at h
  · exact processEquationAsts_frame m isOne _ g g' h
  · simp only [Option.some.injEq] at h; subst h; exact PrePassFrame.reflPre _

/-! ## The scaling of the trees leaves the analysis alone -/

theorem ScaleFrame.reflScale (g : GeneratorImpl) : ScaleFrame g g :=
  ⟨rfl, rfl, rfl, rfl, rfl, rfl, rfl, fun _ => rfl⟩

theorem ScaleFrame.transScale {g g' g'' : GeneratorImpl} (h1 : ScaleFrame g g')
    (h2 : ScaleFrame g' g'') : ScaleFrame g g'' := by
  obtain ⟨a1, a2, a3, a4, a5, a6, a7, a8⟩ := h1
  obtain ⟨b1, b2, b3, b4, b5, b6, b7, b8⟩ := h2
  refine ⟨b1.trans a1, b2.trans a2, b3.trans a3, b4.trans a4, b5.trans a5, b6.trans a6,
    b7.trans a7, fun e => ?_⟩
  have h := a8 e
  have h' := b8 e
  rw [← h, ← h']

theorem generatorVariable_scaleFrame (m : Model) (g : GeneratorImpl) (var : Variable) :
    ScaleFrame g (generatorVariable m g var).1 := by
  unfold generatorVariable
  split
  · exact ScaleFrame.reflScale g
  · exact ⟨rfl, rfl, rfl, rfl, rfl, rfl, rfl, fun _ => rfl⟩

theorem scalingFactor_scaleFrame {F : Type} (m : Model) (num : Numerics F) (g : GeneratorImpl)
    (var : Option Variable) (r : F × GeneratorImpl) (h : scalingFactor m num g var = some r) :
    ScaleFrame g r.2 := by
  unfold scalingFactor at h
  simp only [Option.bind_eq_some, Option.map_eq_some'] at h
  obtain ⟨v, _, w, _, rfl⟩ := h
  exact generatorVariable_scaleFrame m g v

theorem scaleRate_scaleFrame {F : Type} (m : Model) (num : Numerics F) (astParent : Nat)
    (mem : AstMemory) (g : GeneratorImpl) (r : AstMemory × GeneratorImpl)
    (h : scaleRate m num astParent mem g = some r) : ScaleFrame g r.2 := by
  unfold scaleRate at h
  simp only [Option.bind_eq_some] at h
  obtain ⟨bvar, _, voi, _, fg, hfg, h⟩ := h
  have hf := scalingFactor_scaleFrame m num g _ fg hfg
  split_ifs at h
  · simp only [Option.bind_eq_some] at h
    obtain ⟨gp, _, h⟩ := h
    split_ifs at h
    · simp only [Option.map_eq_some'] at h
      obtain ⟨rhs, _, h⟩ := h
      subst h; exact hf
    · simp only [Option.some.injEq] at h
      subst h; exact hf
  · simp only [Option.some.injEq] at h
    subst h; exact hf

theorem scaleVariable_scaleFrame {F : Type} (m : Model) (num : Numerics F) (ast astParent : Nat)
    (mem : AstMemory) (g : GeneratorImpl) (r : AstMemory × GeneratorImpl)
    (h : scaleVariable m num ast astParent mem g = some r) : ScaleFrame g r.2 := by
  unfold scaleVariable at h
  simp only [Option.map_eq_some'] at h
  obtain ⟨fg, hfg, h⟩ := h
  have hf := scalingFactor_scaleFrame m num g _ fg hfg
  split_ifs at h <;> (subst h; exact hf)

theorem scaleEquationAst_scaleFrame {F : Type} (m : Model) (num : Numerics F) :
    ∀ (fuel ast : Nat) (mem : AstMemory) (g : GeneratorImpl) (r : AstMemory × GeneratorImpl),
      scaleEquationAst m num fuel ast mem g = some r → ScaleFrame g r.2
  | 0, _, _, _, _, h => by simp [scaleEquationAst] at h
  | fuel + 1, ast, mem, g, r, h => by
    simp only [scaleEquationAst, Option.bind_eq_some] at h
    obtain ⟨s1, h1, s2, h2, h3⟩ := h
    have f1 : ScaleFrame g s1.2 := by
      split at h1
      · exact scaleEquationAst_scaleFrame m num fuel _ _ _ _ h1
      · simp only [Option.some.injEq] at h1; subst h1; exact ScaleFrame.reflScale _
    have f2 : ScaleFrame s1.2 s2.2 := by
      split at h2
      · exact scaleEquationAst_scaleFrame m num fuel _ _ _ _ h2
      · simp only [Option.some.injEq] at h2; subst h2; exact ScaleFrame.reflScale _
    have f3 : ScaleFrame s2.2 r.2 := by
      split_ifs at h3
      · simp only [Option.bind_eq_some] at h3
        obtain ⟨ap, _, h3⟩ := h3
        split_ifs at h3
        · exact scaleRate_scaleFrame m num _ _ _ _ h3
        · exact scaleVariable_scaleFrame m num _ _ _ _ _ h3
        · simp only [Option.some.injEq] at h3; subst h3; exact ScaleFrame.reflScale _
      · simp only [Option.some.injEq] at h3; subst h3; exact ScaleFrame.reflScale _
    exact f1.transScale (f2.transScale f3)

theorem scaleEquation_scaleFrame {F : Type} (m : Model) (num : Numerics F)
    (ast : GeneratorEquationAst) (g : GeneratorImpl) (r : GeneratorEquationAst × GeneratorImpl)
    (h : scaleEquation m num ast g = some r) : ScaleFrame g r.2 := by
  unfold scaleEquation at h
  simp only [Option.bind_eq_some, Option.map_eq_some'] at h
  obtain ⟨root, _, s, hs, t, _, rfl⟩ := h
  exact scaleEquationAst_scaleFrame m num _ _ _ _ _ hs

theorem setAst_scaleFrame (g : GeneratorImpl) (e : Nat) (t : GeneratorEquationAst) :
    ScaleFrame g (g.setEquation e { g.equation e with mAst := t }) := by
  refine ⟨rfl, rfl, rfl, rfl, rfl, rfl, by simp [GeneratorImpl.setEquation], fun x => ?_⟩
  rw [GeneratorImpl.equation_setEquation]
  split_ifs with h
  · obtain ⟨rfl, _⟩ := h; rfl
  · rfl

theorem scaleEquations_scaleFrame {F : Type} (m : Model) (num : Numerics F) :
    ∀ (es : List Nat) (g g' : GeneratorImpl),
      scaleEquations m num es g = some g' → ScaleFrame g g'
  | [], g, g', h => by
    simp only [scaleEquations, Option.some.injEq] at h; subst h; exact ScaleFrame.reflScale _
  | e :: es, g, g', h => by
    simp only [scaleEquations, Option.bind_eq_some] at h
    obtain ⟨r, hr, h⟩ := h
    exact (scaleEquation_scaleFrame m num _ g r hr).transScale
      ((setAst_scaleFrame r.2 e r.1).transScale (scaleEquations_scaleFrame m num es _ g' h))

theorem publishVariables_frame :
    ∀ (ps : List Nat) (g : GeneratorImpl),
      (publishVariables ps g).mModelType = g.mModelType
      ∧ (publishVariables ps g).mEquations = g.mEquations
      ∧ (publishVariables ps g).mInternalVariables = g.mInternalVariables
      ∧ (publishVariables ps g).mVoi = g.mVoi
      ∧ (publishVariables ps g).variableStore = g.variableStore
      ∧ (publishVariables ps g).equationStore = g.equationStore
  | [], _ => ⟨rfl, rfl, rfl, rfl, rfl, rfl⟩
  | p :: ps, g => by
    unfold publishVariables
    dsimp only
    split
    · exact publishVariables_frame ps g
    · split_ifs
      · exact publishVariables_frame ps _
      · exact publishVariables_frame ps _

theorem finaliseModel_modelType {F : Type} (m : Model) (num : Numerics F) (g g' : GeneratorImpl)
    (h : finaliseModel m num g = some g') : g'.mModelType = g.mModelType := by
  unfold finaliseModel at h
  split_ifs at h
  · simp only [Option.bind_eq_some, Option.map_eq_some'] at h
    obtain ⟨g1, h1, g2, h2, rfl⟩ := h
    have f1 := scaleEquations_scaleFrame m num _ g g1 h1
    unfold sortEquations at h2
    split_ifs at h2
    simp only [Option.some.injEq] at h2
    subst h2
    rw [(publishVariables_frame _ _).1]
    exact f1.1
  · simp only [Option.some.injEq] at h; subst h; rfl

/-! ## C3: the type of the model -/

theorem enterResolution_frame (g : GeneratorImpl) :
    (enterResolution g).1.mModelType = g.mModelType
    ∧ (enterResolution g).1.mEquations = g.mEquations
    ∧ (enterResolution g).1.mVoi = g.mVoi
    ∧ (enterResolution g).1.equationStore = g.equationStore
    ∧ (enterResolution g).2.equationOrder = MAX_SIZE_T := by
  unfold enterResolution
  dsimp only
  have h := indexConstants_sameResults
    (listSort (compareVariablesByName g) g.mInternalVariables)
    { g with mInternalVariables := listSort (compareVariablesByName g) g.mInternalVariables }
    MAX_SIZE_T
  obtain ⟨⟨a1, _, a3, a4, _, _, _⟩, b⟩ := h
  exact ⟨a1, a3, a4, b, rfl⟩

theorem unorderedCount_le (g : GeneratorImpl) : unorderedCount g ≤ g.mEquations.length :=
  List.countP_le_length _

theorem classifyModel_eq_some (m : Model) (g : GeneratorImpl) (herr : g.errorCount = 0)
    (hlen : g.mEquations.length ≤ MAX_SIZE_T) :
    ∃ r, resolveEquations m.hasEquivalentVariable (g.mEquations.length + 1)
          (enterResolution g).1 (enterResolution g).2 = some r
      ∧ classifyModel m g
          = some (determineModelType (reportInvalidVariables r.1.mInternalVariables r.1)) := by
  have hf := enterResolution_frame g
  have hroom : OrderRoom (enterResolution g).1 (enterResolution g).2 := by
    refine ⟨by rw [hf.2.2.2.2], ?_⟩
    rw [hf.2.2.2.2]
    have h1 := unorderedCount_le (enterResolution g).1
    rw [hf.2.1] at h1
    have : handedOut MAX_SIZE_T = 0 := rfl
    omega
  have hfuel : unorderedCount (enterResolution g).1 < g.mEquations.length + 1 := by
    have h1 := unorderedCount_le (enterResolution g).1
    rw [hf.2.1] at h1
    omega
  obtain ⟨r, hr⟩ := resolveEquations_terminates m.hasEquivalentVariable _ _ _ hroom hfuel
  refine ⟨r, hr, ?_⟩
  unfold classifyModel
  simp only [herr, if_true]
  rw [hr]
  rfl

/-- C3: when no structural issue has been recorded, the analysis of
`processModel` ends and sets the type of the model from the final tags:
`UNSUITABLY_CONSTRAINED` when a record is `UNKNOWN` or `SHOULD_BE_STATE` and a
record is `OVERCONSTRAINED`, `UNDERCONSTRAINED` when only the former holds,
`OVERCONSTRAINED` when only the latter holds, otherwise `ODE` when a variable
of integration was found, `ALGEBRAIC` when none was found and there is a
record, and `UNKNOWN` when there is no record; `processModel` returns with
this type whenever it returns. -/
theorem processModel_modelType_from_tags {F : Type} (m : Model) (num : Numerics F)
    (g g1 : GeneratorImpl)
    (hpre : prePass m num.isOne (resetResults g) = some g1)
    (herr : g1.errorCount = 0)
    (hlen : g.mEquations.length ≤ MAX_SIZE_T) :
    ∃ g2, analyseModel m num.isOne g = some g2
      ∧ ModelTypeFromTags g2 g2.mModelType
      ∧ ∀ g3, processModel m num g = some g3 → g3.mModelType = g2.mModelType := by
  have hpf := prePass_frame m num.isOne _ _ hpre
  have hlen1 : g1.mEquations.length ≤ MAX_SIZE_T := by rw [hpf.2.1]; exact hlen
  obtain ⟨r, hr, hc⟩ := classifyModel_eq_some m g1 herr hlen1
  have hana : analyseModel m num.isOne g
      = some (determineModelType (reportInvalidVariables r.1.mInternalVariables r.1)) := by
    unfold analyseModel
    rw [hpre]
    exact hc
  refine ⟨_, hana, ?_, ?_⟩
  · have hs := resolveEquations_sameResults _ _ _ _ r hr
    have hf := enterResolution_frame g1
    have hrep := reportInvalidVariables_frame r.1.mInternalVariables r.1
    have hunk : (reportInvalidVariables r.1.mInternalVariables r.1).mModelType
        = ModelType.UNKNOWN := by
      rw [hrep.1, hs.1, hf.1, hpf.1]; rfl
    have hd := determineModelType_spec _ hunk
    have hfr := determineModelType_frame (reportInvalidVariables r.1.mInternalVariables r.1)
    unfold ModelTypeFromTags SomeUnderconstrained SomeOverconstrained
      GeneratorImpl.internalVariable at hd ⊢
    rw [hfr.1, hfr.2.2.1, hfr.2.2.2.1]
    exact hd
  · intro g3 h3
    unfold processModel at h3
    rw [hana] at h3
    exact finaliseModel_modelType m num _ g3 h3

/-- C3, at the model of the test `dependentEqns`: the hypotheses hold and the
analysis ends with the type called for by the tags. -/
theorem processModel_modelType_from_tags_witness :
    (prePass DependentEqns.model DependentEqns.numerics.isOne
        (resetResults DependentEqns.generator) = some DependentEqns.prePassed
      ∧ DependentEqns.prePassed.errorCount = 0
      ∧ DependentEqns.generator.mEquations.length ≤ MAX_SIZE_T)
    ∧ ∃ g2, analyseModel DependentEqns.model DependentEqns.numerics.isOne
          DependentEqns.generator = some g2
        ∧ ModelTypeFromTags g2 g2.mModelType
        ∧ ∀ g3, processModel DependentEqns.model DependentEqns.numerics
            DependentEqns.generator = some g3 → g3.mModelType = g2.mModelType :=
  ⟨by decide,
    processModel_modelType_from_tags DependentEqns.model DependentEqns.numerics
      DependentEqns.generator DependentEqns.prePassed (by decide) (by decide) (by decide)⟩

/-! ## C5 and C6: structural issues and empty results -/


/-- C5: when at least one issue has been recorded once the components and the
trees have been processed, `processModel` returns with the type `INVALID`,
the equations are as they were (no order, kind or dependency is given), and
in every record the index and the equation are as they were, while its tag
is as it was or one of `VARIABLE_OF_INTEGRATION`, `SHOULD_BE_STATE`, `STATE`
and `CONSTANT` (no record gets a computed tag). -/
theorem processModel_invalid_of_issue {F : Type} (m : Model) (num : Numerics F)
    (g g1 : GeneratorImpl)
    (hpre : prePass m num.isOne (resetResults g) = some g1)
    (herr : g1.errorCount ≠ 0) :
    processModel m num g = some { g1 with mModelType := ModelType.INVALID }
    ∧ g1.equationStore = g.equationStore
    ∧ ∀ p, (g1.internalVariable p).mIndex = (g.internalVariable p).mIndex
        ∧ (g1.internalVariable p).mEquation = (g.internalVariable p).mEquation
        ∧ ((g1.internalVariable p).mType = (g.internalVariable p).mType
          ∨ (g1.internalVariable p).mType = GeneratorInternalVariableType.VARIABLE_OF_INTEGRATION
          ∨ (g1.internalVariable p).mType = GeneratorInternalVariableType.SHOULD_BE_STATE
          ∨ (g1.internalVariable p).mType = GeneratorInternalVariableType.STATE
          ∨ (g1.internalVariable p).mType = GeneratorInternalVariableType.CONSTANT) := by
  have hpf := prePass_frame m num.isOne _ _ hpre
  refine ⟨?_, hpf.2.2.1, hpf.2.2.2.2.2.2⟩
  unfold processModel analyseModel
  rw [hpre]
  simp only [Option.some_bind, classifyModel, herr, if_false]
  unfold finaliseModel
  simp

/-- C5, at the model of the test `initializedVariableOfIntegration`: the
pre-pass records an issue and `processModel` returns with the type
`INVALID`. -/
theorem processModel_invalid_of_issue_witness :
    (prePass InitializedVoi.model DependentEqns.numerics.isOne
        (resetResults InitializedVoi.generator) = some InitializedVoi.prePassed
      ∧ InitializedVoi.prePassed.errorCount ≠ 0)
    ∧ processModel InitializedVoi.model DependentEqns.numerics InitializedVoi.generator
        = some { InitializedVoi.prePassed with mModelType := ModelType.INVALID } :=
  ⟨by decide,
    (processModel_invalid_of_issue InitializedVoi.model DependentEqns.numerics
      InitializedVoi.generator InitializedVoi.prePassed (by decide) (by decide)).1⟩

/-- C6: whenever the type of the model is neither `ODE` nor `ALGEBRAIC`, every
generation query returns an empty result: `stateCount()` and
`variableCount()` are `0`, `voi()` is null, `state(i)` and `variable(i)` are
null for every index, and `interfaceCode()` and `implementationCode()` return
the empty string. -/
theorem queries_empty_of_invalid {F : Type} (p : GeneratorProfile) (m : Model)
    (num : Numerics F) (preamble body : String) (g : GeneratorImpl)
    (h1 : g.mModelType ≠ ModelType.ODE) (h2 : g.mModelType ≠ ModelType.ALGEBRAIC) :
    Generator.stateCount g = 0 ∧ Generator.variableCount g = 0 ∧ Generator.voi g = none
    ∧ (∀ i, Generator.state g i = none) ∧ (∀ i, Generator.variable g i = none)
    ∧ Generator.interfaceCode p g body = ""
    ∧ Generator.implementationCode p m num preamble g = some ("", g) := by
  have hv : hasValidModel g = false := by
    unfold hasValidModel
    simp [h1, h2]
  refine ⟨?_, ?_, ?_, ?_, ?_, ?_, ?_⟩
  · simp [Generator.stateCount, hv]
  · simp [Generator.variableCount, hv]
  · simp [Generator.voi, hv]
  · intro i; simp [Generator.state, hv]
  · intro i; simp [Generator.variable, hv]
  · simp [Generator.interfaceCode, hv]
  · unfold Generator.implementationCode
    simp [hv, bind, StateT.bind, get, getThe, MonadStateOf.get, StateT.get, pure, StateT.pure]

/-- C6, at the generator of the test `initializedVariableOfIntegration` once
`processModel` has returned. -/
theorem queries_empty_of_invalid_witness :
    ({ InitializedVoi.prePassed with mModelType := ModelType.INVALID }.mModelType
        ≠ ModelType.ODE
      ∧ { InitializedVoi.prePassed with mModelType := ModelType.INVALID }.mModelType
        ≠ ModelType.ALGEBRAIC)
    ∧ Generator.stateCount { InitializedVoi.prePassed with mModelType := ModelType.INVALID } = 0
    ∧ Generator.implementationCode {} InitializedVoi.model DependentEqns.numerics ""
        { InitializedVoi.prePassed with mModelType := ModelType.INVALID }
      = some ("", { InitializedVoi.prePassed with mModelType := ModelType.INVALID }) :=
  ⟨⟨by decide, by decide⟩,
    (queries_empty_of_invalid {} InitializedVoi.model DependentEqns.numerics "" ""
      { InitializedVoi.prePassed with mModelType := ModelType.INVALID }
      (by decide) (by decide)).1,
    (queries_empty_of_invalid {} InitializedVoi.model DependentEqns.numerics "" ""
      { InitializedVoi.prePassed with mModelType := ModelType.INVALID }
      (by decide) (by decide)).2.2.2.2.2.2⟩

/-! ## C4: the resolution loop terminates -/

/-- C4: the resolution loop of `processModel`, entered with `equationOrder`
at `MAX_SIZE_T`, is left after at most `E + 1` full scans of its `E`
equations (every scan uses one unit of fuel); `check` returns `true` only for
an equation that had no order, to which it gives the order
`++equationOrder` (an order unless the counter, a `size_t`, has reached
`MAX_SIZE_T - 1`); and `check` never
changes an order that has been given. -/
theorem resolveEquations_terminates_within (hasEquivalentVariable : Variable → Variable → Bool)
    (g : GeneratorImpl) (c : Counters)
    (hlen : g.mEquations.length ≤ MAX_SIZE_T) (hc : c.equationOrder = MAX_SIZE_T) :
    (∃ r, resolveEquations hasEquivalentVariable (g.mEquations.length + 1) g c = some r)
    ∧ (∀ (g' : GeneratorImpl) (self : Nat) (c' : Counters),
        (check hasEquivalentVariable g' self c').2.2 = true →
          (g'.equation self).mOrder = MAX_SIZE_T
          ∧ ((check hasEquivalentVariable g' self c').1.equation self).mOrder
              = sizeIncr c'.equationOrder
          ∧ (c'.equationOrder ≤ MAX_SIZE_T → c'.equationOrder + 1 ≠ MAX_SIZE_T →
              ((check hasEquivalentVariable g' self c').1.equation self).mOrder ≠ MAX_SIZE_T))
    ∧ (∀ (g' : GeneratorImpl) (self e : Nat) (c' : Counters),
        (g'.equation e).mOrder ≠ MAX_SIZE_T →
          ((check hasEquivalentVariable g' self c').1.equation e).mOrder
            = (g'.equation e).mOrder) := by
  refine ⟨?_, ?_, ?_⟩
  · apply resolveEquations_terminates
    · refine ⟨by rw [hc], ?_⟩
      rw [hc]
      have h1 := unorderedCount_le g
      have : handedOut MAX_SIZE_T = 0 := rfl
      omega
    · have h1 := unorderedCount_le g
      omega
  · intro g' self c' h
    have h1 := check_true_unordered hasEquivalentVariable g' self c' h
    have h2 : ((check hasEquivalentVariable g' self c').1.equation self).mOrder
        = sizeIncr c'.equationOrder := by
      rw [check_mOrder]; simp [h]
    refine ⟨h1, h2, fun hle hne => ?_⟩
    rw [h2]
    unfold sizeIncr MAX_SIZE_T at *
    omega
  · intro g' self e c' h
    rw [check_mOrder]
    split_ifs with h3
    · obtain ⟨rfl, h4⟩ := h3
      exact absurd (check_true_unordered hasEquivalentVariable g' e c' h4) h
    · rfl

/-- C4, at the model of the test `dependentEqns`: the loop over its three
equations is left within four scans. -/
theorem resolveEquations_terminates_within_witness :
    ((enterResolution DependentEqns.prePassed).1.mEquations.length ≤ MAX_SIZE_T
      ∧ (enterResolution DependentEqns.prePassed).2.equationOrder = MAX_SIZE_T)
    ∧ ∃ r, resolveEquations DependentEqns.model.hasEquivalentVariable
        ((enterResolution DependentEqns.prePassed).1.mEquations.length + 1)
        (enterResolution DependentEqns.prePassed).1
        (enterResolution DependentEqns.prePassed).2 = some r :=
  ⟨by decide,
    (resolveEquations_terminates_within DependentEqns.model.hasEquivalentVariable
      (enterResolution DependentEqns.prePassed).1 (enterResolution DependentEqns.prePassed).2
      (by decide) (by decide)).1⟩

/-! ## C9: rendering of arithmetic expressions -/

/-- C9, at the tree of `a - (+(b + c))`: with the default profile,
`generateCode` renders it as `variables[0]-variables[1]+variables[2]`, the
text that it also produces for `(a - b) + c` and that, read with left
associativity, denotes `(a - b) + c`; yet for `a = 0`, `b = 0`, `c = 1` the
first tree denotes `-1` and the second `1`. -/
theorem generateCode_minus_unaryPlus_sum :
    (generateCode {} UnaryPlus.model DependentEqns.numerics UnaryPlus.minusOfUnaryPlus
        (some GeneratorEquationAstType.ASSIGNMENT) UnaryPlus.generator).map (fun r => r.1)
      = some "variables[0]-variables[1]+variables[2]"
    ∧ (generateCode {} UnaryPlus.model DependentEqns.numerics UnaryPlus.sumOfDifference
        (some GeneratorEquationAstType.ASSIGNMENT) UnaryPlus.generator).map (fun r => r.1)
      = some "variables[0]-variables[1]+variables[2]"
    ∧ UnaryPlus.minusOfUnaryPlus.denotation UnaryPlus.values (fun _ => 0) = some (-1)
    ∧ UnaryPlus.sumOfDifference.denotation UnaryPlus.values (fun _ => 0) = some 1 := by
  refine ⟨by decide, by decide, ?_, ?_⟩
  · simp [UnaryPlus.minusOfUnaryPlus, GeneratorEquationAst.denotation, GeneratorEquationAst.op,
      GeneratorEquationAst.ci, GeneratorEquationAst.isNode, UnaryPlus.values, UnaryPlus.a,
      UnaryPlus.b, UnaryPlus.c]
  · simp [UnaryPlus.sumOfDifference, GeneratorEquationAst.denotation, GeneratorEquationAst.op,
      GeneratorEquationAst.ci, GeneratorEquationAst.isNode, UnaryPlus.values, UnaryPlus.a,
      UnaryPlus.b, UnaryPlus.c]

/-! ## C10: scaling of a rate -/

/-- C10, at the equation `dx/dt = y` of the component `sub`, in which
the variable of integration is declared in milliseconds (factor `0.001`) and `y`
in centimetres (factor `0.01`): after `processModel`, which scales the trees,
the right-hand side of the equation is the multiplication of the literal
`0.01` with the reference to `y`; the multiplication by the literal `0.001`
that `scaleEquationAst` makes for the rate is no longer part of the tree. -/
theorem scaleEquationAst_rate_with_scaled_reference :
    (processModel ScaledRate.model ScaledRate.numerics ScaledRate.generator).map
        (fun g => (g.equation 1).mAst)
      = some (GeneratorEquationAst.assignment
          (GeneratorEquationAst.diff ScaledRate.t2 ScaledRate.x)
          (GeneratorEquationAst.op GeneratorEquationAstType.TIMES
            (GeneratorEquationAst.cn "0.01") (GeneratorEquationAst.ci ScaledRate.y2))) := by
  decide

/-! ## The effect of check on an equation and on a record -/

/-! Effect of `check`, case by case -/

theorem soleVariable_spec (this : GeneratorEquation)
    (h : this.mVariables.length + this.mOdeVariables.length = 1) :
    (this.mVariables = [soleVariable this] ∧ this.mOdeVariables = [])
    ∨ (this.mVariables = [] ∧ this.mOdeVariables = [soleVariable this]) := by
  unfold soleVariable
  rcases hv : this.mVariables with _ | ⟨a, as⟩
  · rcases ho : this.mOdeVariables with _ | ⟨b, bs⟩
    · rw [hv, ho] at h; simp at h
    · rw [hv, ho] at h
      simp only [List.length_nil, List.length_cons, zero_add, add_left_eq_self,
        List.length_eq_zero] at h
      subst h
      right; simp
  · rw [hv] at h
    simp only [List.length_cons] at h
    have h1 : as.length = 0 := by omega
    have h2 : this.mOdeVariables.length = 0 := by omega
    rw [List.length_eq_zero] at h1 h2
    subst h1
    left; simp [h2]

theorem updateVariable_fields (hEq : Variable → Variable → Bool) (this : GeneratorEquation)
    (var : GeneratorInternalVariable) :
    (updateVariable hEq this var).mIndex = var.mIndex
    ∧ (updateVariable hEq this var).mEquation = var.mEquation
    ∧ (updateVariable hEq this var).mType
        = if var.mType = GeneratorInternalVariableType.UNKNOWN then computedType this
          else var.mType := by
  unfold updateVariable
  dsimp only
  split_ifs <;> exact ⟨rfl, rfl, rfl⟩

theorem computedType_cases (this : GeneratorEquation) :
    computedType this = GeneratorInternalVariableType.COMPUTED_TRUE_CONSTANT
    ∨ computedType this = GeneratorInternalVariableType.COMPUTED_VARIABLE_BASED_CONSTANT
    ∨ computedType this = GeneratorInternalVariableType.ALGEBRAIC := by
  unfold computedType
  split_ifs <;> simp

theorem checkDependencies_snd (g : GeneratorImpl) :
    ∀ (vs : List Nat) (b : Bool) (ds : List Nat),
      (checkDependencies g vs b ds).2 = ds ++ knownEquations g vs
  | [], _, _ => by simp [checkDependencies, knownEquations]
  | v :: vs, b, ds => by
    unfold checkDependencies
    by_cases hk : knownVariable g v = true
    · rw [if_pos hk]
      dsimp only
      rw [checkDependencies_snd g vs]
      rcases hq : (g.internalVariable v).mEquation with _ | e
      · simp [knownEquations, hk, hq]
      · simp [knownEquations, hk, hq]
    · rw [if_neg hk]
      rw [checkDependencies_snd g vs]
      simp [knownEquations, hk]

theorem mem_knownEquations (g : GeneratorImpl) (vs : List Nat) (d : Nat) :
    d ∈ knownEquations g vs ↔
      ∃ v ∈ vs, knownVariable g v = true ∧ (g.internalVariable v).mEquation = some d := by
  unfold knownEquations
  rw [List.mem_filterMap]
  constructor
  · rintro ⟨v, hv, h⟩
    by_cases hk : knownVariable g v = true
    · rw [if_pos hk] at h
      exact ⟨v, hv, hk, h⟩
    · rw [if_neg hk] at h
      cases h
  · rintro ⟨v, hv, hk, h⟩
    exact ⟨v, hv, by rw [if_pos hk]; exact h⟩

theorem updateTracking_fields (g : GeneratorImpl) (this : GeneratorEquation) :
    (updateTracking g this).mOrder = this.mOrder
    ∧ (updateTracking g this).mType = this.mType
    ∧ (updateTracking g this).mVariable = this.mVariable
    ∧ (updateTracking g this).mAst = this.mAst
    ∧ (updateTracking g this).mVariables = this.mVariables.filter (fun v => !knownVariable g v)
    ∧ (updateTracking g this).mOdeVariables
        = this.mOdeVariables.filter (fun v => !knownOdeVariable g v) :=
  ⟨rfl, rfl, rfl, rfl, rfl, rfl⟩

theorem updateTracking_dependencies (g : GeneratorImpl) (this : GeneratorEquation) :
    (updateTracking g this).mDependencies
      = this.mDependencies ++ knownEquations g this.mVariables :=
  checkDependencies_snd g _ _ _

theorem check_storeLength (hEq : Variable → Variable → Bool) (g : GeneratorImpl) (self : Nat)
    (c : Counters) :
    (check hEq g self c).1.equationStore.length = g.equationStore.length
    ∧ (check hEq g self c).1.variableStore.length = g.variableStore.length := by
  apply check_elim hEq g self c (fun r => r.1.equationStore.length = g.equationStore.length
    ∧ r.1.variableStore.length = g.variableStore.length)
  all_goals intros
  all_goals simp [checkResolved, GeneratorImpl.setEquation, GeneratorImpl.setInternalVariable]

theorem check_mDependencies_mem (hEq : Variable → Variable → Bool) (g : GeneratorImpl)
    (self e d : Nat) (c : Counters)
    (h : d ∈ ((check hEq g self c).1.equation e).mDependencies) :
    d ∈ (g.equation e).mDependencies
    ∨ (e = self ∧ (g.equation self).mOrder = MAX_SIZE_T
        ∧ ∃ v, (g.internalVariable v).mEquation = some d) := by
  revert h
  have key : ∀ (g' : GeneratorImpl) (x : GeneratorEquation),
      (g.equation self).mOrder = MAX_SIZE_T →
      (∀ q, g'.equation q = g.equation q) →
      d ∈ ((g'.setEquation self x).equation e).mDependencies →
      x.mDependencies = (updateTracking g (g.equation self)).mDependencies →
      d ∈ (g.equation e).mDependencies
      ∨ (e = self ∧ (g.equation self).mOrder = MAX_SIZE_T
          ∧ ∃ v, (g.internalVariable v).mEquation = some d) := by
    intro g' x c1 hg' h hx
    rw [GeneratorImpl.equation_setEquation] at h
    split_ifs at h with hc
    · obtain ⟨rfl, _⟩ := hc
      rw [hx, updateTracking_dependencies, List.mem_append, mem_knownEquations] at h
      rcases h with h | ⟨v, _, _, hv⟩
      · exact Or.inl h
      · exact Or.inr ⟨rfl, c1, v, hv⟩
    · rw [hg'] at h; exact Or.inl h
  apply check_elim hEq g self c (fun r => d ∈ (r.1.equation e).mDependencies →
    d ∈ (g.equation e).mDependencies
    ∨ (e = self ∧ (g.equation self).mOrder = MAX_SIZE_T
        ∧ ∃ v, (g.internalVariable v).mEquation = some d))
  · intro _ h; exact Or.inl h
  · intro _ _ h; exact Or.inl h
  · intro c1 _ _ h; exact key g _ c1 (fun _ => rfl) h rfl
  · intro c1 _ _ _ h; exact key _ _ c1 (fun _ => rfl) h rfl
  · intro c1 _ _ _ h
    unfold checkResolved at h
    dsimp only at h
    exact key _ _ c1 (fun _ => rfl) h rfl

theorem check_mEquation (hEq : Variable → Variable → Bool) (g : GeneratorImpl)
    (self p d : Nat) (c : Counters)
    (h : ((check hEq g self c).1.internalVariable p).mEquation = some d) :
    (g.internalVariable p).mEquation = some d
    ∨ (d = self ∧ (check hEq g self c).2.2 = true) := by
  revert h
  apply check_elim hEq g self c (fun r => (r.1.internalVariable p).mEquation = some d →
    (g.internalVariable p).mEquation = some d ∨ (d = self ∧ r.2.2 = true))
  · intro _ h; exact Or.inl h
  · intro _ _ h
    rw [GeneratorImpl.internalVariable_setInternalVariable] at h
    split_ifs at h with hc
    · obtain ⟨rfl, _⟩ := hc; exact Or.inl h
    · exact Or.inl h
  · intro _ _ _ h; exact Or.inl h
  · intro _ _ _ _ h
    rw [GeneratorImpl.internalVariable_setEquation,
      GeneratorImpl.internalVariable_setInternalVariable] at h
    split_ifs at h with hc
    · obtain ⟨rfl, _⟩ := hc
      rw [(updateVariable_fields _ _ _).2.1] at h
      exact Or.inl h
    · exact Or.inl h
  · intro _ _ _ _ h
    unfold checkResolved at h
    dsimp only at h
    rw [GeneratorImpl.internalVariable_setEquation,
      GeneratorImpl.internalVariable_setInternalVariable] at h
    split_ifs at h with hc
    · simp only [Option.some.injEq] at h
      exact Or.inr ⟨h.symm, rfl⟩
    · exact Or.inl h

/-! ## The invariant of the resolution loop on the orders -/

theorem handedOut_handedOut (k : Nat) (h : handedOut k < MAX_SIZE_T) :
    handedOut (handedOut k) = handedOut k + 1 := by
  have hne : handedOut k ≠ MAX_SIZE_T := by omega
  generalize handedOut k = j at hne ⊢
  unfold handedOut
  rw [if_neg hne]

theorem check_unorderedStored (hEq : Variable → Variable → Bool) (g : GeneratorImpl) (self : Nat)
    (c : Counters)
    (hk : (check hEq g self c).2.2 = true → sizeIncr c.equationOrder ≠ MAX_SIZE_T) :
    if (check hEq g self c).2.2 = true then
      unorderedStored (check hEq g self c).1 + 1 ≤ unorderedStored g
    else unorderedStored (check hEq g self c).1 = unorderedStored g := by
  by_cases hr : (check hEq g self c).2.2 = true
  · rw [if_pos hr]
    have hun := check_true_unordered hEq g self c hr
    have hin := check_true_inRange hEq g self c hr
    have hne := hk hr
    unfold unorderedStored
    rw [(check_storeLength hEq g self c).1]
    apply countP_succ_le_of_imp
    · intro x _ hx
      simp only [decide_eq_true_eq] at hx ⊢
      rw [check_mOrder] at hx
      split_ifs at hx with h1
      · exact absurd hx hne
      · exact hx
    · refine ⟨self, List.mem_range.2 hin, by simpa using hun, ?_⟩
      simp only [decide_eq_false_iff_not]
      rw [check_mOrder]
      simp only [hr, and_self, if_true]
      exact hne
  · rw [if_neg hr]
    unfold unorderedStored
    rw [(check_storeLength hEq g self c).1]
    congr 1
    funext x
    rw [check_mOrder]
    simp [hr]

theorem check_orderInv (hEq : Variable → Variable → Bool) (g : GeneratorImpl) (self : Nat)
    (c : Counters) (hself : self ∈ g.mEquations) (h : OrderInv g c) :
    OrderInv (check hEq g self c).1 (check hEq g self c).2.1 := by
  have hlen := (check_storeLength hEq g self c).1
  by_cases hr : (check hEq g self c).2.2 = true
  · have hun := check_true_unordered hEq g self c hr
    have hin := check_true_inRange hEq g self c hr
    have hpos : 1 ≤ unorderedStored g := by
      unfold unorderedStored
      exact List.countP_pos_iff.2 ⟨self, List.mem_range.2 hin, by simpa using hun⟩
    have hk : handedOut c.equationOrder < MAX_SIZE_T := by
      have := h.room; have := h.len; omega
    have hinc := sizeIncr_eq_handedOut c.equationOrder hk h.counter
    have hcount := check_unorderedStored hEq g self c (fun _ => by rw [hinc]; omega)
    rw [if_pos hr] at hcount
    have hord : ∀ e, ((check hEq g self c).1.equation e).mOrder
        = if e = self then handedOut c.equationOrder else (g.equation e).mOrder := by
      intro e
      rw [check_mOrder, hinc]
      simp [hr]
    have hctr : (check hEq g self c).2.1.equationOrder = handedOut c.equationOrder := by
      rw [check_equationOrder, hinc]; simp [hr]
    refine ⟨by rw [hlen]; exact h.len, ?_, ?_, ?_, ?_, ?_, ?_⟩
    · rw [hctr]; omega
    · rw [hctr, handedOut_handedOut _ hk, hlen]
      have := h.room
      omega
    · intro e he
      rw [hctr, handedOut_handedOut _ hk]
      rw [hord] at he ⊢
      split_ifs at he ⊢ with h1
      · omega
      · have := h.bound e he; omega
    · intro e he
      rw [check_mEquations]
      rw [hord] at he
      split_ifs at he with h1
      · rw [h1]; exact hself
      · exact h.member e he
    · intro p e hp
      rw [hord]
      split_ifs with h1
      · omega
      · rcases check_mEquation hEq g self p e c hp with h2 | h2
        · exact h.computes p e h2
        · exact absurd h2.1 h1
    · intro e d hd
      have hdold : (g.equation d).mOrder ≠ MAX_SIZE_T := by
        rcases check_mDependencies_mem hEq g self e d c hd with h2 | ⟨_, _, v, hv⟩
        · exact (h.deps e d h2).1
        · exact h.computes v d hv
      have hdne : d ≠ self := fun hds => hdold (by rw [hds]; exact hun)
      rw [hord, hord, if_neg hdne]
      refine ⟨hdold, fun he => ?_⟩
      split_ifs at he ⊢ with h1
      · exact h.bound d hdold
      · rcases check_mDependencies_mem hEq g self e d c hd with h2 | ⟨h2, _⟩
        · exact (h.deps e d h2).2 he
        · exact absurd h2 h1
  · have hcount := check_unorderedStored hEq g self c (fun h2 => absurd h2 hr)
    rw [if_neg hr] at hcount
    have hord : ∀ e, ((check hEq g self c).1.equation e).mOrder = (g.equation e).mOrder := by
      intro e
      rw [check_mOrder]
      simp [hr]
    have hctr : (check hEq g self c).2.1.equationOrder = c.equationOrder := by
      rw [check_equationOrder]; simp [hr]
    refine ⟨by rw [hlen]; exact h.len, ?_, ?_, ?_, ?_, ?_, ?_⟩
    · rw [hctr]; exact h.counter
    · rw [hctr, hcount, hlen]; exact h.room
    · intro e he
      rw [hctr]
      rw [hord] at he ⊢
      exact h.bound e he
    · intro e he
      rw [check_mEquations]
      rw [hord] at he
      exact h.member e he
    · intro p e hp
      rw [hord]
      rcases check_mEquation hEq g self p e c hp with h2 | h2
      · exact h.computes p e h2
      · exact absurd h2.2 hr
    · intro e d hd
      rw [hord, hord]
      rcases check_mDependencies_mem hEq g self e d c hd with h2 | ⟨h2, h3, v, hv⟩
      · exact h.deps e d h2
      · refine ⟨h.computes v d hv, fun he => ?_⟩
        rw [h2] at he
        exact absurd h3 he

/-- A property of the state and of the counters that `check` preserves is
preserved by a scan of the equations. -/
theorem checkEquations_invariant (hEq : Variable → Variable → Bool)
    (Inv : GeneratorImpl → Counters → Prop)
    (hstep : ∀ g c self, self ∈ g.mEquations → Inv g c →
      Inv (check hEq g self c).1 (check hEq g self c).2.1) :
    ∀ (es : List Nat) (g : GeneratorImpl) (c : Counters) (r : Bool),
      (∀ e ∈ es, e ∈ g.mEquations) → Inv g c →
      Inv (checkEquations hEq es g c r).1 (checkEquations hEq es g c r).2.1
  | [], _, _, _, _, h => h
  | e :: es, g, c, r, hmem, h => by
    have h1 := hstep g c e (hmem e (List.mem_cons_self _ _)) h
    have hmem' : ∀ x ∈ es, x ∈ (check hEq g e c).1.mEquations := by
      intro x hx; rw [check_mEquations]; exact hmem x (List.mem_cons_of_mem _ hx)
    exact checkEquations_invariant hEq Inv hstep es _ _ _ hmem' h1

/-- A property of the state and of the counters that `check` preserves holds
when the resolution loop is left. -/
theorem resolveEquations_invariant (hEq : Variable → Variable → Bool)
    (Inv : GeneratorImpl → Counters → Prop)
    (hstep : ∀ g c self, self ∈ g.mEquations → Inv g c →
      Inv (check hEq g self c).1 (check hEq g self c).2.1) :
    ∀ (fuel : Nat) (g : GeneratorImpl) (c : Counters) (r : GeneratorImpl × Counters),
      Inv g c → resolveEquations hEq fuel g c = some r → Inv r.1 r.2
  | 0, _, _, _, _, h => by simp [resolveEquations] at h
  | fuel + 1, g, c, r, hinv, h => by
    unfold resolveEquations at h
    have hs := checkEquations_invariant hEq Inv hstep g.mEquations g c false (fun _ h => h) hinv
    dsimp only at h
    split_ifs at h with hr
    · simp only [Option.some.injEq] at h
      subst h
      exact hs
    · exact resolveEquations_invariant hEq Inv hstep fuel _ _ r hs h

/-! ## The emission of the equations -/

theorem afterDependencies_concat (g : GeneratorImpl) (only : Bool) (M T : List Nat) (e : Nat)
    (h : AfterDependencies g only M T)
    (he : ∀ d ∈ (g.equation e).mDependencies, followsDependency g only d = true → d ∈ M → d ∈ T) :
    AfterDependencies g only M (T ++ [e]) := by
  intro pre x post hx d hd hf hm
  rcases List.eq_nil_or_concat post with hp | ⟨post', a, hp⟩
  · subst hp
    have h1 := List.append_inj' hx (by simp)
    obtain ⟨h2, h3⟩ := h1
    simp only [List.cons.injEq, and_true] at h3
    subst h2; subst h3
    exact he d hd hf hm
  · subst hp
    have hx' : T ++ [e] = (pre ++ x :: post') ++ [a] := by
      rw [hx]; simp
    have h1 := List.append_inj' hx' (by simp)
    exact h pre x post' h1.1 d hd hf hm

theorem Emission.emitOne {g : GeneratorImpl} {only : Bool} {M T R : List Nat} {e : Nat}
    (h : Emission g only M T R) (he : e ∈ R)
    (hd : ∀ d ∈ (g.equation e).mDependencies, followsDependency g only d = true → d ∈ M →
      d ∈ T) :
    Emission g only M (T ++ [e]) (R.erase e) := by
  have heT : e ∉ T := fun h1 => h.disjoint e h1 he
  refine ⟨h.nodupR.erase e, ?_, ?_, ?_, ?_, ?_, afterDependencies_concat g only M T e h.after hd⟩
  · rw [List.nodup_append]
    refine ⟨h.nodupT, List.nodup_singleton e, ?_⟩
    intro x hx hx'
    simp only [List.mem_singleton] at hx'
    subst hx'
    exact heT hx
  · intro x hx
    by_cases hxe : x = e
    · left; subst hxe; simp
    · rcases h.cover x hx with h1 | h1
      · left; exact List.mem_append_left _ h1
      · right; exact (List.mem_erase_of_ne hxe).2 h1
  · intro x hx; exact h.subR x (List.mem_of_mem_erase hx)
  · intro x hx
    rcases List.mem_append.1 hx with h1 | h1
    · exact h.subT x h1
    · simp only [List.mem_singleton] at h1; subst h1; exact h.subR x he
  · intro x hx hx'
    rcases List.mem_append.1 hx with h1 | h1
    · exact h.disjoint x h1 (List.mem_of_mem_erase hx')
    · simp only [List.mem_singleton] at h1
      subst h1
      exact (List.Nodup.not_mem_erase h.nodupR) hx'

/-- The result of `generateEquationCode`, by induction on the fuel, and of its
loop over the dependencies. -/
theorem generateEquationCode_spec (g : GeneratorImpl) (only : Bool) (M : List Nat)
    (rk : Nat → Nat)
    (hrk : ∀ e d, d ∈ (g.equation e).mDependencies → rk d < rk e) :
    ∀ (fuel e : Nat) (T R : List Nat), Emission g only M T R → rk e < fuel →
      ∃ out R', generateEquationCode g only fuel e R = some (out, R')
        ∧ Emission g only M (T ++ out) R' ∧ e ∉ R' ∧ (∀ x ∈ R', x ∈ R)
        ∧ (∀ x ∈ out, x = e ∨ followsDependency g only x = true)
  | 0, _, _, _, _, h => absurd h (Nat.not_lt_zero _)
  | fuel + 1, e, T, R, hE, hfuel => by
    have inner : ∀ (ds : List Nat) (res R1 : List Nat),
        (∀ d ∈ ds, rk d < fuel) → Emission g only M (T ++ res) R1 →
        (∀ x ∈ res, followsDependency g only x = true) →
        ∃ res' R', forDependencies
            (fun dependency remaining =>
              if !only
                  || (decide ((g.equation dependency).mType = GeneratorEquationType.ALGEBRAIC)
                      && (g.equation dependency).mIsStateRateBased) then
                generateEquationCode g only fuel dependency remaining
              else some ([], remaining)) ds res R1 = some (res', R')
          ∧ Emission g only M (T ++ res') R' ∧ (∀ x ∈ R', x ∈ R1)
          ∧ (∀ x ∈ res', followsDependency g only x = true)
          ∧ (∀ d ∈ ds, followsDependency g only d = true → d ∉ R')
          ∧ (∀ x ∈ res, x ∈ res') := by
      intro ds
      induction ds with
      | nil =>
        intro res R1 _ hE1 hres
        exact ⟨res, R1, rfl, hE1, fun _ h => h, hres, fun _ h => absurd h (List.not_mem_nil _),
          fun _ h => h⟩
      | cons d ds ih =>
        intro res R1 hds hE1 hres
        by_cases hf : followsDependency g only d = true
        · have hf' := hf
          unfold followsDependency at hf'
          obtain ⟨out, R2, hgec, hE2, hd2, hsub2, hout⟩ :=
            generateEquationCode_spec g only M rk hrk fuel d (T ++ res) R1 hE1
              (hds d (List.mem_cons_self _ _))
          rw [List.append_assoc] at hE2
          have hres2 : ∀ x ∈ res ++ out, followsDependency g only x = true := by
            intro x hx
            rcases List.mem_append.1 hx with h1 | h1
            · exact hres x h1
            · rcases hout x h1 with h2 | h2
              · rw [h2]; exact hf
              · exact h2
          obtain ⟨res', R', hfor, hE3, hsub3, hres3, hnot3, hmem3⟩ :=
            ih (res ++ out) R2 (fun x hx => hds x (List.mem_cons_of_mem _ hx)) hE2 hres2
          refine ⟨res', R', ?_, hE3, fun x hx => hsub2 x (hsub3 x hx), hres3, ?_,
            fun x hx => hmem3 x (List.mem_append_left _ hx)⟩
          · simp only [forDependencies, hf', if_true, hgec]
            exact hfor
          · intro x hx hfx
            rcases List.mem_cons.1 hx with h1 | h1
            · subst h1
              exact fun h2 => hd2 (hsub3 x h2)
            · exact hnot3 x h1 hfx
        · have hf' := hf
          unfold followsDependency at hf'
          obtain ⟨res', R', hfor, hE3, hsub3, hres3, hnot3, hmem3⟩ :=
            ih res R1 (fun x hx => hds x (List.mem_cons_of_mem _ hx)) hE1 hres
          refine ⟨res', R', ?_, hE3, hsub3, hres3, ?_, hmem3⟩
          · simp only [Bool.not_eq_true] at hf'
            simp only [forDependencies, hf', Bool.false_eq_true, if_false, List.append_nil]
            exact hfor
          · intro x hx hfx
            rcases List.mem_cons.1 hx with h1 | h1
            · subst h1; exact absurd hfx hf
            · exact hnot3 x h1 hfx
    have hds : ∀ d ∈ (g.equation e).mDependencies, rk d < fuel := by
      intro d hd
      have := hrk e d hd
      omega
    have hE0 : Emission g only M (T ++ []) R := by rw [List.append_nil]; exact hE
    obtain ⟨res', R', hfor, hE3, hsub3, hres3, hnot3, _⟩ :=
      inner (g.equation e).mDependencies [] R hds hE0 (fun _ h => absurd h (List.not_mem_nil _))
    by_cases he : e ∈ R'
    · refine ⟨res' ++ [e], R'.erase e, ?_, ?_, ?_, ?_, ?_⟩
      · simp only [generateEquationCode, hfor, he, if_true]
      · rw [← List.append_assoc]
        apply hE3.emitOne he
        intro d hd hfd hdM
        rcases hE3.cover d hdM with h1 | h1
        · exact h1
        · exact absurd h1 (hnot3 d hd hfd)
      · exact List.Nodup.not_mem_erase hE3.nodupR
      · intro x hx; exact hsub3 x (List.mem_of_mem_erase hx)
      · intro x hx
        rcases List.mem_append.1 hx with h1 | h1
        · exact Or.inr (hres3 x h1)
        · simp only [List.mem_singleton] at h1; exact Or.inl h1
    · refine ⟨res', R', ?_, hE3, he, hsub3, fun x hx => Or.inr (hres3 x hx)⟩
      simp only [generateEquationCode, hfor, he, if_false]

theorem emissionRank_lt (g : GeneratorImpl) (h : Emittable g) (e d : Nat)
    (hd : d ∈ (g.equation e).mDependencies) : emissionRank g d < emissionRank g e := by
  obtain ⟨h1, h2, h3⟩ := h.rank e d hd
  unfold emissionRank
  rw [if_neg h1]
  split_ifs with h4
  · exact h2
  · exact h3 h4

theorem emissionRank_le (g : GeneratorImpl) (e : Nat)
    (he : (g.equation e).mOrder ≠ MAX_SIZE_T → (g.equation e).mOrder < g.equationStore.length) :
    emissionRank g e < g.equationStore.length + 1 := by
  unfold emissionRank
  split_ifs with h4
  · omega
  · have := he h4; omega

theorem generateEquationsCode_spec (g : GeneratorImpl) (only : Bool) (M : List Nat)
    (rk : Nat → Nat) (hrk : ∀ e d, d ∈ (g.equation e).mDependencies → rk d < rk e)
    (cond : Nat → Bool) (fuel : Nat) (T : List Nat) :
    ∀ (es body R : List Nat), Emission g only M (T ++ body) R → (∀ e ∈ es, rk e < fuel) →
      ∃ body' R', generateEquationsCode g only cond fuel es body R = some (body', R')
        ∧ Emission g only M (T ++ body') R' ∧ (∀ e ∈ es, cond e = true → e ∉ R')
        ∧ (∀ x ∈ R', x ∈ R)
        ∧ (∀ x ∈ body', x ∈ body ∨ cond x = true ∨ followsDependency g only x = true)
  | [], body, R, hE, _ =>
    ⟨body, R, rfl, hE, fun _ h => absurd h (List.not_mem_nil _), fun _ h => h,
      fun _ h => Or.inl h⟩
  | e :: es, body, R, hE, hfuel => by
    by_cases hc : cond e = true
    · obtain ⟨out, R1, hgec, hE1, he1, hsub1, hout⟩ :=
        generateEquationCode_spec g only M rk hrk fuel e (T ++ body) R hE
          (hfuel e (List.mem_cons_self _ _))
      rw [List.append_assoc] at hE1
      obtain ⟨body', R', hges, hE2, hnot2, hsub2, hbody2⟩ :=
        generateEquationsCode_spec g only M rk hrk cond fuel T es (body ++ out) R1 hE1
          (fun x hx => hfuel x (List.mem_cons_of_mem _ hx))
      refine ⟨body', R', ?_, hE2, ?_, fun x hx => hsub1 x (hsub2 x hx), ?_⟩
      · simp only [generateEquationsCode, hc, if_true, hgec]
        exact hges
      · intro x hx hcx
        rcases List.mem_cons.1 hx with h1 | h1
        · subst h1; exact fun h2 => he1 (hsub2 x h2)
        · exact hnot2 x h1 hcx
      · intro x hx
        rcases hbody2 x hx with h1 | h1
        · rcases List.mem_append.1 h1 with h2 | h2
          · exact Or.inl h2
          · rcases hout x h2 with h3 | h3
            · subst h3; exact Or.inr (Or.inl hc)
            · exact Or.inr (Or.inr h3)
        · exact Or.inr h1
    · obtain ⟨body', R', hges, hE2, hnot2, hsub2, hbody2⟩ :=
        generateEquationsCode_spec g only M rk hrk cond fuel T es body R hE
          (fun x hx => hfuel x (List.mem_cons_of_mem _ hx))
      refine ⟨body', R', ?_, hE2, ?_, hsub2, hbody2⟩
      · simp only [Bool.not_eq_true] at hc
        simp only [generateEquationsCode, hc, Bool.false_eq_true, if_false]
        exact hges
      · intro x hx hcx
        rcases List.mem_cons.1 hx with h1 | h1
        · subst h1; exact absurd hcx hc
        · exact hnot2 x h1 hcx

theorem Emission.atStart (g : GeneratorImpl) (only : Bool) (M : List Nat) (h : M.Nodup) :
    Emission g only M [] M :=
  ⟨h, List.nodup_nil, fun _ hx => Or.inr hx, fun _ hx => hx,
    fun _ hx => absurd hx (List.not_mem_nil _), fun _ hx => absurd hx (List.not_mem_nil _),
    fun pre e post hx => by simp at hx⟩

/-- One of the four procedures: the equations that satisfy `cond` are
emitted, unless the string of the method is empty. -/
theorem emitProcedure_spec (g : GeneratorImpl) (h : Emittable g)
    (hord : ∀ e, (g.equation e).mOrder ≠ MAX_SIZE_T →
      (g.equation e).mOrder < g.equationStore.length)
    (only : Bool) (cond : Nat → Bool) (run : Prop) [Decidable run] (T R : List Nat)
    (hE : Emission g only g.mEquations T R) :
    ∃ body R', (if run then
          generateEquationsCode g only cond (g.equationStore.length + 1) g.mEquations [] R
        else some ([], R)) = some (body, R')
      ∧ Emission g only g.mEquations (T ++ body) R'
      ∧ (run → ∀ e ∈ g.mEquations, cond e = true → e ∉ R')
      ∧ (∀ x ∈ body, cond x = true ∨ followsDependency g only x = true) := by
  by_cases hs : run
  · have hE0 : Emission g only g.mEquations (T ++ []) R := by rw [List.append_nil]; exact hE
    obtain ⟨body', R', hges, hE2, hnot2, _, hbody2⟩ :=
      generateEquationsCode_spec g only g.mEquations (emissionRank g) (emissionRank_lt g h)
        cond (g.equationStore.length + 1) T g.mEquations [] R hE0
        (fun e _ => emissionRank_le g e (hord e))
    refine ⟨body', R', by simp [hs, hges], hE2, fun _ => hnot2, ?_⟩
    intro x hx
    rcases hbody2 x hx with h1 | h1
    · exact absurd h1 (List.not_mem_nil _)
    · exact h1
  · refine ⟨[], R, by simp [hs], by rw [List.append_nil]; exact hE, fun h1 => absurd h1 hs,
      fun _ hx => absurd hx (List.not_mem_nil _)⟩

/-- The equations emitted by the four procedures.  The first three procedures
emit every equation at most once and after its dependencies; the procedure
that computes the variables emits, once each, the equations of `mEquations`
that remain or that are algebraic and state/rate based. -/
theorem emittedEquations_spec (p : GeneratorProfile) (g : GeneratorImpl) (h : Emittable g)
    (hord : ∀ e, (g.equation e).mOrder ≠ MAX_SIZE_T →
      (g.equation e).mOrder < g.equationStore.length) :
    ∃ tr, emittedEquations p g = some tr
      ∧ Emission g false g.mEquations
          (tr.initializeStatesAndConstants ++ tr.computeComputedConstants ++ tr.computeRates)
          tr.remainingEquations
      ∧ tr.computeVariables.Nodup
      ∧ (p.implementationComputeVariablesMethodString ≠ "" →
          ∀ e, e ∈ tr.computeVariables ↔
            e ∈ g.mEquations ∧ (e ∈ tr.remainingEquations
              ∨ ((g.equation e).mType = GeneratorEquationType.ALGEBRAIC
                  ∧ (g.equation e).mIsStateRateBased = true))) := by
  obtain ⟨b1, R1, h1, hE1, _, _⟩ := emitProcedure_spec g h hord false
    (fun e => decide ((g.equation e).mType = GeneratorEquationType.TRUE_CONSTANT))
    (p.implementationInitializeStatesAndConstantsMethodString ≠ "") [] g.mEquations
    (Emission.atStart g false g.mEquations h.nodup)
  obtain ⟨b2, R2, h2, hE2, _, _⟩ := emitProcedure_spec g h hord false
    (fun e => decide ((g.equation e).mType = GeneratorEquationType.VARIABLE_BASED_CONSTANT))
    (p.implementationComputeComputedConstantsMethodString ≠ "") _ R1 hE1
  obtain ⟨b3, R3, h3, hE3, _, _⟩ := emitProcedure_spec g h hord false
    (fun e => decide ((g.equation e).mType = GeneratorEquationType.RATE))
    (p.implementationComputeRatesMethodString ≠ "") _ R2 hE2
  obtain ⟨b4, R4, h4, hE4, hnot4, hbody4⟩ := emitProcedure_spec g h hord true
    (fun e => decide (e ∈ R3)
        || (decide ((g.equation e).mType = GeneratorEquationType.ALGEBRAIC)
            && (g.equation e).mIsStateRateBased))
    (p.implementationComputeVariablesMethodString ≠ "") [] g.mEquations
    (Emission.atStart g true g.mEquations h.nodup)
  refine ⟨{ initializeStatesAndConstants := b1, computeComputedConstants := b2,
            computeRates := b3, computeVariables := b4, remainingEquations := R3 }, ?_, ?_, ?_, ?_⟩
  · unfold emittedEquations
    simp only [h1, h2, h3, h4, Option.some_bind, Option.map_some']
  · simpa using hE3
  · simpa using hE4.nodupT
  · intro hrun e
    have hsub : ∀ x ∈ b4, x ∈ g.mEquations := by
      intro x hx; exact hE4.subT x (by simpa using hx)
    constructor
    · intro he
      refine ⟨hsub e he, ?_⟩
      rcases hbody4 e he with h5 | h5
      · simpa using h5
      · right
        simpa [followsDependency] using h5
    · rintro ⟨heM, hc⟩
      have hcond : ((fun e => decide (e ∈ R3)
          || (decide ((g.equation e).mType = GeneratorEquationType.ALGEBRAIC)
              && (g.equation e).mIsStateRateBased)) e) = true := by
        simpa using hc
      have hn := hnot4 hrun e heM hcond
      rcases hE4.cover e heM with h5 | h5
      · simpa using h5
      · exact absurd h5 hn

/-! ## The generator that processModel receives -/

theorem getD_mem_or_default {α : Type} (l : List α) (i : Nat) (d : α) :
    l.getD i d ∈ l ∨ l.getD i d = d := by
  rw [List.getD_eq_getElem?_getD]
  rcases h : l[i]? with _ | x
  · right; rfl
  · left; exact List.getElem?_mem h

theorem Built.equation_fresh {g : GeneratorImpl} (h : Built g) (e : Nat) :
    (g.equation e).mOrder = MAX_SIZE_T ∧ (g.equation e).mDependencies = []
    ∧ (g.equation e).mVariable = none ∧ (g.equation e).mType = GeneratorEquationType.UNKNOWN
    ∧ (g.equation e).mVariables.Nodup ∧ (g.equation e).mOdeVariables.Nodup := by
  rcases getD_mem_or_default g.equationStore e default with h1 | h1
  · exact h.2.2.1 _ h1
  · unfold GeneratorImpl.equation
    rw [h1]
    exact ⟨rfl, rfl, rfl, rfl, List.nodup_nil, List.nodup_nil⟩

theorem Built.internalVariable_fresh {g : GeneratorImpl} (h : Built g) (p : Nat) :
    (g.internalVariable p).mIndex = MAX_SIZE_T ∧ (g.internalVariable p).mEquation = none
    ∧ ((g.internalVariable p).mType = GeneratorInternalVariableType.UNKNOWN
      ∨ (g.internalVariable p).mType = GeneratorInternalVariableType.CONSTANT) := by
  rcases getD_mem_or_default g.variableStore p default with h1 | h1
  · exact h.2.2.2 _ h1
  · unfold GeneratorImpl.internalVariable
    rw [h1]
    exact ⟨rfl, rfl, Or.inl rfl⟩

theorem indexConstants_records :
    ∀ (ps : List Nat) (g : GeneratorImpl) (vi : Nat) (q : Nat),
      ((indexConstants ps g vi).1.internalVariable q).mEquation = (g.internalVariable q).mEquation
      ∧ ((indexConstants ps g vi).1.internalVariable q).mType = (g.internalVariable q).mType
      ∧ (((indexConstants ps g vi).1.internalVariable q).mIndex = (g.internalVariable q).mIndex
        ∨ (g.internalVariable q).mType = GeneratorInternalVariableType.CONSTANT)
  | [], _, _, _ => ⟨rfl, rfl, Or.inl rfl⟩
  | p :: ps, g, vi, q => by
    unfold indexConstants
    split_ifs with hc
    · have ih := indexConstants_records ps
        (g.setInternalVariable p { g.internalVariable p with mIndex := sizeIncr vi })
        (sizeIncr vi) q
      rw [GeneratorImpl.internalVariable_setInternalVariable] at ih
      split_ifs at ih with h1
      · obtain ⟨rfl, _⟩ := h1
        exact ⟨ih.1, ih.2.1, Or.inr hc⟩
      · exact ih
    · exact indexConstants_records ps g vi q

theorem insertSorted_perm {α : Type} (less : α → α → Bool) (a : α) :
    ∀ l : List α, (insertSorted less a l).Perm (a :: l)
  | [] => List.Perm.refl _
  | b :: l => by
    unfold insertSorted
    split_ifs
    · exact ((insertSorted_perm less a l).cons b).trans (List.Perm.swap a b l)
    · exact List.Perm.refl _

theorem listSort_perm {α : Type} (less : α → α → Bool) :
    ∀ l : List α, (listSort less l).Perm l
  | [] => List.Perm.refl _
  | a :: l => by
    unfold listSort
    exact (insertSorted_perm less a _).trans ((listSort_perm less l).cons a)

theorem enterResolution_records (g : GeneratorImpl) (q : Nat) :
    ((enterResolution g).1.internalVariable q).mEquation = (g.internalVariable q).mEquation
    ∧ ((enterResolution g).1.internalVariable q).mType = (g.internalVariable q).mType
    ∧ (((enterResolution g).1.internalVariable q).mIndex = (g.internalVariable q).mIndex
      ∨ (g.internalVariable q).mType = GeneratorInternalVariableType.CONSTANT) :=
  indexConstants_records _ _ _ q

theorem unorderedStored_le (g : GeneratorImpl) : unorderedStored g ≤ g.equationStore.length := by
  unfold unorderedStored
  have := List.countP_le_length (fun e => decide ((g.equation e).mOrder = MAX_SIZE_T))
    (l := List.range g.equationStore.length)
  simpa using this

/-- The invariant on the orders holds when the resolution loop is entered. -/
theorem enterResolution_orderInv (m : Model) (isOne : String → Bool) (g g1 : GeneratorImpl)
    (hb : Built g) (hpre : prePass m isOne (resetResults g) = some g1) :
    OrderInv (enterResolution g1).1 (enterResolution g1).2 := by
  have hpf := prePass_frame m isOne _ _ hpre
  have hf := enterResolution_frame g1
  have hstore : (enterResolution g1).1.equationStore = g.equationStore := by
    rw [hf.2.2.2.1, hpf.2.2.1]; rfl
  have heq : ∀ e, (enterResolution g1).1.equation e = g.equation e := by
    intro e; unfold GeneratorImpl.equation; rw [hstore]
  have hrec : ∀ p, ((enterResolution g1).1.internalVariable p).mEquation = none := by
    intro p
    rw [(enterResolution_records g1 p).1, (hpf.2.2.2.2.2.2 p).2.1]
    exact (hb.internalVariable_fresh p).2.1
  refine ⟨by rw [hstore]; exact hb.2.1, by rw [hf.2.2.2.2], ?_, ?_, ?_, ?_, ?_⟩
  · rw [hf.2.2.2.2]
    have h1 := unorderedStored_le (enterResolution g1).1
    have : handedOut MAX_SIZE_T = 0 := rfl
    omega
  · intro e he; rw [heq] at he; exact absurd (hb.equation_fresh e).1 he
  · intro e he; rw [heq] at he; exact absurd (hb.equation_fresh e).1 he
  · intro p e hp; rw [hrec] at hp; cases hp
  · intro e d hd; rw [heq, (hb.equation_fresh e).2.1] at hd; cases hd

theorem emitFacts_of_orderInv (g : GeneratorImpl) (c : Counters) (h : OrderInv g c)
    (hn : g.mEquations.Nodup) : EmitFacts g := by
  have hb : ∀ e, (g.equation e).mOrder ≠ MAX_SIZE_T →
      (g.equation e).mOrder < g.equationStore.length := by
    intro e he
    have h1 := h.bound e he
    have h2 := h.room
    omega
  refine ⟨⟨hn, ?_, ?_⟩, hb⟩
  · intro e d hd
    exact h.member d (h.deps e d hd).1
  · intro e d hd
    exact ⟨(h.deps e d hd).1, hb d (h.deps e d hd).1, (h.deps e d hd).2⟩

theorem emitFacts_of_unordered (g : GeneratorImpl) (hn : g.mEquations.Nodup)
    (h : ∀ e, (g.equation e).mOrder = MAX_SIZE_T ∧ (g.equation e).mDependencies = []) :
    EmitFacts g := by
  refine ⟨⟨hn, ?_, ?_⟩, fun e he => absurd (h e).1 he⟩
  · intro e d hd; rw [(h e).2] at hd; cases hd
  · intro e d hd; rw [(h e).2] at hd; cases hd

theorem emitFacts_transfer (g g' : GeneratorImpl) (h : EmitFacts g)
    (heq : ∀ e, (g'.equation e).mOrder = (g.equation e).mOrder
      ∧ (g'.equation e).mDependencies = (g.equation e).mDependencies)
    (hlen : g'.equationStore.length = g.equationStore.length)
    (hperm : g'.mEquations.Perm g.mEquations) : EmitFacts g' := by
  obtain ⟨⟨hn, hm, hr⟩, hb⟩ := h
  refine ⟨⟨hperm.nodup_iff.2 hn, ?_, ?_⟩, ?_⟩
  · intro e d hd
    rw [(heq e).2] at hd
    exact hperm.mem_iff.2 (hm e d hd)
  · intro e d hd
    rw [(heq e).2] at hd
    rw [(heq d).1, (heq e).1, hlen]
    exact hr e d hd
  · intro e he
    rw [(heq e).1] at he ⊢
    rw [hlen]
    exact hb e he

theorem ScaleFrame.equationFields {g g' : GeneratorImpl} (h : ScaleFrame g g') (e : Nat) :
    (g'.equation e).mOrder = (g.equation e).mOrder
    ∧ (g'.equation e).mDependencies = (g.equation e).mDependencies
    ∧ (g'.equation e).mType = (g.equation e).mType
    ∧ (g'.equation e).mVariable = (g.equation e).mVariable
    ∧ (g'.equation e).mIsStateRateBased = (g.equation e).mIsStateRateBased
    ∧ (g'.equation e).mVariables = (g.equation e).mVariables
    ∧ (g'.equation e).mOdeVariables = (g.equation e).mOdeVariables := by
  have h1 := h.2.2.2.2.2.2.2 e
  refine ⟨?_, ?_, ?_, ?_, ?_, ?_, ?_⟩
  · have h2 := congrArg GeneratorEquation.mOrder h1; exact h2
  · have h2 := congrArg GeneratorEquation.mDependencies h1; exact h2
  · have h2 := congrArg GeneratorEquation.mType h1; exact h2
  · have h2 := congrArg GeneratorEquation.mVariable h1; exact h2
  · have h2 := congrArg GeneratorEquation.mIsStateRateBased h1; exact h2
  · have h2 := congrArg GeneratorEquation.mVariables h1; exact h2
  · have h2 := congrArg GeneratorEquation.mOdeVariables h1; exact h2

/-- The final post-processing keeps the fields of the equations that the
analysis has set, and the list `mEquations` up to its order. -/
theorem finaliseModel_fields {F : Type} (m : Model) (num : Numerics F) (g g' : GeneratorImpl)
    (h : finaliseModel m num g = some g') :
    (∀ e, (g'.equation e).mOrder = (g.equation e).mOrder
      ∧ (g'.equation e).mDependencies = (g.equation e).mDependencies
      ∧ (g'.equation e).mType = (g.equation e).mType
      ∧ (g'.equation e).mVariable = (g.equation e).mVariable
      ∧ (g'.equation e).mIsStateRateBased = (g.equation e).mIsStateRateBased
      ∧ (g'.equation e).mVariables = (g.equation e).mVariables
      ∧ (g'.equation e).mOdeVariables = (g.equation e).mOdeVariables)
    ∧ g'.equationStore.length = g.equationStore.length
    ∧ g'.mEquations.Perm g.mEquations := by
  unfold finaliseModel at h
  split_ifs at h
  · simp only [Option.bind_eq_some, Option.map_eq_some'] at h
    obtain ⟨g1, h1, g2, h2, rfl⟩ := h
    have f1 := scaleEquations_scaleFrame m num _ g g1 h1
    unfold sortEquations at h2
    split_ifs at h2
    simp only [Option.some.injEq] at h2
    subst h2
    have hp := publishVariables_frame
      (listSort (compareVariablesByTypeAndIndex g1) g1.mInternalVariables)
      { g1 with
        mInternalVariables := listSort (compareVariablesByTypeAndIndex g1) g1.mInternalVariables,
        mEquations := listSort (compareEquationsByVariable
          { g1 with mInternalVariables :=
              listSort (compareVariablesByTypeAndIndex g1) g1.mInternalVariables })
          g1.mEquations }
    refine ⟨fun e => ?_, ?_, ?_⟩
    · have := f1.equationFields e
      unfold GeneratorImpl.equation at this ⊢
      rw [hp.2.2.2.2.2]
      exact this
    · rw [hp.2.2.2.2.2]
      exact f1.2.2.2.2.2.2.1
    · rw [hp.2.1]
      have := listSort_perm (compareEquationsByVariable
          { g1 with mInternalVariables :=
              listSort (compareVariablesByTypeAndIndex g1) g1.mInternalVariables })
          g1.mEquations
      rw [← f1.2.1]
      exact this
  · simp only [Option.some.injEq] at h; subst h
    exact ⟨fun _ => ⟨rfl, rfl, rfl, rfl, rfl, rfl, rfl⟩, rfl, List.Perm.refl _⟩

/-- The two ways in which the analysis of `processModel` ends: with an issue
recorded by the pre-pass or before, or with the resolution loop. -/
theorem analyseModel_cases (m : Model) (isOne : String → Bool) (g g2 : GeneratorImpl)
    (h : analyseModel m isOne g = some g2) :
    ∃ g1, prePass m isOne (resetResults g) = some g1
      ∧ ((g1.errorCount ≠ 0 ∧ g2 = { g1 with mModelType := ModelType.INVALID })
        ∨ (g1.errorCount = 0 ∧ ∃ r,
            resolveEquations m.hasEquivalentVariable (g1.mEquations.length + 1)
              (enterResolution g1).1 (enterResolution g1).2 = some r
            ∧ g2 = determineModelType (reportInvalidVariables r.1.mInternalVariables r.1))) := by
  unfold analyseModel at h
  simp only [Option.bind_eq_some] at h
  obtain ⟨g1, h1, h2⟩ := h
  refine ⟨g1, h1, ?_⟩
  unfold classifyModel at h2
  split_ifs at h2 with he
  · right
    simp only [Option.map_eq_some'] at h2
    obtain ⟨r, hr, rfl⟩ := h2
    exact ⟨he, r, hr, rfl⟩
  · left
    simp only [Option.some.injEq] at h2
    exact ⟨he, h2.symm⟩

/-- The facts that the emission needs hold of the generator that
`processModel` returns. -/
theorem processModel_emitFacts {F : Type} (m : Model) (num : Numerics F) (g g3 : GeneratorImpl)
    (hb : Built g) (h : processModel m num g = some g3) : EmitFacts g3 := by
  unfold processModel at h
  simp only [Option.bind_eq_some] at h
  obtain ⟨g2, h2, h3⟩ := h
  obtain ⟨hfield, hlen, hperm⟩ := finaliseModel_fields m num g2 g3 h3
  apply emitFacts_transfer g2 g3 _ (fun e => ⟨(hfield e).1, (hfield e).2.1⟩) hlen hperm
  obtain ⟨g1, hpre, hcase⟩ := analyseModel_cases m num.isOne g g2 h2
  have hpf := prePass_frame m num.isOne _ _ hpre
  have hn1 : g1.mEquations.Nodup := by rw [hpf.2.1]; exact hb.1
  rcases hcase with ⟨_, rfl⟩ | ⟨_, r, hr, rfl⟩
  · refine emitFacts_of_unordered _ hn1 ?_
    intro e
    have : ({ g1 with mModelType := ModelType.INVALID } : GeneratorImpl).equation e
        = g.equation e := by
      unfold GeneratorImpl.equation
      rw [hpf.2.2.1]; rfl
    rw [this]
    exact ⟨(hb.equation_fresh e).1, (hb.equation_fresh e).2.1⟩
  · have hinv := resolveEquations_invariant m.hasEquivalentVariable OrderInv
      (fun g c self hs hi => check_orderInv _ g self c hs hi) _ _ _ r
      (enterResolution_orderInv m num.isOne g g1 hb hpre) hr
    have hs := resolveEquations_sameResults _ _ _ _ r hr
    have hf := enterResolution_frame g1
    have hnr : r.1.mEquations.Nodup := by rw [hs.2.2.1, hf.2.1]; exact hn1
    have hfacts := emitFacts_of_orderInv r.1 r.2 hinv hnr
    have hrep := reportInvalidVariables_frame r.1.mInternalVariables r.1
    have hdet := determineModelType_frame (reportInvalidVariables r.1.mInternalVariables r.1)
    have hst : (determineModelType
        (reportInvalidVariables r.1.mInternalVariables r.1)).equationStore
        = r.1.equationStore := by
      rw [hdet.2.2.2.2, hrep.2.2.2.2.2]
    apply emitFacts_transfer r.1 _ hfacts
    · intro e
      unfold GeneratorImpl.equation
      rw [hst]
      exact ⟨rfl, rfl⟩
    · rw [hst]
    · rw [hdet.2.1, hrep.2.2.1]

/-! ## C7 and C8: the equations emitted by the four procedures -/

/-- C7: for a generator `g` as the processing of the components leaves it and
the generator `g3` that `processModel` returns, the emission of the equations
ends, and in the bodies of initialise-states-and-constants,
compute-computed-constants and compute-rates, taken in this order, every
equation is emitted at most once and every equation of the dependency list
of an emitted equation is emitted before it. -/
theorem emittedEquations_once_after_dependencies {F : Type} (p : GeneratorProfile) (m : Model)
    (num : Numerics F) (g g3 : GeneratorImpl) (hb : Built g)
    (h : processModel m num g = some g3) :
    ∃ tr, emittedEquations p g3 = some tr
      ∧ (tr.initializeStatesAndConstants ++ tr.computeComputedConstants
          ++ tr.computeRates).Nodup
      ∧ ∀ pre e post,
          tr.initializeStatesAndConstants ++ tr.computeComputedConstants ++ tr.computeRates
            = pre ++ e :: post →
          ∀ d ∈ (g3.equation e).mDependencies, d ∈ pre := by
  obtain ⟨hem, hord⟩ := processModel_emitFacts m num g g3 hb h
  obtain ⟨tr, htr, hE, _, _⟩ := emittedEquations_spec p g3 hem hord
  refine ⟨tr, htr, hE.nodupT, ?_⟩
  intro pre e post hx d hd
  exact hE.after pre e post hx d hd rfl (hem.member e d hd)

/-- C7, at the model of the equations `dx/dtime = a`, `a = k*x` and `k = 2`
and the default (C) profile: the generator is as the processing of the
components leaves it, `processModel` returns, and the conclusion holds. -/
theorem emittedEquations_once_after_dependencies_witness :
    (Built StateBased.generator
      ∧ processModel StateBased.model DependentEqns.numerics StateBased.generator
          = some StateBased.processed)
    ∧ ∃ tr, emittedEquations {} StateBased.processed = some tr
      ∧ (tr.initializeStatesAndConstants ++ tr.computeComputedConstants
          ++ tr.computeRates).Nodup
      ∧ ∀ pre e post,
          tr.initializeStatesAndConstants ++ tr.computeComputedConstants ++ tr.computeRates
            = pre ++ e :: post →
          ∀ d ∈ (StateBased.processed.equation e).mDependencies, d ∈ pre :=
  ⟨⟨by decide, by decide⟩,
    emittedEquations_once_after_dependencies {} StateBased.model DependentEqns.numerics
      StateBased.generator StateBased.processed (by decide) (by decide)⟩

/-- C8: for a generator `g` as the processing of the components leaves it, the
generator `g3` that `processModel` returns and a profile that has a method to
compute the variables, the emission of the equations ends, and the body of
compute-variables holds, once each, the equations of `mEquations` that the
three earlier procedures did not emit and the equations of type `ALGEBRAIC`
that are state/rate based, and no other equation. -/
theorem emittedEquations_computeVariables_exactly {F : Type} (p : GeneratorProfile) (m : Model)
    (num : Numerics F) (g g3 : GeneratorImpl) (hb : Built g)
    (h : processModel m num g = some g3)
    (hcv : p.implementationComputeVariablesMethodString ≠ "") :
    ∃ tr, emittedEquations p g3 = some tr
      ∧ tr.computeVariables.Nodup
      ∧ ∀ e, e ∈ tr.computeVariables ↔
          e ∈ g3.mEquations
          ∧ (e ∉ tr.initializeStatesAndConstants ++ tr.computeComputedConstants
                ++ tr.computeRates
            ∨ ((g3.equation e).mType = GeneratorEquationType.ALGEBRAIC
                ∧ (g3.equation e).mIsStateRateBased = true)) := by
  obtain ⟨hem, hord⟩ := processModel_emitFacts m num g g3 hb h
  obtain ⟨tr, htr, hE, hn, hcvs⟩ := emittedEquations_spec p g3 hem hord
  refine ⟨tr, htr, hn, fun e => ?_⟩
  rw [hcvs hcv e]
  constructor
  · rintro ⟨heM, h1 | h1⟩
    · exact ⟨heM, Or.inl (fun h2 => hE.disjoint e h2 h1)⟩
    · exact ⟨heM, Or.inr h1⟩
  · rintro ⟨heM, h1 | h1⟩
    · rcases hE.cover e heM with h2 | h2
      · exact absurd h2 h1
      · exact ⟨heM, Or.inl h2⟩
    · exact ⟨heM, Or.inr h1⟩

/-- C8, at the model of the equations `dx/dtime = a`, `a = k*x` and `k = 2`
and the default (C) profile: the hypotheses hold, and so does the
conclusion. -/
theorem emittedEquations_computeVariables_exactly_witness :
    (Built StateBased.generator
      ∧ processModel StateBased.model DependentEqns.numerics StateBased.generator
          = some StateBased.processed
      ∧ ({} : GeneratorProfile).implementationComputeVariablesMethodString ≠ "")
    ∧ ∃ tr, emittedEquations {} StateBased.processed = some tr
      ∧ tr.computeVariables.Nodup
      ∧ ∀ e, e ∈ tr.computeVariables ↔
          e ∈ StateBased.processed.mEquations
          ∧ (e ∉ tr.initializeStatesAndConstants ++ tr.computeComputedConstants
                ++ tr.computeRates
            ∨ ((StateBased.processed.equation e).mType = GeneratorEquationType.ALGEBRAIC
                ∧ (StateBased.processed.equation e).mIsStateRateBased = true)) :=
  ⟨⟨by decide, by decide, by decide⟩,
    emittedEquations_computeVariables_exactly {} StateBased.model DependentEqns.numerics
      StateBased.generator StateBased.processed (by decide) (by decide) (by decide)⟩

/-! ## The effect of check, continued -/

theorem check_counters_of_false (hEq : Variable → Variable → Bool) (g : GeneratorImpl)
    (self : Nat) (c : Counters) (h : (check hEq g self c).2.2 = false) :
    (check hEq g self c).2.1 = c := by
  revert h
  apply check_elim hEq g self c (fun r => r.2.2 = false → r.2.1 = c)
  · intro _ _; rfl
  · intro _ _ _; rfl
  · intro _ _ _ _; rfl
  · intro _ _ _ _ _; rfl
  · intro _ _ _ _ h; simp [checkResolved] at h

theorem check_true_facts (hEq : Variable → Variable → Bool) (g : GeneratorImpl)
    (self : Nat) (c : Counters) (h : (check hEq g self c).2.2 = true) :
    (updateTracking g (g.equation self)).mVariables.length
        + (updateTracking g (g.equation self)).mOdeVariables.length = 1
    ∧ isComputable (resolvedType hEq g self) = true
    ∧ isOverconstraint g (g.equation self) = false
    ∧ (check hEq g self c).2.1 = nextCounters (resolvedType hEq g self) c := by
  revert h
  apply check_elim hEq g self c (fun r => r.2.2 = true →
    (updateTracking g (g.equation self)).mVariables.length
        + (updateTracking g (g.equation self)).mOdeVariables.length = 1
    ∧ isComputable (resolvedType hEq g self) = true
    ∧ isOverconstraint g (g.equation self) = false
    ∧ r.2.1 = nextCounters (resolvedType hEq g self) c)
  · intro _ h; exact absurd h (by simp)
  · intro _ _ h; exact absurd h (by simp)
  · intro _ _ _ h; exact absurd h (by simp)
  · intro _ _ _ _ h; exact absurd h (by simp)
  · intro _ c2 c3 c4 _; exact ⟨c3, c4, c2, rfl⟩

/-- The effect of `check` on a record: it is left as it is, but for a tag
`OVERCONSTRAINED` given to a record that has an index, or it is the record of
the variable that is left, which is given its equation, its index and its
tag. -/
theorem check_record (hEq : Variable → Variable → Bool) (g : GeneratorImpl)
    (self : Nat) (c : Counters) (q : Nat) :
    (((check hEq g self c).1.internalVariable q).mEquation = (g.internalVariable q).mEquation
      ∧ ((check hEq g self c).1.internalVariable q).mIndex = (g.internalVariable q).mIndex
      ∧ (((check hEq g self c).1.internalVariable q).mType = (g.internalVariable q).mType
        ∨ (((check hEq g self c).1.internalVariable q).mType
              = GeneratorInternalVariableType.OVERCONSTRAINED
            ∧ (g.internalVariable q).mIndex ≠ MAX_SIZE_T)))
    ∨ ((check hEq g self c).2.2 = true
      ∧ q = soleVariable (updateTracking g (g.equation self))
      ∧ ((check hEq g self c).1.internalVariable q).mEquation = some self
      ∧ ((check hEq g self c).1.internalVariable q).mIndex
          = assignedIndex (resolvedType hEq g self) (nextCounters (resolvedType hEq g self) c)
      ∧ ((check hEq g self c).1.internalVariable q).mType = resolvedType hEq g self) := by
  apply check_elim hEq g self c (fun r =>
    ((r.1.internalVariable q).mEquation = (g.internalVariable q).mEquation
      ∧ (r.1.internalVariable q).mIndex = (g.internalVariable q).mIndex
      ∧ ((r.1.internalVariable q).mType = (g.internalVariable q).mType
        ∨ ((r.1.internalVariable q).mType = GeneratorInternalVariableType.OVERCONSTRAINED
            ∧ (g.internalVariable q).mIndex ≠ MAX_SIZE_T)))
    ∨ (r.2.2 = true
      ∧ q = soleVariable (updateTracking g (g.equation self))
      ∧ (r.1.internalVariable q).mEquation = some self
      ∧ (r.1.internalVariable q).mIndex
          = assignedIndex (resolvedType hEq g self) (nextCounters (resolvedType hEq g self) c)
      ∧ (r.1.internalVariable q).mType = resolvedType hEq g self))
  · intro _; exact Or.inl ⟨rfl, rfl, Or.inl rfl⟩
  · intro _ c2
    left
    rw [GeneratorImpl.internalVariable_setInternalVariable]
    split_ifs with hc
    · obtain ⟨rfl, _⟩ := hc
      refine ⟨rfl, rfl, Or.inr ⟨rfl, ?_⟩⟩
      unfold isOverconstraint at c2
      simp only [Bool.and_eq_true, decide_eq_true_eq] at c2
      exact c2.1.1.2
    · exact ⟨rfl, rfl, Or.inl rfl⟩
  · intro _ _ _; exact Or.inl ⟨rfl, rfl, Or.inl rfl⟩
  · intro _ _ _ c4
    left
    rw [GeneratorImpl.internalVariable_setEquation,
      GeneratorImpl.internalVariable_setInternalVariable]
    split_ifs with hc
    · obtain ⟨rfl, _⟩ := hc
      have hf := updateVariable_fields hEq (updateTracking g (g.equation self))
        (g.internalVariable (soleVariable (updateTracking g (g.equation self))))
      refine ⟨hf.2.1, hf.1, Or.inl ?_⟩
      rw [hf.2.2]
      split_ifs with hu
      · exfalso
        rw [hf.2.2, if_pos hu] at c4
        rcases computedType_cases (updateTracking g (g.equation self)) with h1 | h1 | h1 <;>
          rw [h1] at c4 <;> simp [isComputable] at c4
      · rfl
    · exact ⟨rfl, rfl, Or.inl rfl⟩
  · intro _ _ _ _
    unfold checkResolved
    dsimp only
    rw [GeneratorImpl.internalVariable_setEquation,
      GeneratorImpl.internalVariable_setInternalVariable]
    split_ifs with hc
    · obtain ⟨rfl, _⟩ := hc
      exact Or.inr ⟨rfl, rfl, rfl, rfl, rfl⟩
    · exact Or.inl ⟨rfl, rfl, Or.inl rfl⟩

/-- The effect of `check` on an equation: it is left as it is, or it is the
equation `self`, which had no order, whose lists of variables lose the
known variables and which, when the check is relevant, is given its variable and
its type. -/
theorem check_equation (hEq : Variable → Variable → Bool) (g : GeneratorImpl)
    (self : Nat) (c : Counters) (e : Nat) :
    (check hEq g self c).1.equation e = g.equation e
    ∨ (e = self ∧ (g.equation self).mOrder = MAX_SIZE_T
      ∧ ((check hEq g self c).1.equation e).mVariables
          = (g.equation self).mVariables.filter (fun v => !knownVariable g v)
      ∧ ((check hEq g self c).1.equation e).mOdeVariables
          = (g.equation self).mOdeVariables.filter (fun v => !knownOdeVariable g v)
      ∧ (((check hEq g self c).2.2 = false
          ∧ ((check hEq g self c).1.equation e).mVariable = (g.equation self).mVariable
          ∧ ((check hEq g self c).1.equation e).mType = (g.equation self).mType)
        ∨ ((check hEq g self c).2.2 = true
          ∧ ((check hEq g self c).1.equation e).mVariable
              = some (soleVariable (updateTracking g (g.equation self)))
          ∧ ((check hEq g self c).1.equation e).mType
              = equationTypeOf (resolvedType hEq g self)))) := by
  apply check_elim hEq g self c (fun r =>
    r.1.equation e = g.equation e
    ∨ (e = self ∧ (g.equation self).mOrder = MAX_SIZE_T
      ∧ (r.1.equation e).mVariables
          = (g.equation self).mVariables.filter (fun v => !knownVariable g v)
      ∧ (r.1.equation e).mOdeVariables
          = (g.equation self).mOdeVariables.filter (fun v => !knownOdeVariable g v)
      ∧ ((r.2.2 = false
          ∧ (r.1.equation e).mVariable = (g.equation self).mVariable
          ∧ (r.1.equation e).mType = (g.equation self).mType)
        ∨ (r.2.2 = true
          ∧ (r.1.equation e).mVariable
              = some (soleVariable (updateTracking g (g.equation self)))
          ∧ (r.1.equation e).mType = equationTypeOf (resolvedType hEq g self)))))
  · intro _; exact Or.inl rfl
  · intro _ _; exact Or.inl rfl
  · intro c1 _ _
    rw [GeneratorImpl.equation_setEquation]
    split_ifs with hc
    · obtain ⟨rfl, _⟩ := hc
      exact Or.inr ⟨rfl, c1, rfl, rfl, Or.inl ⟨rfl, rfl, rfl⟩⟩
    · exact Or.inl rfl
  · intro c1 _ _ _
    rw [GeneratorImpl.equation_setEquation]
    split_ifs with hc
    · obtain ⟨rfl, _⟩ := hc
      exact Or.inr ⟨rfl, c1, rfl, rfl, Or.inl ⟨rfl, rfl, rfl⟩⟩
    · exact Or.inl rfl
  · intro c1 _ _ _
    unfold checkResolved
    dsimp only
    rw [GeneratorImpl.equation_setEquation]
    split_ifs with hc
    · obtain ⟨rfl, _⟩ := hc
      exact Or.inr ⟨rfl, c1, rfl, rfl, Or.inr ⟨rfl, rfl, rfl⟩⟩
    · exact Or.inl rfl

/-! ## The invariant of the resolution loop on what is known -/

theorem knownVariable_iff (g : GeneratorImpl) (v : Nat) :
    knownVariable g v = true ↔
      (g.internalVariable v).mIndex ≠ MAX_SIZE_T
      ∨ (g.internalVariable v).mType = GeneratorInternalVariableType.VARIABLE_OF_INTEGRATION
      ∨ (g.internalVariable v).mType = GeneratorInternalVariableType.STATE
      ∨ (g.internalVariable v).mType = GeneratorInternalVariableType.CONSTANT
      ∨ (g.internalVariable v).mType = GeneratorInternalVariableType.COMPUTED_TRUE_CONSTANT
      ∨ (g.internalVariable v).mType
          = GeneratorInternalVariableType.COMPUTED_VARIABLE_BASED_CONSTANT := by
  simp only [knownVariable, Bool.or_eq_true, decide_eq_true_eq, or_assoc]

theorem knownOdeVariable_iff (g : GeneratorImpl) (v : Nat) :
    knownOdeVariable g v = true ↔
      (g.internalVariable v).mIndex ≠ MAX_SIZE_T
      ∨ (g.internalVariable v).mType
          = GeneratorInternalVariableType.VARIABLE_OF_INTEGRATION := by
  simp only [knownOdeVariable, Bool.or_eq_true, decide_eq_true_eq]

theorem isComputable_iff (t : GeneratorInternalVariableType) :
    isComputable t = true ↔
      t = GeneratorInternalVariableType.STATE
      ∨ t = GeneratorInternalVariableType.COMPUTED_TRUE_CONSTANT
      ∨ t = GeneratorInternalVariableType.COMPUTED_VARIABLE_BASED_CONSTANT
      ∨ t = GeneratorInternalVariableType.ALGEBRAIC := by
  simp only [isComputable, Bool.or_eq_true, decide_eq_true_eq, or_assoc]

theorem soleVariable_mem (this : GeneratorEquation)
    (h : this.mVariables.length + this.mOdeVariables.length = 1) :
    (soleVariable this ∈ this.mVariables ∧ this.mOdeVariables = [])
    ∨ (soleVariable this ∈ this.mOdeVariables ∧ this.mVariables = []) := by
  rcases soleVariable_spec this h with ⟨h1, h2⟩ | ⟨h1, h2⟩
  · left; exact ⟨by rw [h1]; simp, h2⟩
  · right; exact ⟨by rw [h2]; simp, h1⟩

theorem sizeIncr_ne_max (x : Nat) (hx : x ≤ MAX_SIZE_T) (h : handedOut x < MAX_SIZE_T) :
    sizeIncr x ≠ MAX_SIZE_T ∧ sizeIncr x ≤ MAX_SIZE_T
    ∧ handedOut (sizeIncr x) = handedOut x + 1 := by
  have h1 := sizeIncr_eq_handedOut x h hx
  rw [h1]
  exact ⟨by omega, by omega, handedOut_handedOut x h⟩

theorem check_keeps_ordered (hEq : Variable → Variable → Bool) (g : GeneratorImpl)
    (self : Nat) (c : Counters) (d : Nat) (hd : (g.equation d).mOrder ≠ MAX_SIZE_T) :
    (check hEq g self c).1.equation d = g.equation d := by
  rcases check_equation hEq g self c d with h | ⟨h1, h2, _⟩
  · exact h
  · rw [h1] at hd; exact absurd h2 hd

theorem check_new_order (hEq : Variable → Variable → Bool) (g : GeneratorImpl)
    (self : Nat) (c : Counters) (ho : OrderInv g c) (e : Nat)
    (he : ((check hEq g self c).1.equation e).mOrder ≠ MAX_SIZE_T) :
    ((g.equation e).mOrder ≠ MAX_SIZE_T
      ∧ ((check hEq g self c).1.equation e).mOrder = (g.equation e).mOrder)
    ∨ (e = self ∧ (g.equation self).mOrder = MAX_SIZE_T ∧ (check hEq g self c).2.2 = true
      ∧ ∀ d, (g.equation d).mOrder ≠ MAX_SIZE_T →
          (g.equation d).mOrder < ((check hEq g self c).1.equation e).mOrder) := by
  rw [check_mOrder] at he ⊢
  split_ifs at he ⊢ with h1
  · right
    obtain ⟨rfl, hr⟩ := h1
    have hun := check_true_unordered hEq g e c hr
    have hin := check_true_inRange hEq g e c hr
    have hpos : 1 ≤ unorderedStored g := by
      unfold unorderedStored
      exact List.countP_pos_iff.2 ⟨e, List.mem_range.2 hin, by simpa using hun⟩
    have hk : handedOut c.equationOrder < MAX_SIZE_T := by
      have := ho.room; have := ho.len; omega
    rw [sizeIncr_eq_handedOut c.equationOrder hk ho.counter]
    exact ⟨rfl, hun, hr, fun d hd => ho.bound d hd⟩
  · left
    exact ⟨he, rfl⟩

theorem check_knownPlain (hEq : Variable → Variable → Bool) (g0 g : GeneratorImpl)
    (self : Nat) (c : Counters) (ho : OrderInv g c) (e v : Nat)
    (h : KnownPlain g0 g e v) : KnownPlain g0 (check hEq g self c).1 e v := by
  rcases h with h | h | h | ⟨d, h1, h2, h3⟩
  · exact Or.inl h
  · exact Or.inr (Or.inl h)
  · exact Or.inr (Or.inr (Or.inl h))
  · refine Or.inr (Or.inr (Or.inr ⟨d, ?_, ?_, ?_⟩))
    · rw [check_keeps_ordered hEq g self c d h2]; exact h1
    · rw [check_keeps_ordered hEq g self c d h2]; exact h2
    · intro he
      rw [check_keeps_ordered hEq g self c d h2]
      rcases check_new_order hEq g self c ho e he with ⟨h4, h5⟩ | ⟨_, _, _, h4⟩
      · rw [h5]; exact h3 h4
      · exact h4 d h2

theorem check_knownRate (hEq : Variable → Variable → Bool) (g0 g : GeneratorImpl)
    (self : Nat) (c : Counters) (ho : OrderInv g c) (e v : Nat)
    (h : KnownRate g0 g e v) : KnownRate g0 (check hEq g self c).1 e v := by
  rcases h with h | ⟨h0, d, h1, ht, h2, h3⟩
  · exact Or.inl h
  · refine Or.inr ⟨h0, d, ?_, ?_, ?_, ?_⟩
    · rw [check_keeps_ordered hEq g self c d h2]; exact h1
    · rw [check_keeps_ordered hEq g self c d h2]; exact ht
    · rw [check_keeps_ordered hEq g self c d h2]; exact h2
    · intro he
      rw [check_keeps_ordered hEq g self c d h2]
      rcases check_new_order hEq g self c ho e he with ⟨h4, h5⟩ | ⟨_, _, _, h4⟩
      · rw [h5]; exact h3 h4
      · exact h4 d h2

/-- A variable that `check` stops tracking in the equation `self` is known. -/
theorem knownPlain_of_knownVariable (hEq : Variable → Variable → Bool) (g0 g : GeneratorImpl)
    (self : Nat) (c : Counters) (hE : EntryFacts g0) (ho : OrderInv g c) (h : KnowInv g0 g c)
    (hun : (g.equation self).mOrder = MAX_SIZE_T) (v : Nat) (hv : knownVariable g v = true) :
    KnownPlain g0 (check hEq g self c).1 self v := by
  rcases hq : (g.internalVariable v).mEquation with _ | d
  · obtain ⟨h1, h2⟩ := h.untouched v hq
    by_cases hi : (g0.internalVariable v).mIndex = MAX_SIZE_T
    · have ht : (g.internalVariable v).mType = (g0.internalVariable v).mType := by
        rcases h2 with h2 | ⟨_, h2⟩
        · exact h2
        · exact absurd hi h2
      rw [knownVariable_iff, h1, ht] at hv
      rcases hv with hv | hv | hv | hv | hv | hv
      · exact absurd hi hv
      · exact Or.inl hv
      · exact Or.inr (Or.inr (Or.inl hv))
      · exact Or.inr (Or.inl hv)
      · rcases hE.types v with h3 | h3 | h3 | h3 | h3 <;> rw [h3] at hv <;> cases hv
      · rcases hE.types v with h3 | h3 | h3 | h3 | h3 <;> rw [h3] at hv <;> cases hv
    · exact Or.inr (Or.inl (hE.index v hi))
  · have hd := ho.computes v d hq
    obtain ⟨h1, _, _⟩ := h.computed v d hq
    refine Or.inr (Or.inr (Or.inr ⟨d, ?_, ?_, ?_⟩))
    · rw [check_keeps_ordered hEq g self c d hd]; exact h1
    · rw [check_keeps_ordered hEq g self c d hd]; exact hd
    · intro he
      rw [check_keeps_ordered hEq g self c d hd]
      rcases check_new_order hEq g self c ho self he with ⟨h4, _⟩ | ⟨_, _, _, h4⟩
      · exact absurd hun h4
      · exact h4 d hd

/-- A rate that `check` stops tracking in the equation `self` is known. -/
theorem knownRate_of_knownOdeVariable (hEq : Variable → Variable → Bool) (g0 g : GeneratorImpl)
    (self : Nat) (c : Counters) (hE : EntryFacts g0) (ho : OrderInv g c) (h : KnowInv g0 g c)
    (hun : (g.equation self).mOrder = MAX_SIZE_T) (v : Nat)
    (hode : (g0.internalVariable v).mType = GeneratorInternalVariableType.VARIABLE_OF_INTEGRATION
      ∨ (g0.internalVariable v).mType = GeneratorInternalVariableType.STATE
      ∨ (g0.internalVariable v).mType = GeneratorInternalVariableType.SHOULD_BE_STATE)
    (hv : knownOdeVariable g v = true) :
    KnownRate g0 (check hEq g self c).1 self v := by
  rcases hq : (g.internalVariable v).mEquation with _ | d
  · obtain ⟨h1, h2⟩ := h.untouched v hq
    by_cases hi : (g0.internalVariable v).mIndex = MAX_SIZE_T
    · have ht : (g.internalVariable v).mType = (g0.internalVariable v).mType := by
        rcases h2 with h2 | ⟨_, h2⟩
        · exact h2
        · exact absurd hi h2
      rw [knownOdeVariable_iff, h1, ht] at hv
      rcases hv with hv | hv
      · exact absurd hi hv
      · exact Or.inl hv
    · have hc := hE.index v hi
      rw [hc] at hode
      rcases hode with h3 | h3 | h3 <;> cases h3
  · have hd := ho.computes v d hq
    obtain ⟨h1, _, h3⟩ := h.computed v d hq
    rcases h3 with h3 | ⟨h3, h4⟩
    · rw [h3] at hode
      rcases hode with h5 | h5 | h5 <;> cases h5
    · refine Or.inr ⟨h3, d, ?_, ?_, ?_, ?_⟩
      · rw [check_keeps_ordered hEq g self c d hd]; exact h1
      · rw [check_keeps_ordered hEq g self c d hd]; exact h4
      · rw [check_keeps_ordered hEq g self c d hd]; exact hd
      · intro he
        rw [check_keeps_ordered hEq g self c d hd]
        rcases check_new_order hEq g self c ho self he with ⟨h5, _⟩ | ⟨_, _, _, h5⟩
        · exact absurd hun h5
        · exact h5 d hd

theorem check_indexRoom (hEq : Variable → Variable → Bool) (g : GeneratorImpl)
    (self : Nat) (c : Counters) (ho : OrderInv g c) (h : IndexRoom g c) :
    IndexRoom (check hEq g self c).1 (check hEq g self c).2.1
    ∧ ((check hEq g self c).2.2 = true →
        assignedIndex (resolvedType hEq g self) (nextCounters (resolvedType hEq g self) c)
          ≠ MAX_SIZE_T) := by
  obtain ⟨h1, h2, h3, h4⟩ := h
  by_cases hr : (check hEq g self c).2.2 = true
  · have hun := check_true_unordered hEq g self c hr
    have hin := check_true_inRange hEq g self c hr
    have hpos : 1 ≤ unorderedStored g := by
      unfold unorderedStored
      exact List.countP_pos_iff.2 ⟨self, List.mem_range.2 hin, by simpa using hun⟩
    have hk : handedOut c.equationOrder < MAX_SIZE_T := by
      have := ho.room; have := ho.len; omega
    have hinc := sizeIncr_eq_handedOut c.equationOrder hk ho.counter
    have hcount := check_unorderedStored hEq g self c (fun _ => by rw [hinc]; omega)
    rw [if_pos hr] at hcount
    have hs := sizeIncr_ne_max c.stateIndex h1 (by omega)
    have hv := sizeIncr_ne_max c.variableIndex h2 (by omega)
    rw [(check_true_facts hEq g self c hr).2.2.2]
    unfold nextCounters assignedIndex
    by_cases ht : resolvedType hEq g self = GeneratorInternalVariableType.STATE
    · simp only [ht, if_true]
      refine ⟨⟨hs.2.1, h2, ?_, ?_⟩, fun _ => hs.1⟩
      · dsimp only; rw [hs.2.2]; omega
      · dsimp only; omega
    · simp only [ht, if_false]
      refine ⟨⟨h1, hv.2.1, ?_, ?_⟩, fun _ => hv.1⟩
      · dsimp only; omega
      · dsimp only; rw [hv.2.2]; omega
  · have hcount := check_unorderedStored hEq g self c (fun h2 => absurd h2 hr)
    rw [if_neg hr] at hcount
    have hf : (check hEq g self c).2.2 = false := by simpa using hr
    rw [check_counters_of_false hEq g self c hf]
    refine ⟨⟨h1, h2, ?_, ?_⟩, fun h5 => absurd h5 hr⟩
    · rw [hcount]; exact h3
    · rw [hcount]; exact h4

/-- The variable that is left in an equation to which `check` gives an order
had no equation, and its tag was the one it had when the loop was entered:
`UNKNOWN`, or `STATE`, in which case the equation is given the type `RATE`. -/
theorem check_true_sole (hEq : Variable → Variable → Bool) (g0 g : GeneratorImpl)
    (self : Nat) (c : Counters) (hE : EntryFacts g0) (h : KnowInv g0 g c)
    (hr : (check hEq g self c).2.2 = true) :
    (g0.internalVariable (soleVariable (updateTracking g (g.equation self)))).mType
        = GeneratorInternalVariableType.UNKNOWN
    ∨ ((g0.internalVariable (soleVariable (updateTracking g (g.equation self)))).mType
          = GeneratorInternalVariableType.STATE
        ∧ equationTypeOf (resolvedType hEq g self) = GeneratorEquationType.RATE) := by
  obtain ⟨hsize, hcomp, _, _⟩ := check_true_facts hEq g self c hr
  have hidx : (g.internalVariable (soleVariable (updateTracking g (g.equation self)))).mIndex
      = MAX_SIZE_T := by
    rcases soleVariable_mem _ hsize with ⟨hm, _⟩ | ⟨hm, _⟩
    · rw [(updateTracking_fields g (g.equation self)).2.2.2.2.1, List.mem_filter] at hm
      have hk := hm.2
      simp only [Bool.not_eq_true', ← Bool.not_eq_true, knownVariable_iff, not_or] at hk
      by_contra hne
      exact hk.1 hne
    · rw [(updateTracking_fields g (g.equation self)).2.2.2.2.2, List.mem_filter] at hm
      have hk := hm.2
      simp only [Bool.not_eq_true', ← Bool.not_eq_true, knownOdeVariable_iff, not_or] at hk
      by_contra hne
      exact hk.1 hne
  have hnone : (g.internalVariable (soleVariable (updateTracking g (g.equation self)))).mEquation
      = none := by
    rcases hq : (g.internalVariable
      (soleVariable (updateTracking g (g.equation self)))).mEquation with _ | d
    · rfl
    · exact absurd hidx (h.computed _ d hq).2.1
  obtain ⟨h1, h2⟩ := h.untouched _ hnone
  have ht : (g.internalVariable (soleVariable (updateTracking g (g.equation self)))).mType
      = (g0.internalVariable (soleVariable (updateTracking g (g.equation self)))).mType := by
    rcases h2 with h2 | ⟨_, h2⟩
    · exact h2
    · rw [← h1] at h2; exact absurd hidx h2
  have hT := (updateVariable_fields hEq (updateTracking g (g.equation self))
    (g.internalVariable (soleVariable (updateTracking g (g.equation self))))).2.2
  by_cases hu : (g0.internalVariable (soleVariable (updateTracking g (g.equation self)))).mType
      = GeneratorInternalVariableType.UNKNOWN
  · exact Or.inl hu
  · right
    have hT' : resolvedType hEq g self
        = (g0.internalVariable (soleVariable (updateTracking g (g.equation self)))).mType := by
      unfold resolvedType
      rw [hT, ht, if_neg hu]
    rw [hT', isComputable_iff] at hcomp
    rw [hT']
    rcases hE.types (soleVariable (updateTracking g (g.equation self))) with h3 | h3 | h3 | h3 | h3
    · exact absurd h3 hu
    · rw [h3] at hcomp; rcases hcomp with h4 | h4 | h4 | h4 <;> cases h4
    · rw [h3] at hcomp; rcases hcomp with h4 | h4 | h4 | h4 <;> cases h4
    · exact ⟨h3, by rw [h3]; rfl⟩
    · rw [h3] at hcomp; rcases hcomp with h4 | h4 | h4 | h4 <;> cases h4

/-- The step of `check` keeps the invariant on what is known. -/
theorem check_knowInv (hEq : Variable → Variable → Bool) (g0 g : GeneratorImpl)
    (self : Nat) (c : Counters) (hE : EntryFacts g0) (ho : OrderInv g c)
    (h : KnowInv g0 g c) :
    KnowInv g0 (check hEq g self c).1 (check hEq g self c).2.1 := by
  have hroom := check_indexRoom hEq g self c ho h.room
  refine ⟨hroom.1, ?_, ?_, ?_, ?_, ?_⟩
  · -- records without equation
    intro q hq
    rcases check_record hEq g self c q with ⟨h1, h2, h3⟩ | ⟨_, _, h1, _⟩
    · rw [h1] at hq
      obtain ⟨h4, h5⟩ := h.untouched q hq
      refine ⟨h2.trans h4, ?_⟩
      rcases h3 with h3 | ⟨h3, h6⟩
      · rw [h3]; exact h5
      · exact Or.inr ⟨h3, by rw [← h4]; exact h6⟩
    · rw [h1] at hq; cases hq
  · -- records with an equation
    intro q d hq
    rcases check_record hEq g self c q with ⟨h1, h2, _⟩ | ⟨hr, hqs, h1, h2, _⟩
    · rw [h1] at hq
      obtain ⟨h4, h5, h6⟩ := h.computed q d hq
      have hd := ho.computes q d hq
      rw [check_keeps_ordered hEq g self c d hd, h2]
      exact ⟨h4, h5, h6⟩
    · rw [h1] at hq
      simp only [Option.some.injEq] at hq
      subst hq
      have hun := check_true_unordered hEq g self c hr
      have heq : ((check hEq g self c).1.equation self).mVariable = some q
          ∧ ((check hEq g self c).1.equation self).mType
              = equationTypeOf (resolvedType hEq g self) := by
        rcases check_equation hEq g self c self with h3 | ⟨_, _, _, _, h3 | h3⟩
        · exfalso
          have h4 := check_mOrder hEq g self self c
          simp only [hr, and_self, if_true] at h4
          rw [h3, hun] at h4
          have hin := check_true_inRange hEq g self c hr
          have hpos : 1 ≤ unorderedStored g := by
            unfold unorderedStored
            exact List.countP_pos_iff.2 ⟨self, List.mem_range.2 hin, by simpa using hun⟩
          have hk : handedOut c.equationOrder < MAX_SIZE_T := by
            have := ho.room; have := ho.len; omega
          rw [sizeIncr_eq_handedOut c.equationOrder hk ho.counter] at h4
          omega
        · rw [h3.1] at hr; cases hr
        · rw [hqs]; exact ⟨h3.2.1, h3.2.2⟩
      refine ⟨heq.1, ?_, ?_⟩
      · rw [h2]; exact hroom.2 hr
      · rw [heq.2, hqs]
        exact check_true_sole hEq g0 g self c hE h hr
  · -- equations with an order
    intro e he
    rcases check_new_order hEq g self c ho e he with ⟨h1, _⟩ | ⟨rfl, _, hr, _⟩
    · rw [check_keeps_ordered hEq g self c e h1]
      exact h.sole e h1
    · obtain ⟨hsize, _, _, _⟩ := check_true_facts hEq g e c hr
      rcases check_equation hEq g e c e with h3 | ⟨_, hun, hv, hov, h3 | h3⟩
      · have hun := check_true_unordered hEq g e c hr
        rw [h3] at he; exact absurd hun he
      · rw [h3.1] at hr; cases hr
      · refine ⟨_, h3.2.1, ?_, ?_⟩
        · intro v hv'
          rw [hv, ← (updateTracking_fields g (g.equation e)).2.2.2.2.1] at hv'
          rcases soleVariable_spec _ hsize with ⟨h4, _⟩ | ⟨h4, _⟩
          · rw [h4] at hv'; simpa using hv'
          · rw [h4] at hv'; cases hv'
        · intro v hv'
          rw [hov, ← (updateTracking_fields g (g.equation e)).2.2.2.2.2] at hv'
          rcases soleVariable_spec _ hsize with ⟨_, h4⟩ | ⟨_, h4⟩
          · rw [h4] at hv'; cases hv'
          · rw [h4] at hv'; simpa using hv'
  · -- variables that are no longer tracked
    intro e v hv0 hv
    rcases check_equation hEq g self c e with h3 | ⟨rfl, hun, hvs, _, _⟩
    · rw [h3] at hv
      exact check_knownPlain hEq g0 g self c ho e v (h.removed e v hv0 hv)
    · by_cases hvg : v ∈ (g.equation e).mVariables
      · rw [hvs, List.mem_filter, not_and] at hv
        have hkn : knownVariable g v = true := by
          have := hv hvg
          simpa using this
        exact knownPlain_of_knownVariable hEq g0 g e c hE ho h hun v hkn
      · exact check_knownPlain hEq g0 g e c ho e v (h.removed e v hv0 hvg)
  · -- rates that are no longer tracked
    intro e v hv0 hv
    rcases check_equation hEq g self c e with h3 | ⟨rfl, hun, _, hvs, _⟩
    · rw [h3] at hv
      exact check_knownRate hEq g0 g self c ho e v (h.removedOde e v hv0 hv)
    · by_cases hvg : v ∈ (g.equation e).mOdeVariables
      · rw [hvs, List.mem_filter, not_and] at hv
        have hkn : knownOdeVariable g v = true := by
          have := hv hvg
          simpa using this
        exact knownRate_of_knownOdeVariable hEq g0 g e c hE ho h hun v (hE.ode e v hv0) hkn
      · exact check_knownRate hEq g0 g e c ho e v (h.removedOde e v hv0 hvg)

theorem indexConstants_counter :
    ∀ (ps : List Nat) (g : GeneratorImpl) (vi : Nat),
      vi ≤ MAX_SIZE_T → handedOut vi + ps.length ≤ MAX_SIZE_T →
      (indexConstants ps g vi).2 ≤ MAX_SIZE_T
      ∧ handedOut (indexConstants ps g vi).2 ≤ handedOut vi + ps.length
  | [], _, _, h1, _ => ⟨h1, by simp [indexConstants]⟩
  | p :: ps, g, vi, h1, h2 => by
    simp only [List.length_cons] at h2
    unfold indexConstants
    split_ifs
    · have hs := sizeIncr_ne_max vi h1 (by omega)
      have ih := indexConstants_counter ps
        (g.setInternalVariable p { g.internalVariable p with mIndex := sizeIncr vi })
        (sizeIncr vi) hs.2.1 (by rw [hs.2.2]; omega)
      rw [hs.2.2] at ih
      simp only [List.length_cons]
      exact ⟨ih.1, le_trans ih.2 (by omega)⟩
    · have ih := indexConstants_counter ps g vi h1 (by omega)
      simp only [List.length_cons]
      exact ⟨ih.1, le_trans ih.2 (by omega)⟩

theorem enterResolution_counters (g : GeneratorImpl)
    (h : g.mInternalVariables.length ≤ MAX_SIZE_T) :
    (enterResolution g).2.stateIndex = MAX_SIZE_T
    ∧ (enterResolution g).2.variableIndex ≤ MAX_SIZE_T
    ∧ handedOut (enterResolution g).2.variableIndex ≤ g.mInternalVariables.length := by
  unfold enterResolution
  dsimp only
  have hl : (listSort (compareVariablesByName g) g.mInternalVariables).length
      = g.mInternalVariables.length := (listSort_perm _ _).length_eq
  have h0 : handedOut MAX_SIZE_T = 0 := rfl
  have := indexConstants_counter (listSort (compareVariablesByName g) g.mInternalVariables)
    { g with mInternalVariables := listSort (compareVariablesByName g) g.mInternalVariables }
    MAX_SIZE_T (le_refl _) (by rw [hl, h0]; omega)
  rw [hl, h0] at this
  exact ⟨rfl, this.1, by omega⟩

/-- The state in which the resolution loop is entered, for a generator `g` as
the processing of the components leaves it, pre-passed into `g1`. -/
theorem enterResolution_entryFacts (m : Model) (isOne : String → Bool) (g g1 : GeneratorImpl)
    (hb : Built g) (hpre : prePass m isOne (resetResults g) = some g1)
    (hode : ∀ e, ∀ v ∈ (g.equation e).mOdeVariables,
      (g1.internalVariable v).mType = GeneratorInternalVariableType.VARIABLE_OF_INTEGRATION
      ∨ (g1.internalVariable v).mType = GeneratorInternalVariableType.STATE
      ∨ (g1.internalVariable v).mType = GeneratorInternalVariableType.SHOULD_BE_STATE) :
    EntryFacts (enterResolution g1).1
    ∧ (∀ e, (enterResolution g1).1.equation e = g.equation e)
    ∧ (∀ p, ((enterResolution g1).1.internalVariable p).mType = (g1.internalVariable p).mType)
    ∧ (∀ p, ((enterResolution g1).1.internalVariable p).mEquation = none) := by
  have hpf := prePass_frame m isOne _ _ hpre
  have hf := enterResolution_frame g1
  have hstore : (enterResolution g1).1.equationStore = g.equationStore := by
    rw [hf.2.2.2.1, hpf.2.2.1]; rfl
  have heq : ∀ e, (enterResolution g1).1.equation e = g.equation e := by
    intro e; unfold GeneratorImpl.equation; rw [hstore]
  have hty : ∀ p, ((enterResolution g1).1.internalVariable p).mType
      = (g1.internalVariable p).mType := fun p => (enterResolution_records g1 p).2.1
  have hg : ∀ p, (resetResults g).internalVariable p = g.internalVariable p := fun _ => rfl
  have h1 : ∀ p, (g1.internalVariable p).mIndex = MAX_SIZE_T := by
    intro p
    rw [(hpf.2.2.2.2.2.2 p).1, hg]
    exact (hb.internalVariable_fresh p).1
  have h1t : ∀ p, (g1.internalVariable p).mType = GeneratorInternalVariableType.UNKNOWN
      ∨ (g1.internalVariable p).mType = GeneratorInternalVariableType.SHOULD_BE_STATE
      ∨ (g1.internalVariable p).mType = GeneratorInternalVariableType.VARIABLE_OF_INTEGRATION
      ∨ (g1.internalVariable p).mType = GeneratorInternalVariableType.STATE
      ∨ (g1.internalVariable p).mType = GeneratorInternalVariableType.CONSTANT := by
    intro p
    rcases (hpf.2.2.2.2.2.2 p).2.2 with h2 | h2 | h2 | h2 | h2
    · rw [h2, hg]
      rcases (hb.internalVariable_fresh p).2.2 with h3 | h3
      · exact Or.inl h3
      · exact Or.inr (Or.inr (Or.inr (Or.inr h3)))
    · exact Or.inr (Or.inr (Or.inl h2))
    · exact Or.inr (Or.inl h2)
    · exact Or.inr (Or.inr (Or.inr (Or.inl h2)))
    · exact Or.inr (Or.inr (Or.inr (Or.inr h2)))
  refine ⟨⟨?_, ?_, ?_⟩, heq, hty, ?_⟩
  · intro p hp
    rw [hty]
    rcases (enterResolution_records g1 p).2.2 with h2 | h2
    · rw [h2] at hp; exact absurd (h1 p) hp
    · exact h2
  · intro p; rw [hty]; exact h1t p
  · intro e v hv
    rw [heq] at hv
    rw [hty]
    exact hode e v hv
  · intro p
    rw [(enterResolution_records g1 p).1, (hpf.2.2.2.2.2.2 p).2.1, hg]
    exact (hb.internalVariable_fresh p).2.1

/-- The invariant on what is known holds when the resolution loop is entered. -/
theorem enterResolution_knowInv (m : Model) (isOne : String → Bool) (g g1 : GeneratorImpl)
    (hb : Built g) (hpre : prePass m isOne (resetResults g) = some g1)
    (hsize : g1.mInternalVariables.length + g.equationStore.length ≤ MAX_SIZE_T) :
    KnowInv (enterResolution g1).1 (enterResolution g1).1 (enterResolution g1).2 := by
  have hpf := prePass_frame m isOne _ _ hpre
  have hf := enterResolution_frame g1
  have hstore : (enterResolution g1).1.equationStore = g.equationStore := by
    rw [hf.2.2.2.1, hpf.2.2.1]; rfl
  have hc := enterResolution_counters g1 (by omega)
  have hus := unorderedStored_le (enterResolution g1).1
  rw [hstore] at hus
  have hg : ∀ p, (resetResults g).internalVariable p = g.internalVariable p := fun _ => rfl
  refine ⟨⟨?_, hc.2.1, ?_, ?_⟩, fun _ _ => ⟨rfl, Or.inl rfl⟩, ?_, ?_,
    fun _ _ h1 h2 => absurd h1 h2, fun _ _ h1 h2 => absurd h1 h2⟩
  · rw [hc.1]
  · rw [hc.1]
    have : handedOut MAX_SIZE_T = 0 := rfl
    omega
  · omega
  · intro p d hp
    rw [(enterResolution_records g1 p).1, (hpf.2.2.2.2.2.2 p).2.1, hg,
      (hb.internalVariable_fresh p).2.1] at hp
    cases hp
  · intro e he
    have : (enterResolution g1).1.equation e = g.equation e := by
      unfold GeneratorImpl.equation; rw [hstore]
    rw [this] at he
    exact absurd (hb.equation_fresh e).1 he

/-- The two invariants of the resolution loop hold when the loop is left. -/
theorem resolveEquations_knowInv (m : Model) (isOne : String → Bool) (g g1 : GeneratorImpl)
    (hb : Built g) (hpre : prePass m isOne (resetResults g) = some g1)
    (hode : ∀ e, ∀ v ∈ (g.equation e).mOdeVariables,
      (g1.internalVariable v).mType = GeneratorInternalVariableType.VARIABLE_OF_INTEGRATION
      ∨ (g1.internalVariable v).mType = GeneratorInternalVariableType.STATE
      ∨ (g1.internalVariable v).mType = GeneratorInternalVariableType.SHOULD_BE_STATE)
    (hsize : g1.mInternalVariables.length + g.equationStore.length ≤ MAX_SIZE_T)
    (fuel : Nat) (r : GeneratorImpl × Counters)
    (hr : resolveEquations m.hasEquivalentVariable fuel (enterResolution g1).1
      (enterResolution g1).2 = some r) :
    OrderInv r.1 r.2 ∧ KnowInv (enterResolution g1).1 r.1 r.2 := by
  have hE := (enterResolution_entryFacts m isOne g g1 hb hpre hode).1
  exact resolveEquations_invariant m.hasEquivalentVariable
    (fun g c => OrderInv g c ∧ KnowInv (enterResolution g1).1 g c)
    (fun g c self hs hi => ⟨check_orderInv _ g self c hs hi.1,
      check_knowInv _ _ g self c hE hi.1 hi.2⟩) fuel _ _ r
    ⟨enterResolution_orderInv m isOne g g1 hb hpre,
      enterResolution_knowInv m isOne g g1 hb hpre hsize⟩ hr

/-! ## C1: an equation is given an order after what it references is known -/

theorem RatesTagged.equation_rates {g g1 : GeneratorImpl} (h : RatesTagged g g1) (e : Nat) :
    ∀ v ∈ (g.equation e).mOdeVariables,
      (g1.internalVariable v).mType = GeneratorInternalVariableType.VARIABLE_OF_INTEGRATION
      ∨ (g1.internalVariable v).mType = GeneratorInternalVariableType.STATE
      ∨ (g1.internalVariable v).mType = GeneratorInternalVariableType.SHOULD_BE_STATE := by
  rcases getD_mem_or_default g.equationStore e default with h1 | h1
  · exact h _ h1
  · unfold GeneratorImpl.equation
    rw [h1]
    intro v hv
    cases hv

/-- What is known of the variables and rates of an equation that the analysis
of `processModel` has given an order. -/
theorem analyseModel_known (m : Model) (isOne : String → Bool) (g g1 g2 : GeneratorImpl)
    (hb : Built g) (hpre : prePass m isOne (resetResults g) = some g1)
    (hode : RatesTagged g g1)
    (hsize : g1.mInternalVariables.length + g.equationStore.length ≤ MAX_SIZE_T)
    (h : analyseModel m isOne g = some g2) (e : Nat)
    (he : (g2.equation e).mOrder ≠ MAX_SIZE_T) :
    ∃ p, (g2.equation e).mVariable = some p
      ∧ (∀ v ∈ (g.equation e).mVariables, v ≠ p → KnownPlain (enterResolution g1).1 g2 e v)
      ∧ (∀ v ∈ (g.equation e).mOdeVariables, v ≠ p →
          KnownRate (enterResolution g1).1 g2 e v) := by
  obtain ⟨g1', hpre', hcase⟩ := analyseModel_cases m isOne g g2 h
  rw [hpre] at hpre'
  simp only [Option.some.injEq] at hpre'
  subst hpre'
  have hpf := prePass_frame m isOne _ _ hpre
  rcases hcase with ⟨_, rfl⟩ | ⟨_, r, hr, rfl⟩
  · exfalso
    have : ({ g1 with mModelType := ModelType.INVALID } : GeneratorImpl).equation e
        = g.equation e := by
      unfold GeneratorImpl.equation
      rw [hpf.2.2.1]; rfl
    rw [this] at he
    exact he (hb.equation_fresh e).1
  · obtain ⟨_, hk⟩ := resolveEquations_knowInv m isOne g g1 hb hpre
      (fun e => hode.equation_rates e) hsize _ r hr
    obtain ⟨_, heq0, _, _⟩ := enterResolution_entryFacts m isOne g g1 hb hpre
      (fun e => hode.equation_rates e)
    have hrep := reportInvalidVariables_frame r.1.mInternalVariables r.1
    have hdet := determineModelType_frame (reportInvalidVariables r.1.mInternalVariables r.1)
    have hst : ∀ d, (determineModelType
        (reportInvalidVariables r.1.mInternalVariables r.1)).equation d = r.1.equation d := by
      intro d
      unfold GeneratorImpl.equation
      rw [hdet.2.2.2.2, hrep.2.2.2.2.2]
    rw [hst] at he
    obtain ⟨p, hp, hv, hov⟩ := hk.sole e he
    refine ⟨p, by rw [hst]; exact hp, ?_, ?_⟩
    · intro v hv0 hne
      have h1 := hk.removed e v (by rw [heq0]; exact hv0) (fun h2 => hne (hv v h2))
      unfold KnownPlain at h1 ⊢
      simp only [hst]
      exact h1
    · intro v hv0 hne
      have h1 := hk.removedOde e v (by rw [heq0]; exact hv0) (fun h2 => hne (hov v h2))
      unfold KnownRate at h1 ⊢
      simp only [hst]
      exact h1

/-- C1, as amended: for a generator `g` as the processing of the components
leaves it, pre-passed into `g1` (every variable of which an equation
references the rate being then tagged as a state or as the variable of
integration, and the numbers of records and of equations fitting together in
a `size_t`), and the generator `g3` that `processModel` returns, every
equation `e` that has an order is recorded as computing a variable `p`; each
other variable `v` that it references was tagged by the pre-pass as
the variable of integration, a constant or a state, or is computed by an equation
of strictly smaller order; each other rate that it references is the rate of
the variable of integration, or of a state whose rate is computed by an
equation of type `RATE` of strictly smaller order. -/
theorem processModel_order_after_known {F : Type} (m : Model) (num : Numerics F)
    (g g1 g3 : GeneratorImpl)
    (hb : Built g) (hpre : prePass m num.isOne (resetResults g) = some g1)
    (hode : RatesTagged g g1)
    (hsize : g1.mInternalVariables.length + g.equationStore.length ≤ MAX_SIZE_T)
    (h : processModel m num g = some g3) :
    ∀ e, (g3.equation e).mOrder ≠ MAX_SIZE_T →
      ∃ p, (g3.equation e).mVariable = some p
        ∧ (∀ v ∈ (g.equation e).mVariables, v ≠ p →
            (g1.internalVariable v).mType = GeneratorInternalVariableType.VARIABLE_OF_INTEGRATION
            ∨ (g1.internalVariable v).mType = GeneratorInternalVariableType.CONSTANT
            ∨ (g1.internalVariable v).mType = GeneratorInternalVariableType.STATE
            ∨ ∃ d, (g3.equation d).mVariable = some v
                ∧ (g3.equation d).mOrder ≠ MAX_SIZE_T
                ∧ (g3.equation d).mOrder < (g3.equation e).mOrder)
        ∧ (∀ v ∈ (g.equation e).mOdeVariables, v ≠ p →
            (g1.internalVariable v).mType = GeneratorInternalVariableType.VARIABLE_OF_INTEGRATION
            ∨ ((g1.internalVariable v).mType = GeneratorInternalVariableType.STATE
              ∧ ∃ d, (g3.equation d).mVariable = some v
                  ∧ (g3.equation d).mType = GeneratorEquationType.RATE
                  ∧ (g3.equation d).mOrder ≠ MAX_SIZE_T
                  ∧ (g3.equation d).mOrder < (g3.equation e).mOrder)) := by
  intro e he
  unfold processModel at h
  simp only [Option.bind_eq_some] at h
  obtain ⟨g2, h2, h3⟩ := h
  obtain ⟨hfield, _, _⟩ := finaliseModel_fields m num g2 g3 h3
  have he2 : (g2.equation e).mOrder ≠ MAX_SIZE_T := by rw [← (hfield e).1]; exact he
  obtain ⟨p, hp, hv, hov⟩ := analyseModel_known m num.isOne g g1 g2 hb hpre hode hsize h2 e he2
  obtain ⟨_, _, hty, _⟩ := enterResolution_entryFacts m num.isOne g g1 hb hpre
    (fun e => hode.equation_rates e)
  refine ⟨p, by rw [(hfield e).2.2.2.1]; exact hp, ?_, ?_⟩
  · intro v hv0 hne
    rcases hv v hv0 hne with h1 | h1 | h1 | ⟨d, h4, h5, h6⟩
    · rw [hty] at h1; exact Or.inl h1
    · rw [hty] at h1; exact Or.inr (Or.inl h1)
    · rw [hty] at h1; exact Or.inr (Or.inr (Or.inl h1))
    · refine Or.inr (Or.inr (Or.inr ⟨d, ?_, ?_, ?_⟩))
      · rw [(hfield d).2.2.2.1]; exact h4
      · rw [(hfield d).1]; exact h5
      · rw [(hfield d).1, (hfield e).1]; exact h6 he2
  · intro v hv0 hne
    rcases hov v hv0 hne with h1 | ⟨h1, d, h4, ht, h5, h6⟩
    · rw [hty] at h1; exact Or.inl h1
    · rw [hty] at h1
      refine Or.inr ⟨h1, d, ?_, ?_, ?_, ?_⟩
      · rw [(hfield d).2.2.2.1]; exact h4
      · rw [(hfield d).2.2.1]; exact ht
      · rw [(hfield d).1]; exact h5
      · rw [(hfield d).1, (hfield e).1]; exact h6 he2

/-- C1, as amended, at the model of the equations `dx/dtime = a`, `a = k*x`
and `k = 2`: the hypotheses hold, and so does the conclusion. -/
theorem processModel_order_after_known_witness :
    (Built StateBased.generator
      ∧ prePass StateBased.model DependentEqns.numerics.isOne
          (resetResults StateBased.generator) = some StateBased.prePassed
      ∧ RatesTagged StateBased.generator StateBased.prePassed
      ∧ StateBased.prePassed.mInternalVariables.length
          + StateBased.generator.equationStore.length ≤ MAX_SIZE_T
      ∧ processModel StateBased.model DependentEqns.numerics StateBased.generator
          = some StateBased.processed)
    ∧ ∀ e, (StateBased.processed.equation e).mOrder ≠ MAX_SIZE_T →
      ∃ p, (StateBased.processed.equation e).mVariable = some p
        ∧ (∀ v ∈ (StateBased.generator.equation e).mVariables, v ≠ p →
            (StateBased.prePassed.internalVariable v).mType
              = GeneratorInternalVariableType.VARIABLE_OF_INTEGRATION
            ∨ (StateBased.prePassed.internalVariable v).mType
              = GeneratorInternalVariableType.CONSTANT
            ∨ (StateBased.prePassed.internalVariable v).mType
              = GeneratorInternalVariableType.STATE
            ∨ ∃ d, (StateBased.processed.equation d).mVariable = some v
                ∧ (StateBased.processed.equation d).mOrder ≠ MAX_SIZE_T
                ∧ (StateBased.processed.equation d).mOrder
                    < (StateBased.processed.equation e).mOrder)
        ∧ (∀ v ∈ (StateBased.generator.equation e).mOdeVariables, v ≠ p →
            (StateBased.prePassed.internalVariable v).mType
              = GeneratorInternalVariableType.VARIABLE_OF_INTEGRATION
            ∨ ((StateBased.prePassed.internalVariable v).mType
                = GeneratorInternalVariableType.STATE
              ∧ ∃ d, (StateBased.processed.equation d).mVariable = some v
                  ∧ (StateBased.processed.equation d).mType = GeneratorEquationType.RATE
                  ∧ (StateBased.processed.equation d).mOrder ≠ MAX_SIZE_T
                  ∧ (StateBased.processed.equation d).mOrder
                      < (StateBased.processed.equation e).mOrder)) :=
  ⟨⟨by decide, by decide, by decide, by decide, by decide⟩,
    processModel_order_after_known StateBased.model DependentEqns.numerics
      StateBased.generator StateBased.prePassed StateBased.processed
      (by decide) (by decide) (by decide) (by decide) (by decide)⟩

/-- C1, as stated, fails at the model of the equations `dx/dt = 1` and
`y = dt/dt`: `processModel` returns and has given an order to the second
equation, recorded as computing `y`; the equation references the rate of `t`,
which is not `y`; `t` is tagged as the variable of integration, not as a
state, and no equation computes it. -/
theorem processModel_order_with_rate_of_voi :
    Built VoiRate.generator
    ∧ prePass VoiRate.model DependentEqns.numerics.isOne (resetResults VoiRate.generator)
        = some VoiRate.prePassed
    ∧ RatesTagged VoiRate.generator VoiRate.prePassed
    ∧ processModel VoiRate.model DependentEqns.numerics VoiRate.generator
        = some VoiRate.processed
    ∧ (VoiRate.processed.equation 1).mOrder ≠ MAX_SIZE_T
    ∧ (VoiRate.processed.equation 1).mVariable = some 1
    ∧ 2 ∈ (VoiRate.generator.equation 1).mOdeVariables
    ∧ (VoiRate.prePassed.internalVariable 2).mType
        = GeneratorInternalVariableType.VARIABLE_OF_INTEGRATION
    ∧ (VoiRate.processed.internalVariable 2).mType
        = GeneratorInternalVariableType.VARIABLE_OF_INTEGRATION
    ∧ ∀ x ∈ VoiRate.processed.equationStore, x.mVariable ≠ some 2 := by
  decide

/-! ## Progress of the resolution loop on a listed generator -/

theorem nodup_snd_fst_eq (L : List (Nat × Nat)) (h : (L.map Prod.snd).Nodup)
    (a b v : Nat) (ha : (a, v) ∈ L) (hb : (b, v) ∈ L) : a = b := by
  have := List.inj_on_of_nodup_map h ha hb rfl
  exact congrArg Prod.fst this

theorem nodup_fst_snd_eq (L : List (Nat × Nat)) (h : (L.map Prod.fst).Nodup)
    (e a b : Nat) (ha : (e, a) ∈ L) (hb : (e, b) ∈ L) : a = b := by
  have := List.inj_on_of_nodup_map h ha hb rfl
  exact congrArg Prod.snd this

theorem length_eq_one_of_all_eq (l : List Nat) (v : Nat) (hn : l.Nodup)
    (hall : ∀ w ∈ l, w = v) (hv : v ∈ l) : l = [v] := by
  rcases l with _ | ⟨a, l⟩
  · cases hv
  · have ha : a = v := hall a (List.mem_cons_self _ _)
    subst ha
    rcases l with _ | ⟨b, l⟩
    · rfl
    · exfalso
      have hb : b = a := hall b (List.mem_cons_of_mem _ (List.mem_cons_self _ _))
      subst hb
      simp at hn

theorem filter_eq_nil_of_all {α : Type} (l : List α) (p : α → Bool)
    (h : ∀ w ∈ l, p w = false) : l.filter p = [] := by
  rw [List.filter_eq_nil_iff]
  intro a ha
  rw [h a ha]
  simp

/-- When `check` gives an order, it gives its equation, its index and its tag
to the variable that is left, if this is a record of the registry. -/
theorem check_record_sole (hEq : Variable → Variable → Bool) (g : GeneratorImpl)
    (self : Nat) (c : Counters) (hr : (check hEq g self c).2.2 = true)
    (hlt : soleVariable (updateTracking g (g.equation self)) < g.variableStore.length) :
    ((check hEq g self c).1.internalVariable
        (soleVariable (updateTracking g (g.equation self)))).mEquation = some self
    ∧ ((check hEq g self c).1.internalVariable
        (soleVariable (updateTracking g (g.equation self)))).mType = resolvedType hEq g self := by
  rw [check_result_iff hEq g self c hr]
  unfold checkResolved
  dsimp only
  rw [GeneratorImpl.internalVariable_setEquation,
    GeneratorImpl.internalVariable_setInternalVariable, if_pos ⟨rfl, hlt⟩]
  exact ⟨rfl, rfl⟩

/-- The effect of `check` on a record when the equation is no overconstraint:
the record keeps its equation, its index and its tag, or it is the record of
the variable that is left. -/
theorem check_record_plain (hEq : Variable → Variable → Bool) (g : GeneratorImpl)
    (self : Nat) (c : Counters) (q : Nat)
    (hno : (g.equation self).mOrder = MAX_SIZE_T → isOverconstraint g (g.equation self) = false) :
    (((check hEq g self c).1.internalVariable q).mEquation = (g.internalVariable q).mEquation
      ∧ ((check hEq g self c).1.internalVariable q).mIndex = (g.internalVariable q).mIndex
      ∧ ((check hEq g self c).1.internalVariable q).mType = (g.internalVariable q).mType)
    ∨ ((check hEq g self c).2.2 = true
      ∧ q = soleVariable (updateTracking g (g.equation self))
      ∧ ((check hEq g self c).1.internalVariable q).mEquation = some self
      ∧ ((check hEq g self c).1.internalVariable q).mType = resolvedType hEq g self) := by
  revert hno
  apply check_elim hEq g self c (fun r =>
    ((g.equation self).mOrder = MAX_SIZE_T → isOverconstraint g (g.equation self) = false) →
    ((r.1.internalVariable q).mEquation = (g.internalVariable q).mEquation
      ∧ (r.1.internalVariable q).mIndex = (g.internalVariable q).mIndex
      ∧ (r.1.internalVariable q).mType = (g.internalVariable q).mType)
    ∨ (r.2.2 = true
      ∧ q = soleVariable (updateTracking g (g.equation self))
      ∧ (r.1.internalVariable q).mEquation = some self
      ∧ (r.1.internalVariable q).mType = resolvedType hEq g self))
  · intro _ _; exact Or.inl ⟨rfl, rfl, rfl⟩
  · intro c1 c2 hno
    rw [hno c1] at c2; cases c2
  · intro _ _ _ _; exact Or.inl ⟨rfl, rfl, rfl⟩
  · intro _ _ _ c4 _
    left
    rw [GeneratorImpl.internalVariable_setEquation,
      GeneratorImpl.internalVariable_setInternalVariable]
    split_ifs with hc
    · obtain ⟨rfl, _⟩ := hc
      have hf := updateVariable_fields hEq (updateTracking g (g.equation self))
        (g.internalVariable (soleVariable (updateTracking g (g.equation self))))
      refine ⟨hf.2.1, hf.1, ?_⟩
      rw [hf.2.2]
      split_ifs with hu
      · exfalso
        rw [hf.2.2, if_pos hu] at c4
        rcases computedType_cases (updateTracking g (g.equation self)) with h1 | h1 | h1 <;>
          rw [h1] at c4 <;> simp [isComputable] at c4
      · rfl
    · exact ⟨rfl, rfl, rfl⟩
  · intro _ _ _ _ _
    unfold checkResolved
    dsimp only
    rw [GeneratorImpl.internalVariable_setEquation,
      GeneratorImpl.internalVariable_setInternalVariable]
    split_ifs with hc
    · obtain ⟨rfl, _⟩ := hc
      exact Or.inr ⟨rfl, rfl, rfl, rfl⟩
    · exact Or.inl ⟨rfl, rfl, rfl⟩

/-- The variable of a listed equation without order is not known. -/
theorem pending_unknown (g0 g : GeneratorImpl) (c : Counters) (L : List (Nat × Nat))
    (hE : EntryFacts g0) (hk : KnowInv g0 g c) (hp : ProperInv g0 g L) (e v : Nat)
    (hL : (e, v) ∈ L) (hun : (g.equation e).mOrder = MAX_SIZE_T) :
    (g.internalVariable v).mIndex = MAX_SIZE_T
    ∧ (((g0.internalVariable v).mType = GeneratorInternalVariableType.UNKNOWN
        ∧ (g.internalVariable v).mType = GeneratorInternalVariableType.UNKNOWN
        ∧ v ∈ (g.equation e).mVariables ∧ knownVariable g v = false)
      ∨ ((g0.internalVariable v).mType = GeneratorInternalVariableType.STATE
        ∧ (g.internalVariable v).mType = GeneratorInternalVariableType.STATE
        ∧ v ∈ (g.equation e).mOdeVariables ∧ knownOdeVariable g v = false)) := by
  obtain ⟨hnone, _, _, _, _, htr⟩ := hp.pending e v hL hun
  have hty := hp.plain v hnone
  have hidx0 : (g0.internalVariable v).mIndex = MAX_SIZE_T := by
    by_contra hne
    have hc := hE.index v hne
    rcases htr with ⟨h1, _⟩ | ⟨h1, _⟩ <;> rw [hc] at h1 <;> cases h1
  have hidx : (g.internalVariable v).mIndex = MAX_SIZE_T := by
    rw [(hk.untouched v hnone).1]; exact hidx0
  refine ⟨hidx, ?_⟩
  rcases htr with ⟨h1, h2⟩ | ⟨h1, h2⟩
  · left
    refine ⟨h1, by rw [hty]; exact h1, h2, ?_⟩
    rw [← Bool.not_eq_true, knownVariable_iff, hidx, hty, h1]
    simp
  · right
    refine ⟨h1, by rw [hty]; exact h1, h2, ?_⟩
    rw [← Bool.not_eq_true, knownOdeVariable_iff, hidx, hty, h1]
    simp

/-- A listed equation without order is no overconstraint. -/
theorem pending_not_overconstraint (g0 g : GeneratorImpl) (c : Counters)
    (L : List (Nat × Nat)) (hE : EntryFacts g0) (hk : KnowInv g0 g c) (hp : ProperInv g0 g L)
    (e v : Nat) (hL : (e, v) ∈ L) (hun : (g.equation e).mOrder = MAX_SIZE_T) :
    isOverconstraint g (g.equation e) = false := by
  obtain ⟨hidx, htr⟩ := pending_unknown g0 g c L hE hk hp e v hL hun
  rw [← Bool.not_eq_true]
  intro ho
  unfold isOverconstraint at ho
  simp only [Bool.and_eq_true, decide_eq_true_eq] at ho
  obtain ⟨⟨⟨hsize, hi⟩, _⟩, _⟩ := ho
  have hsole : soleVariable (g.equation e) = v := by
    rcases soleVariable_spec _ hsize with ⟨h1, h2⟩ | ⟨h1, h2⟩
    · rcases htr with ⟨_, _, h3, _⟩ | ⟨_, _, h3, _⟩
      · rw [h1] at h3; exact (List.mem_singleton.1 h3).symm
      · rw [h2] at h3; cases h3
    · rcases htr with ⟨_, _, h3, _⟩ | ⟨_, _, h3, _⟩
      · rw [h1] at h3; cases h3
      · rw [h2] at h3; exact (List.mem_singleton.1 h3).symm
  rw [hsole] at hi
  exact hi hidx

/-- The variable that is left in a listed equation is its variable. -/
theorem pending_sole (g0 g : GeneratorImpl) (c : Counters) (L : List (Nat × Nat))
    (hE : EntryFacts g0) (hk : KnowInv g0 g c) (hp : ProperInv g0 g L) (e v : Nat)
    (hL : (e, v) ∈ L) (hun : (g.equation e).mOrder = MAX_SIZE_T)
    (hsize : (updateTracking g (g.equation e)).mVariables.length
      + (updateTracking g (g.equation e)).mOdeVariables.length = 1) :
    soleVariable (updateTracking g (g.equation e)) = v := by
  obtain ⟨_, htr⟩ := pending_unknown g0 g c L hE hk hp e v hL hun
  have hf := updateTracking_fields g (g.equation e)
  rcases htr with ⟨_, _, h3, h4⟩ | ⟨_, _, h3, h4⟩
  · have hv : v ∈ (updateTracking g (g.equation e)).mVariables := by
      rw [hf.2.2.2.2.1, List.mem_filter]
      exact ⟨h3, by rw [h4]; rfl⟩
    rcases soleVariable_spec _ hsize with ⟨h1, _⟩ | ⟨h1, _⟩
    · rw [h1] at hv; exact (List.mem_singleton.1 hv).symm
    · rw [h1] at hv; cases hv
  · have hv : v ∈ (updateTracking g (g.equation e)).mOdeVariables := by
      rw [hf.2.2.2.2.2, List.mem_filter]
      exact ⟨h3, by rw [h4]; rfl⟩
    rcases soleVariable_spec _ hsize with ⟨_, h1⟩ | ⟨_, h1⟩
    · rw [h1] at hv; cases hv
    · rw [h1] at hv; exact (List.mem_singleton.1 hv).symm

/-- The step of `check` keeps the invariant of a listed generator. -/
theorem check_properInv (hEq : Variable → Variable → Bool) (g0 g : GeneratorImpl)
    (self : Nat) (c : Counters) (L : List (Nat × Nat)) (hE : EntryFacts g0)
    (hF : ListFacts g0 g.mEquations L) (hself : self ∈ g.mEquations)
    (ho : OrderInv g c) (hk : KnowInv g0 g c) (hp : ProperInv g0 g L) :
    ProperInv g0 (check hEq g self c).1 L := by
  obtain ⟨vs, hLs⟩ := hF.listed self hself
  have hno : (g.equation self).mOrder = MAX_SIZE_T →
      isOverconstraint g (g.equation self) = false :=
    fun hun => pending_not_overconstraint g0 g c L hE hk hp self vs hLs hun
  have hsole : (check hEq g self c).2.2 = true →
      soleVariable (updateTracking g (g.equation self)) = vs := by
    intro hr
    exact pending_sole g0 g c L hE hk hp self vs hLs (check_true_unordered hEq g self c hr)
      (check_true_facts hEq g self c hr).1
  have hmono : ∀ e, ((check hEq g self c).1.equation e).mOrder = MAX_SIZE_T →
      (g.equation e).mOrder = MAX_SIZE_T := by
    intro e he
    by_contra hne
    rw [check_keeps_ordered hEq g self c e hne] at he
    exact hne he
  refine ⟨?_, ?_, ?_, ?_, ?_⟩
  · rw [(check_storeLength hEq g self c).2]; exact hp.vlen
  · intro q hq
    rcases check_record_plain hEq g self c q hno with ⟨h1, _, h3⟩ | ⟨_, _, h1, _⟩
    · rw [h1] at hq
      rw [h3]
      exact hp.plain q hq
    · rw [h1] at hq; cases hq
  · intro q d hq
    rcases check_record_plain hEq g self c q hno with ⟨h1, _, h3⟩ | ⟨hr, hqs, h1, h3⟩
    · rw [h1] at hq
      rw [h3]
      exact hp.owned q d hq
    · rw [h1] at hq
      simp only [Option.some.injEq] at hq
      subst hq
      rw [hqs, hsole hr]
      refine ⟨hLs, ?_⟩
      rw [← hsole hr, ← hqs, h3]
      exact (check_true_facts hEq g self c hr).2.1
  · intro e v hL he
    have hun := hmono e he
    obtain ⟨hnone, hn1, hn2, hs1, hs2, htr⟩ := hp.pending e v hL hun
    obtain ⟨_, hunk⟩ := pending_unknown g0 g c L hE hk hp e v hL hun
    have hnone' : ((check hEq g self c).1.internalVariable v).mEquation = none := by
      rcases check_record_plain hEq g self c v hno with ⟨h1, _, _⟩ | ⟨hr, hqs, _, _⟩
      · rw [h1]; exact hnone
      · exfalso
        rw [hsole hr] at hqs
        subst hqs
        have hes := nodup_snd_fst_eq L hF.nodupSnd e self v hL hLs
        subst hes
        have h4 := check_mOrder hEq g e e c
        simp only [hr, and_self, if_true] at h4
        rw [he] at h4
        have hin := check_true_inRange hEq g e c hr
        have hpos : 1 ≤ unorderedStored g := by
          unfold unorderedStored
          exact List.countP_pos_iff.2 ⟨e, List.mem_range.2 hin, by simpa using hun⟩
        have hkk : handedOut c.equationOrder < MAX_SIZE_T := by
          have := ho.room; have := ho.len; omega
        rw [sizeIncr_eq_handedOut c.equationOrder hkk ho.counter] at h4
        omega
    refine ⟨hnone', ?_⟩
    rcases check_equation hEq g self c e with h3 | ⟨rfl, _, hv, hov, _⟩
    · rw [h3]; exact ⟨hn1, hn2, hs1, hs2, htr⟩
    · rw [hv, hov]
      refine ⟨hn1.filter _, hn2.filter _, fun w hw => hs1 w (List.mem_of_mem_filter hw),
        fun w hw => hs2 w (List.mem_of_mem_filter hw), ?_⟩
      rcases hunk with ⟨h1, _, h3, h4⟩ | ⟨h1, _, h3, h4⟩
      · left
        exact ⟨h1, by rw [List.mem_filter]; exact ⟨h3, by rw [h4]; rfl⟩⟩
      · right
        exact ⟨h1, by rw [List.mem_filter]; exact ⟨h3, by rw [h4]; rfl⟩⟩
  · intro e v hL he
    by_cases hold : (g.equation e).mOrder = MAX_SIZE_T
    · rcases check_new_order hEq g self c ho e he with ⟨h1, _⟩ | ⟨rfl, _, hr, _⟩
      · exact absurd hold h1
      · have hv := nodup_fst_snd_eq L hF.nodupFst e v vs hL hLs
        subst hv
        have hs := hsole hr
        have hlt : soleVariable (updateTracking g (g.equation e)) < g.variableStore.length := by
          rw [hs, hp.vlen]; exact hF.record e v hL
        have := (check_record_sole hEq g e c hr hlt).1
        rw [hs] at this
        exact this
    · have hd := hp.done e v hL hold
      rcases check_record_plain hEq g self c v hno with ⟨h1, _, _⟩ | ⟨hr, hqs, h1, _⟩
      · rw [h1]; exact hd
      · rw [hsole hr] at hqs
        subst hqs
        have hes := nodup_snd_fst_eq L hF.nodupSnd e self v hL hLs
        subst hes
        exact h1

theorem known_of_equation (g0 g : GeneratorImpl) (c : Counters) (hk : KnowInv g0 g c)
    (w d : Nat) (h : (g.internalVariable w).mEquation = some d) :
    knownVariable g w = true ∧ knownOdeVariable g w = true := by
  have hi := (hk.computed w d h).2.1
  exact ⟨(knownVariable_iff g w).2 (Or.inl hi), (knownOdeVariable_iff g w).2 (Or.inl hi)⟩

theorem known_of_tag (g0 g : GeneratorImpl) (c : Counters) (L : List (Nat × Nat))
    (hk : KnowInv g0 g c) (hp : ProperInv g0 g L) (w : Nat)
    (ht : (g0.internalVariable w).mType = GeneratorInternalVariableType.VARIABLE_OF_INTEGRATION
      ∨ (g0.internalVariable w).mType = GeneratorInternalVariableType.CONSTANT
      ∨ (g0.internalVariable w).mType = GeneratorInternalVariableType.STATE) :
    knownVariable g w = true := by
  rcases hq : (g.internalVariable w).mEquation with _ | d
  · rw [knownVariable_iff, hp.plain w hq]
    rcases ht with h | h | h
    · exact Or.inr (Or.inl h)
    · exact Or.inr (Or.inr (Or.inr (Or.inl h)))
    · exact Or.inr (Or.inr (Or.inl h))
  · exact (known_of_equation g0 g c hk w d hq).1

theorem knownOde_of_tag (g0 g : GeneratorImpl) (c : Counters) (L : List (Nat × Nat))
    (hk : KnowInv g0 g c) (hp : ProperInv g0 g L) (w : Nat)
    (ht : (g0.internalVariable w).mType
      = GeneratorInternalVariableType.VARIABLE_OF_INTEGRATION) :
    knownOdeVariable g w = true := by
  rcases hq : (g.internalVariable w).mEquation with _ | d
  · rw [knownOdeVariable_iff, hp.plain w hq]
    exact Or.inr ht
  · exact (known_of_equation g0 g c hk w d hq).2

theorem known_of_earlier (g0 g : GeneratorImpl) (c : Counters) (L : List (Nat × Nat))
    (hk : KnowInv g0 g c) (hp : ProperInv g0 g L) (i w : Nat) (hready : Ready g L i)
    (hw : w ∈ (L.take i).map Prod.snd) :
    knownVariable g w = true ∧ knownOdeVariable g w = true := by
  rw [List.mem_map] at hw
  obtain ⟨x, hx, rfl⟩ := hw
  have hd := hp.done x.1 x.2 (List.mem_of_mem_take hx) (hready x hx)
  exact known_of_equation g0 g c hk x.2 x.1 hd

theorem getD_mem_of_lt {α : Type} (l : List α) (i : Nat) (d : α) (h : i < l.length) :
    l.getD i d ∈ l := by
  rw [List.getD_eq_getElem?_getD, List.getElem?_eq_getElem h]
  exact List.getElem_mem h

/-- A listed equation without order gets one from `check` when the equations
listed before it have one. -/
theorem check_ready (hEq : Variable → Variable → Bool) (g0 g : GeneratorImpl)
    (c : Counters) (L : List (Nat × Nat)) (hE : EntryFacts g0)
    (hS : ∀ i, i < L.length →
      Solves g0 g0 ((L.take i).map Prod.snd) (L.getD i (0, 0)).1 (L.getD i (0, 0)).2)
    (hk : KnowInv g0 g c) (hp : ProperInv g0 g L)
    (i : Nat) (hi : i < L.length) (hready : Ready g L i)
    (hun : (g.equation (L.getD i (0, 0)).1).mOrder = MAX_SIZE_T) :
    (check hEq g (L.getD i (0, 0)).1 c).2.2 = true := by
  have hL : ((L.getD i (0, 0)).1, (L.getD i (0, 0)).2) ∈ L := getD_mem_of_lt L i (0, 0) hi
  obtain ⟨_, _, hvars, hode⟩ := hS i hi
  generalize (L.getD i (0, 0)).1 = e at hL hun hvars hode ⊢
  generalize (L.getD i (0, 0)).2 = v at hL hvars hode ⊢
  obtain ⟨_, hn1, hn2, hs1, hs2, _⟩ := hp.pending e v hL hun
  obtain ⟨_, hunk⟩ := pending_unknown g0 g c L hE hk hp e v hL hun
  have hno := pending_not_overconstraint g0 g c L hE hk hp e v hL hun
  have hf := updateTracking_fields g (g.equation e)
  have hkv : ∀ w ∈ (g.equation e).mVariables, w ≠ v → knownVariable g w = true := by
    intro w hw hne
    rcases hvars w (hs1 w hw) with h | h | h | h | h
    · exact absurd h hne
    · exact known_of_tag g0 g c L hk hp w (Or.inl h)
    · exact known_of_tag g0 g c L hk hp w (Or.inr (Or.inl h))
    · exact known_of_tag g0 g c L hk hp w (Or.inr (Or.inr h))
    · exact (known_of_earlier g0 g c L hk hp i w hready h).1
  have hsize : (updateTracking g (g.equation e)).mVariables.length
      + (updateTracking g (g.equation e)).mOdeVariables.length = 1 := by
    rw [hf.2.2.2.2.1, hf.2.2.2.2.2]
    rcases hunk with ⟨h1, _, h3, h4⟩ | ⟨h1, h1', h3, h4⟩
    · have hv1 : (g.equation e).mVariables.filter (fun v => !knownVariable g v) = [v] := by
        apply length_eq_one_of_all_eq _ v (hn1.filter _)
        · intro w hw
          rw [List.mem_filter] at hw
          by_contra hne
          rw [hkv w hw.1 hne] at hw
          exact absurd hw.2 (by simp)
        · rw [List.mem_filter]; exact ⟨h3, by rw [h4]; rfl⟩
      have hv2 : (g.equation e).mOdeVariables.filter (fun v => !knownOdeVariable g v) = [] := by
        apply filter_eq_nil_of_all
        intro w hw
        rcases hode w (hs2 w hw) with ⟨_, h⟩ | h | h
        · rw [h1] at h; cases h
        · rw [knownOde_of_tag g0 g c L hk hp w h]; rfl
        · rw [(known_of_earlier g0 g c L hk hp i w hready h).2]; rfl
      rw [hv1, hv2]; rfl
    · have hv1 : (g.equation e).mVariables.filter (fun v => !knownVariable g v) = [] := by
        apply filter_eq_nil_of_all
        intro w hw
        by_cases hne : w = v
        · subst hne
          rw [(knownVariable_iff g w).2 (Or.inr (Or.inr (Or.inl h1')))]; rfl
        · rw [hkv w hw hne]; rfl
      have hv2 : (g.equation e).mOdeVariables.filter (fun v => !knownOdeVariable g v)
          = [v] := by
        apply length_eq_one_of_all_eq _ v (hn2.filter _)
        · intro w hw
          rw [List.mem_filter] at hw
          rcases hode w (hs2 w hw.1) with ⟨h, _⟩ | h | h
          · exact h
          · rw [knownOde_of_tag g0 g c L hk hp w h] at hw
            exact absurd hw.2 (by simp)
          · rw [(known_of_earlier g0 g c L hk hp i w hready h).2] at hw
            exact absurd hw.2 (by simp)
        · rw [List.mem_filter]; exact ⟨h3, by rw [h4]; rfl⟩
      rw [hv1, hv2]; rfl
  have hsole := pending_sole g0 g c L hE hk hp e v hL hun hsize
  have hcomp : isComputable (updateVariable hEq (updateTracking g (g.equation e))
      (g.internalVariable (soleVariable (updateTracking g (g.equation e))))).mType = true := by
    rw [hsole, (updateVariable_fields hEq _ _).2.2, isComputable_iff]
    rcases hunk with ⟨_, h2, _, _⟩ | ⟨_, h2, _, _⟩
    · rw [if_pos h2]
      rcases computedType_cases (updateTracking g (g.equation e)) with h | h | h
      · exact Or.inr (Or.inl h)
      · exact Or.inr (Or.inr (Or.inl h))
      · exact Or.inr (Or.inr (Or.inr h))
    · rw [if_neg (by rw [h2]; decide)]
      exact Or.inl h2
  apply check_elim hEq g e c (fun r => r.2.2 = true)
  · intro h; exact absurd hun h
  · intro _ h; rw [hno] at h; cases h
  · intro _ _ h; exact absurd hsize h
  · intro _ _ _ h; rw [hcomp] at h; cases h
  · intro _ _ _ _; rfl

theorem check_listedInv (hEq : Variable → Variable → Bool) (g0 : GeneratorImpl) (M : List Nat)
    (L : List (Nat × Nat)) (hE : EntryFacts g0) (hF : ListFacts g0 M L)
    (g : GeneratorImpl) (c : Counters) (self : Nat) (hself : self ∈ g.mEquations)
    (h : ListedInv g0 M L g c) :
    ListedInv g0 M L (check hEq g self c).1 (check hEq g self c).2.1 := by
  obtain ⟨hM, ho, hk, hp⟩ := h
  refine ⟨by rw [check_mEquations]; exact hM, check_orderInv hEq g self c hself ho,
    check_knowInv hEq g0 g self c hE ho hk, ?_⟩
  exact check_properInv hEq g0 g self c L hE (by rw [hM]; exact hF) hself ho hk hp

theorem checkEquations_keeps_ordered (hEq : Variable → Variable → Bool) :
    ∀ (es : List Nat) (g : GeneratorImpl) (c : Counters) (r : Bool) (d : Nat),
      (g.equation d).mOrder ≠ MAX_SIZE_T →
      (checkEquations hEq es g c r).1.equation d = g.equation d
  | [], _, _, _, _, _ => rfl
  | e :: es, g, c, r, d, hd => by
    have h1 := check_keeps_ordered hEq g e c d hd
    simp only [checkEquations]
    rw [checkEquations_keeps_ordered hEq es _ _ _ d (by rw [h1]; exact hd), h1]

/-- A scan of the equations that makes no relevant check leaves no listed
equation without order among those that are ready. -/
theorem checkEquations_stuck (hEq : Variable → Variable → Bool) (g0 : GeneratorImpl)
    (M : List Nat) (L : List (Nat × Nat)) (hE : EntryFacts g0) (hF : ListFacts g0 M L)
    (hS : ∀ i, i < L.length →
      Solves g0 g0 ((L.take i).map Prod.snd) (L.getD i (0, 0)).1 (L.getD i (0, 0)).2) :
    ∀ (es : List Nat) (g : GeneratorImpl) (c : Counters) (r : Bool),
      ListedInv g0 M L g c → (∀ e ∈ es, e ∈ g.mEquations) →
      (checkEquations hEq es g c r).2.2 = false →
      r = false ∧ ∀ i, i < L.length → (L.getD i (0, 0)).1 ∈ es → Ready g L i →
        (g.equation (L.getD i (0, 0)).1).mOrder ≠ MAX_SIZE_T
  | [], _, _, r, _, _, h => ⟨h, fun _ _ hm => absurd hm (List.not_mem_nil _)⟩
  | e :: es, g, c, r, hinv, hmem, h => by
    have hstep := check_listedInv hEq g0 M L hE hF g c e (hmem e (List.mem_cons_self _ _)) hinv
    have hmem' : ∀ x ∈ es, x ∈ (check hEq g e c).1.mEquations := by
      intro x hx; rw [check_mEquations]; exact hmem x (List.mem_cons_of_mem _ hx)
    simp only [checkEquations] at h
    obtain ⟨hr, ih⟩ := checkEquations_stuck hEq g0 M L hE hF hS es _ _ _ hstep hmem' h
    rw [Bool.or_eq_false_iff] at hr
    refine ⟨hr.2, ?_⟩
    intro i hi hm hready hun
    have hsame : ∀ d, ((check hEq g e c).1.equation d).mOrder = (g.equation d).mOrder := by
      intro d
      rw [check_mOrder, hr.1]
      simp
    rcases List.mem_cons.1 hm with h1 | h1
    · have := check_ready hEq g0 g c L hE hS hinv.2.2.1 hinv.2.2.2 i hi hready hun
      rw [h1, hr.1] at this
      cases this
    · have hready' : Ready (check hEq g e c).1 L i := by
        intro x hx
        rw [hsame]
        exact hready x hx
      exact ih i hi h1 hready' (by rw [hsame]; exact hun)

theorem ready_of_all (g : GeneratorImpl) (L : List (Nat × Nat))
    (h : ∀ i, i < L.length → Ready g L i →
      (g.equation (L.getD i (0, 0)).1).mOrder ≠ MAX_SIZE_T) :
    ∀ i, i ≤ L.length → Ready g L i
  | 0, _ => by
    intro x hx
    simp at hx
  | i + 1, hi => by
    have ih := ready_of_all g L h i (by omega)
    have hlt : i < L.length := by omega
    have ho := h i hlt ih
    intro x hx
    rw [List.take_succ, List.getElem?_eq_getElem hlt] at hx
    simp only [Option.toList_some, List.mem_append, List.mem_singleton] at hx
    rcases hx with hx | hx
    · exact ih x hx
    · rw [List.getD_eq_getElem?_getD, List.getElem?_eq_getElem hlt] at ho
      rw [hx]
      exact ho

/-- When the resolution loop is left, the invariants hold and every listed
equation has an order. -/
theorem resolveEquations_listed (hEq : Variable → Variable → Bool) (g0 : GeneratorImpl)
    (M : List Nat) (L : List (Nat × Nat)) (hE : EntryFacts g0) (hF : ListFacts g0 M L)
    (hS : ∀ i, i < L.length →
      Solves g0 g0 ((L.take i).map Prod.snd) (L.getD i (0, 0)).1 (L.getD i (0, 0)).2)
    (hLM : ∀ e ∈ L.map Prod.fst, e ∈ M) :
    ∀ (fuel : Nat) (g : GeneratorImpl) (c : Counters) (r : GeneratorImpl × Counters),
      ListedInv g0 M L g c → resolveEquations hEq fuel g c = some r →
      ListedInv g0 M L r.1 r.2 ∧ ∀ x ∈ L, (r.1.equation x.1).mOrder ≠ MAX_SIZE_T
  | 0, _, _, _, _, h => by simp [resolveEquations] at h
  | fuel + 1, g, c, r, hinv, h => by
    unfold resolveEquations at h
    have hs := checkEquations_invariant hEq (ListedInv g0 M L)
      (fun g c self hs hi => check_listedInv hEq g0 M L hE hF g c self hs hi)
      g.mEquations g c false (fun _ h => h) hinv
    dsimp only at h
    split_ifs at h with hr
    · simp only [Option.some.injEq] at h
      subst h
      refine ⟨hs, ?_⟩
      have hr' : (checkEquations hEq g.mEquations g c false).2.2 = false := by
        simpa using hr
      obtain ⟨_, hstuck⟩ := checkEquations_stuck hEq g0 M L hE hF hS g.mEquations g c false
        hinv (fun _ h => h) hr'
      have hall := ready_of_all g L (fun i hi hready => hstuck i hi (by
        rw [hinv.1]
        apply hLM
        rw [List.mem_map]
        exact ⟨_, getD_mem_of_lt L i (0, 0) hi, rfl⟩) hready) L.length (le_refl _)
      intro x hx
      have hx' : x ∈ L.take L.length := by rw [List.take_length]; exact hx
      have := hall x hx'
      dsimp only
      rw [checkEquations_keeps_ordered hEq _ _ _ _ _ this]
      exact this
    · exact resolveEquations_listed hEq g0 M L hE hF hS hLM fuel _ _ r hs h

theorem indexConstants_variableStore :
    ∀ (ps : List Nat) (g : GeneratorImpl) (vi : Nat),
      (indexConstants ps g vi).1.variableStore.length = g.variableStore.length
  | [], _, _ => rfl
  | p :: ps, g, vi => by
    unfold indexConstants
    split_ifs
    · rw [indexConstants_variableStore ps]
      simp [GeneratorImpl.setInternalVariable]
    · exact indexConstants_variableStore ps g vi

theorem enterResolution_registry (g : GeneratorImpl) :
    (enterResolution g).1.variableStore.length = g.variableStore.length
    ∧ (enterResolution g).1.mInternalVariables.Perm g.mInternalVariables := by
  unfold enterResolution
  dsimp only
  refine ⟨indexConstants_variableStore _ _ _, ?_⟩
  rw [(indexConstants_sameResults _ _ _).1.2.1]
  exact listSort_perm _ _

theorem mem_getD_of_mem {α : Type} (l : List α) (x d : α) (h : x ∈ l) :
    ∃ i, i < l.length ∧ l.getD i d = x := by
  obtain ⟨n, hn, hx⟩ := List.mem_iff_getElem.1 h
  refine ⟨n, hn, ?_⟩
  rw [List.getD_eq_getElem?_getD, List.getElem?_eq_getElem hn]
  exact hx

/-- What the resolution loop needs of a listed generator, in terms of the
state in which the loop is entered. -/
theorem enterResolution_listed (m : Model) (isOne : String → Bool) (g g1 : GeneratorImpl)
    (L : List (Nat × Nat))
    (hb : Built g) (hpre : prePass m isOne (resetResults g) = some g1)
    (hode : RatesTagged g g1)
    (hsize : g1.mInternalVariables.length + g.equationStore.length ≤ MAX_SIZE_T)
    (hL : Listed g g1 L) :
    EntryFacts (enterResolution g1).1
    ∧ ListFacts (enterResolution g1).1 g.mEquations L
    ∧ (∀ i, i < L.length → Solves (enterResolution g1).1 (enterResolution g1).1
        ((L.take i).map Prod.snd) (L.getD i (0, 0)).1 (L.getD i (0, 0)).2)
    ∧ ListedInv (enterResolution g1).1 g.mEquations L (enterResolution g1).1
        (enterResolution g1).2 := by
  obtain ⟨hE, heq0, hty, hnone⟩ := enterResolution_entryFacts m isOne g g1 hb hpre
    (fun e => hode.equation_rates e)
  obtain ⟨hn1, hn2, hML, hLM, _, hsol⟩ := hL
  have hvl := (enterResolution_registry g1).1
  have hpf := prePass_frame m isOne _ _ hpre
  have hf := enterResolution_frame g1
  have hS : ∀ i, i < L.length → Solves (enterResolution g1).1 (enterResolution g1).1
      ((L.take i).map Prod.snd) (L.getD i (0, 0)).1 (L.getD i (0, 0)).2 := by
    intro i hi
    obtain ⟨a, b, c, d⟩ := hsol i hi
    refine ⟨by rw [hvl]; exact a, ?_, ?_, ?_⟩
    · rw [hty, heq0]; exact b
    · intro w hw
      rw [heq0] at hw
      rw [hty]
      exact c w hw
    · intro w hw
      rw [heq0] at hw
      rw [hty, hty]
      exact d w hw
  have hF : ListFacts (enterResolution g1).1 g.mEquations L := by
    refine ⟨hn1, hn2, ?_, ?_⟩
    · intro e he
      have := hML e he
      rw [List.mem_map] at this
      obtain ⟨x, hx, rfl⟩ := this
      exact ⟨x.2, hx⟩
    · intro e v hev
      obtain ⟨i, hi, hx⟩ := mem_getD_of_mem L (e, v) (0, 0) hev
      have := (hS i hi).1
      rw [hx] at this
      exact this
  refine ⟨hE, hF, hS, ?_, enterResolution_orderInv m isOne g g1 hb hpre,
    enterResolution_knowInv m isOne g g1 hb hpre hsize, ?_⟩
  · rw [hf.2.1, hpf.2.1]; rfl
  · refine ⟨rfl, fun _ _ => rfl, ?_, ?_, ?_⟩
    · intro p d hp
      rw [hnone] at hp; cases hp
    · intro e v hev _
      obtain ⟨i, hi, hx⟩ := mem_getD_of_mem L (e, v) (0, 0) hev
      have hs := hS i hi
      rw [hx] at hs
      refine ⟨hnone v, ?_, ?_, fun _ h => h, fun _ h => h, hs.2.1⟩
      · rw [heq0]; exact (hb.equation_fresh e).2.2.2.2.1
      · rw [heq0]; exact (hb.equation_fresh e).2.2.2.2.2
    · intro e v _ he
      rw [heq0] at he
      exact absurd (hb.equation_fresh e).1 he

theorem nodup_length_le_of_lt (l : List Nat) (n : Nat) (hn : l.Nodup) (h : ∀ x ∈ l, x < n) :
    l.length ≤ n := by
  have hsub : l ⊆ List.range n := fun x hx => List.mem_range.2 (h x hx)
  have := (List.subperm_of_subset hn hsub).length_le
  simpa using this

/-- The equations of a listed generator are equations of the store, so that
their number fits in a `size_t`. -/
theorem Listed.equations_length_le {g g1 : GeneratorImpl} {L : List (Nat × Nat)} (hb : Built g)
    (hL : Listed g g1 L) : g.mEquations.length ≤ MAX_SIZE_T := by
  obtain ⟨_, _, hML, _, _, hsol⟩ := hL
  refine le_trans (nodup_length_le_of_lt _ g.equationStore.length hb.1 ?_) hb.2.1
  intro e he
  have := hML e he
  rw [List.mem_map] at this
  obtain ⟨x, hx, rfl⟩ := this
  obtain ⟨i, hi, hxi⟩ := mem_getD_of_mem L x (0, 0) hx
  have hs := (hsol i hi).2.1
  rw [hxi] at hs
  by_contra hlt
  rw [equation_of_not_lt g x.1 hlt] at hs
  rcases hs with ⟨_, h⟩ | ⟨_, h⟩ <;> cases h

/-! ## C2: the equations that can be listed are all resolved -/

/-- C2, as amended: for a generator `g` as the processing of the components
leaves it, pre-passed into `g1` without any issue (the lists of
differentiated variables agreeing with the trees, and the numbers of records
and of equations fitting together in a `size_t`), whose equations can be
listed with distinct variables, tagged `UNKNOWN` or `STATE` by the pre-pass,
that are all the records but the variable of integration and the constants,
so that every equation references its variable (its rate for a state) and
otherwise only the variable of integration, constants, states and variables
listed before, then, whatever the order of `mEquations`, the analysis of
`processModel` ends, gives every equation an order, leaves no record
`UNKNOWN`, `SHOULD_BE_STATE` or `OVERCONSTRAINED`, and sets the type of the
model to `ODE` or `ALGEBRAIC`, or leaves it `UNKNOWN` when there is no record
at all; `processModel` returns with this type and these orders whenever it
returns. -/
theorem processModel_resolves_listed {F : Type} (m : Model) (num : Numerics F)
    (g g1 : GeneratorImpl) (L : List (Nat × Nat))
    (hb : Built g) (hpre : prePass m num.isOne (resetResults g) = some g1)
    (herr : g1.errorCount = 0) (hode : RatesTagged g g1)
    (hsize : g1.mInternalVariables.length + g.equationStore.length ≤ MAX_SIZE_T)
    (hL : Listed g g1 L) :
    ∃ g2, analyseModel m num.isOne g = some g2
      ∧ (∀ e ∈ g2.mEquations, (g2.equation e).mOrder ≠ MAX_SIZE_T)
      ∧ (∀ p ∈ g2.mInternalVariables,
          (g2.internalVariable p).mType ≠ GeneratorInternalVariableType.UNKNOWN
          ∧ (g2.internalVariable p).mType ≠ GeneratorInternalVariableType.SHOULD_BE_STATE
          ∧ (g2.internalVariable p).mType ≠ GeneratorInternalVariableType.OVERCONSTRAINED)
      ∧ (g2.mModelType = ModelType.ODE ∨ g2.mModelType = ModelType.ALGEBRAIC
        ∨ (g2.mModelType = ModelType.UNKNOWN ∧ g2.mInternalVariables = []))
      ∧ ∀ g3, processModel m num g = some g3 →
          g3.mModelType = g2.mModelType
          ∧ ∀ e ∈ g3.mEquations, (g3.equation e).mOrder ≠ MAX_SIZE_T := by
  have hpf := prePass_frame m num.isOne _ _ hpre
  have hM1 : g1.mEquations = g.mEquations := by rw [hpf.2.1]; rfl
  have hlen1 : g1.mEquations.length ≤ MAX_SIZE_T := by rw [hM1]; exact hL.equations_length_le hb
  obtain ⟨r, hr, hc⟩ := classifyModel_eq_some m g1 herr hlen1
  have hana : analyseModel m num.isOne g
      = some (determineModelType (reportInvalidVariables r.1.mInternalVariables r.1)) := by
    unfold analyseModel
    rw [hpre]
    exact hc
  obtain ⟨hE, hF, hS, hinv0⟩ := enterResolution_listed m num.isOne g g1 L hb hpre hode hsize hL
  obtain ⟨⟨hMr, _, hk, hp⟩, hall⟩ := resolveEquations_listed m.hasEquivalentVariable _ _ L hE hF
    hS hL.2.2.2.1 _ _ _ r hinv0 hr
  obtain ⟨_, _, hty, _⟩ := enterResolution_entryFacts m num.isOne g g1 hb hpre
    (fun e => hode.equation_rates e)
  have hs := resolveEquations_sameResults _ _ _ _ r hr
  have hf := enterResolution_frame g1
  have hrep := reportInvalidVariables_frame r.1.mInternalVariables r.1
  have hdet := determineModelType_frame (reportInvalidVariables r.1.mInternalVariables r.1)
  have hste : ∀ d, (determineModelType
      (reportInvalidVariables r.1.mInternalVariables r.1)).equation d = r.1.equation d := by
    intro d
    unfold GeneratorImpl.equation
    rw [hdet.2.2.2.2, hrep.2.2.2.2.2]
  have hstv : ∀ p, (determineModelType
      (reportInvalidVariables r.1.mInternalVariables r.1)).internalVariable p
      = r.1.internalVariable p := by
    intro p
    unfold GeneratorImpl.internalVariable
    rw [hdet.2.2.2.1, hrep.2.2.2.2.1]
  have hme : (determineModelType
      (reportInvalidVariables r.1.mInternalVariables r.1)).mEquations = g.mEquations := by
    rw [hdet.2.1, hrep.2.2.1, hMr]
  have hmv : (determineModelType
      (reportInvalidVariables r.1.mInternalVariables r.1)).mInternalVariables
      = r.1.mInternalVariables := by
    rw [hdet.1, hrep.2.1]
  have hord : ∀ e ∈ g.mEquations, (r.1.equation e).mOrder ≠ MAX_SIZE_T := by
    intro e he
    obtain ⟨v, hv⟩ := hF.listed e he
    exact hall (e, v) hv
  have htags : ∀ p ∈ r.1.mInternalVariables,
      (r.1.internalVariable p).mType ≠ GeneratorInternalVariableType.UNKNOWN
      ∧ (r.1.internalVariable p).mType ≠ GeneratorInternalVariableType.SHOULD_BE_STATE
      ∧ (r.1.internalVariable p).mType ≠ GeneratorInternalVariableType.OVERCONSTRAINED := by
    intro p hpm
    rcases hq : (r.1.internalVariable p).mEquation with _ | d
    · have hp1 : p ∈ g1.mInternalVariables := by
        rw [hs.2.1] at hpm
        exact (enterResolution_registry g1).2.mem_iff.1 hpm
      rw [hp.plain p hq, hty]
      rcases hL.2.2.2.2.1 p hp1 with h | h | h
      · rw [h]; exact ⟨by decide, by decide, by decide⟩
      · rw [h]; exact ⟨by decide, by decide, by decide⟩
      · exfalso
        rw [List.mem_map] at h
        obtain ⟨x, hx, rfl⟩ := h
        have := hp.done x.1 x.2 hx (hall x hx)
        rw [hq] at this
        cases this
    · have hcomp := (hp.owned p d hq).2
      rw [isComputable_iff] at hcomp
      rcases hcomp with h | h | h | h <;> rw [h] <;> exact ⟨by decide, by decide, by decide⟩
  refine ⟨_, hana, ?_, ?_, ?_, ?_⟩
  · intro e he
    rw [hme] at he
    rw [hste]
    exact hord e he
  · intro p hpm
    rw [hmv] at hpm
    rw [hstv]
    exact htags p hpm
  · have hunk : (reportInvalidVariables r.1.mInternalVariables r.1).mModelType
        = ModelType.UNKNOWN := by
      rw [hrep.1, hs.1, hf.1, hpf.1]; rfl
    have hd := determineModelType_spec _ hunk
    have hnu : ¬ SomeUnderconstrained (reportInvalidVariables r.1.mInternalVariables r.1) := by
      rintro ⟨p, hpm, h⟩
      rw [hrep.2.1] at hpm
      have hv : (reportInvalidVariables r.1.mInternalVariables r.1).internalVariable p
          = r.1.internalVariable p := by
        unfold GeneratorImpl.internalVariable
        rw [hrep.2.2.2.2.1]
      rw [hv] at h
      rcases h with h | h
      · exact (htags p hpm).1 h
      · exact (htags p hpm).2.1 h
    have hno : ¬ SomeOverconstrained (reportInvalidVariables r.1.mInternalVariables r.1) := by
      rintro ⟨p, hpm, h⟩
      rw [hrep.2.1] at hpm
      have hv : (reportInvalidVariables r.1.mInternalVariables r.1).internalVariable p
          = r.1.internalVariable p := by
        unfold GeneratorImpl.internalVariable
        rw [hrep.2.2.2.2.1]
      rw [hv] at h
      exact (htags p hpm).2.2 h
    by_cases hvoi : (reportInvalidVariables r.1.mInternalVariables r.1).mVoi = none
    · by_cases hiv : (reportInvalidVariables r.1.mInternalVariables r.1).mInternalVariables = []
      · right; right
        refine ⟨hd.2.2.2.2.2 ⟨hnu, hno, hvoi, hiv⟩, ?_⟩
        rw [hdet.1]; exact hiv
      · right; left
        exact hd.2.2.2.2.1 ⟨hnu, hno, hvoi, hiv⟩
    · left
      exact hd.2.2.2.1 ⟨hnu, hno, hvoi⟩
  · intro g3 h3
    unfold processModel at h3
    rw [hana] at h3
    simp only [Option.some_bind] at h3
    refine ⟨finaliseModel_modelType m num _ g3 h3, ?_⟩
    obtain ⟨hfield, _, hperm⟩ := finaliseModel_fields m num _ g3 h3
    intro e he
    rw [(hfield e).1, hste]
    apply hord
    rw [← hme]
    exact hperm.mem_iff.1 he

/-- C2, as amended, at the model of the equations `dx/dtime = a`, `a = k*x`
and `k = 2`, stored in this order and listed in the reverse order: the
hypotheses hold, and so does the conclusion. -/
theorem processModel_resolves_listed_witness :
    (Built StateBased.generator
      ∧ prePass StateBased.model DependentEqns.numerics.isOne
          (resetResults StateBased.generator) = some StateBased.prePassed
      ∧ StateBased.prePassed.errorCount = 0
      ∧ RatesTagged StateBased.generator StateBased.prePassed
      ∧ StateBased.prePassed.mInternalVariables.length
          + StateBased.generator.equationStore.length ≤ MAX_SIZE_T
      ∧ Listed StateBased.generator StateBased.prePassed StateBased.listing)
    ∧ ∃ g2, analyseModel StateBased.model DependentEqns.numerics.isOne StateBased.generator
          = some g2
      ∧ (∀ e ∈ g2.mEquations, (g2.equation e).mOrder ≠ MAX_SIZE_T)
      ∧ (∀ p ∈ g2.mInternalVariables,
          (g2.internalVariable p).mType ≠ GeneratorInternalVariableType.UNKNOWN
          ∧ (g2.internalVariable p).mType ≠ GeneratorInternalVariableType.SHOULD_BE_STATE
          ∧ (g2.internalVariable p).mType ≠ GeneratorInternalVariableType.OVERCONSTRAINED)
      ∧ (g2.mModelType = ModelType.ODE ∨ g2.mModelType = ModelType.ALGEBRAIC
        ∨ (g2.mModelType = ModelType.UNKNOWN ∧ g2.mInternalVariables = []))
      ∧ ∀ g3, processModel StateBased.model DependentEqns.numerics StateBased.generator
            = some g3 →
          g3.mModelType = g2.mModelType
          ∧ ∀ e ∈ g3.mEquations, (g3.equation e).mOrder ≠ MAX_SIZE_T :=
  ⟨⟨by decide, by decide, by decide, by decide, by decide, by decide⟩,
    processModel_resolves_listed StateBased.model DependentEqns.numerics StateBased.generator
      StateBased.prePassed StateBased.listing (by decide) (by decide) (by decide) (by decide)
      (by decide) (by decide)⟩

/-- C2, as stated, fails at the model that has no component: the generator
has no record and no equation, the pre-pass records no issue, the empty list
lists the equations, and `processModel` leaves the type of the model
`UNKNOWN`, which is neither `ODE` nor `ALGEBRAIC`. -/
theorem processModel_empty_model_unknown :
    Built EmptyModel.generator
    ∧ prePass EmptyModel.model DependentEqns.numerics.isOne (resetResults EmptyModel.generator)
        = some EmptyModel.generator
    ∧ EmptyModel.generator.errorCount = 0
    ∧ RatesTagged EmptyModel.generator EmptyModel.generator
    ∧ Listed EmptyModel.generator EmptyModel.generator EmptyModel.listing
    ∧ (analyseModel EmptyModel.model DependentEqns.numerics.isOne EmptyModel.generator).map
        (fun g => g.mModelType) = some ModelType.UNKNOWN
    ∧ (processModel EmptyModel.model DependentEqns.numerics EmptyModel.generator).map
        (fun g => g.mModelType) = some ModelType.UNKNOWN :=
  ⟨by decide, by decide, by decide, by decide, by decide, by decide, by decide⟩

/-! ## C12: the indices of the states of a valid model -/

/-- C12, at the model with the variable of integration `t`, the initialised
variables `x` and `z` and the single equation `dx/dt + dz/dt = 1`:
`Generator::processModel` classifies the model as `ODE` and publishes two
states, the index of the record of either state is `MAX_SIZE_T` (no state
record has index `0` or `1`), the equation has no order, and the code that
initialises the states addresses both as element `18446744073709551615` of
the array of states. -/
theorem processModel_states_without_index :
    Generator.processModel TwoRates.model DependentEqns.numerics {} = some TwoRates.processed
    ∧ Generator.modelType TwoRates.processed = ModelType.ODE
    ∧ Generator.stateCount TwoRates.processed = 2
    ∧ (∀ p ∈ TwoRates.processed.mInternalVariables,
        (TwoRates.processed.internalVariable p).mType = GeneratorInternalVariableType.STATE →
          (TwoRates.processed.internalVariable p).mIndex = MAX_SIZE_T)
    ∧ (∀ e ∈ TwoRates.processed.mEquations,
        (TwoRates.processed.equation e).mOrder = MAX_SIZE_T)
    ∧ generateInitializationsCode {} TwoRates.model TwoRates.processed.mInternalVariables
        TwoRates.processed
      = some ("    states[18446744073709551615] = 1.0;\n    states[18446744073709551615] = 2.0;\n",
          TwoRates.processed) := by
  decide

/-! ## C13: the position of a variable in the list and its index in the code -/

/-- C13, at the model with the equations `dx/dt = 1`, `a = x` and `k = 2`,
stored in this order: `Generator::processModel` classifies the model as `ODE`
with two variables; `variable(0)` is `k` and `variable(1)` is `a`, while the
code addresses `k` as `variables[1]` and `a` as `variables[0]`. -/
theorem processModel_variable_position_differs_from_index :
    Generator.processModel TypeOrder.model DependentEqns.numerics {} = some TypeOrder.processed
    ∧ Generator.modelType TypeOrder.processed = ModelType.ODE
    ∧ Generator.variableCount TypeOrder.processed = 2
    ∧ (Generator.variable TypeOrder.processed 0).bind GeneratorVariable.mVariable
        = some TypeOrder.k
    ∧ (Generator.variable TypeOrder.processed 1).bind GeneratorVariable.mVariable
        = some TypeOrder.a
    ∧ generateVariableNameCode {} TypeOrder.model (some TypeOrder.k) none TypeOrder.processed
        = some ("variables[1]", TypeOrder.processed)
    ∧ generateVariableNameCode {} TypeOrder.model (some TypeOrder.a) none TypeOrder.processed
        = some ("variables[0]", TypeOrder.processed) := by
  decide

/-! ## C14: the type of the model and the order of the equations -/

/-- C14, at the equations `x = y` and `x = 2` with `y` initialised.  With an
unused variable `u` in the component, `Generator::processModel` finds the
model `UNSUITABLY_CONSTRAINED` when `x = y` is stored first and
`UNDERCONSTRAINED` when `x = 2` is stored first.  Without `u`, the model is
`OVERCONSTRAINED` when `x = y` is stored first; when `x = 2` is stored first
the analysis finds it `ALGEBRAIC` and records no issue, and the final sort of
the equations dereferences the null `mVariable` of the equation `x = y`. -/
theorem processModel_modelType_depends_on_order :
    (Generator.processModel
        (Reordered.model Reordered.component [Reordered.byVariable, Reordered.byValue])
        DependentEqns.numerics {}).map Generator.modelType
      = some ModelType.UNSUITABLY_CONSTRAINED
    ∧ (Generator.processModel
        (Reordered.model Reordered.component [Reordered.byValue, Reordered.byVariable])
        DependentEqns.numerics {}).map Generator.modelType
      = some ModelType.UNDERCONSTRAINED
    ∧ (Generator.processModel
        (Reordered.model Reordered.small [Reordered.byVariable, Reordered.byValue])
        DependentEqns.numerics {}).map Generator.modelType
      = some ModelType.OVERCONSTRAINED
    ∧ ((processComponents
          (Reordered.model Reordered.small [Reordered.byValue, Reordered.byVariable])
          [ComponentEntity.mk Reordered.small []] {}).bind
        (analyseModel (Reordered.model Reordered.small [Reordered.byValue, Reordered.byVariable])
          DependentEqns.numerics.isOne)).map (fun g => (g.mModelType, g.errors))
      = some (ModelType.ALGEBRAIC, [])
    ∧ Generator.processModel
        (Reordered.model Reordered.small [Reordered.byValue, Reordered.byVariable])
        DependentEqns.numerics {} = none := by
  decide

/-! ## C15: the helper functions after an earlier model -/

/-- C15, at a generator that processes the model `a = true xor false` and then
the model `a = 1`, with the default profile (which has no `xor` operator):
the only tree of the second model has no `XOR` node, and
`addArithmeticFunctionsCode` adds the `xor` function to the implementation;
a generator that processes the second model only adds nothing. -/
theorem addArithmeticFunctionsCode_after_earlier_model :
    Generator.processModel XorThenNone.withXor DependentEqns.numerics {}
      = some XorThenNone.afterFirst
    ∧ Generator.processModel XorThenNone.withoutXor DependentEqns.numerics
        XorThenNone.afterFirst = some XorThenNone.afterSecond
    ∧ XorThenNone.afterSecond.equationStore.map GeneratorEquation.mAst
        = [GeneratorEquationAst.assignment (GeneratorEquationAst.ci XorThenNone.a)
            (GeneratorEquationAst.cn "1")]
    ∧ addArithmeticFunctionsCode XorThenNone.afterSecond.mProfile XorThenNone.afterSecond ""
        = "double xor(double x, double y)\n\x7b\n    return (x != 0.0) ^ (y != 0.0);\n\x7d\n"
    ∧ Generator.processModel XorThenNone.withoutXor DependentEqns.numerics {}
        = some XorThenNone.secondOnly
    ∧ XorThenNone.secondOnly.equationStore.map GeneratorEquation.mAst
        = [GeneratorEquationAst.assignment (GeneratorEquationAst.ci XorThenNone.a)
            (GeneratorEquationAst.cn "1")]
    ∧ addArithmeticFunctionsCode XorThenNone.secondOnly.mProfile XorThenNone.secondOnly ""
        = "" := by
  decide

/-! ## C18: the bound variables of a model without issue -/

/-- C18, at the model with the components `first` (equation `dx/dt = 1`) and
`second` (equation `dy/dt2 = 1`), where `t` and `t2` are equivalent and `t2`
is initialised.  When `first` comes first, `Generator::processModel` records
no issue and classifies the model as `ODE`, although the bound variable `t2`
of the second equation has an initial value; when `second` comes first, it
records the issue that `t2` cannot be both a variable of integration and
initialised. -/
theorem processModel_accepts_initialised_bound_variable :
    (Generator.processModel (EquivalentVoi.model [EquivalentVoi.first, EquivalentVoi.second])
        DependentEqns.numerics {}).map
      (fun g => (g.mModelType, g.errors, g.equationStore.map GeneratorEquation.mAst))
      = some (ModelType.ODE, [],
          [GeneratorEquationAst.assignment
              (GeneratorEquationAst.diff EquivalentVoi.t EquivalentVoi.x)
              (GeneratorEquationAst.cn "1"),
            GeneratorEquationAst.assignment
              (GeneratorEquationAst.diff EquivalentVoi.t2 EquivalentVoi.y)
              (GeneratorEquationAst.cn "1")])
    ∧ EquivalentVoi.t2.initialValue = "0"
    ∧ (Generator.processModel (EquivalentVoi.model [EquivalentVoi.second, EquivalentVoi.first])
        DependentEqns.numerics {}).map (fun g => (g.mModelType, g.errors))
      = some (ModelType.INVALID,
          ["Variable 't2' in component 'second' cannot be both a variable of integration "
            ++ "and initialised."]) := by
  decide

/-! ## C19: the records of the differentiated variables -/

/-- C19, counterexample to the claim as stated: in the model with the
equation `dx/dt = 1`, where `t` is initialised and `x` is not, the record of
`x` is tagged `SHOULD_BE_STATE` when `Generator::processModel` returns, the
model is `INVALID` and the only issue is about the variable of integration. -/
theorem processModel_should_be_state_in_invalid_model :
    Generator.processModel UninitialisedState.model DependentEqns.numerics {}
      = some UninitialisedState.processed
    ∧ (∃ p ∈ UninitialisedState.processed.mInternalVariables,
        (UninitialisedState.processed.internalVariable p).mVariable = some UninitialisedState.x
        ∧ (UninitialisedState.processed.internalVariable p).mType
            = GeneratorInternalVariableType.SHOULD_BE_STATE)
    ∧ Generator.modelType UninitialisedState.processed = ModelType.INVALID
    ∧ UninitialisedState.processed.errors
        = ["Variable 't' in component 'main' cannot be both a variable of integration "
            ++ "and initialised."] := by
  decide

/-! ## The lookup of a record -/

theorem generatorVariable_cases (m : Model) (g : GeneratorImpl) (v : Variable) :
    ((generatorVariable m g v).1 = g
      ∧ (generatorVariable m g v).2 ∈ g.mInternalVariables
      ∧ sameOrEquivalentVariable m.hasEquivalentVariable (some v)
          (g.internalVariable (generatorVariable m g v).2).mVariable = true)
    ∨ (generatorVariable m g v
        = ({ g with
              variableStore := g.variableStore ++ [GeneratorInternalVariable.setVariable {} v],
              mInternalVariables := g.mInternalVariables ++ [g.variableStore.length] },
            g.variableStore.length)
      ∧ ∀ p ∈ g.mInternalVariables,
          sameOrEquivalentVariable m.hasEquivalentVariable (some v)
            (g.internalVariable p).mVariable = false) := by
  unfold generatorVariable
  split
  · rename_i p hp
    left
    refine ⟨rfl, List.mem_of_find?_eq_some hp, ?_⟩
    have := List.find?_some hp
    simpa using this
  · rename_i hp
    right
    refine ⟨rfl, fun p hmem => ?_⟩
    have := List.find?_eq_none.1 hp p hmem
    simpa using this

theorem generatorVariable_created_record (m : Model) (g : GeneratorImpl) (v : Variable)
    (h : ∀ p ∈ g.mInternalVariables,
      sameOrEquivalentVariable m.hasEquivalentVariable (some v)
        (g.internalVariable p).mVariable = false) :
    (generatorVariable m g v).1.internalVariable (generatorVariable m g v).2
      = GeneratorInternalVariable.setVariable {} v := by
  have hn : g.mInternalVariables.find? (fun p =>
      sameOrEquivalentVariable m.hasEquivalentVariable (some v)
        (g.internalVariable p).mVariable) = none := by
    rw [List.find?_eq_none]
    intro p hp
    simp [h p hp]
  unfold generatorVariable
  rw [hn]
  simp only [GeneratorImpl.internalVariable, getD_append_singleton]
  simp

theorem generatorVariable_errors (m : Model) (g : GeneratorImpl) (v : Variable) :
    (generatorVariable m g v).1.errors = g.errors := by
  unfold generatorVariable
  split <;> rfl

theorem setVariable_fields (x : GeneratorInternalVariable) (v : Variable) :
    (x.setVariable v).mVariable = some v ∧ (x.setVariable v).mInitialValueVariable = v
    ∧ (x.setVariable v).mIndex = x.mIndex ∧ (x.setVariable v).mEquation = x.mEquation
    ∧ (v.initialValue ≠ "" → (x.setVariable v).mType = GeneratorInternalVariableType.CONSTANT)
    ∧ (v.initialValue = "" → (x.setVariable v).mType = x.mType) := by
  unfold GeneratorInternalVariable.setVariable
  split_ifs with h
  · exact ⟨rfl, rfl, rfl, rfl, fun _ => rfl, fun h2 => absurd h2 h⟩
  · exact ⟨rfl, rfl, rfl, rfl, fun h2 => absurd h2 h, fun _ => rfl⟩

/-! ## C17: the variables of a component -/

/-- C17: `processComponent` visits the initialised variable `v` of a
component, and `tracked` is the variable of the record that
`generatorVariable` returns for `v`.  When `tracked` has no initial value,
the variable and the initial-value variable of the record become `v`, its tag
becomes `CONSTANT` and no issue is recorded.  When `tracked` is another
variable and has an initial value too, exactly one issue is recorded and the
registry is left unchanged. -/
theorem processComponentVariable_adopts_or_reports (m : Model) (component : Component)
    (g : GeneratorImpl) (v tracked : Variable)
    (ht : ((generatorVariable m g v).1.internalVariable (generatorVariable m g v).2).mVariable
            = some tracked)
    (hv : v.initialValue ≠ "") :
    (tracked.initialValue = "" →
      ∃ g', processComponentVariable m component g v = some g'
        ∧ (g'.internalVariable (generatorVariable m g v).2).mVariable = some v
        ∧ (g'.internalVariable (generatorVariable m g v).2).mInitialValueVariable = v
        ∧ (g'.internalVariable (generatorVariable m g v).2).mType
            = GeneratorInternalVariableType.CONSTANT
        ∧ g'.errors = g.errors)
    ∧ (v ≠ tracked → tracked.initialValue ≠ "" →
      ∃ g', processComponentVariable m component g v = some g'
        ∧ g'.errors = g.errors
            ++ ["Variable '" ++ v.name ++ "' in component '" ++ component.name
                ++ "' and variable '" ++ tracked.name ++ "' in component '" ++ tracked.parent
                ++ "' are equivalent and cannot therefore both be initialised."]
        ∧ g'.variableStore = g.variableStore
        ∧ g'.mInternalVariables = g.mInternalVariables) := by
  have hlt : (generatorVariable m g v).2 < (generatorVariable m g v).1.variableStore.length := by
    by_contra hc
    rw [internalVariable_of_not_lt _ _ hc] at ht
    exact Option.noConfusion ht
  constructor
  · intro hte
    refine ⟨(generatorVariable m g v).1.setInternalVariable (generatorVariable m g v).2
      (((generatorVariable m g v).1.internalVariable (generatorVariable m g v).2).setVariable v),
      ?_, ?_⟩
    · unfold processComponentVariable
      simp only [hv, ht, hte, ne_eq, not_false_eq_true, if_true, Option.map_some']
    · rw [GeneratorImpl.internalVariable_setInternalVariable]
      simp only [hlt, and_self, if_true, true_and]
      have hs := setVariable_fields
        ((generatorVariable m g v).1.internalVariable (generatorVariable m g v).2) v
      exact ⟨hs.1, hs.2.1, hs.2.2.2.2.1 hv, generatorVariable_errors m g v⟩
  · intro hne hti
    have hfound : (generatorVariable m g v).1 = g := by
      rcases generatorVariable_cases m g v with h | h
      · exact h.1
      · rw [generatorVariable_created_record m g v h.2, (setVariable_fields {} v).1] at ht
        exact absurd (Option.some.inj ht) hne
    refine ⟨g.addError ("Variable '" ++ v.name ++ "' in component '" ++ component.name
        ++ "' and variable '" ++ tracked.name ++ "' in component '" ++ tracked.parent
        ++ "' are equivalent and cannot therefore both be initialised."), ?_, rfl, rfl, rfl⟩
    unfold processComponentVariable
    rw [hfound] at ht
    simp only [hv, hti, hne, ne_eq, not_false_eq_true, if_true, if_false, hfound, ht,
      Option.map_some']

/-- C17, at the variable `t2` of the example of two equivalent bound variables
(it is initialised, and the record of its equivalent variable `t` has no
initial value) and at the variable `x` of the component `sub` of the model of
the test `variableInitializedTwice`. -/
theorem processComponentVariable_adopts_or_reports_witness :
    (∃ g', processComponentVariable
          (EquivalentVoi.model [EquivalentVoi.first, EquivalentVoi.second]) EquivalentVoi.second
          EquivalentVoi.generator EquivalentVoi.t2 = some g'
        ∧ (g'.internalVariable 1).mVariable = some EquivalentVoi.t2
        ∧ (g'.internalVariable 1).mInitialValueVariable = EquivalentVoi.t2
        ∧ (g'.internalVariable 1).mType = GeneratorInternalVariableType.CONSTANT
        ∧ g'.errors = [])
    ∧ ∃ g', processComponentVariable InitializedTwice.model InitializedTwice.sub
          InitializedTwice.generator InitializedTwice.x2 = some g'
        ∧ g'.errors = InitializedTwice.generator.errors
            ++ ["Variable 'x' in component 'sub' and variable 'x' in component 'main' "
                ++ "are equivalent and cannot therefore both be initialised."]
        ∧ g'.variableStore = InitializedTwice.generator.variableStore
        ∧ g'.mInternalVariables = InitializedTwice.generator.mInternalVariables :=
  ⟨(processComponentVariable_adopts_or_reports
      (EquivalentVoi.model [EquivalentVoi.first, EquivalentVoi.second]) EquivalentVoi.second
      EquivalentVoi.generator EquivalentVoi.t2 EquivalentVoi.t (by decide) (by decide)).1
      (by decide),
    (processComponentVariable_adopts_or_reports InitializedTwice.model InitializedTwice.sub
      InitializedTwice.generator InitializedTwice.x2 InitializedTwice.x (by decide)
      (by decide)).2 (by decide) (by decide)⟩

/-! ## The pre-pass as a sequence of visits -/

theorem foldlM_option_cons {α β : Type} (f : β → α → Option β) (b : β) (a : α) (l : List α) :
    List.foldlM f b (a :: l) = (f b a).bind fun b => List.foldlM f b l := by
  simp [List.foldlM_cons, Option.bind_eq_bind]

theorem foldlM_option_append {α β : Type} (f : β → α → Option β) (b : β) (l l' : List α) :
    List.foldlM f b (l ++ l') = (List.foldlM f b l).bind fun b => List.foldlM f b l' := by
  simp [List.foldlM_append, Option.bind_eq_bind]

theorem processEquationAst_eq_foldlM (m : Model) (isOne : String → Bool) :
    ∀ (ast astParent astGrandParent astGreatGrandParent : GeneratorEquationAst)
      (g : GeneratorImpl), ast.isNode = true →
      processEquationAst m isOne ast astParent astGrandParent astGreatGrandParent g
        = List.foldlM (visitNode m isOne) g
            (visits ast astParent astGrandParent astGreatGrandParent)
  | GeneratorEquationAst.null, _, _, _, _, h => by simp [GeneratorEquationAst.isNode] at h
  | GeneratorEquationAst.node t value var l r, p, gp, ggp, g, _ => by
    have hl : ∀ g, (if l.isNode then
          processEquationAst m isOne l (GeneratorEquationAst.node t value var l r) p gp g
        else some g)
        = List.foldlM (visitNode m isOne) g
            (visits l (GeneratorEquationAst.node t value var l r) p gp) := by
      intro g
      by_cases h : l.isNode = true
      · rw [if_pos h]
        exact processEquationAst_eq_foldlM m isOne l _ _ _ g h
      · rw [if_neg h]
        cases l with
        | null => rfl
        | node _ _ _ _ _ => exact absurd rfl h
    have hr : ∀ g, (if r.isNode then
          processEquationAst m isOne r (GeneratorEquationAst.node t value var l r) p gp g
        else some g)
        = List.foldlM (visitNode m isOne) g
            (visits r (GeneratorEquationAst.node t value var l r) p gp) := by
      intro g
      by_cases h : r.isNode = true
      · rw [if_pos h]
        exact processEquationAst_eq_foldlM m isOne r _ _ _ g h
      · rw [if_neg h]
        cases r with
        | null => rfl
        | node _ _ _ _ _ => exact absurd rfl h
    rw [visits, foldlM_option_cons]
    simp only [foldlM_option_append, ← hl, ← hr]
    simp only [processEquationAst, visitNode, Option.bind_assoc]

theorem visitNode_frame (m : Model) (isOne : String → Bool) (g g' : GeneratorImpl)
    (x : AstVisit) (h : visitNode m isOne g x = some g') : PrePassFrame g g' := by
  unfold visitNode at h
  split at h
  · exact Option.noConfusion h
  · simp only [Option.bind_eq_some] at h
    obtain ⟨ga, ha, gb, hb, hc⟩ := h
    have fa : PrePassFrame g ga := by
      split_ifs at ha
      · simp only [Option.map_eq_some'] at ha
        obtain ⟨v, _, rfl⟩ := ha
        exact processVoi_frame m g v
      · simp only [Option.some.injEq] at ha; subst ha; exact PrePassFrame.reflPre _
    have fb : PrePassFrame ga gb := by
      split_ifs at hb
      · simp only [Option.map_eq_some'] at hb
        obtain ⟨v, _, rfl⟩ := hb
        exact addError_frame _ _
      · simp only [Option.some.injEq] at hb; subst hb; exact PrePassFrame.reflPre _
      · simp only [Option.some.injEq] at hb; subst hb; exact PrePassFrame.reflPre _
    have fc : PrePassFrame gb g' := by
      split_ifs at hc
      · simp only [Option.map_eq_some'] at hc
        obtain ⟨v, _, rfl⟩ := hc
        exact makeState_frame m gb v
      · simp only [Option.some.injEq] at hc; subst hc; exact PrePassFrame.reflPre _
    exact (fa.transPre fb).transPre fc

theorem foldlM_visitNode_frame (m : Model) (isOne : String → Bool) :
    ∀ (xs : List AstVisit) (g g' : GeneratorImpl),
      List.foldlM (visitNode m isOne) g xs = some g' → PrePassFrame g g'
  | [], g, g', h => by
    simp only [List.foldlM_nil, Option.pure_def, Option.some.injEq] at h
    subst h; exact PrePassFrame.reflPre _
  | x :: xs, g, g', h => by
    rw [foldlM_option_cons, Option.bind_eq_some] at h
    obtain ⟨ga, ha, hb⟩ := h
    exact (visitNode_frame m isOne g ga x ha).transPre (foldlM_visitNode_frame m isOne xs ga g' hb)

theorem equationVisits_congr (g g' : GeneratorImpl) (h : g'.equationStore = g.equationStore)
    (es : List Nat) : equationVisits g' es = equationVisits g es := by
  unfold equationVisits GeneratorImpl.equation
  rw [h]

theorem equationVisits_cons (g : GeneratorImpl) (e : Nat) (es : List Nat) :
    equationVisits g (e :: es)
      = visits (g.equation e).mAst GeneratorEquationAst.null GeneratorEquationAst.null
          GeneratorEquationAst.null ++ equationVisits g es := by
  simp [equationVisits]

theorem processEquationAsts_eq_foldlM (m : Model) (isOne : String → Bool) :
    ∀ (es : List Nat) (g : GeneratorImpl),
      (∀ e ∈ es, (g.equation e).mAst.isNode = true) →
      processEquationAsts m isOne es g
        = List.foldlM (visitNode m isOne) g (equationVisits g es)
  | [], g, _ => by simp [processEquationAsts, equationVisits]
  | e :: es, g, h => by
    rw [processEquationAsts, equationVisits_cons, foldlM_option_append,
      processEquationAst_eq_foldlM m isOne _ _ _ _ g (h e (List.mem_cons_self _ _))]
    cases hq : List.foldlM (visitNode m isOne) g
        (visits (g.equation e).mAst GeneratorEquationAst.null GeneratorEquationAst.null
          GeneratorEquationAst.null) with
    | none => rfl
    | some ga =>
      have hf := (foldlM_visitNode_frame m isOne _ g ga hq).2.2.1
      simp only [Option.some_bind]
      rw [processEquationAsts_eq_foldlM m isOne es ga, equationVisits_congr g ga hf]
      intro e' he'
      have : ga.equation e' = g.equation e' := by
        unfold GeneratorImpl.equation; rw [hf]
      rw [this]
      exact h e' (List.mem_cons_of_mem _ he')

theorem visitNode_total (m : Model) (isOne : String → Bool) (g : GeneratorImpl) (x : AstVisit)
    (h : x.safe isOne = true) : ∃ g', visitNode m isOne g x = some g' := by
  unfold AstVisit.safe at h
  unfold visitNode
  split at h
  · exact absurd h (by decide)
  · rename_i t value var l r hx
    simp only [Bool.and_eq_true] at h
    obtain ⟨h1, h2⟩ := h
    have ha : ∃ ga, (if t = GeneratorEquationAstType.CI
          ∧ x.astParent.hasType GeneratorEquationAstType.BVAR
          ∧ x.astGrandParent.hasType GeneratorEquationAstType.DIFF then
        var.map fun v => processVoi m g v
       else some g) = some ga := by
      split_ifs with c
      · rw [if_pos ⟨c.1, Or.inl c.2⟩] at h1
        obtain ⟨v, rfl⟩ := Option.isSome_iff_exists.1 h1
        exact ⟨_, rfl⟩
      · exact ⟨_, rfl⟩
    obtain ⟨ga, ha⟩ := ha
    have hb : ∃ gb, (if t = GeneratorEquationAstType.CN
          ∧ x.astParent.hasType GeneratorEquationAstType.DEGREE
          ∧ x.astGrandParent.hasType GeneratorEquationAstType.BVAR
          ∧ x.astGreatGrandParent.hasType GeneratorEquationAstType.DIFF then
        if !isOne value then
          x.astGreatGrandParent.mRight.mVariable.map fun v =>
            ga.addError ("The differential equation for variable '" ++ v.name
              ++ "' in component '" ++ v.parent ++ "' must be of the first order.")
        else some ga
       else some ga) = some gb := by
      split_ifs with c c2
      · have c3 : isOne value = false := by simpa using c2
        rw [if_pos ⟨c.1, c.2.1, c.2.2.1, c.2.2.2, c3⟩] at h2
        obtain ⟨v, hv⟩ := Option.isSome_iff_exists.1 h2
        rw [hv]
        exact ⟨_, rfl⟩
      · exact ⟨_, rfl⟩
      · exact ⟨_, rfl⟩
    obtain ⟨gb, hb⟩ := hb
    have hc : ∃ gc, (if t = GeneratorEquationAstType.CI
          ∧ x.astParent.hasType GeneratorEquationAstType.DIFF then
        var.map fun v =>
          let r := generatorVariable m gb v
          r.1.setInternalVariable r.2 (r.1.internalVariable r.2).makeState
       else some gb) = some gc := by
      split_ifs with c
      · rw [if_pos ⟨c.1, Or.inr c.2⟩] at h1
        obtain ⟨v, rfl⟩ := Option.isSome_iff_exists.1 h1
        exact ⟨_, rfl⟩
      · exact ⟨_, rfl⟩
    obtain ⟨gc, hc⟩ := hc
    refine ⟨gc, ?_⟩
    rw [ha, Option.some_bind, hb, Option.some_bind, hc]

theorem foldlM_visitNode_total (m : Model) (isOne : String → Bool) :
    ∀ (xs : List AstVisit) (g : GeneratorImpl), (∀ x ∈ xs, x.safe isOne = true) →
      ∃ g', List.foldlM (visitNode m isOne) g xs = some g'
  | [], g, _ => ⟨g, rfl⟩
  | x :: xs, g, h => by
    obtain ⟨ga, ha⟩ := visitNode_total m isOne g x (h x (List.mem_cons_self _ _))
    obtain ⟨gb, hb⟩ := foldlM_visitNode_total m isOne xs ga
      (fun y hy => h y (List.mem_cons_of_mem _ hy))
    exact ⟨gb, by rw [foldlM_option_cons, ha, Option.some_bind, hb]⟩

/-! ## C20: derivatives that are not of the first order -/

theorem foldlM_visitNode_mem (m : Model) (isOne : String → Bool) :
    ∀ (xs : List AstVisit) (g g1 : GeneratorImpl),
      List.foldlM (visitNode m isOne) g xs = some g1 → ∀ x ∈ xs,
      ∃ ga gb, PrePassFrame g ga ∧ visitNode m isOne ga x = some gb ∧ PrePassFrame gb g1
  | [], _, _, _, x, hx => absurd hx (List.not_mem_nil x)
  | y :: ys, g, g1, h, x, hx => by
    rw [foldlM_option_cons, Option.bind_eq_some] at h
    obtain ⟨ga, ha, hb⟩ := h
    rcases List.mem_cons.1 hx with rfl | hmem
    · exact ⟨g, ga, PrePassFrame.reflPre g, ha, foldlM_visitNode_frame m isOne ys ga g1 hb⟩
    · obtain ⟨gc, gd, f1, hs, f2⟩ := foldlM_visitNode_mem m isOne ys ga g1 hb x hmem
      exact ⟨gc, gd, (visitNode_frame m isOne g ga y ha).transPre f1, hs, f2⟩

theorem prePass_eq_foldlM (m : Model) (isOne : String → Bool) (g : GeneratorImpl)
    (herr : g.errorCount = 0)
    (hroot : ∀ e ∈ g.mEquations, (g.equation e).mAst.isNode = true) :
    prePass m isOne (resetResults g)
      = List.foldlM (visitNode m isOne) (resetResults g) (equationVisits g g.mEquations) := by
  unfold prePass
  rw [if_pos (by exact herr)]
  exact processEquationAsts_eq_foldlM m isOne _ (resetResults g) hroot

theorem processModel_of_prePass_issue {F : Type} (m : Model) (num : Numerics F)
    (g g1 : GeneratorImpl) (hpre : prePass m num.isOne (resetResults g) = some g1)
    (herr : g1.errorCount ≠ 0) :
    processModel m num g = some { g1 with mModelType := ModelType.INVALID } := by
  unfold processModel analyseModel
  rw [hpre]
  simp only [Option.some_bind, classifyModel, herr, if_false]
  unfold finaliseModel
  simp

/-- C20: a derivative of the model carries the degree literal `value` on its
bound variable (the `CN` node under `DEGREE`, `BVAR` and `DIFF`) and `v` is
the differentiated variable.  The call of `processEquationAst` on the literal
records exactly one issue, which names `v` and its component, when the value
is not one, and none when it is one.  The pre-pass returns and, when the
value is not one, the issue is among those recorded and `processModel` returns
with the type `INVALID`. -/
theorem prePass_degree_literal {F : Type} (m : Model) (num : Numerics F) (g : GeneratorImpl)
    (x : AstVisit) (value : String) (var : Option Variable) (v : Variable)
    (herr : g.errorCount = 0)
    (hroot : ∀ e ∈ g.mEquations, (g.equation e).mAst.isNode = true)
    (hsafe : ∀ y ∈ equationVisits g g.mEquations, y.safe num.isOne = true)
    (hx : x ∈ equationVisits g g.mEquations)
    (hcn : x.ast = GeneratorEquationAst.node GeneratorEquationAstType.CN value var
      GeneratorEquationAst.null GeneratorEquationAst.null)
    (hdegree : x.astParent.hasType GeneratorEquationAstType.DEGREE = true)
    (hbvar : x.astGrandParent.hasType GeneratorEquationAstType.BVAR = true)
    (hdiff : x.astGreatGrandParent.hasType GeneratorEquationAstType.DIFF = true)
    (hv : x.astGreatGrandParent.mRight.mVariable = some v) :
    (∀ ga, processEquationAst m num.isOne x.ast x.astParent x.astGrandParent
        x.astGreatGrandParent ga
      = some (if num.isOne value then ga else ga.addError (firstOrderIssue v)))
    ∧ ∃ g1, prePass m num.isOne (resetResults g) = some g1
        ∧ (num.isOne value = false →
            firstOrderIssue v ∈ g1.errors
            ∧ processModel m num g = some { g1 with mModelType := ModelType.INVALID }) := by
  have hstep : ∀ ga, visitNode m num.isOne ga x
      = some (if num.isOne value then ga else ga.addError (firstOrderIssue v)) := by
    intro ga
    unfold visitNode
    rw [hcn]
    simp only [hdegree, hbvar, hdiff, hv, firstOrderIssue]
    cases num.isOne value <;> simp
  constructor
  · intro ga
    rw [processEquationAst_eq_foldlM m num.isOne x.ast _ _ _ ga (by rw [hcn]; rfl)]
    have hvis : visits x.ast x.astParent x.astGrandParent x.astGreatGrandParent = [x] := by
      rw [hcn]
      simp only [visits, List.append_nil]
      rw [← hcn]
    rw [hvis, foldlM_option_cons, hstep]
    rfl
  · have hfold := prePass_eq_foldlM m num.isOne g herr hroot
    obtain ⟨g1, h1⟩ := foldlM_visitNode_total m num.isOne (equationVisits g g.mEquations)
      (resetResults g) hsafe
    refine ⟨g1, by rw [hfold, h1], fun hone => ?_⟩
    obtain ⟨ga, gb, _, hs, f2⟩ := foldlM_visitNode_mem m num.isOne _ _ _ h1 x hx
    rw [hstep, hone] at hs
    simp only [Bool.false_eq_true, if_false, Option.some.injEq] at hs
    obtain ⟨extra, hextra⟩ := f2.2.2.2.2.2.1
    have hmem : firstOrderIssue v ∈ g1.errors := by
      rw [hextra, ← hs]
      simp [GeneratorImpl.addError]
    refine ⟨hmem, processModel_of_prePass_issue m num g g1 (by rw [hfold, h1]) ?_⟩
    unfold GeneratorImpl.errorCount
    intro h0
    rw [List.length_eq_zero] at h0
    rw [h0] at hmem
    exact absurd hmem (List.not_mem_nil _)

/-- C20, at the model with the equation `d2x/dt2 = 1`: the pre-pass records
that the equation for `x` in the component `main` must be of the first order,
and the model is `INVALID`. -/
theorem prePass_degree_literal_witness :
    (SecondOrder.generator.errorCount = 0
      ∧ SecondOrder.literal ∈ equationVisits SecondOrder.generator
          SecondOrder.generator.mEquations
      ∧ DependentEqns.numerics.isOne "2" = false)
    ∧ ∃ g1, prePass SecondOrder.model DependentEqns.numerics.isOne
          (resetResults SecondOrder.generator) = some g1
        ∧ firstOrderIssue SecondOrder.x ∈ g1.errors
        ∧ processModel SecondOrder.model DependentEqns.numerics SecondOrder.generator
            = some { g1 with mModelType := ModelType.INVALID } :=
  ⟨by decide,
    (prePass_degree_literal SecondOrder.model DependentEqns.numerics SecondOrder.generator
      SecondOrder.literal "2" none SecondOrder.x (by decide) (by decide) (by decide) (by decide)
      rfl rfl rfl rfl rfl).2.imp fun _ h => ⟨h.1, h.2 (by decide)⟩⟩

/-! ## The tags that the pre-pass gives -/

theorem SameRegistry.reflReg (g : GeneratorImpl) : SameRegistry g g := ⟨rfl, rfl, fun _ => rfl⟩

theorem SameRegistry.transReg {b g g' : GeneratorImpl} (h1 : SameRegistry b g)
    (h2 : SameRegistry g g') : SameRegistry b g' :=
  ⟨h2.1.trans h1.1, h2.2.1.trans h1.2.1, fun q => (h2.2.2 q).trans (h1.2.2 q)⟩

theorem makeState_tag (x : GeneratorInternalVariable) :
    x.makeState.mType = stateTag x.mType ∧ x.makeState.mVariable = x.mVariable := by
  unfold GeneratorInternalVariable.makeState
  split_ifs with h1 h2
  · rw [h1]; exact ⟨rfl, rfl⟩
  · rw [h2]; exact ⟨rfl, rfl⟩
  · refine ⟨?_, rfl⟩
    cases hx : x.mType <;> simp_all [stateTag]

theorem stateTag_idem (t : GeneratorInternalVariableType) : stateTag (stateTag t) = stateTag t := by
  cases t <;> rfl

theorem generatorVariable_sameRegistry (m : Model) (b g : GeneratorImpl) (v : Variable)
    (hs : SameRegistry b g) (hreg : (generatorVariable m b v).1 = b) :
    generatorVariable m g v = (g, (generatorVariable m b v).2) := by
  have hfun : (fun p => sameOrEquivalentVariable m.hasEquivalentVariable (some v)
        (g.internalVariable p).mVariable)
      = fun p => sameOrEquivalentVariable m.hasEquivalentVariable (some v)
        (b.internalVariable p).mVariable := by
    funext p; rw [hs.2.2 p]
  unfold generatorVariable at hreg ⊢
  rw [hs.1, hfun]
  cases hf : b.mInternalVariables.find? (fun p =>
      sameOrEquivalentVariable m.hasEquivalentVariable (some v)
        (b.internalVariable p).mVariable) with
  | some p => rfl
  | none =>
    rw [hf] at hreg
    have := congrArg GeneratorImpl.mInternalVariables hreg
    simp at this

theorem setInternalVariable_sameRegistry (g : GeneratorImpl) (q : Nat)
    (x : GeneratorInternalVariable) (h : x.mVariable = (g.internalVariable q).mVariable) :
    SameRegistry g (g.setInternalVariable q x) := by
  refine ⟨rfl, by simp [GeneratorImpl.setInternalVariable], fun p => ?_⟩
  rw [GeneratorImpl.internalVariable_setInternalVariable]
  split_ifs with hc
  · obtain ⟨rfl, _⟩ := hc
    exact h
  · rfl

theorem processVoi_sameRegistry (m : Model) (b g : GeneratorImpl) (v : Variable) (p : Nat)
    (hs : SameRegistry b g) (hreg : (generatorVariable m b v).1 = b)
    (hp : (generatorVariable m b v).2 ≠ p) :
    SameRegistry b (processVoi m g v)
    ∧ (processVoi m g v).internalVariable p = g.internalVariable p := by
  have hg := generatorVariable_sameRegistry m b g v hs hreg
  unfold processVoi
  rw [hg]
  dsimp only
  have h1 : SameRegistry g (g.setInternalVariable (generatorVariable m b v).2
      (g.internalVariable (generatorVariable m b v).2).makeVoi) :=
    setInternalVariable_sameRegistry _ _ _ rfl
  have h2 : (g.setInternalVariable (generatorVariable m b v).2
      (g.internalVariable (generatorVariable m b v).2).makeVoi).internalVariable p
      = g.internalVariable p := by
    rw [GeneratorImpl.internalVariable_setInternalVariable]
    rw [if_neg (fun hc => hp hc.1)]
  split
  · split_ifs
    · exact ⟨hs.transReg h1, h2⟩
    · split
      · exact ⟨hs.transReg h1, h2⟩
      · exact ⟨hs.transReg h1, h2⟩
  · split_ifs
    · exact ⟨hs.transReg h1, h2⟩
    · exact ⟨hs.transReg h1, h2⟩

theorem generatorVariable_found_lt (m : Model) (b : GeneratorImpl) (v : Variable)
    (hptr : ∀ q ∈ b.mInternalVariables, q < b.variableStore.length)
    (hreg : (generatorVariable m b v).1 = b) :
    (generatorVariable m b v).2 < b.variableStore.length := by
  rcases generatorVariable_cases m b v with h | h
  · exact hptr _ h.2.1
  · have := congrArg (fun r => r.1.mInternalVariables) h.1
    simp only at this
    rw [hreg] at this
    simp at this

theorem makeState_sameRegistry (m : Model) (b g : GeneratorImpl) (v : Variable) (p : Nat)
    (hptr : ∀ q ∈ b.mInternalVariables, q < b.variableStore.length)
    (hs : SameRegistry b g) (hreg : (generatorVariable m b v).1 = b) :
    SameRegistry b ((generatorVariable m g v).1.setInternalVariable (generatorVariable m g v).2
      ((generatorVariable m g v).1.internalVariable (generatorVariable m g v).2).makeState)
    ∧ (((generatorVariable m g v).1.setInternalVariable (generatorVariable m g v).2
        ((generatorVariable m g v).1.internalVariable
          (generatorVariable m g v).2).makeState).internalVariable p).mType
      = if (generatorVariable m b v).2 = p then stateTag (g.internalVariable p).mType
        else (g.internalVariable p).mType := by
  have hg := generatorVariable_sameRegistry m b g v hs hreg
  have hlt : (generatorVariable m b v).2 < g.variableStore.length := by
    rw [hs.2.1]
    exact generatorVariable_found_lt m b v hptr hreg
  rw [hg]
  dsimp only
  refine ⟨hs.transReg (setInternalVariable_sameRegistry _ _ _ (makeState_tag _).2), ?_⟩
  rw [GeneratorImpl.internalVariable_setInternalVariable]
  by_cases hq : (generatorVariable m b v).2 = p
  · rw [if_pos hq, if_pos ⟨hq, hlt⟩, (makeState_tag _).1, hq]
  · rw [if_neg (fun hc => hq hc.1), if_neg hq]

theorem visitNode_tag (m : Model) (isOne : String → Bool) (b g g' : GeneratorImpl)
    (x : AstVisit) (p : Nat)
    (hptr : ∀ q ∈ b.mInternalVariables, q < b.variableStore.length) (hs : SameRegistry b g)
    (hreg : ∀ v, x.ast.mVariable = some v → (generatorVariable m b v).1 = b)
    (hnb : x.isBound = true → ∀ v, x.ast.mVariable = some v → (generatorVariable m b v).2 ≠ p)
    (h : visitNode m isOne g x = some g') :
    SameRegistry b g'
    ∧ ((g'.internalVariable p).mType = (g.internalVariable p).mType
      ∨ (g'.internalVariable p).mType = stateTag (g.internalVariable p).mType)
    ∧ (x.isDifferentiated = true → ∀ v, x.ast.mVariable = some v →
        (generatorVariable m b v).2 = p →
        (g'.internalVariable p).mType = stateTag (g.internalVariable p).mType) := by
  unfold visitNode at h
  split at h
  · exact Option.noConfusion h
  · rename_i t value var l r hx
    simp only [Option.bind_eq_some] at h
    obtain ⟨ga, ha, gb, hb, hc⟩ := h
    have hvar : x.ast.mVariable = var := by rw [hx]; rfl
    have htype : ∀ t', x.ast.hasType t' = decide (t = t') := by
      intro t'
      rw [hx]
      simp [GeneratorEquationAst.hasType, GeneratorEquationAst.mType?]
    -- the bound variable
    have fa : SameRegistry b ga ∧ ga.internalVariable p = g.internalVariable p := by
      split_ifs at ha with c
      · simp only [Option.map_eq_some'] at ha
        obtain ⟨v, hv, rfl⟩ := ha
        have hb' : x.isBound = true := by
          unfold AstVisit.isBound
          rw [htype, c.1, c.2.1, c.2.2]
          rfl
        exact processVoi_sameRegistry m b g v p hs (hreg v (by rw [hvar, hv]))
          (hnb hb' v (by rw [hvar, hv]))
      · simp only [Option.some.injEq] at ha; subst ha; exact ⟨hs, rfl⟩
    -- the degree
    have fb : SameRegistry b gb ∧ gb.internalVariable p = g.internalVariable p := by
      split_ifs at hb
      · simp only [Option.map_eq_some'] at hb
        obtain ⟨v, _, rfl⟩ := hb
        exact fa
      · simp only [Option.some.injEq] at hb; subst hb; exact fa
      · simp only [Option.some.injEq] at hb; subst hb; exact fa
    -- the differentiated variable
    split_ifs at hc with c
    · simp only [Option.map_eq_some'] at hc
      obtain ⟨v, hv, rfl⟩ := hc
      have hm := makeState_sameRegistry m b gb v p hptr fb.1 (hreg v (by rw [hvar, hv]))
      rw [fb.2] at hm
      refine ⟨hm.1, ?_, ?_⟩
      · rw [hm.2]
        split_ifs
        · exact Or.inr rfl
        · exact Or.inl rfl
      · intro _ w hw hq
        rw [hvar, hv] at hw
        cases hw
        rw [hm.2, if_pos hq]
    · simp only [Option.some.injEq] at hc
      subst hc
      refine ⟨fb.1, Or.inl (by rw [fb.2]), ?_⟩
      intro hd
      exfalso
      apply c
      unfold AstVisit.isDifferentiated at hd
      rw [htype] at hd
      simp only [Bool.and_eq_true, decide_eq_true_eq] at hd
      exact hd

theorem foldlM_visitNode_tag (m : Model) (isOne : String → Bool) (b : GeneratorImpl) (p : Nat)
    (hptr : ∀ q ∈ b.mInternalVariables, q < b.variableStore.length) :
    ∀ (xs : List AstVisit) (g g1 : GeneratorImpl), SameRegistry b g →
      (∀ x ∈ xs, ∀ v, x.ast.mVariable = some v → (generatorVariable m b v).1 = b) →
      (∀ x ∈ xs, x.isBound = true → ∀ v, x.ast.mVariable = some v →
        (generatorVariable m b v).2 ≠ p) →
      List.foldlM (visitNode m isOne) g xs = some g1 →
      SameRegistry b g1
      ∧ ((g1.internalVariable p).mType = (g.internalVariable p).mType
        ∨ (g1.internalVariable p).mType = stateTag (g.internalVariable p).mType)
      ∧ ((∃ x ∈ xs, x.isDifferentiated = true
            ∧ ∃ v, x.ast.mVariable = some v ∧ (generatorVariable m b v).2 = p) →
          (g1.internalVariable p).mType = stateTag (g.internalVariable p).mType)
  | [], g, g1, hs, _, _, h => by
    simp only [List.foldlM_nil, Option.pure_def, Option.some.injEq] at h
    subst h
    refine ⟨hs, Or.inl rfl, ?_⟩
    rintro ⟨x, hx, _⟩
    exact absurd hx (List.not_mem_nil x)
  | y :: ys, g, g1, hs, hreg, hnb, h => by
    rw [foldlM_option_cons, Option.bind_eq_some] at h
    obtain ⟨ga, ha, hb⟩ := h
    have h1 := visitNode_tag m isOne b g ga y p hptr hs (hreg y (List.mem_cons_self _ _))
      (hnb y (List.mem_cons_self _ _)) ha
    have h2 := foldlM_visitNode_tag m isOne b p hptr ys ga g1 h1.1
      (fun x hx => hreg x (List.mem_cons_of_mem _ hx))
      (fun x hx => hnb x (List.mem_cons_of_mem _ hx)) hb
    refine ⟨h2.1, ?_, ?_⟩
    · rcases h1.2.1 with e1 | e1 <;> rcases h2.2.1 with e2 | e2
      · exact Or.inl (e2.trans e1)
      · exact Or.inr (by rw [e2, e1])
      · exact Or.inr (by rw [e2, e1])
      · exact Or.inr (by rw [e2, e1, stateTag_idem])
    · rintro ⟨x, hx, hd, v, hv, hq⟩
      rcases List.mem_cons.1 hx with rfl | hmem
      · have e1 := h1.2.2 hd v hv hq
        rcases h2.2.1 with e2 | e2
        · exact e2.trans e1
        · rw [e2, e1, stateTag_idem]
      · have e2 := h2.2.2 ⟨x, hmem, hd, v, hv, hq⟩
        rcases h1.2.1 with e1 | e1
        · rw [e2, e1]
        · rw [e2, e1, stateTag_idem]

theorem reportInvalidVariables_cons (p : Nat) (ps : List Nat) (g : GeneratorImpl) :
    reportInvalidVariables (p :: ps) g
      = if errorType (g.internalVariable p).mType ≠ "" then
          reportInvalidVariables ps (g.addError (invalidVariableIssue g p))
        else reportInvalidVariables ps g := rfl

theorem invalidVariableIssue_addError (g : GeneratorImpl) (d : String) (q : Nat) :
    invalidVariableIssue (g.addError d) q = invalidVariableIssue g q := rfl

theorem reportInvalidVariables_records :
    ∀ (ps : List Nat) (g : GeneratorImpl),
      (∃ extra, (reportInvalidVariables ps g).errors = g.errors ++ extra)
      ∧ ∀ q ∈ ps, errorType (g.internalVariable q).mType ≠ "" →
          invalidVariableIssue g q ∈ (reportInvalidVariables ps g).errors
  | [], g => ⟨⟨[], by simp [reportInvalidVariables]⟩, fun q hq => absurd hq (List.not_mem_nil q)⟩
  | p :: ps, g => by
    rw [reportInvalidVariables_cons]
    split_ifs with hp
    · have ih := reportInvalidVariables_records ps (g.addError (invalidVariableIssue g p))
      obtain ⟨extra, hextra⟩ := ih.1
      have hextra' : (reportInvalidVariables ps (g.addError (invalidVariableIssue g p))).errors
          = g.errors ++ (invalidVariableIssue g p :: extra) := by
        rw [hextra]
        simp [GeneratorImpl.addError]
      refine ⟨⟨_, hextra'⟩, fun q hq hne => ?_⟩
      rcases List.mem_cons.1 hq with rfl | hmem
      · rw [hextra']
        simp
      · have := ih.2 q hmem hne
        rw [invalidVariableIssue_addError] at this
        exact this
    · have ih := reportInvalidVariables_records ps g
      refine ⟨ih.1, fun q hq hne => ?_⟩
      rcases List.mem_cons.1 hq with rfl | hmem
      · exact absurd hne hp
      · exact ih.2 q hmem hne

/-! ## C19: the records of the differentiated variables, continued -/

theorem determineModelType_errors (g : GeneratorImpl) :
    (determineModelType g).errors = g.errors := by
  unfold determineModelType
  split_ifs <;> rfl

/-- C19, amended: the components have been processed without issue, every
variable of the trees has a record, and `p` is the record of a variable that
is differentiated in some equation and of no bound variable; before the
pre-pass its tag is the one given by the declarations (`CONSTANT` with an
initial value, `UNKNOWN` without).  Then the pre-pass returns, and the tag of
`p` is `STATE` when the record carries an initial value and `SHOULD_BE_STATE`
when it carries none.  When the analysis ends with a type other than
`INVALID`, every record tagged `SHOULD_BE_STATE` makes the model
`UNDERCONSTRAINED` or `UNSUITABLY_CONSTRAINED`, its issue is recorded, and
`processModel` returns this state. -/
theorem prePass_tags_differentiated {F : Type} (m : Model) (num : Numerics F)
    (g : GeneratorImpl) (p : Nat)
    (herr : g.errorCount = 0)
    (hroot : ∀ e ∈ g.mEquations, (g.equation e).mAst.isNode = true)
    (hsafe : ∀ y ∈ equationVisits g g.mEquations, y.safe num.isOne = true)
    (hptr : ∀ q ∈ g.mInternalVariables, q < g.variableStore.length)
    (hreg : Registered m g)
    (hdecl : (g.internalVariable p).mType
      = if (g.internalVariable p).mInitialValueVariable.initialValue ≠ "" then
          GeneratorInternalVariableType.CONSTANT
        else GeneratorInternalVariableType.UNKNOWN)
    (hdiff : ∃ x ∈ equationVisits g g.mEquations, x.isDifferentiated = true
      ∧ ∃ v ∈ x.ast.mVariable, (generatorVariable m g v).2 = p)
    (hnb : NotBound m g p) :
    ∃ g1, prePass m num.isOne (resetResults g) = some g1
      ∧ (g1.internalVariable p).mType
          = (if (g.internalVariable p).mInitialValueVariable.initialValue ≠ "" then
              GeneratorInternalVariableType.STATE
            else GeneratorInternalVariableType.SHOULD_BE_STATE)
      ∧ ∀ g2, analyseModel m num.isOne g = some g2 → g2.mModelType ≠ ModelType.INVALID →
          ∀ q ∈ g2.mInternalVariables,
            (g2.internalVariable q).mType = GeneratorInternalVariableType.SHOULD_BE_STATE →
            (g2.mModelType = ModelType.UNDERCONSTRAINED
              ∨ g2.mModelType = ModelType.UNSUITABLY_CONSTRAINED)
            ∧ notInitialisedIssue g2 q ∈ g2.errors
            ∧ processModel m num g = some g2 := by
  have hfold := prePass_eq_foldlM m num.isOne g herr hroot
  obtain ⟨g1, h1⟩ := foldlM_visitNode_total m num.isOne (equationVisits g g.mEquations)
    (resetResults g) hsafe
  have htag := foldlM_visitNode_tag m num.isOne g p hptr (equationVisits g g.mEquations)
    (resetResults g) g1 ⟨rfl, rfl, fun _ => rfl⟩
    (fun x hx v hv => hreg x hx v hv)
    (fun x hx hb v hv => hnb x hx hb v hv) h1
  refine ⟨g1, by rw [hfold, h1], ?_, ?_⟩
  · obtain ⟨x, hx, hd, v, hv, hq⟩ := hdiff
    have := htag.2.2 ⟨x, hx, hd, v, hv, hq⟩
    rw [this]
    have h0 : (resetResults g).internalVariable p = g.internalVariable p := rfl
    rw [h0, hdecl]
    split_ifs <;> rfl
  · intro g2 h2 hninv q hq hsbs
    obtain ⟨g1', _, hcase⟩ := analyseModel_cases m num.isOne g g2 h2
    rcases hcase with ⟨_, rfl⟩ | ⟨_, r, _, rfl⟩
    · exact absurd rfl hninv
    · have hR := reportInvalidVariables_frame r.1.mInternalVariables r.1
      have hD := determineModelType_frame (reportInvalidVariables r.1.mInternalVariables r.1)
      have hrec : ∀ q', (determineModelType
          (reportInvalidVariables r.1.mInternalVariables r.1)).internalVariable q'
          = r.1.internalVariable q' := by
        intro q'
        unfold GeneratorImpl.internalVariable
        rw [hD.2.2.2.1, hR.2.2.2.2.1]
      have hmem : q ∈ r.1.mInternalVariables := by
        rw [hD.1, hR.2.1] at hq
        exact hq
      rw [hrec] at hsbs
      have hunder : hasUnderconstrainedVariables
          (reportInvalidVariables r.1.mInternalVariables r.1) = true := by
        rw [hasUnderconstrainedVariables_iff]
        refine ⟨q, by rw [hR.2.1]; exact hmem, Or.inr ?_⟩
        unfold GeneratorImpl.internalVariable
        rw [hR.2.2.2.2.1]
        exact hsbs
      have htype : (determineModelType
            (reportInvalidVariables r.1.mInternalVariables r.1)).mModelType
            = ModelType.UNDERCONSTRAINED
          ∨ (determineModelType
            (reportInvalidVariables r.1.mInternalVariables r.1)).mModelType
            = ModelType.UNSUITABLY_CONSTRAINED := by
        unfold determineModelType
        rw [if_pos hunder]
        split_ifs
        · exact Or.inr rfl
        · exact Or.inl rfl
      refine ⟨htype, ?_, ?_⟩
      · rw [determineModelType_errors]
        have hi := (reportInvalidVariables_records r.1.mInternalVariables r.1).2 q hmem
          (by rw [hsbs]; decide)
        have : notInitialisedIssue
            (determineModelType (reportInvalidVariables r.1.mInternalVariables r.1)) q
            = invalidVariableIssue r.1 q := by
          unfold notInitialisedIssue invalidVariableIssue
          rw [hrec, hsbs]
          rfl
        rw [this]
        exact hi
      · unfold processModel
        rw [h2, Option.some_bind]
        unfold finaliseModel
        rw [if_neg]
        rcases htype with e | e <;> rw [e] <;> decide

/-- C19, amended, at the model with the equation `dx/dt = 1` in which `x` has
no initial value: after the pre-pass the record of `x` is tagged
`SHOULD_BE_STATE`, the model is `UNDERCONSTRAINED` and the issue is
recorded. -/
theorem prePass_tags_differentiated_witness :
    (NonInitializedState.generator.errorCount = 0
      ∧ Registered NonInitializedState.model NonInitializedState.generator
      ∧ NotBound NonInitializedState.model NonInitializedState.generator 0
      ∧ NonInitializedState.differentiated
          ∈ equationVisits NonInitializedState.generator
              NonInitializedState.generator.mEquations)
    ∧ ∃ g1, prePass NonInitializedState.model DependentEqns.numerics.isOne
          (resetResults NonInitializedState.generator) = some g1
        ∧ (g1.internalVariable 0).mType = GeneratorInternalVariableType.SHOULD_BE_STATE
        ∧ NonInitializedState.analysed.mModelType = ModelType.UNDERCONSTRAINED
        ∧ NonInitializedState.analysed.errors
            = ["Variable 'x' in component 'main' is used in an ODE, but it is not initialised."]
        ∧ processModel NonInitializedState.model DependentEqns.numerics
            NonInitializedState.generator = some NonInitializedState.analysed :=
  ⟨by decide,
    (prePass_tags_differentiated NonInitializedState.model DependentEqns.numerics
      NonInitializedState.generator 0 (by decide) (by decide) (by decide) (by decide)
      (by decide) (by decide)
      ⟨NonInitializedState.differentiated, by decide, by decide, NonInitializedState.x,
        rfl, by decide⟩
      (by decide)).imp fun g1 h =>
      ⟨h.1, h.2.1, by decide, by decide,
        (h.2.2 NonInitializedState.analysed (by decide) (by decide) 0 (by decide)
          (by decide)).2.2⟩⟩

/-! ## The rendering only adds records to the registry -/

theorem Grow.reflGrow (a : GeneratorImpl) : Grow a a := ⟨[], [], by simp⟩

theorem Grow.transGrow {a a' a'' : GeneratorImpl} (h1 : Grow a a') (h2 : Grow a' a'') :
    Grow a a'' := by
  obtain ⟨e1, i1, rfl⟩ := h1
  obtain ⟨e2, i2, rfl⟩ := h2
  exact ⟨e1 ++ e2, i1 ++ i2, by simp⟩

theorem Grow.equation {a a' : GeneratorImpl} (h : Grow a a') (e : Nat) :
    a'.equation e = a.equation e := by
  obtain ⟨e1, i1, rfl⟩ := h
  rfl

theorem Grow.internalVariable {a a' : GeneratorImpl} (h : Grow a a') (q : Nat)
    (hq : q < a.variableStore.length) : a'.internalVariable q = a.internalVariable q := by
  obtain ⟨e1, i1, rfl⟩ := h
  unfold GeneratorImpl.internalVariable
  simp only [List.getD_eq_getElem?_getD]
  rw [List.getElem?_append_left hq]

theorem Grow.analysisUnchanged {a a' : GeneratorImpl} (h : Grow a a') :
    AnalysisUnchanged a a' := by
  refine ⟨?_, ?_, ?_, ?_, ?_, ?_, ?_, h.equation, h.internalVariable⟩ <;>
    obtain ⟨e1, i1, rfl⟩ := h <;> first | rfl | (intro i; rfl)

theorem stateT_bind_eq_some {α β : Type} (c : StateT GeneratorImpl Option α)
    (f : α → StateT GeneratorImpl Option β) (a : GeneratorImpl) (y : β) (a2 : GeneratorImpl) :
    (c >>= f) a = some (y, a2) ↔ ∃ x a1, c a = some (x, a1) ∧ f x a1 = some (y, a2) := by
  show (StateT.bind c f a) = _ ↔ _
  unfold StateT.bind
  cases hc : c a with
  | none => simp
  | some r =>
    obtain ⟨x, a1⟩ := r
    simp only [Option.some.injEq, Prod.mk.injEq]
    constructor
    · intro h
      exact ⟨x, a1, ⟨rfl, rfl⟩, h⟩
    · rintro ⟨x', a1', ⟨rfl, rfl⟩, h⟩
      exact h

theorem GoodAt.bindGood {m : Model} {b : GeneratorImpl} {α β : Type}
    {c : StateT GeneratorImpl Option α} {f : α → StateT GeneratorImpl Option β}
    {a : GeneratorImpl} (hc : GoodAt m b c a) (hf : ∀ x a1, GoodAt m b (f x) a1) :
    GoodAt m b (c >>= f) a := by
  intro hg y a2 h
  obtain ⟨x, a1, h1, h2⟩ := (stateT_bind_eq_some c f a y a2).1 h
  have g1 := hc hg x a1 h1
  have g2 := hf x a1 (hg.transGrow g1.1) y a2 h2
  exact ⟨g1.1.transGrow g2.1, fun hr hab => g2.2 hr (g1.2 hr hab)⟩

theorem GoodAt.pureGood (m : Model) (b : GeneratorImpl) {α : Type} (x : α) (a : GeneratorImpl) :
    GoodAt m b (pure x : StateT GeneratorImpl Option α) a := by
  intro _ y a' h
  have : a' = a := by
    have h' : (some (x, a) : Option (α × GeneratorImpl)) = some (y, a') := h
    simp only [Option.some.injEq, Prod.mk.injEq] at h'
    exact h'.2.symm
  subst this
  exact ⟨Grow.reflGrow _, fun _ hab => hab⟩

theorem GoodAt.failureGood (m : Model) (b : GeneratorImpl) {α : Type} (a : GeneratorImpl) :
    GoodAt m b (failure : StateT GeneratorImpl Option α) a := by
  intro _ y a' h
  exact Option.noConfusion h

theorem generatorVariable_grow (m : Model) (a : GeneratorImpl) (v : Variable) :
    Grow a (generatorVariable m a v).1 := by
  unfold generatorVariable
  split
  · exact Grow.reflGrow a
  · exact ⟨_, _, rfl⟩

theorem generateVariableNameCode_good (p : GeneratorProfile) (m : Model) (b : GeneratorImpl)
    (var : Option Variable) (astParent : Option (Option GeneratorEquationAstType))
    (a : GeneratorImpl) (hk : a = b → ∀ v ∈ var, v ∈ renderVariables b) :
    GoodAt m b (generateVariableNameCode p m var astParent) a := by
  intro _ x a' h
  unfold generateVariableNameCode at h
  simp only [Option.bind_eq_some] at h
  obtain ⟨r, hr, h2⟩ := h
  have ha' : a' = r.1 := by
    by_cases hc : (r.1.internalVariable r.2).mType
        = GeneratorInternalVariableType.VARIABLE_OF_INTEGRATION
    · rw [if_pos hc] at h2
      simp only [Option.some.injEq, Prod.mk.injEq] at h2
      exact h2.2.symm
    · rw [if_neg hc] at h2
      simp only [Option.map_eq_some', Prod.mk.injEq] at h2
      obtain ⟨_, _, _, h3⟩ := h2
      exact h3.symm
  subst ha'
  cases var with
  | none =>
    simp only [Option.bind_eq_some] at hr
    obtain ⟨q, _, hq⟩ := hr
    split_ifs at hq
    simp only [Option.some.injEq] at hq
    subst hq
    exact ⟨Grow.reflGrow _, fun _ hab => hab⟩
  | some v =>
    simp only [Option.some.injEq] at hr
    subst hr
    refine ⟨generatorVariable_grow m a v, fun hreg hab => ?_⟩
    subst hab
    exact hreg v (hk rfl v rfl)

theorem GoodAt.iteGood {m : Model} {b : GeneratorImpl} {α : Type} {P : Prop} [Decidable P]
    {c d : StateT GeneratorImpl Option α} {a : GeneratorImpl}
    (hc : GoodAt m b c a) (hd : GoodAt m b d a) : GoodAt m b (if P then c else d) a := by
  split_ifs
  · exact hc
  · exact hd

theorem generateCodeAux_good {F : Type} (p : GeneratorProfile) (m : Model) (num : Numerics F)
    (b : GeneratorImpl) :
    ∀ (ast : GeneratorEquationAst), (∀ v ∈ treeVariables ast, v ∈ renderVariables b) →
      ∀ (copied : Bool) (astParent : Option GeneratorEquationAstType) (a : GeneratorImpl),
      GoodAt m b (generateCodeAux p m num copied ast astParent) a := by
  intro ast
  induction ast with
  | null =>
    intro _ copied par a
    simp only [generateCodeAux]
    exact GoodAt.failureGood m b a
  | node t value var l r ihl ihr =>
    intro hv copied par a
    have hl : ∀ (copied : Bool) (astParent : Option GeneratorEquationAstType)
        (a : GeneratorImpl), GoodAt m b (generateCodeAux p m num copied l astParent) a :=
      ihl (fun v h => hv v (by simp [treeVariables, h]))
    have hr : ∀ (copied : Bool) (astParent : Option GeneratorEquationAstType)
        (a : GeneratorImpl), GoodAt m b (generateCodeAux p m num copied r astParent) a :=
      ihr (fun v h => hv v (by simp [treeVariables, h]))
    have hn : ∀ (astParent : Option (Option GeneratorEquationAstType)) (a : GeneratorImpl),
        GoodAt m b (generateVariableNameCode p m var astParent) a :=
      fun astParent a => generateVariableNameCode_good p m b var astParent a
        (fun _ v h => hv v (by
          rw [Option.mem_def] at h
          simp [treeVariables, h]))
    clear ihl ihr hv
    cases t
    all_goals simp only [generateCodeAux]
    all_goals repeat' (first
      | exact GoodAt.pureGood m b _ _
      | exact GoodAt.failureGood m b _
      | exact hl _ _ _
      | exact hr _ _ _
      | exact hn _ _
      | refine GoodAt.bindGood ?_ (fun _ _ => ?_)
      | split)

theorem GoodAt.getGood {m : Model} {b : GeneratorImpl} {α : Type}
    {f : GeneratorImpl → StateT GeneratorImpl Option α} {a : GeneratorImpl}
    (h : GoodAt m b (f a) a) : GoodAt m b (get >>= f) a := by
  intro hg y a2 hy
  exact h hg y a2 hy

theorem treeVariables_equation (b : GeneratorImpl) (e : Nat) :
    ∀ v ∈ treeVariables (b.equation e).mAst, v ∈ renderVariables b := by
  intro v hv
  unfold GeneratorImpl.equation at hv
  rcases getD_mem_or_default b.equationStore e default with h | h
  · unfold renderVariables
    rw [List.mem_append, List.mem_flatMap]
    exact Or.inl ⟨_, h, hv⟩
  · rw [h] at hv
    simp [treeVariables, default, instInhabitedGeneratorEquation] at hv

theorem recordVariable_mem (b : GeneratorImpl) (q : Nat) :
    ∀ v ∈ (b.internalVariable q).mVariable, v ∈ renderVariables b := by
  intro v hv
  rw [Option.mem_def] at hv
  unfold GeneratorImpl.internalVariable at hv
  rcases getD_mem_or_default b.variableStore q default with h | h
  · unfold renderVariables
    rw [List.mem_append, List.mem_filterMap]
    exact Or.inr ⟨_, h, hv⟩
  · rw [h] at hv
    exact Option.noConfusion hv

theorem generateEquationStatement_good {F : Type} (p : GeneratorProfile) (m : Model)
    (num : Numerics F) (b : GeneratorImpl) (equation : Nat) (a : GeneratorImpl) :
    GoodAt m b (generateEquationStatement p m num equation) a := by
  intro hg
  have hv : ∀ v ∈ treeVariables (a.equation equation).mAst, v ∈ renderVariables b := by
    rw [hg.equation]
    exact treeVariables_equation b equation
  revert hg
  unfold generateEquationStatement
  refine GoodAt.getGood (GoodAt.bindGood ?_ (fun _ _ => GoodAt.pureGood m b _ _))
  unfold generateCode
  exact generateCodeAux_good p m num b _ hv _ _ _

theorem generateEquationStatements_good {F : Type} (p : GeneratorProfile) (m : Model)
    (num : Numerics F) (b : GeneratorImpl) :
    ∀ (es : List Nat) (a : GeneratorImpl),
      GoodAt m b (generateEquationStatements p m num es) a
  | [], a => by
    unfold generateEquationStatements
    exact GoodAt.pureGood m b _ _
  | e :: es, a => by
    unfold generateEquationStatements
    exact GoodAt.bindGood (generateEquationStatement_good p m num b e a) (fun _ a1 =>
      GoodAt.bindGood (generateEquationStatements_good p m num b es a1)
        (fun _ _ => GoodAt.pureGood m b _ _))

theorem generateInitializationCode_good (p : GeneratorProfile) (m : Model) (b : GeneratorImpl)
    (internalVariable : Nat) (a : GeneratorImpl) :
    GoodAt m b (generateInitializationCode p m internalVariable) a := by
  unfold generateInitializationCode
  refine GoodAt.getGood (GoodAt.bindGood ?_ (fun _ _ => GoodAt.pureGood m b _ _))
  refine generateVariableNameCode_good p m b _ _ a (fun hab => ?_)
  subst hab
  exact recordVariable_mem a internalVariable

theorem generateInitializationsCode_good (p : GeneratorProfile) (m : Model) (b : GeneratorImpl) :
    ∀ (ps : List Nat) (a : GeneratorImpl), GoodAt m b (generateInitializationsCode p m ps) a
  | [], a => by
    unfold generateInitializationsCode
    exact GoodAt.pureGood m b _ _
  | q :: ps, a => by
    unfold generateInitializationsCode
    refine GoodAt.getGood ?_
    dsimp only
    split <;>
      exact GoodAt.bindGood (by
          first
          | exact generateInitializationCode_good p m b q a
          | exact GoodAt.pureGood m b _ _)
        (fun _ a1 => GoodAt.bindGood (generateInitializationsCode_good p m b ps a1)
          (fun _ _ => GoodAt.pureGood m b _ _))

theorem implementationCode_good {F : Type} (p : GeneratorProfile) (m : Model)
    (num : Numerics F) (preamble : String) (b : GeneratorImpl) :
    GoodAt m b (Generator.implementationCode p m num preamble) b := by
  unfold Generator.implementationCode
  refine GoodAt.getGood ?_
  dsimp only
  repeat' (first
    | exact GoodAt.pureGood m b _ _
    | exact GoodAt.failureGood m b _
    | exact generateInitializationsCode_good p m b _ _
    | exact generateEquationStatements_good p m num b _ _
    | refine GoodAt.bindGood ?_ (fun _ _ => ?_)
    | split)

theorem eq_some_getD_of_isSome {α : Type} (o : Option α) (d : α) (h : o.isSome = true) :
    o = some (o.getD d) := by
  cases o with
  | none => exact Bool.noConfusion h
  | some x => rfl

/-! ## C16: the rendering leaves the results of the analysis unchanged -/

/-- C16: `Generator::setProfile`, `Generator::interfaceCode` and
`Generator::implementationCode` leave the results of the analysis unchanged.
With the profile replaced, and in the generator `g'` that
`implementationCode` leaves behind when it returns `text`, the type of the
model, the counts, the variable of integration, every `state(i)` and
`variable(i)`, the list of the equations, every equation (tree, order, kind
and dependencies) and every record of the registry (tag and index) are what
they were; the profile is the same, and `interfaceCode`, which writes nothing,
returns the same text.  When every variable of the trees and of the records
has a record, which is what the analysis leaves behind, the generator is left
as it was, and rendering the same model again with the same profile yields the
same text. -/
theorem rendering_leaves_analysis_unchanged {F : Type} (m : Model) (num : Numerics F)
    (preamble body : String) (profile : GeneratorProfile) (g g' : GeneratorImpl)
    (text : String)
    (h : Generator.implementationCode g.mProfile m num preamble g = some (text, g')) :
    AnalysisUnchanged g (Generator.setProfile g profile)
    ∧ AnalysisUnchanged g g'
    ∧ g'.mProfile = g.mProfile
    ∧ Generator.interfaceCode g'.mProfile g' body = Generator.interfaceCode g.mProfile g body
    ∧ (RenderRegistered m g →
        g' = g
        ∧ Generator.implementationCode g'.mProfile m num preamble g' = some (text, g')) := by
  have hgood := implementationCode_good g.mProfile m num preamble g (Grow.reflGrow g) text g' h
  have hprofile : g'.mProfile = g.mProfile := by
    obtain ⟨ext, iext, rfl⟩ := hgood.1
    rfl
  have hvalid : hasValidModel g' = hasValidModel g := by
    obtain ⟨ext, iext, rfl⟩ := hgood.1
    rfl
  refine ⟨?_, hgood.1.analysisUnchanged, hprofile, ?_, fun hreg => ?_⟩
  · refine ⟨rfl, rfl, rfl, rfl, fun _ => rfl, fun _ => rfl, rfl, fun _ => rfl, fun _ _ => rfl⟩
  · unfold Generator.interfaceCode
    rw [hprofile, hvalid]
  · have hg : g' = g := hgood.2 hreg rfl
    subst hg
    exact ⟨rfl, h⟩

/-- C16, at the generator of the model with the equations `dx/dt = 1`, `a = x`
and `k = 2` once `Generator::processModel` has returned: every variable has a
record, `implementationCode` returns a text, and a second call returns the
same text. -/
theorem rendering_leaves_analysis_unchanged_witness :
    Generator.implementationCode TypeOrder.processed.mProfile TypeOrder.model
        DependentEqns.numerics "" TypeOrder.processed = some TypeOrder.rendered
    ∧ RenderRegistered TypeOrder.model TypeOrder.processed
    ∧ AnalysisUnchanged TypeOrder.processed TypeOrder.rendered.2
    ∧ Generator.implementationCode TypeOrder.rendered.2.mProfile TypeOrder.model
        DependentEqns.numerics "" TypeOrder.rendered.2 = some TypeOrder.rendered :=
  ⟨eq_some_getD_of_isSome _ default (by decide), by decide,
    (rendering_leaves_analysis_unchanged TypeOrder.model DependentEqns.numerics "" ""
      {} TypeOrder.processed TypeOrder.rendered.2 TypeOrder.rendered.1
      (eq_some_getD_of_isSome _ default (by decide))).2.1,
    ((rendering_leaves_analysis_unchanged TypeOrder.model DependentEqns.numerics "" ""
      {} TypeOrder.processed TypeOrder.rendered.2 TypeOrder.rendered.1
      (eq_some_getD_of_isSome _ default (by decide))).2.2.2.2 (by decide)).2⟩

/-! ## The memory of the nodes -/

theorem AstMemory.length_push (mem : AstMemory) (c : AstCell) :
    (mem.push c).length = mem.length + 1 := by
  simp [AstMemory.push, AstMemory.length]

theorem AstMemory.length_set (mem : AstMemory) (p : Nat) (c : AstCell) :
    (mem.set p c).length = mem.length := by
  simp [AstMemory.set, AstMemory.length]

theorem AstMemory.cell_push (mem : AstMemory) (c : AstCell) (q : Nat) :
    (mem.push c).cell q = if q = mem.length then c else mem.cell q := by
  unfold AstMemory.push AstMemory.cell AstMemory.length
  simp only [List.getD_eq_getElem?_getD]
  split_ifs with h
  · subst h
    simp
  · rcases Nat.lt_or_gt_of_ne h with h1 | h1
    · rw [List.getElem?_append_left h1]
    · rw [List.getElem?_eq_none (by simp; omega), List.getElem?_eq_none (by omega)]

theorem AstMemory.cell_set (mem : AstMemory) (p : Nat) (c : AstCell) (q : Nat) :
    (mem.set p c).cell q = if q = p ∧ p < mem.length then c else mem.cell q := by
  unfold AstMemory.set AstMemory.cell AstMemory.length
  simp only [List.getD_eq_getElem?_getD, List.getElem?_set]
  by_cases h : p = q
  · subst h
    by_cases h2 : p < mem.cells.length
    · simp [h2]
    · simp only [h2, and_false, if_false, false_and]
      rw [List.getElem?_eq_none (by omega)]
      simp
  · have h' : ¬ q = p := fun e => h e.symm
    simp [h, h']

theorem AstMemory.cell_of_length_le (mem : AstMemory) (q : Nat) (h : mem.length ≤ q) :
    mem.cell q = default := by
  unfold AstMemory.cell AstMemory.length at *
  simp only [List.getD_eq_getElem?_getD]
  rw [List.getElem?_eq_none h]
  rfl

theorem scaleReference_length (mem : AstMemory) (ast astParent : Nat) (value : String) :
    (scaleReference mem ast astParent value).length = mem.length + 2 := by
  unfold scaleReference
  dsimp only
  split_ifs <;> simp only [AstMemory.length_set, AstMemory.length_push]

theorem scaleReference_cell (mem : AstMemory) (ast astParent : Nat) (value : String)
    (ha : ast < mem.length) (hp : astParent < mem.length) (hne : ast ≠ astParent) (q : Nat) :
    (scaleReference mem ast astParent value).cell q =
      if q = astParent then
        (if (mem.cell astParent).mLeft = some ast then
          { mem.cell astParent with mLeft := some mem.length }
         else { mem.cell astParent with mRight := some mem.length })
      else if q = ast then { mem.cell ast with mParent := some mem.length }
      else if q = mem.length then
        { mType := GeneratorEquationAstType.TIMES, mParent := some astParent,
          mLeft := some (mem.length + 1), mRight := some ast }
      else if q = mem.length + 1 then
        { mType := GeneratorEquationAstType.CN, mValue := value, mParent := some mem.length }
      else mem.cell q := by
  unfold scaleReference
  dsimp only
  have e1 : ∀ x, x < mem.length → x ≠ mem.length := fun x hx => by omega
  have e2 : ∀ x, x < mem.length → x ≠ mem.length + 1 := fun x hx => by omega
  by_cases hl : (mem.cell astParent).mLeft = some ast
  · simp only [AstMemory.cell_set, AstMemory.cell_push, AstMemory.length_set,
      AstMemory.length_push, e1 _ ha, e1 _ hp, e2 _ ha, e2 _ hp, hne, Ne.symm hne, hl,
      if_true, if_false, false_and, and_false, true_and, and_true]
    split_ifs <;> first | rfl | omega
  · simp only [AstMemory.cell_set, AstMemory.cell_push, AstMemory.length_set,
      AstMemory.length_push, e1 _ ha, e1 _ hp, e2 _ ha, e2 _ hp, hne, Ne.symm hne, hl,
      if_true, if_false, false_and, and_false, true_and, and_true]
    split_ifs <;> first | rfl | omega

theorem scaleComputedRate_length (mem : AstMemory) (astGrandParent rhsAst : Nat)
    (value : String) :
    (scaleComputedRate mem astGrandParent rhsAst value).length = mem.length + 2 := by
  unfold scaleComputedRate
  simp only [AstMemory.length_set, AstMemory.length_push]

theorem scaleComputedRate_cell (mem : AstMemory) (astGrandParent rhsAst : Nat) (value : String)
    (hg : astGrandParent < mem.length) (hr : rhsAst < mem.length)
    (hne : rhsAst ≠ astGrandParent) (q : Nat) :
    (scaleComputedRate mem astGrandParent rhsAst value).cell q =
      if q = astGrandParent then { mem.cell astGrandParent with mRight := some mem.length }
      else if q = rhsAst then { mem.cell rhsAst with mParent := some astGrandParent }
      else if q = mem.length then
        { mType := GeneratorEquationAstType.TIMES, mParent := some astGrandParent,
          mLeft := some (mem.length + 1), mRight := some rhsAst }
      else if q = mem.length + 1 then
        { mType := GeneratorEquationAstType.CN, mValue := value, mParent := some mem.length }
      else mem.cell q := by
  unfold scaleComputedRate
  dsimp only
  have e1 : ∀ x, x < mem.length → x ≠ mem.length := fun x hx => by omega
  have e2 : ∀ x, x < mem.length → x ≠ mem.length + 1 := fun x hx => by omega
  simp only [AstMemory.cell_set, AstMemory.cell_push, AstMemory.length_set,
    AstMemory.length_push, e1 _ hg, e1 _ hr, e2 _ hg, e2 _ hr, hne, Ne.symm hne,
    if_true, if_false, false_and, and_false, true_and, and_true]
  split_ifs <;> first | rfl | omega

/-! ## Chains of new nodes -/

theorem AstMemory.lt_of_mRight (mem : AstMemory) (j x : Nat)
    (h : (mem.cell j).mRight = some x) : j < mem.length := by
  by_contra hc
  rw [mem.cell_of_length_le j (by omega)] at h
  exact Option.noConfusion h

theorem AstMemory.lt_of_mLeft (mem : AstMemory) (j x : Nat)
    (h : (mem.cell j).mLeft = some x) : j < mem.length := by
  by_contra hc
  rw [mem.cell_of_length_le j (by omega)] at h
  exact Option.noConfusion h

theorem AstMemory.lt_of_mParent (mem : AstMemory) (j x : Nat)
    (h : (mem.cell j).mParent = some x) : j < mem.length := by
  by_contra hc
  rw [mem.cell_of_length_le j (by omega)] at h
  exact Option.noConfusion h

theorem AstMemory.lt_of_mType (mem : AstMemory) (j : Nat)
    (h : (mem.cell j).mType ≠ GeneratorEquationAstType.ASSIGNMENT) : j < mem.length := by
  by_contra hc
  rw [mem.cell_of_length_le j (by omega)] at h
  exact h rfl

theorem AstMemory.IsLit.litLt {mem : AstMemory} {j : Nat} (h : mem.IsLit j) : j < mem.length :=
  mem.lt_of_mType j (by rw [h.1]; decide)

theorem AstMemory.Chain.chainEnd {n0 : Nat} {mem : AstMemory} {top i : Nat}
    (h : AstMemory.Chain n0 mem top i) (ht : top < n0) : top = i := by
  cases h with
  | here => rfl
  | step h1 _ _ => omega

theorem AstMemory.Chain.chainMono {n0 : Nat} {mem mem' : AstMemory} {top i : Nat}
    (h : AstMemory.Chain n0 mem top i)
    (hm : ∀ j x, n0 ≤ j → (mem.cell j).mRight = some x → (mem'.cell j).mRight = some x) :
    AstMemory.Chain n0 mem' top i := by
  induction h with
  | here => exact AstMemory.Chain.here _
  | step h1 h2 _ ih => exact AstMemory.Chain.step h1 (hm _ _ h1 h2) ih

theorem AstMemory.Chain.chainLt {n0 : Nat} {mem : AstMemory} {top i : Nat}
    (h : AstMemory.Chain n0 mem top i) (hi : i < mem.length) : top < mem.length := by
  cases h with
  | here => exact hi
  | step _ h2 _ => exact mem.lt_of_mRight _ _ h2

theorem AstMemory.SlotOk.slotMono {n0 : Nat} {mem mem' : AstMemory} {cur orig : Option Nat}
    (h : AstMemory.SlotOk n0 mem cur orig)
    (hm : ∀ j x, n0 ≤ j → (mem.cell j).mRight = some x → (mem'.cell j).mRight = some x) :
    AstMemory.SlotOk n0 mem' cur orig := by
  unfold AstMemory.SlotOk at *
  cases orig with
  | none => exact h
  | some child =>
    obtain ⟨top, h1, h2⟩ := h
    exact ⟨top, h1, h2.chainMono hm⟩

theorem AstMemory.SlotOk.slotOriginal {n0 : Nat} {mem : AstMemory} {top : Nat} {orig : Option Nat}
    (h : AstMemory.SlotOk n0 mem (some top) orig) (ht : top < n0) : orig = some top := by
  unfold AstMemory.SlotOk at h
  cases orig with
  | none => exact Option.noConfusion h
  | some child =>
    obtain ⟨top', h1, h2⟩ := h
    simp only [Option.some.injEq] at h1
    subst h1
    rw [h2.chainEnd ht]

theorem AstMemory.SlotOk.wrap {n0 : Nat} {mem : AstMemory} {s x : Nat}
    (hs : n0 ≤ s) (hr : (mem.cell s).mRight = some x) :
    AstMemory.SlotOk n0 mem (some s) (some x) :=
  ⟨s, rfl, AstMemory.Chain.step hs hr (AstMemory.Chain.here x)⟩

/-! ## The pass keeps its invariant: `scaleReference` below an original node -/

theorem ScaleInv.wrapOriginal {F : Type} {m : Model} {num : Numerics F} {g0 : GeneratorImpl}
    {mem0 mem : AstMemory} {visited : Set Nat}
    (inv : ScaleInv m num g0 mem0 mem visited) (sh : mem0.Shape)
    (a x q : Nat) (value : String)
    (hx : x < mem0.length) (hq0 : (mem0.cell x).mParent = some q)
    (hq : (mem.cell x).mParent = some q)
    (hxa : x = a ∨ (mem0.cell x).mType = GeneratorEquationAstType.DIFF)
    (ha : a ∉ visited)
    (hch : ∀ i, (mem0.cell i).mParent = some a → i ∈ visited)
    (hsb : ∀ p l, (mem0.cell p).mLeft = some l → (mem0.cell p).mRight = some a → l ∈ visited)
    (hres : ∀ p, (mem0.cell a).mType = GeneratorEquationAstType.CI →
      (mem0.cell a).mParent = some p →
      (mem0.cell p).mType ≠ GeneratorEquationAstType.DIFF →
      (mem0.cell p).mType ≠ GeneratorEquationAstType.BVAR →
      ScaledResult m num g0 mem0 (scaleReference mem x q value) a p) :
    ScaleInv m num g0 mem0 (scaleReference mem x q value) (insert a visited) := by
  have hqx := sh.parent x q hq0
  have hxL : x < mem.length := lt_of_lt_of_le hx inv.len
  have hqL : q < mem.length := by omega
  have hq0L : q < mem0.length := by omega
  have hne : x ≠ q := by omega
  have hlen := scaleReference_length mem x q value
  have hcell := scaleReference_cell mem x q value hxL hqL hne
  generalize scaleReference mem x q value = mem' at hlen hcell hres ⊢
  have hold : ∀ j, j ≠ q → j ≠ x → j < mem.length → mem'.cell j = mem.cell j := by
    intro j h1 h2 h3
    rw [hcell, if_neg h1, if_neg h2, if_neg (by omega), if_neg (by omega)]
  have hcx : mem'.cell x = { mem.cell x with mParent := some mem.length } := by
    rw [hcell, if_neg hne, if_pos rfl]
  have hcs : mem'.cell mem.length
      = { mType := GeneratorEquationAstType.TIMES, mParent := some q,
          mLeft := some (mem.length + 1), mRight := some x } := by
    rw [hcell, if_neg (by omega), if_neg (by omega), if_pos rfl]
  have hcn : mem'.cell (mem.length + 1)
      = { mType := GeneratorEquationAstType.CN, mValue := value,
          mParent := some mem.length } := by
    rw [hcell, if_neg (by omega), if_neg (by omega), if_neg (by omega), if_pos rfl]
  have hcq : mem'.cell q
      = if (mem.cell q).mLeft = some x then { mem.cell q with mLeft := some mem.length }
        else { mem.cell q with mRight := some mem.length } := by
    rw [hcell, if_pos rfl]
  -- the link of `q` that is written is the one that held `x`
  have hside : (if (mem.cell q).mLeft = some x then (mem0.cell q).mLeft = some x
      else ((mem0.cell q).mLeft ≠ some x ∧ (mem0.cell q).mRight = some x)) := by
    split_ifs with ht
    · have := inv.left q hq0L
      rw [ht] at this
      exact this.slotOriginal hx
    · rcases inv.direct x q hx hq0 hq with hd | hd
      · unfold slotOf at hd
        by_cases hl : (mem0.cell q).mLeft = some x
        · rw [if_pos hl] at hd
          exact absurd hd ht
        · rcases hqx.2 with h | h
          · exact absurd h hl
          · exact ⟨hl, h⟩
      · rcases hqx.2 with h | h
        · exact absurd h hd.2.1
        · exact ⟨hd.2.1, h⟩
  have hmono : ∀ j y, mem0.length ≤ j → (mem.cell j).mRight = some y →
      (mem'.cell j).mRight = some y := by
    intro j y h1 h2
    rw [hold j (by omega) (by omega) (mem.lt_of_mRight j y h2)]
    exact h2
  have hslot : ∀ i p, i ≠ x → (mem0.cell i).mParent = some p →
      slotOf mem0 mem' p i = slotOf mem0 mem p i := by
    intro i p hix hip
    have hpi := sh.parent i p hip
    have hi0 := mem0.lt_of_mParent i p hip
    unfold slotOf
    by_cases hpq : p = q
    · subst hpq
      rw [hcq]
      by_cases ht : (mem.cell p).mLeft = some x
      · rw [if_pos ht] at hside ⊢
        have : (mem0.cell p).mLeft ≠ some i := by
          rw [hside]
          simpa using fun e => hix e.symm
        simp only [if_neg this]
      · rw [if_neg ht] at hside ⊢
        by_cases hl : (mem0.cell p).mLeft = some i
        · simp only [if_pos hl]
        · rcases hpi.2 with h | h
          · exact absurd h hl
          · rw [hside.2] at h
            simp only [Option.some.injEq] at h
            exact absurd h.symm hix
    · by_cases hpx : p = x
      · subst hpx
        rw [hcx]
      · rw [hold p hpq hpx (by have := inv.len; omega)]
  have hparent : ∀ i, i ≠ x → i < mem.length → (mem'.cell i).mParent = (mem.cell i).mParent := by
    intro i hix hi
    by_cases hiq : i = q
    · subst hiq
      rw [hcq]
      split_ifs <;> rfl
    · rw [hold i hiq hix hi]
  have hnew : ∀ j, mem0.length ≤ j → j < mem.length → mem'.cell j = mem.cell j :=
    fun j h1 h2 => hold j (by omega) (by omega) h2
  have hvx : ∀ n, n ∈ visited → (mem0.cell n).mType = GeneratorEquationAstType.CI → n ≠ x := by
    intro n hn hci hnx
    subst hnx
    rcases hxa with h | h
    · subst h
      exact ha hn
    · rw [hci] at h
      exact absurd h (by decide)
  constructor
  case len => have := inv.len; omega
  case fixed =>
    intro i hi
    by_cases hiq : i = q
    · subst hiq
      rw [hcq]
      split_ifs <;> exact inv.fixed i hi
    · by_cases hix : i = x
      · subst hix
        rw [hcx]
        exact inv.fixed i hi
      · rw [hold i hiq hix (by have := inv.len; omega)]
        exact inv.fixed i hi
  case left =>
    intro i hi
    by_cases hiq : i = q
    · subst hiq
      rw [hcq]
      by_cases ht : (mem.cell i).mLeft = some x
      · rw [if_pos ht] at hside ⊢
        rw [hside]
        exact AstMemory.SlotOk.wrap inv.len (by rw [hcs])
      · rw [if_neg ht]
        exact (inv.left i hi).slotMono hmono
    · by_cases hix : i = x
      · subst hix
        rw [hcx]
        exact (inv.left i hi).slotMono hmono
      · rw [hold i hiq hix (by have := inv.len; omega)]
        exact (inv.left i hi).slotMono hmono
  case right =>
    intro i hi
    by_cases hiq : i = q
    · subst hiq
      rw [hcq]
      by_cases ht : (mem.cell i).mLeft = some x
      · rw [if_pos ht]
        exact (inv.right i hi).slotMono hmono
      · rw [if_neg ht] at hside ⊢
        rw [hside.2]
        exact AstMemory.SlotOk.wrap inv.len (by rw [hcs])
    · by_cases hix : i = x
      · subst hix
        rw [hcx]
        exact (inv.right i hi).slotMono hmono
      · rw [hold i hiq hix (by have := inv.len; omega)]
        exact (inv.right i hi).slotMono hmono
  case parent =>
    intro i hi
    by_cases hix : i = x
    · subst hix
      right
      refine ⟨mem.length, inv.len, by rw [hcx], by rw [hcs]⟩
    · rw [hparent i hix (by have := inv.len; omega)]
      rcases inv.parent i hi with h | ⟨s, h1, h2, h3⟩
      · exact Or.inl h
      · exact Or.inr ⟨s, h1, h2, hmono s i h1 h3⟩
  case unvisited =>
    intro i hi hty hiv
    have hia : i ≠ a := fun e => hiv (e ▸ Set.mem_insert _ _)
    have hiV : i ∉ visited := fun e => hiv (Set.mem_insert_of_mem _ e)
    have hix : i ≠ x := by
      intro e
      subst e
      rcases hxa with h | h
      · exact hia h
      · exact hty h
    rw [hparent i hix (by have := inv.len; omega)]
    exact inv.unvisited i hi hty hiV
  case direct =>
    intro i p hi hip hp
    by_cases hix : i = x
    · subst hix
      rw [hcx] at hp
      simp only [Option.some.injEq] at hp
      rw [hq0] at hip
      simp only [Option.some.injEq] at hip
      omega
    · rw [hparent i hix (by have := inv.len; omega)] at hp
      rw [hslot i p hix hip]
      exact inv.direct i p hi hip hp
  case fresh =>
    intro j h1 h2
    rw [hlen] at h2
    by_cases hj : j < mem.length
    · rcases inv.fresh j h1 hj with h | h
      · left
        unfold AstMemory.IsLit at *
        rw [hnew j h1 hj]
        exact h
      · right
        unfold AstMemory.IsWrap at *
        rw [hnew j h1 hj]
        obtain ⟨h3, cn, h4, h5, h6⟩ := h
        refine ⟨h3, cn, h4, h5, ?_⟩
        unfold AstMemory.IsLit at *
        rw [hnew cn h5 (AstMemory.IsLit.litLt h6)]
        exact h6
    · by_cases hj2 : j = mem.length
      · subst hj2
        right
        refine ⟨by rw [hcs], mem.length + 1, by rw [hcs], by omega, ?_⟩
        unfold AstMemory.IsLit
        rw [hcn]
        exact ⟨rfl, rfl, rfl⟩
      · have : j = mem.length + 1 := by omega
        subst this
        left
        unfold AstMemory.IsLit
        rw [hcn]
        exact ⟨rfl, rfl, rfl⟩
  case result =>
    intro n p hn hn0 hci hnp hpd hpb
    rcases Set.mem_insert_iff.1 hn with h | h
    · subst h
      exact hres p hci hnp hpd hpb
    · have hnx := hvx n h hci
      obtain ⟨f, g1, g2, hg, hf, hu, hs⟩ := inv.result n p h hn0 hci hnp hpd hpb
      refine ⟨f, g1, g2, hg, hf, fun h1 => ?_, fun h1 => ?_⟩
      · obtain ⟨u1, u2⟩ := hu h1
        refine ⟨?_, ?_⟩
        · rw [hparent n hnx (by have := inv.len; omega)]
          exact u1
        · rw [hslot n p hnx hnp]
          exact u2
      · obtain ⟨s, cn, s1, s2, s3, s4, s5, s6, s7, s8, s9, s10, s11⟩ := hs h1
        have hsL : s < mem.length := mem.lt_of_mRight _ _ s6
        have hcL : cn < mem.length := mem.lt_of_mType _ (by rw [s7]; decide)
        refine ⟨s, cn, s1, s2, ?_, ?_, ?_, ?_, ?_, ?_, ?_, ?_, ?_⟩
        · rw [hslot n p hnx hnp]; exact s3
        · rw [hnew s s1 hsL]; exact s4
        · rw [hnew s s1 hsL]; exact s5
        · rw [hnew s s1 hsL]; exact s6
        · rw [hnew cn s2 hcL]; exact s7
        · rw [hnew cn s2 hcL]; exact s8
        · rw [hnew cn s2 hcL]; exact s9
        · rw [hnew cn s2 hcL]; exact s10
        · rw [hparent n hnx (by have := inv.len; omega)]; exact s11
  case sibling =>
    intro p l r hl hr hrv
    rcases Set.mem_insert_iff.1 hrv with h | h
    · subst h
      exact Set.mem_insert_of_mem _ (hsb p l hl hr)
    · exact Set.mem_insert_of_mem _ (inv.sibling p l r hl hr h)
  case children =>
    intro i p hip hpv
    rcases Set.mem_insert_iff.1 hpv with h | h
    · subst h
      exact Set.mem_insert_of_mem _ (hch i hip)
    · exact Set.mem_insert_of_mem _ (inv.children i p hip h)

/-! ## The pass keeps its invariant: `scaleReference` below a new node -/

theorem ScaleInv.wrapBelowNew {F : Type} {m : Model} {num : Numerics F} {g0 : GeneratorImpl}
    {mem0 mem : AstMemory} {visited : Set Nat}
    (inv : ScaleInv m num g0 mem0 mem visited) (sh : mem0.Shape)
    (a x q : Nat) (value : String)
    (hx : x < mem0.length) (hq0 : mem0.length ≤ q)
    (hq : (mem.cell x).mParent = some q)
    (hxd : (mem0.cell x).mType = GeneratorEquationAstType.DIFF)
    (hch : ∀ i, (mem0.cell i).mParent = some a → i ∈ visited)
    (hsb : ∀ p l, (mem0.cell p).mLeft = some l → (mem0.cell p).mRight = some a → l ∈ visited)
    (hres : ∀ p, (mem0.cell a).mType = GeneratorEquationAstType.CI →
      (mem0.cell a).mParent = some p →
      (mem0.cell p).mType ≠ GeneratorEquationAstType.DIFF →
      (mem0.cell p).mType ≠ GeneratorEquationAstType.BVAR →
      ScaledResult m num g0 mem0 (scaleReference mem x q value) a p) :
    ScaleInv m num g0 mem0 (scaleReference mem x q value) (insert a visited) := by
  have hxL : x < mem.length := lt_of_lt_of_le hx inv.len
  have hqr : (mem.cell q).mRight = some x := by
    rcases inv.parent x hx with h | ⟨s, h1, h2, h3⟩
    · rw [hq] at h
      have := (sh.parent x q h.symm).1
      omega
    · rw [hq] at h2
      simp only [Option.some.injEq] at h2
      subst h2
      exact h3
  have hqL : q < mem.length := mem.lt_of_mRight q x hqr
  have hne : x ≠ q := by omega
  have hqw : mem.IsWrap mem0.length q := by
    rcases inv.fresh q hq0 hqL with h | h
    · rw [h.2.2] at hqr
      exact Option.noConfusion hqr
    · exact h
  have htest : (mem.cell q).mLeft ≠ some x := by
    obtain ⟨_, cn, h1, h2, _⟩ := hqw
    rw [h1]
    simp only [ne_eq, Option.some.injEq]
    omega
  have hlen := scaleReference_length mem x q value
  have hcell := scaleReference_cell mem x q value hxL hqL hne
  generalize scaleReference mem x q value = mem' at hlen hcell hres ⊢
  have hold : ∀ j, j ≠ q → j ≠ x → j < mem.length → mem'.cell j = mem.cell j := by
    intro j h1 h2 h3
    rw [hcell, if_neg h1, if_neg h2, if_neg (by omega), if_neg (by omega)]
  have hcx : mem'.cell x = { mem.cell x with mParent := some mem.length } := by
    rw [hcell, if_neg hne, if_pos rfl]
  have hcs : mem'.cell mem.length
      = { mType := GeneratorEquationAstType.TIMES, mParent := some q,
          mLeft := some (mem.length + 1), mRight := some x } := by
    rw [hcell, if_neg (by omega), if_neg (by omega), if_pos rfl]
  have hcn : mem'.cell (mem.length + 1)
      = { mType := GeneratorEquationAstType.CN, mValue := value,
          mParent := some mem.length } := by
    rw [hcell, if_neg (by omega), if_neg (by omega), if_neg (by omega), if_pos rfl]
  have hcq : mem'.cell q = { mem.cell q with mRight := some mem.length } := by
    rw [hcell, if_pos rfl, if_neg htest]
  have horig : ∀ i, i ≠ x → i < mem0.length → mem'.cell i = mem.cell i :=
    fun i h1 h2 => hold i (by omega) h1 (by have := inv.len; omega)
  have hchain : ∀ top i, AstMemory.Chain mem0.length mem top i →
      AstMemory.Chain mem0.length mem' top i := by
    intro top i h
    induction h with
    | here => exact AstMemory.Chain.here _
    | @step top next i h1 h2 h3 ih =>
      by_cases ht : top = q
      · subst ht
        rw [hqr] at h2
        simp only [Option.some.injEq] at h2
        subst h2
        have := h3.chainEnd hx
        subst this
        exact AstMemory.Chain.step h1 (by rw [hcq])
          (AstMemory.Chain.step inv.len (by rw [hcs]) (AstMemory.Chain.here _))
      · refine AstMemory.Chain.step h1 ?_ ih
        rw [hold top ht (by omega) (mem.lt_of_mRight _ _ h2)]
        exact h2
  have hslotok : ∀ cur orig, AstMemory.SlotOk mem0.length mem cur orig →
      AstMemory.SlotOk mem0.length mem' cur orig := by
    intro cur orig h
    unfold AstMemory.SlotOk at *
    cases orig with
    | none => exact h
    | some child =>
      obtain ⟨top, h1, h2⟩ := h
      exact ⟨top, h1, hchain _ _ h2⟩
  have hparent : ∀ i, i ≠ x → i < mem0.length →
      (mem'.cell i).mParent = (mem.cell i).mParent := by
    intro i hix hi
    rw [horig i hix hi]
  have hslot : ∀ i p, (mem0.cell i).mParent = some p →
      slotOf mem0 mem' p i = slotOf mem0 mem p i := by
    intro i p hip
    have hpi := sh.parent i p hip
    have hi0 := mem0.lt_of_mParent i p hip
    unfold slotOf
    by_cases hpx : p = x
    · subst hpx
      rw [hcx]
    · rw [horig p hpx (by omega)]
  have hvx : ∀ n, (mem0.cell n).mType = GeneratorEquationAstType.CI → n ≠ x := by
    intro n hci hnx
    subst hnx
    rw [hci] at hxd
    exact absurd hxd (by decide)
  have hlit : ∀ cn, mem0.length ≤ cn → mem.IsLit cn → mem'.IsLit cn := by
    intro cn h1 h2
    have hne2 : cn ≠ q := by
      intro e
      subst e
      rw [h2.2.2] at hqr
      exact Option.noConfusion hqr
    unfold AstMemory.IsLit at *
    rw [hold cn hne2 (by omega) (AstMemory.IsLit.litLt h2)]
    exact h2
  constructor
  case len => have := inv.len; omega
  case fixed =>
    intro i hi
    by_cases hix : i = x
    · subst hix
      rw [hcx]
      exact inv.fixed i hi
    · rw [horig i hix hi]
      exact inv.fixed i hi
  case left =>
    intro i hi
    by_cases hix : i = x
    · subst hix
      rw [hcx]
      exact hslotok _ _ (inv.left i hi)
    · rw [horig i hix hi]
      exact hslotok _ _ (inv.left i hi)
  case right =>
    intro i hi
    by_cases hix : i = x
    · subst hix
      rw [hcx]
      exact hslotok _ _ (inv.right i hi)
    · rw [horig i hix hi]
      exact hslotok _ _ (inv.right i hi)
  case parent =>
    intro i hi
    by_cases hix : i = x
    · subst hix
      right
      exact ⟨mem.length, inv.len, by rw [hcx], by rw [hcs]⟩
    · rw [hparent i hix hi]
      rcases inv.parent i hi with h | ⟨s, h1, h2, h3⟩
      · exact Or.inl h
      · refine Or.inr ⟨s, h1, h2, ?_⟩
        have hsq : s ≠ q := by
          intro e
          subst e
          rw [hqr] at h3
          simp only [Option.some.injEq] at h3
          exact hix h3.symm
        rw [hold s hsq (by omega) (mem.lt_of_mRight _ _ h3)]
        exact h3
  case unvisited =>
    intro i hi hty hiv
    have hiV : i ∉ visited := fun e => hiv (Set.mem_insert_of_mem _ e)
    have hix : i ≠ x := by
      intro e
      subst e
      exact hty hxd
    rw [hparent i hix hi]
    exact inv.unvisited i hi hty hiV
  case direct =>
    intro i p hi hip hp
    by_cases hix : i = x
    · subst hix
      rw [hcx] at hp
      simp only [Option.some.injEq] at hp
      have := (sh.parent i p hip).1
      have := inv.len
      omega
    · rw [hparent i hix hi] at hp
      rw [hslot i p hip]
      exact inv.direct i p hi hip hp
  case fresh =>
    intro j h1 h2
    rw [hlen] at h2
    by_cases hj : j < mem.length
    · by_cases hjq : j = q
      · subst hjq
        right
        obtain ⟨h3, cn, h4, h5, h6⟩ := hqw
        exact ⟨by rw [hcq]; exact h3, cn, by rw [hcq]; exact h4, h5, hlit cn h5 h6⟩
      · rcases inv.fresh j h1 hj with h | h
        · exact Or.inl (hlit j h1 h)
        · right
          unfold AstMemory.IsWrap at *
          rw [hold j hjq (by omega) hj]
          obtain ⟨h3, cn, h4, h5, h6⟩ := h
          exact ⟨h3, cn, h4, h5, hlit cn h5 h6⟩
    · by_cases hj2 : j = mem.length
      · subst hj2
        right
        refine ⟨by rw [hcs], mem.length + 1, by rw [hcs], by omega, ?_⟩
        unfold AstMemory.IsLit
        rw [hcn]
        exact ⟨rfl, rfl, rfl⟩
      · have : j = mem.length + 1 := by omega
        subst this
        left
        unfold AstMemory.IsLit
        rw [hcn]
        exact ⟨rfl, rfl, rfl⟩
  case result =>
    intro n p hn hn0 hci hnp hpd hpb
    rcases Set.mem_insert_iff.1 hn with h | h
    · subst h
      exact hres p hci hnp hpd hpb
    · have hnx := hvx n hci
      obtain ⟨f, g1, g2, hg, hf, hu, hs⟩ := inv.result n p h hn0 hci hnp hpd hpb
      refine ⟨f, g1, g2, hg, hf, fun h1 => ?_, fun h1 => ?_⟩
      · obtain ⟨u1, u2⟩ := hu h1
        refine ⟨?_, ?_⟩
        · rw [hparent n hnx hn0]
          exact u1
        · rw [hslot n p hnp]
          exact u2
      · obtain ⟨s, cn, s1, s2, s3, s4, s5, s6, s7, s8, s9, s10, s11⟩ := hs h1
        have hsL : s < mem.length := mem.lt_of_mRight _ _ s6
        have hcL : cn < mem.length := mem.lt_of_mType _ (by rw [s7]; decide)
        have hsq : s ≠ q := by
          intro e
          subst e
          rw [hqr] at s6
          simp only [Option.some.injEq] at s6
          exact hnx s6.symm
        have hcq2 : cn ≠ q := by
          intro e
          subst e
          rw [hqr] at s10
          exact Option.noConfusion s10
        have e1 := hold s hsq (by omega) hsL
        have e2 := hold cn hcq2 (by omega) hcL
        refine ⟨s, cn, s1, s2, ?_, ?_, ?_, ?_, ?_, ?_, ?_, ?_, ?_⟩
        · rw [hslot n p hnp]; exact s3
        · rw [e1]; exact s4
        · rw [e1]; exact s5
        · rw [e1]; exact s6
        · rw [e2]; exact s7
        · rw [e2]; exact s8
        · rw [e2]; exact s9
        · rw [e2]; exact s10
        · rw [hparent n hnx hn0]; exact s11
  case sibling =>
    intro p l r hl hr hrv
    rcases Set.mem_insert_iff.1 hrv with h | h
    · subst h
      exact Set.mem_insert_of_mem _ (hsb p l hl hr)
    · exact Set.mem_insert_of_mem _ (inv.sibling p l r hl hr h)
  case children =>
    intro i p hip hpv
    rcases Set.mem_insert_iff.1 hpv with h | h
    · subst h
      exact Set.mem_insert_of_mem _ (hch i hip)
    · exact Set.mem_insert_of_mem _ (inv.children i p hip h)

/-! ## The pass keeps its invariant: `scaleComputedRate` -/

theorem ScaleInv.computedRate {F : Type} {m : Model} {num : Numerics F} {g0 : GeneratorImpl}
    {mem0 mem : AstMemory} {visited : Set Nat}
    (inv : ScaleInv m num g0 mem0 mem visited) (sh : mem0.Shape)
    (a gp d rhs : Nat) (value : String)
    (hg : gp < mem0.length)
    (hgt : (mem0.cell gp).mType = GeneratorEquationAstType.ASSIGNMENT)
    (hgl : (mem0.cell gp).mLeft = some d)
    (hd : (mem0.cell d).mType = GeneratorEquationAstType.DIFF)
    (hrhs : (mem.cell gp).mRight = some rhs)
    (hr0 : ∀ r, (mem0.cell gp).mRight = some r → r ∉ visited)
    (hch : ∀ i, (mem0.cell i).mParent = some a → i ∈ visited)
    (hsb : ∀ p l, (mem0.cell p).mLeft = some l → (mem0.cell p).mRight = some a → l ∈ visited)
    (hres : ∀ p, (mem0.cell a).mType = GeneratorEquationAstType.CI →
      (mem0.cell a).mParent = some p →
      (mem0.cell p).mType ≠ GeneratorEquationAstType.DIFF →
      (mem0.cell p).mType ≠ GeneratorEquationAstType.BVAR →
      ScaledResult m num g0 mem0 (scaleComputedRate mem gp rhs value) a p) :
    ScaleInv m num g0 mem0 (scaleComputedRate mem gp rhs value) (insert a visited) := by
  have hgL : gp < mem.length := lt_of_lt_of_le hg inv.len
  obtain ⟨r0, hr, hchain0⟩ : ∃ r0, (mem0.cell gp).mRight = some r0
      ∧ AstMemory.Chain mem0.length mem rhs r0 := by
    have := inv.right gp hg
    rw [hrhs] at this
    unfold AstMemory.SlotOk at this
    cases h : (mem0.cell gp).mRight with
    | none =>
      rw [h] at this
      exact Option.noConfusion this
    | some r0 =>
      rw [h] at this
      obtain ⟨top, h1, h2⟩ := this
      simp only [Option.some.injEq] at h1
      subst h1
      exact ⟨r0, rfl, h2⟩
  have hr0s := sh.right gp r0 hr
  have hr0v : r0 ∉ visited := hr0 r0 hr
  have hdr : d ≠ r0 := sh.distinct gp d r0 hgl hr
  have hrL : rhs < mem.length := hchain0.chainLt (by have := inv.len; omega)
  have hrorig : rhs < mem0.length → rhs = r0 := fun h => hchain0.chainEnd h
  have hne : rhs ≠ gp := by
    by_cases h : rhs < mem0.length
    · have := hrorig h
      omega
    · omega
  have hrate : RateTarget mem0 gp r0 :=
    ⟨hgt, by rw [hgl]; simpa using hdr, d, hgl, hd⟩
  have hlen := scaleComputedRate_length mem gp rhs value
  have hcell := scaleComputedRate_cell mem gp rhs value hgL hrL hne
  generalize scaleComputedRate mem gp rhs value = mem' at hlen hcell hres ⊢
  have hold : ∀ j, j ≠ gp → j ≠ rhs → j < mem.length → mem'.cell j = mem.cell j := by
    intro j h1 h2 h3
    rw [hcell, if_neg h1, if_neg h2, if_neg (by omega), if_neg (by omega)]
  have hcr : mem'.cell rhs = { mem.cell rhs with mParent := some gp } := by
    rw [hcell, if_neg hne, if_pos rfl]
  have hcs : mem'.cell mem.length
      = { mType := GeneratorEquationAstType.TIMES, mParent := some gp,
          mLeft := some (mem.length + 1), mRight := some rhs } := by
    rw [hcell, if_neg (by omega), if_neg (by omega), if_pos rfl]
  have hcn : mem'.cell (mem.length + 1)
      = { mType := GeneratorEquationAstType.CN, mValue := value,
          mParent := some mem.length } := by
    rw [hcell, if_neg (by omega), if_neg (by omega), if_neg (by omega), if_pos rfl]
  have hcg : mem'.cell gp = { mem.cell gp with mRight := some mem.length } := by
    rw [hcell, if_pos rfl]
  -- the fields of a cell other than its parent, and the links of a cell other than `gp`
  have hfields : ∀ j, j < mem.length →
      (mem'.cell j).mType = (mem.cell j).mType ∧ (mem'.cell j).mValue = (mem.cell j).mValue
      ∧ (mem'.cell j).mVariable = (mem.cell j).mVariable
      ∧ (mem'.cell j).mLeft = (mem.cell j).mLeft
      ∧ (j ≠ gp → (mem'.cell j).mRight = (mem.cell j).mRight) := by
    intro j hj
    by_cases h1 : j = gp
    · subst h1
      rw [hcg]
      exact ⟨rfl, rfl, rfl, rfl, fun h => absurd rfl h⟩
    · by_cases h2 : j = rhs
      · subst h2
        rw [hcr]
        exact ⟨rfl, rfl, rfl, rfl, fun _ => rfl⟩
      · rw [hold j h1 h2 hj]
        exact ⟨rfl, rfl, rfl, rfl, fun _ => rfl⟩
  have hmono : ∀ j y, mem0.length ≤ j → (mem.cell j).mRight = some y →
      (mem'.cell j).mRight = some y := by
    intro j y h1 h2
    rw [(hfields j (mem.lt_of_mRight j y h2)).2.2.2.2 (by omega)]
    exact h2
  have hparent : ∀ i, i ≠ rhs → i < mem.length →
      (mem'.cell i).mParent = (mem.cell i).mParent := by
    intro i hix hi
    by_cases hiq : i = gp
    · subst hiq
      rw [hcg]
    · rw [hold i hiq hix hi]
  have hslot : ∀ i p, p ≠ gp → (mem0.cell i).mParent = some p →
      slotOf mem0 mem' p i = slotOf mem0 mem p i := by
    intro i p hpg hip
    have hpi := sh.parent i p hip
    have hi0 := mem0.lt_of_mParent i p hip
    have hp := hfields p (by have := inv.len; omega)
    unfold slotOf
    rw [hp.2.2.2.1, hp.2.2.2.2 hpg]
  have hlit : ∀ cn, mem.IsLit cn → mem'.IsLit cn := by
    intro cn h
    have hc := hfields cn (AstMemory.IsLit.litLt h)
    have hcg2 : cn ≠ gp := by
      intro e
      subst e
      rw [h.2.2] at hrhs
      exact Option.noConfusion hrhs
    unfold AstMemory.IsLit at *
    rw [hc.1, hc.2.2.2.1, hc.2.2.2.2 hcg2]
    exact h
  have hvn : ∀ n p, n ∈ visited → (mem0.cell n).mType = GeneratorEquationAstType.CI →
      (mem0.cell n).mParent = some p → n ≠ rhs ∧ p ≠ gp := by
    intro n p hn hci hnp
    have hn0 := mem0.lt_of_mParent n p hnp
    have hnr0 : n ≠ r0 := fun e => hr0v (e ▸ hn)
    refine ⟨fun e => ?_, fun e => ?_⟩
    · subst e
      exact hnr0 (hrorig hn0)
    · subst e
      rcases (sh.parent n p hnp).2 with h | h
      · rw [hgl] at h
        simp only [Option.some.injEq] at h
        subst h
        rw [hci] at hd
        exact absurd hd (by decide)
      · rw [hr] at h
        simp only [Option.some.injEq] at h
        exact hnr0 h.symm
  constructor
  case len => have := inv.len; omega
  case fixed =>
    intro i hi
    have h := hfields i (by have := inv.len; omega)
    rw [h.1, h.2.1, h.2.2.1]
    exact inv.fixed i hi
  case left =>
    intro i hi
    rw [(hfields i (by have := inv.len; omega)).2.2.2.1]
    exact (inv.left i hi).slotMono hmono
  case right =>
    intro i hi
    by_cases hig : i = gp
    · subst hig
      rw [hcg, hr]
      exact ⟨mem.length, rfl, AstMemory.Chain.step inv.len (by rw [hcs]) (hchain0.chainMono hmono)⟩
    · rw [(hfields i (by have := inv.len; omega)).2.2.2.2 hig]
      exact (inv.right i hi).slotMono hmono
  case parent =>
    intro i hi
    by_cases hix : i = rhs
    · subst hix
      left
      rw [hcr, hrorig hi]
      exact hr0s.2.2.symm
    · rw [hparent i hix (by have := inv.len; omega)]
      rcases inv.parent i hi with h | ⟨s, h1, h2, h3⟩
      · exact Or.inl h
      · exact Or.inr ⟨s, h1, h2, hmono s i h1 h3⟩
  case unvisited =>
    intro i hi hty hiv
    have hiV : i ∉ visited := fun e => hiv (Set.mem_insert_of_mem _ e)
    by_cases hix : i = rhs
    · subst hix
      rw [hcr, hrorig hi]
      exact hr0s.2.2.symm
    · rw [hparent i hix (by have := inv.len; omega)]
      exact inv.unvisited i hi hty hiV
  case direct =>
    intro i p hi hip hp
    by_cases hpg : p = gp
    · subst hpg
      by_cases hl : (mem0.cell p).mLeft = some i
      · by_cases hix : i = rhs
        · subst hix
          rw [hrorig hi] at hl
          rw [hgl] at hl
          simp only [Option.some.injEq] at hl
          exact absurd hl hdr
        · rw [hparent i hix (by have := inv.len; omega)] at hp
          rcases inv.direct i p hi hip hp with h | h
          · left
            unfold slotOf at *
            rw [if_pos hl] at h ⊢
            rw [(hfields p hgL).2.2.2.1]
            exact h
          · exact Or.inr h
      · right
        rcases (sh.parent i p hip).2 with h | h
        · exact absurd h hl
        · rw [hr] at h
          simp only [Option.some.injEq] at h
          subst h
          exact hrate
    · have hix : i ≠ rhs := by
        intro e
        subst e
        rw [hrorig hi, hr0s.2.2] at hip
        simp only [Option.some.injEq] at hip
        exact hpg hip.symm
      rw [hparent i hix (by have := inv.len; omega)] at hp
      rw [hslot i p hpg hip]
      exact inv.direct i p hi hip hp
  case fresh =>
    intro j h1 h2
    rw [hlen] at h2
    by_cases hj : j < mem.length
    · rcases inv.fresh j h1 hj with h | h
      · exact Or.inl (hlit j h)
      · right
        have hf := hfields j hj
        unfold AstMemory.IsWrap at *
        rw [hf.1, hf.2.2.2.1]
        obtain ⟨h3, cn, h4, h5, h6⟩ := h
        exact ⟨h3, cn, h4, h5, hlit cn h6⟩
    · by_cases hj2 : j = mem.length
      · subst hj2
        right
        refine ⟨by rw [hcs], mem.length + 1, by rw [hcs], by omega, ?_⟩
        unfold AstMemory.IsLit
        rw [hcn]
        exact ⟨rfl, rfl, rfl⟩
      · have : j = mem.length + 1 := by omega
        subst this
        left
        unfold AstMemory.IsLit
        rw [hcn]
        exact ⟨rfl, rfl, rfl⟩
  case result =>
    intro n p hn hn0 hci hnp hpd hpb
    rcases Set.mem_insert_iff.1 hn with h | h
    · subst h
      exact hres p hci hnp hpd hpb
    · obtain ⟨hnx, hpg⟩ := hvn n p h hci hnp
      obtain ⟨f, g1, g2, hg1, hf, hu, hs⟩ := inv.result n p h hn0 hci hnp hpd hpb
      refine ⟨f, g1, g2, hg1, hf, fun h1 => ?_, fun h1 => ?_⟩
      · obtain ⟨u1, u2⟩ := hu h1
        refine ⟨?_, ?_⟩
        · rw [hparent n hnx (by have := inv.len; omega)]
          exact u1
        · rw [hslot n p hpg hnp]
          exact u2
      · obtain ⟨s, cn, s1, s2, s3, s4, s5, s6, s7, s8, s9, s10, s11⟩ := hs h1
        have hsL : s < mem.length := mem.lt_of_mRight _ _ s6
        have hcL : cn < mem.length := mem.lt_of_mType _ (by rw [s7]; decide)
        have e1 := hfields s hsL
        have e2 := hfields cn hcL
        refine ⟨s, cn, s1, s2, ?_, ?_, ?_, ?_, ?_, ?_, ?_, ?_, ?_⟩
        · rw [hslot n p hpg hnp]; exact s3
        · rw [e1.1]; exact s4
        · rw [e1.2.2.2.1]; exact s5
        · rw [e1.2.2.2.2 (by omega)]; exact s6
        · rw [e2.1]; exact s7
        · rw [e2.2.1]; exact s8
        · rw [e2.2.2.2.1]; exact s9
        · rw [e2.2.2.2.2 (by omega)]; exact s10
        · rw [hparent n hnx (by have := inv.len; omega)]; exact s11
  case sibling =>
    intro p l r hl hr hrv
    rcases Set.mem_insert_iff.1 hrv with h | h
    · subst h
      exact Set.mem_insert_of_mem _ (hsb p l hl hr)
    · exact Set.mem_insert_of_mem _ (inv.sibling p l r hl hr h)
  case children =>
    intro i p hip hpv
    rcases Set.mem_insert_iff.1 hpv with h | h
    · subst h
      exact Set.mem_insert_of_mem _ (hch i hip)
    · exact Set.mem_insert_of_mem _ (inv.children i p hip h)

/-! ## The steps of the pass on a reference -/

theorem scalingFactor_grow {F : Type} (m : Model) (num : Numerics F) (g : GeneratorImpl)
    (var : Option Variable) (f : F) (g' : GeneratorImpl)
    (h : scalingFactor m num g var = some (f, g')) : Grow g g' := by
  unfold scalingFactor at h
  simp only [Option.bind_eq_some, Option.map_eq_some', Prod.mk.injEq] at h
  obtain ⟨v, _, w, _, _, rfl⟩ := h
  exact generatorVariable_grow m g v

theorem ScaleInv.visit {F : Type} {m : Model} {num : Numerics F} {g0 : GeneratorImpl}
    {mem0 mem : AstMemory} {visited : Set Nat}
    (inv : ScaleInv m num g0 mem0 mem visited) (a : Nat)
    (hch : ∀ i, (mem0.cell i).mParent = some a → i ∈ visited)
    (hsb : ∀ p l, (mem0.cell p).mLeft = some l → (mem0.cell p).mRight = some a → l ∈ visited)
    (hres : ∀ p, (mem0.cell a).mType = GeneratorEquationAstType.CI →
      (mem0.cell a).mParent = some p →
      (mem0.cell p).mType ≠ GeneratorEquationAstType.DIFF →
      (mem0.cell p).mType ≠ GeneratorEquationAstType.BVAR →
      ScaledResult m num g0 mem0 mem a p) :
    ScaleInv m num g0 mem0 mem (insert a visited) := by
  constructor
  case len => exact inv.len
  case fixed => exact inv.fixed
  case left => exact inv.left
  case right => exact inv.right
  case parent => exact inv.parent
  case unvisited =>
    intro i hi hty hiv
    exact inv.unvisited i hi hty (fun e => hiv (Set.mem_insert_of_mem _ e))
  case direct => exact inv.direct
  case fresh => exact inv.fresh
  case result =>
    intro n p hn hn0 hci hnp hpd hpb
    rcases Set.mem_insert_iff.1 hn with h | h
    · subst h
      exact hres p hci hnp hpd hpb
    · exact inv.result n p h hn0 hci hnp hpd hpb
  case sibling =>
    intro p l r hl hr hrv
    rcases Set.mem_insert_iff.1 hrv with h | h
    · subst h
      exact Set.mem_insert_of_mem _ (hsb p l hl hr)
    · exact Set.mem_insert_of_mem _ (inv.sibling p l r hl hr h)
  case children =>
    intro i p hip hpv
    rcases Set.mem_insert_iff.1 hpv with h | h
    · subst h
      exact Set.mem_insert_of_mem _ (hch i hip)
    · exact Set.mem_insert_of_mem _ (inv.children i p hip h)

/-- The test `astParent->mLeft == ast` of the pass finds the link that held
the node before the pass. -/
theorem ScaleInv.side {F : Type} {m : Model} {num : Numerics F} {g0 : GeneratorImpl}
    {mem0 mem : AstMemory} {visited : Set Nat}
    (inv : ScaleInv m num g0 mem0 mem visited) (sh : mem0.Shape) (x q : Nat)
    (hq0 : (mem0.cell x).mParent = some q) (hq : (mem.cell x).mParent = some q) :
    (mem.cell q).mLeft = some x ↔ (mem0.cell q).mLeft = some x := by
  have hx := mem0.lt_of_mParent x q hq0
  have hqx := sh.parent x q hq0
  constructor
  · intro ht
    have := inv.left q (by omega)
    rw [ht] at this
    exact this.slotOriginal hx
  · intro hl
    rcases inv.direct x q hx hq0 hq with hd | hd
    · unfold slotOf at hd
      rw [if_pos hl] at hd
      exact hd
    · exact absurd hl hd.2.1

theorem ScaleInv.plainStep {F : Type} {m : Model} {num : Numerics F} {g0 : GeneratorImpl}
    {mem0 mem : AstMemory} {visited : Set Nat}
    (inv : ScaleInv m num g0 mem0 mem visited) (sh : mem0.Shape)
    (a p : Nat) (g g' : GeneratorImpl) (mem' : AstMemory)
    (hg : Grow g0 g)
    (hp0 : (mem0.cell a).mParent = some p)
    (ha : a ∉ visited)
    (hci : (mem0.cell a).mType = GeneratorEquationAstType.CI)
    (hch : ∀ i, (mem0.cell i).mParent = some a → i ∈ visited)
    (hsb : ∀ p l, (mem0.cell p).mLeft = some l → (mem0.cell p).mRight = some a → l ∈ visited)
    (h : scaleVariable m num a p mem g = some (mem', g')) :
    ScaleInv m num g0 mem0 mem' (insert a visited) ∧ Grow g0 g' := by
  have ha0 := mem0.lt_of_mParent a p hp0
  have hpa := sh.parent a p hp0
  have hpar : (mem.cell a).mParent = some p := by
    rw [inv.unvisited a ha0 (by rw [hci]; decide) ha]
    exact hp0
  unfold scaleVariable at h
  simp only [Option.map_eq_some'] at h
  obtain ⟨⟨f, g2⟩, hf, h⟩ := h
  rw [(inv.fixed a ha0).2.2] at hf
  have hg2 := scalingFactor_grow m num g _ f g2 hf
  by_cases hone : num.areEqualToOne f = true
  · simp only [hone, Bool.not_true, Bool.false_eq_true, if_false, Prod.mk.injEq] at h
    obtain ⟨rfl, rfl⟩ := h
    refine ⟨inv.visit a hch hsb (fun p' _ hp' _ _ => ?_), hg.transGrow hg2⟩
    rw [hp0] at hp'
    simp only [Option.some.injEq] at hp'
    subst hp'
    exact ⟨f, g, g2, hg, hf, fun _ => ⟨hpar, inv.direct a p ha0 hp0 hpar⟩,
      fun h1 => by rw [hone] at h1; exact Bool.noConfusion h1⟩
  · have hone' : num.areEqualToOne f = false := by simpa using hone
    simp only [hone', Bool.not_false, if_true, Prod.mk.injEq] at h
    obtain ⟨rfl, rfl⟩ := h
    refine ⟨inv.wrapOriginal sh a a p _ ha0 hp0 hpar (Or.inl rfl) ha hch hsb
      (fun p' _ hp' _ _ => ?_), hg.transGrow hg2⟩
    rw [hp0] at hp'
    simp only [Option.some.injEq] at hp'
    subst hp'
    refine ⟨f, g, g2, hg, hf, fun h1 => by rw [hone'] at h1; exact Bool.noConfusion h1,
      fun _ => ?_⟩
    have haL : a < mem.length := lt_of_lt_of_le ha0 inv.len
    have hcell := scaleReference_cell mem a p (num.convertToString f) haL (by omega) (by omega)
    have hside := inv.side sh a p hp0 hpar
    refine ⟨mem.length, mem.length + 1, inv.len, by have := inv.len; omega, ?_, ?_, ?_, ?_,
      ?_, ?_, ?_, ?_, ?_⟩
    · unfold slotOf
      rw [hcell, if_pos rfl]
      by_cases hl : (mem0.cell p).mLeft = some a
      · rw [if_pos hl, if_pos (hside.2 hl)]
      · rw [if_neg hl, if_neg (fun e => hl (hside.1 e))]
    · rw [hcell, if_neg (by omega), if_neg (by omega), if_pos rfl]
    · rw [hcell, if_neg (by omega), if_neg (by omega), if_pos rfl]
    · rw [hcell, if_neg (by omega), if_neg (by omega), if_pos rfl]
    · rw [hcell, if_neg (by omega), if_neg (by omega), if_neg (by omega), if_pos rfl]
    · rw [hcell, if_neg (by omega), if_neg (by omega), if_neg (by omega), if_pos rfl]
    · rw [hcell, if_neg (by omega), if_neg (by omega), if_neg (by omega), if_pos rfl]
    · rw [hcell, if_neg (by omega), if_neg (by omega), if_neg (by omega), if_pos rfl]
    · rw [hcell, if_neg (by omega), if_pos rfl]

theorem ScaleInv.rateStep {F : Type} {m : Model} {num : Numerics F} {g0 : GeneratorImpl}
    {mem0 mem : AstMemory} {visited : Set Nat}
    (inv : ScaleInv m num g0 mem0 mem visited) (sh : mem0.Shape)
    (a p : Nat) (g g' : GeneratorImpl) (mem' : AstMemory)
    (hg : Grow g0 g)
    (hp0 : (mem0.cell a).mParent = some p)
    (ha : a ∉ visited)
    (hpd : (mem0.cell p).mType = GeneratorEquationAstType.DIFF)
    (hch : ∀ i, (mem0.cell i).mParent = some a → i ∈ visited)
    (hsb : ∀ p l, (mem0.cell p).mLeft = some l → (mem0.cell p).mRight = some a → l ∈ visited)
    (h : scaleRate m num p mem g = some (mem', g')) :
    ScaleInv m num g0 mem0 mem' (insert a visited) ∧ Grow g0 g' := by
  have ha0 := mem0.lt_of_mParent a p hp0
  have hpa := sh.parent a p hp0
  have hp0L : p < mem0.length := by omega
  have hnores : ∀ (mem1 : AstMemory) (p' : Nat),
      (mem0.cell a).mType = GeneratorEquationAstType.CI →
      (mem0.cell a).mParent = some p' →
      (mem0.cell p').mType ≠ GeneratorEquationAstType.DIFF →
      (mem0.cell p').mType ≠ GeneratorEquationAstType.BVAR →
      ScaledResult m num g0 mem0 mem1 a p' := by
    intro mem1 p' _ hp' hd _
    rw [hp0] at hp'
    simp only [Option.some.injEq] at hp'
    subst hp'
    exact absurd hpd hd
  unfold scaleRate at h
  simp only [Option.bind_eq_some] at h
  obtain ⟨bvar, _, voi, _, ⟨f, g2⟩, hf, h⟩ := h
  have hg2 := scalingFactor_grow m num g _ f g2 hf
  by_cases hone : num.areEqualToOne f = true
  · simp only [hone, Bool.not_true, Bool.false_eq_true, if_false, Option.some.injEq,
      Prod.mk.injEq] at h
    obtain ⟨rfl, rfl⟩ := h
    exact ⟨inv.visit a hch hsb (hnores mem), hg.transGrow hg2⟩
  · have hone' : num.areEqualToOne f = false := by simpa using hone
    simp only [hone', Bool.not_false, if_true, Option.bind_eq_some] at h
    obtain ⟨gp, hgp, h⟩ := h
    by_cases hc : (mem.cell gp).mType = GeneratorEquationAstType.ASSIGNMENT
        ∧ (mem.cell gp).mLeft = some p
    · rw [if_pos hc] at h
      simp only [Option.map_eq_some', Prod.mk.injEq] at h
      obtain ⟨rhs, hrhs, rfl, rfl⟩ := h
      -- the grandparent is the parent of `p` before the pass
      have hgp0 : (mem0.cell p).mParent = some gp := by
        rcases inv.parent p hp0L with h1 | ⟨s, h1, h2, h3⟩
        · rw [← h1]
          exact hgp
        · rw [hgp] at h2
          simp only [Option.some.injEq] at h2
          subst h2
          have hsL := mem.lt_of_mRight _ _ h3
          rcases inv.fresh gp h1 hsL with h4 | h4
          · rw [h4.1] at hc
            exact absurd hc.1 (by decide)
          · rw [h4.1] at hc
            exact absurd hc.1 (by decide)
      have hgpp := sh.parent p gp hgp0
      have hgpL : gp < mem0.length := by omega
      have hgl : (mem0.cell gp).mLeft = some p := by
        have := inv.left gp hgpL
        rw [hc.2] at this
        exact this.slotOriginal hp0L
      refine ⟨inv.computedRate sh a gp p rhs _ hgpL ?_ hgl hpd hrhs ?_ hch hsb (hnores _),
        hg.transGrow hg2⟩
      · rw [← (inv.fixed gp hgpL).1]
        exact hc.1
      · intro r hr hrv
        exact ha (inv.children a p hp0 (inv.sibling gp p r hgl hr hrv))
    · rw [if_neg hc] at h
      simp only [Option.some.injEq, Prod.mk.injEq] at h
      obtain ⟨rfl, rfl⟩ := h
      rcases inv.parent p hp0L with h1 | ⟨s, h1, h2, h3⟩
      · rw [hgp] at h1
        exact ⟨inv.wrapOriginal sh a p gp _ hp0L h1.symm hgp (Or.inr hpd) ha hch hsb
          (hnores _), hg.transGrow hg2⟩
      · rw [hgp] at h2
        simp only [Option.some.injEq] at h2
        subst h2
        exact ⟨inv.wrapBelowNew sh a p gp _ hp0L h1 hgp hpd hch hsb (hnores _),
          hg.transGrow hg2⟩

/-! ## The layout of a tree in memory -/

theorem GeneratorEquationAst.pointer_eq_some (t : GeneratorEquationAst) (i j : Nat)
    (h : t.pointer i = some j) : j = i ∧ 1 ≤ t.size := by
  cases t with
  | null => exact Option.noConfusion h
  | node ty v var l r =>
    simp only [GeneratorEquationAst.pointer, Option.some.injEq] at h
    refine ⟨h.symm, ?_⟩
    simp only [GeneratorEquationAst.size]
    omega

theorem AstMemory.Holds.holdsMono {mem mem' : AstMemory} :
    ∀ (t : GeneratorEquationAst) (a : Nat) (parent : Option Nat),
      (∀ q, a ≤ q → q < a + t.size → mem'.cell q = mem.cell q) →
      mem.Holds a t parent → mem'.Holds a t parent
  | GeneratorEquationAst.null, _, _, _, _ => trivial
  | GeneratorEquationAst.node ty v var l r, a, parent, hq, h => by
    simp only [AstMemory.Holds, GeneratorEquationAst.size] at h hq ⊢
    refine ⟨?_, ?_, ?_⟩
    · rw [hq a (le_refl a) (by omega)]
      exact h.1
    · exact AstMemory.Holds.holdsMono l (a + 1) (some a) (fun q h1 h2 => hq q (by omega) (by omega))
        h.2.1
    · exact AstMemory.Holds.holdsMono r (a + 1 + l.size) (some a)
        (fun q h1 h2 => hq q (by omega) (by omega)) h.2.2

theorem AstMemory.ofTree_spec :
    ∀ (t : GeneratorEquationAst) (parent : Option Nat) (mem : AstMemory),
      (AstMemory.ofTree t parent mem).1 = t.pointer mem.length
      ∧ (AstMemory.ofTree t parent mem).2.length = mem.length + t.size
      ∧ (∀ q, q < mem.length → (AstMemory.ofTree t parent mem).2.cell q = mem.cell q)
      ∧ (AstMemory.ofTree t parent mem).2.Holds mem.length t parent
  | GeneratorEquationAst.null, parent, mem => by
    simp [AstMemory.ofTree, GeneratorEquationAst.pointer, GeneratorEquationAst.size,
      AstMemory.Holds]
  | GeneratorEquationAst.node ty v var l r, parent, mem => by
    have hl := AstMemory.ofTree_spec l (some mem.length)
      (mem.push { mType := ty, mValue := v, mVariable := var, mParent := parent })
    have hr := AstMemory.ofTree_spec r (some mem.length)
      (AstMemory.ofTree l (some mem.length)
        (mem.push { mType := ty, mValue := v, mVariable := var, mParent := parent })).2
    simp only [AstMemory.ofTree]
    generalize hm1 : mem.push { mType := ty, mValue := v, mVariable := var, mParent := parent }
      = m1 at hl hr ⊢
    have hm1l : m1.length = mem.length + 1 := by rw [← hm1, AstMemory.length_push]
    have hm1c : ∀ q, m1.cell q = if q = mem.length then
        { mType := ty, mValue := v, mVariable := var, mParent := parent } else mem.cell q := by
      intro q
      rw [← hm1, AstMemory.cell_push]
    generalize AstMemory.ofTree l (some mem.length) m1 = rl at hl hr ⊢
    generalize AstMemory.ofTree r (some mem.length) rl.2 = rr at hr ⊢
    obtain ⟨l1, l2, l3, l4⟩ := hl
    obtain ⟨r1, r2, r3, r4⟩ := hr
    have hself : mem.length < rr.2.length := by omega
    have hcs : rr.2.cell mem.length
        = { mType := ty, mValue := v, mVariable := var, mParent := parent } := by
      rw [r3 _ (by omega), l3 _ (by omega), hm1c, if_pos rfl]
    refine ⟨rfl, ?_, ?_, ?_⟩
    · rw [AstMemory.length_set, r2, l2, hm1l]
      simp only [GeneratorEquationAst.size]
      omega
    · intro q hq
      rw [AstMemory.cell_set, if_neg (by omega), r3 _ (by omega), l3 _ (by omega), hm1c,
        if_neg (by omega)]
    · simp only [AstMemory.Holds]
      refine ⟨?_, ?_, ?_⟩
      · rw [AstMemory.cell_set, if_pos ⟨rfl, hself⟩, hcs, l1, r1, hm1l, l2, hm1l]
      · refine @AstMemory.Holds.holdsMono rl.2 _ l _ _ (fun q h1 h2 => ?_) ?_
        · rw [AstMemory.cell_set, if_neg (by omega), r3 _ (by omega)]
        · rw [← hm1l]
          exact l4
      · refine @AstMemory.Holds.holdsMono rr.2 _ r _ _ (fun q h1 h2 => ?_) ?_
        · rw [AstMemory.cell_set, if_neg (by omega)]
        · have : mem.length + 1 + l.size = rl.2.length := by omega
          rw [this]
          exact r4

/-- The facts of `AstMemory.Shape` on the nodes of a tree held in memory. -/
theorem AstMemory.Holds.local {mem : AstMemory} :
    ∀ (t : GeneratorEquationAst) (a : Nat) (parent : Option Nat), mem.Holds a t parent →
      ∀ i, a ≤ i → i < a + t.size →
        (∀ l, (mem.cell i).mLeft = some l →
          i < l ∧ l < a + t.size ∧ (mem.cell l).mParent = some i)
        ∧ (∀ r, (mem.cell i).mRight = some r →
          i < r ∧ r < a + t.size ∧ (mem.cell r).mParent = some i)
        ∧ (∀ l r, (mem.cell i).mLeft = some l → (mem.cell i).mRight = some r → l ≠ r)
        ∧ (i = a → (mem.cell i).mParent = parent)
        ∧ (i ≠ a → ∃ p, (mem.cell i).mParent = some p ∧ p < i ∧ a ≤ p
            ∧ ((mem.cell p).mLeft = some i ∨ (mem.cell p).mRight = some i))
  | GeneratorEquationAst.null, a, parent, _, i, h1, h2 => by
    simp only [GeneratorEquationAst.size] at h2
    omega
  | GeneratorEquationAst.node ty v var l r, a, parent, h, i, h1, h2 => by
    simp only [AstMemory.Holds] at h
    simp only [GeneratorEquationAst.size] at h2 ⊢
    obtain ⟨hc, hl, hr⟩ := h
    have ihl := AstMemory.Holds.local l (a + 1) (some a) hl
    have ihr := AstMemory.Holds.local r (a + 1 + l.size) (some a) hr
    have hcl : (mem.cell a).mLeft = l.pointer (a + 1) := by rw [hc]
    have hcr : (mem.cell a).mRight = r.pointer (a + 1 + l.size) := by rw [hc]
    -- the parent of the root of an operand
    have hpl : 1 ≤ l.size → (mem.cell (a + 1)).mParent = some a := fun hs =>
      (ihl (a + 1) (le_refl _) (by omega)).2.2.2.1 rfl
    have hpr : 1 ≤ r.size → (mem.cell (a + 1 + l.size)).mParent = some a := fun hs =>
      (ihr (a + 1 + l.size) (le_refl _) (by omega)).2.2.2.1 rfl
    by_cases hia : i = a
    · subst hia
      refine ⟨fun l' hl' => ?_, fun r' hr' => ?_, fun l' r' hl' hr' => ?_, fun _ => by rw [hc],
        fun hne => absurd rfl hne⟩
      · rw [hcl] at hl'
        obtain ⟨rfl, hs⟩ := l.pointer_eq_some _ _ hl'
        exact ⟨by omega, by omega, hpl hs⟩
      · rw [hcr] at hr'
        obtain ⟨rfl, hs⟩ := r.pointer_eq_some _ _ hr'
        exact ⟨by omega, by omega, hpr hs⟩
      · rw [hcl] at hl'
        rw [hcr] at hr'
        obtain ⟨rfl, hs⟩ := l.pointer_eq_some _ _ hl'
        obtain ⟨rfl, _⟩ := r.pointer_eq_some _ _ hr'
        omega
    · by_cases hil : i < a + 1 + l.size
      · obtain ⟨f1, f2, f3, f4, f5⟩ := ihl i (by omega) (by omega)
        refine ⟨fun l' hl' => ?_, fun r' hr' => ?_, f3, fun e => absurd e hia, fun _ => ?_⟩
        · have := f1 l' hl'
          exact ⟨this.1, by omega, this.2.2⟩
        · have := f2 r' hr'
          exact ⟨this.1, by omega, this.2.2⟩
        · by_cases hi1 : i = a + 1
          · subst hi1
            refine ⟨a, hpl (by omega), by omega, le_refl _, Or.inl ?_⟩
            rw [hcl]
            cases l with
            | null => simp only [GeneratorEquationAst.size] at hil; omega
            | node _ _ _ _ _ => rfl
          · obtain ⟨p, p1, p2, p3, p4⟩ := f5 hi1
            exact ⟨p, p1, p2, by omega, p4⟩
      · obtain ⟨f1, f2, f3, f4, f5⟩ := ihr i (by omega) (by omega)
        refine ⟨fun l' hl' => ?_, fun r' hr' => ?_, f3, fun e => absurd e hia, fun _ => ?_⟩
        · have := f1 l' hl'
          exact ⟨this.1, by omega, this.2.2⟩
        · have := f2 r' hr'
          exact ⟨this.1, by omega, this.2.2⟩
        · by_cases hi1 : i = a + 1 + l.size
          · subst hi1
            refine ⟨a, hpr (by omega), by omega, le_refl _, Or.inr ?_⟩
            rw [hcr]
            cases r with
            | null => simp only [GeneratorEquationAst.size] at h2; omega
            | node _ _ _ _ _ => rfl
          · obtain ⟨p, p1, p2, p3, p4⟩ := f5 hi1
            exact ⟨p, p1, p2, by omega, p4⟩

theorem AstMemory.Holds.shape {mem : AstMemory} (t : GeneratorEquationAst)
    (h : mem.Holds 0 t none) (hlen : mem.length = t.size) : mem.Shape := by
  have hloc := AstMemory.Holds.local t 0 none h
  constructor
  case left =>
    intro i l hl
    have hi := mem.lt_of_mLeft i l hl
    have := (hloc i (Nat.zero_le _) (by omega)).1 l hl
    exact ⟨this.1, by omega, this.2.2⟩
  case right =>
    intro i r hr
    have hi := mem.lt_of_mRight i r hr
    have := (hloc i (Nat.zero_le _) (by omega)).2.1 r hr
    exact ⟨this.1, by omega, this.2.2⟩
  case parent =>
    intro i p hp
    have hi := mem.lt_of_mParent i p hp
    obtain ⟨_, _, _, f4, f5⟩ := hloc i (Nat.zero_le _) (by omega)
    by_cases h0 : i = 0
    · rw [f4 h0] at hp
      exact Option.noConfusion hp
    · obtain ⟨p', p1, p2, _, p4⟩ := f5 h0
      rw [p1] at hp
      simp only [Option.some.injEq] at hp
      subst hp
      exact ⟨p2, p4⟩
  case distinct =>
    intro i l r hl hr
    have hi := mem.lt_of_mLeft i l hl
    exact (hloc i (Nat.zero_le _) (by omega)).2.2.1 l r hl hr
  case rooted =>
    intro i h0 hi
    obtain ⟨p, p1, _⟩ := (hloc i (Nat.zero_le _) (by omega)).2.2.2.2 (by omega)
    exact ⟨p, p1⟩

/-! ## The pass on the nodes that it has made -/

theorem scaleEquationAst_literal {F : Type} (m : Model) (num : Numerics F)
    (mem : AstMemory) (g : GeneratorImpl) (cn : Nat) (hl : mem.IsLit cn) :
    ∀ (fuel : Nat) (res : AstMemory × GeneratorImpl),
      scaleEquationAst m num fuel cn mem g = some res → res = (mem, g)
  | 0, res, h => by simp [scaleEquationAst] at h
  | fuel + 1, res, h => by
    have hty : (mem.cell cn).mType ≠ GeneratorEquationAstType.CI := by
      rw [hl.1]
      decide
    simp only [scaleEquationAst, hl.2.1, hl.2.2, Option.some_bind, hty, if_false,
      Option.some.injEq] at h
    exact h.symm

theorem scaleEquationAst_chain {F : Type} (m : Model) (num : Numerics F) (n0 : Nat)
    (mem : AstMemory) (g : GeneratorImpl)
    (hfresh : ∀ j, n0 ≤ j → j < mem.length → mem.IsLit j ∨ mem.IsWrap n0 j)
    (top i : Nat) (hc : AstMemory.Chain n0 mem top i) :
    ∀ (fuel : Nat) (res : AstMemory × GeneratorImpl),
      scaleEquationAst m num fuel top mem g = some res →
      ∃ fuel' res', scaleEquationAst m num fuel' i mem g = some res'
        ∧ ((∀ j, n0 ≤ j → j < mem.length →
              (res'.1.cell j).mType ≠ GeneratorEquationAstType.CI) → res = res') := by
  induction hc with
  | here i =>
    intro fuel res h
    exact ⟨fuel, res, h, fun _ => rfl⟩
  | @step top next i h1 h2 _ ih =>
    intro fuel res h
    have htL := mem.lt_of_mRight top next h2
    have hw : mem.IsWrap n0 top := by
      rcases hfresh top h1 htL with h3 | h3
      · rw [h3.2.2] at h2
        exact Option.noConfusion h2
      · exact h3
    obtain ⟨hty, cn, hcl, _, hlit⟩ := hw
    cases fuel with
    | zero => simp [scaleEquationAst] at h
    | succ fuel =>
      simp only [scaleEquationAst, hcl, Option.bind_eq_some] at h
      obtain ⟨s1, e1, s2, e2, e3⟩ := h
      have hs1 := scaleEquationAst_literal m num mem g cn hlit fuel s1 e1
      subst hs1
      simp only [h2] at e2
      obtain ⟨fuel', res', e4, e5⟩ := ih fuel s2 e2
      refine ⟨fuel', res', e4, fun hcond => ?_⟩
      have hs2 := e5 hcond
      subst hs2
      rw [if_neg (hcond top h1 htL)] at e3
      simp only [Option.some.injEq] at e3
      exact e3.symm

theorem ScaleInv.newNotReference {F : Type} {m : Model} {num : Numerics F}
    {g0 : GeneratorImpl} {mem0 mem : AstMemory} {visited : Set Nat}
    (inv : ScaleInv m num g0 mem0 mem visited) (j : Nat) (hj : mem0.length ≤ j) :
    (mem.cell j).mType ≠ GeneratorEquationAstType.CI := by
  by_cases hL : j < mem.length
  · rcases inv.fresh j hj hL with h | h
    · rw [h.1]
      decide
    · rw [h.1]
      decide
  · rw [mem.cell_of_length_le j (by omega)]
    decide

/-! ## The pass keeps its invariant -/

/-- The step of `scaleEquationAst` on an operand: the tree `t` held at the
position `b`, reached through the link `current`. -/
theorem scaleEquationAst_operand {F : Type} (m : Model) (num : Numerics F) (g0 : GeneratorImpl)
    (mem0 : AstMemory) (t : GeneratorEquationAst) (b : Nat)
    (ih : ∀ _ : t ≠ GeneratorEquationAst.null,
      ∀ (fuel : Nat) (mem : AstMemory) (g : GeneratorImpl) (visited : Set Nat)
        (res : AstMemory × GeneratorImpl),
        ScaleInv m num g0 mem0 mem visited → Grow g0 g → (∀ i ∈ visited, i < b) →
        (∀ p l, (mem0.cell p).mLeft = some l → (mem0.cell p).mRight = some b → l ∈ visited) →
        scaleEquationAst m num fuel b mem g = some res →
        ∃ visited', ScaleInv m num g0 mem0 res.1 visited' ∧ Grow g0 res.2
          ∧ ∀ i, i ∈ visited' ↔ (i ∈ visited ∨ (b ≤ i ∧ i < b + t.size)))
    (fuel : Nat) (mem : AstMemory) (g : GeneratorImpl) (visited : Set Nat)
    (res : AstMemory × GeneratorImpl)
    (inv : ScaleInv m num g0 mem0 mem visited) (hg : Grow g0 g) (hv : ∀ i ∈ visited, i < b)
    (hsb : t ≠ GeneratorEquationAst.null →
      ∀ p l, (mem0.cell p).mLeft = some l → (mem0.cell p).mRight = some b → l ∈ visited)
    (current : Option Nat)
    (h : (match current with
          | some l => scaleEquationAst m num fuel l mem g
          | none => some (mem, g)) = some res)
    (hslot : AstMemory.SlotOk mem0.length mem current (t.pointer b)) :
    ∃ visited', ScaleInv m num g0 mem0 res.1 visited' ∧ Grow g0 res.2
      ∧ ∀ i, i ∈ visited' ↔ (i ∈ visited ∨ (b ≤ i ∧ i < b + t.size)) := by
  cases t with
  | null =>
    simp only [GeneratorEquationAst.pointer, AstMemory.SlotOk] at hslot
    subst hslot
    simp only [Option.some.injEq] at h
    subst h
    refine ⟨visited, inv, hg, fun i => ?_⟩
    simp only [GeneratorEquationAst.size]
    constructor
    · exact Or.inl
    · rintro (h | h)
      · exact h
      · omega
  | node ty v var l r =>
    simp only [GeneratorEquationAst.pointer, AstMemory.SlotOk] at hslot
    obtain ⟨top, rfl, hchain⟩ := hslot
    simp only at h
    obtain ⟨fuel', res', e1, e2⟩ :=
      scaleEquationAst_chain m num mem0.length mem g inv.fresh top b hchain fuel res h
    obtain ⟨visited', inv', hg', hiff⟩ :=
      ih (by simp) fuel' mem g visited res' inv hg hv (hsb (by simp)) e1
    have := e2 (fun j hj _ => inv'.newNotReference j hj)
    subst this
    exact ⟨visited', inv', hg', hiff⟩

theorem scaleEquationAst_inv {F : Type} (m : Model) (num : Numerics F) (g0 : GeneratorImpl)
    (mem0 : AstMemory) (sh : mem0.Shape) :
    ∀ (t : GeneratorEquationAst) (a : Nat) (parent : Option Nat),
      mem0.Holds a t parent → a + t.size ≤ mem0.length → t ≠ GeneratorEquationAst.null →
      ∀ (fuel : Nat) (mem : AstMemory) (g : GeneratorImpl) (visited : Set Nat)
        (res : AstMemory × GeneratorImpl),
        ScaleInv m num g0 mem0 mem visited → Grow g0 g → (∀ i ∈ visited, i < a) →
        (∀ p l, (mem0.cell p).mLeft = some l → (mem0.cell p).mRight = some a → l ∈ visited) →
        scaleEquationAst m num fuel a mem g = some res →
        ∃ visited', ScaleInv m num g0 mem0 res.1 visited' ∧ Grow g0 res.2
          ∧ ∀ i, i ∈ visited' ↔ (i ∈ visited ∨ (a ≤ i ∧ i < a + t.size))
  | GeneratorEquationAst.null, _, _, _, _, hn => absurd rfl hn
  | GeneratorEquationAst.node ty v var l r, a, parent, hh, hlen, _ => by
    intro fuel mem g visited res inv hg hv hsb h
    simp only [AstMemory.Holds] at hh
    simp only [GeneratorEquationAst.size] at hlen ⊢
    obtain ⟨hc, hl, hr⟩ := hh
    have ha0 : a < mem0.length := by omega
    have hcl : (mem0.cell a).mLeft = l.pointer (a + 1) := by rw [hc]
    have hcr : (mem0.cell a).mRight = r.pointer (a + 1 + l.size) := by rw [hc]
    have hcp : (mem0.cell a).mParent = parent := by rw [hc]
    have hct : (mem0.cell a).mType = ty := by rw [hc]
    cases fuel with
    | zero => simp [scaleEquationAst] at h
    | succ fuel =>
      simp only [scaleEquationAst, Option.bind_eq_some] at h
      obtain ⟨s1, e1, s2, e2, e3⟩ := h
      -- the left operand
      obtain ⟨v1, inv1, hg1, iff1⟩ :=
        scaleEquationAst_operand m num g0 mem0 l (a + 1)
          (fun hn => scaleEquationAst_inv m num g0 mem0 sh l (a + 1) (some a) hl (by omega) hn)
          fuel mem g visited s1 inv hg (fun i hi => by have := hv i hi; omega)
          (fun hn p l' hpl hpr => by
            exfalso
            have h1 := (sh.right p (a + 1) hpr).2.2
            have h2 : (mem0.cell (a + 1)).mParent = some a := by
              cases l with
              | null => exact absurd rfl hn
              | node _ _ _ _ _ =>
                simp only [AstMemory.Holds] at hl
                rw [hl.1]
            rw [h2] at h1
            simp only [Option.some.injEq] at h1
            subst h1
            rw [hcr] at hpr
            have := r.pointer_eq_some _ _ hpr
            cases l with
            | null => exact absurd rfl hn
            | node _ _ _ _ _ =>
              simp only [GeneratorEquationAst.size] at this
              omega)
          (mem.cell a).mLeft e1 (by rw [← hcl]; exact inv.left a ha0)
      -- the right operand
      obtain ⟨v2, inv2, hg2, iff2⟩ :=
        scaleEquationAst_operand m num g0 mem0 r (a + 1 + l.size)
          (fun hn => scaleEquationAst_inv m num g0 mem0 sh r (a + 1 + l.size) (some a) hr
            (by omega) hn)
          fuel s1.1 s1.2 v1 s2 inv1 hg1
          (fun i hi => by
            rcases (iff1 i).1 hi with h1 | h1
            · have := hv i h1
              omega
            · omega)
          (fun hn p l' hpl hpr => by
            have h1 := (sh.right p _ hpr).2.2
            have h2 : (mem0.cell (a + 1 + l.size)).mParent = some a := by
              cases r with
              | null => exact absurd rfl hn
              | node _ _ _ _ _ =>
                simp only [AstMemory.Holds] at hr
                rw [hr.1]
            rw [h2] at h1
            simp only [Option.some.injEq] at h1
            subst h1
            rw [hcl] at hpl
            obtain ⟨rfl, hs⟩ := l.pointer_eq_some _ _ hpl
            exact (iff1 _).2 (Or.inr ⟨le_refl _, by omega⟩))
          (s1.1.cell a).mRight e2 (by rw [← hcr]; exact inv1.right a ha0)
      -- the node itself
      have hav : a ∉ v2 := by
        intro hin
        rcases (iff2 a).1 hin with h1 | h1
        · rcases (iff1 a).1 h1 with h2 | h2
          · have := hv a h2
            omega
          · omega
        · omega
      have hv12 : ∀ i, i ∈ visited → i ∈ v2 := fun i hi =>
        (iff2 i).2 (Or.inl ((iff1 i).2 (Or.inl hi)))
      have hch : ∀ i, (mem0.cell i).mParent = some a → i ∈ v2 := by
        intro i hi
        rcases (sh.parent i a hi).2 with h1 | h1
        · rw [hcl] at h1
          obtain ⟨rfl, hs⟩ := l.pointer_eq_some _ _ h1
          exact (iff2 _).2 (Or.inl ((iff1 _).2 (Or.inr ⟨le_refl _, by omega⟩)))
        · rw [hcr] at h1
          obtain ⟨rfl, hs⟩ := r.pointer_eq_some _ _ h1
          exact (iff2 _).2 (Or.inr ⟨le_refl _, by omega⟩)
      have hsb2 : ∀ p l', (mem0.cell p).mLeft = some l' → (mem0.cell p).mRight = some a →
          l' ∈ v2 := fun p l' h1 h2 => hv12 l' (hsb p l' h1 h2)
      have hiff : ∀ i, i ∈ insert a v2 ↔ (i ∈ visited ∨ (a ≤ i ∧ i < a + (1 + l.size + r.size))) := by
        intro i
        rw [Set.mem_insert_iff, iff2, iff1]
        constructor
        · rintro (h1 | (h1 | h1) | h1)
          · exact Or.inr (by omega)
          · exact Or.inl h1
          · exact Or.inr (by omega)
          · exact Or.inr (by omega)
        · rintro (h1 | h1)
          · exact Or.inr (Or.inl (Or.inl h1))
          · by_cases h2 : i = a
            · exact Or.inl h2
            · by_cases h3 : i < a + 1 + l.size
              · exact Or.inr (Or.inl (Or.inr (by omega)))
              · exact Or.inr (Or.inr (by omega))
      have hskip : ∀ (hno : ∀ p, (mem0.cell a).mType = GeneratorEquationAstType.CI →
          (mem0.cell a).mParent = some p →
          (mem0.cell p).mType ≠ GeneratorEquationAstType.DIFF →
          (mem0.cell p).mType ≠ GeneratorEquationAstType.BVAR → False), some s2 = some res →
          ∃ visited', ScaleInv m num g0 mem0 res.1 visited' ∧ Grow g0 res.2
            ∧ ∀ i, i ∈ visited' ↔ (i ∈ visited ∨ (a ≤ i ∧ i < a + (1 + l.size + r.size))) := by
        intro hno e
        simp only [Option.some.injEq] at e
        subst e
        exact ⟨insert a v2,
          inv2.visit a hch hsb2 (fun p h1 h2 h3 h4 => (hno p h1 h2 h3 h4).elim), hg2, hiff⟩
      rw [(inv2.fixed a ha0).1, hct] at e3
      by_cases hci : ty = GeneratorEquationAstType.CI
      · rw [if_pos hci] at e3
        simp only [Option.bind_eq_some] at e3
        obtain ⟨p, hp, e3⟩ := e3
        have hp0 : (mem0.cell a).mParent = some p := by
          rw [← inv2.unvisited a ha0 (by rw [hct, hci]; decide) hav]
          exact hp
        have hpL : p < mem0.length := by
          have := (sh.parent a p hp0).1
          omega
        rw [(inv2.fixed p hpL).1] at e3
        by_cases hpd : (mem0.cell p).mType = GeneratorEquationAstType.DIFF
        · rw [if_pos hpd] at e3
          obtain ⟨i1, i2⟩ := inv2.rateStep sh a p s2.2 res.2 res.1 hg2 hp0 hav hpd hch hsb2 e3
          exact ⟨insert a v2, i1, i2, hiff⟩
        · rw [if_neg hpd] at e3
          by_cases hpb : (mem0.cell p).mType = GeneratorEquationAstType.BVAR
          · rw [if_neg (by simpa using hpb)] at e3
            refine hskip (fun p' _ h2 _ h4 => ?_) e3
            rw [hp0] at h2
            simp only [Option.some.injEq] at h2
            subst h2
            exact h4 hpb
          · rw [if_pos hpb] at e3
            obtain ⟨i1, i2⟩ := inv2.plainStep sh a p s2.2 res.2 res.1 hg2 hp0 hav
              (by rw [hct, hci]) hch hsb2 e3
            exact ⟨insert a v2, i1, i2, hiff⟩
      · rw [if_neg hci] at e3
        exact hskip (fun p h1 _ _ _ => hci (by rw [← hct]; exact h1)) e3

/-! ## C11: the scaling of the references -/

theorem ScaleInv.initial {F : Type} (m : Model) (num : Numerics F) (g0 : GeneratorImpl)
    (mem0 : AstMemory) (sh : mem0.Shape) : ScaleInv m num g0 mem0 mem0 ∅ := by
  constructor
  case len => exact le_refl _
  case fixed => exact fun _ _ => ⟨rfl, rfl, rfl⟩
  case left =>
    intro i _
    unfold AstMemory.SlotOk
    cases (mem0.cell i).mLeft with
    | none => rfl
    | some l => exact ⟨l, rfl, AstMemory.Chain.here l⟩
  case right =>
    intro i _
    unfold AstMemory.SlotOk
    cases (mem0.cell i).mRight with
    | none => rfl
    | some l => exact ⟨l, rfl, AstMemory.Chain.here l⟩
  case parent => exact fun _ _ => Or.inl rfl
  case unvisited => exact fun _ _ _ _ => rfl
  case direct =>
    intro i p _ hip _
    left
    unfold slotOf
    rcases (sh.parent i p hip).2 with h | h
    · rw [if_pos h]
      exact h
    · by_cases hl : (mem0.cell p).mLeft = some i
      · rw [if_pos hl]
        exact hl
      · rw [if_neg hl]
        exact h
  case fresh =>
    intro j h1 h2
    omega
  case result => exact fun _ _ hn => absurd hn (Set.not_mem_empty _)
  case sibling => exact fun _ _ _ _ _ hr => absurd hr (Set.not_mem_empty _)
  case children => exact fun _ _ _ hp => absurd hp (Set.not_mem_empty _)

theorem AstMemory.Chain.chainReach {n0 : Nat} {mem : AstMemory} {root top i : Nat}
    (h : AstMemory.Chain n0 mem top i) (hr : mem.Reach root top) : mem.Reach root i := by
  induction h with
  | here => exact hr
  | step _ h2 _ ih => exact ih (AstMemory.Reach.right hr h2)

theorem AstMemory.SlotOk.slotReach {n0 : Nat} {mem : AstMemory} {root child : Nat}
    {current : Option Nat} (h : AstMemory.SlotOk n0 mem current (some child))
    (hr : ∀ top, current = some top → mem.Reach root top) : mem.Reach root child := by
  obtain ⟨top, h1, h2⟩ := h
  exact h2.chainReach (hr top h1)

theorem ScaleInv.invReach {F : Type} {m : Model} {num : Numerics F} {g0 : GeneratorImpl}
    {mem0 mem : AstMemory} {visited : Set Nat}
    (inv : ScaleInv m num g0 mem0 mem visited) (sh : mem0.Shape) :
    ∀ i, i < mem0.length → mem.Reach 0 i := by
  intro i
  induction i using Nat.strong_induction_on with
  | _ i ih =>
    intro hi
    by_cases h0 : i = 0
    · subst h0
      exact AstMemory.Reach.root
    · obtain ⟨p, hp⟩ := sh.rooted i (by omega) hi
      have hpi := sh.parent i p hp
      have hrp := ih p hpi.1 (by omega)
      rcases hpi.2 with h | h
      · have := inv.left p (by omega)
        rw [h] at this
        exact this.slotReach (fun top ht => AstMemory.Reach.left hrp ht)
      · have := inv.right p (by omega)
        rw [h] at this
        exact this.slotReach (fun top ht => AstMemory.Reach.right hrp ht)

/-- C11: a variable reference (the node `n`, of type `CI`) whose parent `p` is
neither a `DIFF` node nor a `BVAR` node, in the tree `ast` laid out in memory
as `scaleEquation` does.  When `scaleEquationAst` returns, there is a factor
`f`, the one that `scalingFactor` returns for the variable of the reference
in a generator whose registry is that of `g` with the records that the pass
may have added, such that: if `f` differs from one (`areEqual(f, 1.0)` is
false), the link of `p` that held the reference holds a multiplication made
by the pass, whose left operand is the literal `convertToString(f)` and whose
right operand is the reference; if `f` equals one, the reference is where it
was (it points to `p`, whose link holds it unless `p` is the assignment of a
rate, whose right-hand side the pass multiplies).
In both cases the reference keeps its type and its variable and is still
part of the tree below the root, and so is the node that the link of `p`
holds. -/
theorem scaleEquationAst_scales_references {F : Type} (m : Model) (num : Numerics F)
    (ast : GeneratorEquationAst) (root fuel n p : Nat) (g g' : GeneratorImpl)
    (mem0 mem' : AstMemory)
    (hmem : AstMemory.ofTree ast none {} = (some root, mem0))
    (hrun : scaleEquationAst m num fuel root mem0 g = some (mem', g'))
    (hci : (mem0.cell n).mType = GeneratorEquationAstType.CI)
    (hp : (mem0.cell n).mParent = some p)
    (hpd : (mem0.cell p).mType ≠ GeneratorEquationAstType.DIFF)
    (hpb : (mem0.cell p).mType ≠ GeneratorEquationAstType.BVAR) :
    ScaledResult m num g mem0 mem' n p
    ∧ (mem'.cell n).mType = GeneratorEquationAstType.CI
    ∧ (mem'.cell n).mVariable = (mem0.cell n).mVariable
    ∧ mem'.Reach root n
    ∧ ∀ s, slotOf mem0 mem' p n = some s → mem'.Reach root s := by
  have hspec := AstMemory.ofTree_spec ast none {}
  rw [hmem] at hspec
  obtain ⟨h1, h2, _, h4⟩ := hspec
  have hlen0 : ({} : AstMemory).length = 0 := rfl
  rw [hlen0] at h1 h2 h4
  simp only at h1 h2 h4
  obtain ⟨rfl, hsize⟩ := ast.pointer_eq_some 0 root h1.symm
  have hnull : ast ≠ GeneratorEquationAst.null := by
    intro e
    subst e
    simp only [GeneratorEquationAst.size] at hsize
    omega
  have sh : mem0.Shape := AstMemory.Holds.shape ast h4 (by omega)
  obtain ⟨visited, inv, _, hiff⟩ :=
    scaleEquationAst_inv m num g mem0 sh ast 0 none h4 (by omega) hnull fuel mem0 g ∅
      (mem', g') (ScaleInv.initial m num g mem0 sh) (Grow.reflGrow g)
      (fun i hi => absurd hi (Set.not_mem_empty _))
      (fun q l _ hr => by
        have := (sh.right q 0 hr).1
        omega)
      hrun
  have hn0 := mem0.lt_of_mParent n p hp
  have hpn := sh.parent n p hp
  have hnv : n ∈ visited := (hiff n).2 (Or.inr ⟨Nat.zero_le _, by omega⟩)
  have hreach := inv.invReach sh
  refine ⟨inv.result n p hnv hn0 hci hp hpd hpb, ?_, (inv.fixed n hn0).2.2, hreach n hn0, ?_⟩
  · rw [(inv.fixed n hn0).1]
    exact hci
  · intro s hs
    unfold slotOf at hs
    split_ifs at hs
    · exact AstMemory.Reach.left (hreach p (by omega)) hs
    · exact AstMemory.Reach.right (hreach p (by omega)) hs

/-- C11, at the equation `dx/dt = y` of the component `sub`, in which `y` is
declared in centimetres: the reference to `y` is the node `5`, the right-hand
side of the assignment (the node `0`). -/
theorem scaleEquationAst_scales_references_witness :
    AstMemory.ofTree ScaledRate.tree none {} = (some 0, ScaledRate.memory)
    ∧ scaleEquationAst ScaledRate.model ScaledRate.numerics 13 0 ScaledRate.memory
        ScaledRate.generator = some ScaledRate.scaled
    ∧ (ScaledRate.memory.cell 5).mType = GeneratorEquationAstType.CI
    ∧ (ScaledRate.memory.cell 5).mParent = some 0
    ∧ ScaledResult ScaledRate.model ScaledRate.numerics ScaledRate.generator
        ScaledRate.memory ScaledRate.scaled.1 5 0
    ∧ ScaledRate.scaled.1.Reach 0 5 :=
  ⟨rfl, eq_some_getD_of_isSome _ default (by decide), by decide, by decide,
    (scaleEquationAst_scales_references ScaledRate.model ScaledRate.numerics ScaledRate.tree
      0 13 5 0 ScaledRate.generator ScaledRate.scaled.2 ScaledRate.memory ScaledRate.scaled.1
      rfl (eq_some_getD_of_isSome _ default (by decide)) (by decide) (by decide) (by decide)
      (by decide)).1,
    (scaleEquationAst_scales_references ScaledRate.model ScaledRate.numerics ScaledRate.tree
      0 13 5 0 ScaledRate.generator ScaledRate.scaled.2 ScaledRate.memory ScaledRate.scaled.1
      rfl (eq_some_getD_of_isSome _ default (by decide)) (by decide) (by decide) (by decide)
      (by decide)).2.2.2.1⟩

/-! ## C26: the exponent of a native power operator -/

/-- C26, at the tree of `a` to the power `b - c`, with a profile whose native
power operator is `^^`: the profile has a power operator, the exponent is a
binary subtraction and its text is neither `0.5` nor `2.0`, yet
`generateCode` renders the tree as `variables[0]^^variables[1]-variables[2]`,
without parentheses around the exponent; this is also the text that it
produces for the tree of `(a ^^ b) - c`.  An exponent that is a
multiplication or a division is rendered in parentheses. -/
theorem generateCode_power_of_difference :
    PowerOperator.profile.hasPowerOperator = true
    ∧ PowerOperator.powerOfDifference.mRight
        = GeneratorEquationAst.op GeneratorEquationAstType.MINUS
            (GeneratorEquationAst.ci UnaryPlus.b) (GeneratorEquationAst.ci UnaryPlus.c)
    ∧ (generateCode PowerOperator.profile UnaryPlus.model DependentEqns.numerics
        PowerOperator.powerOfDifference.mRight (some GeneratorEquationAstType.POWER)
        UnaryPlus.generator).map (fun r => r.1)
      = some "variables[1]-variables[2]"
    ∧ (generateCode PowerOperator.profile UnaryPlus.model DependentEqns.numerics
        PowerOperator.powerOfDifference (some GeneratorEquationAstType.ASSIGNMENT)
        UnaryPlus.generator).map (fun r => r.1)
      = some "variables[0]^^variables[1]-variables[2]"
    ∧ (generateCode PowerOperator.profile UnaryPlus.model DependentEqns.numerics
        PowerOperator.differenceOfPower (some GeneratorEquationAstType.ASSIGNMENT)
        UnaryPlus.generator).map (fun r => r.1)
      = some "variables[0]^^variables[1]-variables[2]"
    ∧ (generateCode PowerOperator.profile UnaryPlus.model DependentEqns.numerics
        PowerOperator.powerOfProduct (some GeneratorEquationAstType.ASSIGNMENT)
        UnaryPlus.generator).map (fun r => r.1)
      = some "variables[0]^^(variables[1]*variables[2])"
    ∧ (generateCode PowerOperator.profile UnaryPlus.model DependentEqns.numerics
        PowerOperator.powerOfQuotient (some GeneratorEquationAstType.ASSIGNMENT)
        UnaryPlus.generator).map (fun r => r.1)
      = some "variables[0]^^(variables[1]/variables[2])" := by
  refine ⟨by decide, by decide, by decide, by decide, by decide, by decide, by decide⟩

/-! ## C21: a reference to a variable that the component does not declare -/

/-- C21.  At the model whose single equation is `y = 2*x`, with `x` not
declared: `Generator::processModel` returns, with exactly one issue, the tree
of the equation is built with a multiplication that has the literal as its
only operand, the model is `INVALID` and the generated texts are empty.  At
the model whose single equation is `y = a + b + x`, the sum being one `apply`
element with three operands of which the last is not declared:
`processNode` on the reference to `x` records the issue and leaves the tree
null, and `processNode` on the sum then dereferences this null tree in its
loop over the operands, so that neither it nor `Generator::processModel`
returns a result. -/
theorem processModel_undeclared_last_operand :
    Generator.processModel Undeclared.product DependentEqns.numerics {}
      = some Undeclared.processed
    ∧ Undeclared.processed.errors
      = ["Variable 'x' in component 'main' is referenced in an equation, but it is not defined anywhere."]
    ∧ (Undeclared.processed.equation 0).mAst
      = GeneratorEquationAst.assignment (GeneratorEquationAst.ci Undeclared.y)
          (GeneratorEquationAst.op GeneratorEquationAstType.TIMES (GeneratorEquationAst.cn "2")
            GeneratorEquationAst.null)
    ∧ Generator.modelType Undeclared.processed = ModelType.INVALID
    ∧ (Generator.implementationCode {} Undeclared.product DependentEqns.numerics
        "preamble" Undeclared.processed).map (fun r => r.1) = some ""
    ∧ Generator.interfaceCode {} Undeclared.processed "body" = ""
    ∧ processNode Undeclared.sum Undeclared.component 0 2 (XmlNode.ci "x")
        [Undeclared.sumNode] GeneratorEquationAst.null {}
      = some (GeneratorEquationAst.null,
          ({} : GeneratorImpl).addError
            "Variable 'x' in component 'main' is referenced in an equation, but it is not defined anywhere.")
    ∧ (∀ fuel, fuel ≤ 8 → processNode Undeclared.sum Undeclared.component 0 fuel
        Undeclared.sumNode [] GeneratorEquationAst.null {} = none)
    ∧ Generator.processModel Undeclared.sum DependentEqns.numerics {} = none := by
  refine ⟨by decide, by decide, by decide, by decide, by decide, by decide, by decide,
    by decide, by decide⟩

/-! ## C25: the model of a single rate -/

set_option maxRecDepth 8000 in
/-- C25, at the model with the variable of integration `t`, the variable `x`
initialised to `0` and the single equation `dx/dt = 1`:
`Generator::processModel` returns and records no issue, the model is `ODE`
with one state and no variable, the state is `x` and the variable of
integration is `t`; with the default (C) profile the only equation emitted in
the body of `computeRates` is the equation of the model, its statement is
`rates[0] = 1.0;`, the initialisation is `states[0] = 0.0;`, and these are
the only two statements of the four procedures of the implementation. -/
theorem processModel_single_rate :
    Generator.processModel SingleRate.model DependentEqns.numerics {}
      = some SingleRate.processed
    ∧ SingleRate.processed.errors = []
    ∧ Generator.modelType SingleRate.processed = ModelType.ODE
    ∧ Generator.stateCount SingleRate.processed = 1
    ∧ Generator.variableCount SingleRate.processed = 0
    ∧ (Generator.state SingleRate.processed 0).bind GeneratorVariable.mVariable
        = some SingleRate.x
    ∧ (Generator.voi SingleRate.processed).bind GeneratorVariable.mVariable
        = some SingleRate.t
    ∧ (emittedEquations {} SingleRate.processed).map (fun e => e.computeRates) = some [0]
    ∧ (generateEquationStatements {} SingleRate.model DependentEqns.numerics [0]
        SingleRate.processed).map (fun r => r.1) = some "    rates[0] = 1.0;\n"
    ∧ (generateInitializationsCode {} SingleRate.model SingleRate.processed.mInternalVariables
        SingleRate.processed).map (fun r => r.1) = some "    states[0] = 0.0;\n"
    ∧ (Generator.implementationCode {} SingleRate.model DependentEqns.numerics ""
        SingleRate.processed).map (fun r => r.1)
      = some "void initializeStatesAndConstants(double *states, double *variables)\n\x7b\n    states[0] = 0.0;\n\x7d\n\nvoid computeComputedConstants(double *variables)\n\x7b\n\x7d\n\nvoid computeRates(double voi, double *states, double *rates, double *variables)\n\x7b\n    rates[0] = 1.0;\n\x7d\n\nvoid computeVariables(double voi, double *states, double *rates, double *variables)\n\x7b\n\x7d\n" := by
  refine ⟨by decide, by decide, by decide, by decide, by decide, by decide, by decide,
    by decide, by decide, by decide, by decide⟩

/-! ## C22: one issue for every record that is not valid -/

theorem isInvalidTag_iff (t : GeneratorInternalVariableType) :
    errorType t ≠ "" ↔ isInvalidTag t = true := by
  cases t <;> simp [errorType, isInvalidTag]

theorem reportInvalidVariables_errors_aux (g0 : GeneratorImpl) :
    ∀ (ps : List Nat) (g : GeneratorImpl),
      (∀ q, g.internalVariable q = g0.internalVariable q) →
      (reportInvalidVariables ps g).errors
        = g.errors ++ (ps.filter fun p => isInvalidTag (g0.internalVariable p).mType).map
            (invalidVariableIssue g0)
  | [], g, _ => by simp [reportInvalidVariables]
  | p :: ps, g, hg => by
    have hi : invalidVariableIssue g p = invalidVariableIssue g0 p := by
      unfold invalidVariableIssue; rw [hg]
    rw [reportInvalidVariables_cons]
    split_ifs with hp
    · rw [reportInvalidVariables_errors_aux g0 ps (g.addError (invalidVariableIssue g p))
        (fun q => hg q)]
      have h1 : isInvalidTag (g0.internalVariable p).mType = true := by
        rw [← hg]; exact (isInvalidTag_iff _).1 hp
      simp only [List.filter_cons, h1, if_true, List.map_cons, GeneratorImpl.addError,
        List.append_assoc, List.singleton_append, hi]
    · rw [reportInvalidVariables_errors_aux g0 ps g hg]
      have h1 : isInvalidTag (g0.internalVariable p).mType = false := by
        rw [← hg, ← Bool.not_eq_true, ← isInvalidTag_iff]; exact hp
      simp only [List.filter_cons, h1, Bool.false_eq_true, if_false]

/-- The issues that `reportInvalidVariables` records: one for every record of
the list whose tag is not valid, in the order of the list. -/
theorem reportInvalidVariables_errors (ps : List Nat) (g : GeneratorImpl) :
    (reportInvalidVariables ps g).errors
      = g.errors ++ (ps.filter fun p => isInvalidTag (g.internalVariable p).mType).map
          (invalidVariableIssue g) :=
  reportInvalidVariables_errors_aux g ps g (fun _ => rfl)

theorem enterResolution_errors (g : GeneratorImpl) :
    (enterResolution g).1.errors = g.errors := by
  unfold enterResolution
  dsimp only
  exact (indexConstants_sameResults _ _ _).1.2.2.2.2.2.2

theorem publishVariables_errors :
    ∀ (ps : List Nat) (g : GeneratorImpl), (publishVariables ps g).errors = g.errors
  | [], _ => rfl
  | p :: ps, g => by
    unfold publishVariables
    dsimp only
    split
    · exact publishVariables_errors ps g
    · split_ifs
      · exact publishVariables_errors ps _
      · exact publishVariables_errors ps _

theorem finaliseModel_errors {F : Type} (m : Model) (num : Numerics F) (g g' : GeneratorImpl)
    (h : finaliseModel m num g = some g') : g'.errors = g.errors := by
  unfold finaliseModel at h
  split_ifs at h
  · simp only [Option.bind_eq_some, Option.map_eq_some'] at h
    obtain ⟨g1, h1, g2, h2, rfl⟩ := h
    have f1 := scaleEquations_scaleFrame m num _ g g1 h1
    unfold sortEquations at h2
    split_ifs at h2
    simp only [Option.some.injEq] at h2
    subst h2
    rw [publishVariables_errors]
    exact f1.2.2.2.2.2.1
  · simp only [Option.some.injEq] at h; subst h; rfl

/-- C22: when no structural issue has been recorded once the components and
the trees have been processed, the analysis of `processModel` ends, and the
issues it has recorded are, in the order of the registry, one issue for
every record whose final tag is `UNKNOWN`, `SHOULD_BE_STATE` or
`OVERCONSTRAINED`, and no other issue.  The issue of a record whose variable
is `v` names `v` and its component and carries the phrase `is not computed`
for `UNKNOWN`, `is used in an ODE, but it is not initialised` for
`SHOULD_BE_STATE` and `is computed more than once` for `OVERCONSTRAINED`.
`processModel` returns with these issues whenever it returns. -/
theorem processModel_one_issue_per_invalid_record {F : Type} (m : Model) (num : Numerics F)
    (g g1 : GeneratorImpl)
    (hpre : prePass m num.isOne (resetResults g) = some g1)
    (herr : g1.errorCount = 0)
    (hlen : g.mEquations.length ≤ MAX_SIZE_T) :
    ∃ g2, analyseModel m num.isOne g = some g2
      ∧ g2.errors
          = (g2.mInternalVariables.filter fun p =>
              decide ((g2.internalVariable p).mType = GeneratorInternalVariableType.UNKNOWN
                ∨ (g2.internalVariable p).mType = GeneratorInternalVariableType.SHOULD_BE_STATE
                ∨ (g2.internalVariable p).mType
                    = GeneratorInternalVariableType.OVERCONSTRAINED)).map
              (invalidVariableIssue g2)
      ∧ (∀ p v, (g2.internalVariable p).mVariable = some v →
          ((g2.internalVariable p).mType = GeneratorInternalVariableType.UNKNOWN →
            invalidVariableIssue g2 p
              = "Variable '" ++ v.name ++ "' in component '" ++ v.parent
                ++ "' is not computed.")
          ∧ ((g2.internalVariable p).mType = GeneratorInternalVariableType.SHOULD_BE_STATE →
            invalidVariableIssue g2 p
              = "Variable '" ++ v.name ++ "' in component '" ++ v.parent
                ++ "' is used in an ODE, but it is not initialised.")
          ∧ ((g2.internalVariable p).mType = GeneratorInternalVariableType.OVERCONSTRAINED →
            invalidVariableIssue g2 p
              = "Variable '" ++ v.name ++ "' in component '" ++ v.parent
                ++ "' is computed more than once."))
      ∧ ∀ g3, processModel m num g = some g3 → g3.errors = g2.errors := by
  have hpf := prePass_frame m num.isOne _ _ hpre
  have hlen1 : g1.mEquations.length ≤ MAX_SIZE_T := by rw [hpf.2.1]; exact hlen
  obtain ⟨r, hr, hc⟩ := classifyModel_eq_some m g1 herr hlen1
  have hana : analyseModel m num.isOne g
      = some (determineModelType (reportInvalidVariables r.1.mInternalVariables r.1)) := by
    unfold analyseModel
    rw [hpre]
    exact hc
  have hs := resolveEquations_sameResults _ _ _ _ r hr
  have hf := enterResolution_frame g1
  have hR := reportInvalidVariables_frame r.1.mInternalVariables r.1
  have hD := determineModelType_frame (reportInvalidVariables r.1.mInternalVariables r.1)
  have hrec : ∀ q, (determineModelType
      (reportInvalidVariables r.1.mInternalVariables r.1)).internalVariable q
      = r.1.internalVariable q := by
    intro q
    unfold GeneratorImpl.internalVariable
    rw [hD.2.2.2.1, hR.2.2.2.2.1]
  have hissue : invalidVariableIssue
      (determineModelType (reportInvalidVariables r.1.mInternalVariables r.1))
      = invalidVariableIssue r.1 := by
    funext q
    unfold invalidVariableIssue
    rw [hrec]
  have h0 : r.1.errors = [] := by
    have h1 : g1.errors = [] := List.eq_nil_of_length_eq_zero herr
    rw [hs.2.2.2.2.2.2, enterResolution_errors]
    exact h1
  refine ⟨_, hana, ?_, ?_, ?_⟩
  · rw [determineModelType_errors, reportInvalidVariables_errors, h0, hD.1, hR.2.1, hissue,
      List.nil_append]
    congr 1
    apply List.filter_congr
    intro p _
    rw [hrec]
    cases (r.1.internalVariable p).mType <;> simp [isInvalidTag]
  · intro p v hv
    refine ⟨fun ht => ?_, fun ht => ?_, fun ht => ?_⟩ <;>
    · unfold invalidVariableIssue
      rw [hv, ht]
      simp [errorType, String.append_assoc]
  · intro g3 h3
    unfold processModel at h3
    rw [hana] at h3
    exact finaliseModel_errors m num _ g3 h3

/-- C22, at the model with the equations `dx/dt = k`, `z = 1` and `z = 2`, in
which `x`, `u` and `z` have no initial value and no equation references
`u`: the hypotheses hold, and so does the conclusion; the issues are that `u`
is not computed, that `x` is used in an ODE but not initialised and that `z`
is computed more than once, and nothing is recorded for `k` and `t`. -/
theorem processModel_one_issue_per_invalid_record_witness :
    (prePass InvalidTags.model DependentEqns.numerics.isOne
        (resetResults InvalidTags.generator) = some InvalidTags.prePassed
      ∧ InvalidTags.prePassed.errorCount = 0
      ∧ InvalidTags.generator.mEquations.length ≤ MAX_SIZE_T)
    ∧ (∃ g2, analyseModel InvalidTags.model DependentEqns.numerics.isOne
          InvalidTags.generator = some g2
      ∧ g2.errors
          = (g2.mInternalVariables.filter fun p =>
              decide ((g2.internalVariable p).mType = GeneratorInternalVariableType.UNKNOWN
                ∨ (g2.internalVariable p).mType = GeneratorInternalVariableType.SHOULD_BE_STATE
                ∨ (g2.internalVariable p).mType
                    = GeneratorInternalVariableType.OVERCONSTRAINED)).map
              (invalidVariableIssue g2)
      ∧ (∀ p v, (g2.internalVariable p).mVariable = some v →
          ((g2.internalVariable p).mType = GeneratorInternalVariableType.UNKNOWN →
            invalidVariableIssue g2 p
              = "Variable '" ++ v.name ++ "' in component '" ++ v.parent
                ++ "' is not computed.")
          ∧ ((g2.internalVariable p).mType = GeneratorInternalVariableType.SHOULD_BE_STATE →
            invalidVariableIssue g2 p
              = "Variable '" ++ v.name ++ "' in component '" ++ v.parent
                ++ "' is used in an ODE, but it is not initialised.")
          ∧ ((g2.internalVariable p).mType = GeneratorInternalVariableType.OVERCONSTRAINED →
            invalidVariableIssue g2 p
              = "Variable '" ++ v.name ++ "' in component '" ++ v.parent
                ++ "' is computed more than once."))
      ∧ ∀ g3, processModel InvalidTags.model DependentEqns.numerics InvalidTags.generator
          = some g3 → g3.errors = g2.errors)
    ∧ analyseModel InvalidTags.model DependentEqns.numerics.isOne InvalidTags.generator
        = some InvalidTags.analysed
    ∧ InvalidTags.analysed.errors
        = ["Variable 'u' in component 'main' is not computed.",
           "Variable 'x' in component 'main' is used in an ODE, but it is not initialised.",
           "Variable 'z' in component 'main' is computed more than once."] :=
  ⟨by decide,
    processModel_one_issue_per_invalid_record InvalidTags.model DependentEqns.numerics
      InvalidTags.generator InvalidTags.prePassed (by decide) (by decide) (by decide),
    by decide, by decide⟩

/-! ## The overconstraint test of check -/

theorem soleVariable_of_singleton (this : GeneratorEquation) (p : Nat)
    (h : this.mVariables ++ this.mOdeVariables = [p]) :
    this.mVariables.length + this.mOdeVariables.length = 1 ∧ soleVariable this = p := by
  have hl : this.mVariables.length + this.mOdeVariables.length = 1 := by
    rw [← List.length_append, h]; rfl
  refine ⟨hl, ?_⟩
  rcases soleVariable_spec this hl with ⟨h1, h2⟩ | ⟨h1, h2⟩
  · rw [h1, h2] at h
    simp only [List.append_nil, List.cons.injEq, and_true] at h
    exact h
  · rw [h1, h2] at h
    simp only [List.nil_append, List.cons.injEq, and_true] at h
    exact h

/-- The variable that a relevant `check` resolves had no index. -/
theorem check_true_sole_index (hEq : Variable → Variable → Bool) (g : GeneratorImpl)
    (self : Nat) (c : Counters) (hr : (check hEq g self c).2.2 = true) :
    (g.internalVariable (soleVariable (updateTracking g (g.equation self)))).mIndex
      = MAX_SIZE_T := by
  obtain ⟨hsize, _, _, _⟩ := check_true_facts hEq g self c hr
  rcases soleVariable_mem _ hsize with ⟨hm, _⟩ | ⟨hm, _⟩
  · rw [(updateTracking_fields g (g.equation self)).2.2.2.2.1, List.mem_filter] at hm
    have hk := hm.2
    simp only [Bool.not_eq_true', ← Bool.not_eq_true, knownVariable_iff, not_or] at hk
    by_contra hne
    exact hk.1 hne
  · rw [(updateTracking_fields g (g.equation self)).2.2.2.2.2, List.mem_filter] at hm
    have hk := hm.2
    simp only [Bool.not_eq_true', ← Bool.not_eq_true, knownOdeVariable_iff, not_or] at hk
    by_contra hne
    exact hk.1 hne

theorem Overdetermined.overconstraint {g : GeneratorImpl} {self p : Nat}
    (h : Overdetermined g self p) : isOverconstraint g (g.equation self) = true := by
  obtain ⟨_, h2, _, h4, h5, h6⟩ := h
  obtain ⟨hl, hs⟩ := soleVariable_of_singleton _ p h2
  unfold isOverconstraint
  rw [hs]
  simp [hl, h4, h5, h6]

/-- The `check` of an overdetermined equation: the tag of its reference
becomes `OVERCONSTRAINED`, and nothing else changes. -/
theorem Overdetermined.checkEq {g : GeneratorImpl} {self p : Nat}
    (h : Overdetermined g self p) (hEq : Variable → Variable → Bool) (c : Counters) :
    check hEq g self c
      = (g.setInternalVariable p
          { g.internalVariable p with mType := GeneratorInternalVariableType.OVERCONSTRAINED },
        c, false) := by
  have ho := h.overconstraint
  obtain ⟨h1, h2, _, _, _, _⟩ := h
  obtain ⟨_, hs⟩ := soleVariable_of_singleton _ p h2
  unfold check
  rw [if_neg (by rw [h1]; exact fun hne => hne rfl), if_pos ho, hs]

/-- A `check` of any equation keeps an overdetermined equation overdetermined,
and its reference is tagged `OVERCONSTRAINED` by the check of the equation
itself and by no other one. -/
theorem Overdetermined.checkStep {g : GeneratorImpl} {self p : Nat}
    (h : Overdetermined g self p) (hEq : Variable → Variable → Bool) (e : Nat) (c : Counters) :
    Overdetermined (check hEq g e c).1 self p
    ∧ ((g.internalVariable p).mType = GeneratorInternalVariableType.OVERCONSTRAINED →
        ((check hEq g e c).1.internalVariable p).mType
          = GeneratorInternalVariableType.OVERCONSTRAINED) := by
  have hrec : ((check hEq g e c).1.internalVariable p).mIndex = (g.internalVariable p).mIndex
      ∧ (((check hEq g e c).1.internalVariable p).mType = (g.internalVariable p).mType
        ∨ ((check hEq g e c).1.internalVariable p).mType
            = GeneratorInternalVariableType.OVERCONSTRAINED) := by
    rcases check_record hEq g e c p with ⟨_, h2, h3⟩ | ⟨hr, hp, _⟩
    · exact ⟨h2, h3.imp id fun x => x.1⟩
    · have := check_true_sole_index hEq g e c hr
      rw [← hp] at this
      exact absurd this h.2.2.2.1
  have heq : (check hEq g e c).1.equation self = g.equation self := by
    by_cases hes : e = self
    · subst hes
      rw [h.checkEq hEq c]
      rfl
    · rcases check_equation hEq g e c self with h1 | ⟨h1, _⟩
      · exact h1
      · exact absurd h1.symm hes
  obtain ⟨h1, h2, h3, h4, h5, h6⟩ := h
  refine ⟨⟨by rw [heq]; exact h1, by rw [heq]; exact h2,
    by rw [(check_storeLength hEq g e c).2]; exact h3, by rw [hrec.1]; exact h4, ?_, ?_⟩, ?_⟩
  · rcases hrec.2 with h7 | h7 <;> rw [h7]
    · exact h5
    · decide
  · rcases hrec.2 with h7 | h7 <;> rw [h7]
    · exact h6
    · decide
  · intro h8
    rcases hrec.2 with h7 | h7
    · rw [h7]; exact h8
    · exact h7

theorem Overdetermined.scanStep {self p : Nat} (hEq : Variable → Variable → Bool) :
    ∀ (es : List Nat) (g : GeneratorImpl) (c : Counters) (b : Bool),
      Overdetermined g self p →
      Overdetermined (checkEquations hEq es g c b).1 self p
      ∧ ((g.internalVariable p).mType = GeneratorInternalVariableType.OVERCONSTRAINED →
          ((checkEquations hEq es g c b).1.internalVariable p).mType
            = GeneratorInternalVariableType.OVERCONSTRAINED)
  | [], _, _, _, h => ⟨h, fun h => h⟩
  | e :: es, g, c, b, h => by
    have h1 := h.checkStep hEq e c
    have h2 := Overdetermined.scanStep hEq es (check hEq g e c).1
      (check hEq g e c).2.1 ((check hEq g e c).2.2 || b) h1.1
    exact ⟨h2.1, fun h3 => h2.2 (h1.2 h3)⟩

theorem Overdetermined.loopStep {self p : Nat} (hEq : Variable → Variable → Bool) :
    ∀ (fuel : Nat) (g : GeneratorImpl) (c : Counters) (r : GeneratorImpl × Counters),
      Overdetermined g self p → resolveEquations hEq fuel g c = some r →
      Overdetermined r.1 self p
      ∧ ((g.internalVariable p).mType = GeneratorInternalVariableType.OVERCONSTRAINED →
          (r.1.internalVariable p).mType = GeneratorInternalVariableType.OVERCONSTRAINED)
  | 0, _, _, _, _, h => by simp [resolveEquations] at h
  | fuel + 1, g, c, r, hinv, h => by
    unfold resolveEquations at h
    have hs := Overdetermined.scanStep hEq g.mEquations g c false hinv
    dsimp only at h
    split_ifs at h with hr
    · simp only [Option.some.injEq] at h
      subst h
      exact hs
    · have h2 := Overdetermined.loopStep hEq fuel _ _ r hs.1 h
      exact ⟨h2.1, fun h3 => h2.2 (hs.2 h3)⟩

/-- The overconstraint test of `check` on a reference that has an index:
`check` is called on the equation `self`, which has no order and whose
references, plain and differentiated taken together, are the single record
`p`; `p` has an index and it is tagged as a state, a constant, a computed
constant or an algebraic variable.  Then `check` tags `p` as
`OVERCONSTRAINED`, gives no order to the equation,
leaves the equation and the counters as they are and reports no progress; and
whatever equations are checked afterwards, in the rest of the scan and in the
scans that follow until the resolution loop is left, the equation has no
order and `p` is tagged `OVERCONSTRAINED`. -/
theorem check_overconstrains_resolved (hEq : Variable → Variable → Bool) (g : GeneratorImpl)
    (self p : Nat) (c : Counters)
    (horder : (g.equation self).mOrder = MAX_SIZE_T)
    (hrefs : (g.equation self).mVariables ++ (g.equation self).mOdeVariables = [p])
    (hp : p < g.variableStore.length)
    (hindex : (g.internalVariable p).mIndex ≠ MAX_SIZE_T)
    (htag : (g.internalVariable p).mType = GeneratorInternalVariableType.STATE
      ∨ (g.internalVariable p).mType = GeneratorInternalVariableType.CONSTANT
      ∨ (g.internalVariable p).mType = GeneratorInternalVariableType.COMPUTED_TRUE_CONSTANT
      ∨ (g.internalVariable p).mType
          = GeneratorInternalVariableType.COMPUTED_VARIABLE_BASED_CONSTANT
      ∨ (g.internalVariable p).mType = GeneratorInternalVariableType.ALGEBRAIC) :
    ((check hEq g self c).1.internalVariable p).mType
        = GeneratorInternalVariableType.OVERCONSTRAINED
    ∧ (check hEq g self c).1.equation self = g.equation self
    ∧ (check hEq g self c).2.1 = c
    ∧ (check hEq g self c).2.2 = false
    ∧ (∀ (es : List Nat) (c' : Counters) (b : Bool),
        ((checkEquations hEq es (check hEq g self c).1 c' b).1.equation self).mOrder
            = MAX_SIZE_T
        ∧ ((checkEquations hEq es (check hEq g self c).1 c' b).1.internalVariable p).mType
            = GeneratorInternalVariableType.OVERCONSTRAINED)
    ∧ ∀ (fuel : Nat) (c' : Counters) (r : GeneratorImpl × Counters),
        resolveEquations hEq fuel (check hEq g self c).1 c' = some r →
        (r.1.equation self).mOrder = MAX_SIZE_T
        ∧ (r.1.internalVariable p).mType = GeneratorInternalVariableType.OVERCONSTRAINED := by
  have hov : Overdetermined g self p :=
    ⟨horder, hrefs, hp, hindex,
      by rcases htag with h | h | h | h | h <;> rw [h] <;> decide,
      by rcases htag with h | h | h | h | h <;> rw [h] <;> decide⟩
  have h1 := hov.checkStep hEq self c
  have htagged : ((check hEq g self c).1.internalVariable p).mType
      = GeneratorInternalVariableType.OVERCONSTRAINED := by
    rw [hov.checkEq hEq c, GeneratorImpl.internalVariable_setInternalVariable,
      if_pos ⟨rfl, hp⟩]
  refine ⟨htagged, ?_, ?_, ?_, ?_, ?_⟩
  · rw [hov.checkEq hEq c]; rfl
  · rw [hov.checkEq hEq c]
  · rw [hov.checkEq hEq c]
  · intro es c' b
    have h2 := Overdetermined.scanStep hEq es _ c' b h1.1
    exact ⟨h2.1.1, h2.2 htagged⟩
  · intro fuel c' r hr
    have h2 := Overdetermined.loopStep hEq fuel _ c' r h1.1 hr
    exact ⟨h2.1.1, h2.2 htagged⟩

/-- The overconstraint test of `check`, at the model with the equations
`x = 1` and `x = 2`, when `check` is called on `x = 2` after `x = 1` has made
`x` a computed constant of index `0`: the hypotheses hold, and so does the
conclusion. -/
theorem check_overconstrains_resolved_witness :
    ((ComputedTwice.afterFirst.1.equation 1).mOrder = MAX_SIZE_T
      ∧ (ComputedTwice.afterFirst.1.equation 1).mVariables
          ++ (ComputedTwice.afterFirst.1.equation 1).mOdeVariables = [0]
      ∧ 0 < ComputedTwice.afterFirst.1.variableStore.length
      ∧ (ComputedTwice.afterFirst.1.internalVariable 0).mIndex = 0
      ∧ (ComputedTwice.afterFirst.1.internalVariable 0).mType
          = GeneratorInternalVariableType.COMPUTED_TRUE_CONSTANT)
    ∧ (((check ComputedTwice.model.hasEquivalentVariable ComputedTwice.afterFirst.1 1
          ComputedTwice.afterFirst.2.1).1.internalVariable 0).mType
        = GeneratorInternalVariableType.OVERCONSTRAINED
      ∧ (check ComputedTwice.model.hasEquivalentVariable ComputedTwice.afterFirst.1 1
          ComputedTwice.afterFirst.2.1).1.equation 1 = ComputedTwice.afterFirst.1.equation 1
      ∧ (check ComputedTwice.model.hasEquivalentVariable ComputedTwice.afterFirst.1 1
          ComputedTwice.afterFirst.2.1).2.1 = ComputedTwice.afterFirst.2.1
      ∧ (check ComputedTwice.model.hasEquivalentVariable ComputedTwice.afterFirst.1 1
          ComputedTwice.afterFirst.2.1).2.2 = false
      ∧ (∀ (es : List Nat) (c' : Counters) (b : Bool),
          ((checkEquations ComputedTwice.model.hasEquivalentVariable es
              (check ComputedTwice.model.hasEquivalentVariable ComputedTwice.afterFirst.1 1
                ComputedTwice.afterFirst.2.1).1 c' b).1.equation 1).mOrder = MAX_SIZE_T
          ∧ ((checkEquations ComputedTwice.model.hasEquivalentVariable es
              (check ComputedTwice.model.hasEquivalentVariable ComputedTwice.afterFirst.1 1
                ComputedTwice.afterFirst.2.1).1 c' b).1.internalVariable 0).mType
              = GeneratorInternalVariableType.OVERCONSTRAINED)
      ∧ ∀ (fuel : Nat) (c' : Counters) (r : GeneratorImpl × Counters),
          resolveEquations ComputedTwice.model.hasEquivalentVariable fuel
            (check ComputedTwice.model.hasEquivalentVariable ComputedTwice.afterFirst.1 1
              ComputedTwice.afterFirst.2.1).1 c' = some r →
          (r.1.equation 1).mOrder = MAX_SIZE_T
          ∧ (r.1.internalVariable 0).mType = GeneratorInternalVariableType.OVERCONSTRAINED) :=
  ⟨by decide,
    check_overconstrains_resolved ComputedTwice.model.hasEquivalentVariable
      ComputedTwice.afterFirst.1 1 0 ComputedTwice.afterFirst.2.1 (by decide) (by decide)
      (by decide) (by decide) (Or.inr (Or.inr (Or.inl (by decide))))⟩

/-! ## C23: two equations in the same two unknowns -/

/-- The state in which the resolution loop is entered, for a generator `g` as
the processing of the components leaves it, pre-passed into `g1`: the
equations are those of `g`, the tags are those of `g1`, no record is tagged
`OVERCONSTRAINED` and only a constant has an index. -/
theorem enterResolution_entry (m : Model) (isOne : String → Bool) (g g1 : GeneratorImpl)
    (hb : Built g) (hpre : prePass m isOne (resetResults g) = some g1) :
    (∀ e, (enterResolution g1).1.equation e = g.equation e)
    ∧ (enterResolution g1).1.mEquations = g.mEquations
    ∧ (∀ p, ((enterResolution g1).1.internalVariable p).mType = (g1.internalVariable p).mType)
    ∧ (∀ p, ((enterResolution g1).1.internalVariable p).mIndex ≠ MAX_SIZE_T →
        (g1.internalVariable p).mType = GeneratorInternalVariableType.CONSTANT)
    ∧ (∀ p, (g1.internalVariable p).mType ≠ GeneratorInternalVariableType.OVERCONSTRAINED) := by
  have hpf := prePass_frame m isOne _ _ hpre
  have hf := enterResolution_frame g1
  have hstore : (enterResolution g1).1.equationStore = g.equationStore := by
    rw [hf.2.2.2.1, hpf.2.2.1]; rfl
  have hg : ∀ p, (resetResults g).internalVariable p = g.internalVariable p := fun _ => rfl
  refine ⟨?_, ?_, fun p => (enterResolution_records g1 p).2.1, ?_, ?_⟩
  · intro e; unfold GeneratorImpl.equation; rw [hstore]
  · rw [hf.2.1, hpf.2.1]; rfl
  · intro p hp
    rcases (enterResolution_records g1 p).2.2 with h2 | h2
    · rw [h2, (hpf.2.2.2.2.2.2 p).1, hg] at hp
      exact absurd (hb.internalVariable_fresh p).1 hp
    · exact h2
  · intro p
    rcases (hpf.2.2.2.2.2.2 p).2.2 with h2 | h2 | h2 | h2 | h2
    · rw [h2, hg]
      rcases (hb.internalVariable_fresh p).2.2 with h3 | h3 <;> rw [h3] <;> decide
    all_goals rw [h2]; decide

theorem knownVariable_of_unknown (g : GeneratorImpl) (v : Nat)
    (h1 : (g.internalVariable v).mType = GeneratorInternalVariableType.UNKNOWN)
    (h2 : (g.internalVariable v).mIndex = MAX_SIZE_T) : knownVariable g v = false := by
  rw [← Bool.not_eq_true, knownVariable_iff, h1, h2]
  simp

/-- The `check` of an equation that waits for two unknowns changes nothing
but the flags of the equation. -/
theorem Waiting.checkWaits {g : GeneratorImpl} {p q e : Nat} (h : Waiting g p q e)
    (hp : (g.internalVariable p).mType = GeneratorInternalVariableType.UNKNOWN
      ∧ (g.internalVariable p).mIndex = MAX_SIZE_T)
    (hq : (g.internalVariable q).mType = GeneratorInternalVariableType.UNKNOWN
      ∧ (g.internalVariable q).mIndex = MAX_SIZE_T)
    (hEq : Variable → Variable → Bool) (c : Counters) :
    check hEq g e c = (g.setEquation e (updateTracking g (g.equation e)), c, false)
    ∧ (updateTracking g (g.equation e)).mVariables = (g.equation e).mVariables
    ∧ (updateTracking g (g.equation e)).mOdeVariables = [] := by
  obtain ⟨h1, h2, h3⟩ := h
  have hlen : (g.equation e).mVariables.length = 2 := h3.length_eq
  have hk : ∀ v ∈ (g.equation e).mVariables, knownVariable g v = false := by
    intro v hv
    have := h3.mem_iff.1 hv
    simp only [List.mem_cons, List.mem_singleton, List.not_mem_nil, or_false] at this
    rcases this with rfl | rfl
    · exact knownVariable_of_unknown g v hp.1 hp.2
    · exact knownVariable_of_unknown g v hq.1 hq.2
  have hv : (updateTracking g (g.equation e)).mVariables = (g.equation e).mVariables := by
    rw [(updateTracking_fields g (g.equation e)).2.2.2.2.1, List.filter_eq_self]
    intro v hv
    rw [hk v hv]; rfl
  have ho : (updateTracking g (g.equation e)).mOdeVariables = [] := by
    rw [(updateTracking_fields g (g.equation e)).2.2.2.2.2, h2]; rfl
  refine ⟨?_, hv, ho⟩
  have hover : isOverconstraint g (g.equation e) = false := by
    unfold isOverconstraint
    rw [hlen, h2]
    rfl
  unfold check
  rw [if_neg (by rw [h1]; exact fun hne => hne rfl), hover]
  simp only [Bool.false_eq_true, if_false]
  rw [if_neg]
  rw [hv, ho, hlen]
  decide

/-- A scan over equations that all wait for the same two unknowns: no check
is relevant, the counters and the records are left as they are and no
equation is given an order. -/
theorem Waiting.scan {p q : Nat} (hEq : Variable → Variable → Bool) :
    ∀ (es : List Nat) (g : GeneratorImpl) (c : Counters),
      (∀ e ∈ es, Waiting g p q e) →
      (g.internalVariable p).mType = GeneratorInternalVariableType.UNKNOWN
        ∧ (g.internalVariable p).mIndex = MAX_SIZE_T →
      (g.internalVariable q).mType = GeneratorInternalVariableType.UNKNOWN
        ∧ (g.internalVariable q).mIndex = MAX_SIZE_T →
      (checkEquations hEq es g c false).2 = (c, false)
      ∧ (∀ v, (checkEquations hEq es g c false).1.internalVariable v = g.internalVariable v)
      ∧ (∀ e, ((checkEquations hEq es g c false).1.equation e).mOrder = (g.equation e).mOrder)
  | [], _, _, _, _, _ => ⟨rfl, fun _ => rfl, fun _ => rfl⟩
  | e :: es, g, c, hw, hp, hq => by
    obtain ⟨h1, h2, h3⟩ := (hw e (List.mem_cons_self _ _)).checkWaits hp hq hEq c
    have hw' : ∀ x ∈ es, Waiting (g.setEquation e (updateTracking g (g.equation e))) p q x := by
      intro x hx
      have hwx := hw x (List.mem_cons_of_mem _ hx)
      unfold Waiting
      rw [GeneratorImpl.equation_setEquation]
      split_ifs with hc
      · obtain ⟨rfl, _⟩ := hc
        exact ⟨hwx.1, h3, by rw [h2]; exact hwx.2.2⟩
      · exact hwx
    have ih := Waiting.scan hEq es (g.setEquation e (updateTracking g (g.equation e))) c hw'
      hp hq
    have hstep : checkEquations hEq (e :: es) g c false
        = checkEquations hEq es (g.setEquation e (updateTracking g (g.equation e))) c false := by
      rw [checkEquations, h1]
      rfl
    rw [hstep]
    refine ⟨ih.1, fun v => by rw [ih.2.1 v]; rfl, fun x => ?_⟩
    rw [ih.2.2 x, GeneratorImpl.equation_setEquation]
    split_ifs with hc
    · obtain ⟨rfl, _⟩ := hc
      rfl
    · rfl

/-- C23: the two equations `e1` and `e2` of the model each reference, as
plain variables, the records `p` and `q` and nothing else, and neither
variable has an initial value or is differentiated (after the pre-pass both
are tagged `UNKNOWN`).  Then the resolution loop is left after its first
scan, no equation is given an order, both records stay `UNKNOWN`, and
`processModel` returns with the type `UNDERCONSTRAINED`. -/
theorem processModel_two_equations_two_unknowns {F : Type} (m : Model) (num : Numerics F)
    (g g1 : GeneratorImpl) (e1 e2 p q : Nat)
    (hb : Built g) (hpre : prePass m num.isOne (resetResults g) = some g1)
    (herr : g1.errorCount = 0)
    (heqs : g.mEquations = [e1, e2])
    (hrefs1 : (g.equation e1).mVariables.Perm [p, q] ∧ (g.equation e1).mOdeVariables = [])
    (hrefs2 : (g.equation e2).mVariables.Perm [p, q] ∧ (g.equation e2).mOdeVariables = [])
    (hp : p ∈ g1.mInternalVariables
      ∧ (g1.internalVariable p).mType = GeneratorInternalVariableType.UNKNOWN)
    (hq : q ∈ g1.mInternalVariables
      ∧ (g1.internalVariable q).mType = GeneratorInternalVariableType.UNKNOWN) :
    ∃ r g2, resolveEquations m.hasEquivalentVariable 1 (enterResolution g1).1
          (enterResolution g1).2 = some r
      ∧ analyseModel m num.isOne g = some g2
      ∧ processModel m num g = some g2
      ∧ g2 = determineModelType (reportInvalidVariables r.1.mInternalVariables r.1)
      ∧ (g2.equation e1).mOrder = MAX_SIZE_T ∧ (g2.equation e2).mOrder = MAX_SIZE_T
      ∧ (g2.internalVariable p).mType = GeneratorInternalVariableType.UNKNOWN
      ∧ (g2.internalVariable q).mType = GeneratorInternalVariableType.UNKNOWN
      ∧ g2.mModelType = ModelType.UNDERCONSTRAINED := by
  obtain ⟨heq, hmeq, hty, hidx, hnover⟩ := enterResolution_entry m num.isOne g g1 hb hpre
  have hrefs : ∀ e ∈ g.mEquations,
      (g.equation e).mVariables.Perm [p, q] ∧ (g.equation e).mOdeVariables = [] := by
    intro e he
    rw [heqs] at he
    simp only [List.mem_cons, List.mem_singleton, List.not_mem_nil, or_false] at he
    rcases he with rfl | rfl
    · exact hrefs1
    · exact hrefs2
  have hpf := prePass_frame m num.isOne _ _ hpre
  have hunk : ∀ v, (g1.internalVariable v).mType = GeneratorInternalVariableType.UNKNOWN →
      ((enterResolution g1).1.internalVariable v).mType = GeneratorInternalVariableType.UNKNOWN
      ∧ ((enterResolution g1).1.internalVariable v).mIndex = MAX_SIZE_T := by
    intro v hv
    refine ⟨by rw [hty]; exact hv, ?_⟩
    by_contra hne
    have := hidx v hne
    rw [hv] at this
    cases this
  have hw : ∀ e ∈ (enterResolution g1).1.mEquations, Waiting (enterResolution g1).1 p q e := by
    intro e he
    rw [hmeq] at he
    unfold Waiting
    rw [heq]
    exact ⟨(hb.equation_fresh e).1, (hrefs e he).2, (hrefs e he).1⟩
  obtain ⟨s1, s2, s3⟩ := Waiting.scan m.hasEquivalentVariable _ _ (enterResolution g1).2 hw
    (hunk p hp.2) (hunk q hq.2)
  have hres : ∀ fuel, resolveEquations m.hasEquivalentVariable (fuel + 1) (enterResolution g1).1
      (enterResolution g1).2
      = some ((checkEquations m.hasEquivalentVariable (enterResolution g1).1.mEquations
          (enterResolution g1).1 (enterResolution g1).2 false).1, (enterResolution g1).2) := by
    intro fuel
    unfold resolveEquations
    dsimp only
    rw [s1]
    rfl
  have hana : analyseModel m num.isOne g
      = some (determineModelType (reportInvalidVariables
          (checkEquations m.hasEquivalentVariable (enterResolution g1).1.mEquations
            (enterResolution g1).1 (enterResolution g1).2 false).1.mInternalVariables
          (checkEquations m.hasEquivalentVariable (enterResolution g1).1.mEquations
            (enterResolution g1).1 (enterResolution g1).2 false).1)) := by
    unfold analyseModel
    rw [hpre, Option.some_bind]
    unfold classifyModel
    rw [if_pos herr]
    dsimp only
    rw [hres]
    rfl
  generalize hR : (checkEquations m.hasEquivalentVariable (enterResolution g1).1.mEquations
    (enterResolution g1).1 (enterResolution g1).2 false).1 = R at s2 s3 hres hana
  have hsame : SameResults (enterResolution g1).1 R := by
    rw [← hR]; exact checkEquations_sameResults _ _ _ _ _
  have hRep := reportInvalidVariables_frame R.mInternalVariables R
  have hD := determineModelType_frame (reportInvalidVariables R.mInternalVariables R)
  have hrec : ∀ v, (determineModelType
      (reportInvalidVariables R.mInternalVariables R)).internalVariable v
      = (enterResolution g1).1.internalVariable v := by
    intro v
    rw [← s2 v]
    unfold GeneratorImpl.internalVariable
    rw [hD.2.2.2.1, hRep.2.2.2.2.1]
  have hequ : ∀ e, (determineModelType
      (reportInvalidVariables R.mInternalVariables R)).equation e = R.equation e := by
    intro e
    unfold GeneratorImpl.equation
    rw [hD.2.2.2.2, hRep.2.2.2.2.2]
  have hreg : ∀ v, v ∈ g1.mInternalVariables →
      v ∈ (reportInvalidVariables R.mInternalVariables R).mInternalVariables := by
    intro v hv
    rw [hRep.2.1, hsame.2.1]
    exact (enterResolution_registry g1).2.mem_iff.2 hv
  have hrec' : ∀ v, (reportInvalidVariables R.mInternalVariables R).internalVariable v
      = (enterResolution g1).1.internalVariable v := by
    intro v
    rw [← s2 v]
    unfold GeneratorImpl.internalVariable
    rw [hRep.2.2.2.2.1]
  have hunder : hasUnderconstrainedVariables
      (reportInvalidVariables R.mInternalVariables R) = true := by
    rw [hasUnderconstrainedVariables_iff]
    exact ⟨p, hreg p hp.1, Or.inl (by rw [hrec', hty]; exact hp.2)⟩
  have hover : hasOverconstrainedVariables
      (reportInvalidVariables R.mInternalVariables R) = false := by
    rw [← Bool.not_eq_true, hasOverconstrainedVariables_iff]
    rintro ⟨v, _, hv⟩
    rw [hrec', hty] at hv
    exact hnover v hv
  have htype : (determineModelType (reportInvalidVariables R.mInternalVariables R)).mModelType
      = ModelType.UNDERCONSTRAINED := by
    unfold determineModelType
    rw [if_pos hunder, hover]
    rfl
  refine ⟨(R, (enterResolution g1).2), _, hres 0, hana, ?_, rfl, ?_, ?_, ?_, ?_, htype⟩
  · unfold processModel
    rw [hana, Option.some_bind]
    unfold finaliseModel
    rw [if_neg]
    rw [htype]
    decide
  · rw [hequ, s3, heq]; exact (hb.equation_fresh e1).1
  · rw [hequ, s3, heq]; exact (hb.equation_fresh e2).1
  · rw [hrec, hty]; exact hp.2
  · rw [hrec, hty]; exact hq.2

/-- C23, at the model with the equations `x + y = 3` and `x - y = 1`: the
hypotheses hold, and so does the conclusion. -/
theorem processModel_two_equations_two_unknowns_witness :
    (Built TwoUnknowns.generator
      ∧ prePass TwoUnknowns.model DependentEqns.numerics.isOne
          (resetResults TwoUnknowns.generator) = some TwoUnknowns.prePassed
      ∧ TwoUnknowns.prePassed.errorCount = 0
      ∧ TwoUnknowns.generator.mEquations = [0, 1]
      ∧ ((TwoUnknowns.generator.equation 0).mVariables = [0, 1]
        ∧ (TwoUnknowns.generator.equation 0).mOdeVariables = [])
      ∧ ((TwoUnknowns.generator.equation 1).mVariables = [0, 1]
        ∧ (TwoUnknowns.generator.equation 1).mOdeVariables = [])
      ∧ (0 ∈ TwoUnknowns.prePassed.mInternalVariables
        ∧ (TwoUnknowns.prePassed.internalVariable 0).mType
            = GeneratorInternalVariableType.UNKNOWN)
      ∧ (1 ∈ TwoUnknowns.prePassed.mInternalVariables
        ∧ (TwoUnknowns.prePassed.internalVariable 1).mType
            = GeneratorInternalVariableType.UNKNOWN))
    ∧ ∃ r g2, resolveEquations TwoUnknowns.model.hasEquivalentVariable 1
          (enterResolution TwoUnknowns.prePassed).1 (enterResolution TwoUnknowns.prePassed).2
          = some r
      ∧ analyseModel TwoUnknowns.model DependentEqns.numerics.isOne TwoUnknowns.generator
          = some g2
      ∧ processModel TwoUnknowns.model DependentEqns.numerics TwoUnknowns.generator = some g2
      ∧ g2 = determineModelType (reportInvalidVariables r.1.mInternalVariables r.1)
      ∧ (g2.equation 0).mOrder = MAX_SIZE_T ∧ (g2.equation 1).mOrder = MAX_SIZE_T
      ∧ (g2.internalVariable 0).mType = GeneratorInternalVariableType.UNKNOWN
      ∧ (g2.internalVariable 1).mType = GeneratorInternalVariableType.UNKNOWN
      ∧ g2.mModelType = ModelType.UNDERCONSTRAINED :=
  ⟨by decide,
    processModel_two_equations_two_unknowns TwoUnknowns.model DependentEqns.numerics
      TwoUnknowns.generator TwoUnknowns.prePassed 0 1 0 1 (by decide) (by decide) (by decide)
      (by decide)
      ⟨List.Perm.of_eq (by decide), by decide⟩ ⟨List.Perm.of_eq (by decide), by decide⟩
      (by decide) (by decide)⟩

/-! ## C24: several equations for one variable -/

theorem check_eq_checkResolved (hEq : Variable → Variable → Bool) (g : GeneratorImpl)
    (self : Nat) (c : Counters)
    (h1 : (g.equation self).mOrder = MAX_SIZE_T)
    (h2 : isOverconstraint g (g.equation self) = false)
    (h3 : (updateTracking g (g.equation self)).mVariables.length
        + (updateTracking g (g.equation self)).mOdeVariables.length = 1)
    (h4 : isComputable (resolvedType hEq g self) = true) :
    check hEq g self c = checkResolved hEq g self c := by
  apply check_elim hEq g self c (fun r => r = checkResolved hEq g self c)
  · intro h; exact absurd h1 h
  · intro _ h; rw [h2] at h; cases h
  · intro _ _ h; exact absurd h3 h
  · intro _ _ _ h
    unfold resolvedType at h4
    rw [h4] at h; cases h
  · intro _ _ _ _; rfl

theorem check_of_ordered (hEq : Variable → Variable → Bool) (g : GeneratorImpl)
    (self : Nat) (c : Counters) (h : (g.equation self).mOrder ≠ MAX_SIZE_T) :
    check hEq g self c = (g, c, false) := by
  unfold check
  rw [if_pos h]

/-- The first `check` of an equation whose only reference is a plain variable
that is `UNKNOWN` and has no index: the check is relevant, the variable is
given an index and a computed tag, the equation is given an order, and
nothing else changes. -/
theorem check_first_reference (hEq : Variable → Variable → Bool) (g : GeneratorImpl)
    (e x : Nat) (c : Counters)
    (horder : (g.equation e).mOrder = MAX_SIZE_T)
    (hv : (g.equation e).mVariables = [x]) (ho : (g.equation e).mOdeVariables = [])
    (hx : x < g.variableStore.length)
    (htype : (g.internalVariable x).mType = GeneratorInternalVariableType.UNKNOWN)
    (hindex : (g.internalVariable x).mIndex = MAX_SIZE_T)
    (hc1 : c.variableIndex ≤ MAX_SIZE_T) (hc2 : handedOut c.variableIndex < MAX_SIZE_T)
    (hc3 : c.equationOrder = MAX_SIZE_T) :
    (check hEq g e c).2.2 = true
    ∧ (∀ q, q ≠ x → (check hEq g e c).1.internalVariable q = g.internalVariable q)
    ∧ ((check hEq g e c).1.internalVariable x).mIndex ≠ MAX_SIZE_T
    ∧ ((check hEq g e c).1.internalVariable x).mType ≠ GeneratorInternalVariableType.UNKNOWN
    ∧ ((check hEq g e c).1.internalVariable x).mType
        ≠ GeneratorInternalVariableType.SHOULD_BE_STATE
    ∧ (∀ d, d ≠ e → (check hEq g e c).1.equation d = g.equation d)
    ∧ ((check hEq g e c).1.equation e).mOrder ≠ MAX_SIZE_T := by
  have he : e < g.equationStore.length := by
    by_contra hne
    have : g.equation e = default := by
      unfold GeneratorImpl.equation
      rw [List.getD_eq_default _ _ (by omega)]
    rw [this] at hv
    cases hv
  have hk : knownVariable g x = false := knownVariable_of_unknown g x htype hindex
  have hover : isOverconstraint g (g.equation e) = false := by
    have hs := (soleVariable_of_singleton (g.equation e) x (by rw [hv, ho]; rfl)).2
    unfold isOverconstraint
    rw [hs, hindex]
    simp
  have hv' : (updateTracking g (g.equation e)).mVariables = [x] := by
    rw [(updateTracking_fields g (g.equation e)).2.2.2.2.1, hv]
    simp [hk]
  have ho' : (updateTracking g (g.equation e)).mOdeVariables = [] := by
    rw [(updateTracking_fields g (g.equation e)).2.2.2.2.2, ho]; rfl
  obtain ⟨hlen, hsole⟩ := soleVariable_of_singleton (updateTracking g (g.equation e)) x
    (by rw [hv', ho']; rfl)
  have hT : resolvedType hEq g e = computedType (updateTracking g (g.equation e)) := by
    unfold resolvedType
    rw [(updateVariable_fields hEq _ _).2.2, hsole, if_pos htype]
  have hcomp : isComputable (resolvedType hEq g e) = true := by
    rw [hT]
    rcases computedType_cases (updateTracking g (g.equation e)) with h | h | h <;> rw [h] <;> rfl
  have hns : resolvedType hEq g e ≠ GeneratorInternalVariableType.STATE := by
    rw [hT]
    rcases computedType_cases (updateTracking g (g.equation e)) with h | h | h <;> rw [h] <;>
      decide
  rw [check_eq_checkResolved hEq g e c horder hover hlen hcomp]
  have hrT : (updateVariable hEq (updateTracking g (g.equation e))
      (g.internalVariable (soleVariable (updateTracking g (g.equation e))))).mType
      = resolvedType hEq g e := rfl
  unfold checkResolved
  dsimp only
  rw [hrT]
  refine ⟨rfl, ?_, ?_, ?_, ?_, ?_, ?_⟩
  · intro q hq
    rw [GeneratorImpl.internalVariable_setEquation,
      GeneratorImpl.internalVariable_setInternalVariable, hsole, if_neg]
    exact fun h => hq h.1.symm
  · rw [GeneratorImpl.internalVariable_setEquation,
      GeneratorImpl.internalVariable_setInternalVariable, hsole, if_pos ⟨rfl, hx⟩]
    dsimp only
    unfold assignedIndex nextCounters
    rw [if_neg hns, if_neg hns]
    exact (sizeIncr_ne_max _ hc1 hc2).1
  · rw [GeneratorImpl.internalVariable_setEquation,
      GeneratorImpl.internalVariable_setInternalVariable, hsole, if_pos ⟨rfl, hx⟩]
    dsimp only
    rw [hT]
    rcases computedType_cases (updateTracking g (g.equation e)) with h | h | h <;> rw [h] <;>
      decide
  · rw [GeneratorImpl.internalVariable_setEquation,
      GeneratorImpl.internalVariable_setInternalVariable, hsole, if_pos ⟨rfl, hx⟩]
    dsimp only
    rw [hT]
    rcases computedType_cases (updateTracking g (g.equation e)) with h | h | h <;> rw [h] <;>
      decide
  · intro d hd
    rw [GeneratorImpl.equation_setEquation, if_neg]
    · rfl
    · exact fun h => hd h.1.symm
  · rw [GeneratorImpl.equation_setEquation, if_pos ⟨rfl, by
      simpa [GeneratorImpl.setInternalVariable] using he⟩]
    dsimp only
    unfold nextCounters
    rw [if_neg hns]
    dsimp only
    rw [hc3]
    decide

/-- A scan over equations that are all overdetermined in the same record: no
check is relevant; the counters, the equations and the other records are
left as they are, and the record is tagged `OVERCONSTRAINED` when an equation
is checked. -/
theorem Overdetermined.scanAll {x : Nat} (hEq : Variable → Variable → Bool) :
    ∀ (es : List Nat) (g : GeneratorImpl) (c : Counters) (b : Bool),
      (∀ e ∈ es, Overdetermined g e x) →
      (checkEquations hEq es g c b).2 = (c, b)
      ∧ (∀ q, q ≠ x → (checkEquations hEq es g c b).1.internalVariable q = g.internalVariable q)
      ∧ (∀ e, (checkEquations hEq es g c b).1.equation e = g.equation e)
      ∧ (es ≠ [] ∨ (g.internalVariable x).mType = GeneratorInternalVariableType.OVERCONSTRAINED →
          ((checkEquations hEq es g c b).1.internalVariable x).mType
            = GeneratorInternalVariableType.OVERCONSTRAINED)
  | [], _, _, _, _ => ⟨rfl, fun _ _ => rfl, fun _ => rfl, fun h => by
      rcases h with h | h
      · exact absurd rfl h
      · exact h⟩
  | e :: es, g, c, b, hw => by
    have he := hw e (List.mem_cons_self _ _)
    have h1 := he.checkEq hEq c
    have hw' : ∀ d ∈ es, Overdetermined (check hEq g e c).1 d x :=
      fun d hd => ((hw d (List.mem_cons_of_mem _ hd)).checkStep hEq e c).1
    have ih := Overdetermined.scanAll hEq es (check hEq g e c).1 (check hEq g e c).2.1
      ((check hEq g e c).2.2 || b) hw'
    have hstep : checkEquations hEq (e :: es) g c b
        = checkEquations hEq es (check hEq g e c).1 (check hEq g e c).2.1
            ((check hEq g e c).2.2 || b) := rfl
    rw [hstep]
    have htag : ((check hEq g e c).1.internalVariable x).mType
        = GeneratorInternalVariableType.OVERCONSTRAINED := by
      rw [h1, GeneratorImpl.internalVariable_setInternalVariable, if_pos ⟨rfl, he.2.2.1⟩]
    refine ⟨?_, ?_, ?_, fun _ => ih.2.2.2 (Or.inr htag)⟩
    · rw [ih.1, h1]; rfl
    · intro q hq
      rw [ih.2.1 q hq, h1, GeneratorImpl.internalVariable_setInternalVariable, if_neg]
      exact fun h => hq h.1.symm
    · intro d
      rw [ih.2.2.1 d, h1]
      rfl

theorem filter_eq_singleton_of_nodup {α : Type} [DecidableEq α] (f : α → Bool) (x : α) :
    ∀ l : List α, l.Nodup → x ∈ l → f x = true → (∀ q ∈ l, q ≠ x → f q = false) →
      l.filter f = [x]
  | [], _, h, _, _ => absurd h (List.not_mem_nil x)
  | a :: l, hn, hx, hf, ho => by
    rw [List.nodup_cons] at hn
    by_cases hax : a = x
    · subst hax
      rw [List.filter_cons, hf, if_pos rfl]
      congr 1
      rw [List.filter_eq_nil_iff]
      intro q hq
      rw [ho q (List.mem_cons_of_mem _ hq) (fun h => hn.1 (h ▸ hq))]
      exact Bool.false_ne_true
    · rw [List.filter_cons, ho a (List.mem_cons_self _ _) hax]
      simp only [Bool.false_eq_true, if_false]
      rcases List.mem_cons.1 hx with h | h
      · exact absurd h.symm hax
      · exact filter_eq_singleton_of_nodup f x l hn.2 h hf
          (fun q hq => ho q (List.mem_cons_of_mem _ hq))

/-- C24, amended: the model has two equations or more, each of which references, as a
plain variable, the record `x` and nothing else; `x` has no initial value
(after the pre-pass it is tagged `UNKNOWN`), and every other record of the
registry carries a valid tag after the pre-pass.  Then the analysis of
`processModel` ends with `x` tagged `OVERCONSTRAINED`, exactly one issue is
recorded, which says of the variable of `x` that it `is computed more than
once`, and `processModel` returns with the type `OVERCONSTRAINED`. -/
theorem processModel_equations_for_one_variable {F : Type} (m : Model) (num : Numerics F)
    (g g1 : GeneratorImpl) (x : Nat)
    (hb : Built g) (hpre : prePass m num.isOne (resetResults g) = some g1)
    (herr : g1.errorCount = 0)
    (hsize : g1.mInternalVariables.length < MAX_SIZE_T)
    (hn : 2 ≤ g.mEquations.length)
    (hrefs : ∀ e ∈ g.mEquations,
      (g.equation e).mVariables = [x] ∧ (g.equation e).mOdeVariables = [])
    (hx : x ∈ g1.mInternalVariables ∧ x < g1.variableStore.length
      ∧ (g1.internalVariable x).mType = GeneratorInternalVariableType.UNKNOWN)
    (hnodup : g1.mInternalVariables.Nodup)
    (hother : ∀ q ∈ g1.mInternalVariables, q ≠ x →
      (g1.internalVariable q).mType ≠ GeneratorInternalVariableType.UNKNOWN
      ∧ (g1.internalVariable q).mType ≠ GeneratorInternalVariableType.SHOULD_BE_STATE) :
    ∃ g2, analyseModel m num.isOne g = some g2
      ∧ processModel m num g = some g2
      ∧ (g2.internalVariable x).mType = GeneratorInternalVariableType.OVERCONSTRAINED
      ∧ g2.errors = [invalidVariableIssue g2 x]
      ∧ (∀ v, (g2.internalVariable x).mVariable = some v →
          invalidVariableIssue g2 x
            = "Variable '" ++ v.name ++ "' in component '" ++ v.parent
              ++ "' is computed more than once.")
      ∧ g2.mModelType = ModelType.OVERCONSTRAINED := by
  obtain ⟨heq, hmeq, hty, hidx, hnover⟩ := enterResolution_entry m num.isOne g g1 hb hpre
  have hf := enterResolution_frame g1
  have hcnt := enterResolution_counters g1 (by omega)
  obtain ⟨e1, rest, hes⟩ : ∃ e1 rest, g.mEquations = e1 :: rest := by
    rcases h : g.mEquations with _ | ⟨a, l⟩
    · rw [h] at hn; simp at hn
    · exact ⟨a, l, rfl⟩
  have hrest : rest ≠ [] := by
    rintro rfl
    rw [hes] at hn
    simp at hn
  have hnd : e1 ∉ rest := by
    have := hb.1
    rw [hes, List.nodup_cons] at this
    exact this.1
  -- the state in which the loop is entered
  generalize hS : enterResolution g1 = S at heq hmeq hty hidx hf hcnt
  have hxS : (S.1.internalVariable x).mType = GeneratorInternalVariableType.UNKNOWN
      ∧ (S.1.internalVariable x).mIndex = MAX_SIZE_T := by
    refine ⟨by rw [hty]; exact hx.2.2, ?_⟩
    by_contra hne
    have := hidx x hne
    rw [hx.2.2] at this
    cases this
  have hlenS : S.1.variableStore.length = g1.variableStore.length := by
    rw [← hS]; exact (enterResolution_registry g1).1
  have hpermS : S.1.mInternalVariables.Perm g1.mInternalVariables := by
    rw [← hS]; exact (enterResolution_registry g1).2
  have herrS : S.1.errors = [] := by
    rw [← hS, enterResolution_errors]
    exact List.eq_nil_of_length_eq_zero herr
  -- the first check of the first scan
  have he1 := hrefs e1 (by rw [hes]; exact List.mem_cons_self _ _)
  obtain ⟨a1, a2, a3, a4, a5, a6, a7⟩ := check_first_reference m.hasEquivalentVariable S.1 e1 x S.2
    (by rw [heq]; exact (hb.equation_fresh e1).1) (by rw [heq]; exact he1.1)
    (by rw [heq]; exact he1.2) (by rw [hlenS]; exact hx.2.1) hxS.1 hxS.2 hcnt.2.1
    (by omega) hf.2.2.2.2
  have hsA := check_sameResults m.hasEquivalentVariable S.1 e1 S.2
  have hlA := (check_storeLength m.hasEquivalentVariable S.1 e1 S.2).2
  generalize hA : check m.hasEquivalentVariable S.1 e1 S.2 = A at a1 a2 a3 a4 a5 a6 a7 hsA hlA
  have hovA : ∀ e ∈ rest, Overdetermined A.1 e x := by
    intro e he
    have hne : e ≠ e1 := fun h => hnd (h ▸ he)
    have hr := hrefs e (by rw [hes]; exact List.mem_cons_of_mem _ he)
    refine ⟨?_, ?_, by rw [hlA, hlenS]; exact hx.2.1, a3, a4, a5⟩
    · rw [a6 e hne, heq]; exact (hb.equation_fresh e).1
    · rw [a6 e hne, heq, hr.1, hr.2]; rfl
  -- the rest of the first scan
  obtain ⟨b1, b2, b3, b4⟩ := Overdetermined.scanAll m.hasEquivalentVariable rest A.1 A.2.1
    (A.2.2 || false) hovA
  have hsB := checkEquations_sameResults m.hasEquivalentVariable rest A.1 A.2.1 (A.2.2 || false)
  generalize hB : checkEquations m.hasEquivalentVariable rest A.1 A.2.1 (A.2.2 || false) = B
    at b1 b2 b3 b4 hsB
  have hscan1 : checkEquations m.hasEquivalentVariable S.1.mEquations S.1 S.2 false = B := by
    rw [hmeq, hes, checkEquations, hA]
    exact hB
  have hB2 : B.2.2 = true := by rw [b1, a1]; rfl
  have hBm : B.1.mEquations = e1 :: rest := by
    rw [hsB.2.2.1, hsA.2.2.1, hmeq, hes]
  -- the second scan
  have hovB : ∀ e ∈ rest, Overdetermined B.1 e x := by
    intro e he
    rw [← hB]
    exact (Overdetermined.scanStep m.hasEquivalentVariable rest A.1 A.2.1 (A.2.2 || false)
      (hovA e he)).1
  have hB1 : (B.1.equation e1).mOrder ≠ MAX_SIZE_T := by rw [b3]; exact a7
  obtain ⟨d1, d2, d3, d4⟩ := Overdetermined.scanAll m.hasEquivalentVariable rest B.1 B.2.1
    (false || false) hovB
  have hsR := checkEquations_sameResults m.hasEquivalentVariable rest B.1 B.2.1
    (false || false)
  generalize hR : checkEquations m.hasEquivalentVariable rest B.1 B.2.1 (false || false) = R
    at d1 d2 d3 d4 hsR
  have hscan2 : checkEquations m.hasEquivalentVariable B.1.mEquations B.1 B.2.1 false = R := by
    rw [hBm, checkEquations, check_of_ordered _ _ _ _ hB1]
    exact hR
  have hR2 : R.2.2 = false := by rw [d1]; rfl
  -- the loop
  have hres : resolveEquations m.hasEquivalentVariable (g1.mEquations.length + 1) S.1 S.2
      = some (R.1, R.2.1) := by
    have hl : g1.mEquations.length + 1 = (rest.length + 1) + 1 := by
      rw [← hf.2.1, hmeq, hes]; rfl
    rw [hl]
    unfold resolveEquations
    dsimp only
    rw [hscan1, hB2]
    simp only [Bool.not_true, Bool.false_eq_true, if_false]
    unfold resolveEquations
    dsimp only
    rw [hscan2, hR2]
    rfl
  have hana : analyseModel m num.isOne g
      = some (determineModelType (reportInvalidVariables R.1.mInternalVariables R.1)) := by
    unfold analyseModel
    rw [hpre, Option.some_bind]
    unfold classifyModel
    rw [if_pos herr]
    dsimp only
    rw [hS, hres]
    rfl
  -- the records when the loop is left
  have hRx : (R.1.internalVariable x).mType = GeneratorInternalVariableType.OVERCONSTRAINED :=
    d4 (Or.inl hrest)
  have hRq : ∀ q, q ≠ x → (R.1.internalVariable q).mType = (g1.internalVariable q).mType := by
    intro q hq
    rw [d2 q hq, b2 q hq, a2 q hq, hty]
  have hRm : R.1.mInternalVariables.Perm g1.mInternalVariables := by
    rw [hsR.2.1, hsB.2.1, hsA.2.1]
    exact hpermS
  have hRe : R.1.errors = [] := by
    rw [hsR.2.2.2.2.2.2, hsB.2.2.2.2.2.2, hsA.2.2.2.2.2.2]
    exact herrS
  have hRep := reportInvalidVariables_frame R.1.mInternalVariables R.1
  have hD := determineModelType_frame (reportInvalidVariables R.1.mInternalVariables R.1)
  have hrec' : ∀ v, (reportInvalidVariables R.1.mInternalVariables R.1).internalVariable v
      = R.1.internalVariable v := by
    intro v
    unfold GeneratorImpl.internalVariable
    rw [hRep.2.2.2.2.1]
  have hrec : ∀ v, (determineModelType
      (reportInvalidVariables R.1.mInternalVariables R.1)).internalVariable v
      = R.1.internalVariable v := by
    intro v
    rw [← hrec' v]
    unfold GeneratorImpl.internalVariable
    rw [hD.2.2.2.1]
  have hissue : invalidVariableIssue
      (determineModelType (reportInvalidVariables R.1.mInternalVariables R.1))
      = invalidVariableIssue R.1 := by
    funext q
    unfold invalidVariableIssue
    rw [hrec]
  have hunder : hasUnderconstrainedVariables
      (reportInvalidVariables R.1.mInternalVariables R.1) = false := by
    rw [← Bool.not_eq_true, hasUnderconstrainedVariables_iff]
    rintro ⟨v, hv, hv2⟩
    rw [hRep.2.1] at hv
    rw [hrec'] at hv2
    by_cases hvx : v = x
    · subst hvx
      rw [hRx] at hv2
      rcases hv2 with h | h <;> cases h
    · rw [hRq v hvx] at hv2
      have := hother v (hRm.mem_iff.1 hv) hvx
      rcases hv2 with h | h
      · exact this.1 h
      · exact this.2 h
  have hover : hasOverconstrainedVariables
      (reportInvalidVariables R.1.mInternalVariables R.1) = true := by
    rw [hasOverconstrainedVariables_iff]
    exact ⟨x, by rw [hRep.2.1]; exact hRm.mem_iff.2 hx.1, by rw [hrec']; exact hRx⟩
  have htype : (determineModelType
      (reportInvalidVariables R.1.mInternalVariables R.1)).mModelType
      = ModelType.OVERCONSTRAINED := by
    unfold determineModelType
    rw [hunder, hover]
    rfl
  refine ⟨_, hana, ?_, by rw [hrec]; exact hRx, ?_, ?_, htype⟩
  · unfold processModel
    rw [hana, Option.some_bind]
    unfold finaliseModel
    rw [if_neg]
    rw [htype]
    decide
  · rw [determineModelType_errors, reportInvalidVariables_errors, hRe, hissue, List.nil_append,
      filter_eq_singleton_of_nodup _ x R.1.mInternalVariables (hRm.nodup_iff.2 hnodup)
        (hRm.mem_iff.2 hx.1) (by rw [hRx]; rfl)]
    · rfl
    · intro q hq hqx
      rw [hRq q hqx]
      have h1 := hother q (hRm.mem_iff.1 hq) hqx
      have h2 := hnover q
      revert h1 h2
      cases (g1.internalVariable q).mType <;> simp [isInvalidTag]
  · intro v hv
    rw [hrec] at hv
    unfold invalidVariableIssue
    rw [hrec, hv, hRx]
    simp [errorType, String.append_assoc]

/-- C24, amended, at the model with the equations `x = 1` and `x = 2`: the hypotheses
hold, and so does the conclusion; the issue is
`Variable 'x' in component 'main' is computed more than once.` -/
theorem processModel_equations_for_one_variable_witness :
    (Built ComputedTwice.generator
      ∧ prePass ComputedTwice.model DependentEqns.numerics.isOne
          (resetResults ComputedTwice.generator) = some ComputedTwice.prePassed
      ∧ ComputedTwice.prePassed.errorCount = 0
      ∧ ComputedTwice.prePassed.mInternalVariables.length < MAX_SIZE_T
      ∧ 2 ≤ ComputedTwice.generator.mEquations.length
      ∧ (∀ e ∈ ComputedTwice.generator.mEquations,
          (ComputedTwice.generator.equation e).mVariables = [0]
          ∧ (ComputedTwice.generator.equation e).mOdeVariables = [])
      ∧ (0 ∈ ComputedTwice.prePassed.mInternalVariables
        ∧ 0 < ComputedTwice.prePassed.variableStore.length
        ∧ (ComputedTwice.prePassed.internalVariable 0).mType
            = GeneratorInternalVariableType.UNKNOWN)
      ∧ ComputedTwice.prePassed.mInternalVariables.Nodup
      ∧ ∀ q ∈ ComputedTwice.prePassed.mInternalVariables, q ≠ 0 →
          (ComputedTwice.prePassed.internalVariable q).mType
            ≠ GeneratorInternalVariableType.UNKNOWN
          ∧ (ComputedTwice.prePassed.internalVariable q).mType
            ≠ GeneratorInternalVariableType.SHOULD_BE_STATE)
    ∧ (∃ g2, analyseModel ComputedTwice.model DependentEqns.numerics.isOne
          ComputedTwice.generator = some g2
      ∧ processModel ComputedTwice.model DependentEqns.numerics ComputedTwice.generator
          = some g2
      ∧ (g2.internalVariable 0).mType = GeneratorInternalVariableType.OVERCONSTRAINED
      ∧ g2.errors = [invalidVariableIssue g2 0]
      ∧ (∀ v, (g2.internalVariable 0).mVariable = some v →
          invalidVariableIssue g2 0
            = "Variable '" ++ v.name ++ "' in component '" ++ v.parent
              ++ "' is computed more than once.")
      ∧ g2.mModelType = ModelType.OVERCONSTRAINED)
    ∧ analyseModel ComputedTwice.model DependentEqns.numerics.isOne ComputedTwice.generator
        = some ComputedTwice.analysed
    ∧ ComputedTwice.analysed.errors
        = ["Variable 'x' in component 'main' is computed more than once."] :=
  ⟨by decide,
    processModel_equations_for_one_variable ComputedTwice.model DependentEqns.numerics
      ComputedTwice.generator ComputedTwice.prePassed 0 (by decide) (by decide) (by decide)
      (by decide) (by decide) (by decide) (by decide) (by decide) (by decide),
    by decide, by decide⟩

/-! ## C30: the equations that are state/rate based -/

/-- The effect of `check` on the flags of an equation: the equation is left
as it is, or it is the equation `self`, which had no order, and its flags,
its dependencies and the references that it tracks are those that
`updateTracking` computes. -/
theorem check_equation_flags (hEq : Variable → Variable → Bool) (g : GeneratorImpl)
    (self : Nat) (c : Counters) (e : Nat) :
    (check hEq g self c).1.equation e = g.equation e
    ∨ (e = self ∧ (g.equation self).mOrder = MAX_SIZE_T
      ∧ isOverconstraint g (g.equation self) = false
      ∧ ((check hEq g self c).1.equation e).mIsStateRateBased
          = (updateTracking g (g.equation self)).mIsStateRateBased
      ∧ ((check hEq g self c).1.equation e).mDependencies
          = (updateTracking g (g.equation self)).mDependencies
      ∧ ((check hEq g self c).1.equation e).mComputedTrueConstant
          = (updateTracking g (g.equation self)).mComputedTrueConstant
      ∧ ((check hEq g self c).1.equation e).mComputedVariableBasedConstant
          = (updateTracking g (g.equation self)).mComputedVariableBasedConstant
      ∧ ((check hEq g self c).1.equation e).mVariables
          = (updateTracking g (g.equation self)).mVariables
      ∧ ((check hEq g self c).1.equation e).mOdeVariables
          = (updateTracking g (g.equation self)).mOdeVariables) := by
  apply check_elim hEq g self c (fun r =>
    r.1.equation e = g.equation e
    ∨ (e = self ∧ (g.equation self).mOrder = MAX_SIZE_T
      ∧ isOverconstraint g (g.equation self) = false
      ∧ (r.1.equation e).mIsStateRateBased
          = (updateTracking g (g.equation self)).mIsStateRateBased
      ∧ (r.1.equation e).mDependencies = (updateTracking g (g.equation self)).mDependencies
      ∧ (r.1.equation e).mComputedTrueConstant
          = (updateTracking g (g.equation self)).mComputedTrueConstant
      ∧ (r.1.equation e).mComputedVariableBasedConstant
          = (updateTracking g (g.equation self)).mComputedVariableBasedConstant
      ∧ (r.1.equation e).mVariables = (updateTracking g (g.equation self)).mVariables
      ∧ (r.1.equation e).mOdeVariables = (updateTracking g (g.equation self)).mOdeVariables))
  · intro _; exact Or.inl rfl
  · intro _ _; exact Or.inl rfl
  · intro c1 c2 _
    rw [GeneratorImpl.equation_setEquation]
    split_ifs with hc
    · obtain ⟨rfl, _⟩ := hc
      exact Or.inr ⟨rfl, c1, c2, rfl, rfl, rfl, rfl, rfl, rfl⟩
    · exact Or.inl rfl
  · intro c1 c2 _ _
    rw [GeneratorImpl.equation_setEquation]
    split_ifs with hc
    · obtain ⟨rfl, _⟩ := hc
      exact Or.inr ⟨rfl, c1, c2, rfl, rfl, rfl, rfl, rfl, rfl⟩
    · exact Or.inl rfl
  · intro c1 c2 _ _
    unfold checkResolved
    dsimp only
    rw [GeneratorImpl.equation_setEquation]
    split_ifs with hc
    · obtain ⟨rfl, _⟩ := hc
      exact Or.inr ⟨rfl, c1, c2, rfl, rfl, rfl, rfl, rfl, rfl⟩
    · exact Or.inl rfl

/-- The flag that the loop of `check` over the known variables computes: it
stays set, and it is set when the equation of a known variable is flagged. -/
theorem checkDependencies_fst (g : GeneratorImpl) :
    ∀ (vs : List Nat) (b : Bool) (ds : List Nat),
      (b = true → (checkDependencies g vs b ds).1 = true)
      ∧ ∀ v ∈ vs, knownVariable g v = true → ∀ d, (g.internalVariable v).mEquation = some d →
          (g.equation d).mIsStateRateBased = true → (checkDependencies g vs b ds).1 = true
  | [], _, _ => ⟨fun h => h, fun _ hv => absurd hv (List.not_mem_nil _)⟩
  | v :: vs, b, ds => by
    unfold checkDependencies
    by_cases hk : knownVariable g v = true
    · rw [if_pos hk]
      dsimp only
      refine ⟨fun hb => ?_, fun w hw hkw d hd hf => ?_⟩
      · apply (checkDependencies_fst g vs _ _).1
        rw [hb]; rfl
      · rcases List.mem_cons.1 hw with rfl | hw'
        · apply (checkDependencies_fst g vs _ _).1
          rw [hd]
          cases b
          · simpa using hf
          · rfl
        · exact (checkDependencies_fst g vs _ _).2 w hw' hkw d hd hf
    · rw [if_neg hk]
      refine ⟨(checkDependencies_fst g vs b ds).1, fun w hw hkw d hd hf => ?_⟩
      rcases List.mem_cons.1 hw with rfl | hw'
      · exact absurd hkw hk
      · exact (checkDependencies_fst g vs b ds).2 w hw' hkw d hd hf

theorem updateTracking_rate (g : GeneratorImpl) (this : GeneratorEquation) :
    (this.mIsStateRateBased = true → (updateTracking g this).mIsStateRateBased = true)
    ∧ (this.mOdeVariables ≠ [] → (updateTracking g this).mIsStateRateBased = true)
    ∧ ∀ d ∈ knownEquations g this.mVariables, (g.equation d).mIsStateRateBased = true →
        (updateTracking g this).mIsStateRateBased = true := by
  have hf := checkDependencies_fst g this.mVariables
    (if !this.mIsStateRateBased then !this.mOdeVariables.isEmpty else this.mIsStateRateBased)
    this.mDependencies
  refine ⟨fun h => ?_, fun h => ?_, fun d hd hflag => ?_⟩
  · apply hf.1
    rw [h]; rfl
  · apply hf.1
    cases hb : this.mIsStateRateBased
    · simp only [Bool.not_false, if_true, Bool.not_eq_true', List.isEmpty_eq_false]
      cases ho : this.mOdeVariables with
      | nil => exact absurd ho h
      | cons a l => exact List.cons_ne_nil a l
    · rfl
  · obtain ⟨v, hv, hk, he⟩ := (mem_knownEquations g _ d).1 hd
    exact hf.2 v hv hk d he hflag

/-- The step of `check` keeps the invariant on the flag. -/
theorem check_rateInv (hEq : Variable → Variable → Bool) (g0 g : GeneratorImpl) (self : Nat)
    (c : Counters) (ho : OrderInv g c) (h : RateInv g0 g) :
    RateInv g0 (check hEq g self c).1 := by
  have hd : ∀ d, (g.equation d).mOrder ≠ MAX_SIZE_T →
      (check hEq g self c).1.equation d = g.equation d :=
    fun d hd => check_keeps_ordered hEq g self c d hd
  have hU := updateTracking_rate g (g.equation self)
  refine ⟨fun e he => ?_, fun e d hmem hflag => ?_⟩
  · rcases check_equation_flags hEq g self c e with h1 | ⟨rfl, h1, _, h2, _, _, _, _, _⟩
    · rw [h1]; exact h.direct e he
    · left
      rw [h2]
      rcases h.direct e he with h3 | ⟨_, h3⟩
      · exact hU.1 h3
      · exact hU.2.1 h3
  · rcases check_equation_flags hEq g self c e with h1 | ⟨rfl, h1, _, h2, h3, _, _, _, _⟩
    · rw [h1] at hmem ⊢
      have hdo := (ho.deps e d hmem).1
      rw [hd d hdo] at hflag
      exact h.inherited e d hmem hflag
    · rw [h2]
      rw [h3, updateTracking_dependencies, List.mem_append] at hmem
      rcases hmem with hmem | hmem
      · have hdo := (ho.deps e d hmem).1
        rw [hd d hdo] at hflag
        exact hU.1 (h.inherited e d hmem hflag)
      · obtain ⟨v, _, _, hv⟩ := (mem_knownEquations g _ d).1 hmem
        have hdo := ho.computes v d hv
        rw [hd d hdo] at hflag
        exact hU.2.2 d hmem hflag

/-- C30: for a generator `g` as the processing of the components leaves it,
pre-passed into `g1`, and the generator `g3` that `processModel` returns,
every equation that has an order is marked as state/rate based if it
contains a differentiated reference, or if at least one equation of its list
of dependencies is so marked. -/
theorem processModel_state_rate_based {F : Type} (m : Model) (num : Numerics F)
    (g g1 g3 : GeneratorImpl)
    (hb : Built g) (hpre : prePass m num.isOne (resetResults g) = some g1)
    (h : processModel m num g = some g3) :
    ∀ e, (g3.equation e).mOrder ≠ MAX_SIZE_T →
      (g.equation e).mOdeVariables ≠ []
        ∨ (∃ d ∈ (g3.equation e).mDependencies, (g3.equation d).mIsStateRateBased = true) →
      (g3.equation e).mIsStateRateBased = true := by
  intro e he hyp
  unfold processModel at h
  simp only [Option.bind_eq_some] at h
  obtain ⟨g2, h2, h3⟩ := h
  obtain ⟨hfield, _, _⟩ := finaliseModel_fields m num g2 g3 h3
  rw [(hfield e).1] at he
  rw [(hfield e).2.2.2.2.1]
  have hyp2 : (g.equation e).mOdeVariables ≠ []
      ∨ (∃ d ∈ (g2.equation e).mDependencies, (g2.equation d).mIsStateRateBased = true) := by
    rcases hyp with h4 | ⟨d, hd, hf⟩
    · exact Or.inl h4
    · exact Or.inr ⟨d, by rw [← (hfield e).2.1]; exact hd, by
        rw [← (hfield d).2.2.2.2.1]; exact hf⟩
  clear hyp
  obtain ⟨g1', hpre', hcase⟩ := analyseModel_cases m num.isOne g g2 h2
  rw [hpre] at hpre'
  simp only [Option.some.injEq] at hpre'
  subst hpre'
  have hpf := prePass_frame m num.isOne _ _ hpre
  rcases hcase with ⟨_, rfl⟩ | ⟨_, r, hr, rfl⟩
  · exfalso
    have : ({ g1 with mModelType := ModelType.INVALID } : GeneratorImpl).equation e
        = g.equation e := by
      unfold GeneratorImpl.equation
      rw [hpf.2.2.1]; rfl
    rw [this] at he
    exact he (hb.equation_fresh e).1
  · have hf := enterResolution_frame g1
    have hstore : (enterResolution g1).1.equationStore = g.equationStore := by
      rw [hf.2.2.2.1, hpf.2.2.1]; rfl
    have heq0 : ∀ d, (enterResolution g1).1.equation d = g.equation d := by
      intro d; unfold GeneratorImpl.equation; rw [hstore]
    have hinit : RateInv (enterResolution g1).1 (enterResolution g1).1 := by
      refine ⟨fun d hd => Or.inr ⟨?_, hd⟩, fun d d' hmem _ => ?_⟩
      · rw [heq0]; exact (hb.equation_fresh d).1
      · rw [heq0, (hb.equation_fresh d).2.1] at hmem
        cases hmem
    have hinv := resolveEquations_invariant m.hasEquivalentVariable
      (fun g c => OrderInv g c ∧ RateInv (enterResolution g1).1 g)
      (fun g c self hs hi => ⟨check_orderInv _ g self c hs hi.1,
        check_rateInv _ _ g self c hi.1 hi.2⟩) _ _ _ r
      ⟨enterResolution_orderInv m num.isOne g g1 hb hpre, hinit⟩ hr
    have hrep := reportInvalidVariables_frame r.1.mInternalVariables r.1
    have hdet := determineModelType_frame (reportInvalidVariables r.1.mInternalVariables r.1)
    have hst : ∀ d, (determineModelType
        (reportInvalidVariables r.1.mInternalVariables r.1)).equation d = r.1.equation d := by
      intro d
      unfold GeneratorImpl.equation
      rw [hdet.2.2.2.2, hrep.2.2.2.2.2]
    rw [hst] at he ⊢
    rcases hyp2 with h4 | ⟨d, hd, hflag⟩
    · rcases hinv.2.direct e (by rw [heq0]; exact h4) with h5 | ⟨h5, _⟩
      · exact h5
      · exact absurd h5 he
    · rw [hst] at hd hflag
      exact hinv.2.inherited e d hd hflag

/-- C30, at the model of the equations `dx/dtime = a`, `a = k*x` and `k = 2`:
the hypotheses hold, and so does the conclusion. -/
theorem processModel_state_rate_based_witness :
    (Built StateBased.generator
      ∧ prePass StateBased.model DependentEqns.numerics.isOne
          (resetResults StateBased.generator) = some StateBased.prePassed
      ∧ processModel StateBased.model DependentEqns.numerics StateBased.generator
          = some StateBased.processed)
    ∧ ∀ e, (StateBased.processed.equation e).mOrder ≠ MAX_SIZE_T →
      (StateBased.generator.equation e).mOdeVariables ≠ []
        ∨ (∃ d ∈ (StateBased.processed.equation e).mDependencies,
            (StateBased.processed.equation d).mIsStateRateBased = true) →
      (StateBased.processed.equation e).mIsStateRateBased = true :=
  ⟨by decide,
    processModel_state_rate_based StateBased.model DependentEqns.numerics
      StateBased.generator StateBased.prePassed StateBased.processed
      (by decide) (by decide) (by decide)⟩

/-! ## C29: the tag that the resolution gives to a variable -/

theorem containsNonUnknownVariables_eq_false (g : GeneratorImpl) (vs : List Nat) :
    containsNonUnknownVariables g vs = false ↔
      ∀ v ∈ vs, (g.internalVariable v).mType = GeneratorInternalVariableType.UNKNOWN := by
  unfold containsNonUnknownVariables
  rw [List.any_eq_false]
  simp

theorem containsNonConstantVariables_eq_false (g : GeneratorImpl) (vs : List Nat) :
    containsNonConstantVariables g vs = false ↔
      ∀ v ∈ vs, isNonConstantTag (g.internalVariable v).mType = false := by
  unfold containsNonConstantVariables
  rw [List.any_eq_false]
  refine forall_congr' fun v => forall_congr' fun _ => ?_
  cases (g.internalVariable v).mType <;> simp [isNonConstantTag, isConstantTag]

theorem updateTracking_flags (g : GeneratorImpl) (this : GeneratorEquation) :
    ((updateTracking g this).mComputedTrueConstant = true ↔
      this.mComputedTrueConstant = true
      ∧ (∀ v ∈ this.mVariables ++ this.mOdeVariables,
          (g.internalVariable v).mType = GeneratorInternalVariableType.UNKNOWN))
    ∧ ((updateTracking g this).mComputedVariableBasedConstant = true ↔
      this.mComputedVariableBasedConstant = true
      ∧ (∀ v ∈ this.mVariables ++ this.mOdeVariables,
          isNonConstantTag (g.internalVariable v).mType = false)) := by
  constructor
  · show (this.mComputedTrueConstant && !containsNonUnknownVariables g this.mVariables
        && !containsNonUnknownVariables g this.mOdeVariables) = true ↔ _
    simp only [Bool.and_eq_true, Bool.not_eq_true', containsNonUnknownVariables_eq_false,
      List.mem_append, and_assoc]
    constructor
    · rintro ⟨h1, h2, h3⟩
      exact ⟨h1, fun v hv => hv.elim (h2 v) (h3 v)⟩
    · rintro ⟨h1, h2⟩
      exact ⟨h1, fun v hv => h2 v (Or.inl hv), fun v hv => h2 v (Or.inr hv)⟩
  · show (this.mComputedVariableBasedConstant && !containsNonConstantVariables g this.mVariables
        && !containsNonConstantVariables g this.mOdeVariables) = true ↔ _
    simp only [Bool.and_eq_true, Bool.not_eq_true', containsNonConstantVariables_eq_false,
      List.mem_append, and_assoc]
    constructor
    · rintro ⟨h1, h2, h3⟩
      exact ⟨h1, fun v hv => hv.elim (h2 v) (h3 v)⟩
    · rintro ⟨h1, h2⟩
      exact ⟨h1, fun v hv => h2 v (Or.inl hv), fun v hv => h2 v (Or.inr hv)⟩

/-- The tag of a record that is not `UNKNOWN` is left as it is by `check`,
or becomes `OVERCONSTRAINED`. -/
theorem check_type_of_known (hEq : Variable → Variable → Bool) (g : GeneratorImpl)
    (self : Nat) (c : Counters) (q : Nat)
    (h : (g.internalVariable q).mType ≠ GeneratorInternalVariableType.UNKNOWN) :
    ((check hEq g self c).1.internalVariable q).mType = (g.internalVariable q).mType
    ∨ ((check hEq g self c).1.internalVariable q).mType
        = GeneratorInternalVariableType.OVERCONSTRAINED := by
  rcases check_record hEq g self c q with ⟨_, _, h3⟩ | ⟨_, hq, _, _, ht⟩
  · exact h3.imp id fun x => x.1
  · left
    rw [ht]
    unfold resolvedType
    rw [(updateVariable_fields hEq _ _).2.2, ← hq, if_neg h]

/-- The index of a record and the tags `UNKNOWN` and `SHOULD_BE_STATE`, after
a `check`. -/
theorem check_indexed (hEq : Variable → Variable → Bool) (g : GeneratorImpl)
    (self : Nat) (c : Counters)
    (h : ∀ p, (g.internalVariable p).mIndex ≠ MAX_SIZE_T →
      (g.internalVariable p).mType ≠ GeneratorInternalVariableType.UNKNOWN
      ∧ (g.internalVariable p).mType ≠ GeneratorInternalVariableType.SHOULD_BE_STATE) (p : Nat)
    (hp : ((check hEq g self c).1.internalVariable p).mIndex ≠ MAX_SIZE_T) :
    ((check hEq g self c).1.internalVariable p).mType ≠ GeneratorInternalVariableType.UNKNOWN
    ∧ ((check hEq g self c).1.internalVariable p).mType
        ≠ GeneratorInternalVariableType.SHOULD_BE_STATE := by
  rcases check_record hEq g self c p with ⟨_, h2, h3⟩ | ⟨hr, _, _, _, ht⟩
  · rw [h2] at hp
    rcases h3 with h3 | ⟨h3, _⟩
    · rw [h3]; exact h p hp
    · rw [h3]; exact ⟨by decide, by decide⟩
  · rw [ht]
    have hc := (check_true_facts hEq g self c hr).2.1
    rw [isComputable_iff] at hc
    rcases hc with h4 | h4 | h4 | h4 <;> rw [h4] <;> exact ⟨by decide, by decide⟩

theorem known_tag (g : GeneratorImpl)
    (h : ∀ p, (g.internalVariable p).mIndex ≠ MAX_SIZE_T →
      (g.internalVariable p).mType ≠ GeneratorInternalVariableType.UNKNOWN
      ∧ (g.internalVariable p).mType ≠ GeneratorInternalVariableType.SHOULD_BE_STATE) (v : Nat)
    (hk : knownVariable g v = true ∨ knownOdeVariable g v = true) :
    (g.internalVariable v).mType ≠ GeneratorInternalVariableType.UNKNOWN
    ∧ (g.internalVariable v).mType ≠ GeneratorInternalVariableType.SHOULD_BE_STATE := by
  rcases hk with hk | hk
  · rw [knownVariable_iff] at hk
    rcases hk with hk | hk | hk | hk | hk | hk
    · exact h v hk
    all_goals rw [hk]; exact ⟨by decide, by decide⟩
  · rw [knownOdeVariable_iff] at hk
    rcases hk with hk | hk
    · exact h v hk
    · rw [hk]; exact ⟨by decide, by decide⟩

/-- The record that a relevant `check` resolves, when it is a record of the
store: its tag is the resolved type. -/
theorem check_true_record (hEq : Variable → Variable → Bool) (g : GeneratorImpl)
    (self : Nat) (c : Counters) (hr : (check hEq g self c).2.2 = true)
    (hp : soleVariable (updateTracking g (g.equation self)) < g.variableStore.length) :
    ((check hEq g self c).1.internalVariable
        (soleVariable (updateTracking g (g.equation self)))).mType = resolvedType hEq g self := by
  rw [check_result_iff hEq g self c hr]
  unfold checkResolved
  dsimp only
  rw [GeneratorImpl.internalVariable_setEquation,
    GeneratorImpl.internalVariable_setInternalVariable, if_pos ⟨rfl, hp⟩]
  rfl

theorem isConstantTag_of_not_nonConstant (t : GeneratorInternalVariableType)
    (h1 : t ≠ GeneratorInternalVariableType.UNKNOWN) (h2 : isNonConstantTag t = false) :
    isConstantTag t = true := by
  cases t <;> simp_all [isNonConstantTag, isConstantTag]

theorem isNonConstantTag_ne_unknown (t : GeneratorInternalVariableType)
    (h : isNonConstantTag t = true) : t ≠ GeneratorInternalVariableType.UNKNOWN := by
  cases t <;> simp_all [isNonConstantTag]

/-- The variable that a relevant `check` resolves was tagged `UNKNOWN` when
the loop was entered only if it is still tagged so. -/
theorem check_true_sole_unknown (hEq : Variable → Variable → Bool) (g0 g : GeneratorImpl)
    (self : Nat) (c : Counters) (hk : KnowInv g0 g c)
    (hr : (check hEq g self c).2.2 = true)
    (h0 : (g0.internalVariable (soleVariable (updateTracking g (g.equation self)))).mType
      = GeneratorInternalVariableType.UNKNOWN) :
    (g.internalVariable (soleVariable (updateTracking g (g.equation self)))).mType
      = GeneratorInternalVariableType.UNKNOWN := by
  have hidx := check_true_sole_index hEq g self c hr
  have hnone : (g.internalVariable (soleVariable (updateTracking g (g.equation self)))).mEquation
      = none := by
    rcases hq : (g.internalVariable
      (soleVariable (updateTracking g (g.equation self)))).mEquation with _ | d
    · rfl
    · exact absurd hidx (hk.computed _ d hq).2.1
  obtain ⟨h1, h2⟩ := hk.untouched _ hnone
  rcases h2 with h2 | ⟨_, h2⟩
  · rw [h2]; exact h0
  · rw [← h1] at h2; exact absurd hidx h2

/-- The step of `check` keeps the invariant on the flags. -/
theorem check_flagInv (hEq : Variable → Variable → Bool) (g0 g : GeneratorImpl) (self : Nat)
    (c : Counters) (hk : KnowInv g0 g c) (h : FlagInv g0 g) :
    FlagInv g0 (check hEq g self c).1 := by
  have hT := fun q => check_type_of_known hEq g self c q
  have hlen := (check_storeLength hEq g self c).2
  have hknown := known_tag g h.indexed
  have hCU : ∀ q, (g.internalVariable q).mType ≠ GeneratorInternalVariableType.UNKNOWN →
      ((check hEq g self c).1.internalVariable q).mType
        ≠ GeneratorInternalVariableType.UNKNOWN := by
    intro q hq
    rcases hT q hq with h1 | h1 <;> rw [h1]
    · exact hq
    · decide
  have hCK : ∀ q, (isConstantTag (g.internalVariable q).mType = true
      ∨ (g.internalVariable q).mType = GeneratorInternalVariableType.OVERCONSTRAINED) →
      (isConstantTag ((check hEq g self c).1.internalVariable q).mType = true
      ∨ ((check hEq g self c).1.internalVariable q).mType
          = GeneratorInternalVariableType.OVERCONSTRAINED) := by
    intro q hq
    have hne : (g.internalVariable q).mType ≠ GeneratorInternalVariableType.UNKNOWN := by
      rcases hq with hq | hq
      · intro h1; rw [h1] at hq; cases hq
      · rw [hq]; decide
    rcases hT q hne with h1 | h1
    · rw [h1]; exact hq
    · exact Or.inr h1
  have hNC : ∀ q, isNonConstantTag (g.internalVariable q).mType = true →
      isNonConstantTag ((check hEq g self c).1.internalVariable q).mType = true
      ∧ (((check hEq g self c).1.internalVariable q).mType
            = GeneratorInternalVariableType.SHOULD_BE_STATE →
          (g.internalVariable q).mType = GeneratorInternalVariableType.SHOULD_BE_STATE) := by
    intro q hq
    rcases hT q (isNonConstantTag_ne_unknown _ hq) with h1 | h1 <;> rw [h1]
    · exact ⟨hq, fun h => h⟩
    · exact ⟨rfl, fun h => by cases h⟩
  -- the variables that `updateTracking` stops tracking are known
  have hfV : ∀ v ∈ (g.equation self).mVariables,
      v ∉ (updateTracking g (g.equation self)).mVariables → knownVariable g v = true := by
    intro v hv hn
    rw [(updateTracking_fields g (g.equation self)).2.2.2.2.1, List.mem_filter] at hn
    by_contra hkn
    exact hn ⟨hv, by simpa using hkn⟩
  have hfO : ∀ v ∈ (g.equation self).mOdeVariables,
      v ∉ (updateTracking g (g.equation self)).mOdeVariables → knownOdeVariable g v = true := by
    intro v hv hn
    rw [(updateTracking_fields g (g.equation self)).2.2.2.2.2, List.mem_filter] at hn
    by_contra hkn
    exact hn ⟨hv, by simpa using hkn⟩
  have hsV : ∀ v ∈ (updateTracking g (g.equation self)).mVariables,
      v ∈ (g.equation self).mVariables := by
    intro v hv
    rw [(updateTracking_fields g (g.equation self)).2.2.2.2.1] at hv
    exact (List.mem_filter.1 hv).1
  have hsO : ∀ v ∈ (updateTracking g (g.equation self)).mOdeVariables,
      v ∈ (g.equation self).mOdeVariables := by
    intro v hv
    rw [(updateTracking_fields g (g.equation self)).2.2.2.2.2] at hv
    exact (List.mem_filter.1 hv).1
  -- an equation that is given its order by this check
  have hnew : ∀ e p, ((check hEq g self c).1.equation e).mOrder ≠ MAX_SIZE_T →
      (g.equation e).mOrder = MAX_SIZE_T →
      ((check hEq g self c).1.equation e).mVariable = some p →
      e = self ∧ (check hEq g self c).2.2 = true
      ∧ p = soleVariable (updateTracking g (g.equation self))
      ∧ ((check hEq g self c).1.equation e).mType = equationTypeOf (resolvedType hEq g self) := by
    intro e p he1 he0 hp
    rcases check_equation hEq g self c e with h1 | ⟨h1, _, _, _, h2⟩
    · rw [h1] at he1; exact absurd he0 he1
    · rcases h2 with ⟨h2, _, _⟩ | ⟨h2, h3, h4⟩
      · exfalso
        rw [check_mOrder, if_neg (by rw [h2]; simp)] at he1
        exact he1 he0
      · rw [h3] at hp
        simp only [Option.some.injEq] at hp
        exact ⟨h1, h2, hp.symm, h4⟩
  have hsoleRef : (check hEq g self c).2.2 = true →
      soleVariable (updateTracking g (g.equation self)) ∈ referenceList g self := by
    intro hr
    unfold referenceList
    rw [List.mem_append]
    rcases soleVariable_mem _ (check_true_facts hEq g self c hr).1 with ⟨hm, _⟩ | ⟨hm, _⟩
    · exact Or.inl (hsV _ hm)
    · exact Or.inr (hsO _ hm)
  -- the witness of a flag that is lost is not the variable that is resolved
  have hwit : ∀ q, (g.internalVariable q).mType ≠ GeneratorInternalVariableType.UNKNOWN →
      ((check hEq g self c).1.equation self).mOrder ≠ MAX_SIZE_T →
      (g.equation self).mOrder = MAX_SIZE_T →
      ∀ p, ((check hEq g self c).1.equation self).mVariable = some p →
        (g0.internalVariable p).mType = GeneratorInternalVariableType.UNKNOWN → q ≠ p := by
    intro q hq he1 he0 p hp h0 hqp
    obtain ⟨_, hr, hps, _⟩ := hnew self p he1 he0 hp
    rw [hps] at h0
    have := check_true_sole_unknown hEq g0 g self c hk hr h0
    rw [← hps, ← hqp] at this
    exact hq this
  refine ⟨check_indexed hEq g self c h.indexed, ?_, ?_, ?_, ?_, ?_, ?_, ?_, ?_, ?_⟩
  · -- ranged
    intro e v hv
    rw [hlen]
    apply h.ranged e
    unfold referenceList at hv ⊢
    rcases check_equation_flags hEq g self c e with h1 | ⟨rfl, _, _, _, _, _, _, h2, h3⟩
    · rw [h1] at hv; exact hv
    · rw [h2, h3, List.mem_append] at hv
      exact List.mem_append.2 (hv.imp (hsV v) (hsO v))
  · -- subV
    intro e v hv
    rcases check_equation_flags hEq g self c e with h1 | ⟨rfl, _, _, _, _, _, _, h2, _⟩
    · rw [h1] at hv; exact h.subV e v hv
    · rw [h2] at hv; exact h.subV e v (hsV v hv)
  · -- subO
    intro e v hv
    rcases check_equation_flags hEq g self c e with h1 | ⟨rfl, _, _, _, _, _, _, _, h3⟩
    · rw [h1] at hv; exact h.subO e v hv
    · rw [h3] at hv; exact h.subO e v (hsO v hv)
  · -- trueKept
    intro e hf
    rcases check_equation_flags hEq g self c e with h1 | ⟨rfl, _, _, _, _, h2, _, h4, h5⟩
    · rw [h1] at hf ⊢; exact h.trueKept e hf
    · rw [h2, (updateTracking_flags g (g.equation e)).1] at hf
      obtain ⟨hf1, hf2⟩ := hf
      have hold := h.trueKept e hf1
      rw [h4, h5, (updateTracking_fields g (g.equation e)).2.2.2.2.1,
        (updateTracking_fields g (g.equation e)).2.2.2.2.2, ← hold.1, ← hold.2]
      constructor
      · rw [List.filter_eq_self]
        intro v hv
        by_contra hkn
        exact (hknown v (Or.inl (by simpa using hkn))).1
          (hf2 v (List.mem_append.2 (Or.inl hv)))
      · rw [List.filter_eq_self]
        intro v hv
        by_contra hkn
        exact (hknown v (Or.inr (by simpa using hkn))).1
          (hf2 v (List.mem_append.2 (Or.inr hv)))
  · -- trueLost
    intro e hf
    rcases check_equation_flags hEq g self c e with h1 | ⟨rfl, h0, _, _, _, h2, _, _, _⟩
    · rw [h1] at hf
      obtain ⟨q, hq, hq1, hq2⟩ := h.trueLost e hf
      refine ⟨q, hq, hCU q hq1, ?_⟩
      rw [h1]; exact hq2
    · have hcase : (g.equation e).mComputedTrueConstant = false
          ∨ ∃ v ∈ (g.equation e).mVariables ++ (g.equation e).mOdeVariables,
              (g.internalVariable v).mType ≠ GeneratorInternalVariableType.UNKNOWN := by
        by_contra hcon
        rw [not_or] at hcon
        have := (updateTracking_flags g (g.equation e)).1.2
          ⟨by simpa using hcon.1, fun v hv => by
            by_contra hne; exact hcon.2 ⟨v, hv, hne⟩⟩
        rw [← h2, hf] at this
        cases this
      have hw : ∃ q ∈ referenceList g0 e,
          (g.internalVariable q).mType ≠ GeneratorInternalVariableType.UNKNOWN := by
        rcases hcase with hc | ⟨v, hv, hv1⟩
        · obtain ⟨q, hq, hq1, _⟩ := h.trueLost e hc
          exact ⟨q, hq, hq1⟩
        · refine ⟨v, ?_, hv1⟩
          unfold referenceList
          rw [List.mem_append] at hv ⊢
          exact hv.imp (h.subV e v) (h.subO e v)
      obtain ⟨q, hq, hq1⟩ := hw
      exact ⟨q, hq, hCU q hq1, fun he1 p hp hp0 => hwit q hq1 he1 h0 p hp hp0⟩
  · -- basedKeptV
    intro e hf q hq hn
    rcases check_equation_flags hEq g self c e with h1 | ⟨rfl, _, _, _, _, _, h3, h4, _⟩
    · rw [h1] at hf hn
      exact hCK q (h.basedKeptV e hf q hq hn)
    · rw [h3, (updateTracking_flags g (g.equation e)).2] at hf
      rw [h4] at hn
      apply hCK
      by_cases hqt : q ∈ (g.equation e).mVariables
      · left
        exact isConstantTag_of_not_nonConstant _ (hknown q (Or.inl (hfV q hqt hn))).1
          (hf.2 q (List.mem_append.2 (Or.inl hqt)))
      · exact h.basedKeptV e hf.1 q hq hqt
  · -- basedKeptO
    intro e hf q hq hn
    rcases check_equation_flags hEq g self c e with h1 | ⟨rfl, _, _, _, _, _, h3, _, h5⟩
    · rw [h1] at hf hn
      exact hCK q (h.basedKeptO e hf q hq hn)
    · rw [h3, (updateTracking_flags g (g.equation e)).2] at hf
      rw [h5] at hn
      apply hCK
      by_cases hqt : q ∈ (g.equation e).mOdeVariables
      · left
        exact isConstantTag_of_not_nonConstant _ (hknown q (Or.inr (hfO q hqt hn))).1
          (hf.2 q (List.mem_append.2 (Or.inr hqt)))
      · exact h.basedKeptO e hf.1 q hq hqt
  · -- basedLost
    intro e hf
    rcases check_equation_flags hEq g self c e with h1 | ⟨rfl, h0, _, _, _, _, h3, h4, h5⟩
    · rw [h1] at hf
      obtain ⟨q, hq, hq1, hq2, hq3⟩ := h.basedLost e hf
      refine ⟨q, hq, (hNC q hq1).1, fun hs => ?_, ?_⟩
      · unfold referenceList
        rw [h1]
        exact hq2 ((hNC q hq1).2 hs)
      · rw [h1]; exact hq3
    · have hcase : (g.equation e).mComputedVariableBasedConstant = false
          ∨ ∃ v ∈ (g.equation e).mVariables ++ (g.equation e).mOdeVariables,
              isNonConstantTag (g.internalVariable v).mType = true := by
        by_contra hcon
        rw [not_or] at hcon
        have := (updateTracking_flags g (g.equation e)).2.2
          ⟨by simpa using hcon.1, fun v hv => by
            by_contra hne; exact hcon.2 ⟨v, hv, by simpa using hne⟩⟩
        rw [← h3, hf] at this
        cases this
      have hw : ∃ q ∈ referenceList g0 e,
          isNonConstantTag (g.internalVariable q).mType = true
          ∧ ((g.internalVariable q).mType = GeneratorInternalVariableType.SHOULD_BE_STATE →
              q ∈ referenceList g e) := by
        rcases hcase with hc | ⟨v, hv, hv1⟩
        · obtain ⟨q, hq, hq1, hq2, _⟩ := h.basedLost e hc
          exact ⟨q, hq, hq1, hq2⟩
        · refine ⟨v, ?_, hv1, fun _ => hv⟩
          unfold referenceList
          rw [List.mem_append] at hv ⊢
          exact hv.imp (h.subV e v) (h.subO e v)
      obtain ⟨q, hq, hq1, hq2⟩ := hw
      refine ⟨q, hq, (hNC q hq1).1, fun hs => ?_,
        fun he1 p hp hp0 => hwit q (isNonConstantTag_ne_unknown _ hq1) he1 h0 p hp hp0⟩
      have hs0 := (hNC q hq1).2 hs
      have hmem := hq2 hs0
      unfold referenceList at hmem ⊢
      rw [h4, h5, List.mem_append]
      rcases List.mem_append.1 hmem with hm | hm
      · left
        by_contra hn
        exact (hknown q (Or.inl (hfV q hm hn))).2 hs0
      · right
        by_contra hn
        exact (hknown q (Or.inr (hfO q hm hn))).2 hs0
  · -- solved
    intro e p he1 hp
    by_cases he0 : (g.equation e).mOrder = MAX_SIZE_T
    · obtain ⟨rfl, hr, rfl, hkind⟩ := hnew e p he1 he0 hp
      right
      have hrange : soleVariable (updateTracking g (g.equation e)) < g.variableStore.length :=
        h.ranged e _ (hsoleRef hr)
      rw [check_true_record hEq g e c hr hrange]
      refine ⟨hkind, (check_true_facts hEq g e c hr).2.1, fun h0 => ?_⟩
      have hu := check_true_sole_unknown hEq g0 g e c hk hr h0
      rcases check_equation_flags hEq g e c e with h1 | ⟨_, _, _, _, _, h2, h3, _, _⟩
      · rw [h1] at he1; exact absurd he0 he1
      · unfold resolvedType
        rw [(updateVariable_fields hEq _ _).2.2, if_pos hu]
        unfold computedType
        rw [h2, h3]
    · have hsame := check_keeps_ordered hEq g self c e he0
      rw [hsame] at hp ⊢
      rcases h.solved e p he0 hp with h1 | ⟨h1, h2, h3⟩
      · left
        rcases hT p (by rw [h1]; decide) with h4 | h4
        · rw [h4]; exact h1
        · exact h4
      · have hne : (g.internalVariable p).mType ≠ GeneratorInternalVariableType.UNKNOWN := by
          intro hu; rw [hu] at h2; cases h2
        rcases hT p hne with h4 | h4
        · right; rw [h4]; exact ⟨h1, h2, h3⟩
        · left; exact h4

/-! ## C29: the tag that the resolution gives to a variable, continued -/

/-- The invariant on the flags holds when the resolution loop is entered. -/
theorem enterResolution_flagInv (m : Model) (isOne : String → Bool) (g g1 : GeneratorImpl)
    (hb : Built g)
    (hflags : ∀ x ∈ g.equationStore,
      x.mComputedTrueConstant = true ∧ x.mComputedVariableBasedConstant = true)
    (hpre : prePass m isOne (resetResults g) = some g1)
    (hode : RatesTagged g g1)
    (hptr : ∀ x ∈ g.equationStore, ∀ v ∈ x.mVariables ++ x.mOdeVariables,
      v < g1.variableStore.length) :
    FlagInv (enterResolution g1).1 (enterResolution g1).1 := by
  obtain ⟨hE, heq0, _, _⟩ := enterResolution_entryFacts m isOne g g1 hb hpre
    (fun e => hode.equation_rates e)
  have hfl : ∀ e, (g.equation e).mComputedTrueConstant = true
      ∧ (g.equation e).mComputedVariableBasedConstant = true := by
    intro e
    rcases getD_mem_or_default g.equationStore e default with h1 | h1
    · exact hflags _ h1
    · unfold GeneratorImpl.equation
      rw [h1]
      exact ⟨rfl, rfl⟩
  refine ⟨fun p hp => ?_, fun e v hv => ?_, fun _ _ h => h, fun _ _ h => h,
    fun _ _ => ⟨rfl, rfl⟩, fun e hf => ?_, fun _ _ _ _ hn => ?_, fun _ _ _ _ hn => ?_,
    fun e hf => ?_, fun e p he => ?_⟩
  · rw [hE.index p hp]; exact ⟨by decide, by decide⟩
  · rw [(enterResolution_registry g1).1]
    unfold referenceList at hv
    rw [heq0] at hv
    rcases getD_mem_or_default g.equationStore e default with h1 | h1
    · exact hptr _ h1 v hv
    · unfold GeneratorImpl.equation at hv
      rw [h1] at hv
      cases hv
  · rw [heq0, (hfl e).1] at hf; cases hf
  · exact absurd ‹_› hn
  · exact absurd ‹_› hn
  · rw [heq0, (hfl e).2] at hf; cases hf
  · rw [heq0] at he; exact absurd (hb.equation_fresh e).1 he

/-- The three invariants of the resolution loop hold when the loop is left. -/
theorem resolveEquations_flagInv (m : Model) (isOne : String → Bool) (g g1 : GeneratorImpl)
    (hb : Built g)
    (hflags : ∀ x ∈ g.equationStore,
      x.mComputedTrueConstant = true ∧ x.mComputedVariableBasedConstant = true)
    (hpre : prePass m isOne (resetResults g) = some g1)
    (hode : RatesTagged g g1)
    (hptr : ∀ x ∈ g.equationStore, ∀ v ∈ x.mVariables ++ x.mOdeVariables,
      v < g1.variableStore.length)
    (hsize : g1.mInternalVariables.length + g.equationStore.length ≤ MAX_SIZE_T)
    (fuel : Nat) (r : GeneratorImpl × Counters)
    (hr : resolveEquations m.hasEquivalentVariable fuel (enterResolution g1).1
      (enterResolution g1).2 = some r) :
    OrderInv r.1 r.2 ∧ KnowInv (enterResolution g1).1 r.1 r.2
    ∧ FlagInv (enterResolution g1).1 r.1 := by
  have hE := (enterResolution_entryFacts m isOne g g1 hb hpre
    (fun e => hode.equation_rates e)).1
  exact resolveEquations_invariant m.hasEquivalentVariable
    (fun g c => OrderInv g c ∧ KnowInv (enterResolution g1).1 g c
      ∧ FlagInv (enterResolution g1).1 g)
    (fun g c self hs hi => ⟨check_orderInv _ g self c hs hi.1,
      check_knowInv _ _ g self c hE hi.1 hi.2.1, check_flagInv _ _ g self c hi.2.1 hi.2.2⟩)
    fuel _ _ r
    ⟨enterResolution_orderInv m isOne g g1 hb hpre,
      enterResolution_knowInv m isOne g g1 hb hpre hsize,
      enterResolution_flagInv m isOne g g1 hb hflags hpre hode hptr⟩ hr

theorem computedType_eq (this : GeneratorEquation) :
    (computedType this = GeneratorInternalVariableType.COMPUTED_TRUE_CONSTANT ↔
      this.mComputedTrueConstant = true)
    ∧ (computedType this = GeneratorInternalVariableType.COMPUTED_VARIABLE_BASED_CONSTANT ↔
      this.mComputedTrueConstant = false ∧ this.mComputedVariableBasedConstant = true)
    ∧ (computedType this = GeneratorInternalVariableType.ALGEBRAIC ↔
      this.mComputedTrueConstant = false ∧ this.mComputedVariableBasedConstant = false) := by
  unfold computedType
  cases this.mComputedTrueConstant <;> cases this.mComputedVariableBasedConstant <;> simp

/-- C29, amended.  For a generator `g` as the processing of the components
leaves it (the flags of its equations still set), pre-passed into `g1`, and
the generator `g2` at the end of the analysis of `processModel`: let the
equation `e` have an order and compute the record `p`, and let neither `p`
nor any record that `e` references be tagged `OVERCONSTRAINED`.  Then the
kind of `e` follows the tag of `p`: `RATE` for `STATE`, `TRUE_CONSTANT` for
`COMPUTED_TRUE_CONSTANT`, `VARIABLE_BASED_CONSTANT` for
`COMPUTED_VARIABLE_BASED_CONSTANT` and `ALGEBRAIC` for `ALGEBRAIC`.  When
the tag of `p` is given by the resolution (the pre-pass left it `UNKNOWN`),
it is `ALGEBRAIC` exactly when `e` references another record that is tagged
as the variable of integration, a state or an algebraic variable; it is
`COMPUTED_TRUE_CONSTANT` exactly when `e` references no other record; and it
is `COMPUTED_VARIABLE_BASED_CONSTANT` exactly when `e` references another
record and every other record that it references is tagged as a constant or
a computed constant. -/
theorem analyseModel_computed_tag (m : Model) (isOne : String → Bool) (g g1 g2 : GeneratorImpl)
    (e p : Nat)
    (hb : Built g)
    (hflags : ∀ x ∈ g.equationStore,
      x.mComputedTrueConstant = true ∧ x.mComputedVariableBasedConstant = true)
    (hpre : prePass m isOne (resetResults g) = some g1)
    (hode : RatesTagged g g1)
    (hptr : ∀ x ∈ g.equationStore, ∀ v ∈ x.mVariables ++ x.mOdeVariables,
      v < g1.variableStore.length)
    (hsize : g1.mInternalVariables.length + g.equationStore.length ≤ MAX_SIZE_T)
    (h : analyseModel m isOne g = some g2)
    (he : (g2.equation e).mOrder ≠ MAX_SIZE_T) (hp : (g2.equation e).mVariable = some p)
    (hclean : ∀ q ∈ p :: referenceList g e,
      (g2.internalVariable q).mType ≠ GeneratorInternalVariableType.OVERCONSTRAINED) :
    (((g2.internalVariable p).mType = GeneratorInternalVariableType.STATE
        ∧ (g2.equation e).mType = GeneratorEquationType.RATE)
      ∨ ((g2.internalVariable p).mType = GeneratorInternalVariableType.COMPUTED_TRUE_CONSTANT
        ∧ (g2.equation e).mType = GeneratorEquationType.TRUE_CONSTANT)
      ∨ ((g2.internalVariable p).mType
          = GeneratorInternalVariableType.COMPUTED_VARIABLE_BASED_CONSTANT
        ∧ (g2.equation e).mType = GeneratorEquationType.VARIABLE_BASED_CONSTANT)
      ∨ ((g2.internalVariable p).mType = GeneratorInternalVariableType.ALGEBRAIC
        ∧ (g2.equation e).mType = GeneratorEquationType.ALGEBRAIC))
    ∧ ((g1.internalVariable p).mType = GeneratorInternalVariableType.UNKNOWN →
      ((g2.internalVariable p).mType = GeneratorInternalVariableType.ALGEBRAIC ↔
        ∃ q ∈ referenceList g e, q ≠ p
          ∧ ((g2.internalVariable q).mType
              = GeneratorInternalVariableType.VARIABLE_OF_INTEGRATION
            ∨ (g2.internalVariable q).mType = GeneratorInternalVariableType.STATE
            ∨ (g2.internalVariable q).mType = GeneratorInternalVariableType.ALGEBRAIC))
      ∧ ((g2.internalVariable p).mType = GeneratorInternalVariableType.COMPUTED_TRUE_CONSTANT ↔
        ∀ q ∈ referenceList g e, q = p)
      ∧ ((g2.internalVariable p).mType
            = GeneratorInternalVariableType.COMPUTED_VARIABLE_BASED_CONSTANT ↔
        (∃ q ∈ referenceList g e, q ≠ p)
        ∧ ∀ q ∈ referenceList g e, q ≠ p →
            (g2.internalVariable q).mType = GeneratorInternalVariableType.CONSTANT
            ∨ (g2.internalVariable q).mType
                = GeneratorInternalVariableType.COMPUTED_TRUE_CONSTANT
            ∨ (g2.internalVariable q).mType
                = GeneratorInternalVariableType.COMPUTED_VARIABLE_BASED_CONSTANT)) := by
  obtain ⟨g1', hpre', hcase⟩ := analyseModel_cases m isOne g g2 h
  rw [hpre] at hpre'
  simp only [Option.some.injEq] at hpre'
  subst hpre'
  have hpf := prePass_frame m isOne _ _ hpre
  rcases hcase with ⟨_, rfl⟩ | ⟨_, r, hr, rfl⟩
  · exfalso
    have : ({ g1 with mModelType := ModelType.INVALID } : GeneratorImpl).equation e
        = g.equation e := by
      unfold GeneratorImpl.equation
      rw [hpf.2.2.1]; rfl
    rw [this] at he
    exact he (hb.equation_fresh e).1
  obtain ⟨_, hK, hF⟩ := resolveEquations_flagInv m isOne g g1 hb hflags hpre hode hptr hsize
    _ r hr
  obtain ⟨_, heq0, hty0, _⟩ := enterResolution_entryFacts m isOne g g1 hb hpre
    (fun e => hode.equation_rates e)
  have hrep := reportInvalidVariables_frame r.1.mInternalVariables r.1
  have hdet := determineModelType_frame (reportInvalidVariables r.1.mInternalVariables r.1)
  have hst : ∀ d, (determineModelType
      (reportInvalidVariables r.1.mInternalVariables r.1)).equation d = r.1.equation d := by
    intro d
    unfold GeneratorImpl.equation
    rw [hdet.2.2.2.2, hrep.2.2.2.2.2]
  have hrec : ∀ q, (determineModelType
      (reportInvalidVariables r.1.mInternalVariables r.1)).internalVariable q
      = r.1.internalVariable q := by
    intro q
    unfold GeneratorImpl.internalVariable
    rw [hdet.2.2.2.1, hrep.2.2.2.2.1]
  simp only [hst, hrec] at he hp hclean ⊢
  have hR : referenceList g e = referenceList (enterResolution g1).1 e := by
    unfold referenceList; rw [heq0]
  rw [hR] at hclean ⊢
  generalize (enterResolution g1).1 = g0 at hK hF hty0 hclean ⊢
  -- what is tracked when the loop is left
  obtain ⟨p', hp', hsv, hso⟩ := hK.sole e he
  rw [hp] at hp'
  simp only [Option.some.injEq] at hp'
  subst hp'
  have hpc := hclean p (List.mem_cons_self _ _)
  have hqc : ∀ q ∈ referenceList g0 e,
      (r.1.internalVariable q).mType ≠ GeneratorInternalVariableType.OVERCONSTRAINED :=
    fun q hq => hclean q (List.mem_cons_of_mem _ hq)
  have hremoved : ∀ q ∈ referenceList g0 e, q ≠ p →
      (q ∈ (g0.equation e).mVariables ∧ q ∉ (r.1.equation e).mVariables)
      ∨ (q ∈ (g0.equation e).mOdeVariables ∧ q ∉ (r.1.equation e).mOdeVariables) := by
    intro q hq hne
    unfold referenceList at hq
    rcases List.mem_append.1 hq with hq | hq
    · exact Or.inl ⟨hq, fun h1 => hne (hsv q h1)⟩
    · exact Or.inr ⟨hq, fun h1 => hne (hso q h1)⟩
  have hconst : ∀ q ∈ referenceList g0 e, q ≠ p →
      (r.1.equation e).mComputedVariableBasedConstant = true →
      isConstantTag (r.1.internalVariable q).mType = true := by
    intro q hq hne hf
    rcases hremoved q hq hne with ⟨h1, h2⟩ | ⟨h1, h2⟩
    · exact (hF.basedKeptV e hf q h1 h2).resolve_right (hqc q hq)
    · exact (hF.basedKeptO e hf q h1 h2).resolve_right (hqc q hq)
  have hother : (∃ q ∈ referenceList g0 e, q ≠ p) →
      (r.1.equation e).mComputedTrueConstant = false := by
    rintro ⟨q, hq, hne⟩
    by_contra hf
    have hkept := hF.trueKept e (by simpa using hf)
    rcases hremoved q hq hne with ⟨h1, h2⟩ | ⟨h1, h2⟩
    · exact h2 (by rw [hkept.1]; exact h1)
    · exact h2 (by rw [hkept.2]; exact h1)
  rcases hF.solved e p he hp with hs | ⟨hkind, hcomp, htag⟩
  · exact absurd hs hpc
  constructor
  · rw [isComputable_iff] at hcomp
    rcases hcomp with h1 | h1 | h1 | h1
    · exact Or.inl ⟨h1, by rw [hkind, h1]; rfl⟩
    · exact Or.inr (Or.inl ⟨h1, by rw [hkind, h1]; rfl⟩)
    · exact Or.inr (Or.inr (Or.inl ⟨h1, by rw [hkind, h1]; rfl⟩))
    · exact Or.inr (Or.inr (Or.inr ⟨h1, by rw [hkind, h1]; rfl⟩))
  · intro hunk
    have h0 : (g0.internalVariable p).mType = GeneratorInternalVariableType.UNKNOWN := by
      rw [hty0]; exact hunk
    have htp := htag h0
    rw [htp]
    obtain ⟨c1, c2, c3⟩ := computedType_eq (r.1.equation e)
    refine ⟨?_, ?_, ?_⟩
    · rw [c3]
      constructor
      · rintro ⟨_, hf⟩
        obtain ⟨q, hq, hq1, hq2, hq3⟩ := hF.basedLost e hf
        have hne := hq3 he p hp h0
        refine ⟨q, hq, hne, ?_⟩
        have hnover := hqc q hq
        have hnsbs : (r.1.internalVariable q).mType
            ≠ GeneratorInternalVariableType.SHOULD_BE_STATE := by
          intro hs
          have := hq2 hs
          unfold referenceList at this
          rcases List.mem_append.1 this with h1 | h1
          · exact hne (hsv q h1)
          · exact hne (hso q h1)
        revert hq1 hnover hnsbs
        cases (r.1.internalVariable q).mType <;> simp [isNonConstantTag, isConstantTag]
      · rintro ⟨q, hq, hne, hq1⟩
        refine ⟨hother ⟨q, hq, hne⟩, ?_⟩
        by_contra hf
        have := hconst q hq hne (by simpa using hf)
        rcases hq1 with h1 | h1 | h1 <;> rw [h1] at this <;> cases this
    · rw [c1]
      constructor
      · intro hf q hq
        by_contra hne
        rw [hother ⟨q, hq, hne⟩] at hf
        cases hf
      · intro hall
        by_contra hf
        obtain ⟨q, hq, _, hq2⟩ := hF.trueLost e (by simpa using hf)
        exact hq2 he p hp h0 (hall q hq)
    · rw [c2]
      constructor
      · rintro ⟨hf1, hf2⟩
        obtain ⟨q, hq, _, hq2⟩ := hF.trueLost e hf1
        refine ⟨⟨q, hq, hq2 he p hp h0⟩, fun q' hq' hne' => ?_⟩
        have := hconst q' hq' hne' hf2
        revert this
        cases (r.1.internalVariable q').mType <;> simp [isConstantTag]
      · rintro ⟨hex, hall⟩
        refine ⟨hother hex, ?_⟩
        by_contra hf
        obtain ⟨q, hq, hq1, _, hq3⟩ := hF.basedLost e (by simpa using hf)
        have hne := hq3 he p hp h0
        rcases hall q hq hne with h1 | h1 | h1 <;> rw [h1] at hq1 <;> cases hq1

/-- C29, amended, at the model of the equations `dx/dtime = a`, `a = k*x` and
`k = 2`, for the equation `a = k*x`, which computes `a`: the hypotheses hold,
and so does the conclusion (`a` is `ALGEBRAIC`, and the equation references
the state `x`). -/
theorem analyseModel_computed_tag_witness :
    (Built StateBased.generator
      ∧ (∀ x ∈ StateBased.generator.equationStore,
          x.mComputedTrueConstant = true ∧ x.mComputedVariableBasedConstant = true)
      ∧ prePass StateBased.model DependentEqns.numerics.isOne
          (resetResults StateBased.generator) = some StateBased.prePassed
      ∧ RatesTagged StateBased.generator StateBased.prePassed
      ∧ (∀ x ∈ StateBased.generator.equationStore, ∀ v ∈ x.mVariables ++ x.mOdeVariables,
          v < StateBased.prePassed.variableStore.length)
      ∧ StateBased.prePassed.mInternalVariables.length
          + StateBased.generator.equationStore.length ≤ MAX_SIZE_T
      ∧ analyseModel StateBased.model DependentEqns.numerics.isOne StateBased.generator
          = some StateBased.analysed
      ∧ (StateBased.analysed.equation 1).mOrder ≠ MAX_SIZE_T
      ∧ (StateBased.analysed.equation 1).mVariable = some 1
      ∧ ∀ q ∈ 1 :: referenceList StateBased.generator 1,
          (StateBased.analysed.internalVariable q).mType
            ≠ GeneratorInternalVariableType.OVERCONSTRAINED)
    ∧ (((StateBased.analysed.internalVariable 1).mType = GeneratorInternalVariableType.STATE
        ∧ (StateBased.analysed.equation 1).mType = GeneratorEquationType.RATE)
      ∨ ((StateBased.analysed.internalVariable 1).mType
          = GeneratorInternalVariableType.COMPUTED_TRUE_CONSTANT
        ∧ (StateBased.analysed.equation 1).mType = GeneratorEquationType.TRUE_CONSTANT)
      ∨ ((StateBased.analysed.internalVariable 1).mType
          = GeneratorInternalVariableType.COMPUTED_VARIABLE_BASED_CONSTANT
        ∧ (StateBased.analysed.equation 1).mType = GeneratorEquationType.VARIABLE_BASED_CONSTANT)
      ∨ ((StateBased.analysed.internalVariable 1).mType = GeneratorInternalVariableType.ALGEBRAIC
        ∧ (StateBased.analysed.equation 1).mType = GeneratorEquationType.ALGEBRAIC))
    ∧ ((StateBased.prePassed.internalVariable 1).mType = GeneratorInternalVariableType.UNKNOWN →
      ((StateBased.analysed.internalVariable 1).mType = GeneratorInternalVariableType.ALGEBRAIC ↔
        ∃ q ∈ referenceList StateBased.generator 1, q ≠ 1
          ∧ ((StateBased.analysed.internalVariable q).mType
              = GeneratorInternalVariableType.VARIABLE_OF_INTEGRATION
            ∨ (StateBased.analysed.internalVariable q).mType
              = GeneratorInternalVariableType.STATE
            ∨ (StateBased.analysed.internalVariable q).mType
              = GeneratorInternalVariableType.ALGEBRAIC))
      ∧ ((StateBased.analysed.internalVariable 1).mType
            = GeneratorInternalVariableType.COMPUTED_TRUE_CONSTANT ↔
        ∀ q ∈ referenceList StateBased.generator 1, q = 1)
      ∧ ((StateBased.analysed.internalVariable 1).mType
            = GeneratorInternalVariableType.COMPUTED_VARIABLE_BASED_CONSTANT ↔
        (∃ q ∈ referenceList StateBased.generator 1, q ≠ 1)
        ∧ ∀ q ∈ referenceList StateBased.generator 1, q ≠ 1 →
            (StateBased.analysed.internalVariable q).mType
              = GeneratorInternalVariableType.CONSTANT
            ∨ (StateBased.analysed.internalVariable q).mType
                = GeneratorInternalVariableType.COMPUTED_TRUE_CONSTANT
            ∨ (StateBased.analysed.internalVariable q).mType
                = GeneratorInternalVariableType.COMPUTED_VARIABLE_BASED_CONSTANT)) :=
  ⟨by decide,
    analyseModel_computed_tag StateBased.model DependentEqns.numerics.isOne
      StateBased.generator StateBased.prePassed StateBased.analysed 1 1
      (by decide) (by decide) (by decide) (by decide) (by decide) (by decide) (by decide)
      (by decide) (by decide) (by decide)⟩

/-- C29, as stated, fails at the model with the equations `x = 1`, `x = 2`
and `y = x`, stored in this order: `processModel` returns; the equation
`y = x` has an order and computes `y`, which had no tag before the
resolution and is tagged `ALGEBRAIC`, and the kind of the equation is
`ALGEBRAIC`; yet the only other record that the equation references is that
of `x`, which is tagged `OVERCONSTRAINED`: the equation references no record
tagged as the variable of integration, a state or an algebraic variable other
than `y` itself. -/
theorem processModel_algebraic_without_varying_reference :
    processModel OverReference.model DependentEqns.numerics OverReference.generator
      = some OverReference.processed
    ∧ (OverReference.processed.equation 2).mOrder ≠ MAX_SIZE_T
    ∧ (OverReference.processed.equation 2).mVariable = some 1
    ∧ (OverReference.generator.internalVariable 1).mType = GeneratorInternalVariableType.UNKNOWN
    ∧ (OverReference.processed.internalVariable 1).mVariable = some OverReference.y
    ∧ (OverReference.processed.internalVariable 1).mType
        = GeneratorInternalVariableType.ALGEBRAIC
    ∧ (OverReference.processed.equation 2).mType = GeneratorEquationType.ALGEBRAIC
    ∧ referenceList OverReference.generator 2 = [1, 0]
    ∧ (OverReference.processed.internalVariable 0).mVariable = some OverReference.x
    ∧ (OverReference.processed.internalVariable 0).mType
        = GeneratorInternalVariableType.OVERCONSTRAINED
    ∧ ¬ ∃ q ∈ referenceList OverReference.generator 2, q ≠ 1
        ∧ ((OverReference.processed.internalVariable q).mType
            = GeneratorInternalVariableType.VARIABLE_OF_INTEGRATION
          ∨ (OverReference.processed.internalVariable q).mType
            = GeneratorInternalVariableType.STATE
          ∨ (OverReference.processed.internalVariable q).mType
            = GeneratorInternalVariableType.ALGEBRAIC) := by
  refine ⟨by decide, by decide, by decide, by decide, by decide, by decide, by decide,
    by decide, by decide, by decide, by decide⟩

/-- C24, as stated, fails at the model with the equations `x = 1` and `x = 2`
whose component also declares a variable `u` that has no initial value and
that no equation references: both equations reference `x` and nothing else,
and `x` is tagged `OVERCONSTRAINED`, yet `Generator::processModel` records two
issues and finds the model `UNSUITABLY_CONSTRAINED`. -/
theorem processModel_computed_twice_with_unused_variable :
    Generator.processModel ComputedTwiceUnused.model DependentEqns.numerics {}
      = some ComputedTwiceUnused.processed
    ∧ ComputedTwiceUnused.processed.mEquations = [0, 1]
    ∧ (∀ e ∈ ComputedTwiceUnused.processed.mEquations,
        (ComputedTwiceUnused.processed.equation e).mAst.mLeft
          = GeneratorEquationAst.ci ComputedTwice.x
        ∧ (ComputedTwiceUnused.processed.equation e).mAst.mRight.hasType
            GeneratorEquationAstType.CN = true)
    ∧ (∀ p ∈ ComputedTwiceUnused.processed.mInternalVariables,
        (ComputedTwiceUnused.processed.internalVariable p).mVariable = some ComputedTwice.x →
        (ComputedTwiceUnused.processed.internalVariable p).mType
          = GeneratorInternalVariableType.OVERCONSTRAINED)
    ∧ ComputedTwiceUnused.processed.errors
        = ["Variable 'u' in component 'main' is not computed.",
           "Variable 'x' in component 'main' is computed more than once."]
    ∧ Generator.modelType ComputedTwiceUnused.processed = ModelType.UNSUITABLY_CONSTRAINED := by
  refine ⟨by decide, by decide, by decide, by decide, by decide, by decide⟩

/-! ## C27: one record per class of equivalent variables -/

theorem sameOrEquivalentVariable_some (hEq : Variable → Variable → Bool) (a b : Variable) :
    sameOrEquivalentVariable hEq (some a) (some b) = true ↔ a = b ∨ hEq a b = true := by
  simp [sameOrEquivalentVariable]

theorem sameOrEquivalentVariable_none_right (hEq : Variable → Variable → Bool) (a : Variable) :
    sameOrEquivalentVariable hEq (some a) none = false := by
  simp [sameOrEquivalentVariable]

theorem sameOrEquivalentVariable_none_left (hEq : Variable → Variable → Bool) (a : Variable) :
    sameOrEquivalentVariable hEq none (some a) = false := by
  simp [sameOrEquivalentVariable]

theorem sameOrEquivalentVariable_symm (hEq : Variable → Variable → Bool)
    (hsym : ∀ a b, hEq a b = true → hEq b a = true) (a b : Variable)
    (h : sameOrEquivalentVariable hEq (some a) (some b) = true) :
    sameOrEquivalentVariable hEq (some b) (some a) = true := by
  rw [sameOrEquivalentVariable_some] at h ⊢
  exact h.imp Eq.symm (hsym a b)

theorem sameOrEquivalentVariable_trans (hEq : Variable → Variable → Bool)
    (htrans : ∀ a b c, hEq a b = true → hEq b c = true → a = c ∨ hEq a c = true)
    (a b c : Variable)
    (h1 : sameOrEquivalentVariable hEq (some a) (some b) = true)
    (h2 : sameOrEquivalentVariable hEq (some b) (some c) = true) :
    sameOrEquivalentVariable hEq (some a) (some c) = true := by
  rw [sameOrEquivalentVariable_some] at h1 h2 ⊢
  rcases h1 with rfl | h1
  · exact h2
  · rcases h2 with rfl | h2
    · exact Or.inr h1
    · exact htrans a b c h1 h2

/-- A step that leaves the registry alone keeps the invariant. -/
theorem DistinctClasses.ofSameRegistry {m : Model} {g g' : GeneratorImpl}
    (hs : SameRegistry g g') (h : DistinctClasses m g) : DistinctClasses m g' := by
  obtain ⟨s1, s2, s3⟩ := hs
  obtain ⟨h1, h2, h3⟩ := h
  refine ⟨by rw [s1]; exact h1, fun p hp => by rw [s2]; exact h2 p (by rw [← s1]; exact hp),
    fun p hp q hq hne v w hv hw => ?_⟩
  rw [s1] at hp hq
  rw [s3] at hv hw
  exact h3 p hp q hq hne v w hv hw

/-- A step that permutes the list of the records keeps the invariant. -/
theorem DistinctClasses.ofPerm {m : Model} {g : GeneratorImpl} (l : List Nat)
    (hl : l.Perm g.mInternalVariables) (h : DistinctClasses m g) :
    DistinctClasses m { g with mInternalVariables := l } := by
  obtain ⟨h1, h2, h3⟩ := h
  exact ⟨hl.nodup_iff.2 h1, fun p hp => h2 p (hl.mem_iff.1 hp),
    fun p hp q hq hne v w hv hw => h3 p (hl.mem_iff.1 hp) q (hl.mem_iff.1 hq) hne v w hv hw⟩

/-- The lookup of the record of a variable keeps the invariant: the record
that it creates, when it creates one, is that of a variable which is the
same as, or equivalent to, the variable of no other record. -/
theorem DistinctClasses.lookup {m : Model}
    (hsym : ∀ a b, m.hasEquivalentVariable a b = true → m.hasEquivalentVariable b a = true)
    {g : GeneratorImpl} (v : Variable) (h : DistinctClasses m g) :
    DistinctClasses m (generatorVariable m g v).1 := by
  rcases generatorVariable_cases m g v with hc | ⟨hc, hnone⟩
  · rw [hc.1]; exact h
  · rw [hc]
    obtain ⟨h1, h2, h3⟩ := h
    have hrec : ∀ p, p < g.variableStore.length →
        ({ g with
            variableStore := g.variableStore ++ [GeneratorInternalVariable.setVariable {} v],
            mInternalVariables := g.mInternalVariables ++ [g.variableStore.length] } :
          GeneratorImpl).internalVariable p = g.internalVariable p := by
      intro p hp
      unfold GeneratorImpl.internalVariable
      dsimp only
      rw [getD_append_singleton, if_pos hp]
    have hnew : (({ g with
            variableStore := g.variableStore ++ [GeneratorInternalVariable.setVariable {} v],
            mInternalVariables := g.mInternalVariables ++ [g.variableStore.length] } :
          GeneratorImpl).internalVariable g.variableStore.length).mVariable = some v := by
      unfold GeneratorImpl.internalVariable
      dsimp only
      rw [getD_append_singleton, if_neg (lt_irrefl _), if_pos rfl]
      unfold GeneratorInternalVariable.setVariable
      dsimp only
      split_ifs <;> rfl
    refine ⟨?_, ?_, ?_⟩
    · dsimp only
      rw [List.nodup_append]
      refine ⟨h1, List.nodup_singleton _, ?_⟩
      intro a ha hb
      rw [List.mem_singleton] at hb
      subst hb
      exact absurd (h2 _ ha) (lt_irrefl _)
    · intro p hp
      dsimp only at hp ⊢
      rw [List.length_append, List.length_singleton]
      rcases List.mem_append.1 hp with hp | hp
      · exact Nat.lt_succ_of_lt (h2 p hp)
      · rw [List.mem_singleton] at hp
        omega
    · intro p hp q hq hne a b ha hb
      dsimp only at hp hq
      rcases List.mem_append.1 hp with hp | hp <;> rcases List.mem_append.1 hq with hq | hq
      · rw [hrec p (h2 p hp)] at ha
        rw [hrec q (h2 q hq)] at hb
        exact h3 p hp q hq hne a b ha hb
      · rw [List.mem_singleton] at hq
        subst hq
        rw [hrec p (h2 p hp)] at ha
        rw [hnew] at hb
        simp only [Option.some.injEq] at hb
        have hn := hnone p hp
        rw [ha, hb] at hn
        by_contra hcon
        rw [Bool.not_eq_false] at hcon
        have hs := sameOrEquivalentVariable_symm _ hsym a b hcon
        rw [hn] at hs
        cases hs
      · rw [List.mem_singleton] at hp
        subst hp
        rw [hrec q (h2 q hq)] at hb
        rw [hnew] at ha
        simp only [Option.some.injEq] at ha
        subst ha
        have := hnone q hq
        rw [hb] at this
        exact this
      · rw [List.mem_singleton] at hp hq
        exact absurd (hp.trans hq.symm) hne

/-- A record whose variable is replaced by the same or an equivalent
variable, or by a null pointer: the invariant is kept. -/
theorem DistinctClasses.setRelated {m : Model}
    (hsym : ∀ a b, m.hasEquivalentVariable a b = true → m.hasEquivalentVariable b a = true)
    (htrans : ∀ a b c, m.hasEquivalentVariable a b = true → m.hasEquivalentVariable b c = true →
      a = c ∨ m.hasEquivalentVariable a c = true)
    {g : GeneratorImpl} (p : Nat) (x : GeneratorInternalVariable)
    (hx : x.mVariable = none
      ∨ ∃ v t, (g.internalVariable p).mVariable = some v ∧ x.mVariable = some t
          ∧ sameOrEquivalentVariable m.hasEquivalentVariable (some v) (some t) = true)
    (h : DistinctClasses m g) : DistinctClasses m (g.setInternalVariable p x) := by
  obtain ⟨h1, h2, h3⟩ := h
  refine ⟨h1, fun q hq => by simpa [GeneratorImpl.setInternalVariable] using h2 q hq,
    fun a ha b hb hne v w hv hw => ?_⟩
  have ha' : a ∈ g.mInternalVariables := ha
  have hb' : b ∈ g.mInternalVariables := hb
  rw [GeneratorImpl.internalVariable_setInternalVariable] at hv hw
  by_cases hpa : p = a
  · subst hpa
    rw [if_pos ⟨rfl, h2 p ha'⟩] at hv
    rw [if_neg (fun hc => hne hc.1)] at hw
    rcases hx with hx | ⟨v0, t, hv0, ht, hrel⟩
    · rw [hx] at hv; cases hv
    · rw [ht] at hv
      simp only [Option.some.injEq] at hv
      subst hv
      by_contra hcon
      rw [Bool.not_eq_false] at hcon
      have := sameOrEquivalentVariable_trans _ htrans v0 t w hrel hcon
      rw [h3 p ha' b hb' hne v0 w hv0 hw] at this
      cases this
  · rw [if_neg (fun hc => hpa hc.1)] at hv
    by_cases hpb : p = b
    · subst hpb
      rw [if_pos ⟨rfl, h2 p hb'⟩] at hw
      rcases hx with hx | ⟨v0, t, hv0, ht, hrel⟩
      · rw [hx] at hw; cases hw
      · rw [ht] at hw
        simp only [Option.some.injEq] at hw
        subst hw
        by_contra hcon
        rw [Bool.not_eq_false] at hcon
        have h4 := sameOrEquivalentVariable_symm _ hsym v0 t hrel
        have := sameOrEquivalentVariable_trans _ htrans v t v0 hcon h4
        rw [h3 a ha' p hb' hne v v0 hv hv0] at this
        cases this
    · rw [if_neg (fun hc => hpb hc.1)] at hw
      exact h3 a ha' b hb' hne v w hv hw

theorem updateVariable_mVariable (hEq : Variable → Variable → Bool) (this : GeneratorEquation)
    (var : GeneratorInternalVariable) :
    (updateVariable hEq this var).mVariable = none
    ∨ ∃ v t, var.mVariable = some v ∧ (updateVariable hEq this var).mVariable = some t
        ∧ sameOrEquivalentVariable hEq (some v) (some t) = true := by
  have hm : (updateVariable hEq this var).mVariable
      = this.mComponent.variableList.find? fun testVariable =>
          sameOrEquivalentVariable hEq var.mVariable (some testVariable) := by
    unfold updateVariable
    dsimp only
    split_ifs <;> rfl
  rw [hm]
  rcases hf : this.mComponent.variableList.find? (fun testVariable =>
      sameOrEquivalentVariable hEq var.mVariable (some testVariable)) with _ | t
  · exact Or.inl rfl
  · right
    have := List.find?_some hf
    rcases hv : var.mVariable with _ | v
    · rw [hv, sameOrEquivalentVariable_none_left] at this
      cases this
    · rw [hv] at this
      exact ⟨v, t, rfl, rfl, this⟩

/-- The step of `check` keeps the invariant. -/
theorem DistinctClasses.checkKeeps {m : Model}
    (hsym : ∀ a b, m.hasEquivalentVariable a b = true → m.hasEquivalentVariable b a = true)
    (htrans : ∀ a b c, m.hasEquivalentVariable a b = true → m.hasEquivalentVariable b c = true →
      a = c ∨ m.hasEquivalentVariable a c = true)
    {g : GeneratorImpl} (self : Nat) (c : Counters) (h : DistinctClasses m g) :
    DistinctClasses m (check m.hasEquivalentVariable g self c).1 := by
  apply check_elim m.hasEquivalentVariable g self c (fun r => DistinctClasses m r.1)
  · intro _; exact h
  · intro _ _
    exact h.ofSameRegistry (setInternalVariable_sameRegistry _ _ _ rfl)
  · intro _ _ _
    exact h.ofSameRegistry ⟨rfl, rfl, fun _ => rfl⟩
  · intro _ _ _ _
    have h1 := DistinctClasses.setRelated hsym htrans
      (soleVariable (updateTracking g (g.equation self)))
      (updateVariable m.hasEquivalentVariable (updateTracking g (g.equation self))
        (g.internalVariable (soleVariable (updateTracking g (g.equation self)))))
      (updateVariable_mVariable _ _ _) h
    exact h1.ofSameRegistry ⟨rfl, rfl, fun _ => rfl⟩
  · intro _ _ _ _
    unfold checkResolved
    dsimp only
    have h1 := DistinctClasses.setRelated hsym htrans
      (soleVariable (updateTracking g (g.equation self)))
      { updateVariable m.hasEquivalentVariable (updateTracking g (g.equation self))
          (g.internalVariable (soleVariable (updateTracking g (g.equation self)))) with
        mIndex := assignedIndex (updateVariable m.hasEquivalentVariable
            (updateTracking g (g.equation self))
            (g.internalVariable (soleVariable (updateTracking g (g.equation self))))).mType
          (nextCounters (updateVariable m.hasEquivalentVariable
            (updateTracking g (g.equation self))
            (g.internalVariable (soleVariable (updateTracking g (g.equation self))))).mType c),
        mEquation := some self }
      (updateVariable_mVariable _ _ _) h
    exact h1.ofSameRegistry ⟨rfl, rfl, fun _ => rfl⟩

/-- The body of the loop of `processComponent` over the variables keeps the
invariant. -/
theorem DistinctClasses.componentVariable {m : Model}
    (hsym : ∀ a b, m.hasEquivalentVariable a b = true → m.hasEquivalentVariable b a = true)
    (htrans : ∀ a b c, m.hasEquivalentVariable a b = true → m.hasEquivalentVariable b c = true →
      a = c ∨ m.hasEquivalentVariable a c = true)
    {g g' : GeneratorImpl} (component : Component) (v : Variable) (h : DistinctClasses m g)
    (hr : processComponentVariable m component g v = some g') : DistinctClasses m g' := by
  have hl := h.lookup hsym v
  have hrep : ∀ tracked,
      ((generatorVariable m g v).1.internalVariable (generatorVariable m g v).2).mVariable
        = some tracked →
      sameOrEquivalentVariable m.hasEquivalentVariable (some tracked) (some v) = true := by
    intro tracked ht
    rcases generatorVariable_cases m g v with hc | ⟨_, hnone⟩
    · have h3 := hc.2.2
      rw [hc.1] at ht
      rw [ht] at h3
      exact sameOrEquivalentVariable_symm _ hsym _ _ h3
    · rw [generatorVariable_created_record m g v hnone] at ht
      have : (GeneratorInternalVariable.setVariable {} v).mVariable = some v := by
        unfold GeneratorInternalVariable.setVariable
        dsimp only
        split_ifs <;> rfl
      rw [this] at ht
      simp only [Option.some.injEq] at ht
      subst ht
      rw [sameOrEquivalentVariable_some]
      exact Or.inl rfl
  unfold processComponentVariable at hr
  dsimp only at hr
  split_ifs at hr with hi
  · simp only [Option.map_eq_some'] at hr
    obtain ⟨tracked, ht, rfl⟩ := hr
    split_ifs
    · refine DistinctClasses.setRelated hsym htrans _ _ (Or.inr ⟨tracked, v, ht, ?_, hrep _ ht⟩) hl
      unfold GeneratorInternalVariable.setVariable
      dsimp only
      split_ifs
      rfl
    · exact hl.ofSameRegistry ⟨rfl, rfl, fun _ => rfl⟩
    · exact hl
  · simp only [Option.some.injEq] at hr
    subst hr
    exact hl

theorem setNeedFlag_sameRegistry (t : GeneratorEquationAstType) (g : GeneratorImpl) :
    SameRegistry g (setNeedFlag t g) := by
  cases t <;> exact ⟨rfl, rfl, fun _ => rfl⟩

/-- A property that the steps which leave the registry alone and the lookups
keep is kept by the block of `processNode` that tracks a variable. -/
theorem trackVariable_keeps {m : Model} {P : GeneratorImpl → Prop}
    (hsame : ∀ g g', SameRegistry g g' → P g → P g')
    (hlook : ∀ g v, P g → P (generatorVariable m g v).1)
    (equation : Nat) (ancestors : List XmlNode) (v : Variable) (g g' : GeneratorImpl)
    (hg : P g) (h : trackVariable m equation ancestors v g = some g') : P g' := by
  unfold trackVariable at h
  split at h
  · cases h
  · simp only [Option.bind_eq_some] at h
    obtain ⟨first, _, h⟩ := h
    by_cases hd : first.isMathmlElement "diff" = true
    · rw [if_pos hd] at h
      simp only [Option.some.injEq] at h
      subst h
      exact hsame (generatorVariable m g v).1 _ ⟨rfl, rfl, fun _ => rfl⟩ (hlook g v hg)
    · rw [if_neg hd] at h
      simp only [Option.map_eq_some'] at h
      obtain ⟨bv, _, rfl⟩ := h
      by_cases hb : (!bv) = true
      · rw [if_pos hb]
        exact hsame (generatorVariable m g v).1 _ ⟨rfl, rfl, fun _ => rfl⟩ (hlook g v hg)
      · rw [if_neg hb]
        exact hg

theorem processChild_keeps {P : GeneratorImpl → Prop}
    (f : XmlNode → GeneratorEquationAst → GeneratorImpl → ProcessResult)
    (hf : ∀ c a g r, P g → f c a g = some r → P r.2)
    (node : XmlNode) (index : Nat) (ast : GeneratorEquationAst) (g : GeneratorImpl)
    (r : GeneratorEquationAst × GeneratorImpl) (hg : P g)
    (h : processChild f node index ast g = some r) : P r.2 := by
  unfold processChild at h
  simp only [Option.bind_eq_some] at h
  obtain ⟨child, _, c, hc, h⟩ := h
  exact hf c ast g r hg h

theorem applyOperands_keeps {P : GeneratorImpl → Prop}
    (child : Nat → GeneratorEquationAst → GeneratorImpl → ProcessResult)
    (hchild : ∀ i a g r, P g → child i a g = some r → P r.2) :
    ∀ (n : Nat) (tempAst astRight : GeneratorEquationAst) (g : GeneratorImpl)
      (r : GeneratorEquationAst × GeneratorImpl),
      P g → applyOperands child n tempAst astRight g = some r → P r.2
  | 0, _, _, _, _, hg, h => by
    simp only [applyOperands, Option.some.injEq] at h
    subst h; exact hg
  | 1, _, _, _, _, hg, h => by
    simp only [applyOperands, Option.some.injEq] at h
    subst h; exact hg
  | i + 2, tempAst, astRight, g, r, hg, h => by
    simp only [applyOperands, Option.bind_eq_some] at h
    obtain ⟨r0, h0, h⟩ := h
    have p0 := hchild _ _ _ _ hg h0
    split at h
    · cases h
    · simp only [Option.bind_eq_some] at h
      obtain ⟨rl, hl, h⟩ := h
      have pl := hchild _ _ _ _ p0 hl
      split_ifs at h
      exact applyOperands_keeps child hchild (i + 1) _ _ _ _ pl h

theorem piecewisePieces_keeps {P : GeneratorImpl → Prop}
    (child : Nat → GeneratorEquationAst → GeneratorImpl → ProcessResult)
    (hchild : ∀ i a g r, P g → child i a g = some r → P r.2) :
    ∀ (n : Nat) (astRight : GeneratorEquationAst) (g : GeneratorImpl)
      (r : GeneratorEquationAst × GeneratorImpl),
      P g → piecewisePieces child n astRight g = some r → P r.2
  | 0, _, _, _, hg, h => by
    simp only [piecewisePieces, Option.some.injEq] at h
    subst h; exact hg
  | i + 1, astRight, g, r, hg, h => by
    simp only [piecewisePieces, Option.bind_eq_some] at h
    obtain ⟨rl, hl, h⟩ := h
    have pl := hchild _ _ _ _ hg hl
    split_ifs at h
    exact piecewisePieces_keeps child hchild i _ _ _ pl h

/-- A property that the steps which leave the registry alone and the lookups
keep is kept by `processNode`. -/
theorem processNode_keeps {m : Model} {P : GeneratorImpl → Prop}
    (hsame : ∀ g g', SameRegistry g g' → P g → P g')
    (hlook : ∀ g v, P g → P (generatorVariable m g v).1)
    (component : Component) (equation : Nat) :
    ∀ (fuel : Nat) (node : XmlNode) (ancestors : List XmlNode) (ast : GeneratorEquationAst)
      (g : GeneratorImpl) (r : GeneratorEquationAst × GeneratorImpl),
      P g → processNode m component equation fuel node ancestors ast g = some r → P r.2
  | 0, _, _, _, _, _, _, h => by simp [processNode] at h
  | fuel + 1, node, ancestors, ast, g, r, hg, h => by
    have hchild : ∀ i a g r, P g →
        processChild (fun c a g =>
          processNode m component equation fuel c (node :: ancestors) a g) node i a g = some r →
        P r.2 := fun i a g r hg h =>
      processChild_keeps _ (fun c a g r hg h =>
        processNode_keeps hsame hlook component equation fuel c _ a g r hg h) node i a g r hg h
    rw [processNode] at h
    by_cases c1 : node.isMathmlElement "apply" = true
    · -- apply
      rw [if_pos c1] at h
      simp only [Option.bind_eq_some] at h
      obtain ⟨childCount, _, r0, h0, h⟩ := h
      have p0 := hchild _ _ _ _ hg h0
      split at h
      · cases h
      · simp only [Option.bind_eq_some] at h
        obtain ⟨r1, h1, h⟩ := h
        have p1 := hchild _ _ _ _ p0 h1
        by_cases c : childCount ≥ 3
        · rw [if_pos c] at h
          simp only [Option.bind_eq_some, Option.map_eq_some'] at h
          obtain ⟨rr, hrr, ro, hro, rfl⟩ := h
          have pr := hchild _ _ _ _ p1 hrr
          exact applyOperands_keeps _ hchild _ _ _ _ ro pr hro
        · rw [if_neg c] at h
          simp only [Option.some.injEq] at h
          subst h; exact p1
    rw [if_neg c1] at h
    by_cases c2 : node.isMathmlElement "eq" = true
    · -- eq
      rw [if_pos c2] at h
      simp only [Option.map_eq_some'] at h
      obtain ⟨gp, _, rfl⟩ := h
      by_cases c : (!gp.isMathmlElement "math") = true
      · rw [if_pos c]
        exact hsame g _ (setNeedFlag_sameRegistry _ g) hg
      · rw [if_neg c]
        exact hg
    rw [if_neg c2] at h
    by_cases c3 : node.isMathmlElement "piecewise" = true
    · -- piecewise
      rw [if_pos c3] at h
      simp only [Option.bind_eq_some] at h
      obtain ⟨childCount, _, rl, hl, h⟩ := h
      have pl := hchild _ _ _ _ hg hl
      by_cases c : childCount ≥ 2
      · rw [if_pos c] at h
        simp only [Option.bind_eq_some] at h
        obtain ⟨rr, hrr, ro, hro, h⟩ := h
        have pr := hchild _ _ _ _ pl hrr
        have po := piecewisePieces_keeps _ hchild _ _ _ _ pr hro
        by_cases c' : ro.1.isNode = true
        · rw [if_pos c'] at h
          simp only [Option.some.injEq] at h
          subst h; exact po
        · rw [if_neg c'] at h
          cases h
      · rw [if_neg c] at h
        simp only [Option.some.injEq] at h
        subst h; exact pl
    rw [if_neg c3] at h
    by_cases c4 : node.isMathmlElement "piece" = true
    · -- piece
      rw [if_pos c4] at h
      simp only [Option.bind_eq_some, Option.map_eq_some'] at h
      obtain ⟨rl, hl, rr, hrr, rfl⟩ := h
      exact hchild _ _ _ rr (hchild _ _ _ rl hg hl) hrr
    rw [if_neg c4] at h
    by_cases c5 : node.isMathmlElement "otherwise" = true
    · -- otherwise
      rw [if_pos c5] at h
      simp only [Option.map_eq_some'] at h
      obtain ⟨rl, hl, rfl⟩ := h
      exact hchild _ _ _ rl hg hl
    rw [if_neg c5] at h
    by_cases c6 : node.isMathmlElement "ci" = true
    · -- ci
      rw [if_pos c6] at h
      simp only [Option.bind_eq_some] at h
      obtain ⟨first, _, h⟩ := h
      split at h
      · simp only [Option.map_eq_some'] at h
        obtain ⟨g', hg', rfl⟩ := h
        exact trackVariable_keeps hsame hlook _ _ _ _ _ hg hg'
      · simp only [Option.some.injEq] at h
        subst h
        exact hsame g _ ⟨rfl, rfl, fun _ => rfl⟩ hg
    rw [if_neg c6] at h
    by_cases c7 : node.isMathmlElement "cn" = true
    · -- cn
      rw [if_pos c7] at h
      simp only [Option.bind_eq_some] at h
      obtain ⟨childCount, _, first, _, h⟩ := h
      by_cases c : childCount = 1
      · rw [if_pos c] at h
        simp only [Option.map_eq_some'] at h
        obtain ⟨third, _, rfl⟩ := h
        exact hg
      · rw [if_neg c] at h
        simp only [Option.some.injEq] at h
        subst h; exact hg
    rw [if_neg c7] at h
    by_cases c8 : node.isMathmlElement "degree" = true
    · -- degree
      rw [if_pos c8] at h
      simp only [Option.map_eq_some'] at h
      obtain ⟨rl, hl, rfl⟩ := h
      exact hchild _ _ _ rl hg hl
    rw [if_neg c8] at h
    by_cases c9 : node.isMathmlElement "logbase" = true
    · -- logbase
      rw [if_pos c9] at h
      simp only [Option.map_eq_some'] at h
      obtain ⟨rl, hl, rfl⟩ := h
      exact hchild _ _ _ rl hg hl
    rw [if_neg c9] at h
    by_cases c10 : node.isMathmlElement "bvar" = true
    · -- bvar
      rw [if_pos c10] at h
      simp only [Option.bind_eq_some] at h
      obtain ⟨rl, hl, rightNode, _, h⟩ := h
      have pl := hchild _ _ _ _ hg hl
      split at h
      · simp only [Option.map_eq_some'] at h
        obtain ⟨rr, hrr, rfl⟩ := h
        exact processNode_keeps hsame hlook component equation fuel _ _ _ _ rr pl hrr
      · simp only [Option.some.injEq] at h
        subst h; exact pl
    rw [if_neg c10] at h
    -- the other elements
    split at h
    · simp only [Option.some.injEq] at h
      subst h
      exact hsame g _ (setNeedFlag_sameRegistry _ g) hg
    · simp only [Option.some.injEq] at h
      subst h; exact hg

theorem processMathNode_keeps {m : Model} {P : GeneratorImpl → Prop}
    (hsame : ∀ g g', SameRegistry g g' → P g → P g')
    (hlook : ∀ g v, P g → P (generatorVariable m g v).1)
    (component : Component) (node : XmlNode) (ancestors : List XmlNode)
    (g g' : GeneratorImpl) (hg : P g)
    (h : processMathNode m component node ancestors g = some g') : P g' := by
  unfold processMathNode at h
  simp only [Option.map_eq_some'] at h
  obtain ⟨r, hr, rfl⟩ := h
  refine hsame r.2 _ ⟨rfl, rfl, fun _ => rfl⟩
    (processNode_keeps hsame hlook component _ _ _ _ _ _ r ?_ hr)
  exact hsame g _ ⟨rfl, rfl, fun _ => rfl⟩ hg

theorem processMathNodes_keeps {m : Model} {P : GeneratorImpl → Prop}
    (hsame : ∀ g g', SameRegistry g g' → P g → P g')
    (hlook : ∀ g v, P g → P (generatorVariable m g v).1)
    (component : Component) (mathNode : XmlNode) :
    ∀ (nodes : List XmlNode) (g g' : GeneratorImpl),
      P g → processMathNodes m component mathNode nodes g = some g' → P g'
  | [], g, g', hg, h => by
    simp only [processMathNodes, Option.some.injEq] at h
    subst h; exact hg
  | node :: rest, g, g', hg, h => by
    simp only [processMathNodes, Option.bind_eq_some] at h
    obtain ⟨g1, h1, h⟩ := h
    have p1 : P g1 := by
      split_ifs at h1
      · exact processMathNode_keeps hsame hlook component node _ g g1 hg h1
      · simp only [Option.some.injEq] at h1
        subst h1; exact hg
    exact processMathNodes_keeps hsame hlook component mathNode rest g1 g' p1 h

theorem DistinctClasses.componentVariables {m : Model}
    (hsym : ∀ a b, m.hasEquivalentVariable a b = true → m.hasEquivalentVariable b a = true)
    (htrans : ∀ a b c, m.hasEquivalentVariable a b = true → m.hasEquivalentVariable b c = true →
      a = c ∨ m.hasEquivalentVariable a c = true)
    (component : Component) :
    ∀ (vs : List Variable) (g g' : GeneratorImpl), DistinctClasses m g →
      processComponentVariables m component vs g = some g' → DistinctClasses m g'
  | [], g, g', hg, h => by
    simp only [processComponentVariables, Option.some.injEq] at h
    subst h; exact hg
  | v :: rest, g, g', hg, h => by
    simp only [processComponentVariables, Option.bind_eq_some] at h
    obtain ⟨g1, h1, h⟩ := h
    exact DistinctClasses.componentVariables hsym htrans component rest g1 g'
      (hg.componentVariable hsym htrans component v h1) h

mutual

/-- The method `processComponent` keeps the invariant. -/
theorem DistinctClasses.componentKeeps {m : Model}
    (hsym : ∀ a b, m.hasEquivalentVariable a b = true → m.hasEquivalentVariable b a = true)
    (htrans : ∀ a b c, m.hasEquivalentVariable a b = true → m.hasEquivalentVariable b c = true →
      a = c ∨ m.hasEquivalentVariable a c = true) :
    ∀ (c : ComponentEntity) (g g' : GeneratorImpl), DistinctClasses m g →
      processComponent m c g = some g' → DistinctClasses m g'
  | ComponentEntity.mk component components, g, g', hg, h => by
    rw [processComponent] at h
    split at h
    · cases h
    · rename_i ga hga
      have pa : DistinctClasses m ga := by
        split at hga
        · exact processMathNodes_keeps (fun _ _ hs hp => hp.ofSameRegistry hs)
            (fun _ v hp => hp.lookup hsym v) component _ _ g ga hg hga
        · simp only [Option.some.injEq] at hga
          subst hga; exact hg
      split at h
      · cases h
      · rename_i gb hgb
        exact DistinctClasses.componentsKeep hsym htrans components gb g'
          (DistinctClasses.componentVariables hsym htrans component _ ga gb pa hgb) h

/-- The loop over the components keeps the invariant. -/
theorem DistinctClasses.componentsKeep {m : Model}
    (hsym : ∀ a b, m.hasEquivalentVariable a b = true → m.hasEquivalentVariable b a = true)
    (htrans : ∀ a b c, m.hasEquivalentVariable a b = true → m.hasEquivalentVariable b c = true →
      a = c ∨ m.hasEquivalentVariable a c = true) :
    ∀ (cs : List ComponentEntity) (g g' : GeneratorImpl), DistinctClasses m g →
      processComponents m cs g = some g' → DistinctClasses m g'
  | [], g, g', hg, h => by
    rw [processComponents] at h
    simp only [Option.some.injEq] at h
    subst h; exact hg
  | c :: rest, g, g', hg, h => by
    rw [processComponents] at h
    split at h
    · cases h
    · rename_i ga hga
      exact DistinctClasses.componentsKeep hsym htrans rest ga g'
        (DistinctClasses.componentKeeps hsym htrans c g ga hg hga) h
end

theorem processVoi_related {m : Model} {R : GeneratorImpl → GeneratorImpl → Prop}
    (htrans : ∀ g g' g'', R g g' → R g' g'' → R g g'')
    (hsame : ∀ g g', SameRegistry g g' → R g g')
    (hlook : ∀ g v, R g (generatorVariable m g v).1) (g : GeneratorImpl) (var : Variable) :
    R g (processVoi m g var) := by
  have h1 := hlook g var
  have h2 : SameRegistry (generatorVariable m g var).1
      ((generatorVariable m g var).1.setInternalVariable (generatorVariable m g var).2
        ((generatorVariable m g var).1.internalVariable (generatorVariable m g var).2).makeVoi) :=
    setInternalVariable_sameRegistry _ _ _ rfl
  have h12 := htrans _ _ _ h1 (hsame _ _ h2)
  unfold processVoi
  dsimp only
  split
  · split_ifs
    · exact htrans _ _ _ h12 (hsame _ _ ⟨rfl, rfl, fun _ => rfl⟩)
    · split
      · exact htrans _ _ _ h12 (hsame _ _ ⟨rfl, rfl, fun _ => rfl⟩)
      · exact h12
  · split_ifs
    · exact htrans _ _ _ h12 (hsame _ _ ⟨rfl, rfl, fun _ => rfl⟩)
    · exact h12

theorem processEquationAst_related {m : Model} {R : GeneratorImpl → GeneratorImpl → Prop}
    (hrefl : ∀ g, R g g)
    (htrans : ∀ g g' g'', R g g' → R g' g'' → R g g'')
    (hsame : ∀ g g', SameRegistry g g' → R g g')
    (hlook : ∀ g v, R g (generatorVariable m g v).1) (isOne : String → Bool) :
    ∀ (ast astParent astGrandParent astGreatGrandParent : GeneratorEquationAst)
      (g g' : GeneratorImpl),
      processEquationAst m isOne ast astParent astGrandParent astGreatGrandParent g = some g' →
      R g g'
  | GeneratorEquationAst.null, _, _, _, _, _, h => by simp [processEquationAst] at h
  | GeneratorEquationAst.node t value var l r, p, gp, ggp, g, g', h => by
    simp only [processEquationAst, Option.bind_eq_some] at h
    obtain ⟨ga, ha, gb, hb, gc, hc, gd, hd, he⟩ := h
    have fa : R g ga := by
      split_ifs at ha
      · simp only [Option.map_eq_some'] at ha
        obtain ⟨v, _, rfl⟩ := ha
        exact processVoi_related htrans hsame hlook g v
      · simp only [Option.some.injEq] at ha; subst ha; exact hrefl _
    have fb : R ga gb := by
      split_ifs at hb
      · simp only [Option.map_eq_some'] at hb
        obtain ⟨v, _, rfl⟩ := hb
        exact hsame _ _ ⟨rfl, rfl, fun _ => rfl⟩
      · simp only [Option.some.injEq] at hb; subst hb; exact hrefl _
      · simp only [Option.some.injEq] at hb; subst hb; exact hrefl _
    have fc : R gb gc := by
      split_ifs at hc
      · simp only [Option.map_eq_some'] at hc
        obtain ⟨v, _, rfl⟩ := hc
        exact htrans _ _ _ (hlook gb v)
          (hsame _ _ (setInternalVariable_sameRegistry _ _ _ (makeState_tag _).2))
      · simp only [Option.some.injEq] at hc; subst hc; exact hrefl _
    have fd : R gc gd := by
      split_ifs at hd
      · exact processEquationAst_related hrefl htrans hsame hlook isOne l _ _ _ gc gd hd
      · simp only [Option.some.injEq] at hd; subst hd; exact hrefl _
    have fe : R gd g' := by
      split_ifs at he
      · exact processEquationAst_related hrefl htrans hsame hlook isOne r _ _ _ gd g' he
      · simp only [Option.some.injEq] at he; subst he; exact hrefl _
    exact htrans _ _ _ fa (htrans _ _ _ fb (htrans _ _ _ fc (htrans _ _ _ fd fe)))

theorem processEquationAsts_related {m : Model} {R : GeneratorImpl → GeneratorImpl → Prop}
    (hrefl : ∀ g, R g g)
    (htrans : ∀ g g' g'', R g g' → R g' g'' → R g g'')
    (hsame : ∀ g g', SameRegistry g g' → R g g')
    (hlook : ∀ g v, R g (generatorVariable m g v).1) (isOne : String → Bool) :
    ∀ (es : List Nat) (g g' : GeneratorImpl),
      processEquationAsts m isOne es g = some g' → R g g'
  | [], g, g', h => by
    simp only [processEquationAsts, Option.some.injEq] at h; subst h; exact hrefl _
  | e :: es, g, g', h => by
    simp only [processEquationAsts, Option.bind_eq_some] at h
    obtain ⟨ga, ha, hb⟩ := h
    exact htrans _ _ _ (processEquationAst_related hrefl htrans hsame hlook isOne _ _ _ _ g ga ha)
      (processEquationAsts_related hrefl htrans hsame hlook isOne es ga g' hb)

/-- A relation that holds of the steps which leave the registry alone and of
the lookups holds of the pre-pass. -/
theorem prePass_related {m : Model} {R : GeneratorImpl → GeneratorImpl → Prop}
    (hrefl : ∀ g, R g g)
    (htrans : ∀ g g' g'', R g g' → R g' g'' → R g g'')
    (hsame : ∀ g g', SameRegistry g g' → R g g')
    (hlook : ∀ g v, R g (generatorVariable m g v).1) (isOne : String → Bool)
    (g g' : GeneratorImpl) (h : prePass m isOne g = some g') : R g g' := by
  unfold prePass at h
  split_ifs at h
  · exact processEquationAsts_related hrefl htrans hsame hlook isOne _ g g' h
  · simp only [Option.some.injEq] at h; subst h; exact hrefl _

theorem scalingFactor_related {m : Model} {R : GeneratorImpl → GeneratorImpl → Prop}
    {F : Type} (num : Numerics F)
    (hlook : ∀ g v, R g (generatorVariable m g v).1) (g : GeneratorImpl)
    (var : Option Variable) (r : F × GeneratorImpl) (h : scalingFactor m num g var = some r) :
    R g r.2 := by
  unfold scalingFactor at h
  simp only [Option.bind_eq_some, Option.map_eq_some'] at h
  obtain ⟨v, _, w, _, rfl⟩ := h
  exact hlook g v

theorem scaleRate_related {m : Model} {R : GeneratorImpl → GeneratorImpl → Prop}
    {F : Type} (num : Numerics F)
    (hlook : ∀ g v, R g (generatorVariable m g v).1) (astParent : Nat)
    (mem : AstMemory) (g : GeneratorImpl) (r : AstMemory × GeneratorImpl)
    (h : scaleRate m num astParent mem g = some r) : R g r.2 := by
  unfold scaleRate at h
  simp only [Option.bind_eq_some] at h
  obtain ⟨bvar, _, voi, _, fg, hfg, h⟩ := h
  have hf := scalingFactor_related num hlook g _ fg hfg
  split_ifs at h
  · simp only [Option.bind_eq_some] at h
    obtain ⟨gp, _, h⟩ := h
    split_ifs at h
    · simp only [Option.map_eq_some'] at h
      obtain ⟨rhs, _, h⟩ := h
      subst h; exact hf
    · simp only [Option.some.injEq] at h
      subst h; exact hf
  · simp only [Option.some.injEq] at h
    subst h; exact hf

theorem scaleVariable_related {m : Model} {R : GeneratorImpl → GeneratorImpl → Prop}
    {F : Type} (num : Numerics F)
    (hlook : ∀ g v, R g (generatorVariable m g v).1) (ast astParent : Nat)
    (mem : AstMemory) (g : GeneratorImpl) (r : AstMemory × GeneratorImpl)
    (h : scaleVariable m num ast astParent mem g = some r) : R g r.2 := by
  unfold scaleVariable at h
  simp only [Option.map_eq_some'] at h
  obtain ⟨fg, hfg, h⟩ := h
  have hf := scalingFactor_related num hlook g _ fg hfg
  split_ifs at h <;> (subst h; exact hf)

theorem scaleEquationAst_related {m : Model} {R : GeneratorImpl → GeneratorImpl → Prop}
    {F : Type} (num : Numerics F) (hrefl : ∀ g, R g g)
    (htrans : ∀ g g' g'', R g g' → R g' g'' → R g g'')
    (hlook : ∀ g v, R g (generatorVariable m g v).1) :
    ∀ (fuel ast : Nat) (mem : AstMemory) (g : GeneratorImpl) (r : AstMemory × GeneratorImpl),
      scaleEquationAst m num fuel ast mem g = some r → R g r.2
  | 0, _, _, _, _, h => by simp [scaleEquationAst] at h
  | fuel + 1, ast, mem, g, r, h => by
    simp only [scaleEquationAst, Option.bind_eq_some] at h
    obtain ⟨s1, h1, s2, h2, h3⟩ := h
    have f1 : R g s1.2 := by
      split at h1
      · exact scaleEquationAst_related num hrefl htrans hlook fuel _ _ _ _ h1
      · simp only [Option.some.injEq] at h1; subst h1; exact hrefl _
    have f2 : R s1.2 s2.2 := by
      split at h2
      · exact scaleEquationAst_related num hrefl htrans hlook fuel _ _ _ _ h2
      · simp only [Option.some.injEq] at h2; subst h2; exact hrefl _
    have f3 : R s2.2 r.2 := by
      split_ifs at h3
      · simp only [Option.bind_eq_some] at h3
        obtain ⟨ap, _, h3⟩ := h3
        split_ifs at h3
        · exact scaleRate_related num hlook _ _ _ _ h3
        · exact scaleVariable_related num hlook _ _ _ _ _ h3
        · simp only [Option.some.injEq] at h3; subst h3; exact hrefl _
      · simp only [Option.some.injEq] at h3; subst h3; exact hrefl _
    exact htrans _ _ _ f1 (htrans _ _ _ f2 f3)

theorem scaleEquations_related {m : Model} {R : GeneratorImpl → GeneratorImpl → Prop}
    {F : Type} (num : Numerics F) (hrefl : ∀ g, R g g)
    (htrans : ∀ g g' g'', R g g' → R g' g'' → R g g'')
    (hsame : ∀ g g', SameRegistry g g' → R g g')
    (hlook : ∀ g v, R g (generatorVariable m g v).1) :
    ∀ (es : List Nat) (g g' : GeneratorImpl),
      scaleEquations m num es g = some g' → R g g'
  | [], g, g', h => by
    simp only [scaleEquations, Option.some.injEq] at h; subst h; exact hrefl _
  | e :: es, g, g', h => by
    simp only [scaleEquations, Option.bind_eq_some] at h
    obtain ⟨r, hr, h⟩ := h
    have h1 : R g r.2 := by
      unfold scaleEquation at hr
      simp only [Option.bind_eq_some, Option.map_eq_some'] at hr
      obtain ⟨root, _, s, hs, t, _, rfl⟩ := hr
      exact scaleEquationAst_related num hrefl htrans hlook _ _ _ _ _ hs
    have h2 := scaleEquations_related num hrefl htrans hsame hlook es _ g' h
    refine htrans _ _ _ h1 (htrans _ _ _ ?_ h2)
    exact hsame _ _ ⟨rfl, rfl, fun _ => rfl⟩

theorem indexConstants_sameRegistry :
    ∀ (ps : List Nat) (g : GeneratorImpl) (vi : Nat), SameRegistry g (indexConstants ps g vi).1
  | [], g, _ => SameRegistry.reflReg g
  | p :: ps, g, vi => by
    unfold indexConstants
    split_ifs
    · have ih := indexConstants_sameRegistry ps
        (g.setInternalVariable p { g.internalVariable p with mIndex := sizeIncr vi })
        (sizeIncr vi)
      exact (setInternalVariable_sameRegistry g p
        { g.internalVariable p with mIndex := sizeIncr vi } rfl).transReg ih
    · exact indexConstants_sameRegistry ps g vi

theorem reportInvalidVariables_sameRegistry (ps : List Nat) (g : GeneratorImpl) :
    SameRegistry g (reportInvalidVariables ps g) := by
  obtain ⟨_, h2, _, _, h5, _⟩ := reportInvalidVariables_frame ps g
  refine ⟨h2, by rw [h5], fun q => ?_⟩
  unfold GeneratorImpl.internalVariable
  rw [h5]

theorem determineModelType_sameRegistry (g : GeneratorImpl) :
    SameRegistry g (determineModelType g) := by
  obtain ⟨h1, _, _, h4, _⟩ := determineModelType_frame g
  refine ⟨h1, by rw [h4], fun q => ?_⟩
  unfold GeneratorImpl.internalVariable
  rw [h4]

theorem publishVariables_sameRegistry (ps : List Nat) (g : GeneratorImpl) :
    SameRegistry g (publishVariables ps g) := by
  obtain ⟨_, _, h3, _, h5, _⟩ := publishVariables_frame ps g
  refine ⟨h3, by rw [h5], fun q => ?_⟩
  unfold GeneratorImpl.internalVariable
  rw [h5]

/-- The sort of the records by name and the indexing of the constants keep
the invariant. -/
theorem DistinctClasses.enterKeeps {m : Model} {g : GeneratorImpl} (h : DistinctClasses m g) :
    DistinctClasses m (enterResolution g).1 := by
  unfold enterResolution
  dsimp only
  exact (h.ofPerm _ (listSort_perm _ _)).ofSameRegistry (indexConstants_sameRegistry _ _ _)

/-- The resolution loop keeps the invariant. -/
theorem DistinctClasses.resolveKeeps {m : Model}
    (hsym : ∀ a b, m.hasEquivalentVariable a b = true → m.hasEquivalentVariable b a = true)
    (htrans : ∀ a b c, m.hasEquivalentVariable a b = true → m.hasEquivalentVariable b c = true →
      a = c ∨ m.hasEquivalentVariable a c = true)
    (fuel : Nat) {g : GeneratorImpl} (c : Counters) (r : GeneratorImpl × Counters)
    (h : DistinctClasses m g)
    (hr : resolveEquations m.hasEquivalentVariable fuel g c = some r) :
    DistinctClasses m r.1 :=
  resolveEquations_invariant m.hasEquivalentVariable (fun g _ => DistinctClasses m g)
    (fun _ c self _ hg => DistinctClasses.checkKeeps hsym htrans self c hg) fuel g c r h hr

/-- The classification of the model keeps the invariant. -/
theorem DistinctClasses.classifyKeeps {m : Model}
    (hsym : ∀ a b, m.hasEquivalentVariable a b = true → m.hasEquivalentVariable b a = true)
    (htrans : ∀ a b c, m.hasEquivalentVariable a b = true → m.hasEquivalentVariable b c = true →
      a = c ∨ m.hasEquivalentVariable a c = true)
    {g g' : GeneratorImpl} (h : DistinctClasses m g) (hr : classifyModel m g = some g') :
    DistinctClasses m g' := by
  unfold classifyModel at hr
  dsimp only at hr
  split_ifs at hr
  · simp only [Option.map_eq_some'] at hr
    obtain ⟨r, hres, rfl⟩ := hr
    have h1 := DistinctClasses.resolveKeeps hsym htrans _ _ r h.enterKeeps hres
    exact (h1.ofSameRegistry (reportInvalidVariables_sameRegistry _ _)).ofSameRegistry
      (determineModelType_sameRegistry _)
  · simp only [Option.some.injEq] at hr
    subst hr
    exact h.ofSameRegistry ⟨rfl, rfl, fun _ => rfl⟩

/-- The pre-pass over the trees of the equations keeps the invariant. -/
theorem DistinctClasses.prePassKeeps {m : Model}
    (hsym : ∀ a b, m.hasEquivalentVariable a b = true → m.hasEquivalentVariable b a = true)
    (isOne : String → Bool) {g g' : GeneratorImpl} (h : DistinctClasses m g)
    (hr : prePass m isOne g = some g') : DistinctClasses m g' :=
  @prePass_related m (fun a b => DistinctClasses m a → DistinctClasses m b)
    (fun _ x => x) (fun _ _ _ f1 f2 x => f2 (f1 x))
    (fun _ _ hs x => x.ofSameRegistry hs) (fun _ v x => x.lookup hsym v) isOne g g' hr h

/-- The analysis of the model keeps the invariant. -/
theorem DistinctClasses.analyseKeeps {m : Model}
    (hsym : ∀ a b, m.hasEquivalentVariable a b = true → m.hasEquivalentVariable b a = true)
    (htrans : ∀ a b c, m.hasEquivalentVariable a b = true → m.hasEquivalentVariable b c = true →
      a = c ∨ m.hasEquivalentVariable a c = true)
    (isOne : String → Bool) {g g' : GeneratorImpl} (h : DistinctClasses m g)
    (hr : analyseModel m isOne g = some g') : DistinctClasses m g' := by
  unfold analyseModel at hr
  simp only [Option.bind_eq_some] at hr
  obtain ⟨g1, h1, h2⟩ := hr
  have h0 : DistinctClasses m (resetResults g) := h.ofSameRegistry ⟨rfl, rfl, fun _ => rfl⟩
  exact DistinctClasses.classifyKeeps hsym htrans (h0.prePassKeeps hsym isOne h1) h2

/-- The scaling of the trees keeps the invariant. -/
theorem DistinctClasses.scaleKeeps {m : Model} {F : Type} (num : Numerics F)
    (hsym : ∀ a b, m.hasEquivalentVariable a b = true → m.hasEquivalentVariable b a = true)
    (es : List Nat) {g g' : GeneratorImpl} (h : DistinctClasses m g)
    (hr : scaleEquations m num es g = some g') : DistinctClasses m g' :=
  @scaleEquations_related m (fun a b => DistinctClasses m a → DistinctClasses m b) F num
    (fun _ x => x) (fun _ _ _ f1 f2 x => f2 (f1 x))
    (fun _ _ hs x => x.ofSameRegistry hs) (fun _ v x => x.lookup hsym v) es g g' hr h

/-- The final post-processing keeps the invariant. -/
theorem DistinctClasses.finaliseKeeps {m : Model} {F : Type} (num : Numerics F)
    (hsym : ∀ a b, m.hasEquivalentVariable a b = true → m.hasEquivalentVariable b a = true)
    {g g' : GeneratorImpl} (h : DistinctClasses m g)
    (hr : finaliseModel m num g = some g') : DistinctClasses m g' := by
  unfold finaliseModel at hr
  split_ifs at hr
  · simp only [Option.bind_eq_some, Option.map_eq_some'] at hr
    obtain ⟨g1, h1, g2, h2, rfl⟩ := hr
    have d1 := h.scaleKeeps num hsym _ h1
    have d2 := d1.ofPerm _ (listSort_perm (compareVariablesByTypeAndIndex g1) _)
    unfold sortEquations at h2
    split_ifs at h2
    simp only [Option.some.injEq] at h2
    subst h2
    exact (d2.ofSameRegistry ⟨rfl, rfl, fun _ => rfl⟩).ofSameRegistry
      (publishVariables_sameRegistry _ _)
  · simp only [Option.some.injEq] at hr
    subst hr
    exact h

/-- The registry is empty after the reset of the members. -/
theorem DistinctClasses.resetHolds (m : Model) (g : GeneratorImpl) :
    DistinctClasses m (resetGenerator g) :=
  ⟨List.nodup_nil, fun _ hp => absurd hp (List.not_mem_nil _),
    fun _ hp => absurd hp (List.not_mem_nil _)⟩

/-- A record of the registry whose representative is the same as, or
equivalent to, a variable is the record that the lookup returns. -/
theorem DistinctClasses.lookupUnique {m : Model}
    (hsym : ∀ a b, m.hasEquivalentVariable a b = true → m.hasEquivalentVariable b a = true)
    (htrans : ∀ a b c, m.hasEquivalentVariable a b = true → m.hasEquivalentVariable b c = true →
      a = c ∨ m.hasEquivalentVariable a c = true)
    {g : GeneratorImpl} (v : Variable) (p : Nat) (h : DistinctClasses m g)
    (hp : p ∈ g.mInternalVariables)
    (hv : sameOrEquivalentVariable m.hasEquivalentVariable (some v)
      (g.internalVariable p).mVariable = true) :
    generatorVariable m g v = (g, p) := by
  rcases generatorVariable_cases m g v with hc | ⟨_, hnone⟩
  · have hq : (generatorVariable m g v).2 = p := by
      by_contra hne
      rcases hw : (g.internalVariable p).mVariable with _ | w
      · rw [hw, sameOrEquivalentVariable_none_right] at hv
        cases hv
      rcases hu : (g.internalVariable (generatorVariable m g v).2).mVariable with _ | u
      · have := hc.2.2
        rw [hu, sameOrEquivalentVariable_none_right] at this
        cases this
      have h3 := h.2.2 _ hc.2.1 p hp hne u w hu hw
      have h4 := hc.2.2
      rw [hu] at h4
      rw [hw] at hv
      have h5 := sameOrEquivalentVariable_trans _ htrans u v w
        (sameOrEquivalentVariable_symm _ hsym v u h4) hv
      rw [h3] at h5
      cases h5
    exact Prod.ext hc.1 hq
  · rw [hnone p hp] at hv
    cases hv

/-- C27: when the equivalence of the variables of the model is symmetric and
transitive (up to identity), the registry never holds two records whose
representatives `mVariable` are the same variable or equivalent variables
(`DistinctClasses`).  The lookup `generatorVariable` keeps this: it returns the
state unchanged with the record `p` whenever a record `p` of the registry has
a representative that is the same as, or equivalent to, the variable, and it
appends one new record when no record has.  The registry is empty after the
reset; `processNode`, the processing of the components, `processEquationAst`,
`check`, `scaleEquationAst`, the analysis and the final post-processing all
keep the invariant, so that it holds of the generator that
`Generator::processModel` returns. -/
theorem processModel_one_record_per_class {F : Type} (m : Model) (num : Numerics F)
    (hsym : ∀ a b, m.hasEquivalentVariable a b = true → m.hasEquivalentVariable b a = true)
    (htrans : ∀ a b c, m.hasEquivalentVariable a b = true → m.hasEquivalentVariable b c = true →
      a = c ∨ m.hasEquivalentVariable a c = true) :
    (∀ g v, DistinctClasses m g →
      DistinctClasses m (generatorVariable m g v).1
      ∧ (∀ p ∈ g.mInternalVariables,
          sameOrEquivalentVariable m.hasEquivalentVariable (some v)
            (g.internalVariable p).mVariable = true →
          generatorVariable m g v = (g, p))
      ∧ ((∀ p ∈ g.mInternalVariables,
            sameOrEquivalentVariable m.hasEquivalentVariable (some v)
              (g.internalVariable p).mVariable = false) →
          generatorVariable m g v
            = ({ g with
                  variableStore :=
                    g.variableStore ++ [GeneratorInternalVariable.setVariable {} v],
                  mInternalVariables := g.mInternalVariables ++ [g.variableStore.length] },
                g.variableStore.length)))
    ∧ (∀ g, DistinctClasses m (resetGenerator g))
    ∧ (∀ component equation fuel node ancestors ast g r, DistinctClasses m g →
        processNode m component equation fuel node ancestors ast g = some r →
        DistinctClasses m r.2)
    ∧ (∀ cs g g', DistinctClasses m g → processComponents m cs g = some g' →
        DistinctClasses m g')
    ∧ (∀ ast astParent astGrandParent astGreatGrandParent g g', DistinctClasses m g →
        processEquationAst m num.isOne ast astParent astGrandParent astGreatGrandParent g
          = some g' →
        DistinctClasses m g')
    ∧ (∀ g self c, DistinctClasses m g →
        DistinctClasses m (check m.hasEquivalentVariable g self c).1)
    ∧ (∀ fuel ast mem g r, DistinctClasses m g →
        scaleEquationAst m num fuel ast mem g = some r → DistinctClasses m r.2)
    ∧ (∀ g g', DistinctClasses m g → analyseModel m num.isOne g = some g' →
        DistinctClasses m g')
    ∧ (∀ g g', DistinctClasses m g → finaliseModel m num g = some g' → DistinctClasses m g')
    ∧ (∀ g g', Generator.processModel m num g = some g' → DistinctClasses m g') := by
  refine ⟨fun g v hg => ⟨hg.lookup hsym v,
      fun p hp hv => DistinctClasses.lookupUnique hsym htrans v p hg hp hv, fun hnone => ?_⟩,
    DistinctClasses.resetHolds m, ?_, ?_, ?_, ?_, ?_, ?_, ?_, ?_⟩
  · rcases generatorVariable_cases m g v with hc | ⟨hc, _⟩
    · have := hc.2.2
      rw [hnone _ hc.2.1] at this
      cases this
    · exact hc
  · intro component equation fuel node ancestors ast g r hg h
    exact @processNode_keeps m (DistinctClasses m) (fun _ _ hs hp => hp.ofSameRegistry hs)
      (fun _ v hp => hp.lookup hsym v) component equation fuel node ancestors ast g r hg h
  · intro cs g g' hg h
    exact DistinctClasses.componentsKeep hsym htrans cs g g' hg h
  · intro ast p gp ggp g g' hg h
    exact @processEquationAst_related m (fun a b => DistinctClasses m a → DistinctClasses m b)
      (fun _ x => x) (fun _ _ _ f1 f2 x => f2 (f1 x))
      (fun _ _ hs x => x.ofSameRegistry hs) (fun _ v x => x.lookup hsym v) num.isOne
      ast p gp ggp g g' h hg
  · intro g self c hg
    exact DistinctClasses.checkKeeps hsym htrans self c hg
  · intro fuel ast mem g r hg h
    exact @scaleEquationAst_related m (fun a b => DistinctClasses m a → DistinctClasses m b)
      F num (fun _ x => x) (fun _ _ _ f1 f2 x => f2 (f1 x))
      (fun _ v x => x.lookup hsym v) fuel ast mem g r h hg
  · intro g g' hg h
    exact hg.analyseKeeps hsym htrans num.isOne h
  · intro g g' hg h
    exact hg.finaliseKeeps num hsym h
  · intro g g' h
    unfold Generator.processModel at h
    simp only [Option.bind_eq_some] at h
    obtain ⟨g1, h1, h2⟩ := h
    unfold processModel at h2
    simp only [Option.bind_eq_some] at h2
    obtain ⟨g2, h3, h4⟩ := h2
    have d1 := DistinctClasses.componentsKeep hsym htrans _ _ g1
      (DistinctClasses.resetHolds m g) h1
    exact (d1.analyseKeeps hsym htrans num.isOne h3).finaliseKeeps num hsym h4

/-- Witness for C27, on the model of the two components `first` (`dx/dt = 1`)
and `second` (`y = t2`) whose variables `t` and `t2` are equivalent: the
relation is symmetric and transitive, `Generator::processModel` returns, the
four variables have three records, the registry holds one record per class,
and the lookup of `t2` returns the record of `t`. -/
theorem processModel_one_record_per_class_witness :
    ((∀ a b, SharedTime.model.hasEquivalentVariable a b = true →
        SharedTime.model.hasEquivalentVariable b a = true)
      ∧ (∀ a b c, SharedTime.model.hasEquivalentVariable a b = true →
          SharedTime.model.hasEquivalentVariable b c = true →
          a = c ∨ SharedTime.model.hasEquivalentVariable a c = true))
    ∧ Generator.processModel SharedTime.model DependentEqns.numerics {}
        = some SharedTime.processed
    ∧ SharedTime.processed.mInternalVariables = [1, 0, 2]
    ∧ (SharedTime.processed.internalVariable 1).mVariable = some SharedTime.t
    ∧ DistinctClasses SharedTime.model SharedTime.processed
    ∧ generatorVariable SharedTime.model SharedTime.processed SharedTime.t2
        = (SharedTime.processed, 1) := by
  have hsym : ∀ a b, SharedTime.model.hasEquivalentVariable a b = true →
      SharedTime.model.hasEquivalentVariable b a = true := by
    intro a b h
    simp only [SharedTime.model, decide_eq_true_eq] at h ⊢
    exact h.symm
  have htrans : ∀ a b c, SharedTime.model.hasEquivalentVariable a b = true →
      SharedTime.model.hasEquivalentVariable b c = true →
      a = c ∨ SharedTime.model.hasEquivalentVariable a c = true := by
    intro a b c h1 h2
    simp only [SharedTime.model, decide_eq_true_eq] at h1 h2 ⊢
    exact Or.inr (h1.trans h2)
  have key := processModel_one_record_per_class SharedTime.model DependentEqns.numerics
    hsym htrans
  have hrun : Generator.processModel SharedTime.model DependentEqns.numerics {}
      = some SharedTime.processed := by decide
  have hd := key.2.2.2.2.2.2.2.2.2 {} SharedTime.processed hrun
  exact ⟨⟨hsym, htrans⟩, hrun, by decide, by decide, hd,
    (key.1 SharedTime.processed SharedTime.t2 hd).2.1 1 (by decide) (by decide)⟩

/-! ## C33: the operands of `not` and of the comparisons -/

/-- C33, with the default (C) profile, which renders `not`, `and`, `or`, the
comparisons and the conditional as operators: `generateCode` renders
`not (a and b)` as `!variables[0] && variables[1]`, the text that it also
produces for `(not a) and b`, and `not (a + b)` as `!variables[0]+variables[1]`;
it renders `a == (b and c)` as `variables[0] == variables[1] && variables[2]`,
`(a or b) < c` as `variables[0] || variables[1] < variables[2]`, and a
comparison whose left operand is a piecewise statement without parentheses
around that statement.  No operand is put inside parentheses. -/
theorem generateCode_not_and_comparison_operands :
    ({} : GeneratorProfile).hasNotOperator = true
    ∧ ({} : GeneratorProfile).isRelationalOperator Unparenthesised.eqOfAnd = true
    ∧ ({} : GeneratorProfile).isRelationalOperator Unparenthesised.ltOfOr = true
    ∧ ({} : GeneratorProfile).isLogicalOperator Unparenthesised.notOfAnd.mLeft = true
    ∧ ({} : GeneratorProfile).isLogicalOperator Unparenthesised.eqOfAnd.mRight = true
    ∧ ({} : GeneratorProfile).isLogicalOperator Unparenthesised.ltOfOr.mLeft = true
    ∧ ({} : GeneratorProfile).isPiecewiseStatement Unparenthesised.ltOfPiecewise.mLeft = true
    ∧ (generateCode {} UnaryPlus.model DependentEqns.numerics Unparenthesised.notOfAnd
        (some GeneratorEquationAstType.ASSIGNMENT) UnaryPlus.generator).map (fun r => r.1)
      = some "!variables[0] && variables[1]"
    ∧ (generateCode {} UnaryPlus.model DependentEqns.numerics Unparenthesised.andOfNot
        (some GeneratorEquationAstType.ASSIGNMENT) UnaryPlus.generator).map (fun r => r.1)
      = some "!variables[0] && variables[1]"
    ∧ (generateCode {} UnaryPlus.model DependentEqns.numerics Unparenthesised.notOfSum
        (some GeneratorEquationAstType.ASSIGNMENT) UnaryPlus.generator).map (fun r => r.1)
      = some "!variables[0]+variables[1]"
    ∧ (generateCode {} UnaryPlus.model DependentEqns.numerics Unparenthesised.eqOfAnd
        (some GeneratorEquationAstType.ASSIGNMENT) UnaryPlus.generator).map (fun r => r.1)
      = some "variables[0] == variables[1] && variables[2]"
    ∧ (generateCode {} UnaryPlus.model DependentEqns.numerics Unparenthesised.ltOfOr
        (some GeneratorEquationAstType.ASSIGNMENT) UnaryPlus.generator).map (fun r => r.1)
      = some "variables[0] || variables[1] < variables[2]"
    ∧ (generateCode {} UnaryPlus.model DependentEqns.numerics Unparenthesised.ltOfPiecewise
        (some GeneratorEquationAstType.ASSIGNMENT) UnaryPlus.generator).map (fun r => r.1)
      = some "(variables[1])?variables[0]:sqrt(-1.0) < variables[2]" := by
  refine ⟨by decide, by decide, by decide, by decide, by decide, by decide, by decide,
    by decide, by decide, by decide, by decide, by decide, by decide⟩

/-! ## C37: the left-hand side of an ordered equation -/

/-- C37, at the model with the constant `k` (initialised to `1`), the
variable `x` and the single equation `k = x`: `Generator::processModel`
returns without issue and finds the model `ALGEBRAIC`; the equation has the
order `0` and is recorded as computing the record of `x`, which is tagged as
a computed constant and addressed as `variables[1]`; yet the left-hand side
of its tree is the reference to `k`, and the statement emitted for it, in the
body of `computeComputedConstants`, is `variables[0] = variables[1];`, which
assigns to the constant `k` and not to `x`. -/
theorem processModel_assigns_left_hand_side :
    Generator.processModel WrongSide.model DependentEqns.numerics {}
      = some WrongSide.processed
    ∧ WrongSide.processed.errors = []
    ∧ Generator.modelType WrongSide.processed = ModelType.ALGEBRAIC
    ∧ WrongSide.processed.mEquations = [0]
    ∧ (WrongSide.processed.equation 0).mOrder = 0
    ∧ (WrongSide.processed.equation 0).mVariable = some 1
    ∧ (WrongSide.processed.internalVariable 1).mVariable = some WrongSide.x
    ∧ (WrongSide.processed.internalVariable 1).mType
        = GeneratorInternalVariableType.COMPUTED_VARIABLE_BASED_CONSTANT
    ∧ (WrongSide.processed.internalVariable 0).mVariable = some WrongSide.k
    ∧ (WrongSide.processed.internalVariable 0).mType = GeneratorInternalVariableType.CONSTANT
    ∧ (WrongSide.processed.equation 0).mAst
      = GeneratorEquationAst.assignment (GeneratorEquationAst.ci WrongSide.k)
          (GeneratorEquationAst.ci WrongSide.x)
    ∧ (generateVariableNameCode {} WrongSide.model (some WrongSide.x) none
        WrongSide.processed).map (fun r => r.1) = some "variables[1]"
    ∧ (generateVariableNameCode {} WrongSide.model (some WrongSide.k) none
        WrongSide.processed).map (fun r => r.1) = some "variables[0]"
    ∧ (emittedEquations {} WrongSide.processed).map (fun e => e.computeComputedConstants)
        = some [0]
    ∧ (generateEquationStatements {} WrongSide.model DependentEqns.numerics [0]
        WrongSide.processed).map (fun r => r.1) = some "    variables[0] = variables[1];\n" := by
  refine ⟨by decide, by decide, by decide, by decide, by decide, by decide, by decide, ?_⟩
  exact ⟨by decide, by decide, by decide, by decide, by decide, by decide, by decide, by decide⟩

/-! ## C38: the equations of a model that is found valid -/

/-- C38, at two models.  With the variable `x`, the constant `y` and the
equations `x = 2` and `x = y`, stored in this order, the analysis of
`processModel` records no issue and classifies the model as `ALGEBRAIC`, yet
the equation `x = y` has no order and no computed variable; the sort of the
equations with `compareEquationsByVariable` then reads this absent variable,
and `Generator::processModel` does not return.  With the states `x` and `z`
and the single equation `dx/dt + dz/dt = 1`, `Generator::processModel` returns
with the type `ODE`, yet the equation has no order and no computed variable,
and neither state has an index. -/
theorem processModel_valid_with_unordered_equation :
    (processComponents
        (Reordered.model Reordered.small [Reordered.byValue, Reordered.byVariable])
        [ComponentEntity.mk Reordered.small []] {}).bind
      (analyseModel (Reordered.model Reordered.small [Reordered.byValue, Reordered.byVariable])
        DependentEqns.numerics.isOne) = some Reordered.analysed
    ∧ Reordered.analysed.mModelType = ModelType.ALGEBRAIC
    ∧ Reordered.analysed.errors = []
    ∧ Reordered.analysed.mEquations = [0, 1]
    ∧ (Reordered.analysed.equation 0).mOrder = 0
    ∧ (Reordered.analysed.equation 1).mOrder = MAX_SIZE_T
    ∧ (Reordered.analysed.equation 1).mVariable = none
    ∧ (Reordered.analysed.equation 1).mAst
      = GeneratorEquationAst.assignment (GeneratorEquationAst.ci Reordered.x)
          (GeneratorEquationAst.ci Reordered.y)
    ∧ sortEquations Reordered.analysed = none
    ∧ Generator.processModel
        (Reordered.model Reordered.small [Reordered.byValue, Reordered.byVariable])
        DependentEqns.numerics {} = none
    ∧ Generator.processModel TwoRates.model DependentEqns.numerics {} = some TwoRates.processed
    ∧ Generator.modelType TwoRates.processed = ModelType.ODE
    ∧ TwoRates.processed.mEquations = [0]
    ∧ (TwoRates.processed.equation 0).mOrder = MAX_SIZE_T
    ∧ (TwoRates.processed.equation 0).mVariable = none
    ∧ (TwoRates.processed.mStates.map fun s => s.mVariable) = [some TwoRates.x, some TwoRates.z]
    ∧ (∀ p ∈ TwoRates.processed.mInternalVariables,
        (TwoRates.processed.internalVariable p).mType = GeneratorInternalVariableType.STATE →
          (TwoRates.processed.internalVariable p).mIndex = MAX_SIZE_T) := by
  refine ⟨by decide, by decide, by decide, by decide, by decide, by decide, by decide, by
    decide, ?_⟩
  exact ⟨by decide, by decide, by decide, by decide, by decide, by decide, by decide, by decide,
    by decide⟩

/-! ## C32: the variables read in the body of compute-variables -/

set_option maxRecDepth 8000 in
/-- C32, as stated, fails at the model with the equations `dx/dt = a`,
`a = t` and `b = a`, where `t` is the variable of integration and `x` a state:
`Generator::processModel` returns without issue and finds the model `ODE`.
The variable `a` is tagged `ALGEBRAIC` (it is not the variable of
integration, a state, a constant or a computed constant) and is computed by
the equation `a = t`, which is not state/rate based.  With the default (C)
profile the body of compute-rates holds the equations `a = t` and `dx/dt = a`,
and the body of compute-variables holds the equation `b = a` alone: its
statement `variables[1] = variables[0];` reads `a`, which no statement of that
body assigns and which compute-rates alone assigns. -/
theorem implementationCode_computeVariables_reads_unassigned :
    Generator.processModel StaleRead.model DependentEqns.numerics {}
      = some StaleRead.processed
    ∧ StaleRead.processed.errors = []
    ∧ Generator.modelType StaleRead.processed = ModelType.ODE
    ∧ (StaleRead.processed.internalVariable 1).mVariable = some StaleRead.a
    ∧ (StaleRead.processed.internalVariable 1).mType = GeneratorInternalVariableType.ALGEBRAIC
    ∧ (StaleRead.processed.internalVariable 1).mEquation = some 1
    ∧ (StaleRead.processed.equation 1).mVariable = some 1
    ∧ (StaleRead.processed.equation 1).mType = GeneratorEquationType.ALGEBRAIC
    ∧ (StaleRead.processed.equation 1).mIsStateRateBased = false
    ∧ (StaleRead.processed.equation 2).mAst
      = GeneratorEquationAst.assignment (GeneratorEquationAst.ci StaleRead.b)
          (GeneratorEquationAst.ci StaleRead.a)
    ∧ (StaleRead.processed.equation 2).mDependencies = [1]
    ∧ emittedEquations {} StaleRead.processed
      = some { initializeStatesAndConstants := [], computeComputedConstants := [],
               computeRates := [1, 0], computeVariables := [2], remainingEquations := [2] }
    ∧ (generateEquationStatements {} StaleRead.model DependentEqns.numerics [1, 0]
        StaleRead.processed).map (fun r => r.1)
      = some "    variables[0] = voi;\n    rates[0] = variables[0];\n"
    ∧ (generateEquationStatements {} StaleRead.model DependentEqns.numerics [2]
        StaleRead.processed).map (fun r => r.1) = some "    variables[1] = variables[0];\n"
    ∧ (Generator.implementationCode {} StaleRead.model DependentEqns.numerics ""
        StaleRead.processed).map (fun r => r.1)
      = some "void initializeStatesAndConstants(double *states, double *variables)\n\x7b\n    states[0] = 0.0;\n\x7d\n\nvoid computeComputedConstants(double *variables)\n\x7b\n\x7d\n\nvoid computeRates(double voi, double *states, double *rates, double *variables)\n\x7b\n    variables[0] = voi;\n    rates[0] = variables[0];\n\x7d\n\nvoid computeVariables(double voi, double *states, double *rates, double *variables)\n\x7b\n    variables[1] = variables[0];\n\x7d\n" := by
  refine ⟨by decide, by decide, by decide, by decide, by decide, by decide, by decide, ?_⟩
  exact ⟨by decide, by decide, by decide, by decide, by decide, by decide, by decide, by decide⟩

/-! ## C35: a tag never goes back to `UNKNOWN` -/

theorem KeepsTags.reflTags (g : GeneratorImpl) : KeepsTags g g := fun _ h => h

theorem KeepsTags.transTags {g g' g'' : GeneratorImpl} (h1 : KeepsTags g g')
    (h2 : KeepsTags g' g'') : KeepsTags g g'' := fun q h => h2 q (h1 q h)

theorem KeepsTags.ofStore {g g' : GeneratorImpl} (h : g'.variableStore = g.variableStore) :
    KeepsTags g g' := by
  intro q hq
  unfold GeneratorImpl.internalVariable at hq ⊢
  rw [h]
  exact hq

theorem internalVariable_default (g : GeneratorImpl) (q : Nat) (h : g.variableStore.length ≤ q) :
    g.internalVariable q = default := by
  unfold GeneratorImpl.internalVariable
  rw [List.getD_eq_getElem?_getD, List.getElem?_eq_none h]
  rfl

theorem KeepsTags.ofGrow {g g' : GeneratorImpl} (h : Grow g g') : KeepsTags g g' := by
  intro q hq
  by_cases hl : q < g.variableStore.length
  · rw [h.internalVariable q hl]
    exact hq
  · rw [internalVariable_default g q (Nat.le_of_not_lt hl)] at hq
    exact absurd rfl hq

theorem setVariable_mType_ne_unknown (self : GeneratorInternalVariable) (v : Variable)
    (h : self.mType ≠ GeneratorInternalVariableType.UNKNOWN) :
    (self.setVariable v).mType ≠ GeneratorInternalVariableType.UNKNOWN := by
  unfold GeneratorInternalVariable.setVariable
  dsimp only
  split_ifs
  · simp
  · exact h

theorem makeState_mType_ne_unknown (self : GeneratorInternalVariable) :
    self.makeState.mType ≠ GeneratorInternalVariableType.UNKNOWN := by
  unfold GeneratorInternalVariable.makeState
  split_ifs with h1 h2
  · simp
  · simp
  · exact h1

theorem computedType_ne_unknown (this : GeneratorEquation) :
    computedType this ≠ GeneratorInternalVariableType.UNKNOWN := by
  unfold computedType
  split_ifs <;> simp

theorem KeepsTags.setRecord (g : GeneratorImpl) (p : Nat) (x : GeneratorInternalVariable)
    (h : (g.internalVariable p).mType ≠ GeneratorInternalVariableType.UNKNOWN →
      x.mType ≠ GeneratorInternalVariableType.UNKNOWN) :
    KeepsTags g (g.setInternalVariable p x) := by
  intro q hq
  rw [GeneratorImpl.internalVariable_setInternalVariable]
  split_ifs with hc
  · obtain ⟨rfl, _⟩ := hc
    exact h hq
  · exact hq

theorem KeepsTags.thenSetEquation {g g' : GeneratorImpl} (h : KeepsTags g g') (e : Nat)
    (y : GeneratorEquation) : KeepsTags g (g'.setEquation e y) :=
  h.transTags (KeepsTags.ofStore rfl)

theorem updateVariable_mType_ne_unknown (hEq : Variable → Variable → Bool)
    (this : GeneratorEquation) (var : GeneratorInternalVariable) :
    (updateVariable hEq this var).mType ≠ GeneratorInternalVariableType.UNKNOWN := by
  rw [(updateVariable_fields hEq this var).2.2]
  split_ifs with h
  · exact computedType_ne_unknown this
  · exact h

theorem check_keepsTags (hEq : Variable → Variable → Bool) (g : GeneratorImpl) (self : Nat)
    (c : Counters) : KeepsTags g (check hEq g self c).1 := by
  apply check_elim hEq g self c (fun r => KeepsTags g r.1)
  · intro _; exact KeepsTags.reflTags g
  · intro _ _
    exact KeepsTags.setRecord g _ _ (fun _ => by simp)
  · intro _ _ _
    exact KeepsTags.ofStore rfl
  · intro _ _ _ _
    exact (KeepsTags.setRecord g _ _
      (fun _ => updateVariable_mType_ne_unknown hEq _ _)).thenSetEquation _ _
  · intro _ _ _ _
    unfold checkResolved
    dsimp only
    have h1 := KeepsTags.setRecord g (soleVariable (updateTracking g (g.equation self)))
      { updateVariable hEq (updateTracking g (g.equation self))
          (g.internalVariable (soleVariable (updateTracking g (g.equation self)))) with
        mIndex := assignedIndex (updateVariable hEq (updateTracking g (g.equation self))
            (g.internalVariable (soleVariable (updateTracking g (g.equation self))))).mType
          (nextCounters (updateVariable hEq (updateTracking g (g.equation self))
            (g.internalVariable (soleVariable (updateTracking g (g.equation self))))).mType c),
        mEquation := some self }
      (fun _ => updateVariable_mType_ne_unknown hEq _ _)
    exact h1.thenSetEquation _ _

theorem resolveEquations_keepsTags (hEq : Variable → Variable → Bool) (fuel : Nat)
    (g : GeneratorImpl) (c : Counters) (r : GeneratorImpl × Counters)
    (h : resolveEquations hEq fuel g c = some r) : KeepsTags g r.1 :=
  resolveEquations_invariant hEq (fun x _ => KeepsTags g x)
    (fun x c self _ hx => hx.transTags (check_keepsTags hEq x self c)) fuel g c r
    (KeepsTags.reflTags g) h

theorem prePass_keepsTags (m : Model) (isOne : String → Bool) (g g' : GeneratorImpl)
    (h : prePass m isOne g = some g') : KeepsTags g g' := by
  obtain ⟨_, _, _, _, _, _, hrec⟩ := prePass_frame m isOne g g' h
  intro q hq
  rcases (hrec q).2.2 with h1 | h1 | h1 | h1 | h1
  · rw [h1]; exact hq
  all_goals rw [h1]; simp

theorem classifyModel_keepsTags (m : Model) (g g' : GeneratorImpl)
    (h : classifyModel m g = some g') : KeepsTags g g' := by
  unfold classifyModel at h
  dsimp only at h
  split_ifs at h
  · simp only [Option.map_eq_some'] at h
    obtain ⟨r, hr, rfl⟩ := h
    have h1 : KeepsTags g (enterResolution g).1 := fun q hq => by
      rw [(enterResolution_records g q).2.1]; exact hq
    have h2 := resolveEquations_keepsTags _ _ _ _ r hr
    have h3 : KeepsTags r.1 (reportInvalidVariables r.1.mInternalVariables r.1) :=
      KeepsTags.ofStore (reportInvalidVariables_frame _ _).2.2.2.2.1
    have h4 : KeepsTags (reportInvalidVariables r.1.mInternalVariables r.1)
        (determineModelType (reportInvalidVariables r.1.mInternalVariables r.1)) :=
      KeepsTags.ofStore (determineModelType_frame _).2.2.2.1
    exact h1.transTags (h2.transTags (h3.transTags h4))
  · simp only [Option.some.injEq] at h
    subst h
    exact KeepsTags.ofStore rfl

theorem analyseModel_keepsTags (m : Model) (isOne : String → Bool) (g g' : GeneratorImpl)
    (h : analyseModel m isOne g = some g') : KeepsTags g g' := by
  unfold analyseModel at h
  simp only [Option.bind_eq_some] at h
  obtain ⟨g1, h1, h2⟩ := h
  have h0 : KeepsTags g (resetResults g) := KeepsTags.ofStore rfl
  exact h0.transTags ((prePass_keepsTags m isOne _ g1 h1).transTags
    (classifyModel_keepsTags m g1 g' h2))

theorem scaleEquations_keepsTags {F : Type} (m : Model) (num : Numerics F) :
    ∀ (es : List Nat) (g g' : GeneratorImpl),
      scaleEquations m num es g = some g' → KeepsTags g g'
  | [], g, g', h => by
    simp only [scaleEquations, Option.some.injEq] at h; subst h; exact KeepsTags.reflTags _
  | e :: es, g, g', h => by
    simp only [scaleEquations, Option.bind_eq_some] at h
    obtain ⟨r, hr, h⟩ := h
    have h1 : KeepsTags g r.2 := by
      unfold scaleEquation at hr
      simp only [Option.bind_eq_some, Option.map_eq_some'] at hr
      obtain ⟨root, _, s, hs, t, _, rfl⟩ := hr
      exact @scaleEquationAst_related m KeepsTags F num KeepsTags.reflTags
        (fun _ _ _ a b => a.transTags b)
        (fun x v => KeepsTags.ofGrow (generatorVariable_grow m x v)) _ _ _ _ _ hs
    have h2 := scaleEquations_keepsTags m num es _ g' h
    refine h1.transTags (KeepsTags.transTags ?_ h2)
    exact KeepsTags.ofStore rfl

theorem finaliseModel_keepsTags {F : Type} (m : Model) (num : Numerics F) (g g' : GeneratorImpl)
    (h : finaliseModel m num g = some g') : KeepsTags g g' := by
  unfold finaliseModel at h
  split_ifs at h
  · simp only [Option.bind_eq_some, Option.map_eq_some'] at h
    obtain ⟨g1, h1, g2, h2, rfl⟩ := h
    have d1 := scaleEquations_keepsTags m num _ g g1 h1
    unfold sortEquations at h2
    split_ifs at h2
    simp only [Option.some.injEq] at h2
    subst h2
    refine d1.transTags (KeepsTags.ofStore ?_)
    rw [(publishVariables_frame _ _).2.2.2.2.1]
  · simp only [Option.some.injEq] at h
    subst h
    exact KeepsTags.reflTags g

theorem processComponentVariable_keepsTags (m : Model) (component : Component)
    (g g' : GeneratorImpl) (v : Variable)
    (h : processComponentVariable m component g v = some g') : KeepsTags g g' := by
  have hl : KeepsTags g (generatorVariable m g v).1 :=
    KeepsTags.ofGrow (generatorVariable_grow m g v)
  unfold processComponentVariable at h
  dsimp only at h
  split_ifs at h
  · simp only [Option.map_eq_some'] at h
    obtain ⟨tracked, _, rfl⟩ := h
    split_ifs
    · exact hl.transTags (KeepsTags.setRecord _ _ _
        (fun hq => setVariable_mType_ne_unknown _ v hq))
    · exact hl.transTags (KeepsTags.ofStore rfl)
    · exact hl
  · simp only [Option.some.injEq] at h
    subst h
    exact hl

/-- C35: no operation of a pass changes the tag of a record from a value
other than `UNKNOWN` back to `UNKNOWN`.  `setVariable` and `makeState` keep a
tag that is not `UNKNOWN` away from `UNKNOWN`, and `makeVoi` sets the tag
`VARIABLE_OF_INTEGRATION`; a call of `check` leaves no record that had
another tag with the tag `UNKNOWN`.  The same holds of the steps of
`processModel` that call them: the processing of a variable of a component,
the pre-pass, the resolution loop, the analysis, the final post-processing,
and `processModel` as a whole. -/
theorem tag_never_back_to_unknown {F : Type} (m : Model) (num : Numerics F) :
    (∀ (self : GeneratorInternalVariable) (v : Variable),
      self.mType ≠ GeneratorInternalVariableType.UNKNOWN →
      (self.setVariable v).mType ≠ GeneratorInternalVariableType.UNKNOWN)
    ∧ (∀ self : GeneratorInternalVariable,
        self.makeVoi.mType = GeneratorInternalVariableType.VARIABLE_OF_INTEGRATION)
    ∧ (∀ self : GeneratorInternalVariable,
        self.makeState.mType ≠ GeneratorInternalVariableType.UNKNOWN)
    ∧ (∀ g self c q,
        (g.internalVariable q).mType ≠ GeneratorInternalVariableType.UNKNOWN →
        ((check m.hasEquivalentVariable g self c).1.internalVariable q).mType
          ≠ GeneratorInternalVariableType.UNKNOWN)
    ∧ (∀ component g v g', processComponentVariable m component g v = some g' →
        KeepsTags g g')
    ∧ (∀ g g', prePass m num.isOne g = some g' → KeepsTags g g')
    ∧ (∀ fuel g c r, resolveEquations m.hasEquivalentVariable fuel g c = some r →
        KeepsTags g r.1)
    ∧ (∀ g g', analyseModel m num.isOne g = some g' → KeepsTags g g')
    ∧ (∀ g g', finaliseModel m num g = some g' → KeepsTags g g')
    ∧ (∀ g g', processModel m num g = some g' → KeepsTags g g') := by
  refine ⟨setVariable_mType_ne_unknown, fun _ => rfl, makeState_mType_ne_unknown,
    fun g self c => check_keepsTags _ g self c,
    fun component g v g' h => processComponentVariable_keepsTags m component g g' v h,
    prePass_keepsTags m num.isOne,
    fun fuel g c r h => resolveEquations_keepsTags _ fuel g c r h,
    analyseModel_keepsTags m num.isOne, finaliseModel_keepsTags m num, ?_⟩
  intro g g' h
  unfold processModel at h
  simp only [Option.bind_eq_some] at h
  obtain ⟨g2, h2, h3⟩ := h
  exact (analyseModel_keepsTags m num.isOne g g2 h2).transTags
    (finaliseModel_keepsTags m num g2 g' h3)

/-- C35, at the model of the equations `dx/dtime = a`, `a = k*x` and `k = 2`:
`processModel` returns, and no record that has a tag other than `UNKNOWN`
when the components have been processed is tagged `UNKNOWN` in the end; the
record of `x`, a constant after the declarations, is a state in the end. -/
theorem tag_never_back_to_unknown_witness :
    processModel StateBased.model DependentEqns.numerics StateBased.generator
      = some StateBased.processed
    ∧ KeepsTags StateBased.generator StateBased.processed
    ∧ (StateBased.generator.internalVariable 0).mType = GeneratorInternalVariableType.CONSTANT
    ∧ (StateBased.processed.internalVariable 0).mType = GeneratorInternalVariableType.STATE :=
  ⟨by decide,
    (tag_never_back_to_unknown StateBased.model DependentEqns.numerics).2.2.2.2.2.2.2.2.2
      StateBased.generator StateBased.processed (by decide),
    by decide, by decide⟩

/-! ## C39: the dependencies of an equation come before it -/

theorem forDependencies_isSome (f : Nat → List Nat → Option (List Nat × List Nat)) :
    ∀ (ds : List Nat) (res R : List Nat), (∀ d ∈ ds, ∀ R', ∃ r, f d R' = some r) →
      ∃ r, forDependencies f ds res R = some r
  | [], res, R, _ => ⟨(res, R), rfl⟩
  | d :: ds, res, R, h => by
    obtain ⟨r, hr⟩ := h d (List.mem_cons_self _ _) R
    unfold forDependencies
    rw [hr]
    exact forDependencies_isSome f ds _ _ (fun x hx => h x (List.mem_cons_of_mem _ hx))

/-- The recursion of `generateEquationCode` ends when the fuel exceeds the
value, at the equation, of a function that decreases along the dependencies. -/
theorem generateEquationCode_isSome (g : GeneratorImpl) (only : Bool) (rk : Nat → Nat)
    (hrk : ∀ e d, d ∈ (g.equation e).mDependencies → rk d < rk e) :
    ∀ (fuel e : Nat) (R : List Nat), rk e < fuel →
      ∃ r, generateEquationCode g only fuel e R = some r
  | 0, _, _, h => absurd h (Nat.not_lt_zero _)
  | fuel + 1, e, R, h => by
    have hin := forDependencies_isSome
      (fun dependency remaining =>
        if !only
            || (decide ((g.equation dependency).mType = GeneratorEquationType.ALGEBRAIC)
                && (g.equation dependency).mIsStateRateBased) then
          generateEquationCode g only fuel dependency remaining
        else some ([], remaining))
      (g.equation e).mDependencies [] R
      (fun d hd R' => by
        dsimp only
        split_ifs
        · exact generateEquationCode_isSome g only rk hrk fuel d R'
            (by have := hrk e d hd; omega)
        · exact ⟨_, rfl⟩)
    obtain ⟨r, hr⟩ := hin
    unfold generateEquationCode
    rw [hr]
    dsimp only
    split_ifs
    · exact ⟨_, rfl⟩
    · exact ⟨_, rfl⟩

theorem transGen_rank_lt (g : GeneratorImpl) (rk : Nat → Nat)
    (hrk : ∀ e d, d ∈ (g.equation e).mDependencies → rk d < rk e) (e d : Nat)
    (h : Relation.TransGen (DependsOn g) e d) : rk d < rk e := by
  induction h with
  | single h1 => exact hrk _ _ h1
  | tail _ h2 ih => exact lt_trans (hrk _ _ h2) ih

/-- C39: for a generator `g` as the processing of the components leaves it
and the generator `g3` that `processModel` returns, every equation `d` of the
dependency list of an equation `e` has an order, which is smaller than the
order of `e` when `e` has one; no equation depends on itself, directly or
through other equations; and, for every equation, every list of remaining
equations and either value of the flag, the recursion of
`generateEquationCode` over the dependencies ends within the fuel of one unit
per equation plus one. -/
theorem generateEquationCode_dependencies_ordered {F : Type} (m : Model) (num : Numerics F)
    (g g3 : GeneratorImpl) (hb : Built g) (h : processModel m num g = some g3) :
    (∀ e d, DependsOn g3 e d →
      (g3.equation d).mOrder ≠ MAX_SIZE_T
      ∧ ((g3.equation e).mOrder ≠ MAX_SIZE_T →
          (g3.equation d).mOrder < (g3.equation e).mOrder))
    ∧ (∀ e, ¬ Relation.TransGen (DependsOn g3) e e)
    ∧ ∀ (only : Bool) (e : Nat) (R : List Nat),
        ∃ r, generateEquationCode g3 only (g3.equationStore.length + 1) e R = some r := by
  obtain ⟨hem, hord⟩ := processModel_emitFacts m num g g3 hb h
  have hrk : ∀ e d, d ∈ (g3.equation e).mDependencies →
      emissionRank g3 d < emissionRank g3 e := emissionRank_lt g3 hem
  refine ⟨fun e d hd => ⟨(hem.rank e d hd).1, (hem.rank e d hd).2.2⟩, fun e hc => ?_,
    fun only e R => ?_⟩
  · exact absurd (transGen_rank_lt g3 _ hrk e e hc) (lt_irrefl _)
  · exact generateEquationCode_isSome g3 only _ hrk _ e R (emissionRank_le g3 e (hord e))

/-- C39, at the model of the equations `dx/dtime = a`, `a = k*x` and `k = 2`:
the hypotheses hold; the equation `dx/dtime = a` depends on `a = k*x`, which
depends on `k = 2`, their orders are `2`, `1` and `0`, and the emission of the
first equation ends with the three equations in the order of their orders. -/
theorem generateEquationCode_dependencies_ordered_witness :
    (Built StateBased.generator
      ∧ processModel StateBased.model DependentEqns.numerics StateBased.generator
          = some StateBased.processed)
    ∧ (StateBased.processed.equation 0).mDependencies = [1]
    ∧ (StateBased.processed.equation 1).mDependencies = [2]
    ∧ (StateBased.processed.equation 0).mOrder = 2
    ∧ (StateBased.processed.equation 1).mOrder = 1
    ∧ (StateBased.processed.equation 2).mOrder = 0
    ∧ generateEquationCode StateBased.processed false 4 0 [0, 1, 2] = some ([2, 1, 0], [])
    ∧ ((∀ e d, DependsOn StateBased.processed e d →
        (StateBased.processed.equation d).mOrder ≠ MAX_SIZE_T
        ∧ ((StateBased.processed.equation e).mOrder ≠ MAX_SIZE_T →
            (StateBased.processed.equation d).mOrder < (StateBased.processed.equation e).mOrder))
      ∧ (∀ e, ¬ Relation.TransGen (DependsOn StateBased.processed) e e)
      ∧ ∀ (only : Bool) (e : Nat) (R : List Nat),
          ∃ r, generateEquationCode StateBased.processed only
            (StateBased.processed.equationStore.length + 1) e R = some r) :=
  ⟨⟨by decide, by decide⟩, by decide, by decide, by decide, by decide, by decide, by decide,
    generateEquationCode_dependencies_ordered StateBased.model DependentEqns.numerics
      StateBased.generator StateBased.processed (by decide) (by decide)⟩

/-! ## C31: the references of a derivative -/

theorem isMathmlElement_other (node : XmlNode) (a b : String)
    (h : node.isMathmlElement a = true) (hab : a ≠ b) : node.isMathmlElement b = false := by
  unfold XmlNode.isMathmlElement at h ⊢
  simp only [Bool.and_eq_true, decide_eq_true_eq] at h
  simp only [Bool.and_eq_false_imp, decide_eq_false_iff_not]
  intro _ hb
  exact hab (h.2.symm.trans hb)

theorem addOdeVariable_spec (self : GeneratorEquation) (p : Nat) :
    p ∈ (self.addOdeVariable p).mOdeVariables
    ∧ (self.addOdeVariable p).mVariables = self.mVariables := by
  unfold GeneratorEquation.addOdeVariable
  split_ifs with h
  · exact ⟨h, rfl⟩
  · exact ⟨List.mem_append_right _ (List.mem_singleton_self p), rfl⟩

theorem addVariable_spec (self : GeneratorEquation) (p : Nat) :
    p ∈ (self.addVariable p).mVariables
    ∧ (self.addVariable p).mOdeVariables = self.mOdeVariables := by
  unfold GeneratorEquation.addVariable
  split_ifs with h
  · exact ⟨h, rfl⟩
  · exact ⟨List.mem_append_right _ (List.mem_singleton_self p), rfl⟩

/-- The branch of `processNode` for a `ci` element that names a variable of
the component. -/
theorem processNode_ci (m : Model) (component : Component) (equation fuel : Nat)
    (node first : XmlNode) (ancestors : List XmlNode) (v : Variable)
    (ast : GeneratorEquationAst) (g : GeneratorImpl)
    (hci : node.isMathmlElement "ci" = true)
    (hfirst : node.children.head? = some first)
    (hv : component.variableByName first.convertToString = some v) :
    processNode m component equation (fuel + 1) node ancestors ast g
      = (trackVariable m equation ancestors v g).map fun g' =>
          (GeneratorEquationAst.ci v, g') := by
  rw [processNode]
  rw [if_neg (by rw [isMathmlElement_other node "ci" "apply" hci (by decide)]; simp),
    if_neg (by rw [isMathmlElement_other node "ci" "eq" hci (by decide)]; simp),
    if_neg (by rw [isMathmlElement_other node "ci" "piecewise" hci (by decide)]; simp),
    if_neg (by rw [isMathmlElement_other node "ci" "piece" hci (by decide)]; simp),
    if_neg (by rw [isMathmlElement_other node "ci" "otherwise" hci (by decide)]; simp),
    if_pos hci, hfirst]
  simp only [Option.some_bind, hv]
  rfl

theorem generatorVariable_equation (m : Model) (g : GeneratorImpl) (v : Variable) (e : Nat) :
    (generatorVariable m g v).1.equation e = g.equation e
    ∧ (generatorVariable m g v).1.equationStore.length = g.equationStore.length := by
  obtain ⟨ext, iext, h⟩ := generatorVariable_grow m g v
  rw [h]
  exact ⟨rfl, rfl⟩

/-- C31, amended.  `processNode` is called on a `ci` element that names the
variable `v` of the component, for the equation `equation` of the store; the
first child of the parent of the element is `pfirst`.  When `pfirst` is a
`diff` element (the reference is the variable that the derivative
differentiates), the record of `v` is added to the ODE variables of the
equation and the plain variables of the equation are unchanged.  When it is
not and the parent is a `bvar` element whose own parent has a `diff` element
as first child (the reference is the bound variable of the derivative), the
generator is unchanged: the record is added to neither list, and no record
is looked up.  In the remaining case, with a parent that is not a `bvar`
element, the record of `v` is added to the plain variables and the ODE
variables are unchanged. -/
theorem processNode_tracks_reference (m : Model) (component : Component) (equation fuel : Nat)
    (node first parent pfirst : XmlNode) (rest : List XmlNode) (v : Variable)
    (ast : GeneratorEquationAst) (g : GeneratorImpl)
    (hci : node.isMathmlElement "ci" = true)
    (hfirst : node.children.head? = some first)
    (hv : component.variableByName first.convertToString = some v)
    (hp : parent.children.head? = some pfirst)
    (he : equation < g.equationStore.length) :
    (pfirst.isMathmlElement "diff" = true →
      ∃ g', processNode m component equation (fuel + 1) node (parent :: rest) ast g
          = some (GeneratorEquationAst.ci v, g')
        ∧ (generatorVariable m g v).2 ∈ (g'.equation equation).mOdeVariables
        ∧ (g'.equation equation).mVariables = (g.equation equation).mVariables)
    ∧ (pfirst.isMathmlElement "diff" = false → parent.isMathmlElement "bvar" = true →
        ∀ grandParent gfirst rest', rest = grandParent :: rest' →
          grandParent.children.head? = some gfirst → gfirst.isMathmlElement "diff" = true →
          processNode m component equation (fuel + 1) node (parent :: rest) ast g
            = some (GeneratorEquationAst.ci v, g))
    ∧ (pfirst.isMathmlElement "diff" = false → parent.isMathmlElement "bvar" = false →
        ∃ g', processNode m component equation (fuel + 1) node (parent :: rest) ast g
            = some (GeneratorEquationAst.ci v, g')
          ∧ (generatorVariable m g v).2 ∈ (g'.equation equation).mVariables
          ∧ (g'.equation equation).mOdeVariables = (g.equation equation).mOdeVariables) := by
  have hnode := processNode_ci m component equation fuel node first (parent :: rest) v ast g
    hci hfirst hv
  have hlen := (generatorVariable_equation m g v equation).2
  have heq := (generatorVariable_equation m g v equation).1
  refine ⟨fun hd => ?_, fun hd hb grandParent gfirst rest' hr hg hgd => ?_, fun hd hb => ?_⟩
  · refine ⟨(generatorVariable m g v).1.setEquation equation
      (((generatorVariable m g v).1.equation equation).addOdeVariable
        (generatorVariable m g v).2), ?_, ?_⟩
    · rw [hnode]
      unfold trackVariable
      simp only [hp, Option.some_bind, hd, if_true, Option.map_some']
    · rw [GeneratorImpl.equation_setEquation, if_pos ⟨rfl, by rw [hlen]; exact he⟩]
      refine ⟨(addOdeVariable_spec _ _).1, ?_⟩
      rw [(addOdeVariable_spec _ _).2, heq]
  · rw [hnode]
    subst hr
    unfold trackVariable
    simp [hp, hd, hb, hg, hgd]
  · refine ⟨(generatorVariable m g v).1.setEquation equation
      (((generatorVariable m g v).1.equation equation).addVariable
        (generatorVariable m g v).2), ?_, ?_⟩
    · rw [hnode]
      unfold trackVariable
      simp only [hp, Option.some_bind, hd, hb, Bool.false_eq_true, if_false, Option.map_some',
        Bool.not_false, if_true]
    · rw [GeneratorImpl.equation_setEquation, if_pos ⟨rfl, by rw [hlen]; exact he⟩]
      refine ⟨(addVariable_spec _ _).1, ?_⟩
      rw [(addVariable_spec _ _).2, heq]

/-- C31, amended, at the derivative `dx/dt` of the equation `dx/dt = 1`: the
hypotheses hold of the reference to `x`, whose parent has the `diff` element
as first child, and `processNode` adds the record of `x` to the ODE variables
of the equation and leaves its plain variables alone. -/
theorem processNode_tracks_reference_witness :
    ((XmlNode.ci "x").isMathmlElement "ci" = true
      ∧ (XmlNode.ci "x").children.head? = some (XmlNode.text "x")
      ∧ SingleRate.component.variableByName (XmlNode.text "x").convertToString
          = some SingleRate.x
      ∧ (XmlNode.diff "t" "x").children.head? = some (XmlNode.element "diff" [])
      ∧ 0 < SingleRate.started.equationStore.length
      ∧ (XmlNode.element "diff" []).isMathmlElement "diff" = true)
    ∧ ∃ g', processNode SingleRate.model SingleRate.component 0 1 (XmlNode.ci "x")
          (XmlNode.diff "t" "x" :: [SingleRate.equationNode]) GeneratorEquationAst.null
          SingleRate.started = some (GeneratorEquationAst.ci SingleRate.x, g')
        ∧ (generatorVariable SingleRate.model SingleRate.started SingleRate.x).2
            ∈ (g'.equation 0).mOdeVariables
        ∧ (g'.equation 0).mVariables = (SingleRate.started.equation 0).mVariables :=
  ⟨⟨by decide, rfl, by decide, rfl, by decide, by decide⟩,
    (processNode_tracks_reference SingleRate.model SingleRate.component 0 0 (XmlNode.ci "x")
      (XmlNode.text "x") (XmlNode.diff "t" "x") (XmlNode.element "diff" [])
      [SingleRate.equationNode] SingleRate.x GeneratorEquationAst.null SingleRate.started
      (by decide) rfl (by decide) rfl (by decide)).1 (by decide)⟩

/-- C31, as stated, fails at the equation `dx/dt = 1`: the reference to `t`
inside the `bvar` element is the bound variable of the derivative, and
`processNode` leaves the generator unchanged when it meets it.  Once the
components of the model have been processed, the ODE variables of the
equation hold the record of `x` alone, its plain variables are empty, and
the record of `t`, which the declaration of `t` created, belongs to neither
list. -/
theorem processNode_bound_variable_untracked :
    processNode SingleRate.model SingleRate.component 0 1 (XmlNode.ci "t")
        [SingleRate.bvar, XmlNode.diff "t" "x", SingleRate.equationNode]
        GeneratorEquationAst.null SingleRate.started
      = some (GeneratorEquationAst.ci SingleRate.t, SingleRate.started)
    ∧ processComponents SingleRate.model SingleRate.model.components (resetGenerator {})
      = some SingleRate.generator
    ∧ (SingleRate.generator.equation 0).mAst
      = GeneratorEquationAst.assignment (GeneratorEquationAst.diff SingleRate.t SingleRate.x)
          (GeneratorEquationAst.cn "1")
    ∧ (SingleRate.generator.equation 0).mOdeVariables = [0]
    ∧ (SingleRate.generator.equation 0).mVariables = []
    ∧ (SingleRate.generator.internalVariable 0).mVariable = some SingleRate.x
    ∧ (SingleRate.generator.internalVariable 1).mVariable = some SingleRate.t
    ∧ generatorVariable SingleRate.model SingleRate.generator SingleRate.t
      = (SingleRate.generator, 1) := by
  refine ⟨by decide, by decide, by decide, by decide, by decide, by decide, by decide,
    by decide⟩

/-! ## C36: the cyclic dependencies that `resolveImports` reports -/

set_option maxRecDepth 8000 in
/-- C36, at the model `main` whose components `a` and `b` are imported from
the file `lib.cellml` through two import sources, where the model of
`lib.cellml` imports its component `c` from `other.cellml` and the model of
`other.cellml` imports nothing: following the imports from `main` never
reaches an import that is on the current chain of nested imports, and the
model of `lib.cellml` is resolved without issue when it is resolved alone;
yet `Importer::resolveImports` records an issue of cyclic dependencies for
`main`.  The import of `c` that the first visit of `lib.cellml` left in
`history` is found there by the second visit.  At a model that imports a
component from its own file, the condition holds and the issue is
recorded. -/
theorem resolveImports_reports_cycle_without_one :
    Importer.resolveImports TwiceImported.files 3 TwiceImported.main "main.cellml"
      = some ["Cyclic dependencies were found when attempting to resolve components in model 'lib'. The dependency loop is:\n    component 'a' imports 'x' from 'lib.cellml',\n    component 'c' imports 'z' from 'other.cellml',\n    component 'b' imports 'y' from 'lib.cellml',\n    component 'c' imports 'z' from 'other.cellml'."]
    ∧ importChainRepeats TwiceImported.files 3 [] TwiceImported.main "main.cellml" = some false
    ∧ Importer.resolveImports TwiceImported.files 3 TwiceImported.lib "lib.cellml" = some []
    ∧ Importer.resolveImports SelfImported.files 3 SelfImported.main "main.cellml"
      = some ["Cyclic dependencies were found when attempting to resolve components in model 'main'. The dependency loop is:\n    component 'a' imports 'a' from 'main.cellml',\n    component 'a' imports 'a' from 'main.cellml'."]
    ∧ importChainRepeats SelfImported.files 3 [] SelfImported.main "main.cellml" = some true := by
  refine ⟨by decide, by decide, by decide, by decide, by decide⟩

/-! ## C34: the rendering of a piecewise element -/

theorem mathmlChildNodeFrom_get (index : Nat) :
    ∀ (rest : List XmlNode) (res : XmlNode) (j : Nat),
      (∀ c ∈ rest, c.mathml = true) → j ≤ index → j + rest.length ≤ MAX_SIZE_T →
      mathmlChildNodeFrom index res j rest = (res :: rest)[index - j]?
  | [], res, j, _, hj, _ => by
    unfold mathmlChildNodeFrom
    split_ifs with h
    · subst h; simp
    · have : index - j ≠ 0 := by omega
      obtain ⟨k, hk⟩ := Nat.exists_eq_succ_of_ne_zero this
      rw [hk]; rfl
  | next :: rest, res, j, hm, hj, hlen => by
    have hn : next.mathml = true := hm next (List.mem_cons_self _ _)
    unfold mathmlChildNodeFrom
    rw [if_pos hn]
    split_ifs with h
    · subst h; simp
    · have hs : sizeIncr j = j + 1 := by
        unfold sizeIncr
        simp only [List.length_cons] at hlen
        unfold MAX_SIZE_T at hlen
        omega
      rw [hs]
      rw [mathmlChildNodeFrom_get index rest next (j + 1)
        (fun c hc => hm c (List.mem_cons_of_mem _ hc)) (by omega)
        (by simp only [List.length_cons] at hlen; omega)]
      have : index - j = (index - (j + 1)) + 1 := by omega
      rw [this, List.getElem?_cons_succ]

/-- The children of an element whose children are all elements in the MathML
namespace, as `mathmlChildCount` and `mathmlChildNode` see them. -/
theorem mathmlChild_spec (node : XmlNode) (c0 : XmlNode) (cs : List XmlNode)
    (hc : node.children = c0 :: cs) (hm : ∀ c ∈ c0 :: cs, c.mathml = true)
    (hlen : cs.length ≤ MAX_SIZE_T) :
    mathmlChildCount node = some (cs.length + 1)
    ∧ ∀ i, mathmlChildNode node i = some ((c0 :: cs)[i]?) := by
  constructor
  · unfold mathmlChildCount
    rw [hc]
    dsimp only
    congr 1
    rw [List.countP_eq_length.2 (fun c h => hm c h)]
    rfl
  · intro i
    unfold mathmlChildNode
    rw [hc]
    dsimp only
    rw [if_pos (hm c0 (List.mem_cons_self _ _)),
      mathmlChildNodeFrom_get i cs c0 0 (fun c h => hm c (List.mem_cons_of_mem _ h))
        (Nat.zero_le _) (by omega)]
    rfl

/-- The loop of `mathmlChildNode`, when `k` elements in the MathML namespace
come before the current node: the result is the element of rank `index`
among the elements in the MathML namespace. -/
theorem mathmlChildNodeFrom_filter (index : Nat) (hi : index < MAX_SIZE_T) :
    ∀ (rest : List XmlNode) (res : XmlNode) (j k : Nat),
      (res.mathml = true → j = k) →
      (res.mathml = false → sizeIncr j = k ∧ j ≠ index) →
      k ≤ index →
      mathmlChildNodeFrom index res j rest
        = ((res :: rest).filter XmlNode.mathml)[index - k]?
  | [], res, j, k, h1, h2, hk => by
    unfold mathmlChildNodeFrom
    cases hm : res.mathml
    · rw [if_neg (h2 hm).2]
      simp [List.filter, hm]
    · have hjk := h1 hm
      subst hjk
      simp only [List.filter, hm]
      split_ifs with h
      · subst h; simp
      · have : index - j ≠ 0 := by omega
        obtain ⟨n, hn⟩ := Nat.exists_eq_succ_of_ne_zero this
        rw [hn]; rfl
  | next :: rest, res, j, k, h1, h2, hk => by
    unfold mathmlChildNodeFrom
    unfold MAX_SIZE_T at hi
    cases hm : res.mathml
    · obtain ⟨hs, hne⟩ := h2 hm
      rw [if_neg hne]
      have hf : (res :: next :: rest).filter XmlNode.mathml
          = (next :: rest).filter XmlNode.mathml := by
        rw [List.filter_cons_of_neg (by rw [hm]; simp)]
      rw [hf]
      exact mathmlChildNodeFrom_filter index (by unfold MAX_SIZE_T; exact hi) rest next _ k
        (fun hn => by rw [if_pos hn]; exact hs)
        (fun hn => by rw [if_neg (by rw [hn]; simp)]; exact ⟨hs, hne⟩) hk
    · have hjk := h1 hm
      subst hjk
      have hf : (res :: next :: rest).filter XmlNode.mathml
          = res :: (next :: rest).filter XmlNode.mathml := by
        rw [List.filter_cons_of_pos hm]
      rw [hf]
      split_ifs with h hn
      · subst h; simp
      · have hs : sizeIncr j = j + 1 := by
          unfold sizeIncr
          omega
        rw [mathmlChildNodeFrom_filter index (by unfold MAX_SIZE_T; exact hi) rest next _
          (j + 1) (fun _ => hs) (fun hn' => by rw [hn] at hn'; cases hn') (by omega)]
        have : index - j = (index - (j + 1)) + 1 := by omega
        rw [this, List.getElem?_cons_succ]
      · have hs : sizeIncr j = j + 1 := by
          unfold sizeIncr
          omega
        rw [mathmlChildNodeFrom_filter index (by unfold MAX_SIZE_T; exact hi) rest next _
          (j + 1) (fun hn' => absurd hn' hn) (fun _ => ⟨hs, h⟩) (by omega)]
        have : index - j = (index - (j + 1)) + 1 := by omega
        rw [this, List.getElem?_cons_succ]

/-- The children of an element as `mathmlChildCount` and `mathmlChildNode`
see them: the children that are elements in the MathML namespace, in the
order of the document; the other nodes (the text between the elements) are
skipped. -/
theorem mathmlChild_filter (node : XmlNode) (hne : node.children ≠ []) :
    mathmlChildCount node = some (node.children.filter XmlNode.mathml).length
    ∧ ∀ i, i < MAX_SIZE_T →
        mathmlChildNode node i = some ((node.children.filter XmlNode.mathml)[i]?) := by
  obtain ⟨c0, cs, hc⟩ := List.exists_cons_of_ne_nil hne
  constructor
  · unfold mathmlChildCount
    rw [hc]
    dsimp only
    rw [List.countP_eq_length_filter]
  · intro i hi
    unfold mathmlChildNode
    rw [hc]
    dsimp only
    rw [mathmlChildNodeFrom_filter i hi cs c0 _ 0
      (fun h => by rw [if_pos h])
      (fun h => by
        rw [if_neg (by rw [h]; simp)]
        refine ⟨by unfold sizeIncr MAX_SIZE_T; rfl, ?_⟩
        omega)
      (Nat.zero_le _)]
    rfl

theorem processNode_piecewise (m : Model) (component : Component) (equation fuel : Nat)
    (node : XmlNode) (ancestors : List XmlNode) (ast : GeneratorEquationAst) (g : GeneratorImpl)
    (hp : node.isMathmlElement "piecewise" = true) :
    processNode m component equation (fuel + 1) node ancestors ast g
      = (mathmlChildCount node).bind fun childCount =>
        (processChild
          (fun c a g => processNode m component equation fuel c (node :: ancestors) a g) node
          0 GeneratorEquationAst.null g).bind fun rl =>
        if childCount ≥ 2 then
          (processChild
            (fun c a g => processNode m component equation fuel c (node :: ancestors) a g) node
            (childCount - 1) GeneratorEquationAst.null rl.2).bind fun rr =>
          (piecewisePieces
            (processChild
              (fun c a g => processNode m component equation fuel c (node :: ancestors) a g)
              node) (childCount - 2) rr.1 rr.2).bind fun ro =>
          if ro.1.isNode then
            some (GeneratorEquationAst.node GeneratorEquationAstType.PIECEWISE "" none rl.1 ro.1,
              ro.2)
          else none
        else
          some (GeneratorEquationAst.node GeneratorEquationAstType.PIECEWISE "" none rl.1
            GeneratorEquationAst.null, rl.2) := by
  rw [processNode]
  rw [if_neg (by rw [isMathmlElement_other node "piecewise" "apply" hp (by decide)]; simp),
    if_neg (by rw [isMathmlElement_other node "piecewise" "eq" hp (by decide)]; simp),
    if_pos hp]

theorem processNode_piece (m : Model) (component : Component) (equation fuel : Nat)
    (node : XmlNode) (ancestors : List XmlNode) (ast : GeneratorEquationAst) (g : GeneratorImpl)
    (hp : node.isMathmlElement "piece" = true) :
    processNode m component equation (fuel + 1) node ancestors ast g
      = (processChild
          (fun c a g => processNode m component equation fuel c (node :: ancestors) a g) node
          0 GeneratorEquationAst.null g).bind fun rl =>
        (processChild
          (fun c a g => processNode m component equation fuel c (node :: ancestors) a g) node
          1 GeneratorEquationAst.null rl.2).map fun rr =>
          (GeneratorEquationAst.node GeneratorEquationAstType.PIECE "" none rl.1 rr.1, rr.2) := by
  rw [processNode]
  rw [if_neg (by rw [isMathmlElement_other node "piece" "apply" hp (by decide)]; simp),
    if_neg (by rw [isMathmlElement_other node "piece" "eq" hp (by decide)]; simp),
    if_neg (by rw [isMathmlElement_other node "piece" "piecewise" hp (by decide)]; simp),
    if_pos hp]

theorem processNode_otherwise (m : Model) (component : Component) (equation fuel : Nat)
    (node : XmlNode) (ancestors : List XmlNode) (ast : GeneratorEquationAst) (g : GeneratorImpl)
    (hp : node.isMathmlElement "otherwise" = true) :
    processNode m component equation (fuel + 1) node ancestors ast g
      = (processChild
          (fun c a g => processNode m component equation fuel c (node :: ancestors) a g) node
          0 GeneratorEquationAst.null g).map fun rl =>
          (GeneratorEquationAst.node GeneratorEquationAstType.OTHERWISE "" none rl.1
            GeneratorEquationAst.null, rl.2) := by
  rw [processNode]
  rw [if_neg (by rw [isMathmlElement_other node "otherwise" "apply" hp (by decide)]; simp),
    if_neg (by rw [isMathmlElement_other node "otherwise" "eq" hp (by decide)]; simp),
    if_neg (by rw [isMathmlElement_other node "otherwise" "piecewise" hp (by decide)]; simp),
    if_neg (by rw [isMathmlElement_other node "otherwise" "piece" hp (by decide)]; simp),
    if_pos hp]

theorem piecewiseRight_foldr (t : GeneratorEquationAst) :
    ∀ ts : List GeneratorEquationAst,
      ts.foldr (fun x acc =>
          GeneratorEquationAst.node GeneratorEquationAstType.PIECEWISE "" none x acc) t
        = piecewiseRight (ts ++ [t])
  | [] => rfl
  | [x] => rfl
  | x :: y :: rest => by
    have ih := piecewiseRight_foldr t (y :: rest)
    simp only [List.foldr_cons, List.cons_append] at ih ⊢
    rw [ih]
    rfl

/-- The loop of `processNode` over the children of a `piecewise` element
wraps `astRight` in one `PIECEWISE` node per child, from the child `i` down to
the child `1`. -/
theorem piecewisePieces_spec
    (child : Nat → GeneratorEquationAst → GeneratorImpl → ProcessResult) :
    ∀ (i : Nat) (astRight : GeneratorEquationAst) (g : GeneratorImpl)
      (r : GeneratorEquationAst × GeneratorImpl),
      piecewisePieces child i astRight g = some r →
      ∃ ts : List GeneratorEquationAst, ts.length = i
        ∧ r.1 = ts.foldr (fun x acc =>
            GeneratorEquationAst.node GeneratorEquationAstType.PIECEWISE "" none x acc) astRight
        ∧ ∀ (j : Nat) (t : GeneratorEquationAst), ts[j]? = some t →
            ∃ gj gj', child (j + 1) GeneratorEquationAst.null gj = some (t, gj')
  | 0, astRight, g, r, h => by
    simp only [piecewisePieces, Option.some.injEq] at h
    subst h
    exact ⟨[], rfl, rfl, fun j t hj => by simp at hj⟩
  | i + 1, astRight, g, r, h => by
    simp only [piecewisePieces, Option.bind_eq_some] at h
    obtain ⟨rl, hrl, h⟩ := h
    split_ifs at h with hn
    obtain ⟨ts, hlen, htree, hprov⟩ := piecewisePieces_spec child i _ _ r h
    refine ⟨ts ++ [rl.1], by simp [hlen], ?_, ?_⟩
    · rw [htree, List.foldr_append]
      rfl
    · intro j t hj
      by_cases hji : j < i
      · rw [List.getElem?_append_left (by rw [hlen]; exact hji)] at hj
        exact hprov j t hj
      · by_cases hje : j = i
        · subst hje
          rw [List.getElem?_append_right (by rw [hlen]), hlen, Nat.sub_self] at hj
          simp only [List.getElem?_cons_zero, Option.some.injEq] at hj
          subst hj
          exact ⟨g, rl.2, hrl⟩
        · rw [List.getElem?_eq_none (by simp [hlen]; omega)] at hj
          cases hj

/-- The tree that `processNode` builds for a `piecewise` element, from the
trees that it builds for the children that are elements in the MathML
namespace. -/
theorem processNode_piecewise_tree (m : Model) (component : Component) (equation fuel : Nat)
    (node c0 : XmlNode) (cs ancestors : List XmlNode) (ast : GeneratorEquationAst)
    (g : GeneratorImpl) (r : GeneratorEquationAst × GeneratorImpl)
    (hp : node.isMathmlElement "piecewise" = true)
    (hc : node.children.filter XmlNode.mathml = c0 :: cs)
    (hlen : cs.length < MAX_SIZE_T)
    (h : processNode m component equation (fuel + 1) node ancestors ast g = some r) :
    ∃ ts : List GeneratorEquationAst, ts.length = cs.length + 1
      ∧ r.1 = piecewiseTree ts
      ∧ ∀ (j : Nat) (t : GeneratorEquationAst), ts[j]? = some t →
          ∃ c gj gj', (c0 :: cs)[j]? = some c
            ∧ processNode m component equation fuel c (node :: ancestors)
                GeneratorEquationAst.null gj = some (t, gj') := by
  have hne : node.children ≠ [] := by
    intro hnil
    rw [hnil] at hc
    cases hc
  obtain ⟨hcount, hchild⟩ := mathmlChild_filter node hne
  rw [hc] at hcount hchild
  have hch : ∀ i a x y, i < MAX_SIZE_T →
      processChild
        (fun c a g => processNode m component equation fuel c (node :: ancestors) a g) node
        i a x = some y →
      ∃ c, (c0 :: cs)[i]? = some c
        ∧ processNode m component equation fuel c (node :: ancestors) a x = some y := by
    intro i a x y hi hy
    unfold processChild at hy
    rw [hchild i hi] at hy
    simp only [Option.some_bind, Option.bind_eq_some] at hy
    exact hy
  have hpos : 0 < MAX_SIZE_T := by unfold MAX_SIZE_T; omega
  rw [processNode_piecewise m component equation fuel node ancestors ast g hp, hcount] at h
  simp only [Option.some_bind, Option.bind_eq_some, List.length_cons] at h
  obtain ⟨rl, hrl, h⟩ := h
  obtain ⟨d0, hd0, hp0⟩ := hch 0 _ _ _ hpos hrl
  split_ifs at h with hk
  · simp only [Option.bind_eq_some] at h
    obtain ⟨rr, hrr, ro, hro, h⟩ := h
    split_ifs at h with hnode
    simp only [Option.some.injEq] at h
    subst h
    obtain ⟨dl, hdl, hpl⟩ := hch _ _ _ _ (by omega) hrr
    obtain ⟨ts, hlts, htree, hprov⟩ := piecewisePieces_spec _ _ _ _ _ hro
    refine ⟨rl.1 :: (ts ++ [rr.1]), by simp [hlts]; omega, ?_, ?_⟩
    · dsimp only
      rw [htree, piecewiseRight_foldr]
      rfl
    · intro j t hj
      rcases j with _ | j
      · simp only [List.getElem?_cons_zero, Option.some.injEq] at hj
        subst hj
        exact ⟨d0, g, rl.2, hd0, hp0⟩
      · rw [List.getElem?_cons_succ] at hj
        by_cases hji : j < ts.length
        · rw [List.getElem?_append_left hji] at hj
          obtain ⟨gj, gj', hgj⟩ := hprov j t hj
          obtain ⟨c, hc1, hc2⟩ := hch _ _ _ _ (by omega) hgj
          exact ⟨c, gj, gj', hc1, hc2⟩
        · by_cases hje : j = ts.length
          · subst hje
            rw [List.getElem?_append_right (le_refl _), Nat.sub_self] at hj
            simp only [List.getElem?_cons_zero, Option.some.injEq] at hj
            subst hj
            refine ⟨dl, rl.2, rr.2, ?_, hpl⟩
            rw [← hdl]
            congr 1
            rw [hlts]
            omega
          · rw [List.getElem?_eq_none (by simp; omega)] at hj
            cases hj
  · simp only [Option.some.injEq] at h
    subst h
    have hcs : cs = [] := by
      apply List.eq_nil_of_length_eq_zero
      omega
    refine ⟨[rl.1], by simp [hcs], rfl, ?_⟩
    intro j t hj
    rcases j with _ | j
    · simp only [List.getElem?_cons_zero, Option.some.injEq] at hj
      subst hj
      exact ⟨d0, g, rl.2, hd0, hp0⟩
    · simp at hj

theorem generateCodeAux_piece {F : Type} (p : GeneratorProfile) (m : Model) (num : Numerics F)
    (copied : Bool) (vc : GeneratorEquationAst × GeneratorEquationAst)
    (parent : Option GeneratorEquationAstType) :
    generateCodeAux p m num copied (pieceTree vc) parent
      = (do
        let condition ← generateCodeAux p m num false vc.2 (some GeneratorEquationAstType.PIECE)
        let value ← generateCodeAux p m num false vc.1 (some GeneratorEquationAstType.PIECE)
        pure (generatePiecewiseIfCode p condition value)) := by
  unfold pieceTree
  rw [generateCodeAux]

theorem generateCodeAux_otherwise {F : Type} (p : GeneratorProfile) (m : Model)
    (num : Numerics F) (copied : Bool) (w : GeneratorEquationAst)
    (parent : Option GeneratorEquationAstType) :
    generateCodeAux p m num copied (otherwiseTree w) parent
      = generateCodeAux p m num false w (some GeneratorEquationAstType.OTHERWISE) := by
  unfold otherwiseTree
  rw [generateCodeAux]

theorem generateCodeAux_piecewise {F : Type} (p : GeneratorProfile) (m : Model)
    (num : Numerics F) (copied : Bool) (l r : GeneratorEquationAst)
    (parent : Option GeneratorEquationAstType) :
    generateCodeAux p m num copied
        (GeneratorEquationAst.node GeneratorEquationAstType.PIECEWISE "" none l r) parent
      = (if r.isNode then
          if r.hasType GeneratorEquationAstType.PIECE then do
            let left ← generateCodeAux p m num false l (some GeneratorEquationAstType.PIECEWISE)
            let right ← generateCodeAux p m num false r (some GeneratorEquationAstType.PIECEWISE)
            pure (left ++ generatePiecewiseElseCode p
              (right ++ generatePiecewiseElseCode p p.nanString))
          else do
            let left ← generateCodeAux p m num false l (some GeneratorEquationAstType.PIECEWISE)
            let right ← generateCodeAux p m num false r (some GeneratorEquationAstType.PIECEWISE)
            pure (left ++ generatePiecewiseElseCode p right)
        else do
          let left ← generateCodeAux p m num false l (some GeneratorEquationAstType.PIECEWISE)
          pure (left ++ generatePiecewiseElseCode p p.nanString)) := by
  rw [generateCodeAux]

theorem piecewiseRight_cons_cons (t u : GeneratorEquationAst)
    (rest : List GeneratorEquationAst) :
    piecewiseRight (t :: u :: rest) = piecewiseTree (t :: u :: rest) := rfl

/-- The text that `generateCode` produces for the tree of a `piecewise`
element, from the texts of the conditions and of the values of its pieces. -/
theorem generateCodeAux_piecewiseTree {F : Type} (p : GeneratorProfile) (m : Model)
    (num : Numerics F) :
    ∀ (pieces : List (GeneratorEquationAst × GeneratorEquationAst))
      (vc : GeneratorEquationAst × GeneratorEquationAst) (ow : Option GeneratorEquationAst)
      (copied : Bool) (parent : Option GeneratorEquationAstType),
      generateCodeAux p m num copied
          (piecewiseTree ((vc :: pieces).map pieceTree ++ ow.toList.map otherwiseTree)) parent
        = (do
          let texts ← renderPieces p m num (vc :: pieces)
          let w ← renderOtherwise p m num ow
          pure (piecewiseText p texts w))
  | [], vc, none, copied, parent => by
    simp only [List.map_cons, List.map_nil, Option.toList, List.append_nil, piecewiseTree,
      piecewiseRight]
    rw [generateCodeAux_piecewise]
    simp only [GeneratorEquationAst.isNode, Bool.false_eq_true, if_false]
    rw [generateCodeAux_piece]
    simp only [renderPieces, renderOtherwise, bind_assoc, pure_bind, piecewiseText]
  | [], vc, some w, copied, parent => by
    simp only [List.map_cons, List.map_nil, Option.toList, List.nil_append, List.cons_append,
      piecewiseTree, piecewiseRight]
    rw [generateCodeAux_piecewise]
    have h1 : (otherwiseTree w).isNode = true := rfl
    have h2 : (otherwiseTree w).hasType GeneratorEquationAstType.PIECE = false := by
      simp [otherwiseTree, GeneratorEquationAst.hasType, GeneratorEquationAst.mType?]
    rw [if_pos h1, if_neg (by rw [h2]; simp)]
    rw [generateCodeAux_piece, generateCodeAux_otherwise]
    simp only [renderPieces, renderOtherwise, bind_assoc, pure_bind, piecewiseText]
  | [vc2], vc, none, copied, parent => by
    simp only [List.map_cons, List.map_nil, Option.toList, List.append_nil, piecewiseTree,
      piecewiseRight]
    rw [generateCodeAux_piecewise]
    have h1 : (pieceTree vc2).isNode = true := rfl
    have h2 : (pieceTree vc2).hasType GeneratorEquationAstType.PIECE = true := by
      simp [pieceTree, GeneratorEquationAst.hasType, GeneratorEquationAst.mType?]
    rw [if_pos h1, if_pos h2]
    rw [generateCodeAux_piece, generateCodeAux_piece]
    simp only [renderPieces, renderOtherwise, bind_assoc, pure_bind, piecewiseText]
  | [vc2], vc, some w, copied, parent => by
    have ih := generateCodeAux_piecewiseTree p m num [] vc2 (some w) false
      (some GeneratorEquationAstType.PIECEWISE)
    simp only [List.map_cons, List.map_nil, Option.toList, List.nil_append,
      List.cons_append] at ih ⊢
    rw [piecewiseTree, piecewiseRight_cons_cons, generateCodeAux_piecewise]
    have h1 : (piecewiseTree [pieceTree vc2, otherwiseTree w]).isNode = true := rfl
    have h2 : (piecewiseTree [pieceTree vc2, otherwiseTree w]).hasType
        GeneratorEquationAstType.PIECE = false := by
      simp [piecewiseTree, GeneratorEquationAst.hasType, GeneratorEquationAst.mType?]
    rw [if_pos h1, if_neg (by rw [h2]; simp), ih, generateCodeAux_piece]
    simp only [renderPieces, renderOtherwise, bind_assoc, pure_bind, piecewiseText]
  | vc2 :: vc3 :: rest, vc, ow, copied, parent => by
    have ih := generateCodeAux_piecewiseTree p m num (vc3 :: rest) vc2 ow false
      (some GeneratorEquationAstType.PIECEWISE)
    simp only [List.map_cons, List.cons_append] at ih ⊢
    rw [piecewiseTree, piecewiseRight_cons_cons, generateCodeAux_piecewise]
    have h1 : (piecewiseTree (pieceTree vc2 :: pieceTree vc3
        :: (rest.map pieceTree ++ ow.toList.map otherwiseTree))).isNode = true := rfl
    have h2 : (piecewiseTree (pieceTree vc2 :: pieceTree vc3
        :: (rest.map pieceTree ++ ow.toList.map otherwiseTree))).hasType
        GeneratorEquationAstType.PIECE = false := by
      simp [piecewiseTree, GeneratorEquationAst.hasType, GeneratorEquationAst.mType?]
    rw [if_pos h1, if_neg (by rw [h2]; simp), ih, generateCodeAux_piece]
    simp only [renderPieces, bind_assoc, pure_bind, piecewiseText]

/-- The call of `processNode` on the child of rank `i` of an element: the
children that count are the elements in the MathML namespace. -/
theorem processChild_of_children
    (f : XmlNode → GeneratorEquationAst → GeneratorImpl → ProcessResult)
    (node : XmlNode) (hne : node.children ≠ []) (i : Nat) (hi : i < MAX_SIZE_T)
    (a : GeneratorEquationAst) (g : GeneratorImpl) :
    processChild f node i a g
      = ((node.children.filter XmlNode.mathml)[i]?).bind fun c => f c a g := by
  unfold processChild
  rw [(mathmlChild_filter node hne).2 i hi]
  rfl

/-- The tree that `processNode` builds for a `piece` element with a value and
a condition: the two children of the element that are elements in the MathML
namespace. -/
theorem processNode_piece_tree (m : Model) (component : Component) (equation fuel : Nat)
    (piece v c : XmlNode) (ancestors : List XmlNode) (ast : GeneratorEquationAst)
    (g : GeneratorImpl) (r : GeneratorEquationAst × GeneratorImpl)
    (hp : piece.isMathmlElement "piece" = true)
    (hch : piece.children.filter XmlNode.mathml = [v, c])
    (h : processNode m component equation (fuel + 1) piece ancestors ast g = some r) :
    ∃ vt ct g2, r.1 = pieceTree (vt, ct)
      ∧ processNode m component equation fuel v (piece :: ancestors)
          GeneratorEquationAst.null g = some (vt, g2)
      ∧ processNode m component equation fuel c (piece :: ancestors)
          GeneratorEquationAst.null g2 = some (ct, r.2) := by
  have hne : piece.children ≠ [] := by
    intro hnil
    rw [hnil] at hch
    cases hch
  have h0 : (0 : Nat) < MAX_SIZE_T := by unfold MAX_SIZE_T; omega
  have h1 : (1 : Nat) < MAX_SIZE_T := by unfold MAX_SIZE_T; omega
  rw [processNode_piece m component equation fuel piece ancestors ast g hp,
    processChild_of_children _ piece hne 0 h0, hch] at h
  simp only [List.getElem?_cons_zero, Option.some_bind, Option.bind_eq_some,
    Option.map_eq_some'] at h
  obtain ⟨rl, hrl, rr, hrr, rfl⟩ := h
  rw [processChild_of_children _ piece hne 1 h1, hch] at hrr
  simp only [List.getElem?_cons_succ, List.getElem?_cons_zero, Option.some_bind] at hrr
  exact ⟨rl.1, rr.1, rl.2, rfl, hrl, hrr⟩

/-- The tree that `processNode` builds for an `otherwise` element with a
value: the child of the element that is an element in the MathML
namespace. -/
theorem processNode_otherwise_tree (m : Model) (component : Component) (equation fuel : Nat)
    (other w : XmlNode) (ancestors : List XmlNode) (ast : GeneratorEquationAst)
    (g : GeneratorImpl) (r : GeneratorEquationAst × GeneratorImpl)
    (hp : other.isMathmlElement "otherwise" = true)
    (hch : other.children.filter XmlNode.mathml = [w])
    (h : processNode m component equation (fuel + 1) other ancestors ast g = some r) :
    ∃ wt, r.1 = otherwiseTree wt
      ∧ processNode m component equation fuel w (other :: ancestors)
          GeneratorEquationAst.null g = some (wt, r.2) := by
  have hne : other.children ≠ [] := by
    intro hnil
    rw [hnil] at hch
    cases hch
  have h0 : (0 : Nat) < MAX_SIZE_T := by unfold MAX_SIZE_T; omega
  rw [processNode_otherwise m component equation fuel other ancestors ast g hp,
    processChild_of_children _ other hne 0 h0, hch] at h
  simp only [List.getElem?_cons_zero, Option.some_bind, Option.map_eq_some'] at h
  obtain ⟨rl, hrl, rfl⟩ := h
  exact ⟨rl.1, rfl, hrl⟩

/-- Trees that are, rank by rank, the trees of `piece` elements are the
trees `pieceTree` of a list of pairs. -/
theorem pieceTrees_of_ranks {α : Type}
    (Q : α → GeneratorEquationAst × GeneratorEquationAst → Prop) :
    ∀ (ps : List α) (ts : List GeneratorEquationAst),
      ts.length = ps.length →
      (∀ (j : Nat) vc t, ps[j]? = some vc → ts[j]? = some t →
        ∃ x, t = pieceTree x ∧ Q vc x) →
      ∃ trees : List (GeneratorEquationAst × GeneratorEquationAst),
        trees.length = ps.length ∧ ts = trees.map pieceTree
        ∧ ∀ (j : Nat) vc x, ps[j]? = some vc → trees[j]? = some x → Q vc x
  | [], ts, hl, _ => by
    have : ts = [] := List.eq_nil_of_length_eq_zero hl
    subst this
    exact ⟨[], rfl, rfl, fun j vc x hj => by simp at hj⟩
  | vc :: ps, [], hl, _ => by simp at hl
  | vc :: ps, t :: ts, hl, h => by
    obtain ⟨x, hx, hq⟩ := h 0 vc t (List.getElem?_cons_zero) (List.getElem?_cons_zero)
    obtain ⟨trees, h1, h2, h3⟩ := pieceTrees_of_ranks Q ps ts (by simpa using hl)
      (fun j vc' t' hj ht => h (j + 1) vc' t' (by simpa using hj) (by simpa using ht))
    refine ⟨x :: trees, by simp [h1], by simp [hx, h2], ?_⟩
    intro j vc' x' hj hx'
    rcases j with _ | j
    · simp only [List.getElem?_cons_zero, Option.some.injEq] at hj hx'
      subst hj hx'
      exact hq
    · exact h3 j vc' x' (by simpa using hj) (by simpa using hx')

/-- C34: `processNode` is called on a `piecewise` element whose children
are, apart from the nodes that are no elements in the MathML namespace (the
text between the elements), `n >= 1` `piece` elements, each with a value and
a condition, followed or not by one `otherwise` element with a value, and
returns the tree `tree`.  Then there are trees for the value and the
condition of every piece and for the value of the `otherwise` element, each
of which `processNode` returns for the corresponding element of the document,
such that `tree` is the tree `piecewiseTree` of them and such that, for every
profile, `generateCode` on `tree` runs `generateCode` on the condition and on
the value of every piece, in the order of the document, then on the value of
the `otherwise` element, and returns the text `piecewiseText`:
`IF(c1, v1) ELSE(IF(c2, v2) ELSE(... IF(cn, vn) ELSE(w)))`, where `w` is the
text of the value of the `otherwise` element, or the string not-a-number of
the profile when there is no such element.  A piece is given as its element
followed by its value and its condition, the `otherwise` element as the
element followed by its value. -/
theorem processNode_piecewise_rendering (m : Model) (component : Component)
    (equation fuel : Nat) (pieces : List (XmlNode × XmlNode × XmlNode))
    (otherwise : Option (XmlNode × XmlNode))
    (node : XmlNode) (ancestors : List XmlNode) (ast : GeneratorEquationAst)
    (g : GeneratorImpl) (tree : GeneratorEquationAst) (g' : GeneratorImpl)
    (hp : node.isMathmlElement "piecewise" = true)
    (hc : node.children.filter XmlNode.mathml
      = pieces.map (fun x => x.1) ++ otherwise.toList.map (fun x => x.1))
    (hne : pieces ≠ [])
    (hm : ∀ x ∈ pieces, x.1.isMathmlElement "piece" = true
      ∧ x.1.children.filter XmlNode.mathml = [x.2.1, x.2.2])
    (hmo : ∀ x ∈ otherwise, x.1.isMathmlElement "otherwise" = true
      ∧ x.1.children.filter XmlNode.mathml = [x.2])
    (hlen : pieces.length < MAX_SIZE_T)
    (h : processNode m component equation (fuel + 2) node ancestors ast g = some (tree, g')) :
    ∃ (trees : List (GeneratorEquationAst × GeneratorEquationAst))
      (wt : Option GeneratorEquationAst),
      trees.length = pieces.length
      ∧ wt.isSome = otherwise.isSome
      ∧ tree = piecewiseTree (trees.map pieceTree ++ wt.toList.map otherwiseTree)
      ∧ (∀ (j : Nat) x t, pieces[j]? = some x → trees[j]? = some t →
          ∃ g1 g2 g3,
            processNode m component equation fuel x.2.1 (x.1 :: node :: ancestors)
                GeneratorEquationAst.null g1 = some (t.1, g2)
            ∧ processNode m component equation fuel x.2.2 (x.1 :: node :: ancestors)
                GeneratorEquationAst.null g2 = some (t.2, g3))
      ∧ (∀ x t, otherwise = some x → wt = some t →
          ∃ g1 g2,
            processNode m component equation fuel x.2 (x.1 :: node :: ancestors)
                GeneratorEquationAst.null g1 = some (t, g2))
      ∧ ∀ (F : Type) (p : GeneratorProfile) (m' : Model) (num : Numerics F)
          (parent : Option GeneratorEquationAstType),
          generateCode p m' num tree parent
            = (do
              let texts ← renderPieces p m' num trees
              let w ← renderOtherwise p m' num wt
              pure (piecewiseText p texts w)) := by
  obtain ⟨x0, prest, rfl⟩ := List.exists_cons_of_ne_nil hne
  have hcs : node.children.filter XmlNode.mathml
      = x0.1 :: (prest.map (fun x => x.1) ++ otherwise.toList.map (fun x => x.1)) := by
    rw [hc]; rfl
  have hol : (otherwise.toList.map (fun x => x.1)).length ≤ 1 := by
    cases otherwise <;> simp
  have hl2 : (prest.map (fun x => x.1) ++ otherwise.toList.map (fun x => x.1)).length
      < MAX_SIZE_T := by
    simp only [List.length_append, List.length_map, List.length_cons] at hlen hol ⊢
    omega
  obtain ⟨ts, hts, htree, hprov⟩ := processNode_piecewise_tree m component equation (fuel + 1)
    node _ _ ancestors ast g (tree, g') hp hcs hl2 h
  have htree' : tree = piecewiseTree ts := htree
  -- the trees of the pieces
  have hrank : ∀ (j : Nat) (x : XmlNode × XmlNode × XmlNode) t,
      (x0 :: prest)[j]? = some x →
      (ts.take (x0 :: prest).length)[j]? = some t →
      ∃ y, t = pieceTree y ∧ ∃ g1 g2 g3,
        processNode m component equation fuel x.2.1 (x.1 :: node :: ancestors)
            GeneratorEquationAst.null g1 = some (y.1, g2)
        ∧ processNode m component equation fuel x.2.2 (x.1 :: node :: ancestors)
            GeneratorEquationAst.null g2 = some (y.2, g3) := by
    intro j x t hj ht
    have hjn : j < (x0 :: prest).length := by
      by_contra hcon
      rw [List.getElem?_eq_none (Nat.le_of_not_lt hcon)] at hj
      cases hj
    rw [List.getElem?_take_of_lt hjn] at ht
    obtain ⟨c, gj, gj', hcj, hpj⟩ := hprov j t ht
    have hcc : c = x.1 := by
      have h1 : (x0.1 :: (prest.map (fun x => x.1)
            ++ otherwise.toList.map (fun x => x.1)))[j]?
          = ((x0 :: prest).map (fun x => x.1))[j]? := by
        show ((x0 :: prest).map (fun x : XmlNode × XmlNode × XmlNode => x.1) ++ _)[j]? = _
        exact List.getElem?_append_left (by simpa using hjn)
      rw [h1, List.getElem?_map, hj] at hcj
      simp only [Option.map_some', Option.some.injEq] at hcj
      exact hcj.symm
    subst hcc
    have hx := hm x (List.mem_iff_getElem?.2 ⟨j, hj⟩)
    obtain ⟨vt, ct, g2, h1, h2, h3⟩ := processNode_piece_tree m component equation fuel x.1
      x.2.1 x.2.2 (node :: ancestors) _ gj (t, gj') hx.1 hx.2 hpj
    exact ⟨(vt, ct), h1, gj, g2, gj', h2, h3⟩
  obtain ⟨trees, htl, htm, hq⟩ := pieceTrees_of_ranks _ (x0 :: prest)
    (ts.take (x0 :: prest).length)
    (by
      rw [List.length_take, hts]
      simp only [List.length_cons, List.length_append, List.length_map]
      omega)
    hrank
  have hsplit : ts = trees.map pieceTree ++ ts.drop (x0 :: prest).length := by
    rw [← htm, List.take_append_drop]
  have hrender : ∀ wt : Option GeneratorEquationAst,
      ∀ (F : Type) (p : GeneratorProfile) (m' : Model) (num : Numerics F)
        (parent : Option GeneratorEquationAstType),
        generateCode p m' num
            (piecewiseTree (trees.map pieceTree ++ wt.toList.map otherwiseTree)) parent
          = (do
            let texts ← renderPieces p m' num trees
            let w ← renderOtherwise p m' num wt
            pure (piecewiseText p texts w)) := by
    intro wt F p m' num parent
    rcases trees with _ | ⟨y, rest⟩
    · simp at htl
    · exact generateCodeAux_piecewiseTree p m' num rest y wt false parent
  rcases otherwise with _ | o
  · -- no `otherwise` element
    have hd : ts.drop (x0 :: prest).length = [] := by
      apply List.drop_eq_nil_of_le
      rw [hts]
      simp
    refine ⟨trees, none, htl, rfl, ?_, hq, (fun x t hx => by cases hx), ?_⟩
    · rw [htree', hsplit, hd]
      rfl
    · intro F p m' num parent
      have := hrender none F p m' num parent
      rw [htree', hsplit, hd]
      exact this
  · -- an `otherwise` element
    have hdl : (ts.drop (x0 :: prest).length).length = 1 := by
      rw [List.length_drop, hts]
      simp
    obtain ⟨t, ht⟩ := List.length_eq_one.1 hdl
    have htn : ts[(x0 :: prest).length]? = some t := by
      have := congrArg (fun l : List GeneratorEquationAst => l[0]?) ht
      simpa using this
    obtain ⟨c, gj, gj', hcj, hpj⟩ := hprov _ t htn
    have hcc : c = o.1 := by
      have h1 : (x0.1 :: (prest.map (fun x => x.1)
            ++ (some o).toList.map (fun x => x.1)))[(x0 :: prest).length]?
          = some o.1 := by
        show ((x0 :: prest).map (fun x : XmlNode × XmlNode × XmlNode => x.1)
          ++ _)[(x0 :: prest).length]? = _
        rw [List.getElem?_append_right (by simp)]
        simp
      rw [h1] at hcj
      simp only [Option.some.injEq] at hcj
      exact hcj.symm
    subst hcc
    have ho := hmo o rfl
    obtain ⟨wt, hw1, hw2⟩ := processNode_otherwise_tree m component equation fuel o.1 o.2
      (node :: ancestors) _ gj (t, gj') ho.1 ho.2 hpj
    dsimp only at hw1
    subst hw1
    refine ⟨trees, some wt, htl, rfl, ?_, hq, ?_, ?_⟩
    · rw [htree', hsplit, ht]
      rfl
    · intro x' t' hx' ht'
      simp only [Option.some.injEq] at hx' ht'
      subst hx' ht'
      exact ⟨gj, gj', hw2⟩
    · intro F p m' num parent
      have := hrender (some wt) F p m' num parent
      rw [htree', hsplit, ht]
      exact this

set_option maxRecDepth 8000 in
/-- C34, at the piecewise element with the pieces `1 if x` and `2 if t` and
the `otherwise` value `3`, written with text between the elements, in the
component of the model of the single rate `dx/dt = 1`: the hypotheses on the
element hold and so does the conclusion; with the default (C) profile the
text is `(states[0])?1.0:(voi)?2.0:3.0`. -/
theorem processNode_piecewise_rendering_witness :
    (Conditional.node.isMathmlElement "piecewise" = true
      ∧ Conditional.node.children.filter XmlNode.mathml
        = Conditional.pieces.map (fun x => x.1)
          ++ (some Conditional.otherwise).toList.map (fun x => x.1)
      ∧ Conditional.pieces ≠ []
      ∧ (∀ x ∈ Conditional.pieces, x.1.isMathmlElement "piece" = true
          ∧ x.1.children.filter XmlNode.mathml = [x.2.1, x.2.2])
      ∧ (∀ x ∈ some Conditional.otherwise, x.1.isMathmlElement "otherwise" = true
          ∧ x.1.children.filter XmlNode.mathml = [x.2])
      ∧ Conditional.pieces.length < MAX_SIZE_T
      ∧ processNode SingleRate.model SingleRate.component 0 (1 + 2) Conditional.node []
          GeneratorEquationAst.null SingleRate.started
        = some (Conditional.result.1, Conditional.result.2))
    ∧ (generateCode {} SingleRate.model DependentEqns.numerics Conditional.result.1 none
        SingleRate.processed).map (fun r => r.1)
      = some "(states[0])?1.0:(voi)?2.0:3.0"
    ∧ ∃ (trees : List (GeneratorEquationAst × GeneratorEquationAst))
      (wt : Option GeneratorEquationAst),
      trees.length = Conditional.pieces.length
      ∧ wt.isSome = (some Conditional.otherwise).isSome
      ∧ Conditional.result.1
        = piecewiseTree (trees.map pieceTree ++ wt.toList.map otherwiseTree)
      ∧ (∀ (j : Nat) x t, Conditional.pieces[j]? = some x → trees[j]? = some t →
          ∃ g1 g2 g3,
            processNode SingleRate.model SingleRate.component 0 1 x.2.1
                (x.1 :: Conditional.node :: [])
                GeneratorEquationAst.null g1 = some (t.1, g2)
            ∧ processNode SingleRate.model SingleRate.component 0 1 x.2.2
                (x.1 :: Conditional.node :: [])
                GeneratorEquationAst.null g2 = some (t.2, g3))
      ∧ (∀ x t, some Conditional.otherwise = some x → wt = some t →
          ∃ g1 g2,
            processNode SingleRate.model SingleRate.component 0 1 x.2
                (x.1 :: Conditional.node :: [])
                GeneratorEquationAst.null g1 = some (t, g2))
      ∧ ∀ (F : Type) (p : GeneratorProfile) (m' : Model) (num : Numerics F)
          (parent : Option GeneratorEquationAstType),
          generateCode p m' num Conditional.result.1 parent
            = (do
              let texts ← renderPieces p m' num trees
              let w ← renderOtherwise p m' num wt
              pure (piecewiseText p texts w)) :=
  ⟨⟨by decide, rfl, List.cons_ne_nil _ _,
      fun x hx => by
        simp only [Conditional.pieces, List.mem_cons, List.mem_singleton, List.not_mem_nil,
          or_false] at hx
        rcases hx with rfl | rfl <;> exact ⟨by decide, rfl⟩,
      fun x hx => by cases hx; exact ⟨by decide, rfl⟩, by decide, by decide⟩,
    by decide,
    processNode_piecewise_rendering SingleRate.model SingleRate.component 0 1
      Conditional.pieces (some Conditional.otherwise) Conditional.node []
      GeneratorEquationAst.null SingleRate.started Conditional.result.1 Conditional.result.2
      (by decide) rfl (List.cons_ne_nil _ _)
      (fun x hx => by
        simp only [Conditional.pieces, List.mem_cons, List.mem_singleton, List.not_mem_nil,
          or_false] at hx
        rcases hx with rfl | rfl <;> exact ⟨by decide, rfl⟩)
      (fun x hx => by cases hx; exact ⟨by decide, rfl⟩) (by decide)
      (by decide)⟩

/-! ## C40: the partition of the registry -/

theorem sameOrEquivalentVariable_self (hEq : Variable → Variable → Bool) (a : Option Variable) :
    sameOrEquivalentVariable hEq a a = true := by
  simp [sameOrEquivalentVariable]

theorem sameOrEquivalentVariable_eq_some (hEq : Variable → Variable → Bool) (a : Variable)
    (b : Option Variable) (h : sameOrEquivalentVariable hEq (some a) b = true) :
    ∃ w, b = some w := by
  cases b with
  | none => rw [sameOrEquivalentVariable_none_right] at h; cases h
  | some w => exact ⟨w, rfl⟩

/-- The lookup of a variable that has a record creates no record. -/
theorem HasRecord.lookupSame {m : Model} {g : GeneratorImpl} {v : Variable} (h : HasRecord m g v) :
    (generatorVariable m g v).1 = g := by
  rcases generatorVariable_cases m g v with hc | ⟨_, hnone⟩
  · exact hc.1
  · obtain ⟨p, hp, hv⟩ := h
    rw [hnone p hp] at hv
    cases hv

theorem HasRecord.ofRegistry {m : Model} {g g' : GeneratorImpl} {v : Variable}
    (h1 : g'.variableStore = g.variableStore) (h2 : g'.mInternalVariables = g.mInternalVariables)
    (h : HasRecord m g v) : HasRecord m g' v := by
  obtain ⟨p, hp, hv⟩ := h
  refine ⟨p, by rw [h2]; exact hp, ?_⟩
  unfold GeneratorImpl.internalVariable at hv ⊢
  rw [h1]
  exact hv

theorem Keeps.reflKeeps (m : Model) (g : GeneratorImpl) : Keeps m g g :=
  ⟨fun _ h => h, fun _ w h => ⟨w, h, sameOrEquivalentVariable_self _ _⟩⟩

theorem Keeps.transKeeps {m : Model}
    (htrans : ∀ a b c, m.hasEquivalentVariable a b = true → m.hasEquivalentVariable b c = true →
      a = c ∨ m.hasEquivalentVariable a c = true)
    {g g' g'' : GeneratorImpl} (h1 : Keeps m g g') (h2 : Keeps m g' g'') : Keeps m g g'' := by
  refine ⟨fun p hp => h2.1 p (h1.1 p hp), fun p w hw => ?_⟩
  obtain ⟨w', hw', e1⟩ := h1.2 p w hw
  obtain ⟨w'', hw'', e2⟩ := h2.2 p w' hw'
  exact ⟨w'', hw'', sameOrEquivalentVariable_trans _ htrans _ _ _ e1 e2⟩

theorem Keeps.sameRegistryKeeps {m : Model} {g g' : GeneratorImpl} (h : SameRegistry g g') :
    Keeps m g g' := by
  obtain ⟨s1, _, s3⟩ := h
  refine ⟨fun p hp => by rw [s1]; exact hp, fun p w hw => ⟨w, ?_, sameOrEquivalentVariable_self _ _⟩⟩
  rw [s3]; exact hw

theorem Keeps.growKeeps {m : Model} {g g' : GeneratorImpl} (h : Grow g g') : Keeps m g g' := by
  refine ⟨fun p hp => ?_, fun p w hw => ⟨w, ?_, sameOrEquivalentVariable_self _ _⟩⟩
  · obtain ⟨ext, iext, rfl⟩ := h
    exact List.mem_append_left _ hp
  · have hl : p < g.variableStore.length := by
      by_contra hcon
      rw [internalVariable_default g p (Nat.le_of_not_lt hcon)] at hw
      cases hw
    rw [h.internalVariable p hl]
    exact hw

theorem Keeps.lookupKeeps (m : Model) (g : GeneratorImpl) (v : Variable) :
    Keeps m g (generatorVariable m g v).1 :=
  Keeps.growKeeps (generatorVariable_grow m g v)

/-- A step that permutes the list of the records. -/
theorem Keeps.permKeeps {m : Model} {g : GeneratorImpl} (l : List Nat)
    (hl : l.Perm g.mInternalVariables) : Keeps m g { g with mInternalVariables := l } :=
  ⟨fun _ hp => hl.mem_iff.2 hp, fun _ w hw => ⟨w, hw, sameOrEquivalentVariable_self _ _⟩⟩

/-- A record whose variable is replaced by the same or an equivalent
variable. -/
theorem Keeps.setRelatedKeeps {m : Model} {g : GeneratorImpl} (p : Nat) (x : GeneratorInternalVariable)
    (hx : ∀ w, (g.internalVariable p).mVariable = some w →
      ∃ t, x.mVariable = some t
        ∧ sameOrEquivalentVariable m.hasEquivalentVariable (some w) (some t) = true) :
    Keeps m g (g.setInternalVariable p x) := by
  refine ⟨fun q hq => hq, fun q w hw => ?_⟩
  rw [GeneratorImpl.internalVariable_setInternalVariable]
  split_ifs with hc
  · obtain ⟨rfl, _⟩ := hc
    exact hx w hw
  · exact ⟨w, hw, sameOrEquivalentVariable_self _ _⟩

/-- A variable that has a record keeps one. -/
theorem Keeps.hasRecord {m : Model}
    (htrans : ∀ a b c, m.hasEquivalentVariable a b = true → m.hasEquivalentVariable b c = true →
      a = c ∨ m.hasEquivalentVariable a c = true)
    {g g' : GeneratorImpl} (h : Keeps m g g') {v : Variable} (hv : HasRecord m g v) :
    HasRecord m g' v := by
  obtain ⟨p, hp, hs⟩ := hv
  obtain ⟨w, hw⟩ := sameOrEquivalentVariable_eq_some _ _ _ hs
  obtain ⟨w', hw', e⟩ := h.2 p w hw
  refine ⟨p, h.1 p hp, ?_⟩
  rw [hw] at hs
  rw [hw']
  exact sameOrEquivalentVariable_trans _ htrans _ _ _ hs e

theorem MemoryRegistered.cell {m : Model} {g : GeneratorImpl} {mem : AstMemory}
    (h : MemoryRegistered m g mem) (p : Nat) : ∀ v ∈ (mem.cell p).mVariable, HasRecord m g v := by
  intro v hv
  unfold AstMemory.cell at hv
  by_cases hp : p < mem.cells.length
  · rw [List.getD_eq_getElem?_getD, List.getElem?_eq_getElem hp] at hv
    exact h _ (List.getElem_mem hp) v hv
  · rw [List.getD_eq_getElem?_getD, List.getElem?_eq_none (Nat.le_of_not_lt hp)] at hv
    cases hv

theorem MemoryRegistered.push {m : Model} {g : GeneratorImpl} {mem : AstMemory}
    (h : MemoryRegistered m g mem) (c : AstCell) (hc : ∀ v ∈ c.mVariable, HasRecord m g v) :
    MemoryRegistered m g (mem.push c) := by
  intro x hx v hv
  unfold AstMemory.push at hx
  rcases List.mem_append.1 hx with hx | hx
  · exact h x hx v hv
  · rw [List.mem_singleton] at hx
    subst hx
    exact hc v hv

theorem MemoryRegistered.set {m : Model} {g : GeneratorImpl} {mem : AstMemory}
    (h : MemoryRegistered m g mem) (p : Nat) (c : AstCell)
    (hc : c.mVariable = (mem.cell p).mVariable) : MemoryRegistered m g (mem.set p c) := by
  intro x hx v hv
  unfold AstMemory.set at hx
  rcases List.mem_or_eq_of_mem_set hx with hx | hx
  · exact h x hx v hv
  · subst hx
    rw [hc] at hv
    exact h.cell p v hv

theorem scaleComputedRate_registered {m : Model} {g : GeneratorImpl} {mem : AstMemory}
    (h : MemoryRegistered m g mem) (astGrandParent rhsAst : Nat) (value : String) :
    MemoryRegistered m g (scaleComputedRate mem astGrandParent rhsAst value) := by
  unfold scaleComputedRate
  dsimp only
  refine MemoryRegistered.set ?_ _ _ rfl
  refine MemoryRegistered.set ?_ _ _ rfl
  refine MemoryRegistered.set ?_ _ _ rfl
  refine MemoryRegistered.set ?_ _ _ rfl
  refine MemoryRegistered.push (MemoryRegistered.push h _ ?_) _ ?_
  · intro v hv; cases hv
  · intro v hv; cases hv

theorem scaleReference_registered {m : Model} {g : GeneratorImpl} {mem : AstMemory}
    (h : MemoryRegistered m g mem) (ast astParent : Nat) (value : String) :
    MemoryRegistered m g (scaleReference mem ast astParent value) := by
  unfold scaleReference
  dsimp only
  have h1 : MemoryRegistered m g ((mem.push
      ({ mType := GeneratorEquationAstType.TIMES, mParent := some astParent })).push
      ({ mType := GeneratorEquationAstType.CN, mValue := value, mParent := some mem.length })) :=
    MemoryRegistered.push (MemoryRegistered.push h _ (fun v hv => by cases hv)) _
      (fun v hv => by cases hv)
  split_ifs
  · refine MemoryRegistered.set ?_ _ _ rfl
    refine MemoryRegistered.set ?_ _ _ rfl
    refine MemoryRegistered.set ?_ _ _ rfl
    refine MemoryRegistered.set ?_ _ _ rfl
    exact h1
  · refine MemoryRegistered.set ?_ _ _ rfl
    refine MemoryRegistered.set ?_ _ _ rfl
    refine MemoryRegistered.set ?_ _ _ rfl
    refine MemoryRegistered.set ?_ _ _ rfl
    exact h1

theorem scalingFactor_registered {F : Type} {m : Model} (num : Numerics F) {g : GeneratorImpl}
    (var : Option Variable) (hv : ∀ v ∈ var, HasRecord m g v) (r : F × GeneratorImpl)
    (h : scalingFactor m num g var = some r) : r.2 = g := by
  unfold scalingFactor at h
  simp only [Option.bind_eq_some, Option.map_eq_some'] at h
  obtain ⟨v, rfl, w, _, rfl⟩ := h
  exact (hv v rfl).lookupSame

theorem scaleRate_registered {F : Type} {m : Model} (num : Numerics F) {g : GeneratorImpl}
    {mem : AstMemory} (hm : MemoryRegistered m g mem) (astParent : Nat)
    (r : AstMemory × GeneratorImpl) (h : scaleRate m num astParent mem g = some r) :
    r.2 = g ∧ MemoryRegistered m g r.1 := by
  unfold scaleRate at h
  simp only [Option.bind_eq_some] at h
  obtain ⟨bvar, _, voi, _, fg, hfg, h⟩ := h
  have hf := scalingFactor_registered num _ (hm.cell voi) fg hfg
  split_ifs at h
  · simp only [Option.bind_eq_some] at h
    obtain ⟨gp, _, h⟩ := h
    split_ifs at h
    · simp only [Option.map_eq_some'] at h
      obtain ⟨rhs, _, rfl⟩ := h
      exact ⟨hf, scaleComputedRate_registered hm _ _ _⟩
    · simp only [Option.some.injEq] at h
      subst h
      exact ⟨hf, scaleReference_registered hm _ _ _⟩
  · simp only [Option.some.injEq] at h
    subst h
    exact ⟨hf, hm⟩

theorem scaleVariable_registered {F : Type} {m : Model} (num : Numerics F) {g : GeneratorImpl}
    {mem : AstMemory} (hm : MemoryRegistered m g mem) (ast astParent : Nat)
    (r : AstMemory × GeneratorImpl) (h : scaleVariable m num ast astParent mem g = some r) :
    r.2 = g ∧ MemoryRegistered m g r.1 := by
  unfold scaleVariable at h
  simp only [Option.map_eq_some'] at h
  obtain ⟨fg, hfg, rfl⟩ := h
  have hf := scalingFactor_registered num _ (hm.cell ast) fg hfg
  split_ifs
  · exact ⟨hf, scaleReference_registered hm _ _ _⟩
  · exact ⟨hf, hm⟩

/-- The scaling of a tree whose variables all have a record leaves the
generator unchanged: no lookup creates a record. -/
theorem scaleEquationAst_registered {F : Type} {m : Model} (num : Numerics F)
    {g : GeneratorImpl} :
    ∀ (fuel ast : Nat) (mem : AstMemory) (r : AstMemory × GeneratorImpl),
      MemoryRegistered m g mem → scaleEquationAst m num fuel ast mem g = some r →
      r.2 = g ∧ MemoryRegistered m g r.1
  | 0, _, _, _, _, h => by simp [scaleEquationAst] at h
  | fuel + 1, ast, mem, r, hm, h => by
    simp only [scaleEquationAst, Option.bind_eq_some] at h
    obtain ⟨s1, h1, s2, h2, h3⟩ := h
    have f1 : s1.2 = g ∧ MemoryRegistered m g s1.1 := by
      split at h1
      · exact scaleEquationAst_registered num fuel _ _ _ hm h1
      · simp only [Option.some.injEq] at h1; subst h1; exact ⟨rfl, hm⟩
    have f2 : s2.2 = g ∧ MemoryRegistered m g s2.1 := by
      split at h2
      · rw [f1.1] at h2
        exact scaleEquationAst_registered num fuel _ _ _ f1.2 h2
      · simp only [Option.some.injEq] at h2; subst h2; exact f1
    split_ifs at h3
    · simp only [Option.bind_eq_some] at h3
      obtain ⟨ap, _, h3⟩ := h3
      rw [f2.1] at h3
      split_ifs at h3
      · exact scaleRate_registered num f2.2 _ _ h3
      · exact scaleVariable_registered num f2.2 _ _ _ h3
      · simp only [Option.some.injEq] at h3
        subst h3
        exact f2
    · simp only [Option.some.injEq] at h3
      subst h3
      exact f2

theorem ofTree_registered {m : Model} {g : GeneratorImpl} :
    ∀ (ast : GeneratorEquationAst) (parent : Option Nat) (mem : AstMemory),
      MemoryRegistered m g mem → TreeRegistered m g ast →
      MemoryRegistered m g (AstMemory.ofTree ast parent mem).2
  | GeneratorEquationAst.null, _, _, hm, _ => hm
  | GeneratorEquationAst.node t value var l r, parent, mem, hm, ht => by
    unfold AstMemory.ofTree
    dsimp only
    have hvar : ∀ v ∈ var, HasRecord m g v := fun v hv =>
      ht v (by
        unfold treeVariables
        exact List.mem_append_left _ (by simpa using hv))
    have hl : TreeRegistered m g l := fun v hv =>
      ht v (by
        unfold treeVariables
        exact List.mem_append_right _ (List.mem_append_left _ hv))
    have hr : TreeRegistered m g r := fun v hv =>
      ht v (by
        unfold treeVariables
        exact List.mem_append_right _ (List.mem_append_right _ hv))
    have h1 := MemoryRegistered.push hm
      ({ mType := t, mValue := value, mVariable := var, mParent := parent }) hvar
    have h2 := ofTree_registered l (some mem.length) _ h1 hl
    have h3 := ofTree_registered r (some mem.length) _ h2 hr
    exact MemoryRegistered.set h3 _ _ rfl

theorem toTree_registered {m : Model} {g : GeneratorImpl} {mem : AstMemory}
    (hm : MemoryRegistered m g mem) :
    ∀ (fuel : Nat) (p : Option Nat) (t : GeneratorEquationAst),
      AstMemory.toTree mem fuel p = some t → TreeRegistered m g t
  | _, none, t, h => by
    unfold AstMemory.toTree at h
    simp only [Option.some.injEq] at h
    subst h
    intro v hv
    simp [treeVariables] at hv
  | 0, some _, _, h => by simp [AstMemory.toTree] at h
  | fuel + 1, some p, t, h => by
    simp only [AstMemory.toTree, Option.bind_eq_some, Option.map_eq_some'] at h
    obtain ⟨l, hl, r, hr, rfl⟩ := h
    intro v hv
    unfold treeVariables at hv
    rcases List.mem_append.1 hv with hv | hv
    · exact hm.cell p v (by simpa using hv)
    · rcases List.mem_append.1 hv with hv | hv
      · exact toTree_registered hm fuel _ l hl v hv
      · exact toTree_registered hm fuel _ r hr v hv

theorem scaleEquation_registered {F : Type} {m : Model} (num : Numerics F) {g : GeneratorImpl}
    (ast : GeneratorEquationAst) (ht : TreeRegistered m g ast)
    (r : GeneratorEquationAst × GeneratorImpl) (h : scaleEquation m num ast g = some r) :
    r.2 = g ∧ TreeRegistered m g r.1 := by
  unfold scaleEquation at h
  simp only [Option.bind_eq_some, Option.map_eq_some'] at h
  obtain ⟨root, _, s, hs, t, ht', rfl⟩ := h
  have hm0 : MemoryRegistered m g {} := by
    intro c hc
    cases hc
  have h1 := ofTree_registered ast none {} hm0 ht
  have h2 := scaleEquationAst_registered num _ _ _ _ h1 hs
  exact ⟨h2.1, toTree_registered h2.2 _ _ _ ht'⟩

/-- The scaling of the trees of the equations creates no record when every
variable of every tree has one. -/
theorem scaleEquations_registered {F : Type} {m : Model} (num : Numerics F) :
    ∀ (es : List Nat) (g g' : GeneratorImpl),
      (∀ e, TreeRegistered m g (g.equation e).mAst) →
      scaleEquations m num es g = some g' →
      g'.variableStore = g.variableStore ∧ g'.mInternalVariables = g.mInternalVariables
  | [], g, g', _, h => by
    simp only [scaleEquations, Option.some.injEq] at h; subst h; exact ⟨rfl, rfl⟩
  | e :: es, g, g', ht, h => by
    simp only [scaleEquations, Option.bind_eq_some] at h
    obtain ⟨r, hr, h⟩ := h
    obtain ⟨h1, h2⟩ := scaleEquation_registered num _ (ht e) r hr
    rw [h1] at h
    have ht' : ∀ e', TreeRegistered m (g.setEquation e { g.equation e with mAst := r.1 })
        ((g.setEquation e { g.equation e with mAst := r.1 }).equation e').mAst := by
      intro e' v hv
      rw [GeneratorImpl.equation_setEquation] at hv
      have : HasRecord m g v := by
        split_ifs at hv
        · exact h2 v hv
        · exact ht e' v hv
      exact this.ofRegistry rfl rfl
    exact scaleEquations_registered num es
      (g.setEquation e { g.equation e with mAst := r.1 }) g' ht' h

/-- The lists that `publishVariables` fills: the entries of the states and of
the variables are added in the order of the records. -/
theorem publishVariables_lists :
    ∀ (ps : List Nat) (g : GeneratorImpl),
      (publishVariables ps g).mStates = g.mStates ++ stateEntries g ps
      ∧ (publishVariables ps g).mVariables = g.mVariables ++ variableEntries g ps
  | [], g => by simp [publishVariables, stateEntries, variableEntries, stateRecords, variableRecords]
  | p :: ps, g => by
    have e1 : ∀ l, stateEntries { g with mStates := l } ps = stateEntries g ps := fun _ => rfl
    have e2 : ∀ l, variableEntries { g with mStates := l } ps = variableEntries g ps :=
      fun _ => rfl
    have e3 : ∀ l, stateEntries { g with mVariables := l } ps = stateEntries g ps := fun _ => rfl
    have e4 : ∀ l, variableEntries { g with mVariables := l } ps = variableEntries g ps :=
      fun _ => rfl
    unfold publishVariables
    dsimp only
    rcases ht : (g.internalVariable p).mType
    all_goals
      simp only [ht, reduceCtorEq, if_false, if_true, false_or, or_false, or_true, true_or]
    all_goals first
      | (rw [(publishVariables_lists ps g).1, (publishVariables_lists ps g).2]
         simp [stateEntries, variableEntries, stateRecords, variableRecords, ht,
           publishedVariableType])
      | (rw [(publishVariables_lists ps _).1, (publishVariables_lists ps _).2, e1, e2]
         simp [stateEntries, variableEntries, stateRecords, variableRecords, ht,
           publishedVariableType, publishedEntry])
      | (rw [(publishVariables_lists ps _).1, (publishVariables_lists ps _).2, e3, e4]
         simp [stateEntries, variableEntries, stateRecords, variableRecords, ht,
           publishedVariableType, publishedEntry])

theorem publishedVariableType_isSome (t : GeneratorInternalVariableType) :
    (publishedVariableType t).isSome
      = decide (t = GeneratorInternalVariableType.CONSTANT
        ∨ t = GeneratorInternalVariableType.COMPUTED_TRUE_CONSTANT
        ∨ t = GeneratorInternalVariableType.COMPUTED_VARIABLE_BASED_CONSTANT
        ∨ t = GeneratorInternalVariableType.ALGEBRAIC) := by
  cases t <;> rfl

/-- The records with a valid tag are split between the variable of
integration, the states and the variables. -/
theorem registry_count (g : GeneratorImpl) :
    ∀ ps : List Nat, (∀ p ∈ ps, validTag (g.internalVariable p).mType) →
      ps.length = (voiRecords g ps).length + (stateRecords g ps).length
        + (variableRecords g ps).length
  | [], _ => rfl
  | p :: ps, h => by
    have ih := registry_count g ps (fun q hq => h q (List.mem_cons_of_mem _ hq))
    have hp := h p (List.mem_cons_self _ _)
    unfold validTag at hp
    unfold voiRecords stateRecords variableRecords at ih ⊢
    simp only [publishedVariableType_isSome] at ih ⊢
    rcases ht : (g.internalVariable p).mType
    all_goals simp [ht] at hp
    all_goals
      simp only [List.filter_cons, ht, decide_True, decide_False, reduceCtorEq, if_true,
        if_false, List.length_cons, Bool.false_eq_true, or_self, or_false, false_or, or_true,
        true_or]
      omega

theorem VoiTags.reflVoi (g : GeneratorImpl) : VoiTags g g :=
  fun _ => ⟨fun h => h, fun h => Or.inl h, fun h => h⟩

theorem VoiTags.transVoi {g g' g'' : GeneratorImpl} (h1 : VoiTags g g') (h2 : VoiTags g' g'') :
    VoiTags g g'' := by
  intro q
  obtain ⟨a1, a2, a3⟩ := h1 q
  obtain ⟨b1, b2, b3⟩ := h2 q
  refine ⟨fun h => a1 (b1 h), fun h => ?_, fun h => b3 (a3 h)⟩
  rcases a2 h with h' | h'
  · exact b2 h'
  · exact Or.inr (b3 h')

theorem VoiTags.setRecordVoi (g : GeneratorImpl) (p : Nat) (x : GeneratorInternalVariable)
    (h1 : x.mType = GeneratorInternalVariableType.VARIABLE_OF_INTEGRATION →
      (g.internalVariable p).mType = GeneratorInternalVariableType.VARIABLE_OF_INTEGRATION)
    (h2 : (g.internalVariable p).mType = GeneratorInternalVariableType.VARIABLE_OF_INTEGRATION →
      x.mType = GeneratorInternalVariableType.VARIABLE_OF_INTEGRATION
      ∨ x.mType = GeneratorInternalVariableType.OVERCONSTRAINED)
    (h3 : (g.internalVariable p).mType = GeneratorInternalVariableType.OVERCONSTRAINED →
      x.mType = GeneratorInternalVariableType.OVERCONSTRAINED) :
    VoiTags g (g.setInternalVariable p x) := by
  intro q
  rw [GeneratorImpl.internalVariable_setInternalVariable]
  split_ifs with hc
  · obtain ⟨rfl, _⟩ := hc
    exact ⟨h1, h2, h3⟩
  · exact ⟨fun h => h, fun h => Or.inl h, fun h => h⟩

theorem VoiTags.storeVoi {g g' : GeneratorImpl} (h : g'.variableStore = g.variableStore) :
    VoiTags g g' := by
  intro q
  unfold GeneratorImpl.internalVariable
  rw [h]
  exact ⟨fun h => h, fun h => Or.inl h, fun h => h⟩

theorem computedType_ne_voi (this : GeneratorEquation) :
    computedType this ≠ GeneratorInternalVariableType.VARIABLE_OF_INTEGRATION := by
  unfold computedType
  split_ifs <;> simp

theorem updateVariable_voiTags (hEq : Variable → Variable → Bool) (this : GeneratorEquation)
    (var : GeneratorInternalVariable) :
    ((updateVariable hEq this var).mType = GeneratorInternalVariableType.VARIABLE_OF_INTEGRATION →
      var.mType = GeneratorInternalVariableType.VARIABLE_OF_INTEGRATION)
    ∧ (var.mType = GeneratorInternalVariableType.VARIABLE_OF_INTEGRATION →
      (updateVariable hEq this var).mType = GeneratorInternalVariableType.VARIABLE_OF_INTEGRATION
      ∨ (updateVariable hEq this var).mType = GeneratorInternalVariableType.OVERCONSTRAINED)
    ∧ (var.mType = GeneratorInternalVariableType.OVERCONSTRAINED →
      (updateVariable hEq this var).mType = GeneratorInternalVariableType.OVERCONSTRAINED) := by
  rw [(updateVariable_fields hEq this var).2.2]
  split_ifs with h
  · refine ⟨fun hc => absurd hc (computedType_ne_voi this), fun hc => ?_, fun hc => ?_⟩
    · rw [h] at hc; cases hc
    · rw [h] at hc; cases hc
  · exact ⟨fun hc => hc, fun hc => Or.inl hc, fun hc => hc⟩

/-- The step of `check` on the tags of the variable of integration. -/
theorem check_voiTags (hEq : Variable → Variable → Bool) (g : GeneratorImpl) (self : Nat)
    (c : Counters) : VoiTags g (check hEq g self c).1 := by
  apply check_elim hEq g self c (fun r => VoiTags g r.1)
  · intro _; exact VoiTags.reflVoi g
  · intro _ h2
    refine VoiTags.setRecordVoi g _ _ (fun hc => by cases hc) (fun _ => Or.inr rfl) (fun _ => rfl)
  · intro _ _ _
    exact VoiTags.storeVoi rfl
  · intro _ _ _ _
    have h1 := VoiTags.setRecordVoi g (soleVariable (updateTracking g (g.equation self)))
      (updateVariable hEq (updateTracking g (g.equation self))
        (g.internalVariable (soleVariable (updateTracking g (g.equation self)))))
      (updateVariable_voiTags hEq _ _).1 (updateVariable_voiTags hEq _ _).2.1
      (updateVariable_voiTags hEq _ _).2.2
    exact h1.transVoi (VoiTags.storeVoi rfl)
  · intro _ _ _ _
    unfold checkResolved
    dsimp only
    have h1 := VoiTags.setRecordVoi g (soleVariable (updateTracking g (g.equation self)))
      { updateVariable hEq (updateTracking g (g.equation self))
          (g.internalVariable (soleVariable (updateTracking g (g.equation self)))) with
        mIndex := assignedIndex (updateVariable hEq (updateTracking g (g.equation self))
            (g.internalVariable (soleVariable (updateTracking g (g.equation self))))).mType
          (nextCounters (updateVariable hEq (updateTracking g (g.equation self))
            (g.internalVariable (soleVariable (updateTracking g (g.equation self))))).mType c),
        mEquation := some self }
      (updateVariable_voiTags hEq _ _).1 (updateVariable_voiTags hEq _ _).2.1
      (updateVariable_voiTags hEq _ _).2.2
    exact h1.transVoi (VoiTags.storeVoi rfl)

theorem Tracks.reflTracks (g : GeneratorImpl) : Tracks g g :=
  fun _ => ⟨fun _ h => h, fun _ h => h, rfl, rfl⟩

theorem Tracks.transTracks {g g' g'' : GeneratorImpl} (h1 : Tracks g g') (h2 : Tracks g' g'') :
    Tracks g g'' := by
  intro e
  obtain ⟨a1, a2, a3, a4⟩ := h1 e
  obtain ⟨b1, b2, b3, b4⟩ := h2 e
  exact ⟨fun p hp => a1 p (b1 p hp), fun p hp => a2 p (b2 p hp), b3.trans a3, b4.trans a4⟩

theorem Tracks.storeTracks {g g' : GeneratorImpl} (h : g'.equationStore = g.equationStore) :
    Tracks g g' := by
  intro e
  unfold GeneratorImpl.equation
  rw [h]
  exact ⟨fun _ h => h, fun _ h => h, rfl, rfl⟩

theorem Tracks.setEquationTracks (g : GeneratorImpl) (self : Nat) (y : GeneratorEquation)
    (h1 : ∀ p ∈ y.mVariables, p ∈ (g.equation self).mVariables)
    (h2 : ∀ p ∈ y.mOdeVariables, p ∈ (g.equation self).mOdeVariables)
    (h3 : y.mComponent = (g.equation self).mComponent)
    (h4 : y.mAst = (g.equation self).mAst) : Tracks g (g.setEquation self y) := by
  intro e
  rw [GeneratorImpl.equation_setEquation]
  split_ifs with hc
  · obtain ⟨rfl, _⟩ := hc
    exact ⟨h1, h2, h3, h4⟩
  · exact ⟨fun _ h => h, fun _ h => h, rfl, rfl⟩

theorem updateTracking_tracks (g : GeneratorImpl) (this : GeneratorEquation) :
    (∀ p ∈ (updateTracking g this).mVariables, p ∈ this.mVariables)
    ∧ (∀ p ∈ (updateTracking g this).mOdeVariables, p ∈ this.mOdeVariables)
    ∧ (updateTracking g this).mComponent = this.mComponent
    ∧ (updateTracking g this).mAst = this.mAst := by
  unfold updateTracking
  dsimp only
  exact ⟨fun p hp => List.mem_of_mem_filter hp, fun p hp => List.mem_of_mem_filter hp, rfl, rfl⟩

/-- The step of `check` on the lists of the equations. -/
theorem check_tracks (hEq : Variable → Variable → Bool) (g : GeneratorImpl) (self : Nat)
    (c : Counters) : Tracks g (check hEq g self c).1 := by
  obtain ⟨u1, u2, u3, u4⟩ := updateTracking_tracks g (g.equation self)
  apply check_elim hEq g self c (fun r => Tracks g r.1)
  · intro _; exact Tracks.reflTracks g
  · intro _ _
    exact Tracks.storeTracks rfl
  · intro _ _ _
    exact Tracks.setEquationTracks g self _ u1 u2 u3 u4
  · intro _ _ _ _
    exact (@Tracks.storeTracks g (g.setInternalVariable _ _) rfl).transTracks
      (Tracks.setEquationTracks _ self _ u1 u2 u3 u4)
  · intro _ _ _ _
    unfold checkResolved
    dsimp only
    exact (@Tracks.storeTracks g (g.setInternalVariable _ _) rfl).transTracks
      (Tracks.setEquationTracks _ self _ u1 u2 u3 u4)

/-- The anchors of the tracked records are kept by a step that keeps the
classes of the records and adds no tracked record. -/
theorem Anchored.step {m : Model}
    (hsym : ∀ a b, m.hasEquivalentVariable a b = true → m.hasEquivalentVariable b a = true)
    (htrans : ∀ a b c, m.hasEquivalentVariable a b = true → m.hasEquivalentVariable b c = true →
      a = c ∨ m.hasEquivalentVariable a c = true)
    {g g' : GeneratorImpl} (h : Anchored m g) (hk : Keeps m g g') (ht : Tracks g g') :
    Anchored m g' := by
  intro e p hp
  obtain ⟨t1, t2, t3, _⟩ := ht e
  obtain ⟨w, u, hw, hu, hwu⟩ := h e p (hp.imp (t1 p) (t2 p))
  obtain ⟨w', hw', hww'⟩ := hk.2 p w hw
  refine ⟨w', u, hw', by rw [t3]; exact hu, ?_⟩
  exact sameOrEquivalentVariable_trans _ htrans _ _ _
    (sameOrEquivalentVariable_symm _ hsym _ _ hww') hwu

/-- The update that `check` makes to the one variable that is left keeps a
variable in the record when the record is anchored in the component of the
equation. -/
theorem updateVariable_anchored (hEq : Variable → Variable → Bool) (this : GeneratorEquation)
    (var : GeneratorInternalVariable) (w u : Variable) (hw : var.mVariable = some w)
    (hu : u ∈ this.mComponent.variableList)
    (hwu : sameOrEquivalentVariable hEq (some w) (some u) = true) :
    ∃ t, (updateVariable hEq this var).mVariable = some t
      ∧ sameOrEquivalentVariable hEq (some w) (some t) = true := by
  rcases updateVariable_mVariable hEq this var with hn | ⟨v, t, hv, ht, hvt⟩
  · exfalso
    have hm : (updateVariable hEq this var).mVariable
        = this.mComponent.variableList.find? fun testVariable =>
            sameOrEquivalentVariable hEq var.mVariable (some testVariable) := by
      unfold updateVariable
      dsimp only
      split_ifs <;> rfl
    rw [hm, List.find?_eq_none] at hn
    have := hn u hu
    rw [hw, hwu] at this
    exact this rfl
  · rw [hw] at hv
    cases hv
    exact ⟨t, ht, hvt⟩

/-- The step of `check` keeps the classes of the records when the tracked
records are anchored. -/
theorem check_keeps {m : Model} (g : GeneratorImpl) (self : Nat) (c : Counters)
    (ha : Anchored m g) : Keeps m g (check m.hasEquivalentVariable g self c).1 := by
  have hx : (updateTracking g (g.equation self)).mVariables.length
        + (updateTracking g (g.equation self)).mOdeVariables.length = 1 →
      ∀ w, (g.internalVariable (soleVariable (updateTracking g (g.equation self)))).mVariable
          = some w →
        ∃ t, (updateVariable m.hasEquivalentVariable (updateTracking g (g.equation self))
            (g.internalVariable (soleVariable (updateTracking g
              (g.equation self))))).mVariable = some t
          ∧ sameOrEquivalentVariable m.hasEquivalentVariable (some w) (some t) = true := by
    intro h1 w hw
    obtain ⟨u1, u2, u3, _⟩ := updateTracking_tracks g (g.equation self)
    have hmem : soleVariable (updateTracking g (g.equation self)) ∈ (g.equation self).mVariables
        ∨ soleVariable (updateTracking g (g.equation self))
          ∈ (g.equation self).mOdeVariables := by
      rcases soleVariable_mem _ h1 with ⟨hm, _⟩ | ⟨hm, _⟩
      · exact Or.inl (u1 _ hm)
      · exact Or.inr (u2 _ hm)
    obtain ⟨w0, u, hw0, hu, hwu⟩ := ha self _ hmem
    rw [hw] at hw0
    cases hw0
    exact updateVariable_anchored _ _ _ w u hw (by rw [u3]; exact hu) hwu
  apply check_elim m.hasEquivalentVariable g self c (fun r => Keeps m g r.1)
  · intro _; exact Keeps.reflKeeps m g
  · intro _ _
    exact Keeps.sameRegistryKeeps (setInternalVariable_sameRegistry _ _ _ rfl)
  · intro _ _ _
    exact Keeps.sameRegistryKeeps ⟨rfl, rfl, fun _ => rfl⟩
  · intro _ _ h1 _
    exact Keeps.setRelatedKeeps _ _ (hx h1)
  · intro _ _ h1 _
    unfold checkResolved
    dsimp only
    exact Keeps.setRelatedKeeps (soleVariable (updateTracking g (g.equation self)))
      { updateVariable m.hasEquivalentVariable (updateTracking g (g.equation self))
          (g.internalVariable (soleVariable (updateTracking g (g.equation self)))) with
        mIndex := assignedIndex (updateVariable m.hasEquivalentVariable
            (updateTracking g (g.equation self))
            (g.internalVariable (soleVariable (updateTracking g (g.equation self))))).mType
          (nextCounters (updateVariable m.hasEquivalentVariable
            (updateTracking g (g.equation self))
            (g.internalVariable (soleVariable (updateTracking g (g.equation self))))).mType c),
        mEquation := some self }
      (hx h1)

/-- The resolution loop keeps the classes of the records, the anchors of the
tracked records, the trees, and the tags of the variable of integration. -/
theorem resolveEquations_keeps {m : Model}
    (hsym : ∀ a b, m.hasEquivalentVariable a b = true → m.hasEquivalentVariable b a = true)
    (htrans : ∀ a b c, m.hasEquivalentVariable a b = true → m.hasEquivalentVariable b c = true →
      a = c ∨ m.hasEquivalentVariable a c = true)
    (fuel : Nat) (g : GeneratorImpl) (c : Counters) (r : GeneratorImpl × Counters)
    (ha : Anchored m g) (h : resolveEquations m.hasEquivalentVariable fuel g c = some r) :
    Anchored m r.1 ∧ Keeps m g r.1 ∧ Tracks g r.1 ∧ VoiTags g r.1 :=
  resolveEquations_invariant m.hasEquivalentVariable
    (fun x _ => Anchored m x ∧ Keeps m g x ∧ Tracks g x ∧ VoiTags g x)
    (fun x c self _ hx =>
      ⟨hx.1.step hsym htrans (check_keeps x self c hx.1) (check_tracks _ x self c),
        Keeps.transKeeps htrans hx.2.1 (check_keeps x self c hx.1),
        hx.2.2.1.transTracks (check_tracks _ x self c),
        hx.2.2.2.transVoi (check_voiTags _ x self c)⟩)
    fuel g c r ⟨ha, Keeps.reflKeeps m g, Tracks.reflTracks g, VoiTags.reflVoi g⟩ h

mutual
theorem variableFirstOccurrence_spec (m : Model) (var : Variable) :
    ∀ (c : ComponentEntity) (voi : GeneratorVariable),
      variableFirstOccurrence m var c = some voi →
      ∃ t, voi.mVariable = some t
        ∧ sameOrEquivalentVariable m.hasEquivalentVariable (some var) (some t) = true
  | ComponentEntity.mk component components, voi, h => by
    rw [variableFirstOccurrence] at h
    split at h
    · rename_i t ht
      simp only [Option.some.injEq] at h
      subst h
      exact ⟨t, rfl, by simpa using List.find?_some ht⟩
    · exact variableFirstOccurrenceIn_spec m var components voi h
theorem variableFirstOccurrenceIn_spec (m : Model) (var : Variable) :
    ∀ (cs : List ComponentEntity) (voi : GeneratorVariable),
      variableFirstOccurrenceIn m var cs = some voi →
      ∃ t, voi.mVariable = some t
        ∧ sameOrEquivalentVariable m.hasEquivalentVariable (some var) (some t) = true
  | [], voi, h => by
    rw [variableFirstOccurrenceIn] at h
    cases h
  | c :: rest, voi, h => by
    rw [variableFirstOccurrenceIn] at h
    split at h
    · rename_i v hv
      simp only [Option.some.injEq] at h
      subst h
      exact variableFirstOccurrence_spec m var c _ hv
    · exact variableFirstOccurrenceIn_spec m var rest voi h
end

theorem VoiSame.reflVoiSame (g : GeneratorImpl) : VoiSame g g :=
  ⟨rfl, fun h => h, fun _ h => h, fun _ h1 h2 => ⟨h1, h2⟩, fun _ _ h => ⟨h, rfl⟩⟩

theorem VoiSame.transVoiSame {g g' g'' : GeneratorImpl} (h1 : VoiSame g g') (h2 : VoiSame g' g'') :
    VoiSame g g'' := by
  obtain ⟨a1, a2, a3, a4, a5⟩ := h1
  obtain ⟨b1, b2, b3, b4, b5⟩ := h2
  refine ⟨b1.trans a1, fun h => a2 (b2 h), fun q hq => b3 q (a3 q hq), fun q hq ht => ?_,
    fun q hq ht => ?_⟩
  · obtain ⟨c1, c2⟩ := b4 q hq ht
    exact a4 q c1 c2
  · obtain ⟨c1, c2⟩ := a5 q hq ht
    obtain ⟨d1, d2⟩ := b5 q (a3 q hq) c1
    exact ⟨d1, d2.trans c2⟩

/-- The invariant on the record of the variable of integration is kept by a
step that leaves the tags of the variable of integration alone. -/
theorem VoiRecord.ofSame {m : Model} {g g' : GeneratorImpl} (h : VoiRecord m g)
    (hs : VoiSame g g') : VoiRecord m g' := by
  obtain ⟨a1, a2, a3, a4, a5⟩ := hs
  intro herr
  have hg := h (a2 herr)
  unfold VoiFacts at hg ⊢
  rw [a1]
  rcases hv : g.mVoi with _ | voi
  · rw [hv] at hg
    intro p hp ht
    obtain ⟨c1, c2⟩ := a4 p hp ht
    exact hg p c1 c2
  · rw [hv] at hg
    obtain ⟨p, hp, ht, hu, w, v0, hw, hv0, hs⟩ := hg
    refine ⟨p, a3 p hp, (a5 p hp ht).1, fun q hq hq' => ?_, w, v0, ?_, hv0, hs⟩
    · obtain ⟨c1, c2⟩ := a4 q hq hq'
      exact hu q c1 c2
    · rw [(a5 p hp ht).2]; exact hw

theorem VoiSame.addError (g : GeneratorImpl) (d : String) : VoiSame g (g.addError d) := by
  refine ⟨rfl, fun h => ?_, fun _ h => h, fun _ h1 h2 => ⟨h1, h2⟩, fun _ _ h => ⟨h, rfl⟩⟩
  unfold GeneratorImpl.addError at h
  simp at h

theorem VoiSame.setRecordSame (g : GeneratorImpl) (p : Nat) (x : GeneratorInternalVariable)
    (h1 : x.mType = GeneratorInternalVariableType.VARIABLE_OF_INTEGRATION
      ↔ (g.internalVariable p).mType = GeneratorInternalVariableType.VARIABLE_OF_INTEGRATION)
    (h2 : x.mVariable = (g.internalVariable p).mVariable) :
    VoiSame g (g.setInternalVariable p x) := by
  refine ⟨rfl, fun h => h, fun _ h => h, fun q hq ht => ⟨hq, ?_⟩, fun q _ ht => ?_⟩
  · rw [GeneratorImpl.internalVariable_setInternalVariable] at ht
    split_ifs at ht with hc
    · obtain ⟨rfl, _⟩ := hc
      exact h1.1 ht
    · exact ht
  · rw [GeneratorImpl.internalVariable_setInternalVariable]
    split_ifs with hc
    · obtain ⟨rfl, _⟩ := hc
      exact ⟨h1.2 ht, h2⟩
    · exact ⟨ht, rfl⟩

theorem setVariable_ne_voi (v : Variable) :
    (GeneratorInternalVariable.setVariable {} v).mType
      ≠ GeneratorInternalVariableType.VARIABLE_OF_INTEGRATION := by
  unfold GeneratorInternalVariable.setVariable
  dsimp only
  split_ifs <;> simp

/-- The record that the lookup of a variable returns: it belongs to the
registry, and its variable is the same as, or equivalent to, the variable
looked up; the lookup leaves the tags of the variable of integration
alone. -/
theorem generatorVariable_record {m : Model} {g : GeneratorImpl} (hd : DistinctClasses m g)
    (v : Variable) :
    (generatorVariable m g v).2 ∈ (generatorVariable m g v).1.mInternalVariables
    ∧ (generatorVariable m g v).2 < (generatorVariable m g v).1.variableStore.length
    ∧ (∃ w, ((generatorVariable m g v).1.internalVariable (generatorVariable m g v).2).mVariable
          = some w
        ∧ sameOrEquivalentVariable m.hasEquivalentVariable (some v) (some w) = true)
    ∧ VoiSame g (generatorVariable m g v).1 := by
  rcases generatorVariable_cases m g v with hc | ⟨hc, hnone⟩
  · obtain ⟨c1, c2, c3⟩ := hc
    obtain ⟨w, hw⟩ := sameOrEquivalentVariable_eq_some _ _ _ c3
    rw [c1]
    refine ⟨c2, hd.2.1 _ c2, ⟨w, hw, by rw [hw] at c3; exact c3⟩, VoiSame.reflVoiSame g⟩
  · have hrec := generatorVariable_created_record m g v hnone
    have hsame : ∀ q, q < g.variableStore.length →
        (generatorVariable m g v).1.internalVariable q = g.internalVariable q := fun q hq =>
      (generatorVariable_grow m g v).internalVariable q hq
    rw [hc] at hrec hsame ⊢
    dsimp only at hrec hsame ⊢
    refine ⟨by simp, by simp, ⟨v, ?_, sameOrEquivalentVariable_self _ _⟩, rfl, fun h => h,
      fun q hq => List.mem_append_left _ hq, fun q hq ht => ?_, fun q hq ht => ?_⟩
    · rw [hrec]; exact (setVariable_fields _ v).1
    · rcases List.mem_append.1 hq with hq | hq
      · rw [hsame q (hd.2.1 q hq)] at ht
        exact ⟨hq, ht⟩
      · rw [List.mem_singleton] at hq
        subst hq
        rw [hrec] at ht
        exact absurd ht (setVariable_ne_voi v)
    · rw [hsame q (hd.2.1 q hq)]
      exact ⟨ht, rfl⟩

/-- The four ways in which `processVoi` ends. -/
theorem processVoi_cases (m : Model) (g : GeneratorImpl) (var : Variable) :
    (g.mVoi = none ∧ (processVoi m g var).errors ≠ [])
    ∨ (g.mVoi = none ∧ variableFirstOccurrenceIn m var m.components = none)
    ∨ (∃ voi, g.mVoi = none ∧ variableFirstOccurrenceIn m var m.components = some voi
        ∧ processVoi m g var
          = { (generatorVariable m g var).1.setInternalVariable (generatorVariable m g var).2
                ((generatorVariable m g var).1.internalVariable
                  (generatorVariable m g var).2).makeVoi with mVoi := some voi })
    ∨ (∃ voi, g.mVoi = some voi ∧ (processVoi m g var).errors ≠ [])
    ∨ (∃ voi, g.mVoi = some voi
        ∧ sameOrEquivalentVariable m.hasEquivalentVariable (some var) voi.mVariable = true
        ∧ processVoi m g var
          = (generatorVariable m g var).1.setInternalVariable (generatorVariable m g var).2
              ((generatorVariable m g var).1.internalVariable
                (generatorVariable m g var).2).makeVoi) := by
  have hv : ((generatorVariable m g var).1.setInternalVariable (generatorVariable m g var).2
      ((generatorVariable m g var).1.internalVariable
        (generatorVariable m g var).2).makeVoi).mVoi = g.mVoi :=
    (generatorVariable_frame m g var).2
  unfold processVoi
  dsimp only
  rw [hv]
  rcases hg : g.mVoi with _ | voi
  · dsimp only
    split_ifs with hi
    · left
      exact ⟨rfl, by simp [GeneratorImpl.addError]⟩
    · rcases ho : variableFirstOccurrenceIn m var m.components with _ | voi
      · right; left; exact ⟨rfl, rfl⟩
      · right; right; left
        exact ⟨voi, rfl, rfl, rfl⟩
  · dsimp only
    split_ifs with hi
    · right; right; right; left
      exact ⟨voi, rfl, by simp [GeneratorImpl.addError]⟩
    · right; right; right; right
      refine ⟨voi, rfl, ?_, rfl⟩
      simpa using hi

/-- The block of `processEquationAst` for the bound variable of a derivative
keeps the invariant on the record of the variable of integration. -/
theorem processVoi_voiRecord {m : Model}
    (hsym : ∀ a b, m.hasEquivalentVariable a b = true → m.hasEquivalentVariable b a = true)
    (htrans : ∀ a b c, m.hasEquivalentVariable a b = true → m.hasEquivalentVariable b c = true →
      a = c ∨ m.hasEquivalentVariable a c = true)
    (g : GeneratorImpl) (var : Variable) (hd : DistinctClasses m g) (hv : VoiRecord m g)
    (ho : Occurs m var) : VoiRecord m (processVoi m g var) := by
  obtain ⟨r1, r2, ⟨w, hw, hvw⟩, r4⟩ := generatorVariable_record hd var
  rcases processVoi_cases m g var with ⟨_, he⟩ | ⟨_, hn⟩ | ⟨voi, hg, hf, heq⟩ | ⟨voi, _, he⟩
      | ⟨voi, hg, hs, heq⟩
  · intro herr; exact absurd herr he
  · unfold Occurs at ho
    rw [hn] at ho
    cases ho
  · rw [heq]
    intro herr
    have herr0 : g.errors = [] := r4.2.1 herr
    have h0 := hv herr0
    unfold VoiFacts at h0 ⊢
    rw [hg] at h0
    obtain ⟨t, ht, hvt⟩ := variableFirstOccurrenceIn_spec m var _ voi hf
    have hnew : ∀ q,
        ({ (generatorVariable m g var).1.setInternalVariable (generatorVariable m g var).2
            ((generatorVariable m g var).1.internalVariable
              (generatorVariable m g var).2).makeVoi with mVoi := some voi } :
          GeneratorImpl).internalVariable q
        = if (generatorVariable m g var).2 = q
              ∧ (generatorVariable m g var).2 < (generatorVariable m g var).1.variableStore.length
          then ((generatorVariable m g var).1.internalVariable
              (generatorVariable m g var).2).makeVoi
          else (generatorVariable m g var).1.internalVariable q :=
      fun q => GeneratorImpl.internalVariable_setInternalVariable _ _ _ _
    refine ⟨(generatorVariable m g var).2, r1, ?_, fun q hq hq' => ?_, w, t, ?_, ht, ?_⟩
    · rw [hnew, if_pos ⟨rfl, r2⟩]; rfl
    · by_contra hne
      rw [hnew, if_neg (fun hc => hne hc.1.symm)] at hq'
      obtain ⟨c1, c2⟩ := r4.2.2.2.1 q hq hq'
      exact h0 q c1 c2
    · rw [hnew, if_pos ⟨rfl, r2⟩]; exact hw
    · exact sameOrEquivalentVariable_trans _ htrans _ _ _
        (sameOrEquivalentVariable_symm _ hsym _ _ hvt) hvw
  · intro herr; exact absurd herr he
  · rw [heq]
    by_cases herr0 : g.errors = []
    · have h0 := hv herr0
      unfold VoiFacts at h0
      rw [hg] at h0
      obtain ⟨p, hp, ht, hu, w0, v0, hw0, hv0, hvw0⟩ := h0
      rw [hv0] at hs
      have hl := DistinctClasses.lookupUnique hsym htrans var p hd hp
        (by rw [hw0]; exact sameOrEquivalentVariable_trans _ htrans _ _ _ hs hvw0)
      rw [hl]
      dsimp only
      exact hv.ofSame (VoiSame.setRecordSame g p _ ⟨fun _ => ht, fun _ => rfl⟩ rfl)
    · intro herr
      exact absurd (r4.2.1 herr) herr0

theorem stateTag_voi (t : GeneratorInternalVariableType) :
    stateTag t = GeneratorInternalVariableType.VARIABLE_OF_INTEGRATION
      ↔ t = GeneratorInternalVariableType.VARIABLE_OF_INTEGRATION := by
  cases t <;> simp [stateTag]

/-- The pre-pass over a tree keeps the invariant on the record of the
variable of integration, when every variable of the tree occurs in a
component of the model. -/
theorem processEquationAst_voiRecord {m : Model}
    (hsym : ∀ a b, m.hasEquivalentVariable a b = true → m.hasEquivalentVariable b a = true)
    (htrans : ∀ a b c, m.hasEquivalentVariable a b = true → m.hasEquivalentVariable b c = true →
      a = c ∨ m.hasEquivalentVariable a c = true)
    (isOne : String → Bool) :
    ∀ (ast astParent astGrandParent astGreatGrandParent : GeneratorEquationAst)
      (g g' : GeneratorImpl),
      DistinctClasses m g → VoiRecord m g → (∀ v ∈ treeVariables ast, Occurs m v) →
      processEquationAst m isOne ast astParent astGrandParent astGreatGrandParent g = some g' →
      DistinctClasses m g' ∧ VoiRecord m g'
  | GeneratorEquationAst.null, _, _, _, _, _, _, _, _, h => by simp [processEquationAst] at h
  | GeneratorEquationAst.node t value var l r, p, gp, ggp, g, g', hd, hv, ho, h => by
    simp only [processEquationAst, Option.bind_eq_some] at h
    obtain ⟨ga, ha, gb, hb, gc, hc, gd, hd', he⟩ := h
    have hvar : ∀ v ∈ var, Occurs m v := fun v hv' =>
      ho v (by
        unfold treeVariables
        exact List.mem_append_left _ (by simpa using hv'))
    have hl : ∀ v ∈ treeVariables l, Occurs m v := fun v hv' =>
      ho v (by
        unfold treeVariables
        exact List.mem_append_right _ (List.mem_append_left _ hv'))
    have hr : ∀ v ∈ treeVariables r, Occurs m v := fun v hv' =>
      ho v (by
        unfold treeVariables
        exact List.mem_append_right _ (List.mem_append_right _ hv'))
    have fa : DistinctClasses m ga ∧ VoiRecord m ga := by
      split_ifs at ha
      · simp only [Option.map_eq_some'] at ha
        obtain ⟨v, hv', rfl⟩ := ha
        refine ⟨?_, processVoi_voiRecord hsym htrans g v hd hv (hvar v hv')⟩
        exact @processVoi_related m (fun a b => DistinctClasses m a → DistinctClasses m b)
          (fun _ _ _ f1 f2 x => f2 (f1 x)) (fun _ _ hs x => x.ofSameRegistry hs)
          (fun _ v x => x.lookup hsym v) g v hd
      · simp only [Option.some.injEq] at ha; subst ha; exact ⟨hd, hv⟩
    have fb : DistinctClasses m gb ∧ VoiRecord m gb := by
      split_ifs at hb
      · simp only [Option.map_eq_some'] at hb
        obtain ⟨v, _, rfl⟩ := hb
        exact ⟨fa.1.ofSameRegistry ⟨rfl, rfl, fun _ => rfl⟩, fa.2.ofSame (VoiSame.addError _ _)⟩
      · simp only [Option.some.injEq] at hb; subst hb; exact fa
      · simp only [Option.some.injEq] at hb; subst hb; exact fa
    have fc : DistinctClasses m gc ∧ VoiRecord m gc := by
      split_ifs at hc
      · simp only [Option.map_eq_some'] at hc
        obtain ⟨v, _, rfl⟩ := hc
        obtain ⟨_, _, _, r4⟩ := generatorVariable_record fb.1 v
        refine ⟨(fb.1.lookup hsym v).ofSameRegistry
          (setInternalVariable_sameRegistry _ _ _ (makeState_tag _).2), ?_⟩
        refine fb.2.ofSame (r4.transVoiSame (VoiSame.setRecordSame _ _ _ ?_ (makeState_tag _).2))
        rw [(makeState_tag _).1]
        exact stateTag_voi _
      · simp only [Option.some.injEq] at hc; subst hc; exact fb
    have fd : DistinctClasses m gd ∧ VoiRecord m gd := by
      split_ifs at hd'
      · exact processEquationAst_voiRecord hsym htrans isOne l _ _ _ gc gd fc.1 fc.2 hl hd'
      · simp only [Option.some.injEq] at hd'; subst hd'; exact fc
    split_ifs at he
    · exact processEquationAst_voiRecord hsym htrans isOne r _ _ _ gd g' fd.1 fd.2 hr he
    · simp only [Option.some.injEq] at he; subst he; exact fd

/-- The pre-pass keeps the invariant on the record of the variable of
integration, when every variable of the trees of the equations occurs in a
component of the model. -/
theorem processEquationAsts_voiRecord {m : Model}
    (hsym : ∀ a b, m.hasEquivalentVariable a b = true → m.hasEquivalentVariable b a = true)
    (htrans : ∀ a b c, m.hasEquivalentVariable a b = true → m.hasEquivalentVariable b c = true →
      a = c ∨ m.hasEquivalentVariable a c = true)
    (isOne : String → Bool) :
    ∀ (es : List Nat) (g g' : GeneratorImpl),
      DistinctClasses m g → VoiRecord m g →
      (∀ e, ∀ v ∈ treeVariables (g.equation e).mAst, Occurs m v) →
      processEquationAsts m isOne es g = some g' → VoiRecord m g'
  | [], g, g', _, hv, _, h => by
    simp only [processEquationAsts, Option.some.injEq] at h; subst h; exact hv
  | e :: es, g, g', hd, hv, ho, h => by
    simp only [processEquationAsts, Option.bind_eq_some] at h
    obtain ⟨ga, ha, hb⟩ := h
    obtain ⟨d1, v1⟩ := processEquationAst_voiRecord hsym htrans isOne _ _ _ _ g ga hd hv
      (ho e) ha
    have hf := processEquationAst_frame m isOne _ _ _ _ g ga ha
    refine processEquationAsts_voiRecord hsym htrans isOne es ga g' d1 v1 (fun e' => ?_) hb
    unfold GeneratorImpl.equation
    rw [hf.2.2.1]
    exact ho e'

theorem TreeIn.null (D : List Variable) : TreeIn D GeneratorEquationAst.null := by
  intro v hv
  simp [treeVariables] at hv

theorem TreeIn.node_iff (D : List Variable) (t : GeneratorEquationAstType) (value : String)
    (var : Option Variable) (l r : GeneratorEquationAst) :
    TreeIn D (GeneratorEquationAst.node t value var l r)
      ↔ (∀ v ∈ var, v ∈ D) ∧ TreeIn D l ∧ TreeIn D r := by
  unfold TreeIn
  simp only [treeVariables, List.mem_append, Option.mem_toList]
  constructor
  · intro h
    exact ⟨fun v hv => h v (Or.inl hv), fun v hv => h v (Or.inr (Or.inl hv)),
      fun v hv => h v (Or.inr (Or.inr hv))⟩
  · rintro ⟨h1, h2, h3⟩ v (hv | hv | hv)
    · exact h1 v hv
    · exact h2 v hv
    · exact h3 v hv

theorem noVariable_mem (D : List Variable) : ∀ v ∈ (none : Option Variable), v ∈ D :=
  fun _ hv => by cases hv

theorem TreeIn.leaf (D : List Variable) (t : GeneratorEquationAstType) (value : String) :
    TreeIn D (GeneratorEquationAst.node t value none GeneratorEquationAst.null
      GeneratorEquationAst.null) :=
  (TreeIn.node_iff D t value none _ _).2
    ⟨noVariable_mem D, TreeIn.null D, TreeIn.null D⟩

theorem processChild_builds {P : GeneratorImpl → Prop} {D : List Variable}
    (f : XmlNode → GeneratorEquationAst → GeneratorImpl → ProcessResult)
    (hf : ∀ c a g r, P g → TreeIn D a → f c a g = some r → P r.2 ∧ TreeIn D r.1)
    (node : XmlNode) (index : Nat) (ast : GeneratorEquationAst) (g : GeneratorImpl)
    (r : GeneratorEquationAst × GeneratorImpl) (hg : P g) (ha : TreeIn D ast)
    (h : processChild f node index ast g = some r) : P r.2 ∧ TreeIn D r.1 := by
  unfold processChild at h
  simp only [Option.bind_eq_some] at h
  obtain ⟨child, _, c, hc, h⟩ := h
  exact hf c ast g r hg ha h

theorem applyOperands_builds {P : GeneratorImpl → Prop} {D : List Variable}
    (child : Nat → GeneratorEquationAst → GeneratorImpl → ProcessResult)
    (hchild : ∀ i a g r, P g → TreeIn D a → child i a g = some r → P r.2 ∧ TreeIn D r.1) :
    ∀ (n : Nat) (tempAst astRight : GeneratorEquationAst) (g : GeneratorImpl)
      (r : GeneratorEquationAst × GeneratorImpl),
      P g → TreeIn D tempAst → TreeIn D astRight →
      applyOperands child n tempAst astRight g = some r → P r.2 ∧ TreeIn D r.1
  | 0, _, _, _, _, hg, _, hr, h => by
    simp only [applyOperands, Option.some.injEq] at h
    subst h; exact ⟨hg, hr⟩
  | 1, _, _, _, _, hg, _, hr, h => by
    simp only [applyOperands, Option.some.injEq] at h
    subst h; exact ⟨hg, hr⟩
  | i + 2, tempAst, astRight, g, r, hg, ht, hr, h => by
    simp only [applyOperands, Option.bind_eq_some] at h
    obtain ⟨r0, h0, h⟩ := h
    have p0 := hchild _ _ _ _ hg ht h0
    split at h
    · cases h
    · rename_i t value var l r' heq
      have t0 := p0.2
      rw [heq, TreeIn.node_iff] at t0
      simp only [Option.bind_eq_some] at h
      obtain ⟨rl, hl, h⟩ := h
      have pl := hchild _ _ _ _ p0.1 t0.2.1 hl
      split_ifs at h
      have tn : TreeIn D (GeneratorEquationAst.node t value var rl.1 astRight) :=
        (TreeIn.node_iff D _ _ _ _ _).2 ⟨t0.1, pl.2, hr⟩
      exact applyOperands_builds child hchild (i + 1) _ _ _ _ pl.1 tn tn h

theorem piecewisePieces_builds {P : GeneratorImpl → Prop} {D : List Variable}
    (child : Nat → GeneratorEquationAst → GeneratorImpl → ProcessResult)
    (hchild : ∀ i a g r, P g → TreeIn D a → child i a g = some r → P r.2 ∧ TreeIn D r.1) :
    ∀ (n : Nat) (astRight : GeneratorEquationAst) (g : GeneratorImpl)
      (r : GeneratorEquationAst × GeneratorImpl),
      P g → TreeIn D astRight → piecewisePieces child n astRight g = some r →
      P r.2 ∧ TreeIn D r.1
  | 0, _, _, _, hg, hr, h => by
    simp only [piecewisePieces, Option.some.injEq] at h
    subst h; exact ⟨hg, hr⟩
  | i + 1, astRight, g, r, hg, hr, h => by
    simp only [piecewisePieces, Option.bind_eq_some] at h
    obtain ⟨rl, hl, h⟩ := h
    have pl := hchild _ _ _ _ hg (TreeIn.null D) hl
    split_ifs at h
    exact piecewisePieces_builds child hchild i _ _ _ pl.1
      ((TreeIn.node_iff D _ _ _ _ _).2 ⟨noVariable_mem D, pl.2, hr⟩) h

/-- A property of the generator that the three steps of `processNode` keep
(a flag is set, an issue is recorded, a variable of the component is
tracked) is kept by `processNode`, and the variables of the tree that it
returns are variables of the component. -/
theorem processNode_builds {m : Model} {P : GeneratorImpl → Prop} (component : Component)
    (equation : Nat)
    (hneed : ∀ g t, P g → P (setNeedFlag t g))
    (herr : ∀ g d, P g → P (g.addError d))
    (htrack : ∀ g v ancestors g', v ∈ component.variableList → P g →
      trackVariable m equation ancestors v g = some g' → P g') :
    ∀ (fuel : Nat) (node : XmlNode) (ancestors : List XmlNode) (ast : GeneratorEquationAst)
      (g : GeneratorImpl) (r : GeneratorEquationAst × GeneratorImpl),
      P g → TreeIn component.variableList ast →
      processNode m component equation fuel node ancestors ast g = some r →
      P r.2 ∧ TreeIn component.variableList r.1
  | 0, _, _, _, _, _, _, _, h => by simp [processNode] at h
  | fuel + 1, node, ancestors, ast, g, r, hg, ha, h => by
    have hchild : ∀ i a g r, P g → TreeIn component.variableList a →
        processChild (fun c a g =>
          processNode m component equation fuel c (node :: ancestors) a g) node i a g = some r →
        P r.2 ∧ TreeIn component.variableList r.1 := fun i a g r hg ha h =>
      processChild_builds _ (fun c a g r hg ha h =>
        processNode_builds component equation hneed herr htrack fuel c _ a g r hg ha h)
        node i a g r hg ha h
    have hnull := TreeIn.null component.variableList
    rw [processNode] at h
    by_cases c1 : node.isMathmlElement "apply" = true
    · -- apply
      rw [if_pos c1] at h
      simp only [Option.bind_eq_some] at h
      obtain ⟨childCount, _, r0, h0, h⟩ := h
      have p0 := hchild _ _ _ _ hg ha h0
      split at h
      · cases h
      · rename_i t value var l r' heq
        have t0 := p0.2
        rw [heq, TreeIn.node_iff] at t0
        simp only [Option.bind_eq_some] at h
        obtain ⟨r1, h1, h⟩ := h
        have p1 := hchild _ _ _ _ p0.1 t0.2.1 h1
        by_cases c : childCount ≥ 3
        · rw [if_pos c] at h
          simp only [Option.bind_eq_some, Option.map_eq_some'] at h
          obtain ⟨rr, hrr, ro, hro, rfl⟩ := h
          have pr := hchild _ _ _ _ p1.1 hnull hrr
          have po := applyOperands_builds _ hchild _ _ _ _ ro pr.1 hnull pr.2 hro
          exact ⟨po.1, (TreeIn.node_iff _ _ _ _ _ _).2 ⟨t0.1, p1.2, po.2⟩⟩
        · rw [if_neg c] at h
          simp only [Option.some.injEq] at h
          subst h
          exact ⟨p1.1, (TreeIn.node_iff _ _ _ _ _ _).2 ⟨t0.1, p1.2, t0.2.2⟩⟩
    rw [if_neg c1] at h
    by_cases c2 : node.isMathmlElement "eq" = true
    · -- eq
      rw [if_pos c2] at h
      simp only [Option.map_eq_some'] at h
      obtain ⟨gp, _, rfl⟩ := h
      by_cases c : (!gp.isMathmlElement "math") = true
      · rw [if_pos c]
        exact ⟨hneed g GeneratorEquationAstType.EQ hg, TreeIn.leaf _ _ _⟩
      · rw [if_neg c]
        exact ⟨hg, ha⟩
    rw [if_neg c2] at h
    by_cases c3 : node.isMathmlElement "piecewise" = true
    · -- piecewise
      rw [if_pos c3] at h
      simp only [Option.bind_eq_some] at h
      obtain ⟨childCount, _, rl, hl, h⟩ := h
      have pl := hchild _ _ _ _ hg hnull hl
      by_cases c : childCount ≥ 2
      · rw [if_pos c] at h
        simp only [Option.bind_eq_some] at h
        obtain ⟨rr, hrr, ro, hro, h⟩ := h
        have pr := hchild _ _ _ _ pl.1 hnull hrr
        have po := piecewisePieces_builds _ hchild _ _ _ _ pr.1 pr.2 hro
        by_cases c' : ro.1.isNode = true
        · rw [if_pos c'] at h
          simp only [Option.some.injEq] at h
          subst h
          exact ⟨po.1, (TreeIn.node_iff _ _ _ _ _ _).2 ⟨noVariable_mem _, pl.2, po.2⟩⟩
        · rw [if_neg c'] at h
          cases h
      · rw [if_neg c] at h
        simp only [Option.some.injEq] at h
        subst h
        exact ⟨pl.1, (TreeIn.node_iff _ _ _ _ _ _).2 ⟨noVariable_mem _, pl.2, hnull⟩⟩
    rw [if_neg c3] at h
    by_cases c4 : node.isMathmlElement "piece" = true
    · -- piece
      rw [if_pos c4] at h
      simp only [Option.bind_eq_some, Option.map_eq_some'] at h
      obtain ⟨rl, hl, rr, hrr, rfl⟩ := h
      have pl := hchild _ _ _ rl hg hnull hl
      have pr := hchild _ _ _ rr pl.1 hnull hrr
      exact ⟨pr.1, (TreeIn.node_iff _ _ _ _ _ _).2 ⟨noVariable_mem _, pl.2, pr.2⟩⟩
    rw [if_neg c4] at h
    by_cases c5 : node.isMathmlElement "otherwise" = true
    · -- otherwise
      rw [if_pos c5] at h
      simp only [Option.map_eq_some'] at h
      obtain ⟨rl, hl, rfl⟩ := h
      have pl := hchild _ _ _ rl hg hnull hl
      exact ⟨pl.1, (TreeIn.node_iff _ _ _ _ _ _).2 ⟨noVariable_mem _, pl.2, hnull⟩⟩
    rw [if_neg c5] at h
    by_cases c6 : node.isMathmlElement "ci" = true
    · -- ci
      rw [if_pos c6] at h
      simp only [Option.bind_eq_some] at h
      obtain ⟨first, _, h⟩ := h
      split at h
      · rename_i v hv
        simp only [Option.map_eq_some'] at h
        obtain ⟨g', hg', rfl⟩ := h
        have hmem : v ∈ component.variableList := by
          unfold Component.variableByName at hv
          exact List.mem_of_find?_eq_some hv
        refine ⟨htrack g v _ g' hmem hg hg', (TreeIn.node_iff _ _ _ _ _ _).2 ⟨?_, hnull, hnull⟩⟩
        intro v' hv'
        cases hv'
        exact hmem
      · simp only [Option.some.injEq] at h
        subst h
        exact ⟨herr g _ hg, ha⟩
    rw [if_neg c6] at h
    by_cases c7 : node.isMathmlElement "cn" = true
    · -- cn
      rw [if_pos c7] at h
      simp only [Option.bind_eq_some] at h
      obtain ⟨childCount, _, first, _, h⟩ := h
      by_cases c : childCount = 1
      · rw [if_pos c] at h
        simp only [Option.map_eq_some'] at h
        obtain ⟨third, _, rfl⟩ := h
        exact ⟨hg, TreeIn.leaf _ _ _⟩
      · rw [if_neg c] at h
        simp only [Option.some.injEq] at h
        subst h
        exact ⟨hg, TreeIn.leaf _ _ _⟩
    rw [if_neg c7] at h
    by_cases c8 : node.isMathmlElement "degree" = true
    · -- degree
      rw [if_pos c8] at h
      simp only [Option.map_eq_some'] at h
      obtain ⟨rl, hl, rfl⟩ := h
      have pl := hchild _ _ _ rl hg hnull hl
      exact ⟨pl.1, (TreeIn.node_iff _ _ _ _ _ _).2 ⟨noVariable_mem _, pl.2, hnull⟩⟩
    rw [if_neg c8] at h
    by_cases c9 : node.isMathmlElement "logbase" = true
    · -- logbase
      rw [if_pos c9] at h
      simp only [Option.map_eq_some'] at h
      obtain ⟨rl, hl, rfl⟩ := h
      have pl := hchild _ _ _ rl hg hnull hl
      exact ⟨pl.1, (TreeIn.node_iff _ _ _ _ _ _).2 ⟨noVariable_mem _, pl.2, hnull⟩⟩
    rw [if_neg c9] at h
    by_cases c10 : node.isMathmlElement "bvar" = true
    · -- bvar
      rw [if_pos c10] at h
      simp only [Option.bind_eq_some] at h
      obtain ⟨rl, hl, rightNode, _, h⟩ := h
      have pl := hchild _ _ _ _ hg hnull hl
      split at h
      · simp only [Option.map_eq_some'] at h
        obtain ⟨rr, hrr, rfl⟩ := h
        have pr := processNode_builds component equation hneed herr htrack fuel _ _ _ _ rr
          pl.1 hnull hrr
        exact ⟨pr.1, (TreeIn.node_iff _ _ _ _ _ _).2 ⟨noVariable_mem _, pl.2, pr.2⟩⟩
      · simp only [Option.some.injEq] at h
        subst h
        exact ⟨pl.1, (TreeIn.node_iff _ _ _ _ _ _).2 ⟨noVariable_mem _, pl.2, hnull⟩⟩
    rw [if_neg c10] at h
    -- the other elements
    split at h
    · rename_i t _
      simp only [Option.some.injEq] at h
      subst h
      exact ⟨hneed g t hg, TreeIn.leaf _ _ _⟩
    · simp only [Option.some.injEq] at h
      subst h; exact ⟨hg, ha⟩

mutual
theorem variableFirstOccurrence_isSome (m : Model) (v : Variable) :
    ∀ c : ComponentEntity, v ∈ declaredVariables c →
      (variableFirstOccurrence m v c).isSome = true
  | ComponentEntity.mk component components, h => by
    rw [declaredVariables] at h
    rw [variableFirstOccurrence]
    split
    · rfl
    · rename_i hn
      rcases List.mem_append.1 h with h | h
      · rw [List.find?_eq_none] at hn
        have := hn v h
        rw [sameOrEquivalentVariable_self] at this
        exact absurd rfl this
      · exact variableFirstOccurrenceIn_isSome m v components h
theorem variableFirstOccurrenceIn_isSome (m : Model) (v : Variable) :
    ∀ cs : List ComponentEntity, v ∈ declaredVariablesIn cs →
      (variableFirstOccurrenceIn m v cs).isSome = true
  | [], h => by
    rw [declaredVariablesIn] at h
    cases h
  | c :: rest, h => by
    rw [declaredVariablesIn] at h
    rw [variableFirstOccurrenceIn]
    split
    · rfl
    · rename_i hn
      rcases List.mem_append.1 h with h | h
      · have := variableFirstOccurrence_isSome m v c h
        rw [hn] at this
        cases this
      · exact variableFirstOccurrenceIn_isSome m v rest h
end

theorem setNeedFlag_stores (t : GeneratorEquationAstType) (g : GeneratorImpl) :
    (setNeedFlag t g).variableStore = g.variableStore
    ∧ (setNeedFlag t g).mInternalVariables = g.mInternalVariables
    ∧ (setNeedFlag t g).equationStore = g.equationStore := by
  unfold setNeedFlag
  cases t <;> exact ⟨rfl, rfl, rfl⟩

theorem generatorVariable_equationStore (m : Model) (g : GeneratorImpl) (v : Variable) :
    (generatorVariable m g v).1.equationStore = g.equationStore := by
  unfold generatorVariable
  split <;> rfl

/-- A step that leaves the registry and the equations alone. -/
theorem Prepared.ofStores {m : Model} {D : List Variable} {g g' : GeneratorImpl}
    (h : Prepared m D g) (h1 : g'.variableStore = g.variableStore)
    (h2 : g'.mInternalVariables = g.mInternalVariables)
    (h3 : g'.equationStore = g.equationStore) : Prepared m D g' := by
  have hi : ∀ q, g'.internalVariable q = g.internalVariable q := by
    intro q; unfold GeneratorImpl.internalVariable; rw [h1]
  have he : ∀ e, g'.equation e = g.equation e := by
    intro e; unfold GeneratorImpl.equation; rw [h3]
  refine ⟨fun q => by rw [hi]; exact h.noVoi q,
    h.distinct.ofSameRegistry ⟨h2, by rw [h1], fun q => by rw [hi]⟩, ?_,
    fun e => by rw [he]; exact h.trees e⟩
  intro e p hp
  rw [he] at hp ⊢
  rw [hi]
  exact h.anchored e p hp

/-- The lookup of a record. -/
theorem Prepared.lookupPrepared {m : Model} {D : List Variable}
    (hsym : ∀ a b, m.hasEquivalentVariable a b = true → m.hasEquivalentVariable b a = true)
    (htrans : ∀ a b c, m.hasEquivalentVariable a b = true → m.hasEquivalentVariable b c = true →
      a = c ∨ m.hasEquivalentVariable a c = true)
    {g : GeneratorImpl} (h : Prepared m D g) (v : Variable) :
    Prepared m D (generatorVariable m g v).1 := by
  have hs := generatorVariable_equationStore m g v
  have he : ∀ e, (generatorVariable m g v).1.equation e = g.equation e := by
    intro e; unfold GeneratorImpl.equation; rw [hs]
  refine ⟨fun q => ?_, h.distinct.lookup hsym v,
    h.anchored.step hsym htrans (Keeps.lookupKeeps m g v) (Tracks.storeTracks hs),
    fun e => by rw [he]; exact h.trees e⟩
  rcases generatorVariable_cases m g v with hc | ⟨hc, _⟩
  · rw [hc.1]; exact h.noVoi q
  · rw [hc]
    simp only [GeneratorImpl.internalVariable, getD_append_singleton]
    split_ifs
    · exact h.noVoi q
    · exact setVariable_ne_voi v
    · simp

/-- The assignment of an equation whose tracked records are anchored and
whose tree has its variables in the list. -/
theorem Prepared.setEquationPrepared {m : Model} {D : List Variable} {g : GeneratorImpl}
    (h : Prepared m D g) (e0 : Nat) (y : GeneratorEquation)
    (hy : ∀ p, p ∈ y.mVariables ∨ p ∈ y.mOdeVariables →
      ∃ w u, (g.internalVariable p).mVariable = some w ∧ u ∈ y.mComponent.variableList
        ∧ sameOrEquivalentVariable m.hasEquivalentVariable (some w) (some u) = true)
    (ht : TreeIn D y.mAst) : Prepared m D (g.setEquation e0 y) := by
  refine ⟨h.noVoi, h.distinct.ofSameRegistry ⟨rfl, rfl, fun _ => rfl⟩, ?_, fun e => ?_⟩
  · intro e p hp
    rw [GeneratorImpl.equation_setEquation] at hp ⊢
    split_ifs at hp ⊢ with hc
    · exact hy p hp
    · exact h.anchored e p hp
  · rw [GeneratorImpl.equation_setEquation]
    split_ifs
    · exact ht
    · exact h.trees e

/-- The assignment of a record whose tag is not that of the variable of
integration and whose variable is in the class of the former one. -/
theorem Prepared.setRecordPrepared {m : Model} {D : List Variable}
    (hsym : ∀ a b, m.hasEquivalentVariable a b = true → m.hasEquivalentVariable b a = true)
    (htrans : ∀ a b c, m.hasEquivalentVariable a b = true → m.hasEquivalentVariable b c = true →
      a = c ∨ m.hasEquivalentVariable a c = true)
    {g : GeneratorImpl} (h : Prepared m D g) (p : Nat) (x : GeneratorInternalVariable)
    (hx : x.mType ≠ GeneratorInternalVariableType.VARIABLE_OF_INTEGRATION)
    (hv : ∀ w, (g.internalVariable p).mVariable = some w →
      ∃ t, x.mVariable = some t
        ∧ sameOrEquivalentVariable m.hasEquivalentVariable (some w) (some t) = true)
    (hd : DistinctClasses m (g.setInternalVariable p x)) :
    Prepared m D (g.setInternalVariable p x) := by
  refine ⟨fun q => ?_, hd, h.anchored.step hsym htrans (Keeps.setRelatedKeeps p x hv)
    (Tracks.storeTracks rfl), h.trees⟩
  rw [GeneratorImpl.internalVariable_setInternalVariable]
  split_ifs
  · exact hx
  · exact h.noVoi q

theorem addVariable_fields (self : GeneratorEquation) (p : Nat) :
    (∀ q ∈ (self.addVariable p).mVariables, q ∈ self.mVariables ∨ q = p)
    ∧ (self.addVariable p).mOdeVariables = self.mOdeVariables
    ∧ (self.addVariable p).mComponent = self.mComponent
    ∧ (self.addVariable p).mAst = self.mAst := by
  unfold GeneratorEquation.addVariable
  split_ifs
  · exact ⟨fun q hq => Or.inl hq, rfl, rfl, rfl⟩
  · refine ⟨fun q hq => ?_, rfl, rfl, rfl⟩
    rcases List.mem_append.1 hq with hq | hq
    · exact Or.inl hq
    · exact Or.inr (List.mem_singleton.1 hq)

theorem addOdeVariable_fields (self : GeneratorEquation) (p : Nat) :
    (∀ q ∈ (self.addOdeVariable p).mOdeVariables, q ∈ self.mOdeVariables ∨ q = p)
    ∧ (self.addOdeVariable p).mVariables = self.mVariables
    ∧ (self.addOdeVariable p).mComponent = self.mComponent
    ∧ (self.addOdeVariable p).mAst = self.mAst := by
  unfold GeneratorEquation.addOdeVariable
  split_ifs
  · exact ⟨fun q hq => Or.inl hq, rfl, rfl, rfl⟩
  · refine ⟨fun q hq => ?_, rfl, rfl, rfl⟩
    rcases List.mem_append.1 hq with hq | hq
    · exact Or.inl hq
    · exact Or.inr (List.mem_singleton.1 hq)

/-- The block of `processNode` that tracks a variable of the component of
the equation. -/
theorem trackVariable_prepared {m : Model} {D : List Variable}
    (hsym : ∀ a b, m.hasEquivalentVariable a b = true → m.hasEquivalentVariable b a = true)
    (htrans : ∀ a b c, m.hasEquivalentVariable a b = true → m.hasEquivalentVariable b c = true →
      a = c ∨ m.hasEquivalentVariable a c = true)
    (component : Component) (equation : Nat) (g : GeneratorImpl) (v : Variable)
    (ancestors : List XmlNode) (g' : GeneratorImpl) (hv : v ∈ component.variableList)
    (hg : Prepared m D g ∧ (g.equation equation).mComponent = component)
    (h : trackVariable m equation ancestors v g = some g') :
    Prepared m D g' ∧ (g'.equation equation).mComponent = component := by
  obtain ⟨hp, hc⟩ := hg
  have hl := hp.lookupPrepared hsym htrans v
  obtain ⟨_, _, ⟨w, hw, hvw⟩, _⟩ := generatorVariable_record hp.distinct v
  have he : ∀ e, (generatorVariable m g v).1.equation e = g.equation e := by
    intro e; unfold GeneratorImpl.equation; rw [generatorVariable_equationStore]
  have hnew : ∃ w u, ((generatorVariable m g v).1.internalVariable
        (generatorVariable m g v).2).mVariable = some w
      ∧ u ∈ ((generatorVariable m g v).1.equation equation).mComponent.variableList
      ∧ sameOrEquivalentVariable m.hasEquivalentVariable (some w) (some u) = true :=
    ⟨w, v, hw, by rw [he, hc]; exact hv, sameOrEquivalentVariable_symm _ hsym _ _ hvw⟩
  have hcomp : ∀ y : GeneratorEquation,
      y.mComponent = ((generatorVariable m g v).1.equation equation).mComponent →
      (((generatorVariable m g v).1.setEquation equation y).equation equation).mComponent
        = component := by
    intro y hy
    rw [GeneratorImpl.equation_setEquation]
    split_ifs
    · rw [hy, he, hc]
    · rw [he, hc]
  have hode : Prepared m D ((generatorVariable m g v).1.setEquation equation
        (((generatorVariable m g v).1.equation equation).addOdeVariable
          (generatorVariable m g v).2))
      ∧ (((generatorVariable m g v).1.setEquation equation
        (((generatorVariable m g v).1.equation equation).addOdeVariable
          (generatorVariable m g v).2)).equation equation).mComponent = component := by
    obtain ⟨f1, f2, f3, f4⟩ := addOdeVariable_fields
      ((generatorVariable m g v).1.equation equation) (generatorVariable m g v).2
    refine ⟨hl.setEquationPrepared _ _ (fun p hp' => ?_) (by rw [f4]; exact hl.trees _), hcomp _ f3⟩
    rw [f3]
    rcases hp' with hp' | hp'
    · rw [f2] at hp'
      exact hl.anchored equation p (Or.inl hp')
    · rcases f1 p hp' with hp' | rfl
      · exact hl.anchored equation p (Or.inr hp')
      · exact hnew
  have hvar : Prepared m D ((generatorVariable m g v).1.setEquation equation
        (((generatorVariable m g v).1.equation equation).addVariable
          (generatorVariable m g v).2))
      ∧ (((generatorVariable m g v).1.setEquation equation
        (((generatorVariable m g v).1.equation equation).addVariable
          (generatorVariable m g v).2)).equation equation).mComponent = component := by
    obtain ⟨f1, f2, f3, f4⟩ := addVariable_fields
      ((generatorVariable m g v).1.equation equation) (generatorVariable m g v).2
    refine ⟨hl.setEquationPrepared _ _ (fun p hp' => ?_) (by rw [f4]; exact hl.trees _), hcomp _ f3⟩
    rw [f3]
    rcases hp' with hp' | hp'
    · rcases f1 p hp' with hp' | rfl
      · exact hl.anchored equation p (Or.inl hp')
      · exact hnew
    · rw [f2] at hp'
      exact hl.anchored equation p (Or.inr hp')
  unfold trackVariable at h
  split at h
  · cases h
  · simp only [Option.bind_eq_some] at h
    obtain ⟨first, _, h⟩ := h
    by_cases hd : first.isMathmlElement "diff" = true
    · rw [if_pos hd] at h
      simp only [Option.some.injEq] at h
      subst h
      exact hode
    · rw [if_neg hd] at h
      simp only [Option.map_eq_some'] at h
      obtain ⟨b, _, rfl⟩ := h
      split_ifs
      · exact hvar
      · exact ⟨hp, hc⟩

theorem TreeIn.mono {D D' : List Variable} {ast : GeneratorEquationAst} (h : TreeIn D ast)
    (hs : ∀ v ∈ D, v ∈ D') : TreeIn D' ast := fun v hv => hs v (h v hv)

/-- The method `processNode(node, component)` keeps the state prepared. -/
theorem processMathNode_prepared {m : Model} {D : List Variable}
    (hsym : ∀ a b, m.hasEquivalentVariable a b = true → m.hasEquivalentVariable b a = true)
    (htrans : ∀ a b c, m.hasEquivalentVariable a b = true → m.hasEquivalentVariable b c = true →
      a = c ∨ m.hasEquivalentVariable a c = true)
    (component : Component) (hD : ∀ v ∈ component.variableList, v ∈ D) (node : XmlNode)
    (ancestors : List XmlNode) (g g' : GeneratorImpl) (hg : Prepared m D g)
    (h : processMathNode m component node ancestors g = some g') : Prepared m D g' := by
  unfold processMathNode at h
  simp only [Option.map_eq_some'] at h
  obtain ⟨r, hr, rfl⟩ := h
  have heq : ∀ e, ({ g with
        equationStore := g.equationStore ++ [{ mComponent := component }],
        mEquations := g.mEquations ++ [g.equationStore.length] } : GeneratorImpl).equation e
      = if e < g.equationStore.length then g.equation e
        else if e = g.equationStore.length then { mComponent := component } else default := by
    intro e
    simp only [GeneratorImpl.equation, getD_append_singleton]
  have h0 : Prepared m D { g with
      equationStore := g.equationStore ++ [{ mComponent := component }],
      mEquations := g.mEquations ++ [g.equationStore.length] } := by
    refine ⟨hg.noVoi, hg.distinct.ofSameRegistry ⟨rfl, rfl, fun _ => rfl⟩, ?_, fun e => ?_⟩
    · intro e p hp
      rw [heq] at hp ⊢
      split_ifs at hp ⊢ with c1 c2
      · exact hg.anchored e p hp
      · rcases hp with hp | hp <;> cases hp
      · rcases hp with hp | hp <;> cases hp
    · rw [heq]
      split_ifs
      · exact hg.trees e
      · exact TreeIn.leaf D _ _
      · exact TreeIn.leaf D _ _
  have hc0 : (({ g with
        equationStore := g.equationStore ++ [{ mComponent := component }],
        mEquations := g.mEquations ++ [g.equationStore.length] } : GeneratorImpl).equation
      g.equationStore.length).mComponent = component := by
    rw [heq, if_neg (lt_irrefl _), if_pos rfl]
  have ht0 : TreeIn component.variableList (({ g with
        equationStore := g.equationStore ++ [{ mComponent := component }],
        mEquations := g.mEquations ++ [g.equationStore.length] } : GeneratorImpl).equation
      g.equationStore.length).mAst := by
    rw [heq, if_neg (lt_irrefl _), if_pos rfl]
    exact TreeIn.leaf _ _ _
  have hb := @processNode_builds m
    (fun x => Prepared m D x ∧ (x.equation g.equationStore.length).mComponent = component)
    component g.equationStore.length
    (fun x t hx => by
      obtain ⟨s1, s2, s3⟩ := setNeedFlag_stores t x
      refine ⟨hx.1.ofStores s1 s2 s3, ?_⟩
      unfold GeneratorImpl.equation
      rw [s3]
      exact hx.2)
    (fun x d hx => ⟨hx.1.ofStores rfl rfl rfl, hx.2⟩)
    (fun x v anc x' hv hx hx' =>
      trackVariable_prepared hsym htrans component _ x v anc x' hv hx hx')
    _ _ _ _ _ r ⟨h0, hc0⟩ ht0 hr
  obtain ⟨⟨hp, hc⟩, ht⟩ := hb
  refine hp.setEquationPrepared _ _ (fun p hp' => ?_) (ht.mono hD)
  exact hp.anchored _ p hp'

theorem processMathNodes_prepared {m : Model} {D : List Variable}
    (hsym : ∀ a b, m.hasEquivalentVariable a b = true → m.hasEquivalentVariable b a = true)
    (htrans : ∀ a b c, m.hasEquivalentVariable a b = true → m.hasEquivalentVariable b c = true →
      a = c ∨ m.hasEquivalentVariable a c = true)
    (component : Component) (hD : ∀ v ∈ component.variableList, v ∈ D) (mathNode : XmlNode) :
    ∀ (nodes : List XmlNode) (g g' : GeneratorImpl),
      Prepared m D g → processMathNodes m component mathNode nodes g = some g' →
      Prepared m D g'
  | [], g, g', hg, h => by
    simp only [processMathNodes, Option.some.injEq] at h
    subst h; exact hg
  | node :: rest, g, g', hg, h => by
    simp only [processMathNodes, Option.bind_eq_some] at h
    obtain ⟨g1, h1, h⟩ := h
    have p1 : Prepared m D g1 := by
      split_ifs at h1
      · exact processMathNode_prepared hsym htrans component hD node _ g g1 hg h1
      · simp only [Option.some.injEq] at h1
        subst h1; exact hg
    exact processMathNodes_prepared hsym htrans component hD mathNode rest g1 g' p1 h

/-- The body of the loop of `processComponent` over the variables: the
state stays prepared, the records keep their class, and the variable has a
record. -/
theorem processComponentVariable_prepared {m : Model} {D : List Variable}
    (hsym : ∀ a b, m.hasEquivalentVariable a b = true → m.hasEquivalentVariable b a = true)
    (htrans : ∀ a b c, m.hasEquivalentVariable a b = true → m.hasEquivalentVariable b c = true →
      a = c ∨ m.hasEquivalentVariable a c = true)
    (component : Component) (g g' : GeneratorImpl) (v : Variable) (hg : Prepared m D g)
    (h : processComponentVariable m component g v = some g') :
    Prepared m D g' ∧ Keeps m g g' ∧ HasRecord m g' v := by
  have hd' := hg.distinct.componentVariable hsym htrans component v h
  have hl := hg.lookupPrepared hsym htrans v
  have hk := Keeps.lookupKeeps m g v
  obtain ⟨r1, r2, ⟨w, hw, hvw⟩, _⟩ := generatorVariable_record hg.distinct v
  have hrec : HasRecord m (generatorVariable m g v).1 v :=
    ⟨_, r1, by rw [hw]; exact hvw⟩
  unfold processComponentVariable at h
  dsimp only at h
  split_ifs at h with hi
  · simp only [Option.map_eq_some'] at h
    obtain ⟨tracked, ht, h⟩ := h
    rw [hw] at ht
    cases ht
    split_ifs at h with h1 h2
    · subst h
      have hx : ∀ w', ((generatorVariable m g v).1.internalVariable
            (generatorVariable m g v).2).mVariable = some w' →
          ∃ t, (((generatorVariable m g v).1.internalVariable
              (generatorVariable m g v).2).setVariable v).mVariable = some t
            ∧ sameOrEquivalentVariable m.hasEquivalentVariable (some w') (some t) = true := by
        intro w' hw'
        rw [hw] at hw'
        cases hw'
        exact ⟨v, (setVariable_fields _ v).1, sameOrEquivalentVariable_symm _ hsym _ _ hvw⟩
      refine ⟨hl.setRecordPrepared hsym htrans _ _ ?_ hx hd',
        Keeps.transKeeps htrans hk (Keeps.setRelatedKeeps _ _ hx), ⟨_, r1, ?_⟩⟩
      · rw [(setVariable_fields _ v).2.2.2.2.1 hi]
        simp
      · rw [GeneratorImpl.internalVariable_setInternalVariable, if_pos ⟨rfl, r2⟩,
          (setVariable_fields _ v).1]
        exact sameOrEquivalentVariable_self _ _
    · subst h
      exact ⟨hl.ofStores rfl rfl rfl, hk, hrec.ofRegistry rfl rfl⟩
    · subst h
      exact ⟨hl, hk, hrec⟩
  · simp only [Option.some.injEq] at h
    subst h
    exact ⟨hl, hk, hrec⟩

theorem processComponentVariables_prepared {m : Model} {D : List Variable}
    (hsym : ∀ a b, m.hasEquivalentVariable a b = true → m.hasEquivalentVariable b a = true)
    (htrans : ∀ a b c, m.hasEquivalentVariable a b = true → m.hasEquivalentVariable b c = true →
      a = c ∨ m.hasEquivalentVariable a c = true)
    (component : Component) :
    ∀ (vs : List Variable) (g g' : GeneratorImpl), Prepared m D g →
      processComponentVariables m component vs g = some g' →
      Prepared m D g' ∧ Keeps m g g' ∧ ∀ v ∈ vs, HasRecord m g' v
  | [], g, g', hg, h => by
    simp only [processComponentVariables, Option.some.injEq] at h
    subst h
    exact ⟨hg, Keeps.reflKeeps m g, fun v hv => by cases hv⟩
  | v :: rest, g, g', hg, h => by
    simp only [processComponentVariables, Option.bind_eq_some] at h
    obtain ⟨g1, h1, h⟩ := h
    obtain ⟨p1, k1, r1⟩ := processComponentVariable_prepared hsym htrans component g g1 v hg h1
    obtain ⟨p2, k2, r2⟩ := processComponentVariables_prepared hsym htrans component rest g1 g'
      p1 h
    refine ⟨p2, Keeps.transKeeps htrans k1 k2, fun x hx => ?_⟩
    rcases List.mem_cons.1 hx with rfl | hx
    · exact k2.hasRecord htrans r1
    · exact r2 x hx

theorem processMathNodes_keepsClasses {m : Model}
    (htrans : ∀ a b c, m.hasEquivalentVariable a b = true → m.hasEquivalentVariable b c = true →
      a = c ∨ m.hasEquivalentVariable a c = true)
    (component : Component) (mathNode : XmlNode) (nodes : List XmlNode) (g g' : GeneratorImpl)
    (h : processMathNodes m component mathNode nodes g = some g') : Keeps m g g' :=
  @processMathNodes_keeps m (fun x => Keeps m g x)
    (fun _ _ hs hx => Keeps.transKeeps htrans hx (Keeps.sameRegistryKeeps hs))
    (fun x v hx => Keeps.transKeeps htrans hx (Keeps.lookupKeeps m x v))
    component mathNode nodes g g' (Keeps.reflKeeps m g) h

mutual
/-- The method `processComponent`: the state stays prepared, the records keep
their class, and the variables declared in the component and in the
components that it encapsulates have a record. -/
theorem processComponent_prepared {m : Model} {D : List Variable}
    (hsym : ∀ a b, m.hasEquivalentVariable a b = true → m.hasEquivalentVariable b a = true)
    (htrans : ∀ a b c, m.hasEquivalentVariable a b = true → m.hasEquivalentVariable b c = true →
      a = c ∨ m.hasEquivalentVariable a c = true) :
    ∀ (c : ComponentEntity) (g g' : GeneratorImpl), Prepared m D g →
      (∀ v ∈ declaredVariables c, v ∈ D) → processComponent m c g = some g' →
      Prepared m D g' ∧ Keeps m g g' ∧ ∀ v ∈ declaredVariables c, HasRecord m g' v
  | ComponentEntity.mk component components, g, g', hg, hD, h => by
    rw [declaredVariables] at hD ⊢
    have hD1 : ∀ v ∈ component.variableList, v ∈ D := fun v hv =>
      hD v (List.mem_append_left _ hv)
    have hD2 : ∀ v ∈ declaredVariablesIn components, v ∈ D := fun v hv =>
      hD v (List.mem_append_right _ hv)
    rw [processComponent] at h
    split at h
    · cases h
    · rename_i ga hga
      have pa : Prepared m D ga ∧ Keeps m g ga := by
        split at hga
        · exact ⟨processMathNodes_prepared hsym htrans component hD1 _ _ g ga hg hga,
            processMathNodes_keepsClasses htrans component _ _ g ga hga⟩
        · simp only [Option.some.injEq] at hga
          subst hga; exact ⟨hg, Keeps.reflKeeps m g⟩
      split at h
      · cases h
      · rename_i gb hgb
        obtain ⟨pb, kb, rb⟩ := processComponentVariables_prepared hsym htrans component _ ga gb
          pa.1 hgb
        obtain ⟨pc, kc, rc⟩ := processComponents_prepared hsym htrans components gb g' pb hD2 h
        refine ⟨pc, Keeps.transKeeps htrans pa.2 (Keeps.transKeeps htrans kb kc),
          fun v hv => ?_⟩
        rcases List.mem_append.1 hv with hv | hv
        · exact kc.hasRecord htrans (rb v hv)
        · exact rc v hv
/-- The loop over the components. -/
theorem processComponents_prepared {m : Model} {D : List Variable}
    (hsym : ∀ a b, m.hasEquivalentVariable a b = true → m.hasEquivalentVariable b a = true)
    (htrans : ∀ a b c, m.hasEquivalentVariable a b = true → m.hasEquivalentVariable b c = true →
      a = c ∨ m.hasEquivalentVariable a c = true) :
    ∀ (cs : List ComponentEntity) (g g' : GeneratorImpl), Prepared m D g →
      (∀ v ∈ declaredVariablesIn cs, v ∈ D) → processComponents m cs g = some g' →
      Prepared m D g' ∧ Keeps m g g' ∧ ∀ v ∈ declaredVariablesIn cs, HasRecord m g' v
  | [], g, g', hg, _, h => by
    rw [processComponents] at h
    simp only [Option.some.injEq] at h
    subst h
    exact ⟨hg, Keeps.reflKeeps m g, fun v hv => by rw [declaredVariablesIn] at hv; cases hv⟩
  | c :: rest, g, g', hg, hD, h => by
    rw [declaredVariablesIn] at hD ⊢
    rw [processComponents] at h
    split at h
    · cases h
    · rename_i ga hga
      obtain ⟨pa, ka, ra⟩ := processComponent_prepared hsym htrans c g ga hg
        (fun v hv => hD v (List.mem_append_left _ hv)) hga
      obtain ⟨pb, kb, rb⟩ := processComponents_prepared hsym htrans rest ga g' pa
        (fun v hv => hD v (List.mem_append_right _ hv)) h
      refine ⟨pb, Keeps.transKeeps htrans ka kb, fun v hv => ?_⟩
      rcases List.mem_append.1 hv with hv | hv
      · exact kb.hasRecord htrans (ra v hv)
      · exact rb v hv
end

/-- The state in which `processModel` starts the processing of the
components is prepared. -/
theorem resetGenerator_prepared (m : Model) (D : List Variable) (g : GeneratorImpl) :
    Prepared m D (resetGenerator g) := by
  have hi : ∀ q, (resetGenerator g).internalVariable q = default := fun q => by
    unfold GeneratorImpl.internalVariable resetGenerator
    simp
  have he : ∀ e, (resetGenerator g).equation e = default := fun e => by
    unfold GeneratorImpl.equation resetGenerator
    simp
  refine ⟨fun q => by rw [hi]; simp [default], DistinctClasses.resetHolds m g, ?_, fun e => ?_⟩
  · intro e p hp
    rw [he] at hp
    rcases hp with hp | hp <;> cases hp
  · rw [he]
    exact TreeIn.leaf D _ _

theorem reportInvalidVariables_lists :
    ∀ (ps : List Nat) (g : GeneratorImpl),
      (reportInvalidVariables ps g).mStates = g.mStates
      ∧ (reportInvalidVariables ps g).mVariables = g.mVariables
  | [], _ => ⟨rfl, rfl⟩
  | p :: ps, g => by
    unfold reportInvalidVariables
    split_ifs
    · exact reportInvalidVariables_lists ps _
    · exact reportInvalidVariables_lists ps g

theorem determineModelType_lists (g : GeneratorImpl) :
    (determineModelType g).mStates = g.mStates
    ∧ (determineModelType g).mVariables = g.mVariables := by
  unfold determineModelType
  split_ifs <;> exact ⟨rfl, rfl⟩

/-- The registry when the resolution loop is entered: the list of the
records is permuted, and the records keep their variable; the published lists
are not written. -/
theorem enterResolution_classes (g : GeneratorImpl) :
    (enterResolution g).1.mInternalVariables.Perm g.mInternalVariables
    ∧ (∀ q, ((enterResolution g).1.internalVariable q).mVariable
        = (g.internalVariable q).mVariable)
    ∧ (enterResolution g).1.mStates = g.mStates
    ∧ (enterResolution g).1.mVariables = g.mVariables := by
  unfold enterResolution
  dsimp only
  have h1 := indexConstants_sameRegistry
    (listSort (compareVariablesByName g) g.mInternalVariables)
    { g with mInternalVariables := listSort (compareVariablesByName g) g.mInternalVariables }
    MAX_SIZE_T
  have h2 := (indexConstants_sameResults
    (listSort (compareVariablesByName g) g.mInternalVariables)
    { g with mInternalVariables := listSort (compareVariablesByName g) g.mInternalVariables }
    MAX_SIZE_T).1
  refine ⟨?_, fun q => h1.2.2 q, h2.2.2.2.2.1, h2.2.2.2.2.2.1⟩
  rw [h1.1]
  exact listSort_perm _ _

theorem enterResolution_keeps (m : Model) (g : GeneratorImpl) :
    Keeps m g (enterResolution g).1 := by
  obtain ⟨h1, h2, _, _⟩ := enterResolution_classes g
  refine ⟨fun p hp => h1.mem_iff.2 hp, fun p w hw => ⟨w, ?_, sameOrEquivalentVariable_self _ _⟩⟩
  rw [h2]; exact hw

/-- The state at the end of the analysis of a model that is found valid:
every record has a valid tag, every variable of the trees has a record, the
published lists are empty, and the facts on the record of the variable of
integration hold. -/
theorem analyseModel_registry {m : Model}
    (hsym : ∀ a b, m.hasEquivalentVariable a b = true → m.hasEquivalentVariable b a = true)
    (htrans : ∀ a b c, m.hasEquivalentVariable a b = true → m.hasEquivalentVariable b c = true →
      a = c ∨ m.hasEquivalentVariable a c = true)
    (isOne : String → Bool) (D : List Variable) (g1 g2 : GeneratorImpl)
    (hp : Prepared m D g1) (hrec : ∀ v ∈ D, HasRecord m g1 v) (hocc : ∀ v ∈ D, Occurs m v)
    (h : analyseModel m isOne g1 = some g2)
    (hv : g2.mModelType = ModelType.ODE ∨ g2.mModelType = ModelType.ALGEBRAIC) :
    (∀ p ∈ g2.mInternalVariables, validTag (g2.internalVariable p).mType)
    ∧ (∀ e, TreeRegistered m g2 (g2.equation e).mAst)
    ∧ g2.mStates = [] ∧ g2.mVariables = []
    ∧ VoiFacts m g2 := by
  obtain ⟨ga, hpre, hcases⟩ := analyseModel_cases m isOne g1 g2 h
  rcases hcases with ⟨_, rfl⟩ | ⟨herr, r, hres, rfl⟩
  · rcases hv with hv | hv <;> cases hv
  -- the pre-pass
  have p0 : Prepared m D (resetResults g1) := hp.ofStores rfl rfl rfl
  have hfr := prePass_frame m isOne _ _ hpre
  have hk1 : Keeps m (resetResults g1) ga :=
    @prePass_related m (Keeps m) (Keeps.reflKeeps m) (fun _ _ _ => Keeps.transKeeps htrans)
      (fun _ _ hs => Keeps.sameRegistryKeeps hs) (Keeps.lookupKeeps m) isOne _ _ hpre
  have hd1 : DistinctClasses m ga := p0.distinct.prePassKeeps hsym isOne hpre
  have ha1 : Anchored m ga := p0.anchored.step hsym htrans hk1 (Tracks.storeTracks hfr.2.2.1)
  have herr' : ga.errors = [] := List.length_eq_zero.1 herr
  have hvf1 : VoiFacts m ga := by
    have hv0 : VoiRecord m (resetResults g1) := by
      intro _
      unfold VoiFacts
      exact fun p _ => p0.noVoi p
    unfold prePass at hpre
    split_ifs at hpre with he
    · exact processEquationAsts_voiRecord hsym htrans isOne _ _ ga p0.distinct hv0
        (fun e v hv' => hocc v (p0.trees e v hv')) hpre herr'
    · simp only [Option.some.injEq] at hpre
      subst hpre
      exact absurd herr he
  -- the entry of the resolution loop
  obtain ⟨e1, e2, e3, e4⟩ := enterResolution_classes ga
  have ef := enterResolution_frame ga
  have hk2 := enterResolution_keeps m ga
  have ha2 : Anchored m (enterResolution ga).1 :=
    ha1.step hsym htrans hk2 (Tracks.storeTracks ef.2.2.2.1)
  -- the resolution loop
  obtain ⟨_, hk3, ht3, hvt3⟩ := resolveEquations_keeps hsym htrans _ _ _ r ha2 hres
  have hs3 := resolveEquations_sameResults _ _ _ _ r hres
  -- the report and the type of the model
  have rf := reportInvalidVariables_frame r.1.mInternalVariables r.1
  have rl := reportInvalidVariables_lists r.1.mInternalVariables r.1
  have df := determineModelType_frame (reportInvalidVariables r.1.mInternalVariables r.1)
  have dl := determineModelType_lists (reportInvalidVariables r.1.mInternalVariables r.1)
  have hstore : (determineModelType
      (reportInvalidVariables r.1.mInternalVariables r.1)).variableStore = r.1.variableStore :=
    df.2.2.2.1.trans rf.2.2.2.2.1
  have hlist : (determineModelType
      (reportInvalidVariables r.1.mInternalVariables r.1)).mInternalVariables
      = r.1.mInternalVariables := df.1.trans rf.2.1
  have hrecs : ∀ q, (determineModelType
      (reportInvalidVariables r.1.mInternalVariables r.1)).internalVariable q
      = r.1.internalVariable q := by
    intro q; unfold GeneratorImpl.internalVariable; rw [hstore]
  have heqs : ∀ e, (determineModelType
      (reportInvalidVariables r.1.mInternalVariables r.1)).equation e = r.1.equation e := by
    intro e; unfold GeneratorImpl.equation; rw [df.2.2.2.2, rf.2.2.2.2.2]
  have hunk : (reportInvalidVariables r.1.mInternalVariables r.1).mModelType
      = ModelType.UNKNOWN := by
    rw [rf.1, hs3.1, ef.1, hfr.1]
    rfl
  have hspec := determineModelType_spec _ hunk
  have hvalid : ¬ SomeUnderconstrained (reportInvalidVariables r.1.mInternalVariables r.1)
      ∧ ¬ SomeOverconstrained (reportInvalidVariables r.1.mInternalVariables r.1) := by
    obtain ⟨s1, s2, s3, _, _, _⟩ := hspec
    by_cases hu : SomeUnderconstrained (reportInvalidVariables r.1.mInternalVariables r.1) <;>
    by_cases ho : SomeOverconstrained (reportInvalidVariables r.1.mInternalVariables r.1)
    · have := s1 ⟨hu, ho⟩
      rw [this] at hv
      rcases hv with hv | hv <;> cases hv
    · have := s2 ⟨hu, ho⟩
      rw [this] at hv
      rcases hv with hv | hv <;> cases hv
    · have := s3 ⟨hu, ho⟩
      rw [this] at hv
      rcases hv with hv | hv <;> cases hv
    · exact ⟨hu, ho⟩
  have hrrec : ∀ q, (reportInvalidVariables r.1.mInternalVariables r.1).internalVariable q
      = r.1.internalVariable q := by
    intro q; unfold GeneratorImpl.internalVariable; rw [rf.2.2.2.2.1]
  have htags : ∀ p ∈ r.1.mInternalVariables, validTag (r.1.internalVariable p).mType := by
    intro p hp'
    refine ⟨fun hc => ?_, fun hc => ?_, fun hc => ?_⟩
    · exact hvalid.1 ⟨p, by rw [rf.2.1]; exact hp', Or.inl (by rw [hrrec]; exact hc)⟩
    · exact hvalid.1 ⟨p, by rw [rf.2.1]; exact hp', Or.inr (by rw [hrrec]; exact hc)⟩
    · exact hvalid.2 ⟨p, by rw [rf.2.1]; exact hp', by rw [hrrec]; exact hc⟩
  have hmem : ∀ q, q ∈ r.1.mInternalVariables ↔ q ∈ ga.mInternalVariables := by
    intro q
    rw [hs3.2.1]
    exact e1.mem_iff
  have htag2 : ∀ q, ((enterResolution ga).1.internalVariable q).mType
      = (ga.internalVariable q).mType := fun q => (enterResolution_records ga q).2.1
  refine ⟨fun p hp' => ?_, fun e v hv' => ?_, ?_, ?_, ?_⟩
  · rw [hrecs]
    exact htags p (by rw [← hlist]; exact hp')
  · rw [heqs, (ht3 e).2.2.2] at hv'
    have hv1 : v ∈ treeVariables ((resetResults g1).equation e).mAst := by
      unfold GeneratorImpl.equation at hv' ⊢
      rw [ef.2.2.2.1, hfr.2.2.1] at hv'
      exact hv'
    have h1 : HasRecord m (resetResults g1) v := (hrec v (p0.trees e v hv1)).ofRegistry rfl rfl
    exact (hk3.hasRecord htrans (hk2.hasRecord htrans (hk1.hasRecord htrans h1))).ofRegistry
      hstore hlist
  · rw [dl.1, rl.1, hs3.2.2.2.2.1, e3, hfr.2.2.2.1]
    rfl
  · rw [dl.2, rl.2, hs3.2.2.2.2.2.1, e4, hfr.2.2.2.2.1]
    rfl
  · have hvoi : (determineModelType
        (reportInvalidVariables r.1.mInternalVariables r.1)).mVoi = ga.mVoi := by
      rw [df.2.2.1, rf.2.2.2.1, hs3.2.2.2.1, ef.2.2.1]
    unfold VoiFacts at hvf1 ⊢
    rw [hvoi, hlist]
    rcases hg : ga.mVoi with _ | voi
    · rw [hg] at hvf1
      intro p hp' hc
      rw [hrecs] at hc
      have := (hvt3 p).1 hc
      rw [htag2] at this
      exact hvf1 p ((hmem p).1 hp') this
    · rw [hg] at hvf1
      obtain ⟨p, hp', ht, hu, w, v0, hw, hv0, hvw⟩ := hvf1
      have hpr : p ∈ r.1.mInternalVariables := (hmem p).2 hp'
      obtain ⟨w2, hw2, e12⟩ := hk2.2 p w hw
      obtain ⟨w3, hw3, e23⟩ := hk3.2 p w2 hw2
      refine ⟨p, hpr, ?_, fun q hq hc => ?_, w3, v0, ?_, hv0, ?_⟩
      · rw [hrecs]
        rcases (hvt3 p).2.1 (by rw [htag2]; exact ht) with hc | hc
        · exact hc
        · exact absurd hc (htags p hpr).2.2
      · rw [hrecs] at hc
        have := (hvt3 q).1 hc
        rw [htag2] at this
        exact hu q ((hmem q).1 hq) this
      · rw [hrecs]; exact hw3
      · exact sameOrEquivalentVariable_trans _ htrans _ _ _ hvw
          (sameOrEquivalentVariable_trans _ htrans _ _ _ e12 e23)

theorem stateEntries_congr {g g' : GeneratorImpl} (h : g'.variableStore = g.variableStore)
    (ps : List Nat) : stateEntries g' ps = stateEntries g ps := by
  unfold stateEntries stateRecords publishedEntry GeneratorImpl.internalVariable
  rw [h]

theorem variableEntries_congr {g g' : GeneratorImpl} (h : g'.variableStore = g.variableStore)
    (ps : List Nat) : variableEntries g' ps = variableEntries g ps := by
  unfold variableEntries variableRecords publishedEntry GeneratorImpl.internalVariable
  rw [h]

/-- The final post-processing of a valid model whose trees only hold
variables that have a record: the records are left alone, their list is
permuted, and the published lists hold the entries of the states and of the
variables, in the order of the list of the records. -/
theorem finaliseModel_registry {F : Type} {m : Model} (num : Numerics F) (g2 g' : GeneratorImpl)
    (hv : g2.mModelType = ModelType.ODE ∨ g2.mModelType = ModelType.ALGEBRAIC)
    (htrees : ∀ e, TreeRegistered m g2 (g2.equation e).mAst)
    (hS : g2.mStates = []) (hV : g2.mVariables = [])
    (h : finaliseModel m num g2 = some g') :
    g'.variableStore = g2.variableStore
    ∧ g'.mInternalVariables.Perm g2.mInternalVariables
    ∧ g'.mVoi = g2.mVoi
    ∧ g'.mStates = stateEntries g' g'.mInternalVariables
    ∧ g'.mVariables = variableEntries g' g'.mInternalVariables := by
  unfold finaliseModel at h
  rw [if_pos hv] at h
  simp only [Option.bind_eq_some, Option.map_eq_some'] at h
  obtain ⟨g3, h1, g5, h2, hg'⟩ := h
  have f1 := scaleEquations_scaleFrame m num _ g2 g3 h1
  have reg := scaleEquations_registered num _ g2 g3 htrees h1
  unfold sortEquations at h2
  split_ifs at h2
  simp only [Option.some.injEq] at h2
  subst h2
  have pf := publishVariables_frame
    (listSort (compareVariablesByTypeAndIndex g3) g3.mInternalVariables)
    { g3 with
      mInternalVariables := listSort (compareVariablesByTypeAndIndex g3) g3.mInternalVariables,
      mEquations := listSort (compareEquationsByVariable
        { g3 with mInternalVariables :=
            listSort (compareVariablesByTypeAndIndex g3) g3.mInternalVariables })
        g3.mEquations }
  have pl := publishVariables_lists
    (listSort (compareVariablesByTypeAndIndex g3) g3.mInternalVariables)
    { g3 with
      mInternalVariables := listSort (compareVariablesByTypeAndIndex g3) g3.mInternalVariables,
      mEquations := listSort (compareEquationsByVariable
        { g3 with mInternalVariables :=
            listSort (compareVariablesByTypeAndIndex g3) g3.mInternalVariables })
        g3.mEquations }
  dsimp only at hg'
  rw [hg'] at pf pl
  obtain ⟨_, _, q3, q4, q5, _⟩ := pf
  dsimp only at q3 q4 q5 pl
  refine ⟨q5.trans reg.1, ?_, q4.trans f1.2.2.1, ?_, ?_⟩
  · rw [q3, ← reg.2]
    exact listSort_perm _ _
  · rw [pl.1, f1.2.2.2.1, hS, q3, List.nil_append]
    exact (stateEntries_congr q5 _).symm
  · rw [pl.2, f1.2.2.2.2.1, hV, q3, List.nil_append]
    exact (variableEntries_congr q5 _).symm

/-- The facts on the record of the variable of integration only depend on
the records, on the members of their list and on `mVoi`. -/
theorem VoiFacts.permFacts {m : Model} {g g' : GeneratorImpl} (h : VoiFacts m g)
    (h1 : g'.variableStore = g.variableStore)
    (h2 : g'.mInternalVariables.Perm g.mInternalVariables) (h3 : g'.mVoi = g.mVoi) :
    VoiFacts m g' := by
  have hi : ∀ q, g'.internalVariable q = g.internalVariable q := by
    intro q; unfold GeneratorImpl.internalVariable; rw [h1]
  unfold VoiFacts at h ⊢
  rw [h3]
  rcases hg : g.mVoi with _ | voi
  · rw [hg] at h
    intro p hp
    rw [hi]
    exact h p (h2.mem_iff.1 hp)
  · rw [hg] at h
    obtain ⟨p, hp, ht, hu, hw⟩ := h
    refine ⟨p, h2.mem_iff.2 hp, by rw [hi]; exact ht, fun q hq hc => ?_, by rw [hi]; exact hw⟩
    rw [hi] at hc
    exact hu q (h2.mem_iff.1 hq) hc

theorem eq_singleton_of_nodup {p : Nat} :
    ∀ l : List Nat, l.Nodup → (∀ q ∈ l, q = p) → p ∈ l → l = [p]
  | [], _, _, h => by cases h
  | [a], _, h, _ => by rw [h a (List.mem_singleton_self a)]
  | a :: b :: l, hn, h, _ => by
    have ha := h a (List.mem_cons_self _ _)
    have hb := h b (List.mem_cons_of_mem _ (List.mem_cons_self _ _))
    rw [List.nodup_cons] at hn
    exact absurd (by rw [ha, hb]; exact List.mem_cons_self _ _) hn.1

/-- The records tagged as the variable of integration: there is one when
`mVoi` is set and none when it is not, and the variable of the one is the
same as, or equivalent to, the variable of `mVoi`. -/
theorem VoiFacts.records {m : Model} {g : GeneratorImpl} (h : VoiFacts m g)
    (hn : g.mInternalVariables.Nodup) :
    (voiRecords g g.mInternalVariables).length = (if g.mVoi.isSome then 1 else 0)
    ∧ ∀ p ∈ voiRecords g g.mInternalVariables,
        ∃ voi w v0, g.mVoi = some voi ∧ (g.internalVariable p).mVariable = some w
          ∧ voi.mVariable = some v0
          ∧ sameOrEquivalentVariable m.hasEquivalentVariable (some v0) (some w) = true := by
  unfold VoiFacts at h
  rcases hg : g.mVoi with _ | voi
  · rw [hg] at h
    have he : voiRecords g g.mInternalVariables = [] := by
      unfold voiRecords
      rw [List.filter_eq_nil_iff]
      intro p hp
      simpa using h p hp
    rw [he]
    exact ⟨rfl, fun p hp => by cases hp⟩
  · rw [hg] at h
    obtain ⟨p, hp, ht, hu, w, v0, hw, hv0, hvw⟩ := h
    have he : voiRecords g g.mInternalVariables = [p] := by
      apply eq_singleton_of_nodup
      · exact hn.filter _
      · intro q hq
        unfold voiRecords at hq
        rw [List.mem_filter] at hq
        exact hu q hq.1 (by simpa using hq.2)
      · unfold voiRecords
        rw [List.mem_filter]
        exact ⟨hp, by simpa using ht⟩
    rw [he]
    refine ⟨rfl, fun q hq => ?_⟩
    rw [List.mem_singleton] at hq
    subst hq
    exact ⟨voi, w, v0, rfl, hw, hv0, hvw⟩

/-- A record with a valid tag belongs to exactly one of the three lists of
records. -/
theorem validTag_partition (g : GeneratorImpl) (ps : List Nat) (p : Nat) (hp : p ∈ ps)
    (ht : validTag (g.internalVariable p).mType) :
    (p ∈ voiRecords g ps ∧ p ∉ stateRecords g ps ∧ p ∉ variableRecords g ps)
    ∨ (p ∉ voiRecords g ps ∧ p ∈ stateRecords g ps ∧ p ∉ variableRecords g ps)
    ∨ (p ∉ voiRecords g ps ∧ p ∉ stateRecords g ps ∧ p ∈ variableRecords g ps) := by
  unfold validTag at ht
  unfold voiRecords stateRecords variableRecords
  simp only [List.mem_filter, hp, true_and, publishedVariableType_isSome, decide_eq_true_eq]
  rcases hc : (g.internalVariable p).mType
  all_goals simp [hc] at ht
  all_goals simp

/-- C40: for every model whose equivalence of variables is symmetric and
transitive (up to identity) and which `Generator::processModel` classifies
as `ODE` or `ALGEBRAIC`, the records of the registry are pairwise distinct
and every record belongs to exactly one of three lists: the records tagged
as the variable of integration, the records from which the entries of the
state list are made, and the records from which the entries of the list of
the other variables are made; the state list and the variable list hold
exactly these entries, in the order of the registry.  Hence the number of
records is `stateCount() + variableCount()`, plus one if `voi()` is
present.  There is one record tagged as the variable of integration when
`voi()` is present and none when it is not, and the variable of that record
is the same as, or equivalent to, the variable that `voi()` returns. -/
theorem processModel_registry_partition {F : Type} (m : Model) (num : Numerics F)
    (hsym : ∀ a b, m.hasEquivalentVariable a b = true → m.hasEquivalentVariable b a = true)
    (htrans : ∀ a b c, m.hasEquivalentVariable a b = true → m.hasEquivalentVariable b c = true →
      a = c ∨ m.hasEquivalentVariable a c = true)
    (g g' : GeneratorImpl) (h : Generator.processModel m num g = some g')
    (hv : Generator.modelType g' = ModelType.ODE
      ∨ Generator.modelType g' = ModelType.ALGEBRAIC) :
    g'.mInternalVariables.Nodup
    ∧ (∀ p ∈ g'.mInternalVariables,
        (p ∈ voiRecords g' g'.mInternalVariables ∧ p ∉ stateRecords g' g'.mInternalVariables
          ∧ p ∉ variableRecords g' g'.mInternalVariables)
        ∨ (p ∉ voiRecords g' g'.mInternalVariables ∧ p ∈ stateRecords g' g'.mInternalVariables
          ∧ p ∉ variableRecords g' g'.mInternalVariables)
        ∨ (p ∉ voiRecords g' g'.mInternalVariables ∧ p ∉ stateRecords g' g'.mInternalVariables
          ∧ p ∈ variableRecords g' g'.mInternalVariables))
    ∧ g'.mStates = stateEntries g' g'.mInternalVariables
    ∧ g'.mVariables = variableEntries g' g'.mInternalVariables
    ∧ g'.mInternalVariables.length
      = Generator.stateCount g' + Generator.variableCount g'
        + (if (Generator.voi g').isSome then 1 else 0)
    ∧ (voiRecords g' g'.mInternalVariables).length
      = (if (Generator.voi g').isSome then 1 else 0)
    ∧ ∀ p ∈ voiRecords g' g'.mInternalVariables,
        ∃ voi w v0, Generator.voi g' = some voi ∧ (g'.internalVariable p).mVariable = some w
          ∧ voi.mVariable = some v0
          ∧ sameOrEquivalentVariable m.hasEquivalentVariable (some v0) (some w) = true := by
  unfold Generator.processModel at h
  simp only [Option.bind_eq_some] at h
  obtain ⟨g1, h1, h2⟩ := h
  unfold processModel at h2
  simp only [Option.bind_eq_some] at h2
  obtain ⟨g2, h3, h4⟩ := h2
  obtain ⟨hp, _, hrec⟩ := processComponents_prepared hsym htrans m.components _ g1
    (resetGenerator_prepared m (declaredVariablesIn m.components) g) (fun v hv' => hv') h1
  have hocc : ∀ v ∈ declaredVariablesIn m.components, Occurs m v := fun v hv' =>
    variableFirstOccurrenceIn_isSome m v _ hv'
  have hmt : g'.mModelType = g2.mModelType := finaliseModel_modelType m num g2 g' h4
  have hv' : g'.mModelType = ModelType.ODE ∨ g'.mModelType = ModelType.ALGEBRAIC := hv
  have hv2 : g2.mModelType = ModelType.ODE ∨ g2.mModelType = ModelType.ALGEBRAIC := by
    rw [← hmt]; exact hv'
  obtain ⟨htags, htrees, hS, hV, hvf⟩ := analyseModel_registry hsym htrans num.isOne _ g1 g2
    hp hrec hocc h3 hv2
  obtain ⟨fs, fp, fv, fS, fV⟩ := finaliseModel_registry num g2 g' hv2 htrees hS hV h4
  have hd' : DistinctClasses m g' :=
    (hp.distinct.analyseKeeps hsym htrans num.isOne h3).finaliseKeeps num hsym h4
  have hi : ∀ q, g'.internalVariable q = g2.internalVariable q := by
    intro q; unfold GeneratorImpl.internalVariable; rw [fs]
  have htags' : ∀ p ∈ g'.mInternalVariables, validTag (g'.internalVariable p).mType := by
    intro p hp'
    rw [hi]
    exact htags p (fp.mem_iff.1 hp')
  have hvalid : hasValidModel g' = true := by
    unfold hasValidModel
    rcases hv' with hc | hc <;> simp [hc]
  have hsc : Generator.stateCount g' = (stateRecords g' g'.mInternalVariables).length := by
    unfold Generator.stateCount
    rw [hvalid, fS]
    simp [stateEntries]
  have hvc : Generator.variableCount g'
      = (variableRecords g' g'.mInternalVariables).length := by
    unfold Generator.variableCount
    rw [hvalid, fV]
    simp [variableEntries]
  have hvoi : Generator.voi g' = g'.mVoi := by
    unfold Generator.voi
    rw [hvalid]
    rfl
  obtain ⟨r1, r2⟩ := (hvf.permFacts fs fp fv).records hd'.1
  refine ⟨hd'.1, fun p hp' => validTag_partition g' _ p hp' (htags' p hp'), fS, fV, ?_, ?_, ?_⟩
  · rw [hsc, hvc, hvoi, ← r1]
    have := registry_count g' g'.mInternalVariables htags'
    omega
  · rw [hvoi]; exact r1
  · rw [hvoi]; exact r2

/-- Witness for C40, on the model of the two components `first`
(`dx/dt = 1`) and `second` (`y = t2`) whose variables `t` and `t2` are
equivalent: the equivalence is symmetric and transitive,
`Generator::processModel` returns and finds the model `ODE`; the registry
holds three records, of which one is the variable of integration, one is
published in the state list and one in the variable list. -/
theorem processModel_registry_partition_witness :
    ((∀ a b, SharedTime.model.hasEquivalentVariable a b = true →
        SharedTime.model.hasEquivalentVariable b a = true)
      ∧ (∀ a b c, SharedTime.model.hasEquivalentVariable a b = true →
          SharedTime.model.hasEquivalentVariable b c = true →
          a = c ∨ SharedTime.model.hasEquivalentVariable a c = true)
      ∧ Generator.processModel SharedTime.model DependentEqns.numerics {}
          = some SharedTime.processed
      ∧ (Generator.modelType SharedTime.processed = ModelType.ODE
        ∨ Generator.modelType SharedTime.processed = ModelType.ALGEBRAIC))
    ∧ (SharedTime.processed.mInternalVariables.length = 3
      ∧ voiRecords SharedTime.processed SharedTime.processed.mInternalVariables = [1]
      ∧ stateRecords SharedTime.processed SharedTime.processed.mInternalVariables = [0]
      ∧ variableRecords SharedTime.processed SharedTime.processed.mInternalVariables = [2]
      ∧ Generator.stateCount SharedTime.processed = 1
      ∧ Generator.variableCount SharedTime.processed = 1
      ∧ (Generator.voi SharedTime.processed).isSome = true)
    ∧ (SharedTime.processed.mInternalVariables.Nodup
      ∧ (∀ p ∈ SharedTime.processed.mInternalVariables,
          (p ∈ voiRecords SharedTime.processed SharedTime.processed.mInternalVariables
            ∧ p ∉ stateRecords SharedTime.processed SharedTime.processed.mInternalVariables
            ∧ p ∉ variableRecords SharedTime.processed SharedTime.processed.mInternalVariables)
          ∨ (p ∉ voiRecords SharedTime.processed SharedTime.processed.mInternalVariables
            ∧ p ∈ stateRecords SharedTime.processed SharedTime.processed.mInternalVariables
            ∧ p ∉ variableRecords SharedTime.processed SharedTime.processed.mInternalVariables)
          ∨ (p ∉ voiRecords SharedTime.processed SharedTime.processed.mInternalVariables
            ∧ p ∉ stateRecords SharedTime.processed SharedTime.processed.mInternalVariables
            ∧ p ∈ variableRecords SharedTime.processed SharedTime.processed.mInternalVariables))
      ∧ SharedTime.processed.mStates
        = stateEntries SharedTime.processed SharedTime.processed.mInternalVariables
      ∧ SharedTime.processed.mVariables
        = variableEntries SharedTime.processed SharedTime.processed.mInternalVariables
      ∧ SharedTime.processed.mInternalVariables.length
        = Generator.stateCount SharedTime.processed + Generator.variableCount SharedTime.processed
          + (if (Generator.voi SharedTime.processed).isSome then 1 else 0)
      ∧ (voiRecords SharedTime.processed SharedTime.processed.mInternalVariables).length
        = (if (Generator.voi SharedTime.processed).isSome then 1 else 0)
      ∧ ∀ p ∈ voiRecords SharedTime.processed SharedTime.processed.mInternalVariables,
          ∃ voi w v0, Generator.voi SharedTime.processed = some voi
            ∧ (SharedTime.processed.internalVariable p).mVariable = some w
            ∧ voi.mVariable = some v0
            ∧ sameOrEquivalentVariable SharedTime.model.hasEquivalentVariable (some v0) (some w)
              = true) := by
  have hsym : ∀ a b, SharedTime.model.hasEquivalentVariable a b = true →
      SharedTime.model.hasEquivalentVariable b a = true := by
    intro a b h
    simp only [SharedTime.model, decide_eq_true_eq] at h ⊢
    exact h.symm
  have htrans : ∀ a b c, SharedTime.model.hasEquivalentVariable a b = true →
      SharedTime.model.hasEquivalentVariable b c = true →
      a = c ∨ SharedTime.model.hasEquivalentVariable a c = true := by
    intro a b c h1 h2
    simp only [SharedTime.model, decide_eq_true_eq] at h1 h2 ⊢
    exact Or.inr (h1.trans h2)
  have hrun : Generator.processModel SharedTime.model DependentEqns.numerics {}
      = some SharedTime.processed := by decide
  have hv : Generator.modelType SharedTime.processed = ModelType.ODE
      ∨ Generator.modelType SharedTime.processed = ModelType.ALGEBRAIC := Or.inl (by decide)
  exact ⟨⟨hsym, htrans, hrun, hv⟩,
    ⟨by decide, by decide, by decide, by decide, by decide, by decide, by decide⟩,
    processModel_registry_partition SharedTime.model DependentEqns.numerics hsym htrans {}
      SharedTime.processed hrun hv⟩

/-! ## C28: the only reference is a state that has no index yet -/

set_option maxRecDepth 8000 in
/-- C28, at the model with the state `x` (initialised, and differentiated in
`dx/dt = 1`) and the equations `x = 3` and `dx/dt = 1`.  When the equations
are stored in this order, the resolution loop first calls `check` on
`x = 3`: the equation has no order and its only reference is `x`, which the
pre-pass has tagged `STATE` and which has no index yet.  `check` reports no
progress and leaves `x` tagged `STATE`: it stops tracking `x`, so that the
equation tracks nothing and has no order.  The analysis then ends without
issue and with the type `ODE`: `x` is still tagged `STATE`, the equation
`x = 3` has no order and no variable, and `Generator::processModel` does not
return (the sort of the equations reads the absent variable).  When the
equations are stored in the other order, `dx/dt = 1` gives `x` the index `0`
first, `check` on `x = 3` tags `x` as `OVERCONSTRAINED`, and the model is
`OVERCONSTRAINED` with the issue that `x` is computed more than once. -/
theorem check_state_without_index_not_overconstrained :
    ((StateAssigned.entered [StateAssigned.byValue, StateAssigned.byRate]).1.equation 0).mOrder
      = MAX_SIZE_T
    ∧ ((StateAssigned.entered [StateAssigned.byValue, StateAssigned.byRate]).1.equation 0).mAst
      = GeneratorEquationAst.assignment (GeneratorEquationAst.ci StateAssigned.x)
          (GeneratorEquationAst.cn "3")
    ∧ ((StateAssigned.entered [StateAssigned.byValue, StateAssigned.byRate]).1.equation
          0).mVariables
        ++ ((StateAssigned.entered [StateAssigned.byValue, StateAssigned.byRate]).1.equation
          0).mOdeVariables = [0]
    ∧ ((StateAssigned.entered [StateAssigned.byValue, StateAssigned.byRate]).1.internalVariable
        0).mVariable = some StateAssigned.x
    ∧ ((StateAssigned.entered [StateAssigned.byValue, StateAssigned.byRate]).1.internalVariable
        0).mType = GeneratorInternalVariableType.STATE
    ∧ ((StateAssigned.entered [StateAssigned.byValue, StateAssigned.byRate]).1.internalVariable
        0).mIndex = MAX_SIZE_T
    ∧ (StateAssigned.afterFirst [StateAssigned.byValue, StateAssigned.byRate]).2.2 = false
    ∧ ((StateAssigned.afterFirst [StateAssigned.byValue, StateAssigned.byRate]).1.internalVariable
        0).mType = GeneratorInternalVariableType.STATE
    ∧ ((StateAssigned.afterFirst [StateAssigned.byValue, StateAssigned.byRate]).1.equation
        0).mVariables = []
    ∧ ((StateAssigned.afterFirst [StateAssigned.byValue, StateAssigned.byRate]).1.equation
        0).mOdeVariables = []
    ∧ ((StateAssigned.afterFirst [StateAssigned.byValue, StateAssigned.byRate]).1.equation
        0).mOrder = MAX_SIZE_T
    ∧ analyseModel (StateAssigned.model [StateAssigned.byValue, StateAssigned.byRate])
        DependentEqns.numerics.isOne
        (StateAssigned.generator [StateAssigned.byValue, StateAssigned.byRate])
      = some (StateAssigned.analysed [StateAssigned.byValue, StateAssigned.byRate])
    ∧ (StateAssigned.analysed [StateAssigned.byValue, StateAssigned.byRate]).mModelType
      = ModelType.ODE
    ∧ (StateAssigned.analysed [StateAssigned.byValue, StateAssigned.byRate]).errors = []
    ∧ ((StateAssigned.analysed [StateAssigned.byValue, StateAssigned.byRate]).internalVariable
        0).mType = GeneratorInternalVariableType.STATE
    ∧ ((StateAssigned.analysed [StateAssigned.byValue, StateAssigned.byRate]).equation 0).mOrder
      = MAX_SIZE_T
    ∧ ((StateAssigned.analysed [StateAssigned.byValue, StateAssigned.byRate]).equation
        0).mVariable = none
    ∧ Generator.processModel (StateAssigned.model [StateAssigned.byValue, StateAssigned.byRate])
        DependentEqns.numerics {} = none
    ∧ (StateAssigned.afterFirst [StateAssigned.byRate, StateAssigned.byValue]).2.2 = true
    ∧ ((StateAssigned.afterFirst [StateAssigned.byRate, StateAssigned.byValue]).1.internalVariable
        0).mIndex = 0
    ∧ ((StateAssigned.afterFirst [StateAssigned.byRate, StateAssigned.byValue]).1.equation
          1).mVariables
        ++ ((StateAssigned.afterFirst [StateAssigned.byRate, StateAssigned.byValue]).1.equation
          1).mOdeVariables = [0]
    ∧ ((check (StateAssigned.model [StateAssigned.byRate, StateAssigned.byValue]).hasEquivalentVariable
        (StateAssigned.afterFirst [StateAssigned.byRate, StateAssigned.byValue]).1 1
        (StateAssigned.afterFirst [StateAssigned.byRate, StateAssigned.byValue]).2.1).1.internalVariable
        0).mType = GeneratorInternalVariableType.OVERCONSTRAINED
    ∧ analyseModel (StateAssigned.model [StateAssigned.byRate, StateAssigned.byValue])
        DependentEqns.numerics.isOne
        (StateAssigned.generator [StateAssigned.byRate, StateAssigned.byValue])
      = some (StateAssigned.analysed [StateAssigned.byRate, StateAssigned.byValue])
    ∧ (StateAssigned.analysed [StateAssigned.byRate, StateAssigned.byValue]).mModelType
      = ModelType.OVERCONSTRAINED
    ∧ (StateAssigned.analysed [StateAssigned.byRate, StateAssigned.byValue]).errors
      = ["Variable 'x' in component 'main' is computed more than once."] := by
  refine ⟨by decide, by decide, by decide, by decide, by decide, by decide, by decide, by
    decide, by decide, by decide, ?_⟩
  refine ⟨by decide, by decide, by decide, by decide, by decide, by decide, by decide, by
    decide, ?_⟩
  exact ⟨by decide, by decide, by decide, by decide, by decide, by decide, by decide⟩

/-! ## The dependencies of the equations emitted in compute-variables -/

/-- The effect of `check` on the dependencies of an equation: the equation
is left as it is, or it is the equation `self`, which had no order, which
loses the known variables and whose dependencies are extended with the
equations that compute them. -/
theorem check_dependencies (hEq : Variable → Variable → Bool) (g : GeneratorImpl)
    (self : Nat) (c : Counters) (e : Nat) :
    (check hEq g self c).1.equation e = g.equation e
    ∨ (e = self ∧ (g.equation self).mOrder = MAX_SIZE_T
      ∧ ((check hEq g self c).1.equation e).mVariables
          = (g.equation self).mVariables.filter (fun v => !knownVariable g v)
      ∧ ((check hEq g self c).1.equation e).mDependencies
          = (g.equation self).mDependencies
            ++ knownEquations g (g.equation self).mVariables) := by
  apply check_elim hEq g self c (fun r =>
    r.1.equation e = g.equation e
    ∨ (e = self ∧ (g.equation self).mOrder = MAX_SIZE_T
      ∧ (r.1.equation e).mVariables
          = (g.equation self).mVariables.filter (fun v => !knownVariable g v)
      ∧ (r.1.equation e).mDependencies
          = (g.equation self).mDependencies
            ++ knownEquations g (g.equation self).mVariables))
  · intro _; exact Or.inl rfl
  · intro _ _; exact Or.inl rfl
  · intro c1 _ _
    rw [GeneratorImpl.equation_setEquation]
    split_ifs with hc
    · obtain ⟨rfl, _⟩ := hc
      exact Or.inr ⟨rfl, c1, rfl, updateTracking_dependencies g _⟩
    · exact Or.inl rfl
  · intro c1 _ _ _
    rw [GeneratorImpl.equation_setEquation]
    split_ifs with hc
    · obtain ⟨rfl, _⟩ := hc
      exact Or.inr ⟨rfl, c1, rfl, updateTracking_dependencies g _⟩
    · exact Or.inl rfl
  · intro c1 _ _ _
    unfold checkResolved
    dsimp only
    rw [GeneratorImpl.equation_setEquation]
    split_ifs with hc
    · obtain ⟨rfl, _⟩ := hc
      exact Or.inr ⟨rfl, c1, rfl, updateTracking_dependencies g _⟩
    · exact Or.inl rfl

/-- The step of `check` keeps the dependencies of every equation. -/
theorem check_dependencies_mono (hEq : Variable → Variable → Bool) (g : GeneratorImpl)
    (self : Nat) (c : Counters) (e d : Nat) (h : d ∈ (g.equation e).mDependencies) :
    d ∈ ((check hEq g self c).1.equation e).mDependencies := by
  rcases check_dependencies hEq g self c e with h1 | ⟨rfl, _, _, h1⟩
  · rw [h1]; exact h
  · rw [h1]; exact List.mem_append_left _ h

theorem check_knownDependency (hEq : Variable → Variable → Bool) (g0 g : GeneratorImpl)
    (self : Nat) (c : Counters) (ho : OrderInv g c) (e v : Nat)
    (h : KnownDependency g0 g e v) : KnownDependency g0 (check hEq g self c).1 e v := by
  rcases h with h | h | h | ⟨d, h1, h2⟩
  · exact Or.inl h
  · exact Or.inr (Or.inl h)
  · exact Or.inr (Or.inr (Or.inl h))
  · refine Or.inr (Or.inr (Or.inr ⟨d, check_dependencies_mono hEq g self c e d h1, ?_⟩))
    rw [check_keeps_ordered hEq g self c d (ho.deps e d h1).1]
    exact h2

/-- A variable that `check` stops tracking in the equation `self` is known,
and the equation that computes it, when there is one, becomes a dependency of
`self`. -/
theorem knownDependency_of_knownVariable (hEq : Variable → Variable → Bool)
    (g0 g : GeneratorImpl) (self : Nat) (c : Counters) (hE : EntryFacts g0) (ho : OrderInv g c)
    (h : KnowInv g0 g c) (v : Nat) (hv : knownVariable g v = true)
    (hm : v ∈ (g.equation self).mVariables)
    (hdeps : ((check hEq g self c).1.equation self).mDependencies
      = (g.equation self).mDependencies ++ knownEquations g (g.equation self).mVariables) :
    KnownDependency g0 (check hEq g self c).1 self v := by
  rcases hq : (g.internalVariable v).mEquation with _ | d
  · obtain ⟨h1, h2⟩ := h.untouched v hq
    by_cases hi : (g0.internalVariable v).mIndex = MAX_SIZE_T
    · have ht : (g.internalVariable v).mType = (g0.internalVariable v).mType := by
        rcases h2 with h2 | ⟨_, h2⟩
        · exact h2
        · exact absurd hi h2
      rw [knownVariable_iff, h1, ht] at hv
      rcases hv with hv | hv | hv | hv | hv | hv
      · exact absurd hi hv
      · exact Or.inl hv
      · exact Or.inr (Or.inr (Or.inl hv))
      · exact Or.inr (Or.inl hv)
      · rcases hE.types v with h3 | h3 | h3 | h3 | h3 <;> rw [h3] at hv <;> cases hv
      · rcases hE.types v with h3 | h3 | h3 | h3 | h3 <;> rw [h3] at hv <;> cases hv
    · exact Or.inr (Or.inl (hE.index v hi))
  · have hd := ho.computes v d hq
    obtain ⟨h1, _, _⟩ := h.computed v d hq
    refine Or.inr (Or.inr (Or.inr ⟨d, ?_, ?_⟩))
    · rw [hdeps]
      exact List.mem_append_right _ ((mem_knownEquations g _ d).2 ⟨v, hm, hv, hq⟩)
    · rw [check_keeps_ordered hEq g self c d hd]; exact h1

/-- The step of `check` keeps the invariant on the dependencies. -/
theorem check_depInv (hEq : Variable → Variable → Bool) (g0 g : GeneratorImpl)
    (self : Nat) (c : Counters) (hE : EntryFacts g0) (ho : OrderInv g c)
    (hk : KnowInv g0 g c) (h : DepInv g0 g) :
    DepInv g0 (check hEq g self c).1 := by
  intro e v hv0 hv
  rcases check_dependencies hEq g self c e with h3 | ⟨rfl, _, hvs, hds⟩
  · rw [h3] at hv
    exact check_knownDependency hEq g0 g self c ho e v (h e v hv0 hv)
  · by_cases hvg : v ∈ (g.equation e).mVariables
    · rw [hvs, List.mem_filter, not_and] at hv
      have hkn : knownVariable g v = true := by
        have := hv hvg
        simpa using this
      exact knownDependency_of_knownVariable hEq g0 g e c hE ho hk v hkn hvg hds
    · exact check_knownDependency hEq g0 g e c ho e v (h e v hv0 hvg)

/-- The three invariants of the resolution loop hold when the loop is
left. -/
theorem resolveEquations_depInv (m : Model) (isOne : String → Bool) (g g1 : GeneratorImpl)
    (hb : Built g) (hpre : prePass m isOne (resetResults g) = some g1)
    (hode : ∀ e, ∀ v ∈ (g.equation e).mOdeVariables,
      (g1.internalVariable v).mType = GeneratorInternalVariableType.VARIABLE_OF_INTEGRATION
      ∨ (g1.internalVariable v).mType = GeneratorInternalVariableType.STATE
      ∨ (g1.internalVariable v).mType = GeneratorInternalVariableType.SHOULD_BE_STATE)
    (hsize : g1.mInternalVariables.length + g.equationStore.length ≤ MAX_SIZE_T)
    (fuel : Nat) (r : GeneratorImpl × Counters)
    (hr : resolveEquations m.hasEquivalentVariable fuel (enterResolution g1).1
      (enterResolution g1).2 = some r) :
    OrderInv r.1 r.2 ∧ KnowInv (enterResolution g1).1 r.1 r.2
    ∧ DepInv (enterResolution g1).1 r.1 := by
  have hE := (enterResolution_entryFacts m isOne g g1 hb hpre hode).1
  exact resolveEquations_invariant m.hasEquivalentVariable
    (fun g c => OrderInv g c ∧ KnowInv (enterResolution g1).1 g c
      ∧ DepInv (enterResolution g1).1 g)
    (fun g c self hs hi => ⟨check_orderInv _ g self c hs hi.1,
      check_knowInv _ _ g self c hE hi.1 hi.2.1,
      check_depInv _ _ g self c hE hi.1 hi.2.1 hi.2.2⟩) fuel _ _ r
    ⟨enterResolution_orderInv m isOne g g1 hb hpre,
      enterResolution_knowInv m isOne g g1 hb hpre hsize,
      fun _ _ h1 h2 => absurd h1 h2⟩ hr

/-- What is known of the variables of an equation that the analysis of
`processModel` has given an order: the equation computes a variable, and
every other variable that it references was tagged by the pre-pass as
the variable of integration, a constant or a state, or is computed by an
equation of its dependency list; every other variable of which it references
the rate was tagged as the variable of integration or as a state. -/
theorem analyseModel_dependency (m : Model) (isOne : String → Bool) (g g1 g2 : GeneratorImpl)
    (hb : Built g) (hpre : prePass m isOne (resetResults g) = some g1)
    (hode : RatesTagged g g1)
    (hsize : g1.mInternalVariables.length + g.equationStore.length ≤ MAX_SIZE_T)
    (h : analyseModel m isOne g = some g2) (e : Nat)
    (he : (g2.equation e).mOrder ≠ MAX_SIZE_T) :
    ∃ p, (g2.equation e).mVariable = some p
      ∧ (∀ v ∈ (g.equation e).mVariables, v ≠ p →
          KnownDependency (enterResolution g1).1 g2 e v)
      ∧ (∀ v ∈ (g.equation e).mOdeVariables, v ≠ p →
          KnownRate (enterResolution g1).1 g2 e v) := by
  obtain ⟨p, hp, _, hov⟩ := analyseModel_known m isOne g g1 g2 hb hpre hode hsize h e he
  refine ⟨p, hp, ?_, hov⟩
  obtain ⟨g1', hpre', hcase⟩ := analyseModel_cases m isOne g g2 h
  rw [hpre] at hpre'
  simp only [Option.some.injEq] at hpre'
  subst hpre'
  have hpf := prePass_frame m isOne _ _ hpre
  rcases hcase with ⟨_, rfl⟩ | ⟨_, r, hr, rfl⟩
  · exfalso
    have : ({ g1 with mModelType := ModelType.INVALID } : GeneratorImpl).equation e
        = g.equation e := by
      unfold GeneratorImpl.equation
      rw [hpf.2.2.1]; rfl
    rw [this] at he
    exact he (hb.equation_fresh e).1
  · obtain ⟨_, hk, hd⟩ := resolveEquations_depInv m isOne g g1 hb hpre
      (fun e => hode.equation_rates e) hsize _ r hr
    obtain ⟨_, heq0, _, _⟩ := enterResolution_entryFacts m isOne g g1 hb hpre
      (fun e => hode.equation_rates e)
    have hrep := reportInvalidVariables_frame r.1.mInternalVariables r.1
    have hdet := determineModelType_frame (reportInvalidVariables r.1.mInternalVariables r.1)
    have hst : ∀ d, (determineModelType
        (reportInvalidVariables r.1.mInternalVariables r.1)).equation d = r.1.equation d := by
      intro d
      unfold GeneratorImpl.equation
      rw [hdet.2.2.2.2, hrep.2.2.2.2.2]
    rw [hst] at he hp
    obtain ⟨p', hp', hv, _⟩ := hk.sole e he
    rw [hp] at hp'
    simp only [Option.some.injEq] at hp'
    subst hp'
    intro v hv0 hne
    have h1 := hd e v (by rw [heq0]; exact hv0) (fun h2 => hne (hv v h2))
    unfold KnownDependency at h1 ⊢
    simp only [hst]
    exact h1

/-- The body of compute-variables: every equation comes after those of its
dependencies that are algebraic and state/rate based. -/
theorem emittedEquations_computeVariables_after (p : GeneratorProfile) (g : GeneratorImpl)
    (h : Emittable g)
    (hord : ∀ e, (g.equation e).mOrder ≠ MAX_SIZE_T →
      (g.equation e).mOrder < g.equationStore.length) :
    ∃ tr, emittedEquations p g = some tr
      ∧ AfterDependencies g true g.mEquations tr.computeVariables := by
  obtain ⟨b1, R1, h1, hE1, _, _⟩ := emitProcedure_spec g h hord false
    (fun e => decide ((g.equation e).mType = GeneratorEquationType.TRUE_CONSTANT))
    (p.implementationInitializeStatesAndConstantsMethodString ≠ "") [] g.mEquations
    (Emission.atStart g false g.mEquations h.nodup)
  obtain ⟨b2, R2, h2, hE2, _, _⟩ := emitProcedure_spec g h hord false
    (fun e => decide ((g.equation e).mType = GeneratorEquationType.VARIABLE_BASED_CONSTANT))
    (p.implementationComputeComputedConstantsMethodString ≠ "") _ R1 hE1
  obtain ⟨b3, R3, h3, hE3, _, _⟩ := emitProcedure_spec g h hord false
    (fun e => decide ((g.equation e).mType = GeneratorEquationType.RATE))
    (p.implementationComputeRatesMethodString ≠ "") _ R2 hE2
  obtain ⟨b4, R4, h4, hE4, _, _⟩ := emitProcedure_spec g h hord true
    (fun e => decide (e ∈ R3)
        || (decide ((g.equation e).mType = GeneratorEquationType.ALGEBRAIC)
            && (g.equation e).mIsStateRateBased))
    (p.implementationComputeVariablesMethodString ≠ "") [] g.mEquations
    (Emission.atStart g true g.mEquations h.nodup)
  refine ⟨{ initializeStatesAndConstants := b1, computeComputedConstants := b2,
            computeRates := b3, computeVariables := b4, remainingEquations := R3 }, ?_, ?_⟩
  · unfold emittedEquations
    simp only [h1, h2, h3, h4, Option.some_bind, Option.map_some']
  · simpa using hE4.after

/-! ## The sorted list of the equations and the body of compute-variables -/

/-- The insertion of an element into a sorted list gives a sorted list. -/
theorem insertSorted_pairwise {α : Type} (less : α → α → Bool)
    (htrans : ∀ a b c, less b a = false → less c b = false → less c a = false)
    (hasym : ∀ a b, less a b = true → less b a = false) (a : α) :
    ∀ l : List α, l.Pairwise (fun x y => less y x = false) →
      (insertSorted less a l).Pairwise (fun x y => less y x = false)
  | [], _ => by simp [insertSorted]
  | b :: l, h => by
    unfold insertSorted
    rw [List.pairwise_cons] at h
    split_ifs with hb
    · rw [List.pairwise_cons]
      refine ⟨?_, insertSorted_pairwise less htrans hasym a l h.2⟩
      intro z hz
      rcases List.mem_cons.1 ((insertSorted_perm less a l).mem_iff.1 hz) with rfl | hz
      · exact hasym _ _ hb
      · exact h.1 z hz
    · have hab : less b a = false := by simpa using hb
      rw [List.pairwise_cons]
      refine ⟨?_, List.pairwise_cons.2 h⟩
      intro z hz
      rcases List.mem_cons.1 hz with rfl | hz
      · exact hab
      · exact htrans a b z hab (h.1 z hz)

/-- The sort gives a sorted list. -/
theorem listSort_pairwise {α : Type} (less : α → α → Bool)
    (htrans : ∀ a b c, less b a = false → less c b = false → less c a = false)
    (hasym : ∀ a b, less a b = true → less b a = false) :
    ∀ l : List α, (listSort less l).Pairwise (fun x y => less y x = false)
  | [] => by simp [listSort]
  | a :: l => by
    unfold listSort
    exact insertSorted_pairwise less htrans hasym a _ (listSort_pairwise less htrans hasym l)

/-- In a sorted list, an element that is less than another one stands before
it. -/
theorem before_of_less (less : Nat → Nat → Bool)
    (hasym : ∀ a b, less a b = true → less b a = false) (L : List Nat)
    (hs : L.Pairwise (fun x y => less y x = false)) (d e : Nat) (hd : d ∈ L) (he : e ∈ L)
    (h : less d e = true) : Before L d e := by
  obtain ⟨l1, l2, rfl⟩ := List.append_of_mem he
  refine ⟨l1, l2, rfl, ?_⟩
  rcases List.mem_append.1 hd with h1 | h1
  · exact h1
  · exfalso
    rcases List.mem_cons.1 h1 with rfl | h2
    · have := hasym _ _ h
      rw [h] at this
      cases this
    · have hp := (List.pairwise_append.1 hs).2.1
      rw [List.pairwise_cons] at hp
      have := hp.1 d h2
      rw [h] at this
      cases this

theorem initial_unique (e : Nat) :
    ∀ (l1 done l2 rest : List Nat), e ∉ l1 → e ∉ done →
      l1 ++ e :: l2 = done ++ e :: rest → l1 = done
  | [], [], _, _, _, _, _ => rfl
  | [], b :: done, _, _, _, h2, h => by
    simp only [List.nil_append, List.cons_append, List.cons.injEq] at h
    exact absurd (by rw [h.1]; exact List.mem_cons_self _ _) h2
  | a :: l1, [], _, _, h1, _, h => by
    simp only [List.nil_append, List.cons_append, List.cons.injEq] at h
    exact absurd (by rw [h.1]; exact List.mem_cons_self _ _) h1
  | a :: l1, b :: done, l2, rest, h1, h2, h => by
    simp only [List.cons_append, List.cons.injEq] at h
    rw [h.1, initial_unique e l1 done l2 rest (fun hm => h1 (List.mem_cons_of_mem _ hm))
      (fun hm => h2 (List.mem_cons_of_mem _ hm)) h.2]

/-- In a list without duplicate, the elements that stand before an element
are those of the part of the list that precedes it. -/
theorem Before.mem_initial {L done rest : List Nat} {d e : Nat} (h : Before L d e)
    (hn : L.Nodup) (hL : L = done ++ e :: rest) : d ∈ done := by
  obtain ⟨l1, l2, h1, h2⟩ := h
  have he : e ∉ done := by
    intro hm
    rw [hL] at hn
    exact (List.nodup_append.1 hn).2.2 hm (List.mem_cons_self _ _)
  have he1 : e ∉ l1 := by
    intro hm
    rw [h1] at hn
    exact (List.nodup_append.1 hn).2.2 hm (List.mem_cons_self _ _)
  rw [← initial_unique e l1 done l2 rest he1 he (h1.symm.trans hL)]
  exact h2

theorem equationTypeOf_rate (t : GeneratorInternalVariableType) :
    equationTypeOf t = GeneratorEquationType.RATE ↔ t = GeneratorInternalVariableType.STATE := by
  unfold equationTypeOf
  constructor
  · intro h
    split_ifs at h with h1 h2 h3
    · exact h1
  · intro h
    rw [if_pos h]

/-- The step of `check` keeps the invariant on the indices of the computed
variables. -/
theorem check_rankInv (hEq : Variable → Variable → Bool) (g : GeneratorImpl)
    (self : Nat) (c : Counters) (ho : OrderInv g c) (hroom : IndexRoom g c)
    (hrng : ∀ e, ∀ v ∈ referenceList g e, v < g.variableStore.length)
    (h : RankInv g c) :
    RankInv (check hEq g self c).1 (check hEq g self c).2.1 := by
  by_cases hr : (check hEq g self c).2.2 = true
  · -- the check gives an order to the equation
    have hun := check_true_unordered hEq g self c hr
    have hin := check_true_inRange hEq g self c hr
    obtain ⟨hsize, _, _, hcnt⟩ := check_true_facts hEq g self c hr
    have hidx := check_true_sole_index hEq g self c hr
    have hp : soleVariable (updateTracking g (g.equation self)) < g.variableStore.length := by
      apply hrng self
      unfold referenceList
      rcases soleVariable_mem _ hsize with ⟨hm, _⟩ | ⟨hm, _⟩
      · rw [(updateTracking_fields g (g.equation self)).2.2.2.2.1] at hm
        exact List.mem_append_left _ (List.mem_filter.1 hm).1
      · rw [(updateTracking_fields g (g.equation self)).2.2.2.2.2] at hm
        exact List.mem_append_right _ (List.mem_filter.1 hm).1
    have hpos : 1 ≤ unorderedStored g := by
      unfold unorderedStored
      exact List.countP_pos_iff.2 ⟨self, List.mem_range.2 hin, by simpa using hun⟩
    obtain ⟨_, hv2, _, hv4⟩ := hroom
    have hvk : handedOut c.variableIndex < MAX_SIZE_T := by omega
    have hvinc := sizeIncr_eq_handedOut c.variableIndex hvk hv2
    have hvnext := (sizeIncr_ne_max c.variableIndex hv2 hvk).2.2
    have hok : handedOut c.equationOrder < MAX_SIZE_T := by
      have := ho.room; have := ho.len; omega
    have hoinc := sizeIncr_eq_handedOut c.equationOrder hok ho.counter
    -- the equations
    have heqo : ∀ e, e ≠ self → (check hEq g self c).1.equation e = g.equation e := by
      intro e he
      rcases check_equation hEq g self c e with h1 | ⟨h1, _⟩
      · exact h1
      · exact absurd h1 he
    have hself : ((check hEq g self c).1.equation self).mVariable
          = some (soleVariable (updateTracking g (g.equation self)))
        ∧ ((check hEq g self c).1.equation self).mType
          = equationTypeOf (resolvedType hEq g self)
        ∧ ((check hEq g self c).1.equation self).mOrder = handedOut c.equationOrder := by
      have ho' := check_mOrder hEq g self self c
      rw [if_pos ⟨rfl, hr⟩, hoinc] at ho'
      rcases check_equation hEq g self c self with h1 | ⟨_, _, _, _, h3 | h3⟩
      · exfalso
        rw [h1, hun] at ho'
        omega
      · rw [h3.1] at hr; cases hr
      · exact ⟨h3.2.1, h3.2.2, ho'⟩
    -- the records
    have hreco : ∀ q, q ≠ soleVariable (updateTracking g (g.equation self)) →
        ((check hEq g self c).1.internalVariable q).mIndex = (g.internalVariable q).mIndex := by
      intro q hq
      rcases check_record hEq g self c q with ⟨_, h2, _⟩ | ⟨_, h2, _⟩
      · exact h2
      · exact absurd h2 hq
    have hrecs : ((check hEq g self c).1.internalVariable
          (soleVariable (updateTracking g (g.equation self)))).mIndex
        = assignedIndex (resolvedType hEq g self) (nextCounters (resolvedType hEq g self) c) := by
      rw [check_result_iff hEq g self c hr]
      unfold checkResolved
      dsimp only
      rw [GeneratorImpl.internalVariable_setEquation,
        GeneratorImpl.internalVariable_setInternalVariable, if_pos ⟨rfl, hp⟩]
      rfl
    have hlen := (check_storeLength hEq g self c).2
    -- an equation that computed a variable is not the equation `self`
    have hne : ∀ e p, (g.equation e).mVariable = some p → e ≠ self := by
      intro e p he hes
      subst hes
      rw [h.unordered e hun] at he
      cases he
    -- the record of a variable computed by an equation other than of type RATE keeps its index
    have hkeep : ∀ e p, (g.equation e).mVariable = some p →
        (g.equation e).mType ≠ GeneratorEquationType.RATE →
        ((check hEq g self c).1.internalVariable p).mIndex = (g.internalVariable p).mIndex := by
      intro e p he ht
      apply hreco
      intro hps
      have := h.bound e p he ht
      rw [hps, hidx] at this
      omega
    have hnew : equationTypeOf (resolvedType hEq g self) ≠ GeneratorEquationType.RATE →
        assignedIndex (resolvedType hEq g self) (nextCounters (resolvedType hEq g self) c)
          = handedOut c.variableIndex
        ∧ handedOut (nextCounters (resolvedType hEq g self) c).variableIndex
          = handedOut c.variableIndex + 1 := by
      intro ht
      have hs : resolvedType hEq g self ≠ GeneratorInternalVariableType.STATE :=
        fun hs => ht ((equationTypeOf_rate _).2 hs)
      unfold assignedIndex nextCounters
      simp only [hs, if_false]
      exact ⟨hvinc, hvnext⟩
    have hcmono : handedOut c.variableIndex
        ≤ handedOut (nextCounters (resolvedType hEq g self) c).variableIndex := by
      unfold nextCounters
      split_ifs
      · exact le_refl _
      · dsimp only; omega
    rw [hcnt]
    refine ⟨?_, ?_, ?_, ?_⟩
    · intro e he
      by_cases hes : e = self
      · subst hes
        rw [hself.2.2] at he
        omega
      · rw [heqo e hes] at he ⊢
        exact h.unordered e he
    · intro e p he
      rw [hlen]
      by_cases hes : e = self
      · subst hes
        rw [hself.1] at he
        simp only [Option.some.injEq] at he
        subst he
        exact hp
      · rw [heqo e hes] at he
        exact h.ranged e p he
    · intro e p he ht
      by_cases hes : e = self
      · subst hes
        rw [hself.1] at he
        simp only [Option.some.injEq] at he
        subst he
        rw [hself.2.1] at ht
        rw [hrecs, (hnew ht).1, (hnew ht).2]
        omega
      · rw [heqo e hes] at he ht
        rw [hkeep e p he ht]
        exact lt_of_lt_of_le (h.bound e p he ht) hcmono
    · intro e e' p p' he he' ht ht' hlt
      by_cases hes : e = self
      · subst hes
        exfalso
        by_cases hes' : e' = e
        · subst hes'
          omega
        · rw [heqo e' hes'] at he' hlt
          rw [hself.2.2] at hlt
          have hord : (g.equation e').mOrder ≠ MAX_SIZE_T := by
            intro hm
            rw [h.unordered e' hm] at he'
            cases he'
          have := ho.bound e' hord
          omega
      · rw [heqo e hes] at he ht hlt
        rw [hkeep e p he ht]
        by_cases hes' : e' = self
        · subst hes'
          rw [hself.1] at he'
          simp only [Option.some.injEq] at he'
          subst he'
          rw [hself.2.1] at ht'
          rw [hrecs, (hnew ht').1]
          exact h.bound e p he ht
        · rw [heqo e' hes'] at he' ht' hlt
          rw [hkeep e' p' he' ht']
          exact h.mono e e' p p' he he' ht ht' hlt
  · -- the check gives no order
    have hf : (check hEq g self c).2.2 = false := by simpa using hr
    rw [check_counters_of_false hEq g self c hf]
    have heq : ∀ e, ((check hEq g self c).1.equation e).mVariable = (g.equation e).mVariable
        ∧ ((check hEq g self c).1.equation e).mType = (g.equation e).mType
        ∧ ((check hEq g self c).1.equation e).mOrder = (g.equation e).mOrder := by
      intro e
      have ho' := check_mOrder hEq g self e c
      rw [if_neg (fun hc => hr hc.2)] at ho'
      rcases check_equation hEq g self c e with h1 | ⟨rfl, _, _, _, h3 | h3⟩
      · rw [h1]; exact ⟨rfl, rfl, rfl⟩
      · exact ⟨h3.2.1, h3.2.2, ho'⟩
      · exact absurd h3.1 hr
    have hrec : ∀ q, ((check hEq g self c).1.internalVariable q).mIndex
        = (g.internalVariable q).mIndex := by
      intro q
      rcases check_record hEq g self c q with ⟨_, h2, _⟩ | ⟨h2, _⟩
      · exact h2
      · exact absurd h2 hr
    have hlen := (check_storeLength hEq g self c).2
    refine ⟨?_, ?_, ?_, ?_⟩
    · intro e he
      rw [(heq e).1]
      rw [(heq e).2.2] at he
      exact h.unordered e he
    · intro e p he
      rw [hlen]
      rw [(heq e).1] at he
      exact h.ranged e p he
    · intro e p he ht
      rw [(heq e).1] at he
      rw [(heq e).2.1] at ht
      rw [hrec]
      exact h.bound e p he ht
    · intro e e' p p' he he' ht ht' hlt
      rw [(heq e).1] at he
      rw [(heq e').1] at he'
      rw [(heq e).2.1] at ht
      rw [(heq e').2.1] at ht'
      rw [(heq e).2.2, (heq e').2.2] at hlt
      rw [hrec, hrec]
      exact h.mono e e' p p' he he' ht ht' hlt

theorem KeepsRecords.reflRecords (g : GeneratorImpl) : KeepsRecords g g :=
  ⟨le_refl _, fun _ _ => rfl⟩

theorem KeepsRecords.transRecords {g g' g'' : GeneratorImpl} (h1 : KeepsRecords g g')
    (h2 : KeepsRecords g' g'') : KeepsRecords g g'' :=
  ⟨le_trans h1.1 h2.1, fun q hq => by
    rw [h2.2 q (lt_of_lt_of_le hq h1.1), h1.2 q hq]⟩

theorem KeepsRecords.ofGrowth {g g' : GeneratorImpl} (h : Grow g g') : KeepsRecords g g' := by
  refine ⟨?_, fun q hq => h.internalVariable q hq⟩
  obtain ⟨e1, i1, rfl⟩ := h
  simp

theorem KeepsRecords.ofSameStore {g g' : GeneratorImpl}
    (h : g'.variableStore = g.variableStore) : KeepsRecords g g' := by
  refine ⟨by rw [h], fun q _ => ?_⟩
  unfold GeneratorImpl.internalVariable
  rw [h]

/-- The scaling of the trees keeps the records. -/
theorem scaleEquations_keepsRecords {F : Type} (m : Model) (num : Numerics F) :
    ∀ (es : List Nat) (g g' : GeneratorImpl),
      scaleEquations m num es g = some g' → KeepsRecords g g'
  | [], g, g', h => by
    simp only [scaleEquations, Option.some.injEq] at h; subst h
    exact KeepsRecords.reflRecords _
  | e :: es, g, g', h => by
    simp only [scaleEquations, Option.bind_eq_some] at h
    obtain ⟨r, hr, h⟩ := h
    have h1 : KeepsRecords g r.2 := by
      unfold scaleEquation at hr
      simp only [Option.bind_eq_some, Option.map_eq_some'] at hr
      obtain ⟨root, _, s, hs, t, _, rfl⟩ := hr
      exact @scaleEquationAst_related m KeepsRecords F num KeepsRecords.reflRecords
        (fun _ _ _ a b => a.transRecords b)
        (fun x v => KeepsRecords.ofGrowth (generatorVariable_grow m x v)) _ _ _ _ _ hs
    have h2 := scaleEquations_keepsRecords m num es _ g' h
    refine h1.transRecords (KeepsRecords.transRecords ?_ h2)
    exact KeepsRecords.ofSameStore rfl

theorem toNat_injective (s t : GeneratorInternalVariableType) (h : s.toNat = t.toNat) :
    s = t := by
  cases s <;> cases t <;> first | rfl | (simp [GeneratorInternalVariableType.toNat] at h)

/-- The comparison of two records by type and index, as an order on the
pairs of the rank of the type and the index. -/
theorem compareVariablesByTypeAndIndex_iff (g : GeneratorImpl) (v w : Nat) :
    compareVariablesByTypeAndIndex g v w = true ↔
      (g.internalVariable v).mType.toNat < (g.internalVariable w).mType.toNat
      ∨ ((g.internalVariable v).mType.toNat = (g.internalVariable w).mType.toNat
        ∧ (g.internalVariable v).mIndex < (g.internalVariable w).mIndex) := by
  unfold compareVariablesByTypeAndIndex
  split_ifs with h
  · rw [h]
    simp
  · have hne : (g.internalVariable v).mType.toNat ≠ (g.internalVariable w).mType.toNat :=
      fun hc => h (toNat_injective _ _ hc)
    simp only [decide_eq_true_eq]
    constructor
    · exact fun h1 => Or.inl h1
    · rintro (h1 | ⟨h1, _⟩)
      · exact h1
      · exact absurd h1 hne

theorem compareEquationsByVariable_asymm (g : GeneratorImpl) (a b : Nat)
    (h : compareEquationsByVariable g a b = true) : compareEquationsByVariable g b a = false := by
  unfold compareEquationsByVariable at h ⊢
  rw [compareVariablesByTypeAndIndex_iff] at h
  rw [← Bool.not_eq_true, compareVariablesByTypeAndIndex_iff]
  omega

theorem compareEquationsByVariable_trans (g : GeneratorImpl) (a b c : Nat)
    (h1 : compareEquationsByVariable g b a = false)
    (h2 : compareEquationsByVariable g c b = false) :
    compareEquationsByVariable g c a = false := by
  unfold compareEquationsByVariable at h1 h2 ⊢
  rw [← Bool.not_eq_true, compareVariablesByTypeAndIndex_iff] at h1 h2 ⊢
  omega

/-- The final post-processing of a valid model sorts the equations with
`compareEquationsByVariable`, in a state that has the records and the
computed variables of the analysed model. -/
theorem finaliseModel_sorted {F : Type} (m : Model) (num : Numerics F) (g g' : GeneratorImpl)
    (h : finaliseModel m num g = some g')
    (hv : g.mModelType = ModelType.ODE ∨ g.mModelType = ModelType.ALGEBRAIC) :
    ∃ gs, g'.mEquations = listSort (compareEquationsByVariable gs) g.mEquations
      ∧ (∀ e, (gs.equation e).mVariable = (g.equation e).mVariable)
      ∧ (∀ q, q < g.variableStore.length → gs.internalVariable q = g.internalVariable q)
      ∧ ((∀ e ∈ g.mEquations, (g.equation e).mVariable ≠ none) ∨ g.mEquations.length < 2) := by
  unfold finaliseModel at h
  rw [if_pos hv] at h
  simp only [Option.bind_eq_some, Option.map_eq_some'] at h
  obtain ⟨g1, h1, g2, h2, rfl⟩ := h
  have f1 := scaleEquations_scaleFrame m num _ g g1 h1
  have k1 := scaleEquations_keepsRecords m num _ g g1 h1
  unfold sortEquations at h2
  split_ifs at h2 with hc
  simp only [Option.some.injEq] at h2
  subst h2
  refine ⟨{ g1 with
    mInternalVariables := listSort (compareVariablesByTypeAndIndex g1) g1.mInternalVariables },
    ?_, ?_, ?_, ?_⟩
  · rw [(publishVariables_frame _ _).2.1, ← f1.2.1]
  · intro e
    exact (f1.equationFields e).2.2.2.1
  · intro q hq
    exact k1.2 q hq
  · dsimp only at hc
    rw [f1.2.1] at hc
    by_cases hl : g.mEquations.length < 2
    · exact Or.inr hl
    · left
      intro e he hn
      apply hc
      refine ⟨by omega, ?_⟩
      rw [List.any_eq_true]
      refine ⟨e, he, ?_⟩
      show ((g1.equation e).mVariable).isNone = true
      rw [(f1.equationFields e).2.2.2.1, hn]
      rfl

/-- The equations that `generateEquationCode` emits for an equation have
a rank that is at most that of the equation, for any rank that decreases
along the dependencies. -/
theorem generateEquationCode_rank (g : GeneratorImpl) (only : Bool) (rk : Nat → Nat)
    (hrk : ∀ e d, d ∈ (g.equation e).mDependencies → rk d < rk e) :
    ∀ (fuel e : Nat) (R out R' : List Nat),
      generateEquationCode g only fuel e R = some (out, R') → ∀ x ∈ out, rk x ≤ rk e
  | 0, _, _, _, _, h => by simp [generateEquationCode] at h
  | fuel + 1, e, R, out, R', h => by
    have inner : ∀ (ds res R0 : List Nat) (r : List Nat × List Nat),
        (∀ d ∈ ds, rk d < rk e) → (∀ x ∈ res, rk x ≤ rk e) →
        forDependencies
          (fun dependency remaining =>
            if !only
                || (decide ((g.equation dependency).mType = GeneratorEquationType.ALGEBRAIC)
                    && (g.equation dependency).mIsStateRateBased) then
              generateEquationCode g only fuel dependency remaining
            else some ([], remaining)) ds res R0 = some r →
        ∀ x ∈ r.1, rk x ≤ rk e := by
      intro ds
      induction ds with
      | nil =>
        intro res R0 r _ hres hf
        simp only [forDependencies, Option.some.injEq] at hf
        subst hf
        exact hres
      | cons d ds ih =>
        intro res R0 r hds hres hf
        simp only [forDependencies] at hf
        split at hf
        · cases hf
        · rename_i r1 hr1
          refine ih (res ++ r1.1) r1.2 r (fun x hx => hds x (List.mem_cons_of_mem _ hx)) ?_ hf
          intro x hx
          rcases List.mem_append.1 hx with h1 | h1
          · exact hres x h1
          · split_ifs at hr1 with hc
            · have := generateEquationCode_rank g only rk hrk fuel d R0 r1.1 r1.2 hr1 x h1
              have := hds d (List.mem_cons_self _ _)
              omega
            · simp only [Option.some.injEq] at hr1
              subst hr1
              cases h1
    simp only [generateEquationCode] at h
    split at h
    · cases h
    · rename_i r hr
      have hin := inner (g.equation e).mDependencies [] R r (fun d hd => hrk e d hd)
        (fun x hx => absurd hx (List.not_mem_nil _)) hr
      split_ifs at h
      · simp only [Option.some.injEq, Prod.mk.injEq] at h
        obtain ⟨rfl, _⟩ := h
        intro x hx
        rcases List.mem_append.1 hx with h1 | h1
        · exact hin x h1
        · simp only [List.mem_singleton] at h1
          subst h1
          exact le_refl _
      · simp only [Option.some.injEq, Prod.mk.injEq] at h
        obtain ⟨rfl, _⟩ := h
        exact hin

theorem append_eq_split {α : Type} (body out pre post : List α) (y : α)
    (h : body ++ out = pre ++ y :: post) :
    (∃ post', body = pre ++ y :: post') ∨ (∃ pre', pre = body ++ pre' ∧ out = pre' ++ y :: post) := by
  rcases List.append_eq_append_iff.1 h with ⟨a, h1, h2⟩ | ⟨c, h1, h2⟩
  · exact Or.inr ⟨a, h1, h2⟩
  · rcases c with _ | ⟨z, c⟩
    · right
      refine ⟨[], by simpa using h1.symm, by simpa using h2.symm⟩
    · left
      simp only [List.cons_append, List.cons.injEq] at h2
      obtain ⟨rfl, _⟩ := h2
      exact ⟨c, h1⟩

/-- The loop over the equations of a procedure, when every dependency that
satisfies `cond` stands, in the list of the equations, before the equation
in the emission of which the dependent equation is emitted: in the body,
every equation comes after those of its dependencies that satisfy `cond`. -/
theorem generateEquationsCode_before (g : GeneratorImpl) (only : Bool) (M : List Nat)
    (hn : M.Nodup) (rk : Nat → Nat)
    (hrk : ∀ e d, d ∈ (g.equation e).mDependencies → rk d < rk e)
    (cond : Nat → Bool) (fuel : Nat)
    (H : ∀ eq y d, eq ∈ M → cond eq = true → rk y ≤ rk eq →
      d ∈ (g.equation y).mDependencies → cond d = true → Before M d eq) :
    ∀ (es done body R : List Nat), M = done ++ es → Emission g only M body R →
      (∀ e ∈ es, rk e < fuel) →
      (∀ x ∈ done, cond x = true → x ∈ body) →
      (∀ pre y post, body = pre ++ y :: post →
        ∀ d ∈ (g.equation y).mDependencies, cond d = true → d ∈ pre) →
      ∀ body' R', generateEquationsCode g only cond fuel es body R = some (body', R') →
        ∀ pre y post, body' = pre ++ y :: post →
          ∀ d ∈ (g.equation y).mDependencies, cond d = true → d ∈ pre
  | [], done, body, R, _, _, _, _, hG, body', R', h => by
    simp only [generateEquationsCode, Option.some.injEq, Prod.mk.injEq] at h
    obtain ⟨rfl, _⟩ := h
    exact hG
  | e :: es, done, body, R, hM, hE, hfuel, hdone, hG, body', R', h => by
    have hM' : M = (done ++ [e]) ++ es := by rw [hM]; simp
    have heM : e ∈ M := by rw [hM]; simp
    by_cases hc : cond e = true
    · have hE0 : Emission g only M ([] ++ body) R := by simpa using hE
      obtain ⟨out, R1, hgec, hE1, he1, _, _⟩ :=
        generateEquationCode_spec g only M rk hrk fuel e body R hE
          (hfuel e (List.mem_cons_self _ _))
      have hrank := generateEquationCode_rank g only rk hrk fuel e R out R1 hgec
      simp only [generateEquationsCode, hc, if_true, hgec] at h
      refine generateEquationsCode_before g only M hn rk hrk cond fuel H es (done ++ [e])
        (body ++ out) R1 hM' hE1 (fun x hx => hfuel x (List.mem_cons_of_mem _ hx)) ?_ ?_
        body' R' h
      · intro x hx hcx
        rcases List.mem_append.1 hx with h1 | h1
        · exact List.mem_append_left _ (hdone x h1 hcx)
        · simp only [List.mem_singleton] at h1
          subst h1
          rcases hE1.cover x heM with h2 | h2
          · exact h2
          · exact absurd h2 he1
      · intro pre y post hsplit d hd hcd
        rcases append_eq_split body out pre post y hsplit with ⟨post', hb⟩ | ⟨pre', hp, ho⟩
        · exact hG pre y post' hb d hd hcd
        · have hy : y ∈ out := by rw [ho]; simp
          have hbef := H e y d heM hc (hrank y hy) hd hcd
          have hdd := hbef.mem_initial hn hM
          rw [hp]
          exact List.mem_append_left _ (hdone d hdd hcd)
    · have hcf : cond e = false := by simpa using hc
      simp only [generateEquationsCode, hcf, Bool.false_eq_true, if_false] at h
      refine generateEquationsCode_before g only M hn rk hrk cond fuel H es (done ++ [e])
        body R hM' hE (fun x hx => hfuel x (List.mem_cons_of_mem _ hx)) ?_ hG body' R' h
      intro x hx hcx
      rcases List.mem_append.1 hx with h1 | h1
      · exact hdone x h1 hcx
      · simp only [List.mem_singleton] at h1
        subst h1
        rw [hcf] at hcx
        cases hcx

/-- The invariant on the indices of the computed variables holds when the
resolution loop is entered: no equation computes a variable yet. -/
theorem enterResolution_rankInv (m : Model) (isOne : String → Bool) (g g1 : GeneratorImpl)
    (hb : Built g) (hpre : prePass m isOne (resetResults g) = some g1)
    (hode : RatesTagged g g1) :
    RankInv (enterResolution g1).1 (enterResolution g1).2 := by
  obtain ⟨_, heq0, _, _⟩ := enterResolution_entryFacts m isOne g g1 hb hpre
    (fun e => hode.equation_rates e)
  have hnone : ∀ e, ((enterResolution g1).1.equation e).mVariable = none := by
    intro e
    rw [heq0]
    exact (hb.equation_fresh e).2.2.1
  refine ⟨fun e _ => hnone e, ?_, ?_, ?_⟩
  · intro e p hp
    rw [hnone] at hp
    cases hp
  · intro e p hp
    rw [hnone] at hp
    cases hp
  · intro e e' p p' hp
    rw [hnone] at hp
    cases hp

/-- The invariants of the resolution loop, with that on the indices of the
computed variables, hold when the loop is left, and the loop keeps the
number of records. -/
theorem resolveEquations_rankInv (m : Model) (isOne : String → Bool) (g g1 : GeneratorImpl)
    (hb : Built g)
    (hflags : ∀ x ∈ g.equationStore,
      x.mComputedTrueConstant = true ∧ x.mComputedVariableBasedConstant = true)
    (hpre : prePass m isOne (resetResults g) = some g1)
    (hode : RatesTagged g g1)
    (hptr : ∀ x ∈ g.equationStore, ∀ v ∈ x.mVariables ++ x.mOdeVariables,
      v < g1.variableStore.length)
    (hsize : g1.mInternalVariables.length + g.equationStore.length ≤ MAX_SIZE_T)
    (fuel : Nat) (r : GeneratorImpl × Counters)
    (hr : resolveEquations m.hasEquivalentVariable fuel (enterResolution g1).1
      (enterResolution g1).2 = some r) :
    (OrderInv r.1 r.2 ∧ KnowInv (enterResolution g1).1 r.1 r.2
      ∧ FlagInv (enterResolution g1).1 r.1)
    ∧ RankInv r.1 r.2
    ∧ r.1.variableStore.length = g1.variableStore.length := by
  have hE := (enterResolution_entryFacts m isOne g g1 hb hpre
    (fun e => hode.equation_rates e)).1
  exact resolveEquations_invariant m.hasEquivalentVariable
    (fun g c => (OrderInv g c ∧ KnowInv (enterResolution g1).1 g c
      ∧ FlagInv (enterResolution g1).1 g) ∧ RankInv g c
      ∧ g.variableStore.length = g1.variableStore.length)
    (fun g c self hs hi => ⟨⟨check_orderInv _ g self c hs hi.1.1,
      check_knowInv _ _ g self c hE hi.1.1 hi.1.2.1, check_flagInv _ _ g self c hi.1.2.1 hi.1.2.2⟩,
      check_rankInv _ g self c hi.1.1 hi.1.2.1.room hi.1.2.2.ranged hi.2.1,
      (check_storeLength _ g self c).2.trans hi.2.2⟩)
    fuel _ _ r
    ⟨⟨enterResolution_orderInv m isOne g g1 hb hpre,
      enterResolution_knowInv m isOne g g1 hb hpre hsize,
      enterResolution_flagInv m isOne g g1 hb hflags hpre hode hptr⟩,
      enterResolution_rankInv m isOne g g1 hb hpre hode,
      (enterResolution_registry g1).1⟩ hr

/-- The keys of the sort of the equations, at the end of the analysis of a
valid model of which every record is registered: an equation without order
computes no variable; the variable that an equation computes is a record of
the store, its tag is one of the four tags of a computed variable and the
type of the equation follows from it; and the indices of the variables that
equations of a type other than `RATE` compute grow with the orders of the
equations. -/
theorem analyseModel_sortKeys (m : Model) (isOne : String → Bool) (g g1 g2 : GeneratorImpl)
    (hb : Built g)
    (hflags : ∀ x ∈ g.equationStore,
      x.mComputedTrueConstant = true ∧ x.mComputedVariableBasedConstant = true)
    (hpre : prePass m isOne (resetResults g) = some g1)
    (hode : RatesTagged g g1)
    (hptr : ∀ x ∈ g.equationStore, ∀ v ∈ x.mVariables ++ x.mOdeVariables,
      v < g1.variableStore.length)
    (hsize : g1.mInternalVariables.length + g.equationStore.length ≤ MAX_SIZE_T)
    (hreg : ∀ q, q < g1.variableStore.length → q ∈ g1.mInternalVariables)
    (h : analyseModel m isOne g = some g2)
    (hv : g2.mModelType = ModelType.ODE ∨ g2.mModelType = ModelType.ALGEBRAIC) :
    (∀ e, (g2.equation e).mOrder = MAX_SIZE_T → (g2.equation e).mVariable = none)
    ∧ (∀ e q, (g2.equation e).mVariable = some q →
        q < g2.variableStore.length
        ∧ (g2.equation e).mType = equationTypeOf (g2.internalVariable q).mType
        ∧ isComputable (g2.internalVariable q).mType = true)
    ∧ (∀ e e' q q', (g2.equation e).mVariable = some q → (g2.equation e').mVariable = some q' →
        (g2.equation e).mType ≠ GeneratorEquationType.RATE →
        (g2.equation e').mType ≠ GeneratorEquationType.RATE →
        (g2.equation e).mOrder < (g2.equation e').mOrder →
        (g2.internalVariable q).mIndex < (g2.internalVariable q').mIndex) := by
  obtain ⟨g1', hpre', hcase⟩ := analyseModel_cases m isOne g g2 h
  rw [hpre] at hpre'
  simp only [Option.some.injEq] at hpre'
  subst hpre'
  rcases hcase with ⟨_, rfl⟩ | ⟨_, r, hr, rfl⟩
  · rcases hv with hv | hv <;> cases hv
  · obtain ⟨⟨_, _, hfl⟩, hrk, hlen⟩ := resolveEquations_rankInv m isOne g g1 hb hflags hpre hode
      hptr hsize _ r hr
    have hrep := reportInvalidVariables_frame r.1.mInternalVariables r.1
    have hdet := determineModelType_frame (reportInvalidVariables r.1.mInternalVariables r.1)
    have hst : ∀ d, (determineModelType
        (reportInvalidVariables r.1.mInternalVariables r.1)).equation d = r.1.equation d := by
      intro d
      unfold GeneratorImpl.equation
      rw [hdet.2.2.2.2, hrep.2.2.2.2.2]
    have hvs : (determineModelType
        (reportInvalidVariables r.1.mInternalVariables r.1)).variableStore
        = r.1.variableStore := by
      rw [hdet.2.2.2.1, hrep.2.2.2.2.1]
    have hrc : ∀ q, (determineModelType
        (reportInvalidVariables r.1.mInternalVariables r.1)).internalVariable q
        = r.1.internalVariable q := by
      intro q
      unfold GeneratorImpl.internalVariable
      rw [hvs]
    -- no registered record is overconstrained in a valid model
    have hover : hasOverconstrainedVariables
        (reportInvalidVariables r.1.mInternalVariables r.1) = false := by
      by_contra hc
      have hc1 : hasOverconstrainedVariables
          (reportInvalidVariables r.1.mInternalVariables r.1) = true := by simpa using hc
      unfold determineModelType at hv
      rw [hc1] at hv
      by_cases hu : hasUnderconstrainedVariables
          (reportInvalidVariables r.1.mInternalVariables r.1) = true
      · rw [if_pos hu] at hv
        simp at hv
      · rw [if_neg hu] at hv
        simp at hv
    have hsame := resolveEquations_sameResults _ _ _ _ r hr
    have hperm := (enterResolution_registry g1).2
    have hclean : ∀ q, q < r.1.variableStore.length →
        (r.1.internalVariable q).mType ≠ GeneratorInternalVariableType.OVERCONSTRAINED := by
      intro q hq hc
      have hmem : q ∈ (reportInvalidVariables r.1.mInternalVariables r.1).mInternalVariables := by
        rw [hrep.2.1, hsame.2.1]
        exact hperm.mem_iff.2 (hreg q (by rw [← hlen]; exact hq))
      have : hasOverconstrainedVariables
          (reportInvalidVariables r.1.mInternalVariables r.1) = true := by
        unfold hasOverconstrainedVariables
        rw [List.any_eq_true]
        refine ⟨q, hmem, ?_⟩
        have : (reportInvalidVariables r.1.mInternalVariables r.1).internalVariable q
            = r.1.internalVariable q := by
          unfold GeneratorImpl.internalVariable
          rw [hrep.2.2.2.2.1]
        rw [this, hc]
        rfl
      rw [hover] at this
      cases this
    refine ⟨?_, ?_, ?_⟩
    · intro e he
      rw [hst] at he ⊢
      exact hrk.unordered e he
    · intro e q hq
      rw [hst] at hq
      have hqr := hrk.ranged e q hq
      have hord : (r.1.equation e).mOrder ≠ MAX_SIZE_T := by
        intro hc
        rw [hrk.unordered e hc] at hq
        cases hq
      rw [hst, hrc, hvs]
      refine ⟨hqr, ?_⟩
      rcases hfl.solved e q hord hq with h1 | ⟨h1, h2, _⟩
      · exact absurd h1 (hclean q hqr)
      · exact ⟨h1, h2⟩
    · intro e e' q q' hq hq' ht ht' ho
      rw [hst] at hq hq' ht ht'
      rw [hst e, hst e'] at ho
      rw [hrc, hrc]
      exact hrk.mono e e' q q' hq hq' ht ht' ho

theorem two_le_length_of_mem {α : Type} (l : List α) (x y : α) (hx : x ∈ l) (hy : y ∈ l)
    (hne : x ≠ y) : 2 ≤ l.length := by
  rcases l with _ | ⟨a, _ | ⟨b, l⟩⟩
  · cases hx
  · simp only [List.mem_singleton] at hx hy
    exact absurd (hx.trans hy.symm) hne
  · simp

theorem algebraic_of_computable (t : GeneratorInternalVariableType)
    (hc : isComputable t = true)
    (h1 : equationTypeOf t ≠ GeneratorEquationType.TRUE_CONSTANT)
    (h2 : equationTypeOf t ≠ GeneratorEquationType.VARIABLE_BASED_CONSTANT)
    (h3 : equationTypeOf t ≠ GeneratorEquationType.RATE) :
    t = GeneratorInternalVariableType.ALGEBRAIC := by
  cases t <;> simp_all [isComputable, equationTypeOf]

/-- One of the four procedures, with the equations that remain: they are
among those that remained before. -/
theorem emitProcedure_remaining (g : GeneratorImpl) (h : Emittable g)
    (hord : ∀ e, (g.equation e).mOrder ≠ MAX_SIZE_T →
      (g.equation e).mOrder < g.equationStore.length)
    (only : Bool) (cond : Nat → Bool) (run : Prop) [Decidable run] (T R : List Nat)
    (hE : Emission g only g.mEquations T R) :
    ∃ body R', (if run then
          generateEquationsCode g only cond (g.equationStore.length + 1) g.mEquations [] R
        else some ([], R)) = some (body, R')
      ∧ Emission g only g.mEquations (T ++ body) R'
      ∧ (run → ∀ e ∈ g.mEquations, cond e = true → e ∉ R')
      ∧ (∀ x ∈ R', x ∈ R) := by
  by_cases hs : run
  · have hE0 : Emission g only g.mEquations (T ++ []) R := by rw [List.append_nil]; exact hE
    obtain ⟨body', R', hges, hE2, hnot2, hsub, _⟩ :=
      generateEquationsCode_spec g only g.mEquations (emissionRank g) (emissionRank_lt g h)
        cond (g.equationStore.length + 1) T g.mEquations [] R hE0
        (fun e _ => emissionRank_le g e (hord e))
    exact ⟨body', R', by simp [hs, hges], hE2, fun _ => hnot2, hsub⟩
  · exact ⟨[], R, by simp [hs], by rw [List.append_nil]; exact hE, fun h1 => absurd h1 hs,
      fun _ hx => hx⟩

/-- The body of compute-variables, for a profile that has the three
procedures that come before it and a list of equations in which an equation
that is left to compute-variables stands after those of lower rank: every
equation comes after those of its dependencies that the three procedures
have not emitted. -/
theorem emittedEquations_computeVariables_before (p : GeneratorProfile) (g : GeneratorImpl)
    (h : Emittable g)
    (hord : ∀ e, (g.equation e).mOrder ≠ MAX_SIZE_T →
      (g.equation e).mOrder < g.equationStore.length)
    (hs1 : p.implementationInitializeStatesAndConstantsMethodString ≠ "")
    (hs2 : p.implementationComputeComputedConstantsMethodString ≠ "")
    (hs3 : p.implementationComputeRatesMethodString ≠ "")
    (HB : ∀ d e, d ∈ g.mEquations → e ∈ g.mEquations →
      emissionRank g d < emissionRank g e → LeftToVariables g d → LeftToVariables g e →
      Before g.mEquations d e) :
    ∃ tr, emittedEquations p g = some tr
      ∧ ∀ pre y post, tr.computeVariables = pre ++ y :: post →
          ∀ d ∈ (g.equation y).mDependencies, d ∈ tr.remainingEquations → d ∈ pre := by
  obtain ⟨b1, R1, h1, hE1, hn1, hsub1⟩ := emitProcedure_remaining g h hord false
    (fun e => decide ((g.equation e).mType = GeneratorEquationType.TRUE_CONSTANT))
    (p.implementationInitializeStatesAndConstantsMethodString ≠ "") [] g.mEquations
    (Emission.atStart g false g.mEquations h.nodup)
  obtain ⟨b2, R2, h2, hE2, hn2, hsub2⟩ := emitProcedure_remaining g h hord false
    (fun e => decide ((g.equation e).mType = GeneratorEquationType.VARIABLE_BASED_CONSTANT))
    (p.implementationComputeComputedConstantsMethodString ≠ "") _ R1 hE1
  obtain ⟨b3, R3, h3, hE3, hn3, hsub3⟩ := emitProcedure_remaining g h hord false
    (fun e => decide ((g.equation e).mType = GeneratorEquationType.RATE))
    (p.implementationComputeRatesMethodString ≠ "") _ R2 hE2
  obtain ⟨b4, R4, h4, hE4, _, _⟩ := emitProcedure_remaining g h hord true
    (fun e => decide (e ∈ R3)
        || (decide ((g.equation e).mType = GeneratorEquationType.ALGEBRAIC)
            && (g.equation e).mIsStateRateBased))
    (p.implementationComputeVariablesMethodString ≠ "") [] g.mEquations
    (Emission.atStart g true g.mEquations h.nodup)
  refine ⟨{ initializeStatesAndConstants := b1, computeComputedConstants := b2,
            computeRates := b3, computeVariables := b4, remainingEquations := R3 }, ?_, ?_⟩
  · unfold emittedEquations
    simp only [h1, h2, h3, h4, Option.some_bind, Option.map_some']
  · dsimp only
    have hleft : ∀ x, (decide (x ∈ R3)
        || (decide ((g.equation x).mType = GeneratorEquationType.ALGEBRAIC)
            && (g.equation x).mIsStateRateBased)) = true → LeftToVariables g x := by
      intro x hx
      simp only [Bool.or_eq_true, decide_eq_true_eq, Bool.and_eq_true] at hx
      rcases hx with hx | ⟨hx, _⟩
      · have hx2 := hsub3 x hx
        have hx1 := hsub2 x hx2
        have hxM := hE3.subR x hx
        refine ⟨?_, ?_, ?_⟩
        · intro ht
          exact hn1 hs1 x hxM (by simpa using ht) hx1
        · intro ht
          exact hn2 hs2 x hxM (by simpa using ht) hx2
        · intro ht
          exact hn3 hs3 x hxM (by simpa using ht) hx
      · unfold LeftToVariables
        rw [hx]
        exact ⟨by decide, by decide, by decide⟩
    by_cases hcv : p.implementationComputeVariablesMethodString ≠ ""
    · rw [if_pos hcv] at h4
      intro pre y post hsplit d hd hdR
      refine generateEquationsCode_before g true g.mEquations h.nodup (emissionRank g)
        (emissionRank_lt g h) _ (g.equationStore.length + 1) ?_ g.mEquations [] [] g.mEquations
        (by simp) (Emission.atStart g true g.mEquations h.nodup)
        (fun e _ => emissionRank_le g e (hord e))
        (fun x hx => absurd hx (List.not_mem_nil _))
        (fun pre y post hx => by simp at hx)
        b4 R4 h4 pre y post hsplit d hd (by simpa using Or.inl hdR)
      intro eq y' d' heq hceq hle hd' hcd
      exact HB d' eq (h.member y' d' hd') heq
        (lt_of_lt_of_le (emissionRank_lt g h y' d' hd') hle) (hleft d' hcd) (hleft eq hceq)
    · rw [if_neg hcv] at h4
      simp only [Option.some.injEq, Prod.mk.injEq] at h4
      obtain ⟨rfl, _⟩ := h4
      intro pre y post hsplit
      simp at hsplit

/-- The list of the equations that `processModel` returns for a valid
model of which every record is registered: an equation of none of the types
`TRUE_CONSTANT`, `VARIABLE_BASED_CONSTANT` and `RATE` stands after the
equations of these types (none of the three) that have a lower order. -/
theorem processModel_sorted_before {F : Type} (m : Model) (num : Numerics F)
    (g g1 g3 : GeneratorImpl) (hb : Built g)
    (hflags : ∀ x ∈ g.equationStore,
      x.mComputedTrueConstant = true ∧ x.mComputedVariableBasedConstant = true)
    (hpre : prePass m num.isOne (resetResults g) = some g1)
    (hode : RatesTagged g g1)
    (hptr : ∀ x ∈ g.equationStore, ∀ v ∈ x.mVariables ++ x.mOdeVariables,
      v < g1.variableStore.length)
    (hsize : g1.mInternalVariables.length + g.equationStore.length ≤ MAX_SIZE_T)
    (hreg : ∀ q, q < g1.variableStore.length → q ∈ g1.mInternalVariables)
    (h : processModel m num g = some g3)
    (hv : g3.mModelType = ModelType.ODE ∨ g3.mModelType = ModelType.ALGEBRAIC) :
    ∀ d e, d ∈ g3.mEquations → e ∈ g3.mEquations →
      emissionRank g3 d < emissionRank g3 e → LeftToVariables g3 d → LeftToVariables g3 e →
      Before g3.mEquations d e := by
  unfold processModel at h
  simp only [Option.bind_eq_some] at h
  obtain ⟨g2, h2, h3⟩ := h
  obtain ⟨hfield, hlen, hperm⟩ := finaliseModel_fields m num g2 g3 h3
  have hv2 : g2.mModelType = ModelType.ODE ∨ g2.mModelType = ModelType.ALGEBRAIC := by
    rw [← finaliseModel_modelType m num g2 g3 h3]; exact hv
  obtain ⟨hun, hkey, hmono⟩ := analyseModel_sortKeys m num.isOne g g1 g2 hb hflags hpre hode
    hptr hsize hreg h2 hv2
  obtain ⟨gs, hM, hvar, hrec, hall⟩ := finaliseModel_sorted m num g2 g3 h3 hv2
  intro d e hd he hlt hld hle
  have hne : d ≠ e := by
    intro hc
    rw [hc] at hlt
    exact lt_irrefl _ hlt
  have hd2 : d ∈ g2.mEquations := hperm.mem_iff.1 hd
  have he2 : e ∈ g2.mEquations := hperm.mem_iff.1 he
  have hall2 : ∀ x ∈ g2.mEquations, (g2.equation x).mVariable ≠ none := by
    rcases hall with hall | hall
    · exact hall
    · have := two_le_length_of_mem _ d e hd2 he2 hne
      omega
  obtain ⟨pd, hpd⟩ := Option.ne_none_iff_exists'.1 (hall2 d hd2)
  obtain ⟨pe, hpe⟩ := Option.ne_none_iff_exists'.1 (hall2 e he2)
  have hod : (g2.equation d).mOrder ≠ MAX_SIZE_T := by
    intro hc
    rw [hun d hc] at hpd
    cases hpd
  have hoe : (g2.equation e).mOrder ≠ MAX_SIZE_T := by
    intro hc
    rw [hun e hc] at hpe
    cases hpe
  have hlt2 : (g2.equation d).mOrder < (g2.equation e).mOrder := by
    unfold emissionRank at hlt
    rw [(hfield d).1, (hfield e).1, if_neg hod, if_neg hoe] at hlt
    exact hlt
  obtain ⟨hrd, htd, hcd⟩ := hkey d pd hpd
  obtain ⟨hre, hte, hce⟩ := hkey e pe hpe
  obtain ⟨d1, d2, d3⟩ := hld
  obtain ⟨e1, e2, e3⟩ := hle
  rw [(hfield d).2.2.1] at d1 d2 d3
  rw [(hfield e).2.2.1] at e1 e2 e3
  have hTd : (g2.internalVariable pd).mType = GeneratorInternalVariableType.ALGEBRAIC :=
    algebraic_of_computable _ hcd (by rw [← htd]; exact d1) (by rw [← htd]; exact d2)
      (by rw [← htd]; exact d3)
  have hTe : (g2.internalVariable pe).mType = GeneratorInternalVariableType.ALGEBRAIC :=
    algebraic_of_computable _ hce (by rw [← hte]; exact e1) (by rw [← hte]; exact e2)
      (by rw [← hte]; exact e3)
  have hidx := hmono d e pd pe hpd hpe d3 e3 hlt2
  have hless : compareEquationsByVariable gs d e = true := by
    unfold compareEquationsByVariable
    rw [hvar d, hvar e, hpd, hpe]
    simp only [Option.getD_some]
    rw [compareVariablesByTypeAndIndex_iff, hrec pd hrd, hrec pe hre, hTd, hTe]
    exact Or.inr ⟨rfl, hidx⟩
  have hsorted := listSort_pairwise (compareEquationsByVariable gs)
    (compareEquationsByVariable_trans gs) (compareEquationsByVariable_asymm gs) g2.mEquations
  rw [← hM] at hsorted
  exact before_of_less (compareEquationsByVariable gs) (compareEquationsByVariable_asymm gs)
    g3.mEquations hsorted d e hd he hless

/-! ## C32, amended: the variables read in the body of compute-variables -/

/-- C32, amended.  For a generator `g` as the processing of the components
leaves it (the flags of its equations still set), pre-passed into `g1`
(every variable of which an equation references the rate being then tagged
as a state or as the variable of integration, the references of the
equations being records, every record being listed in `mInternalVariables`,
and the numbers of records and of equations fitting together in a `size_t`),
the generator `g3` of a valid model that `processModel` returns and a
profile that has the four methods, the emission of the equations ends.  Let
`e` be an equation with an order that is emitted in the body of
compute-variables,
after the equations `pre`; it computes a variable `x`.  Every other variable
`v` that `e` references was tagged by the pre-pass as the variable of
integration, a constant or a state, or is computed by an equation `d` of the
dependency list of `e` that is emitted earlier in that same body (it belongs
to `pre`) or by one of the three procedures that come before.  When `d` is
an equation of type `ALGEBRAIC` that is state/rate based, it is emitted
earlier in that same body.  When it is not, it is emitted in the body of
compute-variables exactly when none of the three earlier procedures has
emitted it, so that `e` may read a variable that an earlier procedure alone
assigns.  Every other variable of which `e` references the rate was tagged by
the pre-pass as the variable of integration or as a state. -/
theorem emittedEquations_computeVariables_reads {F : Type} (p : GeneratorProfile) (m : Model)
    (num : Numerics F) (g g1 g3 : GeneratorImpl)
    (hb : Built g)
    (hflags : ∀ x ∈ g.equationStore,
      x.mComputedTrueConstant = true ∧ x.mComputedVariableBasedConstant = true)
    (hpre : prePass m num.isOne (resetResults g) = some g1)
    (hode : RatesTagged g g1)
    (hptr : ∀ x ∈ g.equationStore, ∀ v ∈ x.mVariables ++ x.mOdeVariables,
      v < g1.variableStore.length)
    (hsize : g1.mInternalVariables.length + g.equationStore.length ≤ MAX_SIZE_T)
    (hreg : ∀ q, q < g1.variableStore.length → q ∈ g1.mInternalVariables)
    (h : processModel m num g = some g3)
    (hv : g3.mModelType = ModelType.ODE ∨ g3.mModelType = ModelType.ALGEBRAIC)
    (hs1 : p.implementationInitializeStatesAndConstantsMethodString ≠ "")
    (hs2 : p.implementationComputeComputedConstantsMethodString ≠ "")
    (hs3 : p.implementationComputeRatesMethodString ≠ "")
    (hcv : p.implementationComputeVariablesMethodString ≠ "") :
    ∃ tr, emittedEquations p g3 = some tr
      ∧ ∀ pre e post, tr.computeVariables = pre ++ e :: post →
          (g3.equation e).mOrder ≠ MAX_SIZE_T →
          ∃ x, (g3.equation e).mVariable = some x
            ∧ (∀ v ∈ (g.equation e).mVariables, v ≠ x →
                (g1.internalVariable v).mType
                    = GeneratorInternalVariableType.VARIABLE_OF_INTEGRATION
                ∨ (g1.internalVariable v).mType = GeneratorInternalVariableType.CONSTANT
                ∨ (g1.internalVariable v).mType = GeneratorInternalVariableType.STATE
                ∨ ∃ d ∈ (g3.equation e).mDependencies,
                    (g3.equation d).mVariable = some v
                    ∧ (d ∈ pre
                        ∨ d ∈ tr.initializeStatesAndConstants ++ tr.computeComputedConstants
                            ++ tr.computeRates)
                    ∧ ((g3.equation d).mType = GeneratorEquationType.ALGEBRAIC
                        ∧ (g3.equation d).mIsStateRateBased = true → d ∈ pre)
                    ∧ (¬((g3.equation d).mType = GeneratorEquationType.ALGEBRAIC
                          ∧ (g3.equation d).mIsStateRateBased = true) →
                        (d ∈ tr.computeVariables ↔
                          d ∉ tr.initializeStatesAndConstants ++ tr.computeComputedConstants
                            ++ tr.computeRates)))
            ∧ (∀ v ∈ (g.equation e).mOdeVariables, v ≠ x →
                (g1.internalVariable v).mType
                    = GeneratorInternalVariableType.VARIABLE_OF_INTEGRATION
                ∨ (g1.internalVariable v).mType = GeneratorInternalVariableType.STATE) := by
  obtain ⟨hem, hord⟩ := processModel_emitFacts m num g g3 hb h
  obtain ⟨tr, htr, hE, _, hcvs⟩ := emittedEquations_spec p g3 hem hord
  obtain ⟨tr1, htr1, hafter⟩ := emittedEquations_computeVariables_after p g3 hem hord
  obtain ⟨tr2, htr2, hbefore⟩ := emittedEquations_computeVariables_before p g3 hem hord
    hs1 hs2 hs3
    (processModel_sorted_before m num g g1 g3 hb hflags hpre hode hptr hsize hreg h hv)
  rw [htr] at htr1 htr2
  simp only [Option.some.injEq] at htr1 htr2
  subst htr1
  subst htr2
  refine ⟨tr, htr, ?_⟩
  intro pre e post hx he
  have h0 := h
  unfold processModel at h0
  simp only [Option.bind_eq_some] at h0
  obtain ⟨g2, h2, h3⟩ := h0
  obtain ⟨hfield, _, _⟩ := finaliseModel_fields m num g2 g3 h3
  have he2 : (g2.equation e).mOrder ≠ MAX_SIZE_T := by rw [← (hfield e).1]; exact he
  obtain ⟨x, hx2, hvs, hov⟩ :=
    analyseModel_dependency m num.isOne g g1 g2 hb hpre hode hsize h2 e he2
  obtain ⟨_, _, hty, _⟩ := enterResolution_entryFacts m num.isOne g g1 hb hpre
    (fun e => hode.equation_rates e)
  refine ⟨x, by rw [(hfield e).2.2.2.1]; exact hx2, ?_, ?_⟩
  · intro v hv0 hne
    rcases hvs v hv0 hne with h1 | h1 | h1 | ⟨d, hd, hdv⟩
    · rw [hty] at h1; exact Or.inl h1
    · rw [hty] at h1; exact Or.inr (Or.inl h1)
    · rw [hty] at h1; exact Or.inr (Or.inr (Or.inl h1))
    · have hd3 : d ∈ (g3.equation e).mDependencies := by rw [(hfield e).2.1]; exact hd
      have hdM : d ∈ g3.mEquations := hem.member e d hd3
      refine Or.inr (Or.inr (Or.inr ⟨d, hd3, by rw [(hfield d).2.2.2.1]; exact hdv, ?_, ?_, ?_⟩))
      · rcases hE.cover d hdM with h6 | h6
        · exact Or.inr h6
        · exact Or.inl (hbefore pre e post hx d hd3 h6)
      · rintro ⟨ht, hs⟩
        exact hafter pre e post hx d hd3 (by simp [followsDependency, ht, hs]) hdM
      · intro hnot
        rw [hcvs hcv d]
        constructor
        · rintro ⟨_, h5 | h5⟩
          · exact fun h6 => hE.disjoint d h6 h5
          · exact absurd h5 hnot
        · intro h5
          rcases hE.cover d hdM with h6 | h6
          · exact absurd h6 h5
          · exact ⟨hdM, Or.inl h6⟩
  · intro v hv0 hne
    rcases hov v hv0 hne with h1 | ⟨h1, _⟩
    · rw [hty] at h1; exact Or.inl h1
    · rw [hty] at h1; exact Or.inr h1

set_option maxRecDepth 8000 in
/-- C32, amended, at the model with the equations `dx/dt = a`, `a = t` and
`b = a` and the default (C) profile: the hypotheses hold, and so does the
conclusion.  The body of compute-variables holds the equation `b = a` alone;
it reads `a`, which the equation `a = t` of its dependency list computes, and
this equation, which is not state/rate based, is emitted by compute-rates
and not by compute-variables. -/
theorem emittedEquations_computeVariables_reads_witness :
    ((Built StaleRead.generator
        ∧ (∀ x ∈ StaleRead.generator.equationStore,
            x.mComputedTrueConstant = true ∧ x.mComputedVariableBasedConstant = true)
        ∧ prePass StaleRead.model DependentEqns.numerics.isOne
            (resetResults StaleRead.generator) = some StaleRead.prePassed
        ∧ RatesTagged StaleRead.generator StaleRead.prePassed
        ∧ (∀ x ∈ StaleRead.generator.equationStore, ∀ v ∈ x.mVariables ++ x.mOdeVariables,
            v < StaleRead.prePassed.variableStore.length)
        ∧ StaleRead.prePassed.mInternalVariables.length
            + StaleRead.generator.equationStore.length ≤ MAX_SIZE_T
        ∧ (∀ q, q < StaleRead.prePassed.variableStore.length →
            q ∈ StaleRead.prePassed.mInternalVariables))
      ∧ processModel StaleRead.model DependentEqns.numerics StaleRead.generator
          = some StaleRead.processed
      ∧ (StaleRead.processed.mModelType = ModelType.ODE
          ∨ StaleRead.processed.mModelType = ModelType.ALGEBRAIC)
      ∧ ({} : GeneratorProfile).implementationInitializeStatesAndConstantsMethodString ≠ ""
      ∧ ({} : GeneratorProfile).implementationComputeComputedConstantsMethodString ≠ ""
      ∧ ({} : GeneratorProfile).implementationComputeRatesMethodString ≠ ""
      ∧ ({} : GeneratorProfile).implementationComputeVariablesMethodString ≠ "")
    ∧ ∃ tr, emittedEquations {} StaleRead.processed = some tr
      ∧ ∀ pre e post, tr.computeVariables = pre ++ e :: post →
          (StaleRead.processed.equation e).mOrder ≠ MAX_SIZE_T →
          ∃ x, (StaleRead.processed.equation e).mVariable = some x
            ∧ (∀ v ∈ (StaleRead.generator.equation e).mVariables, v ≠ x →
                (StaleRead.prePassed.internalVariable v).mType
                    = GeneratorInternalVariableType.VARIABLE_OF_INTEGRATION
                ∨ (StaleRead.prePassed.internalVariable v).mType
                    = GeneratorInternalVariableType.CONSTANT
                ∨ (StaleRead.prePassed.internalVariable v).mType
                    = GeneratorInternalVariableType.STATE
                ∨ ∃ d ∈ (StaleRead.processed.equation e).mDependencies,
                    (StaleRead.processed.equation d).mVariable = some v
                    ∧ (d ∈ pre
                        ∨ d ∈ tr.initializeStatesAndConstants ++ tr.computeComputedConstants
                            ++ tr.computeRates)
                    ∧ ((StaleRead.processed.equation d).mType = GeneratorEquationType.ALGEBRAIC
                        ∧ (StaleRead.processed.equation d).mIsStateRateBased = true → d ∈ pre)
                    ∧ (¬((StaleRead.processed.equation d).mType
                            = GeneratorEquationType.ALGEBRAIC
                          ∧ (StaleRead.processed.equation d).mIsStateRateBased = true) →
                        (d ∈ tr.computeVariables ↔
                          d ∉ tr.initializeStatesAndConstants ++ tr.computeComputedConstants
                            ++ tr.computeRates)))
            ∧ (∀ v ∈ (StaleRead.generator.equation e).mOdeVariables, v ≠ x →
                (StaleRead.prePassed.internalVariable v).mType
                    = GeneratorInternalVariableType.VARIABLE_OF_INTEGRATION
                ∨ (StaleRead.prePassed.internalVariable v).mType
                    = GeneratorInternalVariableType.STATE) := by
  have hgen : Built StaleRead.generator
      ∧ (∀ x ∈ StaleRead.generator.equationStore,
          x.mComputedTrueConstant = true ∧ x.mComputedVariableBasedConstant = true)
      ∧ prePass StaleRead.model DependentEqns.numerics.isOne
          (resetResults StaleRead.generator) = some StaleRead.prePassed
      ∧ RatesTagged StaleRead.generator StaleRead.prePassed
      ∧ (∀ x ∈ StaleRead.generator.equationStore, ∀ v ∈ x.mVariables ++ x.mOdeVariables,
          v < StaleRead.prePassed.variableStore.length)
      ∧ StaleRead.prePassed.mInternalVariables.length
          + StaleRead.generator.equationStore.length ≤ MAX_SIZE_T
      ∧ (∀ q, q < StaleRead.prePassed.variableStore.length →
          q ∈ StaleRead.prePassed.mInternalVariables) :=
    ⟨by decide, by decide, by decide, by decide, by decide, by decide, by decide⟩
  have hrun : processModel StaleRead.model DependentEqns.numerics StaleRead.generator
      = some StaleRead.processed := by decide
  have hvalid : StaleRead.processed.mModelType = ModelType.ODE
      ∨ StaleRead.processed.mModelType = ModelType.ALGEBRAIC := by decide
  exact ⟨⟨hgen, hrun, hvalid, by decide, by decide, by decide, by decide⟩,
    emittedEquations_computeVariables_reads {} StaleRead.model DependentEqns.numerics
      StaleRead.generator StaleRead.prePassed StaleRead.processed hgen.1 hgen.2.1 hgen.2.2.1
      hgen.2.2.2.1 hgen.2.2.2.2.1 hgen.2.2.2.2.2.1 hgen.2.2.2.2.2.2 hrun hvalid
      (by decide) (by decide) (by decide) (by decide)⟩

end libcellml
